import Mathlib

/-!
# Tank game engine: a shallow embedding of `GM_209277367_322542887`

The definitions follow `GameManager/GM_src/GM_209277367_322542887.cpp`,
`GameManager/GM_src/TankInfo.cpp`, `UserCommon/UC_src/Shell.cpp` and
`UserCommon/UC_include/Direction.h`.  Member functions of the game manager become
functions on the record `GM`; a reference `TankInfo& tank` becomes the index of the
tank in `tanks_`, an iterator into `shells_` becomes an index.

Conventions.
* `int` values are unbounded integers, `size_t` values are naturals; the one place where a
  `size_t` wraps (`noAmmoTimer_--`, `tanks_.size() - destroyedTanksIndices_.size()`) is
  written with an explicit `% 2 ^ 64`, and the `size_t -> int` assignments in `run` go
  through `toInt32`.
* The verbose log is write-only and is left out.
* The tank algorithms are outside the engine: their answers are an oracle
  `turn -> tank index -> ActionRequest`.
* Where the C++ would dereference `shells_.end()` or index `tanks_[-1]` the model sets the
  flag `ub` and gives up the operation in progress.
* `moveShells` is a loop that need not terminate, so it takes fuel and returns `none` when
  the fuel runs out.
-/

namespace TankGame

/-! ## Data model -/

/-- Values of `enum class ActionRequest`, in the order used by `getEnumName`. -/
inductive ActionRequest
  | MoveForward
  | MoveBackward
  | RotateLeft90
  | RotateRight90
  | RotateLeft45
  | RotateRight45
  | Shoot
  | GetBattleInfo
  | DoNothing
  deriving DecidableEq, Repr, Inhabited

/-- Values of `enum class Direction { U, UR, R, DR, D, DL, L, UL }`. -/
inductive Direction
  | U
  | UR
  | R
  | DR
  | D
  | DL
  | L
  | UL
  deriving DecidableEq, Repr, Inhabited

/-- Integer value of a direction (`static_cast<int>(dir)`). -/
def Direction.toNat : Direction → Nat
  | .U => 0
  | .UR => 1
  | .R => 2
  | .DR => 3
  | .D => 4
  | .DL => 5
  | .L => 6
  | .UL => 7

/-- Direction of an integer in `0..7` (`static_cast<Direction>(n)`), taken modulo 8. -/
def Direction.castNat (n : Nat) : Direction :=
  match n % 8 with
  | 0 => .U
  | 1 => .UR
  | 2 => .R
  | 3 => .DR
  | 4 => .D
  | 5 => .DL
  | 6 => .L
  | _ => .UL

/-- The table `directionMap` of `Direction.h`. -/
def directionMap : Direction → Int × Int
  | .U => (0, -1)
  | .UR => (1, -1)
  | .R => (1, 0)
  | .DR => (1, 1)
  | .D => (0, 1)
  | .DL => (-1, 1)
  | .L => (-1, 0)
  | .UL => (-1, -1)

/-- The record `TankInfo` without its algorithm handle `tank_`. -/
structure TankInfo where
  id_ : Int
  location_ : Int × Int
  dir_ : Direction
  ammo_ : Int
  playerId_ : Int
  turnsToShoot_ : Int
  turnsToBackwards_ : Int
  backwardsFlag_ : Bool
  justMovedBackwards_ : Bool
  turnsDead_ : Int
  deriving DecidableEq, Repr, Inhabited

/-- The constructor `TankInfo::TankInfo`. -/
def TankInfo.mk0 (id : Int) (loc : Int × Int) (ammo : Int) (player_id : Int) : TankInfo :=
  { id_ := id, location_ := loc, dir_ := if player_id = 1 then .L else .R, ammo_ := ammo,
    playerId_ := player_id, turnsToShoot_ := 0, turnsToBackwards_ := 2,
    backwardsFlag_ := false, justMovedBackwards_ := false, turnsDead_ := 0 }

def TankInfo.setLocation (t : TankInfo) (x y : Int) : TankInfo :=
  { t with location_ := (x, y) }

def TankInfo.setDirection (t : TankInfo) (d : Direction) : TankInfo :=
  { t with dir_ := d }

def TankInfo.decreaseTurnsToShoot (t : TankInfo) : TankInfo :=
  { t with turnsToShoot_ := if t.turnsToShoot_ > 0 then t.turnsToShoot_ - 1 else 0 }

def TankInfo.decreaseTurnsToBackwards (t : TankInfo) : TankInfo :=
  { t with turnsToBackwards_ := t.turnsToBackwards_ - 1 }

def TankInfo.restartTurnsToBackwards (t : TankInfo) : TankInfo :=
  { t with turnsToBackwards_ := 2 }

def TankInfo.zeroTurnsToBackwards (t : TankInfo) : TankInfo :=
  { t with turnsToBackwards_ := 0 }

def TankInfo.switchBackwardsFlag (t : TankInfo) : TankInfo :=
  { t with backwardsFlag_ := !t.backwardsFlag_ }

def TankInfo.switchJustMovedBackwardsFlag (t : TankInfo) : TankInfo :=
  { t with justMovedBackwards_ := !t.justMovedBackwards_ }

def TankInfo.resetTurnsToShoot (t : TankInfo) : TankInfo :=
  { t with turnsToShoot_ := 4 }

def TankInfo.decreaseAmmo (t : TankInfo) : TankInfo :=
  { t with ammo_ := max 0 (t.ammo_ - 1) }

def TankInfo.increaseTurnsDead (t : TankInfo) : TankInfo :=
  { t with turnsDead_ := t.turnsDead_ + 1, location_ := (-1, -1) }

/-- The class `Shell`. -/
structure Shell where
  location_ : Int × Int
  direction_ : Direction
  aboveMine_ : Bool
  deriving DecidableEq, Repr, Inhabited

/-- The constructors of `Shell`: `aboveMine_` starts false. -/
def Shell.mk0 (x y : Int) (dir : Direction) : Shell :=
  { location_ := (x, y), direction_ := dir, aboveMine_ := false }

/-- Values of `GameResult::Reason`. -/
inductive Reason
  | ALL_TANKS_DEAD
  | MAX_STEPS
  | ZERO_SHELLS
  deriving DecidableEq, Repr, Inhabited

/-- Conversion `static_cast<GameResult::Reason>(reason)` for the values the engine passes. -/
def Reason.castNat : Nat → Reason
  | 0 => .ALL_TANKS_DEAD
  | 1 => .MAX_STEPS
  | _ => .ZERO_SHELLS

/-- The board `vector<vector<char>>`, indexed `[y][x]`. -/
abbrev Board := List (List Char)

/-- The struct `GameResult`; `gameState` is `none` for a null pointer. -/
structure GameResult where
  winner : Int
  reason : Reason
  remaining_tanks : List Nat
  gameState : Option Board
  rounds : Nat
  deriving DecidableEq, Repr, Inhabited

/-- The character read outside the grid (the C++ read is out of bounds there). -/
def NUL : Char := Char.ofNat 0

/-- Read of `board[y][x]`. -/
def cellAt (b : Board) (x y : Int) : Char :=
  if 0 ≤ x ∧ 0 ≤ y then (b.getD y.toNat []).getD x.toNat NUL else NUL

/-- Write `board[y][x] = c`; a write outside the grid is dropped. -/
def setCell (b : Board) (x y : Int) (c : Char) : Board :=
  if 0 ≤ x ∧ 0 ≤ y then b.modify (fun row => row.set x.toNat c) y.toNat else b

/-- The data members of `GM_209277367_322542887` that the engine reads or writes,
plus the model flag `ub`. -/
structure GM where
  gameboard_ : Board
  tanks_ : List TankInfo
  destroyedTanksIndices_ : List Nat
  shells_ : List Shell
  gameResult_ : GameResult
  numShells_ : Int
  maxSteps_ : Int
  gameOver_ : Bool
  width_ : Int
  height_ : Int
  turn_ : Int
  noAmmoFlag_ : Bool
  gameOverStatus_ : Nat
  noAmmoTimer_ : Nat
  numTanks1_ : Nat
  numTanks2_ : Nat
  lastRoundGameboard_ : Board
  tankActions_ : List (ActionRequest × Bool)
  ub : Bool
  deriving DecidableEq, Repr, Inhabited

/-- Answers of the tank algorithms: `oracle turn i` is what `getAction()` of tank `i`
returns in turn `turn`. -/
abbrev Oracle := Nat → Nat → ActionRequest

/-- Assignment of a `size_t` to an `int` (two's complement, 32 bits). -/
def toInt32 (n : Nat) : Int :=
  if n % 2 ^ 32 < 2 ^ 31 then ((n % 2 ^ 32 : Nat) : Int) else ((n % 2 ^ 32 : Nat) : Int) - 2 ^ 32

/-- Subtraction of two `size_t` values. -/
def sizeSub (a b : Nat) : Nat := (a + 2 ^ 64 - b % 2 ^ 64) % 2 ^ 64

/-! ## Access helpers -/

/-- The tank `*tanks_[i]`. -/
def tankAt (s : GM) (i : Nat) : TankInfo := s.tanks_.getD i default

/-- Apply a `TankInfo` member function to `*tanks_[i]`. -/
def modifyTank (s : GM) (i : Nat) (f : TankInfo → TankInfo) : GM :=
  { s with tanks_ := s.tanks_.modify f i }

/-- The shell `*shells_[i]`. -/
def shellAt (s : GM) (i : Nat) : Shell := s.shells_.getD i default

/-- Apply a `Shell` member function to `*shells_[i]`. -/
def modifyShell (s : GM) (i : Nat) (f : Shell → Shell) : GM :=
  { s with shells_ := s.shells_.modify f i }

/-- Write `gameboard_[y][x] = c`. -/
def setBoard (s : GM) (x y : Int) (c : Char) : GM :=
  { s with gameboard_ := setCell s.gameboard_ x y c }

/-- First index of a list element satisfying `p`. -/
def firstIdx {α : Type} (p : α → Bool) : List α → Option Nat
  | [] => none
  | a :: l => if p a then some 0 else (firstIdx p l).map (· + 1)

/-- Member `getTankIndexAt`: `none` stands for the result `-1`. -/
def getTankIndexAt (s : GM) (x y : Int) : Option Nat :=
  firstIdx (fun t => decide (t.location_ = (x, y))) s.tanks_

/-- Member `getShellAt`: `none` stands for `shells_.end()`. -/
def getShellAt (s : GM) (x y : Int) : Option Nat :=
  firstIdx (fun sh => decide (sh.location_ = (x, y))) s.shells_

/-- Member `deleteShell` (and `shells_.erase`). -/
def deleteShell (s : GM) (j : Nat) : GM :=
  { s with shells_ := s.shells_.eraseIdx j }

/-- The pair of statements `destroyedTanksIndices_.insert(k); tanks_[k]->increaseTurnsDead();`. -/
def destroyTank (s : GM) (k : Nat) : GM :=
  { s with
    destroyedTanksIndices_ :=
      if k ∈ s.destroyedTanksIndices_ then s.destroyedTanksIndices_
      else s.destroyedTanksIndices_ ++ [k],
    tanks_ := s.tanks_.modify TankInfo.increaseTurnsDead k }

/-- Member `nextLocation` (C++ `%` truncates, hence `Int.tmod`). -/
def nextLocation (s : GM) (x y : Int) (dir : Direction) (backwards : Bool) : Int × Int :=
  let d := directionMap dir
  let dx := if backwards then -d.1 else d.1
  let dy := if backwards then -d.2 else d.2
  ((x + dx + s.width_).tmod s.width_, (y + dy + s.height_).tmod s.height_)

/-! ## Action phase -/

/-- Member `isValidMove`. -/
def isValidMove (s : GM) (tank : TankInfo) (action : ActionRequest) : Bool :=
  let n := nextLocation s tank.location_.1 tank.location_.2 tank.dir_
    (decide (action = .MoveBackward))
  let next_cell := cellAt s.gameboard_ n.1 n.2
  decide (next_cell ≠ '#' ∧ next_cell ≠ '$')

/-- Member `isValidShoot`. -/
def isValidShoot (tank : TankInfo) : Bool :=
  decide (tank.ammo_ > 0 ∧ tank.turnsToShoot_ = 0)

/-- Member `isValidAction`. -/
def isValidAction (s : GM) (tank : TankInfo) (action : ActionRequest) : Bool :=
  match action with
  | .MoveForward => isValidMove s tank action
  | .MoveBackward => isValidMove s tank action
  | .Shoot => isValidShoot tank
  | _ => true

/-- The `switch` of member `shoot` on the cell ahead, after the validity test. -/
def shootAt (s : GM) (new_x new_y : Int) (dir : Direction) : GM :=
  let c := cellAt s.gameboard_ new_x new_y
  if c = '#' then setBoard s new_x new_y '$'
  else if c = '$' then setBoard s new_x new_y ' '
  else if c = '1' then
    let s1 := setBoard s new_x new_y 'c'
    { s1 with shells_ := s1.shells_ ++ [Shell.mk0 new_x new_y dir] }
  else if c = '2' then
    let s1 := setBoard s new_x new_y 'd'
    { s1 with shells_ := s1.shells_ ++ [Shell.mk0 new_x new_y dir] }
  else if c = '*' then
    let s1 := setBoard s new_x new_y ' '
    match getShellAt s1 new_x new_y with
    | some j => deleteShell s1 j
    | none => s1
  else if c = '@' then
    let s1 := { s with shells_ := s.shells_ ++ [Shell.mk0 new_x new_y dir] }
    let s2 := setBoard s1 new_x new_y '*'
    modifyShell s2 (s2.shells_.length - 1) (fun sh => { sh with aboveMine_ := true })
  else
    let s1 := setBoard s new_x new_y '*'
    { s1 with shells_ := s1.shells_ ++ [Shell.mk0 new_x new_y dir] }

/-- Member `shoot` for the tank `*tanks_[i]`. -/
def shoot (s : GM) (i : Nat) : GM :=
  if ¬ isValidShoot (tankAt s i) then modifyTank s i TankInfo.decreaseTurnsToShoot
  else
    let s1 := modifyTank s i TankInfo.resetTurnsToShoot
    let s2 := modifyTank s1 i TankInfo.decreaseAmmo
    let tank := tankAt s2 i
    let n := nextLocation s2 tank.location_.1 tank.location_.2 tank.dir_ false
    shootAt s2 n.1 n.2 tank.dir_

/-- The character `static_cast<char>('0' + player_id)`. -/
def digitOf (player_id : Int) : Char := Char.ofNat ((48 + player_id) % 256).toNat

/-- Member `handleTankCollisionAt` for the tank `*tanks_[i]`. -/
def handleTankCollisionAt (s : GM) (i : Nat) (old_x old_y new_x new_y : Int)
    (dir : Direction) (next_cell : Char) : GM :=
  let player_id := (tankAt s i).playerId_
  if next_cell = ' ' then
    modifyTank (setBoard s new_x new_y (digitOf player_id)) i
      (fun t => t.setLocation new_x new_y)
  else if next_cell = '@' then
    match getTankIndexAt s old_x old_y with
    | some k => setBoard (destroyTank s k) new_x new_y ' '
    | none => { s with ub := true }
  else if next_cell = '*' then
    match getShellAt s new_x new_y with
    | none => { s with ub := true }
    | some j =>
      let shell_dir := (shellAt s j).direction_.toNat
      if dir.toNat = (shell_dir + 4) % 8 then
        match getTankIndexAt s old_x old_y with
        | some k => setBoard (deleteShell (destroyTank s k) j) new_x new_y ' '
        | none => { s with ub := true }
      else
        modifyTank (setBoard s new_x new_y (if player_id = 1 then 'a' else 'b')) i
          (fun t => t.setLocation new_x new_y)
  else
    match getTankIndexAt s old_x old_y with
    | none => { s with ub := true }
    | some self_idx =>
      let other_idx := getTankIndexAt s new_x new_y
      let s1 := destroyTank s self_idx
      let s2 := match other_idx with
        | some o => destroyTank s1 o
        | none => s1
      setBoard s2 new_x new_y ' '

/-- Member `moveTank` for the tank `*tanks_[i]`. -/
def moveTank (s : GM) (i : Nat) (action : ActionRequest) : GM :=
  let tank := tankAt s i
  let x := tank.location_.1
  let y := tank.location_.2
  let s1 := setBoard s x y ' '
  let dir := if action = .MoveBackward then Direction.castNat ((tank.dir_.toNat + 4) % 8)
    else tank.dir_
  let n := nextLocation s1 x y dir false
  let next_cell := cellAt s1.gameboard_ n.1 n.2
  handleTankCollisionAt s1 i x y n.1 n.2 dir next_cell

/-- Member `rotate` for the tank `*tanks_[i]`. -/
def rotate (s : GM) (i : Nat) (action : ActionRequest) : GM :=
  let dir := (tankAt s i).dir_
  let new_dir := match action with
    | .RotateLeft45 => Direction.castNat ((dir.toNat + 8 - 1) % 8)
    | .RotateRight45 => Direction.castNat ((dir.toNat + 1) % 8)
    | .RotateLeft90 => Direction.castNat ((dir.toNat + 8 - 2) % 8)
    | .RotateRight90 => Direction.castNat ((dir.toNat + 2) % 8)
    | _ => dir
  modifyTank s i (fun t => t.setDirection new_dir)

/-- The `GetBattleInfo` case of `performAction`: the tank cell of `lastRoundGameboard_`
is marked with the percent sign, the player is called, and the cell is restored. -/
def getBattleInfo (s : GM) (i : Nat) : GM :=
  let loc := (tankAt s i).location_
  let curr_loc := cellAt s.lastRoundGameboard_ loc.1 loc.2
  let marked := setCell s.lastRoundGameboard_ loc.1 loc.2 '%'
  modifyTank { s with lastRoundGameboard_ := setCell marked loc.1 loc.2 curr_loc } i
    TankInfo.decreaseTurnsToShoot

/-- The final `switch` of `performAction`, reached with a valid action and no backward
move pending. -/
def performValid (s : GM) (action : ActionRequest) (i : Nat) : GM :=
  match action with
  | .MoveForward => modifyTank (moveTank s i action) i TankInfo.decreaseTurnsToShoot
  | .Shoot => shoot s i
  | .DoNothing => modifyTank s i TankInfo.decreaseTurnsToShoot
  | .MoveBackward => s
  | .GetBattleInfo => getBattleInfo s i
  | _ => modifyTank (rotate s i action) i TankInfo.decreaseTurnsToShoot

/-- The part of `performAction` run while `isMovingBackwards()` holds. -/
def performBackwards (s : GM) (action : ActionRequest) (i : Nat) : GM × Bool :=
  let s3 := modifyTank s i TankInfo.decreaseTurnsToShoot
  if action = .MoveForward then
    (modifyTank (modifyTank s3 i TankInfo.switchBackwardsFlag) i
      TankInfo.restartTurnsToBackwards, false)
  else if (tankAt s3 i).turnsToBackwards_ = 0 then
    let s4 := if isValidAction s3 (tankAt s3 i) .MoveBackward then
        modifyTank (moveTank s3 i .MoveBackward) i TankInfo.switchJustMovedBackwardsFlag
      else s3
    (modifyTank (modifyTank s4 i TankInfo.restartTurnsToBackwards) i
      TankInfo.switchBackwardsFlag, false)
  else
    let succ := decide ((tankAt s3 i).turnsToBackwards_ = 2)
    (modifyTank s3 i TankInfo.decreaseTurnsToBackwards, succ)

/-- Lines 340-346 of `performAction`: the just-moved-backwards flag is dropped by any
action other than `MoveBackward`, and a `MoveBackward` request of a tank that is not
moving backwards switches the backwards flag on. -/
def backwardsRequest (s : GM) (action : ActionRequest) (i : Nat) : GM :=
  let s1 := if (tankAt s i).justMovedBackwards_ = true ∧ action ≠ .MoveBackward then
      modifyTank s i TankInfo.switchJustMovedBackwardsFlag
    else s
  if action = .MoveBackward ∧ (tankAt s1 i).backwardsFlag_ = false then
    let s1a := if (tankAt s1 i).justMovedBackwards_ = true then
        modifyTank s1 i TankInfo.zeroTurnsToBackwards
      else s1
    modifyTank s1a i TankInfo.switchBackwardsFlag
  else s1

/-- Member `performAction` for the tank `*tanks_[i]`; the Boolean is the return value. -/
def performAction (s : GM) (action : ActionRequest) (i : Nat) : GM × Bool :=
  if (tankAt s i).justMovedBackwards_ = true ∧ action = .MoveBackward then
    if isValidAction s (tankAt s i) .MoveBackward then (moveTank s i .MoveBackward, true)
    else (s, false)
  else
    let s2 := backwardsRequest s action i
    if (tankAt s2 i).backwardsFlag_ = true then performBackwards s2 action i
    else if ¬ isValidAction s2 (tankAt s2 i) action then
      (modifyTank s2 i TankInfo.decreaseTurnsToShoot, false)
    else (performValid s2 action i, true)

/-- Member `getTankActions` in turn `turn`. -/
def getTankActions (s : GM) (oracle : Oracle) : GM :=
  { s with tankActions_ := (List.range s.tanks_.length).map (fun i =>
      if (tankAt s i).turnsDead_ = 0 then (oracle s.turn_.toNat i, true)
      else (ActionRequest.DoNothing, false)) }

/-- The action recorded for tank `i` (`tankActions_[i].first`). -/
def actionOf (s : GM) (i : Nat) : ActionRequest := (s.tankActions_.getD i default).1

/-- One iteration of the loop of `performTankActions`. -/
def performTankActionStep (s : GM) (i : Nat) : GM :=
  if (tankAt s i).turnsDead_ = 0 then
    let r := performAction s (actionOf s i) i
    if r.2 then r.1
    else { r.1 with tankActions_ := r.1.tankActions_.modify (fun a => (a.1, false)) i }
  else s

/-- Member `performTankActions`. -/
def performTankActions (s : GM) : GM :=
  (List.range s.tanks_.length).foldl performTankActionStep s

/-! ## Shell phase -/

/-- Member `clearPreviousShellPosition` for the shell `*shells_[it]`. -/
def clearPreviousShellPosition (s : GM) (it : Nat) : GM :=
  let shell := shellAt s it
  let x := shell.location_.1
  let y := shell.location_.2
  let c := cellAt s.gameboard_ x y
  if shell.aboveMine_ = true then
    modifyShell (setBoard s x y '@') it (fun sh => { sh with aboveMine_ := false })
  else if c = '^' then setBoard s x y '*'
  else if c = 'a' ∨ c = 'b' then setBoard s x y (if c = 'a' then '1' else '2')
  else if c ≠ '1' ∧ c ≠ '2' ∧ c ≠ '@' then setBoard s x y ' '
  else s

/-- Member `handleShellSpawnOnTank` for the shell `*shells_[it]`: new state, new iterator
and return value. -/
def handleShellSpawnOnTank (s : GM) (it : Nat) : GM × Nat × Bool :=
  let shell := shellAt s it
  let x := shell.location_.1
  let y := shell.location_.2
  let cell := cellAt s.gameboard_ x y
  if cell = 'c' ∨ cell = 'd' then
    match getTankIndexAt s x y with
    | some k => (deleteShell (setBoard (destroyTank s k) x y ' ') it, it, true)
    | none => (s, it, false)
  else (s, it, false)

/-- Member `handleShellCollision` for the shell `*shells_[it]`: new state, new iterator
and return value. -/
def handleShellCollision (s : GM) (it : Nat) (x y : Int) (dir : Direction) :
    GM × Nat × Bool :=
  match getShellAt s x y with
  | none => ({ s with ub := true }, it, true)
  | some other =>
    let other_dir := (shellAt s other).direction_
    if dir.toNat = (other_dir.toNat + 4) % 8 then
      let s1 := setBoard s x y ' '
      if it < other then
        let s2 := deleteShell (deleteShell s1 other) it
        (s2, it, s2.shells_.isEmpty)
      else
        let s2 := deleteShell (deleteShell s1 it) other
        (s2, other, s2.shells_.isEmpty)
    else
      (setBoard (modifyShell s it (fun sh => { sh with location_ := (x, y) })) x y '^',
        it + 1, false)

/-- Member `handleShellMoveToNextCell` for the shell `*shells_[it]`: new state and new
iterator. -/
def handleShellMoveToNextCell (s : GM) (it : Nat) (x y : Int) (next_cell : Char) :
    GM × Nat :=
  if next_cell = '#' then (deleteShell (setBoard s x y '$') it, it)
  else if next_cell = '$' then (deleteShell (setBoard s x y ' ') it, it)
  else if next_cell = '1' ∨ next_cell = '2' then
    match getTankIndexAt s x y with
    | some k => (deleteShell (setBoard (destroyTank s k) x y ' ') it, it)
    | none => (s, it)
  else if next_cell = '@' then
    (modifyShell (setBoard (modifyShell s it (fun sh => { sh with location_ := (x, y) }))
      x y '*') it (fun sh => { sh with aboveMine_ := true }), it + 1)
  else if next_cell = ' ' then
    (setBoard (modifyShell s it (fun sh => { sh with location_ := (x, y) })) x y '*', it + 1)
  else (s, it + 1)

/-- One iteration of the loop of `moveShells` at iterator `it`: new state, new iterator,
and whether the function returns. -/
def moveShellsStep (s : GM) (it : Nat) : GM × Nat × Bool :=
  let shell := shellAt s it
  let dir := shell.direction_
  let n := nextLocation s shell.location_.1 shell.location_.2 dir false
  let next_cell := cellAt s.gameboard_ n.1 n.2
  let r := handleShellSpawnOnTank s it
  if r.2.2 then (r.1, r.2.1, false)
  else
    let s1 := clearPreviousShellPosition s it
    if next_cell = '*' then handleShellCollision s1 it n.1 n.2 dir
    else
      let q := handleShellMoveToNextCell s1 it n.1 n.2 next_cell
      (q.1, q.2, false)

/-- The loop of `moveShells` from iterator `it`; `none` when the fuel runs out. -/
def moveShellsLoop : Nat → GM → Nat → Option GM
  | 0, _, _ => none
  | fuel + 1, s, it =>
    if s.shells_.length ≤ it then some s
    else
      let r := moveShellsStep s it
      if r.2.2 then some r.1 else moveShellsLoop fuel r.1 r.2.1

/-- Member `moveShells` applied to `shells_`. -/
def moveShells (fuel : Nat) (s : GM) : Option GM := moveShellsLoop fuel s 0

/-- Order of the keys of `map<pair<int, int>, ...>`. -/
def pairLt (a b : Int × Int) : Bool := decide (a.1 < b.1 ∨ (a.1 = b.1 ∧ a.2 < b.2))

/-- The statement `shell_map[loc].emplace_back(shell)` on a map kept as a list sorted
by key. -/
def shellMapInsert (sh : Shell) :
    List ((Int × Int) × List Shell) → List ((Int × Int) × List Shell)
  | [] => [(sh.location_, [sh])]
  | e :: rest =>
    if sh.location_ = e.1 then (e.1, e.2 ++ [sh]) :: rest
    else if pairLt sh.location_ e.1 then (sh.location_, [sh]) :: e :: rest
    else e :: shellMapInsert sh rest

/-- The second loop of `checkShellsCollide` over the entries of the map. -/
def collapseEntries (s : GM) : List ((Int × Int) × List Shell) → GM
  | [] => s
  | e :: rest =>
    match e.2 with
    | [sh] => collapseEntries { s with shells_ := s.shells_ ++ [sh] } rest
    | _ => collapseEntries (setBoard s e.1.1 e.1.2 ' ') rest

/-- Member `checkShellsCollide`. -/
def checkShellsCollide (s : GM) : GM :=
  let shell_map := s.shells_.foldl (fun m sh => shellMapInsert sh m) []
  collapseEntries { s with shells_ := [] } shell_map

/-! ## End of turn -/

/-- The state change of member `updateGameLog`: a tank killed this turn gets
`increaseTurnsDead()` once more. -/
def updateGameLog (s : GM) : GM :=
  { s with tanks_ := s.tanks_.map (fun t => if t.turnsDead_ = 1 then t.increaseTurnsDead else t) }

/-- Number of tanks satisfying `p`. -/
def countTanks (p : TankInfo → Bool) (s : GM) : Nat := (s.tanks_.filter p).length

/-- Member `checkTanksStatus`. -/
def checkTanksStatus (s : GM) : GM :=
  let tank_count := sizeSub s.tanks_.length s.destroyedTanksIndices_.length
  if tank_count = 0 then { s with gameOver_ := true, gameOverStatus_ := 3 }
  else
    let no_ammo_count := countTanks (fun t => decide (t.turnsDead_ = 0 ∧ t.ammo_ ≤ 0)) s
    let player_1_count := countTanks (fun t => decide (t.playerId_ = 1 ∧ t.turnsDead_ = 0)) s
    let player_2_count := countTanks
      (fun t => decide (¬ (t.playerId_ = 1 ∧ t.turnsDead_ = 0) ∧
        t.playerId_ = 2 ∧ t.turnsDead_ = 0)) s
    let s1 := if no_ammo_count = tank_count then { s with noAmmoFlag_ := true } else s
    let s2 := if player_1_count = 0 then { s1 with gameOverStatus_ := 1, gameOver_ := true }
      else if player_2_count = 0 then { s1 with gameOverStatus_ := 2, gameOver_ := true }
      else s1
    { s2 with numTanks1_ := player_1_count, numTanks2_ := player_2_count }

/-- Member `updateGameResult`. -/
def updateGameResult (s : GM) (winner : Int) (reason : Nat) (remaining_tanks : List Nat)
    (rounds : Int) : GM :=
  { s with gameResult_ :=
      { winner := winner, reason := Reason.castNat reason, remaining_tanks := remaining_tanks,
        gameState := some s.gameboard_, rounds := rounds.toNat } }

/-- Lines 906-913 of `run`: the no-ammo timer. -/
def noAmmoStep (s : GM) : GM :=
  if s.noAmmoFlag_ = true then
    let s1 := { s with noAmmoTimer_ := (s.noAmmoTimer_ + 2 ^ 64 - 1) % 2 ^ 64 }
    if s1.noAmmoTimer_ = 0 then
      { updateGameResult s1 0 2 [s1.numTanks1_, s1.numTanks2_] s1.turn_ with gameOver_ := true }
    else s1
  else s

/-- Lines 915-926 of `run`: the result written when the game is over. -/
def finishStep (s : GM) : GM :=
  if s.gameOverStatus_ = 3 then updateGameResult s 0 0 [0, 0] s.turn_
  else if s.gameOverStatus_ = 1 then updateGameResult s 2 0 [0, s.numTanks2_] s.turn_
  else if s.gameOverStatus_ = 2 then updateGameResult s 1 0 [s.numTanks1_, 0] s.turn_
  else s

/-- The shell phase of one turn: twice `moveShells` followed by `checkShellsCollide`. -/
def shellPhase (fuel : Nat) (s : GM) : Option GM :=
  match moveShells fuel s with
  | none => none
  | some s1 =>
    match moveShells fuel (checkShellsCollide s1) with
    | none => none
    | some s2 => some (checkShellsCollide s2)

/-- The body of the main loop from `getTankActions()` down to the no-ammo timer
(lines 891-913 of `run`). -/
def playTurn (fuel : Nat) (oracle : Oracle) (s : GM) : Option GM :=
  match shellPhase fuel (performTankActions (getTankActions s oracle)) with
  | none => none
  | some s1 => some (noAmmoStep (checkTanksStatus (updateGameLog s1)))

/-- The main loop of `run`.  The result is the final state together with the number of
iterations that reached the action phase. -/
def runLoop : Nat → Oracle → GM → Option (GM × Nat)
  | 0, _, _ => none
  | fuel + 1, oracle, s =>
    if s.gameOver_ = true then some (s, 0)
    else
      let s0 := { s with lastRoundGameboard_ := s.gameboard_ }
      if s0.turn_ ≥ s0.maxSteps_ then some ({ s0 with gameOver_ := true }, 0)
      else
        match playTurn fuel oracle s0 with
        | none => none
        | some s1 =>
          if s1.gameOver_ = true then some (finishStep s1, 1)
          else
            match runLoop fuel oracle { s1 with turn_ := s1.turn_ + 1 } with
            | none => none
            | some r => some (r.1, r.2 + 1)

/-! ## Start of the game -/

/-- The body of the double loop of `initiateGame` for the cell `(j, i)`: the tank list and
the two tank counters. -/
def initCell (map : Nat → Nat → Char) (numShells : Int)
    (acc : List TankInfo × Int × Int) (ji : Nat × Nat) : List TankInfo × Int × Int :=
  let cell := map ji.1 ji.2
  if cell = '1' then
    (acc.1 ++ [TankInfo.mk0 acc.2.1 ((ji.1 : Int), (ji.2 : Int)) numShells 1],
      acc.2.1 + 1, acc.2.2)
  else if cell = '2' then
    (acc.1 ++ [TankInfo.mk0 acc.2.2 ((ji.1 : Int), (ji.2 : Int)) numShells 2],
      acc.2.1, acc.2.2 + 1)
  else acc

/-- The cells of the grid in the order of the double loop of `initiateGame`. -/
def gridCells (width height : Nat) : List (Nat × Nat) :=
  (List.range height).flatMap (fun i => (List.range width).map (fun j => (j, i)))

/-- Member `initiateGame`; `map j i` is `gameBoard.getObjectAt(j, i)`. -/
def initiateGame (s : GM) (map : Nat → Nat → Char) : GM :=
  let board : Board := (List.range s.height_.toNat).map
    (fun i => (List.range s.width_.toNat).map (fun j => map j i))
  let r := (gridCells s.width_.toNat s.height_.toNat).foldl (initCell map s.numShells_)
    ([], 0, 0)
  let s1 := { s with tanks_ := r.1, gameboard_ := board }
  if r.2.1 = 0 ∨ r.2.2 = 0 then { s1 with gameOver_ := true } else s1

/-- A freshly constructed game manager.  `gameResult_` has no initialiser: its scalar
members start with whatever values `winner0`, `reason0`, `rounds0` the memory holds,
its vector is empty and its pointer is null. -/
def newGM (winner0 : Int) (reason0 : Reason) (rounds0 : Nat) : GM :=
  { gameboard_ := [], tanks_ := [], destroyedTanksIndices_ := [], shells_ := [],
    gameResult_ :=
      { winner := winner0, reason := reason0, remaining_tanks := [],
        gameState := none, rounds := rounds0 },
    numShells_ := 0, maxSteps_ := 0, gameOver_ := false, width_ := 0, height_ := 0,
    turn_ := 0, noAmmoFlag_ := false, gameOverStatus_ := 0, noAmmoTimer_ := 0,
    numTanks1_ := 0, numTanks2_ := 0, lastRoundGameboard_ := [], tankActions_ := [],
    ub := false }

/-- The state on entry to the main loop of `run`. -/
def startGame (g : GM) (map_width map_height : Nat) (map : Nat → Nat → Char)
    (max_steps num_shells : Nat) : GM :=
  initiateGame
    { g with
      width_ := toInt32 map_width, height_ := toInt32 map_height,
      maxSteps_ := toInt32 max_steps, numShells_ := toInt32 num_shells } map

/-- Member `run` on a fresh game manager: final state and number of turns played. -/
def runGame (fuel : Nat) (winner0 : Int) (reason0 : Reason) (rounds0 : Nat)
    (map_width map_height : Nat) (map : Nat → Nat → Char) (max_steps num_shells : Nat)
    (oracle : Oracle) : Option (GM × Nat) :=
  runLoop fuel oracle
    (startGame (newGM winner0 reason0 rounds0) map_width map_height map max_steps num_shells)

/-- Member `run`: the returned `GameResult`. -/
def run (fuel : Nat) (winner0 : Int) (reason0 : Reason) (rounds0 : Nat)
    (map_width map_height : Nat) (map : Nat → Nat → Char) (max_steps num_shells : Nat)
    (oracle : Oracle) : Option GameResult :=
  (runGame fuel winner0 reason0 rounds0 map_width map_height map max_steps num_shells
    oracle).map (fun r => r.1.gameResult_)

/-! ## Invariant of the engine state -/

/-- Some tank of the list is located at `(x, y)`. -/
def HasTank (tanks : List TankInfo) (x y : Int) : Prop :=
  ∃ k, k < tanks.length ∧ (tanks.getD k default).location_ = (x, y)

/-- The cell `(x, y)` shows a tank digit, or shows a tank-over-shell letter while a shell
is located on it: the cells that some later step may read as holding a tank. -/
def NeedsTank (b : Board) (shells : List Shell) (x y : Int) : Prop :=
  cellAt b x y = '1' ∨ cellAt b x y = '2' ∨
    ((cellAt b x y = 'a' ∨ cellAt b x y = 'b') ∧ ∃ sh ∈ shells, sh.location_ = (x, y))

/-- The fields of a tank the invariant speaks about. -/
def tankKey (t : TankInfo) : (Int × Int) × Int × Int := (t.location_, t.turnsDead_, t.playerId_)

/-- Invariant of the engine state between two operations of a game. -/
structure Inv (s : GM) : Prop where
  dead_nonneg : ∀ k, k < s.tanks_.length → 0 ≤ (tankAt s k).turnsDead_
  dead_loc : ∀ k, k < s.tanks_.length → (tankAt s k).turnsDead_ ≠ 0 →
    (tankAt s k).location_ = (-1, -1)
  destroyed_nodup : s.destroyedTanksIndices_.Nodup
  destroyed_iff : ∀ k, k ∈ s.destroyedTanksIndices_ ↔
    (k < s.tanks_.length ∧ (tankAt s k).turnsDead_ ≠ 0)
  player : ∀ k, k < s.tanks_.length →
    (tankAt s k).playerId_ = 1 ∨ (tankAt s k).playerId_ = 2
  cover : ∀ x y, NeedsTank s.gameboard_ s.shells_ x y → HasTank s.tanks_ x y
  size : s.tanks_.length < 2 ^ 64

/-- Number of alive tanks of player `p`. -/
def aliveCount (s : GM) (p : Int) : Nat :=
  countTanks (fun t => decide (t.playerId_ = p ∧ t.turnsDead_ = 0)) s

/-! ## Relations between the tank list before and after an operation -/

/-- The tank lists have the same length and the tanks at equal indices are related. -/
def TanksRel (R : Nat → TankInfo → TankInfo → Prop) (l l' : List TankInfo) : Prop :=
  l'.length = l.length ∧ ∀ j, j < l.length → R j (l.getD j default) (l'.getD j default)

/-- A relation that holds across `increaseTurnsDead`: what may happen to any tank. -/
structure KillClosed (R : Nat → TankInfo → TankInfo → Prop) : Prop where
  refl : ∀ j t, R j t t
  trans : ∀ j a b c, R j a b → R j b c → R j a c
  incr : ∀ j t, R j t t.increaseTurnsDead

/-- A relation that at index `i` also holds across the member functions applied to the
acting tank, those of a valid shot excepted. -/
structure ActClosed (R : Nat → TankInfo → TankInfo → Prop) (i : Nat) extends
    KillClosed R : Prop where
  loc : ∀ t x y, R i t (t.setLocation x y)
  dir : ∀ t d, R i t (t.setDirection d)
  cool : ∀ t, R i t t.decreaseTurnsToShoot
  decBack : ∀ t, R i t t.decreaseTurnsToBackwards
  restart : ∀ t, R i t t.restartTurnsToBackwards
  zero : ∀ t, R i t t.zeroTurnsToBackwards
  switchB : ∀ t, R i t t.switchBackwardsFlag
  switchJ : ∀ t, R i t t.switchJustMovedBackwardsFlag

/-- A relation that at index `i` holds across the two member functions of a valid shot. -/
structure ShootClosed (R : Nat → TankInfo → TankInfo → Prop) (i : Nat) : Prop where
  reset : ∀ t, R i t t.resetTurnsToShoot
  decAmmo : ∀ t, R i t t.decreaseAmmo

/-- The members that neither the action phase nor the shell phase writes, together with
the list of the requested actions (`tankActions_[i].first`), which they do not change
either. -/
def GM.cfg (s : GM) : Int × Int × Int × Int × Int × Bool × Bool × Nat × Nat × Nat × Nat ×
    GameResult × List ActionRequest :=
  (s.maxSteps_, s.turn_, s.width_, s.height_, s.numShells_, s.gameOver_, s.noAmmoFlag_,
    s.gameOverStatus_, s.noAmmoTimer_, s.numTanks1_, s.numTanks2_, s.gameResult_,
    s.tankActions_.map Prod.fst)

/-- The state in which `performTankActions` reaches tank `i` in the turn played from `s`:
the tanks before it have acted. -/
def slotState (s : GM) (oracle : Oracle) (i : Nat) : GM :=
  (List.range i).foldl performTankActionStep (getTankActions s oracle)

/-- At index `i` the tank keeps its ammo, its shoot cooldown and its backwards flag. -/
def GearKept (i : Nat) (j : Nat) (t t' : TankInfo) : Prop :=
  j = i → t'.ammo_ = t.ammo_ ∧ t'.turnsToShoot_ = t.turnsToShoot_ ∧
    t'.backwardsFlag_ = t.backwardsFlag_

/-- The tank keeps its ammo. -/
def AmmoKept (_ : Nat) (t t' : TankInfo) : Prop := t'.ammo_ = t.ammo_

/-- What the bookkeeping of a backward move does to the acting tank and to the rest of the
state: the board, the shell list and the size of the grid stay, and so do the position,
the facing, the ammo and the shoot cooldown of the tank. -/
structure Kept (s r : GM) (i : Nat) : Prop where
  board : r.gameboard_ = s.gameboard_
  shells : r.shells_ = s.shells_
  width : r.width_ = s.width_
  height : r.height_ = s.height_
  len : i < r.tanks_.length
  loc : (tankAt r i).location_ = (tankAt s i).location_
  dir : (tankAt r i).dir_ = (tankAt s i).dir_
  ammo : (tankAt r i).ammo_ = (tankAt s i).ammo_
  cool : (tankAt r i).turnsToShoot_ = (tankAt s i).turnsToShoot_

/-- Between `s` and `r` the board, the shell list and the position, facing and ammo of
tank `i` are the same, and the shoot cooldown of tank `i` is one step lower, not below 0. -/
def OnlyCooled (s r : GM) (i : Nat) : Prop :=
  r.gameboard_ = s.gameboard_ ∧ r.shells_ = s.shells_ ∧
    (tankAt r i).location_ = (tankAt s i).location_ ∧
    (tankAt r i).dir_ = (tankAt s i).dir_ ∧
    (tankAt r i).ammo_ = (tankAt s i).ammo_ ∧
    (tankAt r i).turnsToShoot_ =
      (if (tankAt s i).turnsToShoot_ > 0 then (tankAt s i).turnsToShoot_ - 1 else 0)

/-- The state after tank `i` has been asked for the actions `actions`, one call of
`performAction` each, with nothing else touching the state in between. -/
def requestAll (i : Nat) (s : GM) (actions : List ActionRequest) : GM :=
  actions.foldl (fun g a => (performAction g a i).1) s

/-- Between `s` and `g` no shell has been added, tank `i` has kept its ammo, and its shoot
cooldown is `c` in `g`. -/
structure Gear (s g : GM) (i : Nat) (c : Int) : Prop where
  len : i < g.tanks_.length
  ammo : (tankAt g i).ammo_ = (tankAt s i).ammo_
  cool : (tankAt g i).turnsToShoot_ = c
  shells : g.shells_.Sublist s.shells_

/-! ## Concrete games -/

/-- A satellite view over the given rows: `getObjectAt` of `ExtSatelliteView`, which
returns the ampersand outside the grid. -/
def mapOfRows (rows : List (List Char)) : Nat → Nat → Char :=
  fun x y => (rows.getD y []).getD x '&'

/-- Tank algorithms that always answer `DoNothing`. -/
def idle : Oracle := fun _ _ => ActionRequest.DoNothing

/-- One row, a tank of player 1 at `(0, 0)` and a tank of player 2 at `(2, 0)`. -/
def duelMap : Nat → Nat → Char := mapOfRows [['1', ' ', '2']]

/-- One row with a single tank, of player 1. -/
def loneMap : Nat → Nat → Char := mapOfRows [['1', ' ', ' ']]

/-- The `GameResult` of a game manager built in zeroed memory. -/
def zeroedResult : GameResult :=
  { winner := 0, reason := Reason.ALL_TANKS_DEAD, remaining_tanks := [], gameState := none,
    rounds := 0 }

/-- The duel on `duelMap` with 50 steps and no shells, on entry to the main loop. -/
def duelStart : GM := startGame (newGM 0 Reason.ALL_TANKS_DEAD 0) 3 1 duelMap 50 0

/-- The duel on `duelMap` with 50 steps and 5 shells per tank, on entry to the main loop. -/
def armedStart : GM := startGame (newGM 0 Reason.ALL_TANKS_DEAD 0) 3 1 duelMap 50 5

/-- Tank 0 shoots in turn 0; every other answer is `DoNothing`. -/
def firstShoots : Oracle := fun t i =>
  match t, i with
  | 0, 0 => ActionRequest.Shoot
  | _, _ => ActionRequest.DoNothing

/-- The duel without shells after tank 0 has requested `MoveBackward` in one turn and
`DoNothing` in the next: its backward move is pending and its wait has elapsed. -/
def backingState : GM :=
  (performAction (performAction duelStart ActionRequest.MoveBackward 0).1
    ActionRequest.DoNothing 0).1

/-- The armed duel after tank 0 has turned left by 90 degrees: on the one-row board it now
faces its own cell across the wrap. -/
def turnedState : GM := (performAction armedStart ActionRequest.RotateLeft90 0).1

/-- Three rows: tank 0 (player 1) at `(1, 0)`, tank 1 (player 2) at `(0, 1)`, tank 2
(player 1) at `(1, 1)`, walls at `(2, 1)` and `(1, 2)`. -/
def crowdMap : Nat → Nat → Char :=
  mapOfRows [[' ', '1', ' '], ['2', '1', '#'], [' ', '#', ' ']]

/-- Turn 0: tank 0 turns to face down.  Turn 1: tanks 0 and 1 both shoot at tank 2.
Turn 2: tank 0 moves forward, then tank 2 moves forward. -/
def crowdOracle : Oracle := fun t i =>
  match t, i with
  | 0, 0 => ActionRequest.RotateLeft90
  | 1, 0 => ActionRequest.Shoot
  | 1, 1 => ActionRequest.Shoot
  | 2, 0 => ActionRequest.MoveForward
  | 2, 2 => ActionRequest.MoveForward
  | _, _ => ActionRequest.DoNothing

/-- The game on `crowdMap` with 10 steps and 5 shells per tank, on entry to the main
loop. -/
def crowdStart : GM := startGame (newGM 0 Reason.ALL_TANKS_DEAD 0) 3 3 crowdMap 10 5

/-- The game on `crowdMap` at the start of turn 2 of the main loop, after turns 0 and 1
played with `crowdOracle`. -/
def crowdTurnTwo : Option GM :=
  match playTurn 20 crowdOracle { crowdStart with lastRoundGameboard_ := crowdStart.gameboard_ }
    with
  | none => none
  | some s1 =>
    match playTurn 20 crowdOracle
      { s1 with turn_ := s1.turn_ + 1, lastRoundGameboard_ := s1.gameboard_ } with
    | none => none
    | some s2 => some { s2 with turn_ := s2.turn_ + 1, lastRoundGameboard_ := s2.gameboard_ }

/-- One row of four cells: a wall at `(0, 0)`, a tank of player 1 at `(1, 0)`, which
faces the wall, and a tank of player 2 at `(3, 0)`. -/
def wallMap : Nat → Nat → Char := mapOfRows [['#', '1', ' ', '2']]

/-- The game on `wallMap` with 50 steps and 5 shells per tank, on entry to the main
loop. -/
def wallStart : GM := startGame (newGM 0 Reason.ALL_TANKS_DEAD 0) 4 1 wallMap 50 5

/-- Tank 0 answers `Shoot` in every turn; every other answer is `DoNothing`. -/
def alwaysShoots : Oracle := fun _ i =>
  match i with
  | 0 => ActionRequest.Shoot
  | _ => ActionRequest.DoNothing

/-! ## Battle info between the player and a tank algorithm -/

/-- The class `ExtBattleInfo`. -/
structure ExtBattleInfo where
  currGameboard_ : List (List Char)
  shellLocations_ : List (Int × Int)
  initialLoc_ : Int × Int
  initialAmmo_ : Int
  tankIndex_ : Int
  currAmmo_ : Int
  deriving DecidableEq, Repr, Inhabited

/-- The constructor of `ExtBattleInfo`: `tankIndex_` and `currAmmo_` start at 0. -/
def ExtBattleInfo.mk0 (gameboard : List (List Char)) (shells_location : List (Int × Int))
    (num_shells : Int) (initial_loc : Int × Int) : ExtBattleInfo :=
  { currGameboard_ := gameboard, shellLocations_ := shells_location,
    initialLoc_ := initial_loc, initialAmmo_ := num_shells, tankIndex_ := 0, currAmmo_ := 0 }

/-- The members of `TankAlgorithm_209277367_322542887` that `updateBattleInfo` reads or
writes. -/
structure TankAlgo where
  location_ : Int × Int
  tankIndex_ : Int
  ammo_ : Int
  firstBattleinfo_ : Bool
  gameboard : List (List Char)
  shellLocations_ : List (Int × Int)
  deriving DecidableEq, Repr, Inhabited

/-- The members set by the constructor `TankAlgorithm_209277367_322542887(player_index,
tank_index)`, for the members above. -/
def TankAlgo.mk0 (tank_index : Int) : TankAlgo :=
  { location_ := (-1, -1), tankIndex_ := tank_index, ammo_ := 0, firstBattleinfo_ := true,
    gameboard := [], shellLocations_ := [] }

/-- Member `updateBattleInfo`.  The source opens with
`auto battle_info = dynamic_cast<ExtBattleInfo&>(info);`, where `auto` deduces the class
type, not a reference: `battle_info` is a copy of the argument, and the two setters at
the end write to the copy.  The result is the algorithm after the call, the object of the caller
after the call, and the local copy as it is when the function returns. -/
def updateBattleInfo (alg : TankAlgo) (info : ExtBattleInfo) :
    TankAlgo × ExtBattleInfo × ExtBattleInfo :=
  let battle_info := info
  let alg1 := if alg.firstBattleinfo_ = true then
      { alg with firstBattleinfo_ := false, ammo_ := battle_info.initialAmmo_,
                 location_ := battle_info.initialLoc_ }
    else alg
  let alg2 := { alg1 with gameboard := battle_info.currGameboard_,
                          shellLocations_ := battle_info.shellLocations_ }
  let battle_info1 := { battle_info with tankIndex_ := alg2.tankIndex_ }
  let battle_info2 := { battle_info1 with currAmmo_ := alg2.ammo_ }
  (alg2, info, battle_info2)

/-- The record `TankStatus` of the player. -/
structure TankStatus where
  position : Int × Int
  ammo : Int
  alive : Bool
  deriving DecidableEq, Repr, Inhabited

/-- The members of `Player_209277367_322542887`; `tankStatus_` is the `map<int,
TankStatus>` as a list of its entries. -/
structure PlayerState where
  playerIndex_ : Int
  x_ : Int
  y_ : Int
  maxSteps_ : Nat
  numShells_ : Nat
  tankStatus_ : List (Int × TankStatus)
  deriving DecidableEq, Repr, Inhabited

/-- The lookup `tankStatus_.find(key)`. -/
def statusOf (m : List (Int × TankStatus)) (key : Int) : Option TankStatus :=
  (m.find? (fun e => decide (e.1 = key))).map Prod.snd

/-- The statement `tankStatus_[key].ammo = ammo`: `operator[]` inserts a value-initialised
`TankStatus` when the key is absent. -/
def setStatusAmmo : List (Int × TankStatus) → Int → Int → List (Int × TankStatus)
  | [], key, ammo => [(key, { position := (0, 0), ammo := ammo, alive := false })]
  | e :: rest, key, ammo =>
    if e.1 = key then (e.1, { e.2 with ammo := ammo }) :: rest
    else e :: setStatusAmmo rest key ammo

/-- The body of the double loop of `initGameboardAndShells` for the cell `(j, i)`. -/
def scanCell (view : Nat → Nat → Char)
    (acc : List (List Char) × List (Int × Int) × (Int × Int)) (ji : Nat × Nat) :
    List (List Char) × List (Int × Int) × (Int × Int) :=
  let obj := view ji.1 ji.2
  let board := setCell acc.1 ji.1 ji.2 obj
  if obj = '*' then (board, acc.2.1 ++ [((ji.1 : Int), (ji.2 : Int))], acc.2.2)
  else if obj = '%' then (board, acc.2.1, ((ji.1 : Int), (ji.2 : Int)))
  else (board, acc.2.1, acc.2.2)

/-- Member `initGameboardAndShells`, called with an empty board, an empty shell list and a
value-initialised `tank_location`. -/
def initGameboardAndShells (p : PlayerState) (view : Nat → Nat → Char) :
    List (List Char) × List (Int × Int) × (Int × Int) :=
  (gridCells p.x_.toNat p.y_.toNat).foldl (scanCell view)
    (List.replicate p.y_.toNat (List.replicate p.x_.toNat ' '), [], (0, 0))

/-- Member `Player_209277367_322542887::updateTankWithBattleInfo`: the player and the
algorithm after the call. -/
def updateTankWithBattleInfo (p : PlayerState) (tank : TankAlgo) (view : Nat → Nat → Char) :
    PlayerState × TankAlgo :=
  let g := initGameboardAndShells p view
  let battleInfo := ExtBattleInfo.mk0 g.1 g.2.1 (toInt32 p.numShells_) g.2.2
  let r := updateBattleInfo tank battleInfo
  let tank_index := r.2.1.tankIndex_
  ({ p with tankStatus_ := setStatusAmmo p.tankStatus_ tank_index r.2.1.currAmmo_ }, r.1)

/-- A player of a 2-by-1 board with 5 shells per tank and no tank status recorded. -/
def freshPlayer : PlayerState :=
  { playerIndex_ := 1, x_ := 2, y_ := 1, maxSteps_ := 50, numShells_ := 5, tankStatus_ := [] }

/-- The view of the 2-by-1 board that marks the asking tank on `(0, 0)`. -/
def selfView : Nat → Nat → Char := mapOfRows [['%', ' ']]

/-! ## Comparative simulator -/

/-- A `std::string`, as the list of its characters. -/
abbrev Str := List Char

/-- The record `SnapshotGameResult`. -/
structure SnapshotGameResult where
  winner : Int
  reason : Reason
  remaining_tanks : List Nat
  board : List (List Char)
  rounds : Nat
  deriving DecidableEq, Repr, Inhabited

/-- The record `GameResultInfo`. -/
structure GameResultInfo where
  result : SnapshotGameResult
  gm_names : List Str
  count : Int
  deriving DecidableEq, Repr, Inhabited

/-- The lambda `norm` of `sameResult`. -/
def norm (c : Char) : Char := if c = '$' then '#' else c

/-- The inner loop of `sameResult` over the cells of row `y`, after the test of the row
sizes: whether no pair of cells makes the function return false. -/
def sameRow (ra rb : List Char) : Bool :=
  decide (ra.length = rb.length) &&
    (List.range ra.length).all (fun x => decide (norm (ra.getD x NUL) = norm (rb.getD x NUL)))

/-- Member `ComparativeSimulator::sameResult`. -/
def sameResult (a b : SnapshotGameResult) : Bool :=
  if a.winner ≠ b.winner ∨ a.reason ≠ b.reason ∨ a.rounds ≠ b.rounds then false
  else if a.board = b.board then true
  else if a.board.length ≠ b.board.length then false
  else (List.range a.board.length).all (fun y => sameRow (a.board.getD y []) (b.board.getD y []))

/-- The inner loop of `makeGroups` for one result: the groups with the result placed in the
first matching group, or `none` when `placed` stays false. -/
def placeResult (r : SnapshotGameResult × Str) :
    List GameResultInfo → Option (List GameResultInfo)
  | [] => none
  | g :: rest =>
    if sameResult r.1 g.result then
      some ({ g with gm_names := g.gm_names ++ [r.2], count := g.count + 1 } :: rest)
    else (placeResult r rest).map (fun rest' => g :: rest')

/-- One iteration of the outer loop of `makeGroups`. -/
def groupStep (groups : List GameResultInfo) (r : SnapshotGameResult × Str) :
    List GameResultInfo :=
  match placeResult r groups with
  | some groups' => groups'
  | none => groups ++ [{ result := r.1, gm_names := [r.2], count := 1 }]

/-- Member `ComparativeSimulator::makeGroups` on the member `groups`. -/
def makeGroups (groups : List GameResultInfo) (results : List (SnapshotGameResult × Str)) :
    List GameResultInfo :=
  results.foldl groupStep groups

/-- Decimal digits of a natural number (`std::to_string` of an unsigned value, and
`operator<<` for `size_t`). -/
def natStr (n : Nat) : Str := Nat.toDigits 10 n

/-- Decimal rendering of an `int` (`std::to_string(int)`). -/
def intStr (z : Int) : Str := if z < 0 then '-' :: natStr z.natAbs else natStr z.toNat

/-- Member `printSatellite`: the stream after the board has been printed to it. -/
def printSatellite (os : Str) (result : SnapshotGameResult) : Str :=
  result.board.foldl
    (fun os row => row.foldl (fun os cell => os ++ [if cell = '$' then '#' else cell]) os ++
      ['\n'])
    os

/-- The lambda `tanksOrZero` of `BuildOutputBuffer`: its parameter is a `size_t` and its
result an `int`. -/
def tanksOrZero (result : SnapshotGameResult) (idx : Nat) : Int :=
  if idx < result.remaining_tanks.length then toInt32 (result.remaining_tanks.getD idx 0)
  else 0

/-- The conditional expression of `BuildOutputBuffer` that formats the result line. -/
def resultLine (result : SnapshotGameResult) : Str :=
  if result.winner = 0 then
    if result.reason = Reason.ALL_TANKS_DEAD then "Tie, both players have zero tanks".toList
    else if result.reason = Reason.MAX_STEPS then
      "Tie, reached max steps = ".toList ++ natStr result.rounds ++
        ", player 1 has ".toList ++ intStr (tanksOrZero result 0) ++
        " tanks, player 2 has ".toList ++ intStr (tanksOrZero result 1) ++ " tanks".toList
    else "Tie, both players have zero shells for 40 steps".toList
  else
    "Player ".toList ++ intStr result.winner ++ " won with ".toList ++
      intStr (tanksOrZero result ((result.winner - 1) % 2 ^ 64).toNat) ++
      " tanks still alive".toList

/-- The statements of `BuildOutputBuffer` that print the names of a group. -/
def printNames (os : Str) (gm_names : List Str) : Str :=
  if gm_names ≠ [] then
    (List.range (gm_names.length - 1)).foldl
        (fun os i => os ++ gm_names.getD i [] ++ ", ".toList) os ++
      gm_names.getLastD [] ++ ['\n']
  else os ++ ['\n']

/-- The loop of `BuildOutputBuffer`, on the groups in the order in which `groups.back()`
hands them out (the reverse of the vector). -/
def emitGroups (os : Str) : List GameResultInfo → Str
  | [] => os
  | group :: rest =>
    let os1 := printNames os group.gm_names
    let os2 := os1 ++ resultLine group.result ++ ['\n']
    let os3 := os2 ++ natStr group.result.rounds ++ ['\n']
    let os4 := printSatellite os3 group.result
    let os5 := if rest ≠ [] then os4 ++ ['\n'] else os4
    emitGroups os5 rest

/-- Member `BuildOutputBuffer`; `getFilename` is the member function of that name, which
returns `std::filesystem::path(path).filename().string()`. -/
def BuildOutputBuffer (getFilename : Str → Str) (groups : List GameResultInfo)
    (mapPath algorithmSoPath1 algorithmSoPath2 : Str) : Str :=
  let oss := "game_map=".toList ++ getFilename mapPath ++ ['\n'] ++
    "algorithm1=".toList ++ getFilename algorithmSoPath1 ++ ['\n'] ++
    "algorithm2=".toList ++ getFilename algorithmSoPath2 ++ ['\n'] ++ ['\n']
  emitGroups oss groups.reverse

/-- Member `writeOutput` up to the text it writes: `sort` is the call of `std::sort` with
the comparison `a.count < b.count`. -/
def writeOutput (sort : List GameResultInfo → List GameResultInfo) (getFilename : Str → Str)
    (groups : List GameResultInfo) (allResults : List (SnapshotGameResult × Str))
    (mapPath algorithmSoPath1 algorithmSoPath2 : Str) : Str :=
  BuildOutputBuffer getFilename (sort (makeGroups groups allResults)) mapPath algorithmSoPath1
    algorithmSoPath2

/-! ## Competitive simulator -/

/-- The lambda `keyOf` of `scheduleGames`, on two `uint32_t` values: the result is a
`uint64_t`. -/
def keyOf (a b : Nat) : Nat :=
  let lo := if a > b then b else a
  let hi := if a > b then a else b
  ((lo <<< 32) % 2 ^ 64) ||| hi

/-- What `scheduleGames` writes: `scheduledGames_` as triples of the index of the map and
the indices of the two algorithms in `algoNames`, and `algoUsageCounts_` as a function of
the index of the algorithm in `algoNames`. -/
structure Schedule where
  scheduledGames_ : List (Nat × Nat × Nat)
  algoUsageCounts_ : Nat → Int

/-- The statement `++algoUsageCounts_[algoNames[i]]`. -/
def bumpUsage (usage : Nat → Int) (i : Nat) : Nat → Int :=
  fun a => if a = i then usage a + 1 else usage a

/-- The body of the inner loop of `scheduleGames` for the `uint32_t` value `i` on map `k`:
the set `seen` and the schedule. -/
def scheduleStep (n shift k : Nat) (acc : List Nat × Schedule) (i : Nat) :
    List Nat × Schedule :=
  let j := ((i + 1 + shift) % 2 ^ 32) % (n % 2 ^ 32)
  let key := keyOf i j
  if key ∈ acc.1 then acc
  else
    (key :: acc.1,
      { scheduledGames_ := acc.2.scheduledGames_ ++ [(k, i, j)],
        algoUsageCounts_ := bumpUsage (bumpUsage acc.2.algoUsageCounts_ i) j })

/-- The body of the outer loop of `scheduleGames` for map `k`; `n` is the number of
algorithms. -/
def scheduleMap (n : Nat) (sched : Schedule) (k : Nat) : Schedule :=
  let shift := (k % (n - 1)) % 2 ^ 32
  ((List.range (n % 2 ^ 32)).foldl (scheduleStep n shift k) ([], sched)).2

/-- Member `CompetitiveSimulator::scheduleGames` for `n` algorithms and `m` maps. -/
def scheduleGames (n m : Nat) (sched : Schedule) : Schedule :=
  if n < 2 then sched else (List.range m).foldl (scheduleMap n) sched

/-- No game scheduled and every usage count 0. -/
def emptySchedule : Schedule := { scheduledGames_ := [], algoUsageCounts_ := fun _ => 0 }

/-! ## The output format and the schedule as the specification words them -/

/-- The strings of a list joined by a separator. -/
def joinWith (sep : Str) : List Str → Str
  | [] => []
  | [a] => a
  | a :: b :: rest => a ++ sep ++ joinWith sep (b :: rest)

/-- The entry `remaining_tanks[idx]`, or 0 when that entry is missing. -/
def entryOrZero (result : SnapshotGameResult) (idx : Int) : Nat :=
  if 0 ≤ idx ∧ idx < result.remaining_tanks.length then result.remaining_tanks.getD idx.toNat 0
  else 0

/-- The result line of the output format, selected by the winner and the reason; `render`
prints a number of tanks. -/
def formatResultLine (render : Nat → Str) (result : SnapshotGameResult) : Str :=
  if result.winner = 0 then
    match result.reason with
    | Reason.ALL_TANKS_DEAD => "Tie, both players have zero tanks".toList
    | Reason.MAX_STEPS =>
      "Tie, reached max steps = ".toList ++ natStr result.rounds ++
        ", player 1 has ".toList ++ render (entryOrZero result 0) ++
        " tanks, player 2 has ".toList ++ render (entryOrZero result 1) ++ " tanks".toList
    | Reason.ZERO_SHELLS => "Tie, both players have zero shells for 40 steps".toList
  else
    "Player ".toList ++ intStr result.winner ++ " won with ".toList ++
      render (entryOrZero result (result.winner - 1)) ++ " tanks still alive".toList

/-- The text of one group in the output format: the names, the result line, the rounds and
the rows of the board, each line ended by a newline. -/
def formatGroup (render : Nat → Str) (g : GameResultInfo) : Str :=
  joinWith ", ".toList g.gm_names ++ ['\n'] ++
    formatResultLine render g.result ++ ['\n'] ++
    natStr g.result.rounds ++ ['\n'] ++
    g.result.board.flatMap (fun row => row.map norm ++ ['\n'])

/-- The output format: three header lines, a blank line, and the groups in the given order
with one blank line between consecutive groups. -/
def formatOutput (render : Nat → Str) (getFilename : Str → Str) (order : List GameResultInfo)
    (mapPath algorithmSoPath1 algorithmSoPath2 : Str) : Str :=
  "game_map=".toList ++ getFilename mapPath ++ ['\n'] ++
    "algorithm1=".toList ++ getFilename algorithmSoPath1 ++ ['\n'] ++
    "algorithm2=".toList ++ getFilename algorithmSoPath2 ++ ['\n'] ++ ['\n'] ++
    joinWith ['\n'] (order.map (formatGroup render))

/-- A tank count as `BuildOutputBuffer` prints it: converted to `int` first. -/
def renderAsInt (n : Nat) : Str := intStr (toInt32 n)

/-- The games of map `k` in the round-robin scheme for `n` algorithms: algorithm `i` meets
algorithm `(i + 1 + r) mod n` with `r = k mod (n - 1)`, for `i` below `n`, or below `n / 2`
when `n` is even and `r = n / 2 - 1`. -/
def gamesOnMap (n k : Nat) : List (Nat × Nat × Nat) :=
  (List.range (if n % 2 = 0 ∧ k % (n - 1) = n / 2 - 1 then n / 2 else n)).map
    (fun i => (k, i, (i + 1 + k % (n - 1)) % n))

/-- The number of times algorithm `a` takes part in the games of a list. -/
def appearances (games : List (Nat × Nat × Nat)) (a : Nat) : Nat :=
  (games.map (fun g => g.2.1)).count a + (games.map (fun g => g.2.2)).count a

/-! ## Concrete inputs of the simulators -/

/-- A result won by player 1 whose first tank count is `2 ^ 31`. -/
def hugeCount : SnapshotGameResult :=
  { winner := 1, reason := Reason.ALL_TANKS_DEAD, remaining_tanks := [2 ^ 31], board := [],
    rounds := 7 }

/-- A result won by player 1 with 2 tanks left after 100 rounds, on a board with a weakened
wall. -/
def resultA : SnapshotGameResult :=
  { winner := 1, reason := Reason.ALL_TANKS_DEAD, remaining_tanks := [2, 0],
    board := [['1', ' '], ['$', '1']], rounds := 100 }

/-- The result `resultA` with the wall drawn whole. -/
def resultB : SnapshotGameResult := { resultA with board := [['1', ' '], ['#', '1']] }

/-- A tie by the step limit after 42 rounds. -/
def resultC : SnapshotGameResult :=
  { winner := 0, reason := Reason.MAX_STEPS, remaining_tanks := [1, 1], board := [['1', '2']],
    rounds := 42 }

/-- Three results of game managers: the first and the third are the same result. -/
def threeResults : List (SnapshotGameResult × Str) :=
  [(resultA, "GM_A".toList), (resultC, "GM_C".toList), (resultB, "GM_B".toList)]

/-- The part of a path after its last slash. -/
def lastSegment (path : Str) : Str :=
  (path.reverse.takeWhile (fun c => c ≠ '/')).reverse

/-! ## Scores of the competitive simulator -/

/-- The member `scores_` (an `unordered_map<string, int>`) as the list of its entries, one
entry per key, in the order in which the map hands them out. -/
abbrev Scores := List (Str × Int)

/-- The statement `scores_[name] += d`: `operator[]` inserts the value 0 under a key that
is missing.  The `int` is not followed past its range. -/
def addScore : Scores → Str → Int → Scores
  | [], name, d => [(name, 0 + d)]
  | e :: rest, name, d =>
    if e.1 = name then (e.1, e.2 + d) :: rest else e :: addScore rest name d

/-- Member `CompetitiveSimulator::updateScore`. -/
def updateScore (scores_ : Scores) (winner loser : Str) (tie : Bool) : Scores :=
  if tie then addScore (addScore scores_ winner 1) loser 1
  else addScore scores_ winner 3

/-- The score stored under a name (`scores_.find(name)`), if there is one. -/
def scoreOf (scores_ : Scores) (name : Str) : Option Int :=
  (scores_.find? (fun e => decide (e.1 = name))).map Prod.snd

/-- Member `CompetitiveSimulator::writeOutput` up to the text it sends to `dest`: `sort` is
the call of `std::sort` with the comparison `b.second < a.second`, and `filename` is
`fs::path(gmSoPath).filename().string()`. -/
def Competitive.writeOutput (sort : Scores → Scores) (filename : Str → Str)
    (scores_ : Scores) (mapFolder gmSoPath : Str) : Str :=
  let dest := "game_maps_folder=".toList ++ mapFolder ++ ['\n']
  let dest := dest ++ "game_manager=".toList ++ filename gmSoPath ++ ['\n', '\n']
  (sort scores_).foldl (fun dest e => dest ++ e.1 ++ [' '] ++ intStr e.2 ++ ['\n']) dest

/-- The line of one algorithm in the output of the competition: name, blank, score. -/
def scoreLine (e : Str × Int) : Str := e.1 ++ [' '] ++ intStr e.2 ++ ['\n']

/-! ## The `num_threads` argument -/

/-- The function `std::isdigit` on a character of the command line (C locale). -/
def isdigit (c : Char) : Bool := decide ('0' ≤ c ∧ c ≤ '9')

/-- The number that `std::stol` reads from a string of decimal digits. -/
def digitsValue (s : Str) : Nat := s.foldl (fun v c => 10 * v + (c.toNat - '0'.toNat)) 0

/-- The function `parseNumThreadsStrict`: return value and the variable `out` after the
call.  `kv` is the lookup `kv.find(key)`; `std::stol` throws `out_of_range` above
`LONG_MAX = 2 ^ 63 - 1`, which the function catches; `static_cast<int>(v)` keeps the low 32
bits of the `long`. -/
def parseNumThreadsStrict (kv : Str → Option Str) (out : Int) : Bool × Int :=
  match kv "num_threads".toList with
  | none => (true, 1)
  | some s =>
    if s = [] ∨ ¬ s.all isdigit = true then (false, out)
    else
      let v := digitsValue s
      if v > 2 ^ 63 - 1 then (false, out)
      else if v < 1 then (false, out)
      else (true, toInt32 v)

/-- The statements of `CmdParser::parse` on `num_threads`: the value stored in
`res.numThreads` and the error messages added. -/
def parseThreads (kv : Str → Option Str) : Int × List Str :=
  let r := parseNumThreadsStrict kv 1
  (r.2,
    if r.1 then []
    else ["Invalid value for num_threads (must be a positive integer).".toList])

/-- A command line whose only key is `num_threads`, with the given value. -/
def threadsArg (value : String) : Str → Option Str :=
  fun key => if key = "num_threads".toList then some value.toList else none

/-- A command line without the key `num_threads`. -/
def noThreadsArg : Str → Option Str := fun _ => none

/-! ## Points of a game -/

/-- The states that the main loop of `run` passes through, from the state `s0` on entry to
the loop: `GamePoint oracle s0 s` holds for `s0` and for every state reached from a point by
one statement of the loop body, by one iteration of the loop of `performTankActions` or by
one iteration of the loop of `moveShells`. -/
inductive GamePoint (oracle : Oracle) (s0 : GM) : GM → Prop
  | start : GamePoint oracle s0 s0
  | copy {s : GM} : GamePoint oracle s0 s →
      GamePoint oracle s0 { s with lastRoundGameboard_ := s.gameboard_ }
  | stop {s : GM} : GamePoint oracle s0 s → GamePoint oracle s0 { s with gameOver_ := true }
  | ask {s : GM} : GamePoint oracle s0 s → GamePoint oracle s0 (getTankActions s oracle)
  | act {s : GM} (i : Nat) : GamePoint oracle s0 s → i < s.tanks_.length →
      GamePoint oracle s0 (performTankActionStep s i)
  | shell {s : GM} (it : Nat) : GamePoint oracle s0 s → it < s.shells_.length →
      GamePoint oracle s0 (moveShellsStep s it).1
  | collide {s : GM} : GamePoint oracle s0 s → GamePoint oracle s0 (checkShellsCollide s)
  | log {s : GM} : GamePoint oracle s0 s → GamePoint oracle s0 (updateGameLog s)
  | status {s : GM} : GamePoint oracle s0 s → GamePoint oracle s0 (checkTanksStatus s)
  | timer {s : GM} : GamePoint oracle s0 s → GamePoint oracle s0 (noAmmoStep s)
  | finish {s : GM} : GamePoint oracle s0 s → GamePoint oracle s0 (finishStep s)
  | next {s : GM} : GamePoint oracle s0 s → GamePoint oracle s0 { s with turn_ := s.turn_ + 1 }

/-- The state after the first `n` iterations of the main loop of `run`, the tests of
`gameOver_` and of the step limit left aside. -/
def turnsFrom (fuel : Nat) (oracle : Oracle) : Nat → GM → Option GM
  | 0, s => some s
  | n + 1, s =>
    match playTurn fuel oracle { s with lastRoundGameboard_ := s.gameboard_ } with
    | none => none
    | some s1 => turnsFrom fuel oracle n { s1 with turn_ := s1.turn_ + 1 }

/-- The characters of an initial board. -/
def initialCells : List Char := [' ', '#', '@', '1', '2']

/-- The characters of the board of the engine. -/
def boardCells : List Char := [' ', '#', '$', '@', '1', '2', '*', '^', 'a', 'b', 'c', 'd']

/-- Every cell of the board holds a character of `boardCells`. -/
def ClosedBoard (b : Board) : Prop := ∀ row ∈ b, ∀ c ∈ row, c ∈ boardCells

/-- Every tank belongs to player 1 or to player 2. -/
def Owners (s : GM) : Prop := ∀ t ∈ s.tanks_, t.playerId_ = 1 ∨ t.playerId_ = 2

/-- The sum of the current ammo of all tanks, alive or dead. -/
def ammoSum (s : GM) : Int := (s.tanks_.map (fun t => t.ammo_)).sum

/-- The shells in play and the ammo left together do not exceed the ammo handed out. -/
def Budget (s : GM) : Prop :=
  (s.shells_.length : Int) + ammoSum s ≤ (s.tanks_.length : Int) * s.numShells_

/-- From `s` to `r` the number of tanks and `numShells_` are kept, and the shells in play
together with the ammo left have not grown. -/
def Spent (s r : GM) : Prop :=
  r.tanks_.length = s.tanks_.length ∧ r.numShells_ = s.numShells_ ∧
    (r.shells_.length : Int) + ammoSum r ≤ (s.shells_.length : Int) + ammoSum s

/-! ## The shell phase as the specification words it -/

/-- Two shell substeps followed by a single collapse of co-located shells. -/
def shellPhaseAsWorded (fuel : Nat) (s : GM) : Option GM :=
  match moveShells fuel s with
  | none => none
  | some s1 =>
    match moveShells fuel s1 with
    | none => none
    | some s2 => some (checkShellsCollide s2)

/-! ## Concrete games with shells -/

/-- One row of six cells: tank 0 (player 2) at `(0, 0)`, which faces tank 1 (player 1) at
`(1, 0)`, and tank 2 (player 1) at `(5, 0)`. -/
def siegeMap : Nat → Nat → Char := mapOfRows [['2', '1', ' ', ' ', ' ', '1']]

/-- Turn 0: tank 2 shoots.  Turn 1: tank 0 shoots at tank 1. -/
def siegeOracle : Oracle := fun t i =>
  match t, i with
  | 0, 2 => ActionRequest.Shoot
  | 1, 0 => ActionRequest.Shoot
  | _, _ => ActionRequest.DoNothing

/-- The game on `siegeMap` with 50 steps and 5 shells per tank, on entry to the main
loop. -/
def siegeStart : GM := startGame (newGM 0 Reason.ALL_TANKS_DEAD 0) 6 1 siegeMap 50 5

/-- The game on `siegeMap` in turn 1, after `performTankActions`: the shell of turn 0 is at
`(2, 0)` and the shell just fired lies on the cell of tank 1. -/
def siegeSubstep : Option GM :=
  (playTurn 20 siegeOracle { siegeStart with lastRoundGameboard_ := siegeStart.gameboard_ }).map
    (fun s1 => performTankActions (getTankActions
      { s1 with turn_ := s1.turn_ + 1, lastRoundGameboard_ := s1.gameboard_ } siegeOracle))

/-- Four rows of four cells: tank 0 (player 1) at `(3, 1)` and tank 1 (player 2) at
`(1, 3)`. -/
def crossMap : Nat → Nat → Char :=
  mapOfRows [[' ', ' ', ' ', ' '], [' ', ' ', ' ', '1'], [' ', ' ', ' ', ' '],
    [' ', '2', ' ', ' ']]

/-- Turn 0: tank 1 turns to face down.  Turn 1: both tanks shoot. -/
def crossOracle : Oracle := fun t i =>
  match t, i with
  | 0, 1 => ActionRequest.RotateRight90
  | 1, 0 => ActionRequest.Shoot
  | 1, 1 => ActionRequest.Shoot
  | _, _ => ActionRequest.DoNothing

/-- The game on `crossMap` with 50 steps and 5 shells per tank, on entry to the main
loop. -/
def crossStart : GM := startGame (newGM 0 Reason.ALL_TANKS_DEAD 0) 4 4 crossMap 50 5

/-- The game on `crossMap` in turn 1, after `performTankActions`: a shell at `(2, 1)` that
travels left and a shell at `(1, 0)` that travels down. -/
def crossSubstep : Option GM :=
  (playTurn 20 crossOracle { crossStart with lastRoundGameboard_ := crossStart.gameboard_ }).map
    (fun s1 => performTankActions (getTankActions
      { s1 with turn_ := s1.turn_ + 1, lastRoundGameboard_ := s1.gameboard_ } crossOracle))

/-- One row of four cells: tank 0 (player 2) at `(0, 0)`, a mine at `(1, 0)`, and tank 1
(player 1) at `(3, 0)`; the tanks face each other. -/
def mineMap : Nat → Nat → Char := mapOfRows [['2', '@', ' ', '1']]

/-- Every tank shoots in turn 0. -/
def bothShoot : Oracle := fun t _ =>
  match t with
  | 0 => ActionRequest.Shoot
  | _ => ActionRequest.DoNothing

/-- The game on `mineMap` with 50 steps and 5 shells per tank, on entry to the main
loop. -/
def mineStart : GM := startGame (newGM 0 Reason.ALL_TANKS_DEAD 0) 4 1 mineMap 50 5

/-- The game on `mineMap` in turn 0, after `performTankActions`: the shell of tank 0 is at
`(1, 0)` above the mine and travels right, the shell of tank 1 is at `(2, 0)` and travels
left. -/
def mineSubstep : GM :=
  performTankActions (getTankActions
    { mineStart with lastRoundGameboard_ := mineStart.gameboard_ } bothShoot)

/-- The state with the order of the shell list reversed. -/
def reverseShells (s : GM) : GM := { s with shells_ := s.shells_.reverse }

/-- A board of three rows with three shells: one at `(1, 0)` that travels down, one at
`(1, 1)` that travels left and one at `(0, 1)` that travels right. -/
def jamState : GM :=
  { newGM 0 Reason.ALL_TANKS_DEAD 0 with
    width_ := 3, height_ := 3,
    gameboard_ := [[' ', '*', ' '], ['*', '*', ' '], [' ', ' ', ' ']],
    shells_ := [Shell.mk0 1 0 Direction.D, Shell.mk0 1 1 Direction.L,
      Shell.mk0 0 1 Direction.R] }

/-- The state `jamState` with the last two shells exchanged in the list. -/
def jamStateSwapped : GM :=
  { jamState with
    shells_ := [Shell.mk0 1 0 Direction.D, Shell.mk0 0 1 Direction.R,
      Shell.mk0 1 1 Direction.L] }

/-! ## Movement of the tank algorithm -/

/-- The members of `TankAlgorithm_209277367_322542887` that its functions of movement read
or write. -/
structure TankNav where
  location_ : Int × Int
  direction_ : Direction
  actionsQueue_ : List ActionRequest
  playerIndex_ : Int
  ammo_ : Int
  turnsToShoot_ : Int
  turnsToEvade_ : Int
  backwardsFlag_ : Bool
  gameboard : Board
  deriving DecidableEq, Repr, Inhabited

/-- The constant `INF` of the header of the algorithm, the default of `rows` and `cols` in
`diffToDir`. -/
def INF : Int := 2147483647

/-- The function `abs` on `int`. -/
def iabs (x : Int) : Int := if x < 0 then -x else x

/-- The number of rows of a board as the algorithm computes it:
`static_cast<int>(gameboard.size())`. -/
def boardRows (gameboard : Board) : Int := toInt32 gameboard.length

/-- The number of columns of a board as the algorithm computes it:
`static_cast<int>(gameboard[0].size())`. -/
def boardCols (gameboard : Board) : Int := toInt32 (gameboard.getD 0 []).length

/-- The first block of `diffToDir`: the value of `pass`, which accounts for a step across
the border of the board. -/
def crossPass (diff_x diff_y : Int) (rows cols : Int) : Nat :=
  if (diff_x = 1 - cols ∧ diff_y = -1) ∨ (diff_x = cols - 1 ∧ diff_y = 1) ∨
      (diff_x = 1 ∧ diff_y = 1 - rows) ∨ (diff_x = -1 ∧ diff_y = rows - 1) then 2
  else if (diff_x = 1 - cols ∧ diff_y = 0) ∨ (diff_x = cols - 1 ∧ diff_y = 0) ∨
      (diff_x = 0 ∧ diff_y = 1 - rows) ∨ (diff_x = 0 ∧ diff_y = rows - 1) ∨
      (iabs diff_x = cols - 1 ∧ iabs diff_y = rows - 1) then 4
  else if (diff_x = 1 - cols ∧ diff_y = 1) ∨ (diff_x = cols - 1 ∧ diff_y = -1) ∨
      (diff_x = -1 ∧ diff_y = 1 - rows) ∨ (diff_x = 1 ∧ diff_y = rows - 1) then 6
  else 0

/-- The second block of `diffToDir`: the direction decided by the signs of the
differences, from the initial value `Direction::U`. -/
def signDir (diff_x diff_y : Int) : Direction :=
  let dir := Direction.U
  let dir := if diff_x = 0 ∧ diff_y > 0 then Direction.U else dir
  let dir := if diff_x < 0 ∧ diff_y > 0 then Direction.UR else dir
  let dir := if diff_x < 0 ∧ diff_y = 0 then Direction.R else dir
  let dir := if diff_x < 0 ∧ diff_y < 0 then Direction.DR else dir
  let dir := if diff_x = 0 ∧ diff_y < 0 then Direction.D else dir
  let dir := if diff_x > 0 ∧ diff_y < 0 then Direction.DL else dir
  let dir := if diff_x > 0 ∧ diff_y = 0 then Direction.L else dir
  let dir := if diff_x > 0 ∧ diff_y > 0 then Direction.UL else dir
  dir

/-- Member `diffToDir`. -/
def diffToDir (diff_x diff_y : Int) (rows cols : Int) : Direction :=
  let pass := crossPass diff_x diff_y rows cols
  let dir := signDir diff_x diff_y
  Direction.castNat ((dir.toNat + pass) % 8)

/-- The cell one step from `(x, y)` in the direction `dir` as the algorithm computes it in
`evadeShell`, `updateLocation` and `get_path_stack`:
`((x + dx + cols) % cols, (y + dy + rows) % rows)`. -/
def stepCell (x y : Int) (dir : Direction) (rows cols : Int) : Int × Int :=
  ((x + (directionMap dir).1 + cols).tmod cols, (y + (directionMap dir).2 + rows).tmod rows)

/-- The statement `actionsQueue_.push(a)`. -/
def TankNav.push (alg : TankNav) (a : ActionRequest) : TankNav :=
  { alg with actionsQueue_ := alg.actionsQueue_ ++ [a] }

/-- The statement `if (is_evade) turnsToEvade_ = n;`. -/
def TankNav.evadeFor (alg : TankNav) (is_evade : Bool) (n : Int) : TankNav :=
  if is_evade then { alg with turnsToEvade_ := n } else alg

/-- Member `actionsToNextCell`: the algorithm after the call, the value left in the
reference parameter `backwards_flag_`, and the value returned. -/
def actionsToNextCell (alg : TankNav) (curr next : Int × Int) (dir : Direction)
    (rows cols : Int) (backwards_flag_ : Bool) (is_evade : Bool) :
    TankNav × Bool × Option Direction :=
  let dx := curr.1 - next.1
  let dy := curr.2 - next.2
  let diff := diffToDir dx dy rows cols
  match (dir.toNat + 8 - diff.toNat) % 8 with
  | 0 => ((alg.push .MoveForward).evadeFor is_evade 1, false, none)
  | 1 =>
    (((alg.push .RotateLeft45).push .MoveForward).evadeFor is_evade 2, false,
      some (Direction.castNat ((dir.toNat + 8 - 1) % 8)))
  | 2 =>
    (((alg.push .RotateLeft90).push .MoveForward).evadeFor is_evade 2, false,
      some (Direction.castNat ((dir.toNat + 8 - 2) % 8)))
  | 3 =>
    ((((alg.push .RotateLeft90).push .RotateLeft45).push .MoveForward).evadeFor is_evade 3,
      false, some (Direction.castNat ((dir.toNat + 8 - 3) % 8)))
  | 4 =>
    if is_evade = true ∧ alg.turnsToEvade_ = 0 ∧ alg.ammo_ > 0 ∧ alg.turnsToShoot_ = 0 then
      ({ alg.push .Shoot with turnsToEvade_ := 1 }, false, none)
    else (alg.push .MoveBackward, true, none)
  | 5 =>
    ((((alg.push .RotateRight90).push .RotateRight45).push .MoveForward).evadeFor is_evade 3,
      false, some (Direction.castNat ((dir.toNat + 3 + 8) % 8)))
  | 6 =>
    (((alg.push .RotateRight90).push .MoveForward).evadeFor is_evade 2, false,
      some (Direction.castNat ((dir.toNat + 2 + 8) % 8)))
  | 7 =>
    (((alg.push .RotateRight45).push .MoveForward).evadeFor is_evade 2, false,
      some (Direction.castNat ((dir.toNat + 1 + 8) % 8)))
  | _ => (alg, backwards_flag_, none)

/-- Member `updateLocation`. -/
def updateLocation (alg : TankNav) (action : ActionRequest) : TankNav :=
  let rows := boardRows alg.gameboard
  let cols := boardCols alg.gameboard
  match action with
  | .MoveForward =>
    let d := directionMap alg.direction_
    { alg with backwardsFlag_ := false,
               location_ := ((alg.location_.1 + d.1 + cols).tmod cols,
                 (alg.location_.2 + d.2 + rows).tmod rows) }
  | .MoveBackward =>
    let d := directionMap alg.direction_
    { alg with backwardsFlag_ := true,
               location_ := ((alg.location_.1 - d.1 + cols).tmod cols,
                 (alg.location_.2 - d.2 + rows).tmod rows) }
  | .RotateLeft90 =>
    { alg with direction_ := Direction.castNat ((alg.direction_.toNat + 8 - 2) % 8) }
  | .RotateRight90 =>
    { alg with direction_ := Direction.castNat ((alg.direction_.toNat + 2) % 8) }
  | .RotateLeft45 =>
    { alg with direction_ := Direction.castNat ((alg.direction_.toNat + 8 - 1) % 8) }
  | .RotateRight45 =>
    { alg with direction_ := Direction.castNat ((alg.direction_.toNat + 1) % 8) }
  | _ => alg

/-- The loop of `evadeShell` over the directions `i`: the first cell it finds empty, in a
direction other than `danger_dir` and its opposite. -/
def evadeScan (alg : TankNav) (danger_dir opposite_danger_dir : Direction) (gameboard : Board)
    (rows cols : Int) : List Nat → Option (Int × Int)
  | [] => none
  | i :: rest =>
    let curr_dir := Direction.castNat i
    if curr_dir = danger_dir ∨ curr_dir = opposite_danger_dir then
      evadeScan alg danger_dir opposite_danger_dir gameboard rows cols rest
    else
      let n := stepCell alg.location_.1 alg.location_.2 (Direction.castNat i) rows cols
      if cellAt gameboard n.1 n.2 = ' ' then some n
      else evadeScan alg danger_dir opposite_danger_dir gameboard rows cols rest

/-- Member `evadeShell`. -/
def evadeShell (alg : TankNav) (danger_dir : Direction) (gameboard : Board) : TankNav :=
  let alg0 := { alg with actionsQueue_ := [] }
  let rows := boardRows gameboard
  let cols := boardCols gameboard
  let opposite_danger_dir := Direction.castNat ((danger_dir.toNat + 4) % 8)
  match evadeScan alg0 danger_dir opposite_danger_dir gameboard rows cols (List.range 8) with
  | some next =>
    (actionsToNextCell alg0 alg0.location_ next alg0.direction_ rows cols alg0.backwardsFlag_
      true).1
  | none => alg0

/-- The rows of the table of the rotation primitive, by angular difference. -/
def rotationTable : Nat → List ActionRequest
  | 0 => [.MoveForward]
  | 1 => [.RotateLeft45, .MoveForward]
  | 2 => [.RotateLeft90, .MoveForward]
  | 3 => [.RotateLeft90, .RotateLeft45, .MoveForward]
  | 4 => [.MoveBackward]
  | 5 => [.RotateRight90, .RotateRight45, .MoveForward]
  | 6 => [.RotateRight90, .MoveForward]
  | 7 => [.RotateRight45, .MoveForward]
  | _ => []

/-! ## The rotation primitive and the line of fire -/

/-- The action is one of the four rotations. -/
def isRotation (a : ActionRequest) : Bool :=
  decide (a = .RotateLeft45 ∨ a = .RotateRight45 ∨ a = .RotateLeft90 ∨ a = .RotateRight90)

/-- The facing of the algorithm after it has applied `updateLocation` to the actions `as`
in turn, from the facing `f`. -/
def facingAfter (alg : TankNav) (f : Direction) (as : List ActionRequest) : Direction :=
  (as.foldl updateLocation { alg with direction_ := f }).direction_

/-- The test `cell == '0' + id` of the algorithm, in which both sides are converted to
`int`. -/
def showsPlayer (cell : Char) (id : Int) : Bool := decide ((cell.toNat : Int) = 48 + id)

/-- The `do ... while` loop of `friendlyInLine` for a cardinal direction, from the cell
`(x, y)`; `none` when the fuel runs out. -/
def friendlyCardinal (alg : TankNav) (diff_x diff_y rows cols enemy_id : Int) :
    Nat → Int → Int → Option Bool
  | 0, _, _ => none
  | fuel + 1, x, y =>
    let x1 := (x + diff_x + cols).tmod cols
    let y1 := (y + diff_y + rows).tmod rows
    let cell := cellAt alg.gameboard x1 y1
    if showsPlayer cell enemy_id then some false
    else if showsPlayer cell alg.playerIndex_ then some true
    else if x1 ≠ alg.location_.1 ∨ y1 ≠ alg.location_.2 then
      friendlyCardinal alg diff_x diff_y rows cols enemy_id fuel x1 y1
    else some true

/-- The `while (true)` loop of `friendlyInLine` for a diagonal, from the cell `(x, y)`;
`none` when the fuel runs out. -/
def friendlyDiagonal (alg : TankNav) (diff_x diff_y rows cols enemy_id : Int) :
    Nat → Int → Int → Option Bool
  | 0, _, _ => none
  | fuel + 1, x, y =>
    let x1 := x + diff_x
    let y1 := y + diff_y
    if x1 < 0 ∨ x1 ≥ cols ∨ y1 < 0 ∨ y1 ≥ rows then some false
    else
      let cell := cellAt alg.gameboard x1 y1
      if showsPlayer cell enemy_id then some false
      else if showsPlayer cell alg.playerIndex_ then some true
      else friendlyDiagonal alg diff_x diff_y rows cols enemy_id fuel x1 y1

/-- The direction is one of `U`, `D`, `L`, `R`. -/
def isCardinal (dir : Direction) : Bool :=
  decide (dir = .U ∨ dir = .D ∨ dir = .L ∨ dir = .R)

/-- Member `friendlyInLine`; `none` when the fuel runs out. -/
def friendlyInLine (fuel : Nat) (alg : TankNav) (dir : Direction) : Option Bool :=
  let tank_x := alg.location_.1
  let tank_y := alg.location_.2
  let rows := boardRows alg.gameboard
  let cols := boardCols alg.gameboard
  let enemy_id : Int := if alg.playerIndex_ = 1 then 2 else 1
  let is_cardinal_dir := isCardinal dir
  let diff_x := (directionMap dir).1
  let diff_y := (directionMap dir).2
  if is_cardinal_dir then friendlyCardinal alg diff_x diff_y rows cols enemy_id fuel tank_x tank_y
  else friendlyDiagonal alg diff_x diff_y rows cols enemy_id fuel tank_x tank_y

/-- The walk of the claim about `friendlyInLine`: the cell reached after `k` steps from the
cell of the tank in the direction `dir`, around the board for a cardinal direction and up
to the edge of the board for a diagonal (`none` once the walk has left the board). -/
def lineWalk (alg : TankNav) (dir : Direction) : Nat → Option (Int × Int)
  | 0 => some alg.location_
  | k + 1 =>
    match lineWalk alg dir k with
    | none => none
    | some p =>
      if isCardinal dir then
        some (stepCell p.1 p.2 dir (boardRows alg.gameboard) (boardCols alg.gameboard))
      else
        let q := (p.1 + (directionMap dir).1, p.2 + (directionMap dir).2)
        if 0 ≤ q.1 ∧ q.1 < boardCols alg.gameboard ∧ 0 ≤ q.2 ∧ q.2 < boardRows alg.gameboard
        then some q else none

/-- The cell `p` holds a tank of the side of the algorithm: it shows the digit of the
side, or it is the cell of the tank itself. -/
def holdsFriend (alg : TankNav) (p : Int × Int) : Prop :=
  showsPlayer (cellAt alg.gameboard p.1 p.2) alg.playerIndex_ = true ∨ p = alg.location_

/-- The cell `p` holds an enemy tank, as `friendlyInLine` tests it: it shows the digit of
the other side. -/
def holdsFoe (alg : TankNav) (p : Int × Int) : Prop :=
  showsPlayer (cellAt alg.gameboard p.1 p.2) (if alg.playerIndex_ = 1 then 2 else 1) = true

/-- Walking from the cell of the tank in the direction `dir`, a cell that holds a tank of
the own side is met before any cell that holds an enemy tank. -/
def friendBeforeFoe (alg : TankNav) (dir : Direction) : Prop :=
  ∃ k p, 1 ≤ k ∧ lineWalk alg dir k = some p ∧ holdsFriend alg p ∧
    ∀ j q, 1 ≤ j → j ≤ k → lineWalk alg dir j = some q → ¬ holdsFoe alg q

/-! ## The players of a match -/

/-- The constructor of `Player_209277367_322542887`, called through the player factory:
the factory takes `size_t` sizes and the constructor `int` sizes. -/
def PlayerState.mk0 (player_index : Int) (x y max_steps num_shells : Nat) : PlayerState :=
  { playerIndex_ := player_index, x_ := toInt32 x, y_ := toInt32 y, maxSteps_ := max_steps,
    numShells_ := num_shells, tankStatus_ := [] }

/-- The two calls of `createPlayer` in `ComparativeSimulator::runSingleGame`. -/
def Comparative.createPlayers (cols rows maxSteps numShells : Nat) :
    PlayerState × PlayerState :=
  (PlayerState.mk0 0 cols rows maxSteps numShells, PlayerState.mk0 1 cols rows maxSteps numShells)

/-- The two calls of `createPlayer` in `CompetitiveSimulator::runSingleGame`. -/
def Competitive.createPlayers (cols rows maxSteps numShells : Nat) :
    PlayerState × PlayerState :=
  (PlayerState.mk0 1 cols rows maxSteps numShells, PlayerState.mk0 2 cols rows maxSteps numShells)

/-! ## Concrete inputs of the algorithm -/

/-- A board of three rows with the tank of the algorithm marked at `(1, 1)`. -/
def evadeBoard : Board := [['#', ' ', '#'], ['#', '%', ' '], [' ', ' ', ' ']]

/-- An algorithm of player 1 at `(1, 1)` that faces left, without ammo, on `evadeBoard`. -/
def evadeAlg : TankNav :=
  { location_ := (1, 1), direction_ := Direction.L, actionsQueue_ := [ActionRequest.Shoot],
    playerIndex_ := 1, ammo_ := 0, turnsToShoot_ := 0, turnsToEvade_ := 0,
    backwardsFlag_ := false, gameboard := evadeBoard }

/-- A board of four rows: the tank of the algorithm at `(1, 1)`, a tank of its side at
`(3, 1)`, an enemy tank at `(0, 1)` and an enemy tank at `(3, 3)`. -/
def lineBoard : Board :=
  [[' ', ' ', ' ', ' '], ['2', '%', ' ', '1'], [' ', ' ', ' ', ' '], [' ', ' ', ' ', '2']]

/-- An algorithm of player 1 at `(1, 1)` on `lineBoard`. -/
def lineAlg : TankNav :=
  { location_ := (1, 1), direction_ := Direction.R, actionsQueue_ := [],
    playerIndex_ := 1, ammo_ := 3, turnsToShoot_ := 0, turnsToEvade_ := 0,
    backwardsFlag_ := false, gameboard := lineBoard }

/-! ## The two walks of `friendlyInLine` -/

/-- One step of the loop of `friendlyInLine` for a cardinal direction. -/
def wrapStep (alg : TankNav) (dir : Direction) (p : Int × Int) : Int × Int :=
  stepCell p.1 p.2 dir (boardRows alg.gameboard) (boardCols alg.gameboard)

/-- One step of the loop of `friendlyInLine` for a diagonal. -/
def plainStep (dir : Direction) (p : Int × Int) : Int × Int :=
  (p.1 + (directionMap dir).1, p.2 + (directionMap dir).2)

/-- The cell lies on the board of the algorithm. -/
def onBoard (alg : TankNav) (p : Int × Int) : Prop :=
  0 ≤ p.1 ∧ p.1 < boardCols alg.gameboard ∧ 0 ≤ p.2 ∧ p.2 < boardRows alg.gameboard

/-- The loop for a cardinal direction stops on the cell `p`. -/
def wrapStop (alg : TankNav) (p : Int × Int) : Prop :=
  holdsFoe alg p ∨ holdsFriend alg p

/-- The loop for a diagonal stops on the cell `p`. -/
def plainStop (alg : TankNav) (p : Int × Int) : Prop :=
  ¬ onBoard alg p ∨ holdsFoe alg p ∨
    showsPlayer (cellAt alg.gameboard p.1 p.2) alg.playerIndex_ = true

/-! ## More results of game managers -/

/-- The result `resultB` with 3 tanks counted for player 1 instead of 2. -/
def resultD : SnapshotGameResult := { resultB with remaining_tanks := [3, 0] }

/-! ## A game in which a tank is hidden -/

/-- Three rows of five cells: tank 0 (player 1) at `(3, 0)`, tank 1 (player 2) at `(0, 1)`
and tank 2 (player 1) at `(4, 1)`. -/
def hideMap : Nat → Nat → Char :=
  mapOfRows [[' ', ' ', ' ', '1', ' '], ['2', ' ', ' ', ' ', '1'], [' ', ' ', ' ', ' ', ' ']]

/-- Turn 0: tank 0 turns to face down and tank 1 shoots along the middle row.  Turn 1:
tank 0 moves forward onto the cell of the shell, then tank 2 shoots at that cell. -/
def hideOracle : Oracle := fun t i =>
  match t, i with
  | 0, 0 => ActionRequest.RotateLeft90
  | 0, 1 => ActionRequest.Shoot
  | 1, 0 => ActionRequest.MoveForward
  | 1, 2 => ActionRequest.Shoot
  | _, _ => ActionRequest.DoNothing

/-- The game on `hideMap` with 50 steps and 5 shells per tank, on entry to the main
loop. -/
def hideStart : GM := startGame (newGM 0 Reason.ALL_TANKS_DEAD 0) 5 3 hideMap 50 5

/-- The game on `hideMap` in turn 1, after `performTankActions`. -/
def hideSubstep : Option GM :=
  (turnsFrom 30 hideOracle 1 hideStart).map
    (fun s1 => performTankActions (getTankActions
      { s1 with lastRoundGameboard_ := s1.gameboard_ } hideOracle))

/-! ## The search for the nearest enemy tank -/

/-- A matrix `m[y][x]` with the entry at `(x, y)` replaced. -/
def setAt {α : Type} (m : Int → Int → α) (x y : Int) (v : α) : Int → Int → α :=
  fun x1 y1 => if x1 = x ∧ y1 = y then v else m x1 y1

/-- The local variables of `get_path_stack`.  The matrices `visited` and `pi_graph` are
functions of the coordinates `(x, y)` of the entry `[y][x]`. -/
structure BfsState where
  visited : Int → Int → Bool
  pi_graph : Int → Int → Int × Int
  bfs_queue : List (Int × Int)
  found : Bool
  end_cell : Int × Int

/-- The test of `get_path_stack` for an enemy tank on the cell `p`:
`isdigit(new_cell) && new_cell != '0' + playerIndex_`. -/
def enemyCell (alg : TankNav) (gameboard : Board) (p : Int × Int) : Bool :=
  isdigit (cellAt gameboard p.1 p.2) && !showsPlayer (cellAt gameboard p.1 p.2) alg.playerIndex_

/-- The test of `get_path_stack` for a cell that the search does not enter: a wall, a
mine, a weakened wall or a tank of the own side. -/
def blockedCell (alg : TankNav) (gameboard : Board) (p : Int × Int) : Bool :=
  decide (cellAt gameboard p.1 p.2 = '#' ∨ cellAt gameboard p.1 p.2 = '@' ∨
    cellAt gameboard p.1 p.2 = '$') || showsPlayer (cellAt gameboard p.1 p.2) alg.playerIndex_

/-- The body of the `for` loop of `get_path_stack` for the direction `i`, at the cell
`(fst, snd)` taken from the queue. -/
def bfsVisit (alg : TankNav) (gameboard : Board) (rows cols : Int) (fst snd : Int)
    (st : BfsState) (i : Nat) : BfsState :=
  let n := stepCell fst snd (Direction.castNat i) rows cols
  if enemyCell alg gameboard n then
    { st with visited := setAt st.visited n.1 n.2 true,
              pi_graph := setAt st.pi_graph n.1 n.2 (fst, snd),
              end_cell := n, found := true }
  else if ¬ st.visited n.1 n.2 = true then
    let st1 := { st with visited := setAt st.visited n.1 n.2 true }
    if blockedCell alg gameboard n then st1
    else { st1 with pi_graph := setAt st1.pi_graph n.1 n.2 (fst, snd),
                    bfs_queue := st1.bfs_queue ++ [n] }
  else st

/-- The `for` loop of `get_path_stack` over the directions `is`, left by `break` once an
enemy tank is found. -/
def bfsExpand (alg : TankNav) (gameboard : Board) (rows cols : Int) (fst snd : Int) :
    List Nat → BfsState → BfsState
  | [], st => st
  | i :: rest, st =>
    let st1 := bfsVisit alg gameboard rows cols fst snd st i
    if st1.found then st1 else bfsExpand alg gameboard rows cols fst snd rest st1

/-- The `while` loop of `get_path_stack` over the queue; `none` when the fuel runs out. -/
def bfsLoop (alg : TankNav) (gameboard : Board) (rows cols : Int) :
    Nat → BfsState → Option BfsState
  | 0, _ => none
  | fuel + 1, st =>
    match st.bfs_queue with
    | [] => some st
    | c :: rest =>
      let st1 := bfsExpand alg gameboard rows cols c.1 c.2 (List.range 8)
        { st with bfs_queue := rest }
      if st1.found then some st1 else bfsLoop alg gameboard rows cols fuel st1

/-- The loop of `get_path_stack` that follows the parents from the target to the start.
The stack is a list with its top first; `none` when the fuel runs out. -/
def pathLoop (pi_graph : Int → Int → Int × Int) (start : Int × Int) :
    Nat → Int × Int → List (Int × Int) → Option (List (Int × Int))
  | 0, _, _ => none
  | fuel + 1, curr, path =>
    if curr ≠ start then pathLoop pi_graph start fuel (pi_graph curr.1 curr.2) (curr :: path)
    else some path

/-- Member `get_path_stack`: the stack returned, as the list of the cells in the order in
which `pop` hands them out; `none` when the fuel runs out. -/
def get_path_stack (fuel : Nat) (alg : TankNav) (gameboard : Board) :
    Option (List (Int × Int)) :=
  let rows := boardRows gameboard
  let cols := boardCols gameboard
  let x_start := alg.location_.1
  let y_start := alg.location_.2
  let st0 : BfsState :=
    { visited := setAt (fun _ _ => false) x_start y_start true,
      pi_graph := setAt (fun _ _ => (-2, -2)) x_start y_start (-1, -1),
      bfs_queue := [(x_start, y_start)], found := false, end_cell := (0, 0) }
  match bfsLoop alg gameboard rows cols fuel st0 with
  | none => none
  | some st =>
    if ¬ st.found = true then some []
    else pathLoop st.pi_graph (x_start, y_start) fuel st.end_cell []

/-! ## Paths to an enemy tank, as the claim about the search words them -/

/-- The cell `q` is one of the 8 neighbours of the cell `p` on the torus. -/
def neighbour (rows cols : Int) (p q : Int × Int) : Prop :=
  ∃ d : Direction, q = stepCell p.1 p.2 d rows cols

/-- The cells `path = c1 .. cn`, `n ≥ 1`, lead from the cell `a` to an enemy tank: `c1` is
a neighbour of `a`, each further cell is a neighbour of the one before it, `cn` holds an
enemy tank, and none of `c1 .. c(n-1)` is a wall, a mine, a weakened wall or a tank of the
own side. -/
def RouteFrom (alg : TankNav) (gameboard : Board) (a : Int × Int) (path : List (Int × Int)) :
    Prop :=
  List.Chain (neighbour (boardRows gameboard) (boardCols gameboard)) a path ∧
    (∃ last, path.getLast? = some last ∧ enemyCell alg gameboard last = true) ∧
    ∀ c ∈ path.dropLast, blockedCell alg gameboard c = false

/-- The cell lies on a grid of the given size. -/
def onGrid (rows cols : Int) (p : Int × Int) : Prop :=
  0 ≤ p.1 ∧ p.1 < cols ∧ 0 ≤ p.2 ∧ p.2 < rows

/-- The invariant of the search: `done` lists the cells taken from the queue so far, in
that order, `depth` is the number of steps in which the search reached a cell, and `todo`
holds the directions that the `for` loop has still to handle for the last cell of `done`. -/
structure BfsInv (alg : TankNav) (gameboard : Board) (rows cols : Int) (start : Int × Int)
    (st : BfsState) (done : List (Int × Int)) (depth : Int × Int → Nat) (todo : List Nat) :
    Prop where
  running : st.found = false
  start_mem : start ∈ done ++ st.bfs_queue
  depth_start : depth start = 0
  inside : ∀ c ∈ done ++ st.bfs_queue, onGrid rows cols c
  marked : ∀ c ∈ done ++ st.bfs_queue, st.visited c.1 c.2 = true
  nodup : (done ++ st.bfs_queue).Nodup
  parent : ∀ c ∈ done ++ st.bfs_queue, c ≠ start →
    blockedCell alg gameboard c = false ∧ enemyCell alg gameboard c = false ∧
      st.pi_graph c.1 c.2 ∈ done ∧ neighbour rows cols (st.pi_graph c.1 c.2) c ∧
      depth c = depth (st.pi_graph c.1 c.2) + 1
  sorted : (done ++ st.bfs_queue).Pairwise (fun a b => depth a ≤ depth b)
  bound : ∀ u, done.getLast? = some u → ∀ c ∈ st.bfs_queue, depth c ≤ depth u + 1
  closed : ∀ u ∈ done, ∀ d : Direction,
    (done.getLast? = some u ∧ d.toNat ∈ todo) ∨
      (enemyCell alg gameboard (stepCell u.1 u.2 d rows cols) = false ∧
        (blockedCell alg gameboard (stepCell u.1 u.2 d rows cols) = false →
          stepCell u.1 u.2 d rows cols ∈ done ++ st.bfs_queue ∧
            depth (stepCell u.1 u.2 d rows cols) ≤ depth u + 1))
  seen : ∀ c : Int × Int, st.visited c.1 c.2 = true →
    c ∈ done ++ st.bfs_queue ∨ blockedCell alg gameboard c = true

/-- The state in which the search has just found an enemy tank on the cell `n`, next to
the cell `u` taken from the queue. -/
structure BfsFound (alg : TankNav) (gameboard : Board) (rows cols : Int) (start : Int × Int)
    (st : BfsState) (done : List (Int × Int)) (depth : Int × Int → Nat) (u n : Int × Int) :
    Prop where
  found : st.found = true
  target : st.end_cell = n
  last : done.getLast? = some u
  next : neighbour rows cols u n
  enemy : enemyCell alg gameboard n = true
  before : ∃ st0 todo, BfsInv alg gameboard rows cols start st0 done depth todo ∧
    st.pi_graph = setAt st0.pi_graph n.1 n.2 u

/-! ## Concrete boards for the search -/

/-- A board of four rows: the tank of the algorithm at `(0, 0)`, walls that leave a passage
in the second row, a tank of the own side and an enemy tank at `(3, 2)`. -/
def mazeBoard : Board :=
  [['%', ' ', '#', ' ', ' '], ['#', ' ', '#', '1', ' '], [' ', ' ', '#', '2', '#'],
    ['#', '#', '#', '#', '#']]

/-- An algorithm of player 1 at `(0, 0)` on `mazeBoard`. -/
def mazeAlg : TankNav :=
  { location_ := (0, 0), direction_ := Direction.L, actionsQueue_ := [],
    playerIndex_ := 1, ammo_ := 3, turnsToShoot_ := 0, turnsToEvade_ := 0,
    backwardsFlag_ := false, gameboard := mazeBoard }

/-- A board on which the cell `(1, 1)` shows the digit of a tank of player 2, as does the
cell `(3, 1)`; the mark of the observing tank is at `(0, 1)`. -/
def driftBoard : Board :=
  [[' ', ' ', ' ', ' '], ['%', '2', ' ', '2'], [' ', ' ', ' ', ' ']]

/-- An algorithm of player 1 on `driftBoard` whose `location_` is `(1, 1)`. -/
def driftAlg : TankNav :=
  { location_ := (1, 1), direction_ := Direction.L, actionsQueue_ := [],
    playerIndex_ := 1, ammo_ := 3, turnsToShoot_ := 0, turnsToEvade_ := 0,
    backwardsFlag_ := false, gameboard := driftBoard }

/-! ## Substeps in which the iterator of `moveShells` never moves backwards -/

/-- Whether, in the iterations that the loop of `moveShells` makes from the iterator `it`
on (as many as the fuel allows), the iterator never moves back by more than one position.
The iterator moves back by one position when the shell at the iterator is erased together
with the opposite shell that stands right before it in the list: it then stands at the
shell that followed the two. -/
def steadyLoop : Nat → GM → Nat → Bool
  | 0, _, _ => true
  | fuel + 1, s, it =>
    if s.shells_.length ≤ it then true
    else
      decide (it ≤ (moveShellsStep s it).2.1 + 1) &&
        ((moveShellsStep s it).2.2 ||
          steadyLoop fuel (moveShellsStep s it).1 (moveShellsStep s it).2.1)

/-- Whether the iterator never moves back by more than one position in the two calls of
`moveShells` of the shell phase played from `s`. -/
def steadyPhase (fuel : Nat) (s : GM) : Bool :=
  steadyLoop fuel s 0 &&
    match moveShells fuel s with
    | none => true
    | some s1 => steadyLoop fuel (checkShellsCollide s1) 0

/-- The invariant of the loop of `moveShells` started in the state `s0`, as long as the
iterator has not moved back by more than one position: every shell of the list is a shell
of `s0` with its direction, on its cell, or one cell ahead when the iterator has passed
it. -/
def Tracked (s0 s : GM) (it : Nat) : Prop :=
  s.width_ = s0.width_ ∧ s.height_ = s0.height_ ∧
    ∀ (i : Nat) (sh : Shell), s.shells_[i]? = some sh → ∃ old ∈ s0.shells_,
      sh.direction_ = old.direction_ ∧
        (sh.location_ = old.location_ ∨
          (i < it ∧ sh.location_ =
            nextLocation s0 old.location_.1 old.location_.2 old.direction_ false))

/-- The cell `k` steps ahead of the cell `p` in the direction `d`, across the torus of the
board of `s`. -/
def aheadBy (s : GM) (d : Direction) : Nat → Int × Int → Int × Int
  | 0, p => p
  | k + 1, p => nextLocation s (aheadBy s d k p).1 (aheadBy s d k p).2 d false

/-- Five rows of seven cells: tank 0 (player 1) at `(0, 2)`, tank 1 (player 2) at `(2, 2)`
and tank 2 (player 2) at `(3, 2)`. -/
def resetMap : Nat → Nat → Char :=
  mapOfRows [[' ', ' ', ' ', ' ', ' ', ' ', ' '], [' ', ' ', ' ', ' ', ' ', ' ', ' '],
    ['1', ' ', '2', '2', ' ', ' ', ' '], [' ', ' ', ' ', ' ', ' ', ' ', ' '],
    [' ', ' ', ' ', ' ', ' ', ' ', ' ']]

/-- Turn 0: tank 1 turns to face down.  Turn 1: every tank shoots. -/
def resetOracle : Oracle := fun t i =>
  match t, i with
  | 0, 1 => ActionRequest.RotateRight90
  | 1, _ => ActionRequest.Shoot
  | _, _ => ActionRequest.DoNothing

/-- The game on `resetMap` with 50 steps and 5 shells per tank, on entry to the main
loop. -/
def resetStart : GM := startGame (newGM 0 Reason.ALL_TANKS_DEAD 0) 7 5 resetMap 50 5

/-- The game on `resetMap` in turn 1, after `performTankActions`. -/
def resetSubstep : Option GM :=
  (turnsFrom 30 resetOracle 1 resetStart).map
    (fun s1 => performTankActions (getTankActions
      { s1 with lastRoundGameboard_ := s1.gameboard_ } resetOracle))

/-- The state of the game on `resetMap` in turn 1, after `performTankActions`: the shells
of tank 0 and of tank 2 travel towards each other with the blank cell `(5, 2)` between
them, and the shell of tank 1 stands between the two in the list. -/
def resetShots : GM := resetSubstep.getD resetStart

/-! ## Two shells exchanged in the list of shells -/

/-- The shell `sh` after the exchange of the shells `A` and `B`. -/
def exchangeShell (A B sh : Shell) : Shell :=
  if sh = A then B else if sh = B then A else sh

/-- The state with the shells `A` and `B` exchanged in the list of shells. -/
def exchangeShells (A B : Shell) (s : GM) : GM :=
  { s with shells_ := s.shells_.map (exchangeShell A B) }

/-- The loop of `moveShells` goes from the state `s` with iterator `it` to the state `s2`
with iterator `it2` through iterations for shells that neither lie on one of the cells
`cells` nor have one of them ahead, and after none of which the function returns. -/
inductive QuietRun (cells : List (Int × Int)) : GM → Nat → GM → Nat → Prop
  | here (s : GM) (it : Nat) : QuietRun cells s it s it
  | next (s : GM) (it : Nat) (s2 : GM) (it2 : Nat) :
      it < s.shells_.length →
      (shellAt s it).location_ ∉ cells →
      nextLocation s (shellAt s it).location_.1 (shellAt s it).location_.2
        (shellAt s it).direction_ false ∉ cells →
      (moveShellsStep s it).2.2 = false →
      QuietRun cells (moveShellsStep s it).1 (moveShellsStep s it).2.1 s2 it2 →
      QuietRun cells s it s2 it2

/-- The shell `sh` when the shell `X` is replaced by `X2` and the shell `Y` by `Y2`. -/
def replaceShell (X X2 Y Y2 sh : Shell) : Shell :=
  if sh = X then X2 else if sh = Y then Y2 else sh

/-- The state `s` with the board changed by `pb` and every shell of the list by `f`. -/
def relatedBy (f : Shell → Shell) (pb : Board → Board) (s : GM) : GM :=
  { s with gameboard_ := pb s.gameboard_, shells_ := s.shells_.map f }

/-- Two rows of five cells: tank 0 (player 2) at `(0, 0)`, tank 1 (player 2) at `(0, 1)`
and tank 2 (player 1) at `(4, 1)`. -/
def meetMap : Nat → Nat → Char :=
  mapOfRows [['2', ' ', ' ', ' ', ' '], ['2', ' ', ' ', ' ', '1']]

/-- The game on `meetMap` with 50 steps and 5 shells per tank, on entry to the main
loop. -/
def meetStart : GM := startGame (newGM 0 Reason.ALL_TANKS_DEAD 0) 5 2 meetMap 50 5

/-- The game on `meetMap` in turn 0, after `performTankActions`, every tank having shot:
the shells of tank 1 and of tank 2 travel towards each other with the blank cell `(2, 1)`
between them. -/
def meetSubstep : GM :=
  performTankActions (getTankActions
    { meetStart with lastRoundGameboard_ := meetStart.gameboard_ } bothShoot)

/-- A board of five rows with five shells: the second and the fourth of the list lie face
to face at `(1, 2)` and `(2, 2)`. -/
def pairState : GM :=
  { newGM 0 Reason.ALL_TANKS_DEAD 0 with
    width_ := 5, height_ := 5,
    gameboard_ := [['*', ' ', ' ', ' ', '*'], [' ', ' ', ' ', ' ', ' '],
      [' ', '*', '*', ' ', ' '], [' ', ' ', ' ', ' ', ' '], [' ', ' ', '*', ' ', ' ']],
    shells_ := [Shell.mk0 0 0 Direction.R, Shell.mk0 1 2 Direction.R,
      Shell.mk0 2 4 Direction.U, Shell.mk0 2 2 Direction.L, Shell.mk0 4 0 Direction.D] }

/-! # Theorems -/

/-! ## Lists -/

theorem getD_modify {α : Type} (l : List α) (g : α → α) (i k : Nat) (d : α)
    (hk : k < l.length) :
    (l.modify g i).getD k d = if i = k then g (l.getD k d) else l.getD k d := by
  simp only [List.getD_eq_getElem?_getD, List.getElem?_modify]
  rw [List.getElem?_eq_getElem hk]
  by_cases h : i = k <;> simp [h]

theorem getD_modify_ne {α : Type} (l : List α) (g : α → α) (i k : Nat) (d : α)
    (h : i ≠ k) : (l.modify g i).getD k d = l.getD k d := by
  simp only [List.getD_eq_getElem?_getD, List.getElem?_modify]
  cases l[k]? <;> simp [h]

theorem map_modify_of_eq {α β : Type} (φ : α → β) (g : α → α) (h : ∀ t, φ (g t) = φ t)
    (l : List α) (i : Nat) : (l.modify g i).map φ = l.map φ := by
  apply List.ext_getElem?
  intro n
  simp only [List.getElem?_map, List.getElem?_modify]
  cases l[n]? with
  | none => rfl
  | some a => by_cases hn : i = n <;> simp [hn, h]

theorem getD_of_map_eq {α β : Type} (φ : α → β) (l l' : List α) (d : α)
    (h : l'.map φ = l.map φ) (k : Nat) : φ (l'.getD k d) = φ (l.getD k d) := by
  have h1 := @List.getD_map _ _ l' d k φ
  have h2 := @List.getD_map _ _ l d k φ
  rw [← h1, ← h2, h]

theorem length_of_map_eq {α β : Type} (φ : α → β) (l l' : List α)
    (h : l'.map φ = l.map φ) : l'.length = l.length := by
  have := congrArg List.length h
  simpa using this

theorem firstIdx_some {α : Type} (p : α → Bool) (d : α) :
    ∀ (l : List α) (k : Nat), firstIdx p l = some k →
      k < l.length ∧ p (l.getD k d) = true ∧ ∀ j, j < k → p (l.getD j d) = false
  | [], k, h => by simp [firstIdx] at h
  | a :: l, k, h => by
    unfold firstIdx at h
    by_cases hp : p a = true
    · simp only [hp, if_true, Option.some.injEq] at h
      subst h
      simp [hp]
    · simp only [hp, Bool.false_eq_true, if_false, Option.map_eq_some'] at h
      obtain ⟨k', hk', rfl⟩ := h
      obtain ⟨h1, h2, h3⟩ := firstIdx_some p d l k' hk'
      refine ⟨by simpa using h1, by simpa using h2, ?_⟩
      intro j hj
      cases j with
      | zero => simpa using hp
      | succ j => simpa using h3 j (by omega)

theorem firstIdx_none {α : Type} (p : α → Bool) (d : α) :
    ∀ (l : List α), firstIdx p l = none → ∀ k, k < l.length → p (l.getD k d) = false
  | [], _, k, hk => by simp at hk
  | a :: l, h, k, hk => by
    unfold firstIdx at h
    by_cases hp : p a = true
    · simp [hp] at h
    · simp only [hp, Bool.false_eq_true, if_false, Option.map_eq_none'] at h
      cases k with
      | zero => simpa using hp
      | succ k => simpa using firstIdx_none p d l h k (by simpa using hk)

theorem firstIdx_isSome {α : Type} (p : α → Bool) (d : α) (l : List α) (k : Nat)
    (hk : k < l.length) (hp : p (l.getD k d) = true) : ∃ j, firstIdx p l = some j := by
  cases h : firstIdx p l with
  | some j => exact ⟨j, rfl⟩
  | none =>
    have := firstIdx_none p d l h k hk
    rw [hp] at this
    cases this

/-! ## Board cells -/

theorem cellAt_setCell_same_or (b : Board) (x y : Int) (c : Char) :
    cellAt (setCell b x y c) x y = c ∨
      (cellAt (setCell b x y c) x y = NUL ∧ cellAt b x y = NUL) := by
  unfold cellAt setCell
  by_cases h : 0 ≤ x ∧ 0 ≤ y
  · simp only [h, and_self, if_true]
    simp only [List.getD_eq_getElem?_getD, List.getElem?_modify]
    cases hb : b[y.toNat]? with
    | none => simp
    | some row =>
      by_cases hl : x.toNat < row.length
      · left; simp [List.getElem?_set, hl]
      · right; simp [List.getElem?_set, hl]
        rw [List.getElem?_eq_none_iff.mpr (by omega)]; simp
  · simp [h]

theorem cellAt_setCell_ne (b : Board) (x y x1 y1 : Int) (c : Char)
    (h : ¬ (x1 = x ∧ y1 = y)) :
    cellAt (setCell b x y c) x1 y1 = cellAt b x1 y1 := by
  unfold cellAt setCell
  by_cases h0 : 0 ≤ x ∧ 0 ≤ y
  · by_cases h1 : 0 ≤ x1 ∧ 0 ≤ y1
    · simp only [h0, h1, and_self, if_true]
      simp only [List.getD_eq_getElem?_getD, List.getElem?_modify]
      cases hb : b[y1.toNat]? with
      | none => simp
      | some row =>
        by_cases hy : y.toNat = y1.toNat
        · have hx : ¬ x.toNat = x1.toNat := by
            intro hx; apply h; constructor <;> omega
          simp [hy, List.getElem?_set, hx]
        · simp [hy]
    · simp [h1]
  · simp [h0]

theorem cellAt_setCell_same (b : Board) (x y : Int) (c : Char) (h : cellAt b x y ≠ NUL) :
    cellAt (setCell b x y c) x y = c := by
  rcases cellAt_setCell_same_or b x y c with h1 | ⟨_, h2⟩
  · exact h1
  · exact absurd h2 h

theorem cellAt_setCell_cases (b : Board) (x y x1 y1 : Int) (c : Char) :
    cellAt (setCell b x y c) x1 y1 = cellAt b x1 y1 ∨
      (x1 = x ∧ y1 = y ∧ (cellAt (setCell b x y c) x1 y1 = c ∨
        cellAt (setCell b x y c) x1 y1 = NUL)) := by
  by_cases h : x1 = x ∧ y1 = y
  · obtain ⟨rfl, rfl⟩ := h
    rcases cellAt_setCell_same_or b x1 y1 c with h1 | ⟨h1, _⟩
    · exact Or.inr ⟨rfl, rfl, Or.inl h1⟩
    · exact Or.inr ⟨rfl, rfl, Or.inr h1⟩
  · exact Or.inl (cellAt_setCell_ne b x y x1 y1 c h)

theorem cellAt_neg (b : Board) (x y : Int) (h : x < 0 ∨ y < 0) : cellAt b x y = NUL := by
  unfold cellAt
  have : ¬ (0 ≤ x ∧ 0 ≤ y) := by omega
  simp [this]

theorem NUL_ne : NUL ≠ '1' ∧ NUL ≠ '2' ∧ NUL ≠ 'a' ∧ NUL ≠ 'b' ∧ NUL ≠ ' ' ∧ NUL ≠ '#' ∧
    NUL ≠ '$' ∧ NUL ≠ '*' ∧ NUL ≠ '@' ∧ NUL ≠ '^' ∧ NUL ≠ 'c' ∧ NUL ≠ 'd' := by decide

/-- A character that is neither a tank digit nor a tank-over-shell letter. -/
theorem needsTank_setCell (b : Board) (shells : List Shell) (x y x1 y1 : Int) (c : Char)
    (hc : c ≠ '1' ∧ c ≠ '2' ∧ c ≠ 'a' ∧ c ≠ 'b')
    (h : NeedsTank (setCell b x y c) shells x1 y1) : NeedsTank b shells x1 y1 := by
  unfold NeedsTank at h ⊢
  rcases cellAt_setCell_cases b x y x1 y1 c with h1 | ⟨_, _, h1 | h1⟩
  · rw [h1] at h; exact h
  · rw [h1] at h
    rcases h with h | h | ⟨h | h, _⟩
    · exact absurd h hc.1
    · exact absurd h hc.2.1
    · exact absurd h hc.2.2.1
    · exact absurd h hc.2.2.2
  · rw [h1] at h
    have := NUL_ne
    rcases h with h | h | ⟨h | h, _⟩
    · exact absurd h this.1
    · exact absurd h this.2.1
    · exact absurd h this.2.2.1
    · exact absurd h this.2.2.2.1

theorem needsTank_shells_mono (b : Board) (shells shells' : List Shell) (x y : Int)
    (hs : ∀ sh ∈ shells', ∃ sh0 ∈ shells, sh0.location_ = sh.location_)
    (h : NeedsTank b shells' x y) : NeedsTank b shells x y := by
  unfold NeedsTank at h ⊢
  rcases h with h | h | ⟨h, sh, hsh, hl⟩
  · exact Or.inl h
  · exact Or.inr (Or.inl h)
  · obtain ⟨sh0, h0, hl0⟩ := hs sh hsh
    exact Or.inr (Or.inr ⟨h, sh0, h0, hl0.trans hl⟩)

/-! ## Field projections of the primitive operations -/

@[simp] theorem setBoard_tanks (s : GM) (x y : Int) (c : Char) :
    (setBoard s x y c).tanks_ = s.tanks_ := rfl
@[simp] theorem setBoard_shells (s : GM) (x y : Int) (c : Char) :
    (setBoard s x y c).shells_ = s.shells_ := rfl
@[simp] theorem setBoard_destroyed (s : GM) (x y : Int) (c : Char) :
    (setBoard s x y c).destroyedTanksIndices_ = s.destroyedTanksIndices_ := rfl
@[simp] theorem setBoard_board (s : GM) (x y : Int) (c : Char) :
    (setBoard s x y c).gameboard_ = setCell s.gameboard_ x y c := rfl
@[simp] theorem modifyTank_tanks (s : GM) (i : Nat) (f : TankInfo → TankInfo) :
    (modifyTank s i f).tanks_ = s.tanks_.modify f i := rfl
@[simp] theorem modifyTank_shells (s : GM) (i : Nat) (f : TankInfo → TankInfo) :
    (modifyTank s i f).shells_ = s.shells_ := rfl
@[simp] theorem modifyTank_destroyed (s : GM) (i : Nat) (f : TankInfo → TankInfo) :
    (modifyTank s i f).destroyedTanksIndices_ = s.destroyedTanksIndices_ := rfl
@[simp] theorem modifyTank_board (s : GM) (i : Nat) (f : TankInfo → TankInfo) :
    (modifyTank s i f).gameboard_ = s.gameboard_ := rfl
@[simp] theorem modifyShell_tanks (s : GM) (i : Nat) (f : Shell → Shell) :
    (modifyShell s i f).tanks_ = s.tanks_ := rfl
@[simp] theorem modifyShell_shells (s : GM) (i : Nat) (f : Shell → Shell) :
    (modifyShell s i f).shells_ = s.shells_.modify f i := rfl
@[simp] theorem modifyShell_destroyed (s : GM) (i : Nat) (f : Shell → Shell) :
    (modifyShell s i f).destroyedTanksIndices_ = s.destroyedTanksIndices_ := rfl
@[simp] theorem modifyShell_board (s : GM) (i : Nat) (f : Shell → Shell) :
    (modifyShell s i f).gameboard_ = s.gameboard_ := rfl
@[simp] theorem deleteShell_tanks (s : GM) (j : Nat) :
    (deleteShell s j).tanks_ = s.tanks_ := rfl
@[simp] theorem deleteShell_shells (s : GM) (j : Nat) :
    (deleteShell s j).shells_ = s.shells_.eraseIdx j := rfl
@[simp] theorem deleteShell_destroyed (s : GM) (j : Nat) :
    (deleteShell s j).destroyedTanksIndices_ = s.destroyedTanksIndices_ := rfl
@[simp] theorem deleteShell_board (s : GM) (j : Nat) :
    (deleteShell s j).gameboard_ = s.gameboard_ := rfl
@[simp] theorem destroyTank_tanks (s : GM) (k : Nat) :
    (destroyTank s k).tanks_ = s.tanks_.modify TankInfo.increaseTurnsDead k := rfl
@[simp] theorem destroyTank_shells (s : GM) (k : Nat) :
    (destroyTank s k).shells_ = s.shells_ := rfl
@[simp] theorem destroyTank_board (s : GM) (k : Nat) :
    (destroyTank s k).gameboard_ = s.gameboard_ := rfl
@[simp] theorem destroyTank_destroyed (s : GM) (k : Nat) :
    (destroyTank s k).destroyedTanksIndices_ =
      if k ∈ s.destroyedTanksIndices_ then s.destroyedTanksIndices_
      else s.destroyedTanksIndices_ ++ [k] := rfl

theorem tankAt_def (s : GM) (k : Nat) : tankAt s k = s.tanks_.getD k default := rfl

/-! ## Keeping the invariant -/

theorem hasTank_of_key_eq (l l' : List TankInfo) (h : l'.map tankKey = l.map tankKey)
    (x y : Int) (ht : HasTank l x y) : HasTank l' x y := by
  obtain ⟨k, hk, hl⟩ := ht
  refine ⟨k, by rw [length_of_map_eq tankKey l l' h]; exact hk, ?_⟩
  have := getD_of_map_eq tankKey l l' default h k
  simp only [tankKey, Prod.mk.injEq] at this
  rw [this.1, hl]

/-- Changes that keep the tanks (up to fields the invariant ignores) and do not ask for a
tank on a cell where none is located. -/
theorem Inv.of_cover {s s' : GM} (hI : Inv s)
    (ht : s'.tanks_.map tankKey = s.tanks_.map tankKey)
    (hd : s'.destroyedTanksIndices_ = s.destroyedTanksIndices_)
    (hc : ∀ x y, NeedsTank s'.gameboard_ s'.shells_ x y →
      NeedsTank s.gameboard_ s.shells_ x y ∨ HasTank s.tanks_ x y) : Inv s' := by
  have hlen := length_of_map_eq tankKey _ _ ht
  have hkey : ∀ k, tankKey (tankAt s' k) = tankKey (tankAt s k) :=
    fun k => getD_of_map_eq tankKey _ _ default ht k
  have hloc : ∀ k, (tankAt s' k).location_ = (tankAt s k).location_ := fun k => by
    have := hkey k; simp only [tankKey, Prod.mk.injEq] at this; exact this.1
  have hdead : ∀ k, (tankAt s' k).turnsDead_ = (tankAt s k).turnsDead_ := fun k => by
    have := hkey k; simp only [tankKey, Prod.mk.injEq] at this; exact this.2.1
  have hpl : ∀ k, (tankAt s' k).playerId_ = (tankAt s k).playerId_ := fun k => by
    have := hkey k; simp only [tankKey, Prod.mk.injEq] at this; exact this.2.2
  constructor
  · intro k hk; rw [hdead]; exact hI.dead_nonneg k (hlen ▸ hk)
  · intro k hk h; rw [hloc]; rw [hdead] at h; exact hI.dead_loc k (hlen ▸ hk) h
  · rw [hd]; exact hI.destroyed_nodup
  · intro k; rw [hd, hlen, hdead]; exact hI.destroyed_iff k
  · intro k hk; rw [hpl]; exact hI.player k (hlen ▸ hk)
  · intro x y h
    apply hasTank_of_key_eq _ _ ht
    rcases hc x y h with h1 | h1
    · exact hI.cover x y h1
    · exact h1
  · rw [hlen]; exact hI.size

/-- Special case: the tanks, the shells' cells and the destroyed set are kept and the board
changes only to characters that are no tank marks. -/
theorem Inv.of_mono {s s' : GM} (hI : Inv s)
    (ht : s'.tanks_.map tankKey = s.tanks_.map tankKey)
    (hd : s'.destroyedTanksIndices_ = s.destroyedTanksIndices_)
    (hc : ∀ x y, NeedsTank s'.gameboard_ s'.shells_ x y →
      NeedsTank s.gameboard_ s.shells_ x y) : Inv s' :=
  hI.of_cover ht hd (fun x y h => Or.inl (hc x y h))

theorem Inv.set_board {s : GM} (hI : Inv s) (x y : Int) (c : Char)
    (hc : c ≠ '1' ∧ c ≠ '2' ∧ c ≠ 'a' ∧ c ≠ 'b') : Inv (setBoard s x y c) :=
  hI.of_mono rfl rfl (fun _ _ h => needsTank_setCell _ _ _ _ _ _ c hc h)

theorem Inv.set_board_hasTank {s : GM} (hI : Inv s) (x y : Int) (c : Char)
    (ht : HasTank s.tanks_ x y) : Inv (setBoard s x y c) := by
  refine hI.of_cover rfl rfl ?_
  intro x1 y1 h
  by_cases hxy : x1 = x ∧ y1 = y
  · obtain ⟨rfl, rfl⟩ := hxy; exact Or.inr ht
  · left
    unfold NeedsTank at h ⊢
    simp only [setBoard_board, setBoard_shells] at h
    rw [cellAt_setCell_ne _ _ _ _ _ _ hxy] at h
    exact h

theorem mem_eraseIdx_mem {α : Type} (l : List α) (j : Nat) (a : α)
    (h : a ∈ l.eraseIdx j) : a ∈ l := List.mem_of_mem_eraseIdx h

theorem Inv.delete_shell {s : GM} (hI : Inv s) (j : Nat) : Inv (deleteShell s j) :=
  hI.of_mono rfl rfl (fun _ _ h => needsTank_shells_mono _ _ _ _ _
    (fun sh hsh => ⟨sh, List.mem_of_mem_eraseIdx hsh, rfl⟩) h)

theorem Inv.modify_tank_key {s : GM} (hI : Inv s) (i : Nat) (f : TankInfo → TankInfo)
    (hf : ∀ t, tankKey (f t) = tankKey t) : Inv (modifyTank s i f) :=
  hI.of_mono (map_modify_of_eq tankKey f hf _ i) rfl (fun _ _ h => h)

theorem mem_modify_loc (l : List Shell) (f : Shell → Shell) (i : Nat)
    (hf : ∀ t, (f t).location_ = t.location_) (sh : Shell) (h : sh ∈ l.modify f i) :
    ∃ sh0 ∈ l, sh0.location_ = sh.location_ := by
  rw [List.mem_iff_getElem?] at h
  obtain ⟨n, hn⟩ := h
  rw [List.getElem?_modify] at hn
  cases hl : l[n]? with
  | none => rw [hl] at hn; simp at hn
  | some a =>
    rw [hl] at hn
    simp at hn
    refine ⟨a, List.getElem?_mem hl, ?_⟩
    rw [← hn]
    by_cases h1 : i = n <;> simp [h1, hf]

theorem Inv.modify_shell_loc {s : GM} (hI : Inv s) (i : Nat) (f : Shell → Shell)
    (hf : ∀ t, (f t).location_ = t.location_) : Inv (modifyShell s i f) :=
  hI.of_mono rfl rfl (fun _ _ h => needsTank_shells_mono _ _ _ _ _
    (fun sh hsh => mem_modify_loc _ f i hf sh hsh) h)

theorem tankAt_modifyTank (s : GM) (i k : Nat) (f : TankInfo → TankInfo)
    (hk : k < s.tanks_.length) :
    tankAt (modifyTank s i f) k = if i = k then f (tankAt s k) else tankAt s k := by
  simp only [tankAt, modifyTank_tanks]
  exact getD_modify _ _ _ _ _ hk

theorem tankAt_destroyTank (s : GM) (i k : Nat) (hk : k < s.tanks_.length) :
    tankAt (destroyTank s i) k =
      if i = k then (tankAt s k).increaseTurnsDead else tankAt s k := by
  simp only [tankAt, destroyTank_tanks]
  exact getD_modify _ _ _ _ _ hk

theorem not_needsTank_of_cell (b : Board) (shells : List Shell) (x y : Int)
    (h : cellAt b x y ≠ '1' ∧ cellAt b x y ≠ '2' ∧ cellAt b x y ≠ 'a' ∧ cellAt b x y ≠ 'b') :
    ¬ NeedsTank b shells x y := by
  unfold NeedsTank
  rintro (h1 | h1 | ⟨h1 | h1, _⟩)
  · exact h.1 h1
  · exact h.2.1 h1
  · exact h.2.2.1 h1
  · exact h.2.2.2 h1

theorem not_needsTank_setCell (b : Board) (shells : List Shell) (x y : Int) (c : Char)
    (hc : c ≠ '1' ∧ c ≠ '2' ∧ c ≠ 'a' ∧ c ≠ 'b') :
    ¬ NeedsTank (setCell b x y c) shells x y := by
  apply not_needsTank_of_cell
  have hn := NUL_ne
  rcases cellAt_setCell_same_or b x y c with h | ⟨h, _⟩ <;> rw [h]
  · exact hc
  · exact ⟨hn.1, hn.2.1, hn.2.2.1, hn.2.2.2.1⟩

theorem not_needsTank_neg (b : Board) (shells : List Shell) :
    ¬ NeedsTank b shells (-1) (-1) := by
  apply not_needsTank_of_cell
  rw [cellAt_neg b (-1) (-1) (by omega)]
  have hn := NUL_ne
  exact ⟨hn.1, hn.2.1, hn.2.2.1, hn.2.2.2.1⟩

/-- Killing a tank whose cell asks for no tank keeps the invariant. -/
theorem Inv.destroy {s : GM} (hI : Inv s) (k : Nat) (hk : k < s.tanks_.length)
    (hn : ¬ NeedsTank s.gameboard_ s.shells_ (tankAt s k).location_.1
      (tankAt s k).location_.2) : Inv (destroyTank s k) := by
  have hlen : (destroyTank s k).tanks_.length = s.tanks_.length := by simp
  constructor
  · intro j hj
    rw [hlen] at hj
    rw [tankAt_destroyTank s k j hj]
    have := hI.dead_nonneg j hj
    by_cases h : k = j
    · simp only [h, if_true, TankInfo.increaseTurnsDead]; omega
    · simp only [h, if_false]; exact this
  · intro j hj
    rw [hlen] at hj
    rw [tankAt_destroyTank s k j hj]
    by_cases h : k = j
    · simp [h, TankInfo.increaseTurnsDead]
    · simp only [h, if_false]; exact hI.dead_loc j hj
  · simp only [destroyTank_destroyed]
    by_cases h : k ∈ s.destroyedTanksIndices_
    · simp only [h, if_true]; exact hI.destroyed_nodup
    · simp only [h, if_false]
      apply List.Nodup.append hI.destroyed_nodup (List.nodup_singleton k)
      intro a ha hb
      simp only [List.mem_singleton] at hb
      subst hb
      exact h ha
  · intro j
    rw [hlen]
    simp only [destroyTank_destroyed]
    have hkd := hI.dead_nonneg k hk
    by_cases h : k ∈ s.destroyedTanksIndices_
    · simp only [h, if_true]
      rw [hI.destroyed_iff j]
      constructor
      · rintro ⟨hj, hd⟩
        refine ⟨hj, ?_⟩
        rw [tankAt_destroyTank s k j hj]
        by_cases hkj : k = j
        · have := hI.dead_nonneg j hj
          simp only [hkj, if_true, TankInfo.increaseTurnsDead]; omega
        · simp only [hkj, if_false]; exact hd
      · rintro ⟨hj, hd⟩
        refine ⟨hj, ?_⟩
        rw [tankAt_destroyTank s k j hj] at hd
        by_cases hkj : k = j
        · subst hkj; exact ((hI.destroyed_iff k).1 h).2
        · simpa only [hkj, if_false] using hd
    · simp only [h, if_false, List.mem_append, List.mem_singleton]
      rw [hI.destroyed_iff j]
      constructor
      · rintro (⟨hj, hd⟩ | rfl)
        · refine ⟨hj, ?_⟩
          rw [tankAt_destroyTank s k j hj]
          by_cases hkj : k = j
          · have := hI.dead_nonneg j hj
            simp only [hkj, if_true, TankInfo.increaseTurnsDead]; omega
          · simp only [hkj, if_false]; exact hd
        · refine ⟨hk, ?_⟩
          rw [tankAt_destroyTank s j j hk]
          simp only [if_true, TankInfo.increaseTurnsDead]; omega
      · rintro ⟨hj, hd⟩
        rw [tankAt_destroyTank s k j hj] at hd
        by_cases hkj : k = j
        · exact Or.inr hkj.symm
        · left; exact ⟨hj, by simpa only [hkj, if_false] using hd⟩
  · intro j hj
    rw [hlen] at hj
    rw [tankAt_destroyTank s k j hj]
    by_cases h : k = j
    · simp only [h, if_true, TankInfo.increaseTurnsDead]; exact hI.player j hj
    · simp only [h, if_false]; exact hI.player j hj
  · intro x y h
    obtain ⟨j, hj, hl⟩ := hI.cover x y h
    refine ⟨j, by rw [hlen]; exact hj, ?_⟩
    have hjk : k ≠ j := by
      rintro rfl
      apply hn
      simp only [tankAt, hl]
      exact h
    have := tankAt_destroyTank s k j hj
    simp only [hjk, if_false, tankAt] at this
    rw [this, hl]
  · rw [hlen]; exact hI.size

/-- The commutation used to clear a cell before the tank on it is destroyed. -/
theorem destroyTank_setBoard (s : GM) (k : Nat) (x y : Int) (c : Char) :
    setBoard (destroyTank s k) x y c = destroyTank (setBoard s x y c) k := rfl

/-- Killing the tank at `(x, y)` and writing a character that is no tank mark there. -/
theorem Inv.destroy_clear {s : GM} (hI : Inv s) (k : Nat) (hk : k < s.tanks_.length)
    (x y : Int) (hl : (tankAt s k).location_ = (x, y)) (c : Char)
    (hc : c ≠ '1' ∧ c ≠ '2' ∧ c ≠ 'a' ∧ c ≠ 'b') :
    Inv (setBoard (destroyTank s k) x y c) := by
  rw [destroyTank_setBoard]
  apply Inv.destroy (hI.set_board x y c hc) k hk
  have : tankAt (setBoard s x y c) k = tankAt s k := rfl
  rw [this, hl]
  exact not_needsTank_setCell _ _ _ _ _ hc

/-- Moving an alive tank whose old cell asks for no tank. -/
theorem Inv.move_tank {s : GM} (hI : Inv s) (i : Nat) (hi : i < s.tanks_.length)
    (ha : (tankAt s i).turnsDead_ = 0)
    (hn : ¬ NeedsTank s.gameboard_ s.shells_ (tankAt s i).location_.1
      (tankAt s i).location_.2) (x y : Int) (c : Char) :
    Inv (modifyTank (setBoard s x y c) i (fun t => t.setLocation x y)) := by
  have hlen : (modifyTank (setBoard s x y c) i
      (fun t => t.setLocation x y)).tanks_.length = s.tanks_.length := by simp
  have hat : ∀ j, j < s.tanks_.length →
      tankAt (modifyTank (setBoard s x y c) i (fun t => t.setLocation x y)) j =
        if i = j then (tankAt s j).setLocation x y else tankAt s j := by
    intro j hj
    exact tankAt_modifyTank (setBoard s x y c) i j _ hj
  constructor
  · intro j hj
    rw [hlen] at hj
    rw [hat j hj]
    by_cases h : i = j
    · simp only [h, if_true, TankInfo.setLocation]; exact hI.dead_nonneg j hj
    · simp only [h, if_false]; exact hI.dead_nonneg j hj
  · intro j hj
    rw [hlen] at hj
    rw [hat j hj]
    by_cases h : i = j
    · subst h
      simp only [if_true, TankInfo.setLocation]
      intro h0; exact absurd ha h0
    · simp only [h, if_false]; exact hI.dead_loc j hj
  · exact hI.destroyed_nodup
  · intro j
    rw [hlen]
    show j ∈ s.destroyedTanksIndices_ ↔ _
    rw [hI.destroyed_iff j]
    constructor
    · rintro ⟨hj, hd⟩
      refine ⟨hj, ?_⟩
      rw [hat j hj]
      by_cases h : i = j
      · simp only [h, if_true, TankInfo.setLocation]; exact hd
      · simp only [h, if_false]; exact hd
    · rintro ⟨hj, hd⟩
      refine ⟨hj, ?_⟩
      rw [hat j hj] at hd
      by_cases h : i = j
      · simpa only [h, if_true, TankInfo.setLocation] using hd
      · simpa only [h, if_false] using hd
  · intro j hj
    rw [hlen] at hj
    rw [hat j hj]
    by_cases h : i = j
    · simp only [h, if_true, TankInfo.setLocation]; exact hI.player j hj
    · simp only [h, if_false]; exact hI.player j hj
  · intro x1 y1 h
    by_cases hxy : x1 = x ∧ y1 = y
    · obtain ⟨rfl, rfl⟩ := hxy
      refine ⟨i, by rw [hlen]; exact hi, ?_⟩
      have := hat i hi
      simp only [if_true, tankAt] at this
      rw [this]; rfl
    · have h' : NeedsTank s.gameboard_ s.shells_ x1 y1 := by
        unfold NeedsTank at h ⊢
        simp only [modifyTank_board, modifyTank_shells, setBoard_board, setBoard_shells] at h
        rw [cellAt_setCell_ne _ _ _ _ _ _ hxy] at h
        exact h
      obtain ⟨j, hj, hl⟩ := hI.cover x1 y1 h'
      refine ⟨j, by rw [hlen]; exact hj, ?_⟩
      have hij : i ≠ j := by
        rintro rfl
        apply hn
        simp only [tankAt, hl]
        exact h'
      have := hat j hj
      simp only [hij, if_false, tankAt] at this
      rw [this, hl]
  · rw [hlen]; exact hI.size

/-- Appending a shell on a cell that shows no tank-over-shell letter. -/
theorem Inv.push_shell {s : GM} (hI : Inv s) (sh : Shell)
    (hc : cellAt s.gameboard_ sh.location_.1 sh.location_.2 ≠ 'a' ∧
      cellAt s.gameboard_ sh.location_.1 sh.location_.2 ≠ 'b') :
    Inv { s with shells_ := s.shells_ ++ [sh] } := by
  refine hI.of_mono rfl rfl ?_
  intro x y h
  unfold NeedsTank at h ⊢
  rcases h with h | h | ⟨h, sh1, hm, hl⟩
  · exact Or.inl h
  · exact Or.inr (Or.inl h)
  · simp only [List.mem_append, List.mem_singleton] at hm
    rcases hm with hm | rfl
    · exact Or.inr (Or.inr ⟨h, sh1, hm, hl⟩)
    · rw [hl] at hc
      rcases h with h | h
      · exact absurd h hc.1
      · exact absurd h hc.2

theorem mem_modify_or {α : Type} (l : List α) (f : α → α) (i : Nat) (a : α)
    (h : a ∈ l.modify f i) : a ∈ l ∨ ∃ a0 ∈ l, a = f a0 := by
  rw [List.mem_iff_getElem?] at h
  obtain ⟨n, hn⟩ := h
  rw [List.getElem?_modify] at hn
  cases hl : l[n]? with
  | none => rw [hl] at hn; simp at hn
  | some a0 =>
    rw [hl] at hn
    simp at hn
    by_cases h1 : i = n
    · right; exact ⟨a0, List.getElem?_mem hl, by simp [h1] at hn; exact hn.symm⟩
    · left; simp [h1] at hn; rw [← hn]; exact List.getElem?_mem hl

/-- Moving a shell to `(x, y)` and writing a character that is no tank mark there. -/
theorem Inv.move_shell {s : GM} (hI : Inv s) (it : Nat) (x y : Int) (c : Char)
    (hc : c ≠ '1' ∧ c ≠ '2' ∧ c ≠ 'a' ∧ c ≠ 'b') :
    Inv (setBoard (modifyShell s it (fun sh => { sh with location_ := (x, y) })) x y c) := by
  refine hI.of_mono rfl rfl ?_
  intro x1 y1 h
  by_cases hxy : x1 = x ∧ y1 = y
  · obtain ⟨rfl, rfl⟩ := hxy
    exact absurd h (not_needsTank_setCell _ _ _ _ _ hc)
  · unfold NeedsTank at h ⊢
    simp only [setBoard_board, setBoard_shells, modifyShell_board, modifyShell_shells] at h
    rw [cellAt_setCell_ne _ _ _ _ _ _ hxy] at h
    rcases h with h | h | ⟨h, sh1, hm, hl⟩
    · exact Or.inl h
    · exact Or.inr (Or.inl h)
    · rcases mem_modify_or _ _ _ _ hm with hm | ⟨a0, _, rfl⟩
      · exact Or.inr (Or.inr ⟨h, sh1, hm, hl⟩)
      · simp only [Prod.mk.injEq] at hl
        exact absurd ⟨hl.1.symm, hl.2.symm⟩ hxy

/-! ## The action phase keeps the invariant -/

theorem getTankIndexAt_some (s : GM) (x y : Int) (k : Nat)
    (h : getTankIndexAt s x y = some k) :
    k < s.tanks_.length ∧ (tankAt s k).location_ = (x, y) := by
  obtain ⟨h1, h2, _⟩ := firstIdx_some _ default _ _ h
  exact ⟨h1, of_decide_eq_true h2⟩

theorem getTankIndexAt_isSome (s : GM) (x y : Int) (h : HasTank s.tanks_ x y) :
    ∃ k, getTankIndexAt s x y = some k := by
  obtain ⟨k, hk, hl⟩ := h
  exact firstIdx_isSome _ default _ k hk (decide_eq_true hl)

theorem getShellAt_some (s : GM) (x y : Int) (k : Nat)
    (h : getShellAt s x y = some k) :
    k < s.shells_.length ∧ (shellAt s k).location_ = (x, y) := by
  obtain ⟨h1, h2, _⟩ := firstIdx_some _ default _ _ h
  exact ⟨h1, of_decide_eq_true h2⟩

theorem Inv.set_ub {s : GM} (hI : Inv s) : Inv { s with ub := true } :=
  hI.of_mono rfl rfl (fun _ _ h => h)

theorem tankKey_modifyTank (s : GM) (i k : Nat) (f : TankInfo → TankInfo)
    (hf : ∀ t, tankKey (f t) = tankKey t) :
    tankKey (tankAt (modifyTank s i f) k) = tankKey (tankAt s k) :=
  getD_of_map_eq tankKey _ _ default (map_modify_of_eq tankKey f hf _ i) k

theorem dead_modifyTank (s : GM) (i k : Nat) (f : TankInfo → TankInfo)
    (hf : ∀ t, tankKey (f t) = tankKey t) :
    (tankAt (modifyTank s i f) k).turnsDead_ = (tankAt s k).turnsDead_ := by
  have := tankKey_modifyTank s i k f hf
  simp only [tankKey, Prod.mk.injEq] at this
  exact this.2.1

theorem blank_ok : (' ' : Char) ≠ '1' ∧ (' ' : Char) ≠ '2' ∧ (' ' : Char) ≠ 'a' ∧
    (' ' : Char) ≠ 'b' := by decide

theorem Inv.handleTankCollisionAt_ok {s : GM} (hI : Inv s) (i : Nat)
    (hi : i < s.tanks_.length) (ha : (tankAt s i).turnsDead_ = 0)
    (old_x old_y new_x new_y : Int) (hl : (tankAt s i).location_ = (old_x, old_y))
    (hn : ¬ NeedsTank s.gameboard_ s.shells_ old_x old_y) (dir : Direction)
    (next_cell : Char) :
    Inv (TankGame.handleTankCollisionAt s i old_x old_y new_x new_y dir next_cell) := by
  have hn' : ¬ NeedsTank s.gameboard_ s.shells_ (tankAt s i).location_.1
      (tankAt s i).location_.2 := by rw [hl]; exact hn
  have hkill : ∀ k, getTankIndexAt s old_x old_y = some k → Inv (destroyTank s k) := by
    intro k hk
    obtain ⟨hk1, hk2⟩ := getTankIndexAt_some s _ _ k hk
    exact hI.destroy k hk1 (by rw [hk2]; exact hn)
  unfold TankGame.handleTankCollisionAt
  simp only
  by_cases h1 : next_cell = ' '
  · rw [if_pos h1]
    exact hI.move_tank i hi ha hn' _ _ _
  rw [if_neg h1]
  by_cases h2 : next_cell = '@'
  · rw [if_pos h2]
    cases hk : getTankIndexAt s old_x old_y with
    | none => exact hI.set_ub
    | some k => exact (hkill k hk).set_board _ _ _ blank_ok
  rw [if_neg h2]
  by_cases h3 : next_cell = '*'
  · rw [if_pos h3]
    cases hj : getShellAt s new_x new_y with
    | none => exact hI.set_ub
    | some j =>
      simp only
      by_cases h4 : dir.toNat = ((shellAt s j).direction_.toNat + 4) % 8
      · rw [if_pos h4]
        cases hk : getTankIndexAt s old_x old_y with
        | none => exact hI.set_ub
        | some k => exact ((hkill k hk).delete_shell j).set_board _ _ _ blank_ok
      · rw [if_neg h4]
        exact hI.move_tank i hi ha hn' _ _ _
  rw [if_neg h3]
  cases hk : getTankIndexAt s old_x old_y with
  | none => exact hI.set_ub
  | some k =>
    have hI1 := hkill k hk
    obtain ⟨hk1, hk2⟩ := getTankIndexAt_some s _ _ k hk
    cases ho : getTankIndexAt s new_x new_y with
    | none => exact hI1.set_board _ _ _ blank_ok
    | some o =>
      obtain ⟨ho1, ho2⟩ := getTankIndexAt_some s _ _ o ho
      simp only
      by_cases hko : k = o
      · subst hko
        refine (hI1.destroy k (by simpa using hk1) ?_).set_board _ _ _ blank_ok
        rw [tankAt_destroyTank s k k hk1]
        simp only [if_true, TankInfo.increaseTurnsDead]
        exact not_needsTank_neg _ _
      · refine hI1.destroy_clear o (by simpa using ho1) _ _ ?_ _ blank_ok
        rw [tankAt_destroyTank s k o ho1]
        simp only [hko, if_false]
        exact ho2

theorem Inv.moveTank_ok {s : GM} (hI : Inv s) (i : Nat) (hi : i < s.tanks_.length)
    (ha : (tankAt s i).turnsDead_ = 0) (action : ActionRequest) :
    Inv (TankGame.moveTank s i action) := by
  unfold TankGame.moveTank
  simp only
  apply Inv.handleTankCollisionAt_ok (hI.set_board _ _ _ blank_ok) i hi ha
  · rfl
  · exact not_needsTank_setCell _ _ _ _ _ blank_ok

theorem Inv.shootAt_ok {s : GM} (hI : Inv s) (x y : Int) (dir : Direction) :
    Inv (TankGame.shootAt s x y dir) := by
  have hpush : ∀ c : Char, (c ≠ '1' ∧ c ≠ '2' ∧ c ≠ 'a' ∧ c ≠ 'b') →
      Inv { setBoard s x y c with shells_ := (setBoard s x y c).shells_ ++ [Shell.mk0 x y dir] } := by
    intro c hc
    apply (hI.set_board x y c hc).push_shell
    have hn := NUL_ne
    simp only [Shell.mk0, setBoard_board]
    rcases cellAt_setCell_same_or s.gameboard_ x y c with h | ⟨h, _⟩ <;> rw [h]
    · exact ⟨hc.2.2.1, hc.2.2.2⟩
    · exact ⟨hn.2.2.1, hn.2.2.2.1⟩
  unfold TankGame.shootAt
  simp only
  split_ifs with h1 h2 h3 h4 h5 h6
  · exact hI.set_board _ _ _ (by decide)
  · exact hI.set_board _ _ _ (by decide)
  · exact hpush 'c' (by decide)
  · exact hpush 'd' (by decide)
  · cases hj : getShellAt (setBoard s x y ' ') x y with
    | none => exact hI.set_board _ _ _ (by decide)
    | some j => exact (hI.set_board _ _ _ (by decide)).delete_shell j
  · apply Inv.modify_shell_loc
    · apply Inv.set_board _ _ _ _ (by decide)
      apply hI.push_shell
      simp only [Shell.mk0, h6]
      decide
    · intro t; rfl
  · exact hpush '*' (by decide)

theorem Inv.shoot_ok {s : GM} (hI : Inv s) (i : Nat) : Inv (TankGame.shoot s i) := by
  unfold TankGame.shoot
  by_cases h : isValidShoot (tankAt s i) = true
  · rw [if_neg (not_not.mpr h)]
    apply Inv.shootAt_ok
    exact (hI.modify_tank_key i _ (by intro t; rfl)).modify_tank_key i _ (by intro t; rfl)
  · rw [if_pos h]
    exact hI.modify_tank_key i _ (by intro t; rfl)

theorem Inv.rotate_ok {s : GM} (hI : Inv s) (i : Nat) (action : ActionRequest) :
    Inv (TankGame.rotate s i action) := by
  unfold TankGame.rotate
  exact hI.modify_tank_key i _ (by intro t; rfl)

theorem Inv.getBattleInfo_ok {s : GM} (hI : Inv s) (i : Nat) :
    Inv (TankGame.getBattleInfo s i) := by
  unfold TankGame.getBattleInfo
  simp only
  apply Inv.modify_tank_key _ i _ (by intro t; rfl)
  exact hI.of_mono rfl rfl (fun _ _ h => h)

theorem Inv.performValid_ok {s : GM} (hI : Inv s) (i : Nat) (hi : i < s.tanks_.length)
    (ha : (tankAt s i).turnsDead_ = 0) (action : ActionRequest) :
    Inv (TankGame.performValid s action i) := by
  unfold TankGame.performValid
  cases action <;> simp only
  · exact (hI.moveTank_ok i hi ha _).modify_tank_key i _ (by intro t; rfl)
  · exact hI
  · exact (hI.rotate_ok i _).modify_tank_key i _ (by intro t; rfl)
  · exact (hI.rotate_ok i _).modify_tank_key i _ (by intro t; rfl)
  · exact (hI.rotate_ok i _).modify_tank_key i _ (by intro t; rfl)
  · exact (hI.rotate_ok i _).modify_tank_key i _ (by intro t; rfl)
  · exact hI.shoot_ok i
  · exact hI.getBattleInfo_ok i
  · exact hI.modify_tank_key i _ (by intro t; rfl)

theorem Inv.performBackwards_ok {s : GM} (hI : Inv s) (i : Nat) (hi : i < s.tanks_.length)
    (ha : (tankAt s i).turnsDead_ = 0) (action : ActionRequest) :
    Inv (TankGame.performBackwards s action i).1 := by
  unfold TankGame.performBackwards
  have hI3 := hI.modify_tank_key i TankInfo.decreaseTurnsToShoot (by intro t; rfl)
  have ha3 : (tankAt (modifyTank s i TankInfo.decreaseTurnsToShoot) i).turnsDead_ = 0 := by
    rw [dead_modifyTank s i i _ (by intro t; rfl)]; exact ha
  have hi3 : i < (modifyTank s i TankInfo.decreaseTurnsToShoot).tanks_.length := by
    simpa using hi
  simp only
  split_ifs
  · exact (hI3.modify_tank_key i _ (by intro t; rfl)).modify_tank_key i _ (by intro t; rfl)
  · refine Inv.modify_tank_key (Inv.modify_tank_key ?_ i _ (by intro t; rfl)) i _ (by intro t; rfl)
    exact (hI3.moveTank_ok i hi3 ha3 _).modify_tank_key i _ (by intro t; rfl)
  · exact (hI3.modify_tank_key i _ (by intro t; rfl)).modify_tank_key i _ (by intro t; rfl)
  · exact hI3.modify_tank_key i _ (by intro t; rfl)

/-! ## What an operation does to the tank list -/

theorem TanksRel.rfl' {R : Nat → TankInfo → TankInfo → Prop} (hR : KillClosed R)
    (l : List TankInfo) : TanksRel R l l :=
  ⟨rfl, fun j _ => hR.refl j _⟩

theorem TanksRel.trans' {R : Nat → TankInfo → TankInfo → Prop} (hR : KillClosed R)
    {l1 l2 l3 : List TankInfo} (h12 : TanksRel R l1 l2) (h23 : TanksRel R l2 l3) :
    TanksRel R l1 l3 :=
  ⟨h23.1.trans h12.1, fun j hj => hR.trans j _ _ _ (h12.2 j hj) (h23.2 j (h12.1 ▸ hj))⟩

theorem TanksRel.modify {R : Nat → TankInfo → TankInfo → Prop} (hR : KillClosed R)
    (l : List TankInfo) (k : Nat) (g : TankInfo → TankInfo) (hg : ∀ t, R k t (g t)) :
    TanksRel R l (l.modify g k) := by
  refine ⟨by simp, fun j hj => ?_⟩
  rw [getD_modify l g k j default hj]
  by_cases h : k = j
  · subst h; simp only [if_true]; exact hg _
  · simp only [h, if_false]; exact hR.refl j _

theorem TanksRel.modifyTank {R : Nat → TankInfo → TankInfo → Prop} (hR : KillClosed R)
    {l : List TankInfo} {s : GM} (h : TanksRel R l s.tanks_) (k : Nat)
    (g : TankInfo → TankInfo) (hg : ∀ t, R k t (g t)) :
    TanksRel R l (TankGame.modifyTank s k g).tanks_ :=
  TanksRel.trans' hR h (TanksRel.modify hR _ k g hg)

theorem TanksRel.destroyTank {R : Nat → TankInfo → TankInfo → Prop} (hR : KillClosed R)
    {l : List TankInfo} {s : GM} (h : TanksRel R l s.tanks_) (k : Nat) :
    TanksRel R l (TankGame.destroyTank s k).tanks_ :=
  TanksRel.trans' hR h (TanksRel.modify hR _ k _ (hR.incr k))

theorem rel_handleTankCollisionAt {R : Nat → TankInfo → TankInfo → Prop} {i : Nat}
    (hR : ActClosed R i) {l : List TankInfo} {s : GM} (h : TanksRel R l s.tanks_)
    (old_x old_y new_x new_y : Int) (dir : Direction) (next_cell : Char) :
    TanksRel R l (handleTankCollisionAt s i old_x old_y new_x new_y dir next_cell).tanks_ := by
  have hK := hR.toKillClosed
  unfold handleTankCollisionAt
  simp only
  by_cases h1 : next_cell = ' '
  · rw [if_pos h1]
    exact TanksRel.modifyTank hK (s := setBoard s _ _ _) h i _ (fun t => hR.loc t _ _)
  rw [if_neg h1]
  by_cases h2 : next_cell = '@'
  · rw [if_pos h2]
    cases getTankIndexAt s old_x old_y with
    | none => exact h
    | some k => exact TanksRel.destroyTank hK h k
  rw [if_neg h2]
  by_cases h3 : next_cell = '*'
  · rw [if_pos h3]
    cases getShellAt s new_x new_y with
    | none => exact h
    | some j =>
      simp only
      by_cases h4 : dir.toNat = ((shellAt s j).direction_.toNat + 4) % 8
      · rw [if_pos h4]
        cases getTankIndexAt s old_x old_y with
        | none => exact h
        | some k => exact TanksRel.destroyTank hK h k
      · rw [if_neg h4]
        exact TanksRel.modifyTank hK (s := setBoard s _ _ _) h i _ (fun t => hR.loc t _ _)
  rw [if_neg h3]
  cases getTankIndexAt s old_x old_y with
  | none => exact h
  | some k =>
    cases getTankIndexAt s new_x new_y with
    | none => exact TanksRel.destroyTank hK h k
    | some o => exact TanksRel.destroyTank hK (TanksRel.destroyTank hK h k) o

theorem rel_moveTank {R : Nat → TankInfo → TankInfo → Prop} {i : Nat}
    (hR : ActClosed R i) {l : List TankInfo} {s : GM} (h : TanksRel R l s.tanks_)
    (action : ActionRequest) : TanksRel R l (moveTank s i action).tanks_ := by
  unfold moveTank
  exact rel_handleTankCollisionAt hR (s := setBoard s _ _ _) h _ _ _ _ _ _

theorem shootAt_tanks (s : GM) (x y : Int) (dir : Direction) :
    (shootAt s x y dir).tanks_ = s.tanks_ := by
  unfold shootAt
  simp only
  split_ifs
  · rfl
  · rfl
  · rfl
  · rfl
  · cases getShellAt (setBoard s x y ' ') x y <;> rfl
  · rfl
  · rfl

theorem rel_shoot {R : Nat → TankInfo → TankInfo → Prop} {i : Nat}
    (hR : ActClosed R i) (hS : ShootClosed R i) {l : List TankInfo} {s : GM}
    (h : TanksRel R l s.tanks_) : TanksRel R l (shoot s i).tanks_ := by
  have hK := hR.toKillClosed
  unfold shoot
  by_cases hv : isValidShoot (tankAt s i) = true
  · rw [if_neg (not_not.mpr hv)]
    simp only [shootAt_tanks]
    exact TanksRel.modifyTank hK (TanksRel.modifyTank hK h i _ hS.reset) i _ hS.decAmmo
  · rw [if_pos hv]
    exact TanksRel.modifyTank hK h i _ hR.cool

theorem rel_shoot_invalid {R : Nat → TankInfo → TankInfo → Prop} {i : Nat}
    (hR : ActClosed R i) {l : List TankInfo} {s : GM}
    (h : TanksRel R l s.tanks_) (hv : ¬ isValidShoot (tankAt s i) = true) :
    TanksRel R l (shoot s i).tanks_ := by
  unfold shoot
  rw [if_pos hv]
  exact TanksRel.modifyTank hR.toKillClosed h i _ hR.cool

theorem rel_rotate {R : Nat → TankInfo → TankInfo → Prop} {i : Nat}
    (hR : ActClosed R i) {l : List TankInfo} {s : GM} (h : TanksRel R l s.tanks_)
    (action : ActionRequest) : TanksRel R l (rotate s i action).tanks_ := by
  unfold rotate
  exact TanksRel.modifyTank hR.toKillClosed h i _ (fun t => hR.dir t _)

theorem rel_getBattleInfo {R : Nat → TankInfo → TankInfo → Prop} {i : Nat}
    (hR : ActClosed R i) {l : List TankInfo} {s : GM} (h : TanksRel R l s.tanks_) :
    TanksRel R l (getBattleInfo s i).tanks_ := by
  unfold getBattleInfo
  exact TanksRel.modifyTank hR.toKillClosed (s := { s with lastRoundGameboard_ := _ }) h i _
    hR.cool

/-- The last `switch` of `performAction`, a valid shot excepted. -/
theorem rel_performValid {R : Nat → TankInfo → TankInfo → Prop} {i : Nat}
    (hR : ActClosed R i) {l : List TankInfo} {s : GM} (h : TanksRel R l s.tanks_)
    (action : ActionRequest)
    (hS : action = .Shoot → isValidShoot (tankAt s i) = true → ShootClosed R i) :
    TanksRel R l (performValid s action i).tanks_ := by
  have hK := hR.toKillClosed
  unfold performValid
  cases action <;> simp only
  · exact TanksRel.modifyTank hK (rel_moveTank hR h _) i _ hR.cool
  · exact h
  · exact TanksRel.modifyTank hK (rel_rotate hR h _) i _ hR.cool
  · exact TanksRel.modifyTank hK (rel_rotate hR h _) i _ hR.cool
  · exact TanksRel.modifyTank hK (rel_rotate hR h _) i _ hR.cool
  · exact TanksRel.modifyTank hK (rel_rotate hR h _) i _ hR.cool
  · by_cases hv : isValidShoot (tankAt s i) = true
    · exact rel_shoot hR (hS rfl hv) h
    · exact rel_shoot_invalid hR h hv
  · exact rel_getBattleInfo hR h
  · exact TanksRel.modifyTank hK h i _ hR.cool

theorem rel_performBackwards {R : Nat → TankInfo → TankInfo → Prop} {i : Nat}
    (hR : ActClosed R i) {l : List TankInfo} {s : GM} (h : TanksRel R l s.tanks_)
    (action : ActionRequest) : TanksRel R l (performBackwards s action i).1.tanks_ := by
  have hK := hR.toKillClosed
  have h3 := TanksRel.modifyTank hK h i _ hR.cool
  unfold performBackwards
  simp only
  split_ifs
  · exact TanksRel.modifyTank hK (TanksRel.modifyTank hK h3 i _ hR.switchB) i _ hR.restart
  · refine TanksRel.modifyTank hK (TanksRel.modifyTank hK ?_ i _ hR.restart) i _ hR.switchB
    exact TanksRel.modifyTank hK (rel_moveTank hR h3 _) i _ hR.switchJ
  · exact TanksRel.modifyTank hK (TanksRel.modifyTank hK h3 i _ hR.restart) i _ hR.switchB
  · exact TanksRel.modifyTank hK h3 i _ hR.decBack

theorem Inv.backwardsRequest_ok {s : GM} (hI : Inv s) (action : ActionRequest) (i : Nat) :
    Inv (backwardsRequest s action i) := by
  unfold backwardsRequest
  simp only
  split_ifs <;>
    first
    | exact hI
    | exact hI.modify_tank_key i _ (by intro t; rfl)
    | exact (hI.modify_tank_key i _ (by intro t; rfl)).modify_tank_key i _ (by intro t; rfl)
    | exact ((hI.modify_tank_key i _ (by intro t; rfl)).modify_tank_key i _
        (by intro t; rfl)).modify_tank_key i _ (by intro t; rfl)

theorem rel_backwardsRequest {R : Nat → TankInfo → TankInfo → Prop} {i : Nat}
    (hR : ActClosed R i) {l : List TankInfo} {s : GM} (h : TanksRel R l s.tanks_)
    (action : ActionRequest) : TanksRel R l (backwardsRequest s action i).tanks_ := by
  have hK := hR.toKillClosed
  unfold backwardsRequest
  simp only
  split_ifs <;>
    first
    | exact h
    | exact TanksRel.modifyTank hK h i _ hR.switchJ
    | exact TanksRel.modifyTank hK h i _ hR.switchB
    | exact TanksRel.modifyTank hK (TanksRel.modifyTank hK h i _ hR.switchJ) i _ hR.switchB
    | exact TanksRel.modifyTank hK (TanksRel.modifyTank hK h i _ hR.zero) i _ hR.switchB
    | exact TanksRel.modifyTank hK (TanksRel.modifyTank hK
        (TanksRel.modifyTank hK h i _ hR.switchJ) i _ hR.zero) i _ hR.switchB

theorem backwardsRequest_key (s : GM) (action : ActionRequest) (i : Nat) :
    (backwardsRequest s action i).tanks_.map tankKey = s.tanks_.map tankKey := by
  unfold backwardsRequest
  simp only
  split_ifs <;>
    simp only [modifyTank_tanks] <;>
    repeat rw [map_modify_of_eq tankKey _ (by intro t; rfl)]

theorem backwardsRequest_dead (s : GM) (action : ActionRequest) (i k : Nat) :
    (tankAt (backwardsRequest s action i) k).turnsDead_ = (tankAt s k).turnsDead_ := by
  have := getD_of_map_eq tankKey _ _ default (backwardsRequest_key s action i) k
  simp only [tankKey, Prod.mk.injEq] at this
  exact this.2.1

theorem backwardsRequest_length (s : GM) (action : ActionRequest) (i : Nat) :
    (backwardsRequest s action i).tanks_.length = s.tanks_.length :=
  length_of_map_eq tankKey _ _ (backwardsRequest_key s action i)

theorem tankAt_modifyTank_self (s : GM) (i : Nat) (f : TankInfo → TankInfo)
    (hi : i < s.tanks_.length) : tankAt (modifyTank s i f) i = f (tankAt s i) := by
  rw [tankAt_modifyTank s i i f hi]; simp

theorem tankAt_modifyTank_ge (s : GM) (i k : Nat) (f : TankInfo → TankInfo)
    (hi : ¬ i < s.tanks_.length) : tankAt (modifyTank s i f) k = tankAt s k := by
  simp only [tankAt, modifyTank_tanks, List.getD_eq_getElem?_getD, List.getElem?_modify]
  cases h : s.tanks_[k]? with
  | none => rfl
  | some a =>
    have hk : k < s.tanks_.length := by
      by_contra hk
      rw [List.getElem?_eq_none_iff.mpr (by omega)] at h
      cases h
    have : i ≠ k := by omega
    simp [this]

/-- Without a `MoveBackward` request the prelude leaves the acting tank as it was, up to
the just-moved-backwards flag. -/
theorem backwardsRequest_tank_of_ne (s : GM) (action : ActionRequest) (i : Nat)
    (h : action ≠ .MoveBackward) :
    tankAt (backwardsRequest s action i) i = tankAt s i ∨
      tankAt (backwardsRequest s action i) i =
        (tankAt s i).switchJustMovedBackwardsFlag := by
  unfold backwardsRequest
  simp only [h, false_and, if_false, ne_eq, not_false_eq_true, and_true]
  split_ifs
  · by_cases hi : i < s.tanks_.length
    · right; exact tankAt_modifyTank_self s i _ hi
    · left; exact tankAt_modifyTank_ge s i i _ hi
  · left; rfl

theorem Inv.performAction_ok {s : GM} (hI : Inv s) (i : Nat) (hi : i < s.tanks_.length)
    (ha : (tankAt s i).turnsDead_ = 0) (action : ActionRequest) :
    Inv (performAction s action i).1 := by
  unfold performAction
  have hI2 := hI.backwardsRequest_ok action i
  have hi2 : i < (backwardsRequest s action i).tanks_.length := by
    rw [backwardsRequest_length]; exact hi
  have ha2 : (tankAt (backwardsRequest s action i) i).turnsDead_ = 0 := by
    rw [backwardsRequest_dead]; exact ha
  simp only
  split_ifs
  · exact hI.moveTank_ok i hi ha _
  · exact hI
  · exact hI2.performBackwards_ok i hi2 ha2 _
  · exact hI2.performValid_ok i hi2 ha2 _
  · exact hI2.modify_tank_key i _ (by intro t; rfl)

theorem rel_performAction {R : Nat → TankInfo → TankInfo → Prop} {i : Nat}
    (hR : ActClosed R i) {l : List TankInfo} {s : GM} (h : TanksRel R l s.tanks_)
    (action : ActionRequest)
    (hS : action = .Shoot → (tankAt s i).backwardsFlag_ = false →
      isValidShoot (tankAt s i) = true → ShootClosed R i) :
    TanksRel R l (performAction s action i).1.tanks_ := by
  have hK := hR.toKillClosed
  have h2 := rel_backwardsRequest hR h action
  unfold performAction
  simp only
  split_ifs with c0 c1 c2 c3
  · exact rel_moveTank hR h _
  · exact h
  · exact rel_performBackwards hR h2 _
  · refine rel_performValid hR h2 _ ?_
    intro hs hv
    subst hs
    have hne : ActionRequest.Shoot ≠ ActionRequest.MoveBackward := by decide
    rcases backwardsRequest_tank_of_ne s .Shoot i hne with e | e
    · rw [e] at hv c2
      exact hS rfl (by simpa using c2) hv
    · rw [e] at hv c2
      exact hS rfl (by simpa [TankInfo.switchJustMovedBackwardsFlag] using c2) hv
  · exact TanksRel.modifyTank hK h2 i _ hR.cool

theorem Inv.performTankActionStep_ok {s : GM} (hI : Inv s) (i : Nat)
    (hi : i < s.tanks_.length) : Inv (performTankActionStep s i) := by
  unfold performTankActionStep
  by_cases ha : (tankAt s i).turnsDead_ = 0
  · rw [if_pos ha]
    simp only
    split_ifs
    · exact hI.performAction_ok i hi ha _
    · exact (hI.performAction_ok i hi ha _).of_mono rfl rfl (fun _ _ h => h)
  · rw [if_neg ha]; exact hI

theorem rel_performTankActionStep {R : Nat → TankInfo → TankInfo → Prop} {i : Nat}
    (hR : ActClosed R i) {l : List TankInfo} {s : GM} (h : TanksRel R l s.tanks_)
    (hS : (tankAt s i).turnsDead_ = 0 → actionOf s i = .Shoot →
      (tankAt s i).backwardsFlag_ = false →
      isValidShoot (tankAt s i) = true → ShootClosed R i) :
    TanksRel R l (performTankActionStep s i).tanks_ := by
  unfold performTankActionStep
  by_cases ha : (tankAt s i).turnsDead_ = 0
  · rw [if_pos ha]
    simp only
    split_ifs
    · exact rel_performAction hR h _ (hS ha)
    · exact rel_performAction hR h _ (hS ha)
  · rw [if_neg ha]; exact h

/-- The relation that only says that the lengths agree. -/
theorem trivial_closed (i : Nat) :
    ActClosed (fun _ _ _ => True) i ∧ ShootClosed (fun _ _ _ => True) i := by
  constructor
  · exact { refl := fun _ _ => trivial, trans := fun _ _ _ _ _ _ => trivial,
            incr := fun _ _ => trivial, loc := fun _ _ _ => trivial,
            dir := fun _ _ => trivial, cool := fun _ => trivial,
            decBack := fun _ => trivial, restart := fun _ => trivial,
            zero := fun _ => trivial, switchB := fun _ => trivial,
            switchJ := fun _ => trivial }
  · exact { reset := fun _ => trivial, decAmmo := fun _ => trivial }

theorem performTankActionStep_length (s : GM) (i : Nat) :
    (performTankActionStep s i).tanks_.length = s.tanks_.length :=
  (rel_performTankActionStep (trivial_closed i).1
    (TanksRel.rfl' (trivial_closed i).1.toKillClosed s.tanks_)
    (fun _ _ _ _ => (trivial_closed i).2)).1

theorem Inv.foldSteps (ks : List Nat) : ∀ (s : GM), Inv s →
    (∀ k ∈ ks, k < s.tanks_.length) →
    Inv (ks.foldl performTankActionStep s) := by
  induction ks with
  | nil => intro s hI _; exact hI
  | cons k ks ih =>
    intro s hI hk
    simp only [List.foldl_cons]
    apply ih _ (hI.performTankActionStep_ok k (hk k (by simp)))
    intro j hj
    rw [performTankActionStep_length]
    exact hk j (by simp [hj])

theorem rel_foldSteps {R : Nat → TankInfo → TankInfo → Prop}
    (ks : List Nat) (hR : ∀ k ∈ ks, ActClosed R k ∧ ShootClosed R k) :
    ∀ {l : List TankInfo} {s : GM}, TanksRel R l s.tanks_ →
      TanksRel R l (ks.foldl performTankActionStep s).tanks_ := by
  induction ks with
  | nil => intro l s h; exact h
  | cons k ks ih =>
    intro l s h
    simp only [List.foldl_cons]
    apply ih (fun j hj => hR j (by simp [hj]))
    exact rel_performTankActionStep (hR k (by simp)).1 h (fun _ _ _ _ => (hR k (by simp)).2)

theorem Inv.performTankActions_ok {s : GM} (hI : Inv s) :
    Inv (performTankActions s) := by
  unfold performTankActions
  exact Inv.foldSteps _ s hI (fun k hk => by simpa using hk)

theorem Inv.getTankActions_ok {s : GM} (hI : Inv s) (oracle : Oracle) :
    Inv (getTankActions s oracle) :=
  hI.of_mono rfl rfl (fun _ _ h => h)

/-! ## The shell phase keeps the invariant -/

theorem shellAt_mem (s : GM) (it : Nat) (h : it < s.shells_.length) :
    shellAt s it ∈ s.shells_ := by
  unfold shellAt
  rw [List.getD_eq_getElem _ _ h]
  exact List.getElem_mem h

theorem Inv.clearPreviousShellPosition_ok {s : GM} (hI : Inv s) (it : Nat)
    (hit : it < s.shells_.length) : Inv (clearPreviousShellPosition s it) := by
  unfold clearPreviousShellPosition
  simp only
  by_cases h1 : (shellAt s it).aboveMine_ = true
  · rw [if_pos h1]
    exact (hI.set_board _ _ _ (by decide)).modify_shell_loc it _ (by intro t; rfl)
  rw [if_neg h1]
  by_cases h2 : cellAt s.gameboard_ (shellAt s it).location_.1 (shellAt s it).location_.2 = '^'
  · rw [if_pos h2]; exact hI.set_board _ _ _ (by decide)
  rw [if_neg h2]
  by_cases h3 : cellAt s.gameboard_ (shellAt s it).location_.1 (shellAt s it).location_.2 = 'a' ∨
      cellAt s.gameboard_ (shellAt s it).location_.1 (shellAt s it).location_.2 = 'b'
  · rw [if_pos h3]
    apply hI.set_board_hasTank
    apply hI.cover
    exact Or.inr (Or.inr ⟨h3, shellAt s it, shellAt_mem s it hit, rfl⟩)
  rw [if_neg h3]
  split_ifs
  · exact hI.set_board _ _ _ (by decide)
  · exact hI

theorem Inv.handleShellSpawnOnTank_ok {s : GM} (hI : Inv s) (it : Nat) :
    Inv (handleShellSpawnOnTank s it).1 := by
  unfold handleShellSpawnOnTank
  simp only
  split_ifs
  · cases hk : getTankIndexAt s (shellAt s it).location_.1 (shellAt s it).location_.2 with
    | none => exact hI
    | some k =>
      obtain ⟨hk1, hk2⟩ := getTankIndexAt_some s _ _ k hk
      exact (hI.destroy_clear k hk1 _ _ hk2 _ blank_ok).delete_shell it
  · exact hI

theorem Inv.handleShellCollision_ok {s : GM} (hI : Inv s) (it : Nat) (x y : Int)
    (dir : Direction) : Inv (handleShellCollision s it x y dir).1 := by
  unfold handleShellCollision
  cases hj : getShellAt s x y with
  | none => exact hI.set_ub
  | some other =>
    simp only
    split_ifs
    · exact ((hI.set_board _ _ _ blank_ok).delete_shell other).delete_shell it
    · exact ((hI.set_board _ _ _ blank_ok).delete_shell it).delete_shell other
    · exact hI.move_shell it x y _ (by decide)

theorem Inv.handleShellMoveToNextCell_ok {s : GM} (hI : Inv s) (it : Nat) (x y : Int)
    (next_cell : Char) : Inv (handleShellMoveToNextCell s it x y next_cell).1 := by
  unfold handleShellMoveToNextCell
  split_ifs
  · exact (hI.set_board _ _ _ (by decide)).delete_shell it
  · exact (hI.set_board _ _ _ (by decide)).delete_shell it
  · cases hk : getTankIndexAt s x y with
    | none => exact hI
    | some k =>
      obtain ⟨hk1, hk2⟩ := getTankIndexAt_some s _ _ k hk
      exact (hI.destroy_clear k hk1 _ _ hk2 _ blank_ok).delete_shell it
  · exact (hI.move_shell it x y _ (by decide)).modify_shell_loc it _ (by intro t; rfl)
  · exact hI.move_shell it x y _ (by decide)
  · exact hI

theorem clearPreviousShellPosition_length (s : GM) (it : Nat) :
    (clearPreviousShellPosition s it).shells_.length = s.shells_.length := by
  unfold clearPreviousShellPosition
  simp only
  split_ifs <;> simp

theorem clearPreviousShellPosition_tanks (s : GM) (it : Nat) :
    (clearPreviousShellPosition s it).tanks_ = s.tanks_ := by
  unfold clearPreviousShellPosition
  simp only
  split_ifs <;> rfl

theorem Inv.moveShellsStep_ok {s : GM} (hI : Inv s) (it : Nat)
    (hit : it < s.shells_.length) : Inv (moveShellsStep s it).1 := by
  unfold moveShellsStep
  simp only
  split_ifs
  · exact hI.handleShellSpawnOnTank_ok it
  · exact (hI.clearPreviousShellPosition_ok it hit).handleShellCollision_ok it _ _ _
  · exact (hI.clearPreviousShellPosition_ok it hit).handleShellMoveToNextCell_ok it _ _ _

/-! ## What the shell phase does to the tank list -/

theorem rel_handleShellSpawnOnTank {R : Nat → TankInfo → TankInfo → Prop}
    (hK : KillClosed R) {l : List TankInfo} {s : GM} (h : TanksRel R l s.tanks_)
    (it : Nat) : TanksRel R l (handleShellSpawnOnTank s it).1.tanks_ := by
  unfold handleShellSpawnOnTank
  simp only
  split_ifs
  · cases getTankIndexAt s (shellAt s it).location_.1 (shellAt s it).location_.2 with
    | none => exact h
    | some k => exact TanksRel.destroyTank hK h k
  · exact h

theorem handleShellCollision_tanks (s : GM) (it : Nat) (x y : Int) (dir : Direction) :
    (handleShellCollision s it x y dir).1.tanks_ = s.tanks_ := by
  unfold handleShellCollision
  cases getShellAt s x y with
  | none => rfl
  | some other =>
    simp only
    split_ifs <;> rfl

theorem rel_handleShellMoveToNextCell {R : Nat → TankInfo → TankInfo → Prop}
    (hK : KillClosed R) {l : List TankInfo} {s : GM} (h : TanksRel R l s.tanks_)
    (it : Nat) (x y : Int) (next_cell : Char) :
    TanksRel R l (handleShellMoveToNextCell s it x y next_cell).1.tanks_ := by
  unfold handleShellMoveToNextCell
  split_ifs
  · exact h
  · exact h
  · cases getTankIndexAt s x y with
    | none => exact h
    | some k => exact TanksRel.destroyTank hK h k
  · exact h
  · exact h
  · exact h

theorem rel_moveShellsStep {R : Nat → TankInfo → TankInfo → Prop}
    (hK : KillClosed R) {l : List TankInfo} {s : GM} (h : TanksRel R l s.tanks_)
    (it : Nat) : TanksRel R l (moveShellsStep s it).1.tanks_ := by
  unfold moveShellsStep
  simp only
  split_ifs
  · exact rel_handleShellSpawnOnTank hK h it
  · rw [handleShellCollision_tanks, clearPreviousShellPosition_tanks]; exact h
  · apply rel_handleShellMoveToNextCell hK
    rw [clearPreviousShellPosition_tanks]; exact h

/-! ## Termination of `moveShells` -/

theorem measure_decreases (len it len' it' : Nat) (hit : it < len)
    (h : (len' = len ∧ it' = it + 1) ∨ (len' + 1 ≤ len ∧ it' ≤ len')) :
    it' ≤ len' ∧ (len' + 1) ^ 2 - it' < (len + 1) ^ 2 - it := by
  rcases h with ⟨h1, h2⟩ | ⟨h1, h2⟩
  · subst h1 h2
    have : it < (len' + 1) ^ 2 := by nlinarith
    exact ⟨hit, by omega⟩
  · refine ⟨h2, ?_⟩
    have h3 : (len' + 1) ^ 2 ≤ len ^ 2 := Nat.pow_le_pow_left h1 2
    have h4 : (len + 1) ^ 2 = len ^ 2 + 2 * len + 1 := by ring
    omega

theorem spawn_progress (s : GM) (it : Nat) (hit : it < s.shells_.length)
    (h : (handleShellSpawnOnTank s it).2.2 = true) :
    (handleShellSpawnOnTank s it).1.shells_.length + 1 ≤ s.shells_.length ∧
      (handleShellSpawnOnTank s it).2.1 ≤ (handleShellSpawnOnTank s it).1.shells_.length := by
  unfold handleShellSpawnOnTank at h ⊢
  simp only at h ⊢
  split_ifs at h ⊢
  · cases hk : getTankIndexAt s (shellAt s it).location_.1 (shellAt s it).location_.2 with
    | none => rw [hk] at h; simp at h
    | some k =>
      simp only [deleteShell_shells, setBoard_shells, destroyTank_shells,
        List.length_eraseIdx, hit, if_true]
      omega

theorem collision_progress (s : GM) (it : Nat) (x y : Int) (dir : Direction)
    (hit : it < s.shells_.length) :
    (handleShellCollision s it x y dir).2.2 = true ∨
      ((handleShellCollision s it x y dir).1.shells_.length = s.shells_.length ∧
        (handleShellCollision s it x y dir).2.1 = it + 1) ∨
      ((handleShellCollision s it x y dir).1.shells_.length + 1 ≤ s.shells_.length ∧
        (handleShellCollision s it x y dir).2.1 ≤
          (handleShellCollision s it x y dir).1.shells_.length) := by
  unfold handleShellCollision
  cases hj : getShellAt s x y with
  | none => left; rfl
  | some other =>
    obtain ⟨ho, _⟩ := getShellAt_some s x y other hj
    simp only
    split_ifs with h1 h2
    · right; right
      simp only [deleteShell_shells, setBoard_shells, List.length_eraseIdx]
      split_ifs <;> omega
    · right; right
      simp only [deleteShell_shells, setBoard_shells, List.length_eraseIdx]
      split_ifs <;> omega
    · right; left
      simp

theorem move_progress (s : GM) (it : Nat) (x y : Int) (next_cell : Char)
    (hit : it < s.shells_.length)
    (ht : next_cell = '1' ∨ next_cell = '2' → ∃ k, getTankIndexAt s x y = some k) :
    ((handleShellMoveToNextCell s it x y next_cell).1.shells_.length = s.shells_.length ∧
        (handleShellMoveToNextCell s it x y next_cell).2 = it + 1) ∨
      ((handleShellMoveToNextCell s it x y next_cell).1.shells_.length + 1 ≤ s.shells_.length ∧
        (handleShellMoveToNextCell s it x y next_cell).2 ≤
          (handleShellMoveToNextCell s it x y next_cell).1.shells_.length) := by
  unfold handleShellMoveToNextCell
  split_ifs with h1 h2 h3 h4 h5
  · right
    simp only [deleteShell_shells, setBoard_shells, List.length_eraseIdx, hit, if_true]
    omega
  · right
    simp only [deleteShell_shells, setBoard_shells, List.length_eraseIdx, hit, if_true]
    omega
  · obtain ⟨k, hk⟩ := ht h3
    rw [hk]
    right
    simp only [deleteShell_shells, setBoard_shells, destroyTank_shells,
      List.length_eraseIdx, hit, if_true]
    omega
  · left; simp
  · left; simp
  · left; simp

theorem moveShellsStep_progress {s : GM} (hI : Inv s) (it : Nat)
    (hit : it < s.shells_.length) :
    (moveShellsStep s it).2.2 = true ∨
      ((moveShellsStep s it).2.1 ≤ (moveShellsStep s it).1.shells_.length ∧
        ((moveShellsStep s it).1.shells_.length + 1) ^ 2 - (moveShellsStep s it).2.1 <
          (s.shells_.length + 1) ^ 2 - it) := by
  unfold moveShellsStep
  simp only
  have hlen := clearPreviousShellPosition_length s it
  by_cases h1 : (handleShellSpawnOnTank s it).2.2 = true
  · rw [if_pos h1]
    right
    exact measure_decreases _ _ _ _ hit (Or.inr (spawn_progress s it hit h1))
  rw [if_neg h1]
  split_ifs with h2
  · rcases collision_progress (clearPreviousShellPosition s it) it
      (nextLocation s (shellAt s it).location_.1 (shellAt s it).location_.2
        (shellAt s it).direction_ false).1
      (nextLocation s (shellAt s it).location_.1 (shellAt s it).location_.2
        (shellAt s it).direction_ false).2 (shellAt s it).direction_
      (by rw [hlen]; exact hit) with h | h | h
    · left; exact h
    · right; rw [hlen] at h; exact measure_decreases _ _ _ _ hit (Or.inl h)
    · right; rw [hlen] at h; exact measure_decreases _ _ _ _ hit (Or.inr h)
  · right
    have := move_progress (clearPreviousShellPosition s it) it
      (nextLocation s (shellAt s it).location_.1 (shellAt s it).location_.2
        (shellAt s it).direction_ false).1
      (nextLocation s (shellAt s it).location_.1 (shellAt s it).location_.2
        (shellAt s it).direction_ false).2
      (cellAt s.gameboard_
        (nextLocation s (shellAt s it).location_.1 (shellAt s it).location_.2
          (shellAt s it).direction_ false).1
        (nextLocation s (shellAt s it).location_.1 (shellAt s it).location_.2
          (shellAt s it).direction_ false).2)
      (by rw [hlen]; exact hit)
      (by
        intro hc
        have hn : NeedsTank s.gameboard_ s.shells_
            (nextLocation s (shellAt s it).location_.1 (shellAt s it).location_.2
              (shellAt s it).direction_ false).1
            (nextLocation s (shellAt s it).location_.1 (shellAt s it).location_.2
              (shellAt s it).direction_ false).2 := by
          rcases hc with hc | hc
          · exact Or.inl hc
          · exact Or.inr (Or.inl hc)
        have hT := hI.cover _ _ hn
        exact getTankIndexAt_isSome _ _ _
          (by rw [clearPreviousShellPosition_tanks]; exact hT))
    rw [hlen] at this
    exact measure_decreases _ _ _ _ hit this

theorem moveShellsLoop_succ (fuel : Nat) (s : GM) (it : Nat) :
    moveShellsLoop (fuel + 1) s it =
      if s.shells_.length ≤ it then some s
      else if (moveShellsStep s it).2.2 = true then some (moveShellsStep s it).1
      else moveShellsLoop fuel (moveShellsStep s it).1 (moveShellsStep s it).2.1 := rfl

/-- With enough fuel the loop of `moveShells` returns, and it returns a state that
satisfies the invariant. -/
theorem moveShellsLoop_total : ∀ (fuel : Nat) (s : GM) (it : Nat), Inv s →
    (s.shells_.length + 1) ^ 2 - it < fuel →
    ∃ s', moveShellsLoop fuel s it = some s' ∧ Inv s'
  | 0, _, _, _, h => by omega
  | fuel + 1, s, it, hI, h => by
    rw [moveShellsLoop_succ]
    by_cases hit : s.shells_.length ≤ it
    · rw [if_pos hit]; exact ⟨s, rfl, hI⟩
    · rw [if_neg hit]
      have hit' : it < s.shells_.length := by omega
      have hI' := hI.moveShellsStep_ok it hit'
      rcases moveShellsStep_progress hI it hit' with hp | ⟨_, hp⟩
      · rw [if_pos hp]; exact ⟨_, rfl, hI'⟩
      · split_ifs
        · exact ⟨_, rfl, hI'⟩
        · exact moveShellsLoop_total fuel _ _ hI' (by omega)

theorem moveShellsLoop_mono : ∀ (fuel : Nat) (s : GM) (it : Nat) (s' : GM),
    moveShellsLoop fuel s it = some s' → ∀ fuel', fuel ≤ fuel' →
    moveShellsLoop fuel' s it = some s'
  | 0, _, _, _, h, _, _ => by simp [moveShellsLoop] at h
  | fuel + 1, s, it, s', h, fuel', hle => by
    obtain ⟨f, rfl⟩ : ∃ f, fuel' = f + 1 := ⟨fuel' - 1, by omega⟩
    rw [moveShellsLoop_succ] at h ⊢
    split_ifs at h ⊢ with h1 h2
    · exact h
    · exact h
    · exact moveShellsLoop_mono fuel _ _ _ h f (by omega)

theorem moveShellsLoop_inv : ∀ (fuel : Nat) (s : GM) (it : Nat) (s' : GM), Inv s →
    moveShellsLoop fuel s it = some s' → Inv s'
  | 0, _, _, _, _, h => by simp [moveShellsLoop] at h
  | fuel + 1, s, it, s', hI, h => by
    rw [moveShellsLoop_succ] at h
    split_ifs at h with h1 h2
    · cases h; exact hI
    · cases h; exact hI.moveShellsStep_ok it (by omega)
    · exact moveShellsLoop_inv fuel _ _ _ (hI.moveShellsStep_ok it (by omega)) h

theorem rel_moveShellsLoop {R : Nat → TankInfo → TankInfo → Prop} (hK : KillClosed R) :
    ∀ (fuel : Nat) (s : GM) (it : Nat) (s' : GM) (l : List TankInfo),
      TanksRel R l s.tanks_ → moveShellsLoop fuel s it = some s' → TanksRel R l s'.tanks_
  | 0, _, _, _, _, _, h => by simp [moveShellsLoop] at h
  | fuel + 1, s, it, s', l, hr, h => by
    rw [moveShellsLoop_succ] at h
    split_ifs at h with h1 h2
    · cases h; exact hr
    · cases h; exact rel_moveShellsStep hK hr it
    · exact rel_moveShellsLoop hK fuel _ _ _ l (rel_moveShellsStep hK hr it) h

/-! ## Members no phase writes -/

@[simp] theorem cfg_setBoard (s : GM) (x y : Int) (c : Char) :
    (setBoard s x y c).cfg = s.cfg := rfl
@[simp] theorem cfg_modifyTank (s : GM) (i : Nat) (f : TankInfo → TankInfo) :
    (modifyTank s i f).cfg = s.cfg := rfl
@[simp] theorem cfg_modifyShell (s : GM) (i : Nat) (f : Shell → Shell) :
    (modifyShell s i f).cfg = s.cfg := rfl
@[simp] theorem cfg_deleteShell (s : GM) (j : Nat) : (deleteShell s j).cfg = s.cfg := rfl
@[simp] theorem cfg_destroyTank (s : GM) (k : Nat) : (destroyTank s k).cfg = s.cfg := rfl

theorem cfg_handleTankCollisionAt (s : GM) (i : Nat) (old_x old_y new_x new_y : Int)
    (dir : Direction) (next_cell : Char) :
    (handleTankCollisionAt s i old_x old_y new_x new_y dir next_cell).cfg = s.cfg := by
  unfold handleTankCollisionAt
  simp only
  repeat (first | rfl | split)

theorem cfg_moveTank (s : GM) (i : Nat) (action : ActionRequest) :
    (moveTank s i action).cfg = s.cfg := by
  unfold moveTank
  simp only
  rw [cfg_handleTankCollisionAt]; rfl

theorem cfg_shootAt (s : GM) (x y : Int) (dir : Direction) :
    (shootAt s x y dir).cfg = s.cfg := by
  unfold shootAt
  simp only
  split_ifs
  · rfl
  · rfl
  · rfl
  · rfl
  · cases getShellAt (setBoard s x y ' ') x y <;> rfl
  · rfl
  · rfl

theorem cfg_shoot (s : GM) (i : Nat) : (shoot s i).cfg = s.cfg := by
  unfold shoot
  split_ifs
  · simp only [cfg_shootAt]; rfl
  · rfl

theorem cfg_performValid (s : GM) (action : ActionRequest) (i : Nat) :
    (performValid s action i).cfg = s.cfg := by
  unfold performValid
  cases action <;> simp only [cfg_modifyTank, cfg_moveTank, cfg_shoot] <;> rfl

theorem cfg_performBackwards (s : GM) (action : ActionRequest) (i : Nat) :
    (performBackwards s action i).1.cfg = s.cfg := by
  unfold performBackwards
  simp only
  split_ifs <;> simp only [cfg_modifyTank, cfg_moveTank]

theorem cfg_backwardsRequest (s : GM) (action : ActionRequest) (i : Nat) :
    (backwardsRequest s action i).cfg = s.cfg := by
  unfold backwardsRequest
  simp only
  split_ifs <;> rfl

theorem cfg_performAction (s : GM) (action : ActionRequest) (i : Nat) :
    (performAction s action i).1.cfg = s.cfg := by
  unfold performAction
  simp only
  split_ifs <;>
    simp only [cfg_modifyTank, cfg_moveTank, cfg_performBackwards, cfg_performValid,
      cfg_backwardsRequest]

theorem cfg_performTankActionStep (s : GM) (i : Nat) :
    (performTankActionStep s i).cfg = s.cfg := by
  unfold performTankActionStep
  by_cases ha : (tankAt s i).turnsDead_ = 0
  · rw [if_pos ha]
    simp only
    split_ifs
    · exact cfg_performAction s _ i
    · rw [← cfg_performAction s (actionOf s i) i]
      simp only [GM.cfg, Prod.mk.injEq, true_and]
      exact map_modify_of_eq Prod.fst _ (by intro t; rfl) _ i
  · rw [if_neg ha]

theorem cfg_foldSteps (ks : List Nat) : ∀ s : GM,
    (ks.foldl performTankActionStep s).cfg = s.cfg := by
  induction ks with
  | nil => intro s; rfl
  | cons k ks ih => intro s; simp only [List.foldl_cons]; rw [ih, cfg_performTankActionStep]

theorem cfg_performTankActions (s : GM) : (performTankActions s).cfg = s.cfg :=
  cfg_foldSteps _ s

theorem cfg_moveShellsStep (s : GM) (it : Nat) : (moveShellsStep s it).1.cfg = s.cfg := by
  have hc : (clearPreviousShellPosition s it).cfg = s.cfg := by
    unfold clearPreviousShellPosition
    simp only
    split_ifs <;> rfl
  unfold moveShellsStep
  simp only
  split_ifs
  · unfold handleShellSpawnOnTank
    simp only
    split_ifs
    · cases getTankIndexAt s (shellAt s it).location_.1 (shellAt s it).location_.2 <;> rfl
    · rfl
  · rw [← hc]
    unfold handleShellCollision
    cases getShellAt (clearPreviousShellPosition s it) _ _ with
    | none => rfl
    | some other =>
      simp only
      split_ifs <;> rfl
  · rw [← hc]
    unfold handleShellMoveToNextCell
    split_ifs
    · rfl
    · rfl
    · cases getTankIndexAt (clearPreviousShellPosition s it) _ _ <;> rfl
    · rfl
    · rfl
    · rfl

theorem cfg_moveShellsLoop : ∀ (fuel : Nat) (s : GM) (it : Nat) (s' : GM),
    moveShellsLoop fuel s it = some s' → s'.cfg = s.cfg
  | 0, _, _, _, h => by simp [moveShellsLoop] at h
  | fuel + 1, s, it, s', h => by
    rw [moveShellsLoop_succ] at h
    split_ifs at h with h1 h2
    · cases h; rfl
    · cases h; exact cfg_moveShellsStep s it
    · rw [cfg_moveShellsLoop fuel _ _ _ h, cfg_moveShellsStep]

theorem cfg_collapseEntries : ∀ (es : List ((Int × Int) × List Shell)) (s : GM),
    (collapseEntries s es).cfg = s.cfg
  | [], s => rfl
  | e :: rest, s => by
    unfold collapseEntries
    split
    · rw [cfg_collapseEntries rest]; rfl
    · rw [cfg_collapseEntries rest]; rfl

theorem cfg_checkShellsCollide (s : GM) : (checkShellsCollide s).cfg = s.cfg := by
  unfold checkShellsCollide
  simp only
  rw [cfg_collapseEntries]; rfl

theorem cfg_shellPhase (fuel : Nat) (s s' : GM) (h : shellPhase fuel s = some s') :
    s'.cfg = s.cfg := by
  unfold shellPhase at h
  cases h1 : moveShells fuel s with
  | none => rw [h1] at h; cases h
  | some s1 =>
    rw [h1] at h
    simp only at h
    cases h2 : moveShells fuel (checkShellsCollide s1) with
    | none => rw [h2] at h; cases h
    | some s2 =>
      rw [h2] at h
      cases h
      rw [cfg_checkShellsCollide, cfg_moveShellsLoop _ _ _ _ h2, cfg_checkShellsCollide,
        cfg_moveShellsLoop _ _ _ _ h1]

/-! ## Collapse of co-located shells -/

theorem shellMapInsert_mem (sh : Shell) : ∀ (m : List ((Int × Int) × List Shell))
    (e : (Int × Int) × List Shell), e ∈ shellMapInsert sh m → ∀ a ∈ e.2,
      a = sh ∨ ∃ e0 ∈ m, a ∈ e0.2
  | [], e, he, a, ha => by
    simp only [shellMapInsert, List.mem_singleton] at he
    subst he
    simp only [List.mem_singleton] at ha
    exact Or.inl ha
  | e1 :: rest, e, he, a, ha => by
    unfold shellMapInsert at he
    split_ifs at he with h1 h2
    · simp only [List.mem_cons] at he
      rcases he with rfl | he
      · simp only [List.mem_append, List.mem_singleton] at ha
        rcases ha with ha | ha
        · exact Or.inr ⟨e1, by simp, ha⟩
        · exact Or.inl ha
      · exact Or.inr ⟨e, by simp [he], ha⟩
    · simp only [List.mem_cons] at he
      rcases he with rfl | rfl | he
      · simp only [List.mem_singleton] at ha
        exact Or.inl ha
      · exact Or.inr ⟨e, by simp, ha⟩
      · exact Or.inr ⟨e, by simp [he], ha⟩
    · simp only [List.mem_cons] at he
      rcases he with rfl | he
      · exact Or.inr ⟨e, by simp, ha⟩
      · rcases shellMapInsert_mem sh rest e he a ha with h | ⟨e0, h0, h0'⟩
        · exact Or.inl h
        · exact Or.inr ⟨e0, by simp [h0], h0'⟩

theorem shellMap_mem : ∀ (shells : List Shell) (m : List ((Int × Int) × List Shell))
    (e : (Int × Int) × List Shell),
    e ∈ shells.foldl (fun m sh => shellMapInsert sh m) m → ∀ a ∈ e.2,
      a ∈ shells ∨ ∃ e0 ∈ m, a ∈ e0.2
  | [], m, e, he, a, ha => Or.inr ⟨e, he, ha⟩
  | sh :: rest, m, e, he, a, ha => by
    simp only [List.foldl_cons] at he
    rcases shellMap_mem rest _ e he a ha with h | ⟨e0, h0, h0'⟩
    · exact Or.inl (by simp [h])
    · rcases shellMapInsert_mem sh m e0 h0 a h0' with h | h
      · exact Or.inl (by simp [h])
      · exact Or.inr h

/-- The result of the second loop of `checkShellsCollide`: same tanks, shells taken from
the entries, cells either kept or blanked. -/
theorem collapseEntries_spec : ∀ (es : List ((Int × Int) × List Shell)) (s : GM),
    (collapseEntries s es).tanks_ = s.tanks_ ∧
    (collapseEntries s es).destroyedTanksIndices_ = s.destroyedTanksIndices_ ∧
    (∀ a ∈ (collapseEntries s es).shells_, a ∈ s.shells_ ∨ ∃ e ∈ es, a ∈ e.2) ∧
    (∀ x y, NeedsTank (collapseEntries s es).gameboard_ [] x y →
      NeedsTank s.gameboard_ [] x y) ∧
    (∀ x y c, cellAt (collapseEntries s es).gameboard_ x y = c → c ≠ ' ' → c ≠ NUL →
      cellAt s.gameboard_ x y = c)
  | [], s => ⟨rfl, rfl, fun a ha => Or.inl ha, fun _ _ h => h, fun _ _ _ h _ _ => h⟩
  | e :: rest, s => by
    unfold collapseEntries
    split
    · rename_i sh heq
      obtain ⟨h1, h2, h3, h4, h5⟩ := collapseEntries_spec rest
        { s with shells_ := s.shells_ ++ [sh] }
      refine ⟨h1, h2, ?_, h4, h5⟩
      intro a ha
      rcases h3 a ha with h | ⟨e0, he0, h0⟩
      · simp only [List.mem_append, List.mem_singleton] at h
        rcases h with h | h
        · exact Or.inl h
        · exact Or.inr ⟨e, by simp, by rw [heq, h]; simp⟩
      · exact Or.inr ⟨e0, by simp [he0], h0⟩
    · obtain ⟨h1, h2, h3, h4, h5⟩ := collapseEntries_spec rest (setBoard s e.1.1 e.1.2 ' ')
      refine ⟨h1, h2, ?_, ?_, ?_⟩
      · intro a ha
        rcases h3 a ha with h | ⟨e0, he0, h0⟩
        · exact Or.inl h
        · exact Or.inr ⟨e0, by simp [he0], h0⟩
      · intro x y h
        exact needsTank_setCell _ _ _ _ _ _ ' ' blank_ok (h4 x y h)
      · intro x y c h hc hn
        have := h5 x y c h hc hn
        simp only [setBoard_board] at this
        rcases cellAt_setCell_cases s.gameboard_ e.1.1 e.1.2 x y ' ' with h6 | ⟨_, _, h6 | h6⟩
        · rw [← h6]; exact this
        · rw [h6] at this; exact absurd this.symm hc
        · rw [h6] at this; exact absurd this.symm hn

theorem checkShellsCollide_tanks (s : GM) : (checkShellsCollide s).tanks_ = s.tanks_ :=
  (collapseEntries_spec _ _).1

theorem Inv.checkShellsCollide_ok {s : GM} (hI : Inv s) : Inv (checkShellsCollide s) := by
  obtain ⟨h1, h2, h3, _, h5⟩ := collapseEntries_spec
    (s.shells_.foldl (fun m sh => shellMapInsert sh m) []) { s with shells_ := [] }
  refine hI.of_mono (by rw [checkShellsCollide_tanks]) h2 ?_
  intro x y h
  have hmem : ∀ a ∈ (checkShellsCollide s).shells_, a ∈ s.shells_ := by
    intro a ha
    rcases h3 a ha with h | ⟨e, he, hae⟩
    · simp at h
    · rcases shellMap_mem s.shells_ [] e he a hae with h | ⟨e0, h0, _⟩
      · exact h
      · simp at h0
  have hn := NUL_ne
  unfold NeedsTank at h ⊢
  rcases h with h | h | ⟨h | h, sh, hsh, hl⟩
  · exact Or.inl (h5 x y _ h (by decide) (Ne.symm hn.1))
  · exact Or.inr (Or.inl (h5 x y _ h (by decide) (Ne.symm hn.2.1)))
  · exact Or.inr (Or.inr ⟨Or.inl (h5 x y _ h (by decide) (Ne.symm hn.2.2.1)),
      sh, hmem sh hsh, hl⟩)
  · exact Or.inr (Or.inr ⟨Or.inr (h5 x y _ h (by decide) (Ne.symm hn.2.2.2.1)),
      sh, hmem sh hsh, hl⟩)

/-! ## End of turn -/

theorem tankAt_updateGameLog (s : GM) (k : Nat) :
    tankAt (updateGameLog s) k =
      if (tankAt s k).turnsDead_ = 1 then (tankAt s k).increaseTurnsDead else tankAt s k := by
  unfold tankAt updateGameLog
  simp only
  exact @List.getD_map _ _ s.tanks_ default k
    (fun t => if t.turnsDead_ = 1 then t.increaseTurnsDead else t)

theorem updateGameLog_length (s : GM) : (updateGameLog s).tanks_.length = s.tanks_.length := by
  simp [updateGameLog]

theorem Inv.updateGameLog_ok {s : GM} (hI : Inv s) : Inv (updateGameLog s) := by
  have hlen := updateGameLog_length s
  constructor
  · intro k hk
    rw [hlen] at hk
    rw [tankAt_updateGameLog]
    have := hI.dead_nonneg k hk
    split_ifs
    · simp only [TankInfo.increaseTurnsDead]; omega
    · exact this
  · intro k hk
    rw [hlen] at hk
    rw [tankAt_updateGameLog]
    split_ifs
    · intro _; rfl
    · exact hI.dead_loc k hk
  · exact hI.destroyed_nodup
  · intro k
    rw [hlen, tankAt_updateGameLog]
    show k ∈ s.destroyedTanksIndices_ ↔ _
    rw [hI.destroyed_iff k]
    split_ifs with h
    · simp only [TankInfo.increaseTurnsDead, h]
      constructor
      · rintro ⟨hk, _⟩; exact ⟨hk, by decide⟩
      · rintro ⟨hk, _⟩; exact ⟨hk, by decide⟩
    · rfl
  · intro k hk
    rw [hlen] at hk
    rw [tankAt_updateGameLog]
    split_ifs
    · exact hI.player k hk
    · exact hI.player k hk
  · intro x y h
    obtain ⟨k, hk, hl⟩ := hI.cover x y h
    refine ⟨k, by rw [hlen]; exact hk, ?_⟩
    have := tankAt_updateGameLog s k
    unfold tankAt at this
    rw [this]
    split_ifs with h1
    · have := hI.dead_loc k hk (by unfold tankAt; rw [h1]; decide)
      unfold tankAt at this
      rw [← hl, this]; rfl
    · exact hl
  · rw [hlen]; exact hI.size

theorem rel_updateGameLog {R : Nat → TankInfo → TankInfo → Prop}
    (hK : KillClosed R) {l : List TankInfo} {s : GM} (h : TanksRel R l s.tanks_) :
    TanksRel R l (updateGameLog s).tanks_ := by
  refine TanksRel.trans' hK h ⟨updateGameLog_length s, fun j _ => ?_⟩
  have := tankAt_updateGameLog s j
  unfold tankAt at this
  rw [this]
  split_ifs
  · exact hK.incr j _
  · exact hK.refl j _

theorem Inv.checkTanksStatus_ok {s : GM} (hI : Inv s) : Inv (checkTanksStatus s) := by
  unfold checkTanksStatus
  simp only
  split_ifs <;> exact hI.of_mono rfl rfl (fun _ _ h => h)

theorem Inv.noAmmoStep_ok {s : GM} (hI : Inv s) : Inv (noAmmoStep s) := by
  unfold noAmmoStep
  simp only
  split_ifs <;> exact hI.of_mono rfl rfl (fun _ _ h => h)

theorem Inv.finishStep_ok {s : GM} (hI : Inv s) : Inv (finishStep s) := by
  unfold finishStep
  split_ifs <;> exact hI.of_mono rfl rfl (fun _ _ h => h)

theorem checkTanksStatus_tanks (s : GM) : (checkTanksStatus s).tanks_ = s.tanks_ := by
  unfold checkTanksStatus
  simp only
  split_ifs <;> rfl

theorem noAmmoStep_tanks (s : GM) : (noAmmoStep s).tanks_ = s.tanks_ := by
  unfold noAmmoStep
  simp only
  split_ifs <;> rfl

theorem finishStep_tanks (s : GM) : (finishStep s).tanks_ = s.tanks_ := by
  unfold finishStep
  split_ifs <;> rfl

/-! ## A whole turn -/

theorem moveShells_total {s : GM} (hI : Inv s) :
    ∃ s', (∀ fuel, (s.shells_.length + 1) ^ 2 < fuel → moveShells fuel s = some s') ∧
      Inv s' := by
  obtain ⟨s', h1, h2⟩ := moveShellsLoop_total ((s.shells_.length + 1) ^ 2 + 1) s 0 hI
    (by omega)
  refine ⟨s', fun fuel hf => ?_, h2⟩
  exact moveShellsLoop_mono _ s 0 s' h1 fuel (by omega)

theorem shellPhase_total {s : GM} (hI : Inv s) :
    ∃ F s', (∀ fuel, F ≤ fuel → shellPhase fuel s = some s') ∧ Inv s' := by
  obtain ⟨s1, h1, hI1⟩ := moveShells_total hI
  obtain ⟨s2, h2, hI2⟩ := moveShells_total hI1.checkShellsCollide_ok
  refine ⟨(s.shells_.length + 1) ^ 2 + (((checkShellsCollide s1).shells_.length + 1) ^ 2) + 1,
    checkShellsCollide s2, fun fuel hf => ?_, hI2.checkShellsCollide_ok⟩
  unfold shellPhase
  rw [h1 fuel (by omega)]
  simp only
  rw [h2 fuel (by omega)]

/-- With enough fuel a turn played from a state that satisfies the invariant returns, and
the state it returns satisfies the invariant. -/
theorem playTurn_total {s : GM} (hI : Inv s) (oracle : Oracle) :
    ∃ F s', (∀ fuel, F ≤ fuel → playTurn fuel oracle s = some s') ∧ Inv s' := by
  obtain ⟨F, s1, h1, hI1⟩ := shellPhase_total (hI.getTankActions_ok oracle).performTankActions_ok
  refine ⟨F, noAmmoStep (checkTanksStatus (updateGameLog s1)), fun fuel hf => ?_,
    hI1.updateGameLog_ok.checkTanksStatus_ok.noAmmoStep_ok⟩
  unfold playTurn
  rw [h1 fuel hf]

theorem shellPhase_inv {s s' : GM} (hI : Inv s) (fuel : Nat)
    (h : shellPhase fuel s = some s') : Inv s' := by
  unfold shellPhase at h
  cases h1 : moveShells fuel s with
  | none => rw [h1] at h; cases h
  | some s1 =>
    rw [h1] at h
    simp only at h
    have hI1 := moveShellsLoop_inv _ _ _ _ hI h1
    cases h2 : moveShells fuel (checkShellsCollide s1) with
    | none => rw [h2] at h; cases h
    | some s2 =>
      rw [h2] at h
      cases h
      exact (moveShellsLoop_inv _ _ _ _ hI1.checkShellsCollide_ok h2).checkShellsCollide_ok

theorem playTurn_inv {s s' : GM} (hI : Inv s) (fuel : Nat) (oracle : Oracle)
    (h : playTurn fuel oracle s = some s') : Inv s' := by
  unfold playTurn at h
  cases h1 : shellPhase fuel (performTankActions (getTankActions s oracle)) with
  | none => rw [h1] at h; cases h
  | some s1 =>
    rw [h1] at h
    cases h
    exact (shellPhase_inv (hI.getTankActions_ok oracle).performTankActions_ok fuel
      h1).updateGameLog_ok.checkTanksStatus_ok.noAmmoStep_ok

theorem rel_shellPhase {R : Nat → TankInfo → TankInfo → Prop} (hK : KillClosed R)
    {l : List TankInfo} {s s' : GM} (hr : TanksRel R l s.tanks_) (fuel : Nat)
    (h : shellPhase fuel s = some s') : TanksRel R l s'.tanks_ := by
  unfold shellPhase at h
  cases h1 : moveShells fuel s with
  | none => rw [h1] at h; cases h
  | some s1 =>
    rw [h1] at h
    simp only at h
    have hr1 := rel_moveShellsLoop hK _ _ _ _ l hr h1
    cases h2 : moveShells fuel (checkShellsCollide s1) with
    | none => rw [h2] at h; cases h
    | some s2 =>
      rw [h2] at h
      cases h
      rw [checkShellsCollide_tanks]
      refine rel_moveShellsLoop hK _ _ _ _ l ?_ h2
      rw [checkShellsCollide_tanks]; exact hr1

/-- What a whole turn does to the tanks, for a relation that holds across every member
function of `TankInfo` at every index. -/
theorem rel_playTurn {R : Nat → TankInfo → TankInfo → Prop}
    (hR : ∀ k, ActClosed R k ∧ ShootClosed R k) {s s' : GM} (fuel : Nat) (oracle : Oracle)
    (h : playTurn fuel oracle s = some s') : TanksRel R s.tanks_ s'.tanks_ := by
  have hK := (hR 0).1.toKillClosed
  unfold playTurn at h
  cases h1 : shellPhase fuel (performTankActions (getTankActions s oracle)) with
  | none => rw [h1] at h; cases h
  | some s1 =>
    rw [h1] at h
    cases h
    rw [noAmmoStep_tanks, checkTanksStatus_tanks]
    apply rel_updateGameLog hK
    refine rel_shellPhase hK ?_ fuel h1
    unfold performTankActions
    exact rel_foldSteps _ (fun k _ => hR k) (s := getTankActions s oracle)
      (TanksRel.rfl' hK s.tanks_)

theorem checkTanksStatus_steps (t : GM) :
    (checkTanksStatus t).maxSteps_ = t.maxSteps_ ∧ (checkTanksStatus t).turn_ = t.turn_ := by
  unfold checkTanksStatus
  simp only
  split_ifs <;> exact ⟨rfl, rfl⟩

theorem noAmmoStep_steps (t : GM) :
    (noAmmoStep t).maxSteps_ = t.maxSteps_ ∧ (noAmmoStep t).turn_ = t.turn_ := by
  unfold noAmmoStep
  simp only
  split_ifs <;> exact ⟨rfl, rfl⟩

theorem endOfTurn_steps (t : GM) :
    (noAmmoStep (checkTanksStatus (updateGameLog t))).maxSteps_ = t.maxSteps_ ∧
      (noAmmoStep (checkTanksStatus (updateGameLog t))).turn_ = t.turn_ := by
  have h1 := noAmmoStep_steps (checkTanksStatus (updateGameLog t))
  have h2 := checkTanksStatus_steps (updateGameLog t)
  exact ⟨h1.1.trans h2.1, h1.2.trans h2.2⟩

theorem playTurn_steps {s s' : GM} (fuel : Nat) (oracle : Oracle)
    (h : playTurn fuel oracle s = some s') :
    s'.maxSteps_ = s.maxSteps_ ∧ s'.turn_ = s.turn_ := by
  unfold playTurn at h
  cases h1 : shellPhase fuel (performTankActions (getTankActions s oracle)) with
  | none => rw [h1] at h; cases h
  | some s1 =>
    rw [h1] at h
    cases h
    have hc : s1.cfg = (getTankActions s oracle).cfg := by
      rw [cfg_shellPhase _ _ _ h1, cfg_performTankActions]
    have h2 : s1.maxSteps_ = s.maxSteps_ ∧ s1.turn_ = s.turn_ := by
      simp only [GM.cfg, Prod.mk.injEq] at hc
      exact ⟨hc.1, hc.2.1⟩
    exact ⟨(endOfTurn_steps s1).1.trans h2.1, (endOfTurn_steps s1).2.trans h2.2⟩

/-! ## The main loop -/

theorem runLoop_succ (fuel : Nat) (oracle : Oracle) (s : GM) :
    runLoop (fuel + 1) oracle s =
      if s.gameOver_ = true then some (s, 0)
      else if s.turn_ ≥ s.maxSteps_ then
        some ({ s with lastRoundGameboard_ := s.gameboard_, gameOver_ := true }, 0)
      else
        match playTurn fuel oracle { s with lastRoundGameboard_ := s.gameboard_ } with
        | none => none
        | some s1 =>
          if s1.gameOver_ = true then some (finishStep s1, 1)
          else
            match runLoop fuel oracle { s1 with turn_ := s1.turn_ + 1 } with
            | none => none
            | some r => some (r.1, r.2 + 1) := rfl

/-- With enough fuel the main loop returns; it reaches the action phase at most
`maxSteps_ - turn_` times. -/
theorem runLoop_total (oracle : Oracle) : ∀ (n : Nat) (s : GM), Inv s →
    (s.maxSteps_ - s.turn_).toNat ≤ n →
    ∃ F r, (∀ fuel, F ≤ fuel → runLoop fuel oracle s = some r) ∧ r.2 ≤ n ∧ Inv r.1 := by
  intro n
  induction n with
  | zero =>
    intro s hI hn
    by_cases hg : s.gameOver_ = true
    · refine ⟨1, (s, 0), fun fuel hf => ?_, le_refl _, hI⟩
      obtain ⟨f, rfl⟩ : ∃ f, fuel = f + 1 := ⟨fuel - 1, by omega⟩
      rw [runLoop_succ, if_pos hg]
    · refine ⟨1, ({ s with lastRoundGameboard_ := s.gameboard_, gameOver_ := true }, 0),
        fun fuel hf => ?_, le_refl _, hI.of_mono rfl rfl (fun _ _ h => h)⟩
      obtain ⟨f, rfl⟩ : ∃ f, fuel = f + 1 := ⟨fuel - 1, by omega⟩
      rw [runLoop_succ, if_neg hg, if_pos (by omega)]
  | succ m ih =>
    intro s hI hn
    by_cases hg : s.gameOver_ = true
    · refine ⟨1, (s, 0), fun fuel hf => ?_, Nat.zero_le _, hI⟩
      obtain ⟨f, rfl⟩ : ∃ f, fuel = f + 1 := ⟨fuel - 1, by omega⟩
      rw [runLoop_succ, if_pos hg]
    by_cases ht : s.turn_ ≥ s.maxSteps_
    · refine ⟨1, ({ s with lastRoundGameboard_ := s.gameboard_, gameOver_ := true }, 0),
        fun fuel hf => ?_, Nat.zero_le _, hI.of_mono rfl rfl (fun _ _ h => h)⟩
      obtain ⟨f, rfl⟩ : ∃ f, fuel = f + 1 := ⟨fuel - 1, by omega⟩
      rw [runLoop_succ, if_neg hg, if_pos ht]
    have hI0 : Inv { s with lastRoundGameboard_ := s.gameboard_ } :=
      hI.of_mono rfl rfl (fun _ _ h => h)
    obtain ⟨F1, s1, h1, hI1⟩ := playTurn_total hI0 oracle
    have hst := playTurn_steps F1 oracle (h1 F1 (le_refl _))
    by_cases hg1 : s1.gameOver_ = true
    · refine ⟨F1 + 1, (finishStep s1, 1), fun fuel hf => ?_, by omega, hI1.finishStep_ok⟩
      obtain ⟨f, rfl⟩ : ∃ f, fuel = f + 1 := ⟨fuel - 1, by omega⟩
      rw [runLoop_succ, if_neg hg, if_neg ht, h1 f (by omega)]
      simp only
      rw [if_pos hg1]
    · have hI2 : Inv { s1 with turn_ := s1.turn_ + 1 } := hI1.of_mono rfl rfl (fun _ _ h => h)
      obtain ⟨F2, r, h2, hr, hIr⟩ := ih { s1 with turn_ := s1.turn_ + 1 } hI2 (by
        show (s1.maxSteps_ - (s1.turn_ + 1)).toNat ≤ m
        rw [hst.1, hst.2]
        show (s.maxSteps_ - (s.turn_ + 1)).toNat ≤ m
        omega)
      refine ⟨max F1 F2 + 1, (r.1, r.2 + 1), fun fuel hf => ?_, by simpa using hr, hIr⟩
      obtain ⟨f, rfl⟩ : ∃ f, fuel = f + 1 := ⟨fuel - 1, by omega⟩
      have hf1 : F1 ≤ f := by have := le_max_left F1 F2; omega
      have hf2 : F2 ≤ f := by have := le_max_right F1 F2; omega
      rw [runLoop_succ, if_neg hg, if_neg ht, h1 f hf1]
      simp only
      rw [if_neg hg1, h2 f hf2]

/-! ## The state on entry to the main loop -/

theorem initCell_fold_spec (map : Nat → Nat → Char) (numShells : Int) :
    ∀ (cells : List (Nat × Nat)) (acc : List TankInfo × Int × Int),
      (∀ t ∈ (cells.foldl (initCell map numShells) acc).1,
        t ∈ acc.1 ∨ (t.turnsDead_ = 0 ∧ (t.playerId_ = 1 ∨ t.playerId_ = 2))) ∧
      (∀ t ∈ acc.1, t ∈ (cells.foldl (initCell map numShells) acc).1) ∧
      (∀ ji ∈ cells, (map ji.1 ji.2 = '1' ∨ map ji.1 ji.2 = '2') →
        ∃ t ∈ (cells.foldl (initCell map numShells) acc).1,
          t.location_ = ((ji.1 : Int), (ji.2 : Int))) ∧
      (cells.foldl (initCell map numShells) acc).1.length ≤ acc.1.length + cells.length
  | [], acc => ⟨fun t h => Or.inl h, fun t h => h, fun ji h => by simp at h, by simp⟩
  | c :: rest, acc => by
    obtain ⟨h1, h2, h3, h4⟩ := initCell_fold_spec map numShells rest (initCell map numShells acc c)
    simp only [List.foldl_cons]
    have hacc : ∀ t ∈ acc.1, t ∈ (initCell map numShells acc c).1 := by
      intro t ht
      unfold initCell
      simp only
      split_ifs <;> simp [ht]
    have hnew : ∀ t ∈ (initCell map numShells acc c).1,
        t ∈ acc.1 ∨ (t.turnsDead_ = 0 ∧ (t.playerId_ = 1 ∨ t.playerId_ = 2)) := by
      intro t ht
      unfold initCell at ht
      simp only at ht
      split_ifs at ht
      · simp only [List.mem_append, List.mem_singleton] at ht
        rcases ht with ht | rfl
        · exact Or.inl ht
        · exact Or.inr ⟨rfl, Or.inl rfl⟩
      · simp only [List.mem_append, List.mem_singleton] at ht
        rcases ht with ht | rfl
        · exact Or.inl ht
        · exact Or.inr ⟨rfl, Or.inr rfl⟩
      · exact Or.inl ht
    have hlen : (initCell map numShells acc c).1.length ≤ acc.1.length + 1 := by
      unfold initCell
      simp only
      split_ifs <;> simp
    refine ⟨?_, fun t ht => h2 t (hacc t ht), ?_, ?_⟩
    · intro t ht
      rcases h1 t ht with h | h
      · exact hnew t h
      · exact Or.inr h
    · intro ji hji hc
      simp only [List.mem_cons] at hji
      rcases hji with rfl | hji
      · have : ∃ t ∈ (initCell map numShells acc ji).1,
            t.location_ = ((ji.1 : Int), (ji.2 : Int)) := by
          unfold initCell
          simp only
          rcases hc with hc | hc
          · rw [if_pos hc]
            exact ⟨TankInfo.mk0 acc.2.1 ((ji.1 : Int), (ji.2 : Int)) numShells 1,
              by simp, rfl⟩
          · by_cases h1' : map ji.1 ji.2 = '1'
            · rw [if_pos h1']
              exact ⟨TankInfo.mk0 acc.2.1 ((ji.1 : Int), (ji.2 : Int)) numShells 1,
                by simp, rfl⟩
            · rw [if_neg h1', if_pos hc]
              exact ⟨TankInfo.mk0 acc.2.2 ((ji.1 : Int), (ji.2 : Int)) numShells 2,
                by simp, rfl⟩
        obtain ⟨t, ht, hl⟩ := this
        exact ⟨t, h2 t ht, hl⟩
      · exact h3 ji hji hc
    · simp only [List.length_cons]; omega

theorem mem_gridCells (w h j i : Nat) (hj : j < w) (hi : i < h) : (j, i) ∈ gridCells w h := by
  unfold gridCells
  simp only [List.mem_flatMap, List.mem_range, List.mem_map, Prod.mk.injEq]
  exact ⟨i, hi, j, hj, rfl, rfl⟩

theorem length_gridCells (w : Nat) : ∀ h : Nat, (gridCells w h).length = h * w
  | 0 => by simp [gridCells]
  | h + 1 => by
    have ih := length_gridCells w h
    unfold gridCells at ih ⊢
    rw [List.range_succ, List.flatMap_append, List.length_append, ih]
    simp
    ring

theorem cellAt_initBoard (map : Nat → Nat → Char) (w h : Nat) (x y : Int)
    (hc : cellAt ((List.range h).map (fun i => (List.range w).map (fun j => map j i))) x y
      ≠ NUL) :
    0 ≤ x ∧ 0 ≤ y ∧ x.toNat < w ∧ y.toNat < h ∧
      cellAt ((List.range h).map (fun i => (List.range w).map (fun j => map j i))) x y =
        map x.toNat y.toNat := by
  have h0 : 0 ≤ x ∧ 0 ≤ y := by
    by_contra h0
    apply hc
    unfold cellAt
    rw [if_neg h0]
  have hy : y.toNat < h := by
    by_contra hy
    apply hc
    have hrow0 : ((List.range h).map (fun i => (List.range w).map (fun j => map j i))).getD
        y.toNat [] = [] := by
      simp only [List.getD_eq_getElem?_getD, List.getElem?_map]
      have : (List.range h)[y.toNat]? = none :=
        List.getElem?_eq_none_iff.mpr (by simpa using hy)
      rw [this]
      rfl
    unfold cellAt
    rw [if_pos h0, hrow0]
    rfl
  have hrow : ((List.range h).map (fun i => (List.range w).map (fun j => map j i))).getD
      y.toNat [] = (List.range w).map (fun j => map j y.toNat) := by
    simp only [List.getD_eq_getElem?_getD, List.getElem?_map]
    rw [List.getElem?_range hy]
    rfl
  have hx : x.toNat < w := by
    by_contra hx
    apply hc
    unfold cellAt
    rw [if_pos h0, hrow]
    simp only [List.getD_eq_getElem?_getD, List.getElem?_map]
    have : (List.range w)[x.toNat]? = none :=
      List.getElem?_eq_none_iff.mpr (by simpa using hx)
    rw [this]
    rfl
  refine ⟨h0.1, h0.2, hx, hy, ?_⟩
  unfold cellAt
  rw [if_pos h0, hrow]
  simp only [List.getD_eq_getElem?_getD, List.getElem?_map]
  rw [List.getElem?_range hx]
  rfl

theorem toInt32_lt (n : Nat) : toInt32 n < 2 ^ 31 := by
  unfold toInt32
  split_ifs with h
  · omega
  · have : n % 2 ^ 32 < 2 ^ 32 := Nat.mod_lt _ (by norm_num)
    omega

theorem toInt32_toNat_le (n : Nat) : (toInt32 n).toNat ≤ n := by
  unfold toInt32
  have h1 : n % 2 ^ 32 ≤ n := Nat.mod_le _ _
  split_ifs with h
  · omega
  · have : n % 2 ^ 32 < 2 ^ 32 := Nat.mod_lt _ (by norm_num)
    omega

theorem getD_mem_of_lt {α : Type} (l : List α) (d : α) (k : Nat) (h : k < l.length) :
    l.getD k d ∈ l := by
  rw [List.getD_eq_getElem _ _ h]; exact List.getElem_mem h

theorem exists_getD_of_mem {α : Type} (l : List α) (d : α) (a : α) (h : a ∈ l) :
    ∃ k, k < l.length ∧ l.getD k d = a := by
  obtain ⟨k, hk, rfl⟩ := List.mem_iff_getElem.mp h
  exact ⟨k, hk, List.getD_eq_getElem _ _ hk⟩

/-- The state in which the main loop of `run` starts satisfies the invariant. -/
theorem Inv.startGame_ok (winner0 : Int) (reason0 : Reason) (rounds0 : Nat)
    (map_width map_height : Nat) (map : Nat → Nat → Char) (max_steps num_shells : Nat) :
    Inv (startGame (newGM winner0 reason0 rounds0) map_width map_height map max_steps
      num_shells) := by
  obtain ⟨h1, -, h3, h4⟩ := initCell_fold_spec map (toInt32 num_shells)
    (gridCells (toInt32 map_width).toNat (toInt32 map_height).toNat) ([], 0, 0)
  have hw := toInt32_lt map_width
  have hh := toInt32_lt map_height
  have key : ∀ g : GM, g.tanks_ = ((gridCells (toInt32 map_width).toNat
        (toInt32 map_height).toNat).foldl (initCell map (toInt32 num_shells)) ([], 0, 0)).1 →
      g.destroyedTanksIndices_ = [] → g.shells_ = [] →
      g.gameboard_ = (List.range (toInt32 map_height).toNat).map
        (fun i => (List.range (toInt32 map_width).toNat).map (fun j => map j i)) → Inv g := by
    intro g ht hd hs hb
    have hprop : ∀ k, k < g.tanks_.length → (tankAt g k).turnsDead_ = 0 ∧
        ((tankAt g k).playerId_ = 1 ∨ (tankAt g k).playerId_ = 2) := by
      intro k hk
      have hm : tankAt g k ∈ g.tanks_ := getD_mem_of_lt g.tanks_ default k hk
      rw [ht] at hm
      rcases h1 _ hm with h | h
      · simp at h
      · exact h
    constructor
    · intro k hk; rw [(hprop k hk).1]
    · intro k hk h; exact absurd (hprop k hk).1 h
    · rw [hd]; exact List.nodup_nil
    · intro k
      rw [hd]
      constructor
      · intro h; simp at h
      · rintro ⟨hk, h⟩; exact absurd (hprop k hk).1 h
    · intro k hk; exact (hprop k hk).2
    · intro x y hn
      have hn0 := NUL_ne
      have hcell : cellAt g.gameboard_ x y = '1' ∨ cellAt g.gameboard_ x y = '2' := by
        unfold NeedsTank at hn
        rcases hn with h | h | ⟨_, sh, hsh, _⟩
        · exact Or.inl h
        · exact Or.inr h
        · rw [hs] at hsh; simp at hsh
      have hne : cellAt g.gameboard_ x y ≠ NUL := by
        rcases hcell with h | h <;> rw [h]
        · exact Ne.symm hn0.1
        · exact Ne.symm hn0.2.1
      rw [hb] at hne hcell
      obtain ⟨hx0, hy0, hxw, hyh, hm⟩ := cellAt_initBoard map _ _ x y hne
      rw [hm] at hcell
      obtain ⟨t, htm, hl⟩ := h3 (x.toNat, y.toNat) (mem_gridCells _ _ _ _ hxw hyh) hcell
      rw [← ht] at htm
      obtain ⟨k, hk, hkt⟩ := exists_getD_of_mem g.tanks_ default t htm
      refine ⟨k, hk, ?_⟩
      rw [hkt, hl]
      simp only [Prod.mk.injEq]
      constructor <;> omega
    · rw [ht]
      rw [length_gridCells] at h4
      simp only [List.length_nil, zero_add] at h4
      have h5 : (toInt32 map_height).toNat * (toInt32 map_width).toNat ≤ 2 ^ 31 * 2 ^ 31 :=
        Nat.mul_le_mul (by omega) (by omega)
      have h6 : (2 : Nat) ^ 31 * 2 ^ 31 < 2 ^ 64 := by norm_num
      omega
  unfold startGame initiateGame
  simp only
  split_ifs
  · exact key _ rfl rfl rfl rfl
  · exact key _ rfl rfl rfl rfl

/-! ## Claims about the result of `run` -/

/-- C1 (the code departs from the claim).  On the one-row map with a tank of each player,
no shells and `max_steps = 50`, every alive tank has ammo 0 at the end of turn 0.  The
claim asks for a game that ends 40 turns later with reason `ZERO_SHELLS`.  The engine
instead plays all 50 turns: `noAmmoTimer_` starts at 0, its first decrement wraps to
`2 ^ 64 - 1`, it never reaches 0 again, and the `GameResult` is returned as constructed
(here from zeroed memory). -/
theorem zero_shells_grace_not_applied :
    (runGame 60 0 Reason.ALL_TANKS_DEAD 0 3 1 duelMap 50 0 idle).map
      (fun r => (r.1.gameResult_, r.2, r.1.noAmmoFlag_, r.1.noAmmoTimer_, r.1.ub)) =
      some (zeroedResult, 50, true, 2 ^ 64 - 50, false) := by
  decide!

/-- C2 (the code departs from the claim).  On the one-row map with a tank of each player
and `max_steps = 1` the game is still running when the turn counter reaches `max_steps`.
The claim asks for reason `MAX_STEPS` and `remaining_tanks = [1, 1]`; the engine leaves
the loop without writing the result, so `remaining_tanks` is empty and the reason is the
one the `GameResult` was constructed with. -/
theorem max_steps_result_not_written :
    (runGame 10 0 Reason.ALL_TANKS_DEAD 0 3 1 duelMap 1 1 idle).map
      (fun r => (r.1.gameResult_, r.2, aliveCount r.1 1, aliveCount r.1 2, r.1.ub)) =
      some (zeroedResult, 1, 1, 1, false) := by
  decide!

/-- C4 (the code departs from the claim).  On a map whose only tank belongs to player 1
no turn is played, as claimed, but the result is not written: the winner is the value the
`GameResult` was constructed with (0 in zeroed memory), not player 1. -/
theorem one_sided_map_result_not_written :
    (runGame 10 0 Reason.ALL_TANKS_DEAD 0 3 1 loneMap 50 1 idle).map
      (fun r => (r.1.gameResult_, r.2, aliveCount r.1 1, aliveCount r.1 2)) =
      some (zeroedResult, 0, 1, 0) := by
  decide!

/-- The tight form of C5: the action phase runs at most `max_steps` times. -/
theorem runGame_total (winner0 : Int) (reason0 : Reason) (rounds0 : Nat)
    (map_width map_height : Nat) (map : Nat → Nat → Char) (max_steps num_shells : Nat)
    (oracle : Oracle) :
    ∃ F r, (∀ fuel, F ≤ fuel →
        runGame fuel winner0 reason0 rounds0 map_width map_height map max_steps num_shells
          oracle = some r) ∧ r.2 ≤ max_steps ∧ Inv r.1 := by
  have hI := Inv.startGame_ok winner0 reason0 rounds0 map_width map_height map max_steps
    num_shells
  have hsteps : (startGame (newGM winner0 reason0 rounds0) map_width map_height map max_steps
      num_shells).maxSteps_ = toInt32 max_steps ∧
      (startGame (newGM winner0 reason0 rounds0) map_width map_height map max_steps
      num_shells).turn_ = 0 := by
    unfold startGame initiateGame
    simp only
    split_ifs <;> exact ⟨rfl, rfl⟩
  obtain ⟨F, r, h1, h2, h3⟩ := runLoop_total oracle (toInt32 max_steps).toNat _ hI (by
    rw [hsteps.1, hsteps.2]; simp)
  exact ⟨F, r, h1, le_trans h2 (toInt32_toNat_le max_steps), h3⟩

/-- C5.  For every initial board, every `max_steps`, every number of shells and every
sequence of answers of the tank algorithms, `run` returns once it is given enough fuel:
each call of `moveShells` made on the way returns, and the main loop reaches the action
phase at most `max_steps + 40` times. -/
theorem run_terminates (winner0 : Int) (reason0 : Reason) (rounds0 : Nat)
    (map_width map_height : Nat) (map : Nat → Nat → Char) (max_steps num_shells : Nat)
    (oracle : Oracle) :
    ∃ F r, (∀ fuel, F ≤ fuel →
        runGame fuel winner0 reason0 rounds0 map_width map_height map max_steps num_shells
          oracle = some r ∧
        run fuel winner0 reason0 rounds0 map_width map_height map max_steps num_shells
          oracle = some r.1.gameResult_) ∧ r.2 ≤ max_steps + 40 := by
  obtain ⟨F, r, h1, h2, _⟩ := runGame_total winner0 reason0 rounds0 map_width map_height map
    max_steps num_shells oracle
  refine ⟨F, r, fun fuel hf => ⟨h1 fuel hf, ?_⟩, by omega⟩
  unfold run
  rw [h1 fuel hf]
  rfl

/-! ## Counting tanks -/

theorem countTanks_eq_zero (p : TankInfo → Bool) (s : GM) :
    countTanks p s = 0 ↔ ∀ k, k < s.tanks_.length → p (tankAt s k) = false := by
  unfold countTanks
  rw [List.length_eq_zero, List.filter_eq_nil_iff]
  constructor
  · intro h k hk
    have := h _ (getD_mem_of_lt s.tanks_ default k hk)
    exact Bool.eq_false_iff.mpr this
  · intro h a ha
    obtain ⟨k, hk, rfl⟩ := exists_getD_of_mem s.tanks_ default a ha
    have := h k hk
    unfold tankAt at this
    exact Bool.eq_false_iff.mp this

theorem countTanks_congr (p q : TankInfo → Bool) (s : GM)
    (h : ∀ k, k < s.tanks_.length → p (tankAt s k) = q (tankAt s k)) :
    countTanks p s = countTanks q s := by
  unfold countTanks
  congr 1
  apply List.filter_congr
  intro a ha
  obtain ⟨k, hk, rfl⟩ := exists_getD_of_mem s.tanks_ default a ha
  exact h k hk

theorem filter_length_le_of_pointwise {α : Type} (d : α) (q q' : α → Bool) :
    ∀ (l l' : List α), l'.length = l.length →
      (∀ k, k < l.length → q' (l'.getD k d) = true → q (l.getD k d) = true) →
      (l'.filter q').length ≤ (l.filter q).length
  | [], [], _, _ => by simp
  | [], _ :: _, h, _ => by simp at h
  | _ :: _, [], h, _ => by simp at h
  | a :: l, a' :: l', hlen, h => by
    have ih := filter_length_le_of_pointwise d q q' l l' (by simpa using hlen)
      (fun k hk hq => by simpa using h (k + 1) (by simpa using hk) (by simpa using hq))
    have h0 := h 0 (by simp)
    simp only [List.getD_cons_zero] at h0
    simp only [List.filter_cons]
    by_cases hq' : q' a' = true
    · rw [if_pos hq', if_pos (h0 hq')]
      simpa using ih
    · rw [if_neg hq']
      split_ifs
      · simp only [List.length_cons]; omega
      · exact ih

/-- The relation "same owner, and the death counter did not go down". -/
theorem ownerDead_closed (k : Nat) :
    ActClosed (fun _ t t' => t'.playerId_ = t.playerId_ ∧ t.turnsDead_ ≤ t'.turnsDead_) k ∧
      ShootClosed (fun _ t t' => t'.playerId_ = t.playerId_ ∧ t.turnsDead_ ≤ t'.turnsDead_)
        k := by
  constructor
  · exact
      { refl := fun _ _ => ⟨rfl, le_refl _⟩
        trans := fun _ _ _ _ h1 h2 => ⟨h2.1.trans h1.1, le_trans h1.2 h2.2⟩
        incr := fun _ t => ⟨rfl, by simp only [TankInfo.increaseTurnsDead]; omega⟩
        loc := fun _ _ _ => ⟨rfl, le_refl _⟩
        dir := fun _ _ => ⟨rfl, le_refl _⟩
        cool := fun _ => ⟨rfl, le_refl _⟩
        decBack := fun _ => ⟨rfl, le_refl _⟩
        restart := fun _ => ⟨rfl, le_refl _⟩
        zero := fun _ => ⟨rfl, le_refl _⟩
        switchB := fun _ => ⟨rfl, le_refl _⟩
        switchJ := fun _ => ⟨rfl, le_refl _⟩ }
  · exact { reset := fun _ => ⟨rfl, le_refl _⟩, decAmmo := fun _ => ⟨rfl, le_refl _⟩ }

/-- C7.  A turn played from a state of a game (one that satisfies the invariant) returns
with enough fuel, and in the state `s'` it returns: for every owner `p` the number of
alive tanks of `p` is at most what it was; a tank that was dead is still dead; and every
dead tank has `turnsDead_ >= 1` and is located at `(-1, -1)`. -/
theorem alive_tanks_never_return (oracle : Oracle) (s : GM) (hI : Inv s) :
    ∃ F s', (∀ fuel, F ≤ fuel → playTurn fuel oracle s = some s') ∧
      s'.tanks_.length = s.tanks_.length ∧
      (∀ p, aliveCount s' p ≤ aliveCount s p) ∧
      (∀ k, k < s.tanks_.length → (tankAt s k).turnsDead_ ≠ 0 →
        (tankAt s' k).turnsDead_ ≠ 0) ∧
      (∀ k, k < s.tanks_.length → (tankAt s' k).turnsDead_ ≠ 0 →
        1 ≤ (tankAt s' k).turnsDead_ ∧ (tankAt s' k).location_ = (-1, -1)) := by
  obtain ⟨F, s', h1, hI'⟩ := playTurn_total hI oracle
  have hrel := rel_playTurn ownerDead_closed F oracle (h1 F (le_refl _))
  refine ⟨F, s', h1, hrel.1, ?_, ?_, ?_⟩
  · intro p
    unfold aliveCount countTanks
    apply filter_length_le_of_pointwise default _ _ _ _ hrel.1
    intro k hk hq
    have := hrel.2 k hk
    simp only [decide_eq_true_eq] at hq ⊢
    have h0 := hI.dead_nonneg k hk
    unfold tankAt at h0
    constructor
    · rw [← this.1]; exact hq.1
    · omega
  · intro k hk hd
    have := (hrel.2 k hk).2
    have h0 := hI.dead_nonneg k hk
    unfold tankAt at h0 hd ⊢
    omega
  · intro k hk hd
    have hk' : k < s'.tanks_.length := by rw [hrel.1]; exact hk
    have h0 := hI'.dead_nonneg k hk'
    exact ⟨by omega, hI'.dead_loc k hk' hd⟩

/-- C7 at a concrete game: the duel with 5 shells per tank in which tank 0 shoots in the
first turn. -/
theorem alive_tanks_never_return_witness :
    Inv armedStart ∧
    ∃ F s', (∀ fuel, F ≤ fuel → playTurn fuel firstShoots armedStart = some s') ∧
      s'.tanks_.length = armedStart.tanks_.length ∧
      (∀ p, aliveCount s' p ≤ aliveCount armedStart p) ∧
      (∀ k, k < armedStart.tanks_.length → (tankAt armedStart k).turnsDead_ ≠ 0 →
        (tankAt s' k).turnsDead_ ≠ 0) ∧
      (∀ k, k < armedStart.tanks_.length → (tankAt s' k).turnsDead_ ≠ 0 →
        1 ≤ (tankAt s' k).turnsDead_ ∧ (tankAt s' k).location_ = (-1, -1)) :=
  ⟨Inv.startGame_ok 0 Reason.ALL_TANKS_DEAD 0 3 1 duelMap 50 5,
    alive_tanks_never_return firstShoots armedStart
      (Inv.startGame_ok 0 Reason.ALL_TANKS_DEAD 0 3 1 duelMap 50 5)⟩

/-! ## The end of a game with a side without tanks -/

theorem destroyed_length_le {s : GM} (hI : Inv s) :
    s.destroyedTanksIndices_.length ≤ s.tanks_.length := by
  have hsub : s.destroyedTanksIndices_ ⊆ List.range s.tanks_.length := by
    intro k hk
    exact List.mem_range.mpr ((hI.destroyed_iff k).mp hk).1
  have := (List.subperm_of_subset hI.destroyed_nodup hsub).length_le
  simpa using this

theorem destroyed_length_eq_iff {s : GM} (hI : Inv s) :
    s.destroyedTanksIndices_.length = s.tanks_.length ↔
      ∀ k, k < s.tanks_.length → (tankAt s k).turnsDead_ ≠ 0 := by
  have hsub : s.destroyedTanksIndices_ ⊆ List.range s.tanks_.length := by
    intro k hk
    exact List.mem_range.mpr ((hI.destroyed_iff k).mp hk).1
  constructor
  · intro h k hk
    have hp := (List.subperm_of_subset hI.destroyed_nodup hsub).perm_of_length_le
      (by simp [h])
    have : k ∈ s.destroyedTanksIndices_ := hp.mem_iff.mpr (List.mem_range.mpr hk)
    exact ((hI.destroyed_iff k).mp this).2
  · intro h
    have hsub' : List.range s.tanks_.length ⊆ s.destroyedTanksIndices_ := by
      intro k hk
      have hk' := List.mem_range.mp hk
      exact (hI.destroyed_iff k).mpr ⟨hk', h k hk'⟩
    have h1 := (List.subperm_of_subset (List.nodup_range _) hsub').length_le
    have h2 := destroyed_length_le hI
    simp only [List.length_range] at h1
    omega

theorem sizeSub_eq_zero_iff (a b : Nat) (hb : b ≤ a) (ha : a < 2 ^ 64) :
    sizeSub a b = 0 ↔ b = a := by
  unfold sizeSub
  have h1 : b % 2 ^ 64 = b := Nat.mod_eq_of_lt (by omega)
  rw [h1]
  constructor
  · intro h
    by_contra hne
    have h2 : a + 2 ^ 64 - b = 2 ^ 64 + (a - b) := by omega
    rw [h2, Nat.add_mod_left, Nat.mod_eq_of_lt (by omega)] at h
    omega
  · intro h
    subst h
    simp

theorem aliveCount_zero_iff (s : GM) (p : Int) :
    aliveCount s p = 0 ↔ ∀ k, k < s.tanks_.length →
      ¬ ((tankAt s k).playerId_ = p ∧ (tankAt s k).turnsDead_ = 0) := by
  unfold aliveCount
  rw [countTanks_eq_zero]
  constructor
  · intro h k hk; simpa using h k hk
  · intro h k hk; simpa using h k hk

/-- What `checkTanksStatus` decides when a side has no alive tank. -/
theorem checkTanksStatus_spec {s : GM} (hI : Inv s)
    (h : aliveCount s 1 = 0 ∨ aliveCount s 2 = 0) :
    (checkTanksStatus s).gameOver_ = true ∧
    (aliveCount s 1 = 0 → aliveCount s 2 = 0 → (checkTanksStatus s).gameOverStatus_ = 3) ∧
    (aliveCount s 1 = 0 → aliveCount s 2 ≠ 0 → (checkTanksStatus s).gameOverStatus_ = 1 ∧
      (checkTanksStatus s).numTanks2_ = aliveCount s 2) ∧
    (aliveCount s 1 ≠ 0 → aliveCount s 2 = 0 → (checkTanksStatus s).gameOverStatus_ = 2 ∧
      (checkTanksStatus s).numTanks1_ = aliveCount s 1) := by
  have hle := destroyed_length_le hI
  have hz := sizeSub_eq_zero_iff _ _ hle hI.size
  have hall : sizeSub s.tanks_.length s.destroyedTanksIndices_.length = 0 ↔
      (aliveCount s 1 = 0 ∧ aliveCount s 2 = 0) := by
    rw [hz, destroyed_length_eq_iff hI, aliveCount_zero_iff, aliveCount_zero_iff]
    constructor
    · intro hd
      exact ⟨fun k hk hh => hd k hk hh.2, fun k hk hh => hd k hk hh.2⟩
    · rintro ⟨h1, h2⟩ k hk hd
      rcases hI.player k hk with hp | hp
      · exact h1 k hk ⟨hp, hd⟩
      · exact h2 k hk ⟨hp, hd⟩
  have hp1 : countTanks (fun t => decide (t.playerId_ = 1 ∧ t.turnsDead_ = 0)) s =
      aliveCount s 1 := rfl
  have hp2 : countTanks (fun t => decide (¬ (t.playerId_ = 1 ∧ t.turnsDead_ = 0) ∧
      t.playerId_ = 2 ∧ t.turnsDead_ = 0)) s = aliveCount s 2 := by
    unfold aliveCount
    apply countTanks_congr
    intro k _
    by_cases hq : (tankAt s k).playerId_ = 2
    · simp [hq]
    · simp [hq]
  unfold checkTanksStatus
  simp only [hp1, hp2]
  by_cases h0 : sizeSub s.tanks_.length s.destroyedTanksIndices_.length = 0
  · rw [if_pos h0]
    have := hall.mp h0
    refine ⟨rfl, fun _ _ => rfl, fun _ h2 => absurd this.2 h2, fun h1 _ => absurd this.1 h1⟩
  · rw [if_neg h0]
    have hnot : ¬ (aliveCount s 1 = 0 ∧ aliveCount s 2 = 0) := fun hh => h0 (hall.mpr hh)
    by_cases h1 : aliveCount s 1 = 0
    · have h2 : aliveCount s 2 ≠ 0 := fun h2 => hnot ⟨h1, h2⟩
      simp only [h1, if_true]
      exact ⟨trivial, fun _ h2' => absurd h2' h2, fun _ _ => ⟨trivial, trivial⟩,
        fun h1' _ => absurd rfl h1'⟩
    · have h2 : aliveCount s 2 = 0 := by
        rcases h with h | h
        · exact absurd h h1
        · exact h
      simp only [h1, h2, if_false, if_true]
      exact ⟨trivial, fun h1' _ => absurd h1' id, fun h1' _ => absurd h1' id,
        fun _ _ => ⟨trivial, trivial⟩⟩

theorem noAmmoStep_keeps (s : GM) :
    (s.gameOver_ = true → (noAmmoStep s).gameOver_ = true) ∧
    (noAmmoStep s).gameOverStatus_ = s.gameOverStatus_ ∧
    (noAmmoStep s).numTanks1_ = s.numTanks1_ ∧
    (noAmmoStep s).numTanks2_ = s.numTanks2_ ∧
    (noAmmoStep s).gameboard_ = s.gameboard_ := by
  unfold noAmmoStep
  simp only
  split_ifs
  · exact ⟨fun _ => rfl, rfl, rfl, rfl, rfl⟩
  · exact ⟨fun h => h, rfl, rfl, rfl, rfl⟩
  · exact ⟨fun h => h, rfl, rfl, rfl, rfl⟩

theorem aliveCount_of_tanks (s s' : GM) (h : s'.tanks_ = s.tanks_) (p : Int) :
    aliveCount s' p = aliveCount s p := by
  unfold aliveCount countTanks
  rw [h]

/-- C3.  From a running state of a game whose turn counter is below `maxSteps_`, the
turn returns with enough fuel; and if in the state `s1` after it a side has no alive tank,
the main loop stops in this iteration and the result has reason `ALL_TANKS_DEAD`, with
winner 0 and `[0, 0]` when neither side has an alive tank, and otherwise the side that
still has alive tanks as the winner, its alive count in its slot and 0 in the other. -/
theorem all_tanks_dead_result (oracle : Oracle) (s : GM) (hI : Inv s)
    (hg : s.gameOver_ = false) (ht : s.turn_ < s.maxSteps_) :
    ∃ F s1,
      (∀ fuel, F ≤ fuel →
        playTurn fuel oracle { s with lastRoundGameboard_ := s.gameboard_ } = some s1) ∧
      ((aliveCount s1 1 = 0 ∨ aliveCount s1 2 = 0) →
        (∀ fuel, F ≤ fuel → runLoop (fuel + 1) oracle s = some (finishStep s1, 1)) ∧
        (finishStep s1).tanks_ = s1.tanks_ ∧
        (finishStep s1).gameResult_.reason = Reason.ALL_TANKS_DEAD ∧
        (aliveCount s1 1 = 0 → aliveCount s1 2 = 0 →
          (finishStep s1).gameResult_.winner = 0 ∧
          (finishStep s1).gameResult_.remaining_tanks = [0, 0]) ∧
        (aliveCount s1 1 = 0 → aliveCount s1 2 ≠ 0 →
          (finishStep s1).gameResult_.winner = 2 ∧
          (finishStep s1).gameResult_.remaining_tanks = [0, aliveCount s1 2]) ∧
        (aliveCount s1 1 ≠ 0 → aliveCount s1 2 = 0 →
          (finishStep s1).gameResult_.winner = 1 ∧
          (finishStep s1).gameResult_.remaining_tanks = [aliveCount s1 1, 0])) := by
  have hI0 : Inv { s with lastRoundGameboard_ := s.gameboard_ } :=
    hI.of_mono rfl rfl (fun _ _ h => h)
  obtain ⟨F, t, h1, hIt⟩ := shellPhase_total
    (hI0.getTankActions_ok oracle).performTankActions_ok
  have hIl := hIt.updateGameLog_ok
  refine ⟨F, noAmmoStep (checkTanksStatus (updateGameLog t)), fun fuel hf => ?_, ?_⟩
  · unfold playTurn
    rw [h1 fuel hf]
  · intro hside
    have htk : (noAmmoStep (checkTanksStatus (updateGameLog t))).tanks_ =
        (updateGameLog t).tanks_ := by
      rw [noAmmoStep_tanks, checkTanksStatus_tanks]
    have hc : ∀ p, aliveCount (noAmmoStep (checkTanksStatus (updateGameLog t))) p =
        aliveCount (updateGameLog t) p := fun p => aliveCount_of_tanks _ _ htk p
    rw [hc 1, hc 2] at hside ⊢
    obtain ⟨hs0, hs3, hs1, hs2⟩ := checkTanksStatus_spec hIl hside
    obtain ⟨hk0, hk1, hk2, hk3, _⟩ := noAmmoStep_keeps (checkTanksStatus (updateGameLog t))
    have hover := hk0 hs0
    refine ⟨fun fuel hf => ?_, finishStep_tanks _, ?_, ?_, ?_, ?_⟩
    · rw [runLoop_succ, if_neg (by simp [hg]), if_neg (by omega)]
      have : playTurn fuel oracle { s with lastRoundGameboard_ := s.gameboard_ } =
          some (noAmmoStep (checkTanksStatus (updateGameLog t))) := by
        unfold playTurn
        rw [h1 fuel hf]
      rw [this]
      simp only
      rw [if_pos hover]
    · unfold finishStep
      rw [hk1]
      by_cases a1 : aliveCount (updateGameLog t) 1 = 0
      · by_cases a2 : aliveCount (updateGameLog t) 2 = 0
        · rw [hs3 a1 a2]; rfl
        · rw [(hs1 a1 a2).1]; rfl
      · have a2 : aliveCount (updateGameLog t) 2 = 0 := by
          rcases hside with h | h
          · exact absurd h a1
          · exact h
        rw [(hs2 a1 a2).1]; rfl
    · intro a1 a2
      unfold finishStep
      rw [hk1, hs3 a1 a2]
      exact ⟨rfl, rfl⟩
    · intro a1 a2
      unfold finishStep
      rw [hk1, (hs1 a1 a2).1]
      refine ⟨rfl, ?_⟩
      show [0, (noAmmoStep (checkTanksStatus (updateGameLog t))).numTanks2_] = _
      rw [hk3, (hs1 a1 a2).2]
    · intro a1 a2
      unfold finishStep
      rw [hk1, (hs2 a1 a2).1]
      refine ⟨rfl, ?_⟩
      show [(noAmmoStep (checkTanksStatus (updateGameLog t))).numTanks1_, 0] = _
      rw [hk2, (hs2 a1 a2).2]

/-- C3 at a concrete game: the duel with 5 shells per tank in which tank 0 shoots in the
first turn. -/
theorem all_tanks_dead_result_witness :
    Inv armedStart ∧ armedStart.gameOver_ = false ∧ armedStart.turn_ < armedStart.maxSteps_ ∧
    ∃ F s1,
      (∀ fuel, F ≤ fuel →
        playTurn fuel firstShoots
          { armedStart with lastRoundGameboard_ := armedStart.gameboard_ } = some s1) ∧
      ((aliveCount s1 1 = 0 ∨ aliveCount s1 2 = 0) →
        (∀ fuel, F ≤ fuel →
          runLoop (fuel + 1) firstShoots armedStart = some (finishStep s1, 1)) ∧
        (finishStep s1).tanks_ = s1.tanks_ ∧
        (finishStep s1).gameResult_.reason = Reason.ALL_TANKS_DEAD ∧
        (aliveCount s1 1 = 0 → aliveCount s1 2 = 0 →
          (finishStep s1).gameResult_.winner = 0 ∧
          (finishStep s1).gameResult_.remaining_tanks = [0, 0]) ∧
        (aliveCount s1 1 = 0 → aliveCount s1 2 ≠ 0 →
          (finishStep s1).gameResult_.winner = 2 ∧
          (finishStep s1).gameResult_.remaining_tanks = [0, aliveCount s1 2]) ∧
        (aliveCount s1 1 ≠ 0 → aliveCount s1 2 = 0 →
          (finishStep s1).gameResult_.winner = 1 ∧
          (finishStep s1).gameResult_.remaining_tanks = [aliveCount s1 1, 0])) :=
  ⟨Inv.startGame_ok 0 Reason.ALL_TANKS_DEAD 0 3 1 duelMap 50 5, by decide!, by decide!,
    all_tanks_dead_result firstShoots armedStart
      (Inv.startGame_ok 0 Reason.ALL_TANKS_DEAD 0 3 1 duelMap 50 5) (by decide!)
      (by decide!)⟩

/-! ## Ammo -/

theorem range_split (n i : Nat) (h : i < n) :
    List.range n = List.range i ++ i :: List.range' (i + 1) (n - i - 1) := by
  rw [List.range_eq_range', List.range_eq_range']
  have h1 := List.range'_append 0 i (n - i) 1
  simp only [Nat.one_mul, Nat.zero_add] at h1
  have h2 : n - i + i = n := by omega
  rw [h2] at h1
  rw [← h1]
  have h3 : n - i = (n - i - 1) + 1 := by omega
  rw [h3, List.range'_succ]
  simp

theorem mem_range'_ne (i m k : Nat) (h : k ∈ List.range' (i + 1) m) : k ≠ i := by
  have := List.mem_range'_1.mp h
  omega

theorem gearKept_kill (i : Nat) : KillClosed (GearKept i) :=
  { refl := fun _ _ _ => ⟨rfl, rfl, rfl⟩
    trans := fun _ _ _ _ h1 h2 hj =>
      ⟨(h2 hj).1.trans (h1 hj).1, (h2 hj).2.1.trans (h1 hj).2.1,
        (h2 hj).2.2.trans (h1 hj).2.2⟩
    incr := fun _ _ _ => ⟨rfl, rfl, rfl⟩ }

theorem gearKept_closed (i k : Nat) (h : k ≠ i) :
    ActClosed (GearKept i) k ∧ ShootClosed (GearKept i) k := by
  constructor
  · exact
      { toKillClosed := gearKept_kill i
        loc := fun _ _ _ hk => absurd hk h
        dir := fun _ _ hk => absurd hk h
        cool := fun _ hk => absurd hk h
        decBack := fun _ hk => absurd hk h
        restart := fun _ hk => absurd hk h
        zero := fun _ hk => absurd hk h
        switchB := fun _ hk => absurd hk h
        switchJ := fun _ hk => absurd hk h }
  · exact { reset := fun _ hk => absurd hk h, decAmmo := fun _ hk => absurd hk h }

theorem ammoKept_closed (i : Nat) : ActClosed AmmoKept i :=
  { refl := fun _ _ => rfl
    trans := fun _ _ _ _ h1 h2 => Eq.trans h2 h1
    incr := fun _ _ => rfl
    loc := fun _ _ _ => rfl
    dir := fun _ _ => rfl
    cool := fun _ => rfl
    decBack := fun _ => rfl
    restart := fun _ => rfl
    zero := fun _ => rfl
    switchB := fun _ => rfl
    switchJ := fun _ => rfl }

theorem tankAt_shoot_valid (s : GM) (i : Nat) (hi : i < s.tanks_.length)
    (hv : isValidShoot (tankAt s i) = true) :
    tankAt (shoot s i) i = ((tankAt s i).resetTurnsToShoot).decreaseAmmo := by
  unfold shoot
  rw [if_neg (not_not.mpr hv)]
  simp only
  unfold tankAt
  rw [shootAt_tanks]
  have h1 := tankAt_modifyTank_self (modifyTank s i TankInfo.resetTurnsToShoot) i
    TankInfo.decreaseAmmo (by simpa using hi)
  rw [tankAt_modifyTank_self s i _ hi] at h1
  exact h1

/-- A `Shoot` by a tank that is not moving backwards and may shoot reaches `shoot`. -/
theorem performAction_valid_shoot (s : GM) (i : Nat) (hi : i < s.tanks_.length)
    (hbf : (tankAt s i).backwardsFlag_ = false) (hv : isValidShoot (tankAt s i) = true) :
    performAction s ActionRequest.Shoot i =
        (shoot (backwardsRequest s ActionRequest.Shoot i) i, true) ∧
      (tankAt (performAction s ActionRequest.Shoot i).1 i).ammo_ = (tankAt s i).ammo_ - 1 ∧
      (tankAt (performAction s ActionRequest.Shoot i).1 i).turnsToShoot_ = 4 := by
  have hne : ActionRequest.Shoot ≠ ActionRequest.MoveBackward := by decide
  have hi2 : i < (backwardsRequest s ActionRequest.Shoot i).tanks_.length := by
    rw [backwardsRequest_length]; exact hi
  have hammo : 0 < (tankAt s i).ammo_ := by
    unfold isValidShoot at hv
    simp only [gt_iff_lt, decide_eq_true_eq] at hv
    exact hv.1
  have ht2 : (tankAt (backwardsRequest s ActionRequest.Shoot i) i).backwardsFlag_ = false ∧
      isValidShoot (tankAt (backwardsRequest s ActionRequest.Shoot i) i) = true ∧
      (tankAt (backwardsRequest s ActionRequest.Shoot i) i).ammo_ = (tankAt s i).ammo_ := by
    rcases backwardsRequest_tank_of_ne s ActionRequest.Shoot i hne with e | e <;> rw [e]
    · exact ⟨hbf, hv, rfl⟩
    · exact ⟨hbf, hv, rfl⟩
  have heq : performAction s ActionRequest.Shoot i =
      (shoot (backwardsRequest s ActionRequest.Shoot i) i, true) := by
    unfold performAction
    rw [if_neg (by simp)]
    simp only
    rw [if_neg (by simp [ht2.1])]
    have : isValidAction (backwardsRequest s ActionRequest.Shoot i)
        (tankAt (backwardsRequest s ActionRequest.Shoot i) i) ActionRequest.Shoot = true :=
      ht2.2.1
    rw [if_neg (by simp [this])]
    rfl
  refine ⟨heq, ?_, ?_⟩
  · rw [heq]
    simp only
    rw [tankAt_shoot_valid _ i hi2 ht2.2.1]
    simp only [TankInfo.decreaseAmmo, TankInfo.resetTurnsToShoot]
    rw [ht2.2.2]
    omega
  · rw [heq]
    simp only
    rw [tankAt_shoot_valid _ i hi2 ht2.2.1]
    rfl

theorem actionOf_eq_of_cfg (s s' : GM) (h : s'.cfg = s.cfg) (i : Nat) :
    actionOf s' i = actionOf s i := by
  have h1 : s'.tankActions_.map Prod.fst = s.tankActions_.map Prod.fst := by
    simp only [GM.cfg, Prod.mk.injEq] at h
    exact h.2.2.2.2.2.2.2.2.2.2.2.2
  unfold actionOf
  exact getD_of_map_eq Prod.fst _ _ default h1 i

theorem actionOf_getTankActions (s : GM) (oracle : Oracle) (i : Nat)
    (hi : i < s.tanks_.length) (ha : (tankAt s i).turnsDead_ = 0) :
    actionOf (getTankActions s oracle) i = oracle s.turn_.toNat i := by
  unfold actionOf getTankActions
  simp only [List.getD_eq_getElem?_getD, List.getElem?_map]
  rw [List.getElem?_range hi]
  simp [ha]

theorem performTankActionStep_tanks_alive (s : GM) (i : Nat)
    (ha : (tankAt s i).turnsDead_ = 0) :
    (performTankActionStep s i).tanks_ = (performAction s (actionOf s i) i).1.tanks_ := by
  unfold performTankActionStep
  rw [if_pos ha]
  simp only
  split_ifs <;> rfl

/-- The ammo of the acting tank across its own slot of `performTankActions`. -/
theorem step_ammo (s : GM) (i : Nat) (hi : i < s.tanks_.length) :
    (((tankAt s i).turnsDead_ = 0 ∧ actionOf s i = ActionRequest.Shoot ∧
        (tankAt s i).backwardsFlag_ = false ∧ isValidShoot (tankAt s i) = true) →
      (tankAt (performTankActionStep s i) i).ammo_ = (tankAt s i).ammo_ - 1) ∧
    (¬ ((tankAt s i).turnsDead_ = 0 ∧ actionOf s i = ActionRequest.Shoot ∧
        (tankAt s i).backwardsFlag_ = false ∧ isValidShoot (tankAt s i) = true) →
      (tankAt (performTankActionStep s i) i).ammo_ = (tankAt s i).ammo_) := by
  constructor
  · rintro ⟨ha, hact, hbf, hv⟩
    unfold tankAt
    rw [performTankActionStep_tanks_alive s i ha, hact]
    exact (performAction_valid_shoot s i hi hbf hv).2.1
  · intro hc
    by_cases ha : (tankAt s i).turnsDead_ = 0
    · unfold tankAt
      rw [performTankActionStep_tanks_alive s i ha]
      have hrel := rel_performAction (ammoKept_closed i)
        (TanksRel.rfl' (ammoKept_closed i).toKillClosed s.tanks_) (actionOf s i)
        (fun h1 h2 h3 => absurd ⟨ha, h1, h2, h3⟩ hc)
      exact hrel.2 i hi
    · unfold performTankActionStep
      rw [if_neg ha]

theorem rel_rest {R : Nat → TankInfo → TankInfo → Prop} (hK : KillClosed R)
    (ks : List Nat) (hR : ∀ k ∈ ks, ActClosed R k ∧ ShootClosed R k) {sA t : GM}
    (fuel : Nat) (h : shellPhase fuel (ks.foldl performTankActionStep sA) = some t) :
    TanksRel R sA.tanks_ (noAmmoStep (checkTanksStatus (updateGameLog t))).tanks_ := by
  rw [noAmmoStep_tanks, checkTanksStatus_tanks]
  apply rel_updateGameLog hK
  refine rel_shellPhase hK ?_ fuel h
  exact rel_foldSteps ks hR (TanksRel.rfl' hK sA.tanks_)

theorem slotState_rel (s : GM) (oracle : Oracle) (i : Nat) :
    TanksRel (GearKept i) s.tanks_ (slotState s oracle i).tanks_ := by
  unfold slotState
  apply rel_foldSteps (List.range i)
    (fun k hk => gearKept_closed i k (by have := List.mem_range.mp hk; omega))
    (s := getTankActions s oracle)
    (TanksRel.rfl' (gearKept_kill i) s.tanks_)

theorem slotState_cfg (s : GM) (oracle : Oracle) (i : Nat) :
    (slotState s oracle i).cfg = (getTankActions s oracle).cfg := by
  unfold slotState
  exact cfg_foldSteps _ _

theorem performTankActions_split (s : GM) (oracle : Oracle) (i : Nat)
    (hi : i < s.tanks_.length) :
    performTankActions (getTankActions s oracle) =
      (List.range' (i + 1) (s.tanks_.length - i - 1)).foldl performTankActionStep
        (performTankActionStep (slotState s oracle i) i) := by
  unfold performTankActions slotState
  have : (getTankActions s oracle).tanks_.length = s.tanks_.length := rfl
  rw [this, range_split s.tanks_.length i hi, List.foldl_append, List.foldl_cons]

/-- C6.  A turn played from a state of a game returns with enough fuel, and for every tank
`i` the ammo after the turn is the ammo before it or one less; it is one less exactly when
the tank is alive when `performTankActions` reaches it, the action requested for it in
this turn is `Shoot`, no backward move is pending, its ammo is positive and its shoot
cooldown is 0. -/
theorem ammo_drops_only_by_valid_shoot (oracle : Oracle) (s : GM) (hI : Inv s) :
    ∃ F s', (∀ fuel, F ≤ fuel → playTurn fuel oracle s = some s') ∧
      ∀ i, i < s.tanks_.length →
        ((tankAt s' i).ammo_ = (tankAt s i).ammo_ ∨
          (tankAt s' i).ammo_ = (tankAt s i).ammo_ - 1) ∧
        ((tankAt s' i).ammo_ = (tankAt s i).ammo_ - 1 ↔
          ((tankAt (slotState s oracle i) i).turnsDead_ = 0 ∧
            oracle s.turn_.toNat i = ActionRequest.Shoot ∧
            (tankAt s i).backwardsFlag_ = false ∧
            0 < (tankAt s i).ammo_ ∧ (tankAt s i).turnsToShoot_ = 0)) := by
  obtain ⟨F, t, h1, -⟩ := shellPhase_total
    (hI.getTankActions_ok oracle).performTankActions_ok
  refine ⟨F, noAmmoStep (checkTanksStatus (updateGameLog t)), fun fuel hf => ?_, ?_⟩
  · unfold playTurn
    rw [h1 fuel hf]
  intro i hi
  have hpre := slotState_rel s oracle i
  have hlen : (slotState s oracle i).tanks_.length = s.tanks_.length := hpre.1
  have hgear := hpre.2 i hi rfl
  have hsplit := performTankActions_split s oracle i hi
  have h1' := h1 F (le_refl _)
  rw [hsplit] at h1'
  have hsuf := rel_rest (gearKept_kill i) _
    (fun k hk => gearKept_closed i k (mem_range'_ne i _ k hk)) F h1'
  have hsufi := (hsuf.2 i (by rw [performTankActionStep_length, hlen]; exact hi) rfl).1
  have hstep := step_ammo (slotState s oracle i) i (by rw [hlen]; exact hi)
  have hdead_mono : (tankAt (slotState s oracle i) i).turnsDead_ = 0 →
      (tankAt s i).turnsDead_ = 0 := by
    intro h0
    have hrel : TanksRel (fun _ t t' => t'.playerId_ = t.playerId_ ∧
        t.turnsDead_ ≤ t'.turnsDead_) s.tanks_ (slotState s oracle i).tanks_ := by
      unfold slotState
      exact rel_foldSteps (List.range i) (fun k _ => ownerDead_closed k)
        (s := getTankActions s oracle)
        (TanksRel.rfl' (ownerDead_closed 0).1.toKillClosed s.tanks_)
    have h2 := (hrel.2 i hi).2
    have h3 := hI.dead_nonneg i hi
    unfold tankAt at h0 h3 ⊢
    omega
  have hact : (tankAt (slotState s oracle i) i).turnsDead_ = 0 →
      actionOf (slotState s oracle i) i = oracle s.turn_.toNat i := by
    intro h0
    rw [actionOf_eq_of_cfg _ _ (slotState_cfg s oracle i)]
    exact actionOf_getTankActions s oracle i hi (hdead_mono h0)
  have hvalid : isValidShoot (tankAt (slotState s oracle i) i) = true ↔
      (0 < (tankAt s i).ammo_ ∧ (tankAt s i).turnsToShoot_ = 0) := by
    unfold isValidShoot tankAt
    rw [hgear.1, hgear.2.1]
    simp
  have hcond : ((tankAt (slotState s oracle i) i).turnsDead_ = 0 ∧
        actionOf (slotState s oracle i) i = ActionRequest.Shoot ∧
        (tankAt (slotState s oracle i) i).backwardsFlag_ = false ∧
        isValidShoot (tankAt (slotState s oracle i) i) = true) ↔
      ((tankAt (slotState s oracle i) i).turnsDead_ = 0 ∧
        oracle s.turn_.toNat i = ActionRequest.Shoot ∧
        (tankAt s i).backwardsFlag_ = false ∧
        0 < (tankAt s i).ammo_ ∧ (tankAt s i).turnsToShoot_ = 0) := by
    have hb : (tankAt (slotState s oracle i) i).backwardsFlag_ =
        (tankAt s i).backwardsFlag_ := hgear.2.2
    constructor
    · rintro ⟨a, b, c, d⟩
      exact ⟨a, by rw [← hact a]; exact b, by rw [← hb]; exact c, hvalid.mp d⟩
    · rintro ⟨a, b, c, d⟩
      exact ⟨a, by rw [hact a]; exact b, by rw [hb]; exact c, hvalid.mpr d⟩
  have hslot : (tankAt (slotState s oracle i) i).ammo_ = (tankAt s i).ammo_ := hgear.1
  have hend : (tankAt (noAmmoStep (checkTanksStatus (updateGameLog t))) i).ammo_ =
      (tankAt (performTankActionStep (slotState s oracle i) i) i).ammo_ := hsufi
  rw [← hcond, hend, ← hslot]
  by_cases hc : (tankAt (slotState s oracle i) i).turnsDead_ = 0 ∧
      actionOf (slotState s oracle i) i = ActionRequest.Shoot ∧
      (tankAt (slotState s oracle i) i).backwardsFlag_ = false ∧
      isValidShoot (tankAt (slotState s oracle i) i) = true
  · have := hstep.1 hc
    exact ⟨Or.inr this, fun _ => hc, fun _ => this⟩
  · have := hstep.2 hc
    refine ⟨Or.inl this, fun h => ?_, fun h => absurd h hc⟩
    rw [this] at h
    omega

/-- C6 at a concrete game: the duel with 5 shells per tank in which tank 0 shoots in the
first turn. -/
theorem ammo_drops_only_by_valid_shoot_witness :
    Inv armedStart ∧
    ∃ F s', (∀ fuel, F ≤ fuel → playTurn fuel firstShoots armedStart = some s') ∧
      ∀ i, i < armedStart.tanks_.length →
        ((tankAt s' i).ammo_ = (tankAt armedStart i).ammo_ ∨
          (tankAt s' i).ammo_ = (tankAt armedStart i).ammo_ - 1) ∧
        ((tankAt s' i).ammo_ = (tankAt armedStart i).ammo_ - 1 ↔
          ((tankAt (slotState armedStart firstShoots i) i).turnsDead_ = 0 ∧
            firstShoots armedStart.turn_.toNat i = ActionRequest.Shoot ∧
            (tankAt armedStart i).backwardsFlag_ = false ∧
            0 < (tankAt armedStart i).ammo_ ∧ (tankAt armedStart i).turnsToShoot_ = 0)) :=
  ⟨Inv.startGame_ok 0 Reason.ALL_TANKS_DEAD 0 3 1 duelMap 50 5,
    ammo_drops_only_by_valid_shoot firstShoots armedStart
      (Inv.startGame_ok 0 Reason.ALL_TANKS_DEAD 0 3 1 duelMap 50 5)⟩

theorem modify_append_last {α : Type} (l : List α) (a : α) (f : α → α) :
    (l ++ [a]).modify f ((l ++ [a]).length - 1) = l ++ [f a] := by
  induction l with
  | nil => rfl
  | cons b l ih =>
    have h : ((b :: l) ++ [a]).length - 1 = ((l ++ [a]).length - 1) + 1 := by simp
    rw [h]
    simp only [List.cons_append, List.modify_succ_cons]
    rw [ih]

theorem shoot_valid_eq (s : GM) (i : Nat) (hi : i < s.tanks_.length)
    (hv : isValidShoot (tankAt s i) = true) :
    shoot s i =
      shootAt (modifyTank (modifyTank s i TankInfo.resetTurnsToShoot) i TankInfo.decreaseAmmo)
        (nextLocation s (tankAt s i).location_.1 (tankAt s i).location_.2
          (tankAt s i).dir_ false).1
        (nextLocation s (tankAt s i).location_.1 (tankAt s i).location_.2
          (tankAt s i).dir_ false).2
        (tankAt s i).dir_ := by
  have h2 : tankAt (modifyTank (modifyTank s i TankInfo.resetTurnsToShoot) i
      TankInfo.decreaseAmmo) i =
      TankInfo.decreaseAmmo (TankInfo.resetTurnsToShoot (tankAt s i)) := by
    rw [tankAt_modifyTank_self _ _ _ (by simpa using hi), tankAt_modifyTank_self _ _ _ hi]
  unfold shoot
  rw [if_neg (by simp [hv])]
  simp only [h2]
  rfl

theorem shootAt_board (g : GM) (x y : Int) (d : Direction) :
    ∃ c, (shootAt g x y d).gameboard_ = setCell g.gameboard_ x y c := by
  unfold shootAt
  simp only
  split_ifs
  · exact ⟨_, rfl⟩
  · exact ⟨_, rfl⟩
  · exact ⟨_, rfl⟩
  · exact ⟨_, rfl⟩
  · cases getShellAt (setBoard g x y ' ') x y <;> exact ⟨_, rfl⟩
  · exact ⟨_, rfl⟩
  · exact ⟨_, rfl⟩

/-- C9.  A valid `shoot` of tank `i`, whose cell ahead across the torus is `(nx, ny)`:
the ammo of the tank drops by one and its cooldown becomes 4; no cell other than
`(nx, ny)` changes; and by the character `c` that `(nx, ny)` shows before the shot: a wall
becomes a weakened wall and a weakened wall becomes blank, the shell list unchanged; a
tank digit becomes the letter `c` or `d` and a shell with the direction of the tank is
appended on the cell; a shell mark becomes blank and the first shell listed on the cell
is erased; a mine becomes a shell mark and a shell with `aboveMine_` set is appended; a
blank becomes a shell mark and a shell is appended. -/
theorem shoot_time_table (s : GM) (i : Nat) (nx ny : Int) (hi : i < s.tanks_.length)
    (hv : isValidShoot (tankAt s i) = true)
    (hn : nextLocation s (tankAt s i).location_.1 (tankAt s i).location_.2
      (tankAt s i).dir_ false = (nx, ny)) :
    (tankAt (shoot s i) i).ammo_ = (tankAt s i).ammo_ - 1 ∧
    (tankAt (shoot s i) i).turnsToShoot_ = 4 ∧
    (∀ x y, ¬ (x = nx ∧ y = ny) →
      cellAt (shoot s i).gameboard_ x y = cellAt s.gameboard_ x y) ∧
    (cellAt s.gameboard_ nx ny = '#' →
      cellAt (shoot s i).gameboard_ nx ny = '$' ∧ (shoot s i).shells_ = s.shells_) ∧
    (cellAt s.gameboard_ nx ny = '$' →
      cellAt (shoot s i).gameboard_ nx ny = ' ' ∧ (shoot s i).shells_ = s.shells_) ∧
    (cellAt s.gameboard_ nx ny = '1' →
      cellAt (shoot s i).gameboard_ nx ny = 'c' ∧
        (shoot s i).shells_ = s.shells_ ++ [Shell.mk0 nx ny (tankAt s i).dir_]) ∧
    (cellAt s.gameboard_ nx ny = '2' →
      cellAt (shoot s i).gameboard_ nx ny = 'd' ∧
        (shoot s i).shells_ = s.shells_ ++ [Shell.mk0 nx ny (tankAt s i).dir_]) ∧
    (cellAt s.gameboard_ nx ny = '*' →
      cellAt (shoot s i).gameboard_ nx ny = ' ' ∧
        (shoot s i).shells_ = (match getShellAt s nx ny with
          | some j => s.shells_.eraseIdx j
          | none => s.shells_)) ∧
    (cellAt s.gameboard_ nx ny = '@' →
      cellAt (shoot s i).gameboard_ nx ny = '*' ∧
        (shoot s i).shells_ = s.shells_ ++
          [{ location_ := (nx, ny), direction_ := (tankAt s i).dir_, aboveMine_ := true }]) ∧
    (cellAt s.gameboard_ nx ny = ' ' →
      cellAt (shoot s i).gameboard_ nx ny = '*' ∧
        (shoot s i).shells_ = s.shells_ ++ [Shell.mk0 nx ny (tankAt s i).dir_]) := by
  have hs := shoot_valid_eq s i hi hv
  rw [hn] at hs
  simp only at hs
  have hpos : 0 < (tankAt s i).ammo_ := by
    have := of_decide_eq_true hv
    exact this.1
  have ht : tankAt (shoot s i) i =
      TankInfo.decreaseAmmo (TankInfo.resetTurnsToShoot (tankAt s i)) := by
    unfold tankAt
    rw [hs, shootAt_tanks]
    exact (tankAt_modifyTank_self _ _ _ (by simpa using hi)).trans
      (congrArg _ (tankAt_modifyTank_self _ _ _ hi))
  have hnul : ∀ ch : Char, ch ≠ NUL → cellAt s.gameboard_ nx ny = ch →
      cellAt s.gameboard_ nx ny ≠ NUL := fun ch h1 h2 => h2 ▸ h1
  refine ⟨?_, ?_, ?_, ?_, ?_, ?_, ?_, ?_, ?_, ?_⟩
  · rw [ht]
    show max 0 ((tankAt s i).ammo_ - 1) = (tankAt s i).ammo_ - 1
    omega
  · rw [ht]; rfl
  · intro x y hxy
    obtain ⟨c1, hc1⟩ := shootAt_board
      (modifyTank (modifyTank s i TankInfo.resetTurnsToShoot) i TankInfo.decreaseAmmo)
      nx ny (tankAt s i).dir_
    rw [hs, hc1]
    exact cellAt_setCell_ne _ _ _ _ _ _ hxy
  · intro hc
    rw [hs]
    unfold shootAt
    simp only [modifyTank_board, hc, if_true]
    exact ⟨cellAt_setCell_same _ _ _ _ (hnul _ (by decide) hc), rfl⟩
  · intro hc
    rw [hs]
    unfold shootAt
    simp only [modifyTank_board, hc]
    exact ⟨cellAt_setCell_same _ _ _ _ (hnul _ (by decide) hc), rfl⟩
  · intro hc
    rw [hs]
    unfold shootAt
    simp only [modifyTank_board, hc]
    exact ⟨cellAt_setCell_same _ _ _ _ (hnul _ (by decide) hc), rfl⟩
  · intro hc
    rw [hs]
    unfold shootAt
    simp only [modifyTank_board, hc]
    exact ⟨cellAt_setCell_same _ _ _ _ (hnul _ (by decide) hc), rfl⟩
  · intro hc
    rw [hs]
    unfold shootAt
    simp only [modifyTank_board, hc]
    have hg : getShellAt (setBoard (modifyTank (modifyTank s i TankInfo.resetTurnsToShoot) i
        TankInfo.decreaseAmmo) nx ny ' ') nx ny = getShellAt s nx ny := rfl
    simp only [Char.reduceEq, if_false, if_true, hg]
    cases getShellAt s nx ny with
    | none => exact ⟨cellAt_setCell_same _ _ _ _ (hnul _ (by decide) hc), rfl⟩
    | some j => exact ⟨cellAt_setCell_same _ _ _ _ (hnul _ (by decide) hc), rfl⟩
  · intro hc
    rw [hs]
    unfold shootAt
    simp only [modifyTank_board, hc]
    simp only [Char.reduceEq, if_false, if_true]
    refine ⟨cellAt_setCell_same _ _ _ _ (hnul _ (by decide) hc), ?_⟩
    exact modify_append_last s.shells_ (Shell.mk0 nx ny (tankAt s i).dir_)
      (fun sh => { sh with aboveMine_ := true })
  · intro hc
    rw [hs]
    unfold shootAt
    simp only [modifyTank_board, hc]
    exact ⟨cellAt_setCell_same _ _ _ _ (hnul _ (by decide) hc), rfl⟩

/-- C9 at a concrete shot: in the armed duel tank 0 at `(0, 0)` faces left, so that its
cell ahead across the wrap is `(2, 0)`, where tank 1 stands. -/
theorem shoot_time_table_witness :
    (0 < armedStart.tanks_.length ∧ isValidShoot (tankAt armedStart 0) = true ∧
      nextLocation armedStart (tankAt armedStart 0).location_.1
        (tankAt armedStart 0).location_.2 (tankAt armedStart 0).dir_ false = (2, 0) ∧
      cellAt armedStart.gameboard_ 2 0 = '2') ∧
    (tankAt (shoot armedStart 0) 0).ammo_ = (tankAt armedStart 0).ammo_ - 1 ∧
    (tankAt (shoot armedStart 0) 0).turnsToShoot_ = 4 ∧
    cellAt (shoot armedStart 0).gameboard_ 2 0 = 'd' ∧
    (shoot armedStart 0).shells_ =
      armedStart.shells_ ++ [Shell.mk0 2 0 (tankAt armedStart 0).dir_] :=
  have h := shoot_time_table armedStart 0 2 0 (by decide!) (by decide!) (by decide!)
  ⟨⟨by decide!, by decide!, by decide!, by decide!⟩, h.1, h.2.1,
    h.2.2.2.2.2.2.1 (by decide!)⟩

theorem tankAt_modifyTank_lt (s : GM) (i : Nat) (f : TankInfo → TankInfo)
    (hi : i < s.tanks_.length) :
    tankAt (modifyTank s i f) i = f (tankAt s i) ∧ i < (modifyTank s i f).tanks_.length :=
  ⟨tankAt_modifyTank_self s i f hi, by simpa using hi⟩

theorem Kept.of_same (s : GM) (i : Nat) (hi : i < s.tanks_.length) : Kept s s i :=
  ⟨rfl, rfl, rfl, rfl, hi, rfl, rfl, rfl, rfl⟩

theorem Kept.after_member {s r : GM} {i : Nat} (h : Kept s r i) (f : TankInfo → TankInfo)
    (hl : ∀ t, (f t).location_ = t.location_) (hd : ∀ t, (f t).dir_ = t.dir_)
    (ha : ∀ t, (f t).ammo_ = t.ammo_) (hc : ∀ t, (f t).turnsToShoot_ = t.turnsToShoot_) :
    Kept s (modifyTank r i f) i := by
  obtain ⟨e, hlen⟩ := tankAt_modifyTank_lt r i f h.len
  exact ⟨h.board, h.shells, h.width, h.height, hlen, by rw [e, hl, h.loc],
    by rw [e, hd, h.dir], by rw [e, ha, h.ammo], by rw [e, hc, h.cool]⟩

theorem Kept.cooled {s r : GM} {i : Nat} (h : Kept s r i) :
    OnlyCooled s (modifyTank r i TankInfo.decreaseTurnsToShoot) i := by
  obtain ⟨e, _⟩ := tankAt_modifyTank_lt r i TankInfo.decreaseTurnsToShoot h.len
  refine ⟨h.board, h.shells, ?_, ?_, ?_, ?_⟩
  · rw [e]; exact h.loc
  · rw [e]; exact h.dir
  · rw [e]; exact h.ammo
  · rw [e]
    show (if (tankAt r i).turnsToShoot_ > 0 then (tankAt r i).turnsToShoot_ - 1 else 0) = _
    rw [h.cool]

theorem OnlyCooled.still_after {s r : GM} {i : Nat} (h : OnlyCooled s r i)
    (hi : i < r.tanks_.length) (f : TankInfo → TankInfo)
    (hl : ∀ t, (f t).location_ = t.location_) (hd : ∀ t, (f t).dir_ = t.dir_)
    (ha : ∀ t, (f t).ammo_ = t.ammo_) (hc : ∀ t, (f t).turnsToShoot_ = t.turnsToShoot_) :
    OnlyCooled s (modifyTank r i f) i := by
  obtain ⟨h1, h2, h3, h4, h5, h6⟩ := h
  obtain ⟨e, _⟩ := tankAt_modifyTank_lt r i f hi
  exact ⟨h1, h2, by rw [e, hl, h3], by rw [e, hd, h4], by rw [e, ha, h5], by rw [e, hc, h6]⟩

theorem isValidMove_kept {s r : GM} {i : Nat} (h : Kept s r i) (f : TankInfo → TankInfo)
    (hl : ∀ t, (f t).location_ = t.location_) (hd : ∀ t, (f t).dir_ = t.dir_)
    (a : ActionRequest) :
    isValidMove (modifyTank r i f) (tankAt (modifyTank r i f) i) a =
      isValidMove s (tankAt s i) a := by
  obtain ⟨e, _⟩ := tankAt_modifyTank_lt r i f h.len
  rw [e]
  unfold isValidMove nextLocation
  simp only [modifyTank_board, hl, hd, h.loc, h.dir, h.board]
  have hw : (modifyTank r i f).width_ = s.width_ := h.width
  have hh : (modifyTank r i f).height_ = s.height_ := h.height
  rw [hw, hh]

theorem isValidAction_kept {s r : GM} {i : Nat} (h : Kept s r i) (a : ActionRequest) :
    isValidAction r (tankAt r i) a = isValidAction s (tankAt s i) a := by
  cases a <;>
    simp only [isValidAction, isValidMove, isValidShoot, nextLocation, h.board, h.width,
      h.height, h.loc, h.dir, h.ammo, h.cool]

/-- The branch of `performAction` for a pending backward move, when no backward move is
executed. -/
theorem performBackwards_onlyCooled {s g : GM} {i : Nat} (h : Kept s g i)
    (action : ActionRequest)
    (hno : (tankAt g i).turnsToBackwards_ = 0 →
      isValidAction s (tankAt s i) ActionRequest.MoveBackward = false) :
    OnlyCooled s (performBackwards g action i).1 i := by
  have h3 := h.cooled
  have hlen3 : i < (modifyTank g i TankInfo.decreaseTurnsToShoot).tanks_.length :=
    (tankAt_modifyTank_lt g i _ h.len).2
  have e3 := (tankAt_modifyTank_lt g i TankInfo.decreaseTurnsToShoot h.len).1
  unfold performBackwards
  simp only
  by_cases ha : action = ActionRequest.MoveForward
  · rw [if_pos ha]
    exact (h3.still_after hlen3 TankInfo.switchBackwardsFlag (fun _ => rfl) (fun _ => rfl)
      (fun _ => rfl) (fun _ => rfl)).still_after (by simpa using hlen3)
      TankInfo.restartTurnsToBackwards (fun _ => rfl) (fun _ => rfl) (fun _ => rfl)
      (fun _ => rfl)
  · rw [if_neg ha]
    by_cases ht : (tankAt (modifyTank g i TankInfo.decreaseTurnsToShoot) i).turnsToBackwards_ = 0
    · rw [if_pos ht]
      have ht0 : (tankAt g i).turnsToBackwards_ = 0 := by rw [e3] at ht; exact ht
      have hv : isValidAction (modifyTank g i TankInfo.decreaseTurnsToShoot)
          (tankAt (modifyTank g i TankInfo.decreaseTurnsToShoot) i)
          ActionRequest.MoveBackward = false := by
        have := isValidMove_kept h TankInfo.decreaseTurnsToShoot (fun _ => rfl) (fun _ => rfl)
          ActionRequest.MoveBackward
        have h0 := hno ht0
        simp only [isValidAction] at h0 ⊢
        rw [this]; exact h0
      rw [hv]
      simp only [Bool.false_eq_true, if_false]
      exact (h3.still_after hlen3 TankInfo.restartTurnsToBackwards (fun _ => rfl) (fun _ => rfl)
        (fun _ => rfl) (fun _ => rfl)).still_after (by simpa using hlen3)
        TankInfo.switchBackwardsFlag (fun _ => rfl) (fun _ => rfl) (fun _ => rfl)
        (fun _ => rfl)
    · rw [if_neg ht]
      exact h3.still_after hlen3 TankInfo.decreaseTurnsToBackwards (fun _ => rfl) (fun _ => rfl)
        (fun _ => rfl) (fun _ => rfl)

/-- The part of `performAction` after the bookkeeping of lines 340-346, for an invalid
action of a tank whose pending backward move, if any, is not executed now. -/
theorem tail_onlyCooled {s g : GM} {i : Nat} (hK : Kept s g i) (action : ActionRequest)
    (hflag : (tankAt g i).backwardsFlag_ = (tankAt s i).backwardsFlag_)
    (htimer : (tankAt g i).turnsToBackwards_ = (tankAt s i).turnsToBackwards_)
    (hinv : isValidAction s (tankAt s i) action = false)
    (hdue : ¬ ((tankAt s i).backwardsFlag_ = true ∧ (tankAt s i).turnsToBackwards_ = 0 ∧
      isValidAction s (tankAt s i) ActionRequest.MoveBackward = true)) :
    OnlyCooled s
      (if (tankAt g i).backwardsFlag_ = true then performBackwards g action i
        else if ¬ isValidAction g (tankAt g i) action then
          (modifyTank g i TankInfo.decreaseTurnsToShoot, false)
        else (performValid g action i, true)).1 i := by
  by_cases hb : (tankAt g i).backwardsFlag_ = true
  · rw [if_pos hb]
    refine performBackwards_onlyCooled hK action (fun ht => ?_)
    cases hv : isValidAction s (tankAt s i) ActionRequest.MoveBackward with
    | false => rfl
    | true => exact absurd ⟨hflag ▸ hb, htimer ▸ ht, hv⟩ hdue
  · rw [if_neg hb, isValidAction_kept hK action, hinv]
    simp only [Bool.false_eq_true, not_false_eq_true, if_true]
    exact hK.cooled

/-- C8, amended.  Tank `i` is asked for an action that `isValidAction` rejects; it is not
due to execute a pending backward move in this call (its backwards flag is off, or its
wait has not elapsed, or the cell behind it is a wall); and the call is not a
`MoveBackward` that directly follows an executed backward move.  Then `performAction`
leaves the board, the shell list and the position, facing and ammo of the tank unchanged
and lowers its shoot cooldown by one, not below 0. -/
theorem invalid_action_only_cools (s : GM) (action : ActionRequest) (i : Nat)
    (hi : i < s.tanks_.length)
    (hinv : isValidAction s (tankAt s i) action = false)
    (hdue : ¬ ((tankAt s i).backwardsFlag_ = true ∧ (tankAt s i).turnsToBackwards_ = 0 ∧
      isValidAction s (tankAt s i) ActionRequest.MoveBackward = true))
    (hfast : ¬ ((tankAt s i).justMovedBackwards_ = true ∧
      action = ActionRequest.MoveBackward)) :
    (performAction s action i).1.gameboard_ = s.gameboard_ ∧
    (performAction s action i).1.shells_ = s.shells_ ∧
    (tankAt (performAction s action i).1 i).location_ = (tankAt s i).location_ ∧
    (tankAt (performAction s action i).1 i).dir_ = (tankAt s i).dir_ ∧
    (tankAt (performAction s action i).1 i).ammo_ = (tankAt s i).ammo_ ∧
    (tankAt (performAction s action i).1 i).turnsToShoot_ =
      (if (tankAt s i).turnsToShoot_ > 0 then (tankAt s i).turnsToShoot_ - 1 else 0) := by
  show OnlyCooled s (performAction s action i).1 i
  unfold performAction
  rw [if_neg hfast]
  simp only
  by_cases hm : action = ActionRequest.MoveBackward
  · subst hm
    have hj : (tankAt s i).justMovedBackwards_ = false := by
      cases h : (tankAt s i).justMovedBackwards_ with
      | false => rfl
      | true => exact absurd ⟨h, rfl⟩ hfast
    by_cases hb : (tankAt s i).backwardsFlag_ = true
    · have e : backwardsRequest s ActionRequest.MoveBackward i = s := by
        unfold backwardsRequest
        simp [hj, hb]
      rw [e]
      exact tail_onlyCooled (Kept.of_same s i hi) _ rfl rfl hinv hdue
    · have hb0 : (tankAt s i).backwardsFlag_ = false := by simpa using hb
      have e : backwardsRequest s ActionRequest.MoveBackward i =
          modifyTank s i TankInfo.switchBackwardsFlag := by
        unfold backwardsRequest
        simp [hj, hb0]
      rw [e]
      have hK : Kept s (modifyTank s i TankInfo.switchBackwardsFlag) i :=
        (Kept.of_same s i hi).after_member TankInfo.switchBackwardsFlag (fun _ => rfl) (fun _ => rfl)
          (fun _ => rfl) (fun _ => rfl)
      have et := (tankAt_modifyTank_lt s i TankInfo.switchBackwardsFlag hi).1
      have hf : (tankAt (modifyTank s i TankInfo.switchBackwardsFlag) i).backwardsFlag_ =
          true := by
        rw [et]
        show (!(tankAt s i).backwardsFlag_) = true
        rw [hb0]; rfl
      rw [if_pos hf]
      exact performBackwards_onlyCooled hK _ (fun _ => hinv)
  · have e : backwardsRequest s action i =
        if (tankAt s i).justMovedBackwards_ = true then
          modifyTank s i TankInfo.switchJustMovedBackwardsFlag
        else s := by
      unfold backwardsRequest
      simp [hm]
    rw [e]
    by_cases hj : (tankAt s i).justMovedBackwards_ = true
    · rw [if_pos hj]
      have et := (tankAt_modifyTank_lt s i TankInfo.switchJustMovedBackwardsFlag hi).1
      exact tail_onlyCooled
        ((Kept.of_same s i hi).after_member TankInfo.switchJustMovedBackwardsFlag (fun _ => rfl)
          (fun _ => rfl) (fun _ => rfl) (fun _ => rfl)) action
        (by rw [et]; rfl) (by rw [et]; rfl) hinv hdue
    · rw [if_neg hj]
      exact tail_onlyCooled (Kept.of_same s i hi) action rfl rfl hinv hdue

/-- C8 at a concrete call: on `crowdMap` tank 2 at `(1, 1)` faces left with the wall
`(2, 1)` behind it, and is asked to move backward. -/
theorem invalid_action_only_cools_witness :
    (2 < crowdStart.tanks_.length ∧
      isValidAction crowdStart (tankAt crowdStart 2) ActionRequest.MoveBackward = false ∧
      ¬ ((tankAt crowdStart 2).backwardsFlag_ = true ∧
        (tankAt crowdStart 2).turnsToBackwards_ = 0 ∧
        isValidAction crowdStart (tankAt crowdStart 2) ActionRequest.MoveBackward = true) ∧
      ¬ ((tankAt crowdStart 2).justMovedBackwards_ = true ∧
        ActionRequest.MoveBackward = ActionRequest.MoveBackward)) ∧
    (performAction crowdStart ActionRequest.MoveBackward 2).1.gameboard_ =
      crowdStart.gameboard_ ∧
    (performAction crowdStart ActionRequest.MoveBackward 2).1.shells_ = crowdStart.shells_ ∧
    (tankAt (performAction crowdStart ActionRequest.MoveBackward 2).1 2).location_ =
      (tankAt crowdStart 2).location_ ∧
    (tankAt (performAction crowdStart ActionRequest.MoveBackward 2).1 2).dir_ =
      (tankAt crowdStart 2).dir_ ∧
    (tankAt (performAction crowdStart ActionRequest.MoveBackward 2).1 2).ammo_ =
      (tankAt crowdStart 2).ammo_ ∧
    (tankAt (performAction crowdStart ActionRequest.MoveBackward 2).1 2).turnsToShoot_ =
      (if (tankAt crowdStart 2).turnsToShoot_ > 0 then
        (tankAt crowdStart 2).turnsToShoot_ - 1 else 0) :=
  ⟨⟨by decide!, by decide!, by decide!, by decide!⟩,
    invalid_action_only_cools crowdStart ActionRequest.MoveBackward 2 (by decide!)
      (by decide!) (by decide!) (by decide!)⟩

/-- C8 as stated fails at `backingState`: tank 0 is alive at `(0, 0)` without ammo, so
that `Shoot` is invalid, and its backward move is due; `performAction` with `Shoot` moves
it to `(1, 0)` and redraws the board. -/
theorem invalid_shoot_runs_pending_backward_move :
    (tankAt backingState 0).turnsDead_ = 0 ∧
    isValidAction backingState (tankAt backingState 0) ActionRequest.Shoot = false ∧
    (tankAt backingState 0).location_ = (0, 0) ∧
    (tankAt (performAction backingState ActionRequest.Shoot 0).1 0).location_ = (1, 0) ∧
    backingState.gameboard_ = [['1', ' ', '2']] ∧
    (performAction backingState ActionRequest.Shoot 0).1.gameboard_ = [[' ', '1', '2']] ∧
    (performAction backingState ActionRequest.Shoot 0).1.gameboard_ ≠
      backingState.gameboard_ := by
  decide!

theorem moveTank_forward_eq (s : GM) (i : Nat) (x y nx ny : Int)
    (hloc : (tankAt s i).location_ = (x, y))
    (hn : nextLocation s x y (tankAt s i).dir_ false = (nx, ny))
    (hne : ¬ (nx = x ∧ ny = y)) :
    moveTank s i ActionRequest.MoveForward =
      handleTankCollisionAt (setBoard s x y ' ') i x y nx ny (tankAt s i).dir_
        (cellAt s.gameboard_ nx ny) := by
  have hn1 : nextLocation (setBoard s x y ' ') x y (tankAt s i).dir_ false = (nx, ny) := hn
  unfold moveTank
  simp only [hloc, reduceCtorEq, if_false, hn1, setBoard_board]
  rw [cellAt_setCell_ne _ _ _ _ _ _ hne]

theorem handleTankCollisionAt_board_ne (g : GM) (i : Nat) (ox oy nx ny : Int) (d : Direction)
    (c : Char) (x1 y1 : Int) (h : ¬ (x1 = nx ∧ y1 = ny)) :
    cellAt (handleTankCollisionAt g i ox oy nx ny d c).gameboard_ x1 y1 =
      cellAt g.gameboard_ x1 y1 := by
  unfold handleTankCollisionAt
  simp only
  repeat (first
    | rfl
    | (simp only [modifyTank_board, setBoard_board, destroyTank_board, deleteShell_board];
       exact cellAt_setCell_ne _ _ _ _ _ _ h)
    | split)

theorem onBoard_nonneg (b : Board) (x y : Int) (h : cellAt b x y ≠ NUL) : 0 ≤ x ∧ 0 ≤ y := by
  by_contra hc
  exact h (cellAt_neg b x y (by omega))

/-- C10, amended.  Tank `i` is alive at `(x, y)`, a cell of the board, and is the first
tank of the tank list located there; the cell ahead of it across the torus is `(nx, ny)`,
a cell other than its own.  Then `moveTank` with `MoveForward` blanks `(x, y)`, and by
the character that `(nx, ny)` shows before the move: on a blank the tank is placed on
`(nx, ny)`, which shows the digit of its player; on a mine the tank is killed and the cell
blanked; on a shell mark, with `j` the first shell listed on the cell, the tank is killed,
shell `j` erased and the cell blanked when the tank moves against the direction of the
shell, and otherwise the tank is placed on the cell, which shows `a` or `b`; on a tank
digit the tank and the first tank listed on `(nx, ny)` are both killed and the cell is
blanked. -/
theorem move_time_table (s : GM) (i : Nat) (x y nx ny : Int) (hI : Inv s)
    (hi : i < s.tanks_.length) (halive : (tankAt s i).turnsDead_ = 0)
    (hloc : (tankAt s i).location_ = (x, y)) (hon : cellAt s.gameboard_ x y ≠ NUL)
    (hfirst : getTankIndexAt s x y = some i)
    (hn : nextLocation s x y (tankAt s i).dir_ false = (nx, ny))
    (hne : ¬ (nx = x ∧ ny = y)) :
    cellAt (moveTank s i ActionRequest.MoveForward).gameboard_ x y = ' ' ∧
    (cellAt s.gameboard_ nx ny = ' ' →
      (tankAt (moveTank s i ActionRequest.MoveForward) i).location_ = (nx, ny) ∧
      (tankAt (moveTank s i ActionRequest.MoveForward) i).turnsDead_ = 0 ∧
      cellAt (moveTank s i ActionRequest.MoveForward).gameboard_ nx ny =
        (if (tankAt s i).playerId_ = 1 then '1' else '2')) ∧
    (cellAt s.gameboard_ nx ny = '@' →
      (tankAt (moveTank s i ActionRequest.MoveForward) i).turnsDead_ = 1 ∧
      (tankAt (moveTank s i ActionRequest.MoveForward) i).location_ = (-1, -1) ∧
      cellAt (moveTank s i ActionRequest.MoveForward).gameboard_ nx ny = ' ') ∧
    (cellAt s.gameboard_ nx ny = '*' → ∀ j, getShellAt s nx ny = some j →
      ((tankAt s i).dir_.toNat = ((shellAt s j).direction_.toNat + 4) % 8 →
        (tankAt (moveTank s i ActionRequest.MoveForward) i).turnsDead_ = 1 ∧
        (tankAt (moveTank s i ActionRequest.MoveForward) i).location_ = (-1, -1) ∧
        (moveTank s i ActionRequest.MoveForward).shells_ = s.shells_.eraseIdx j ∧
        cellAt (moveTank s i ActionRequest.MoveForward).gameboard_ nx ny = ' ') ∧
      ((tankAt s i).dir_.toNat ≠ ((shellAt s j).direction_.toNat + 4) % 8 →
        (tankAt (moveTank s i ActionRequest.MoveForward) i).location_ = (nx, ny) ∧
        (tankAt (moveTank s i ActionRequest.MoveForward) i).turnsDead_ = 0 ∧
        (moveTank s i ActionRequest.MoveForward).shells_ = s.shells_ ∧
        cellAt (moveTank s i ActionRequest.MoveForward).gameboard_ nx ny =
          (if (tankAt s i).playerId_ = 1 then 'a' else 'b'))) ∧
    (cellAt s.gameboard_ nx ny = '1' ∨ cellAt s.gameboard_ nx ny = '2' →
      ∃ o, getTankIndexAt s nx ny = some o ∧ o ≠ i ∧
        (tankAt s o).location_ = (nx, ny) ∧ (tankAt s o).turnsDead_ = 0 ∧
        (tankAt (moveTank s i ActionRequest.MoveForward) i).turnsDead_ = 1 ∧
        (tankAt (moveTank s i ActionRequest.MoveForward) i).location_ = (-1, -1) ∧
        (tankAt (moveTank s i ActionRequest.MoveForward) o).turnsDead_ = 1 ∧
        (tankAt (moveTank s i ActionRequest.MoveForward) o).location_ = (-1, -1) ∧
        cellAt (moveTank s i ActionRequest.MoveForward).gameboard_ nx ny = ' ') := by
  rw [moveTank_forward_eq s i x y nx ny hloc hn hne]
  have hne' : ¬ (x = nx ∧ y = ny) := fun h => hne ⟨h.1.symm, h.2.symm⟩
  have hfirst1 : getTankIndexAt (setBoard s x y ' ') x y = some i := hfirst
  have hi1 : i < (setBoard s x y ' ').tanks_.length := hi
  have ht1 : tankAt (setBoard s x y ' ') i = tankAt s i := rfl
  have hcell1 : cellAt (setBoard s x y ' ').gameboard_ nx ny = cellAt s.gameboard_ nx ny :=
    cellAt_setCell_ne _ _ _ _ _ _ hne
  have hsame : ∀ (g : GM) (c ch : Char), g.gameboard_ = (setBoard s x y ' ').gameboard_ →
      cellAt s.gameboard_ nx ny = ch → ch ≠ NUL →
      cellAt (setBoard g nx ny c).gameboard_ nx ny = c := by
    intro g c ch hg hch hnul
    rw [setBoard_board, hg]
    apply cellAt_setCell_same
    rw [hcell1, hch]
    exact hnul
  have hdig : digitOf (tankAt s i).playerId_ =
      (if (tankAt s i).playerId_ = 1 then '1' else '2') := by
    rcases hI.player i hi with h | h <;> rw [h] <;> decide
  have hmod : ∀ (g : GM) (f : TankInfo → TankInfo), g.tanks_ = s.tanks_ →
      tankAt (modifyTank g i f) i = f (tankAt s i) := by
    intro g f hg
    have e : tankAt g i = tankAt s i := by unfold tankAt; rw [hg]
    rw [tankAt_modifyTank_self g i f (by rw [hg]; exact hi), e]
  have hdes : ∀ (g : GM) (k : Nat), g.tanks_ = s.tanks_ → k < s.tanks_.length →
      tankAt (destroyTank g i) k =
        if i = k then (tankAt s k).increaseTurnsDead else tankAt s k := by
    intro g k hg hk
    have e : tankAt g k = tankAt s k := by unfold tankAt; rw [hg]
    rw [tankAt_destroyTank g i k (by rw [hg]; exact hk), e]
  have hmod2 : ∀ (c : Char) (f : TankInfo → TankInfo),
      tankAt (modifyTank (setBoard (setBoard s x y ' ') nx ny c) i f) i = f (tankAt s i) :=
    fun c f => hmod (setBoard (setBoard s x y ' ') nx ny c) f rfl
  have hkill : (tankAt s i).increaseTurnsDead.turnsDead_ = 1 ∧
      (tankAt s i).increaseTurnsDead.location_ = (-1, -1) := by
    refine ⟨?_, rfl⟩
    show (tankAt s i).turnsDead_ + 1 = 1
    rw [halive]; rfl
  refine ⟨?_, ?_, ?_, ?_, ?_⟩
  · rw [handleTankCollisionAt_board_ne _ _ _ _ _ _ _ _ _ _ hne', setBoard_board]
    exact cellAt_setCell_same _ _ _ _ hon
  · intro hc
    unfold handleTankCollisionAt
    simp only [hc, if_true]
    refine ⟨?_, ?_, ?_⟩
    · rw [hmod2]; rfl
    · rw [hmod2]; exact halive
    · rw [modifyTank_board, ← hdig]
      exact hsame _ _ _ rfl hc (by decide)
  · intro hc
    unfold handleTankCollisionAt
    simp only [hc, hfirst1, Char.reduceEq, if_false, if_true]
    have e : tankAt (setBoard (destroyTank (setBoard s x y ' ') i) nx ny ' ') i =
        (tankAt s i).increaseTurnsDead := by
      have := hdes (setBoard s x y ' ') i rfl hi
      rw [if_pos rfl] at this
      exact this
    refine ⟨?_, ?_, ?_⟩
    · rw [e]; exact hkill.1
    · rw [e]; exact hkill.2
    · exact hsame _ _ _ rfl hc (by decide)
  · intro hc j hj
    have hj1 : getShellAt (setBoard s x y ' ') nx ny = some j := hj
    have hsh : shellAt (setBoard s x y ' ') j = shellAt s j := rfl
    unfold handleTankCollisionAt
    simp only [hc, hfirst1, hj1, hsh, Char.reduceEq, if_false, if_true]
    constructor
    · intro hd
      rw [if_pos hd]
      have e : tankAt (setBoard (deleteShell (destroyTank (setBoard s x y ' ') i) j) nx ny ' ')
          i = (tankAt s i).increaseTurnsDead := by
        have := hdes (setBoard s x y ' ') i rfl hi
        rw [if_pos rfl] at this
        exact this
      refine ⟨?_, ?_, rfl, ?_⟩
      · rw [e]; exact hkill.1
      · rw [e]; exact hkill.2
      · exact hsame _ _ _ rfl hc (by decide)
    · intro hd
      rw [if_neg hd]
      refine ⟨?_, ?_, rfl, ?_⟩
      · rw [hmod2]; rfl
      · rw [hmod2]; exact halive
      · rw [modifyTank_board]
        exact hsame _ _ _ rfl hc (by decide)
  · intro hc
    have hneed : NeedsTank s.gameboard_ s.shells_ nx ny := by
      rcases hc with h | h
      · exact Or.inl h
      · exact Or.inr (Or.inl h)
    obtain ⟨o, ho⟩ := getTankIndexAt_isSome s nx ny (hI.cover nx ny hneed)
    obtain ⟨holt, holoc⟩ := getTankIndexAt_some s nx ny o ho
    have hoi : o ≠ i := by
      rintro rfl
      rw [hloc] at holoc
      exact hne' (by simpa using holoc)
    have hnn : cellAt s.gameboard_ nx ny ≠ NUL := by
      rcases hc with h | h <;> rw [h] <;> decide
    have hoalive : (tankAt s o).turnsDead_ = 0 := by
      by_contra hd
      have := hI.dead_loc o holt hd
      rw [holoc] at this
      have hnx := (onBoard_nonneg _ _ _ hnn).1
      have : nx = -1 := by simpa using congrArg Prod.fst this
      omega
    refine ⟨o, ho, hoi, holoc, hoalive, ?_⟩
    have ho1 : getTankIndexAt (setBoard s x y ' ') nx ny = some o := ho
    have hch : ∃ ch, cellAt s.gameboard_ nx ny = ch ∧ ch ≠ ' ' ∧ ch ≠ '@' ∧ ch ≠ '*' ∧
        ch ≠ NUL := by
      rcases hc with h | h
      · exact ⟨_, h, by decide, by decide, by decide, by decide⟩
      · exact ⟨_, h, by decide, by decide, by decide, by decide⟩
    obtain ⟨ch, hch, h1, h2, h3, h4⟩ := hch
    unfold handleTankCollisionAt
    simp only [hch, h1, h2, h3, hfirst1, ho1, if_false]
    have ei : tankAt (setBoard (destroyTank (destroyTank (setBoard s x y ' ') i) o) nx ny ' ')
        i = (tankAt s i).increaseTurnsDead := by
      have h5 := hdes (setBoard s x y ' ') i rfl hi
      rw [if_pos rfl] at h5
      have h6 := tankAt_destroyTank (destroyTank (setBoard s x y ' ') i) o i
        (by simpa using hi)
      rw [if_neg hoi, h5] at h6
      exact h6
    have eo : tankAt (setBoard (destroyTank (destroyTank (setBoard s x y ' ') i) o) nx ny ' ')
        o = (tankAt s o).increaseTurnsDead := by
      have h5 := hdes (setBoard s x y ' ') o rfl holt
      rw [if_neg (Ne.symm hoi)] at h5
      have h6 := tankAt_destroyTank (destroyTank (setBoard s x y ' ') i) o o
        (by simpa using holt)
      rw [if_pos rfl, h5] at h6
      exact h6
    refine ⟨?_, ?_, ?_, ?_, ?_⟩
    · rw [ei]; exact hkill.1
    · rw [ei]; exact hkill.2
    · rw [eo]
      show (tankAt s o).turnsDead_ + 1 = 1
      rw [hoalive]; rfl
    · rw [eo]; rfl
    · exact hsame _ _ _ rfl hch h4



/-- C10 at a concrete move: in the armed duel tank 0 at `(0, 0)` faces left, so that its
cell ahead across the wrap is `(2, 0)`, where tank 1 stands; both tanks are killed. -/
theorem move_time_table_witness :
    (0 < armedStart.tanks_.length ∧ (tankAt armedStart 0).turnsDead_ = 0 ∧
      (tankAt armedStart 0).location_ = (0, 0) ∧ cellAt armedStart.gameboard_ 0 0 ≠ NUL ∧
      getTankIndexAt armedStart 0 0 = some 0 ∧
      nextLocation armedStart 0 0 (tankAt armedStart 0).dir_ false = (2, 0) ∧
      ¬ ((2 : Int) = 0 ∧ (0 : Int) = 0) ∧ cellAt armedStart.gameboard_ 2 0 = '2') ∧
    cellAt (moveTank armedStart 0 ActionRequest.MoveForward).gameboard_ 0 0 = ' ' ∧
    ∃ o, getTankIndexAt armedStart 2 0 = some o ∧ o ≠ 0 ∧
      (tankAt armedStart o).location_ = (2, 0) ∧ (tankAt armedStart o).turnsDead_ = 0 ∧
      (tankAt (moveTank armedStart 0 ActionRequest.MoveForward) 0).turnsDead_ = 1 ∧
      (tankAt (moveTank armedStart 0 ActionRequest.MoveForward) 0).location_ = (-1, -1) ∧
      (tankAt (moveTank armedStart 0 ActionRequest.MoveForward) o).turnsDead_ = 1 ∧
      (tankAt (moveTank armedStart 0 ActionRequest.MoveForward) o).location_ = (-1, -1) ∧
      cellAt (moveTank armedStart 0 ActionRequest.MoveForward).gameboard_ 2 0 = ' ' :=
  have h := move_time_table armedStart 0 0 0 2 0
    (Inv.startGame_ok 0 Reason.ALL_TANKS_DEAD 0 3 1 duelMap 50 5) (by decide!) (by decide!)
    (by decide!) (by decide!) (by decide!) (by decide!) (by decide)
  ⟨⟨by decide!, by decide!, by decide!, by decide!, by decide!, by decide!, by decide,
      by decide!⟩, h.1, h.2.2.2.2 (Or.inr (by decide!))⟩

/-- C10 as stated fails at `turnedState`: tank 0 is alive at `(0, 0)` on the one-row
board and faces down, so that the cell ahead of it across the wrap is its own cell; its
`MoveForward` is valid, and after it the old cell shows the tank digit, not a blank. -/
theorem forward_move_onto_own_cell_keeps_digit :
    (tankAt turnedState 0).turnsDead_ = 0 ∧
    (tankAt turnedState 0).location_ = (0, 0) ∧
    (tankAt turnedState 0).backwardsFlag_ = false ∧
    nextLocation turnedState 0 0 (tankAt turnedState 0).dir_ false = (0, 0) ∧
    isValidAction turnedState (tankAt turnedState 0) ActionRequest.MoveForward = true ∧
    cellAt (moveTank turnedState 0 ActionRequest.MoveForward).gameboard_ 0 0 = '1' ∧
    cellAt (performAction turnedState ActionRequest.MoveForward 0).1.gameboard_ 0 0 = '1' ∧
    (tankAt (performAction turnedState ActionRequest.MoveForward 0).1 0).location_ = (0, 0) ∧
    (tankAt (performAction turnedState ActionRequest.MoveForward 0).1 0).turnsDead_ = 0 := by
  decide!

/-- A forward move from a shared cell, played from the start of a game on `crowdMap`:
at the start of turn 2 tank 2 stands alive at `(1, 1)` on a cell that the board shows
blank; in turn 2 tank 0 moves onto `(1, 1)` first, and then tank 2 moves forward into
`(0, 1)`, where tank 1 stands.  `handleTankCollisionAt` looks the moving tank up by its
old cell and finds tank 0: tanks 0 and 1 are killed, and the moving tank 2 stays alive at
`(1, 1)`. -/
theorem forward_move_from_shared_cell_kills_first_tank :
    crowdTurnTwo.map (fun s =>
        [(tankAt (slotState s crowdOracle 2) 2).turnsDead_,
          (tankAt (slotState s crowdOracle 2) 2).playerId_,
          (tankAt (slotState s crowdOracle 2) 2).location_.1,
          (tankAt (slotState s crowdOracle 2) 2).location_.2,
          (tankAt (slotState s crowdOracle 2) 0).turnsDead_,
          (tankAt (slotState s crowdOracle 2) 0).location_.1,
          (tankAt (slotState s crowdOracle 2) 0).location_.2,
          (tankAt (slotState s crowdOracle 2) 1).turnsDead_,
          (tankAt (slotState s crowdOracle 2) 1).location_.1,
          (tankAt (slotState s crowdOracle 2) 1).location_.2])
      = some [0, 1, 1, 1, 0, 1, 1, 0, 0, 1] ∧
    crowdTurnTwo.map (fun s =>
        (actionOf (slotState s crowdOracle 2) 2, (tankAt (slotState s crowdOracle 2) 2).dir_,
          cellAt (slotState s crowdOracle 2).gameboard_ 0 1))
      = some (ActionRequest.MoveForward, Direction.L, '2') ∧
    crowdTurnTwo.map (fun s =>
        [isValidAction (slotState s crowdOracle 2) (tankAt (slotState s crowdOracle 2) 2)
            ActionRequest.MoveForward,
          (tankAt (slotState s crowdOracle 2) 2).backwardsFlag_,
          (slotState s crowdOracle 2).ub])
      = some [true, false, false] ∧
    crowdTurnTwo.map (fun s =>
        [(tankAt (performAction (slotState s crowdOracle 2) ActionRequest.MoveForward 2).1
            2).turnsDead_,
          (tankAt (performAction (slotState s crowdOracle 2) ActionRequest.MoveForward 2).1
            2).location_.1,
          (tankAt (performAction (slotState s crowdOracle 2) ActionRequest.MoveForward 2).1
            2).location_.2,
          (tankAt (performAction (slotState s crowdOracle 2) ActionRequest.MoveForward 2).1
            0).turnsDead_,
          (tankAt (performAction (slotState s crowdOracle 2) ActionRequest.MoveForward 2).1
            1).turnsDead_])
      = some [0, 1, 1, 1, 1] ∧
    crowdTurnTwo.map (fun s =>
        (performAction (slotState s crowdOracle 2) ActionRequest.MoveForward 2).1.ub)
      = some false := by
  decide!

theorem modify_twice {α : Type} (f g : α → α) :
    ∀ (l : List α) (n : Nat), (l.modify f n).modify g n = l.modify (fun a => g (f a)) n
  | [], _ => by simp
  | _ :: _, 0 => rfl
  | a :: l, n + 1 => by
    simp only [List.modify_succ_cons]
    rw [modify_twice f g l n]

theorem eraseIdx_modify_same {α : Type} (f : α → α) :
    ∀ (l : List α) (n : Nat), (l.modify f n).eraseIdx n = l.eraseIdx n
  | [], _ => by simp
  | _ :: _, 0 => rfl
  | a :: l, n + 1 => by
    simp only [List.modify_succ_cons, List.eraseIdx_cons_succ]
    rw [eraseIdx_modify_same f l n]

theorem eraseIdx_modify_of_lt {α : Type} (f : α → α) :
    ∀ (l : List α) (n m : Nat), n < m → (l.modify f n).eraseIdx m = (l.eraseIdx m).modify f n
  | [], _, _, _ => by simp
  | _ :: _, _, 0, h => absurd h (Nat.not_lt_zero _)
  | a :: l, 0, m + 1, _ => rfl
  | a :: l, n + 1, m + 1, h => by
    simp only [List.modify_succ_cons, List.eraseIdx_cons_succ]
    rw [eraseIdx_modify_of_lt f l n m (Nat.lt_of_succ_lt_succ h)]

theorem eraseIdx_modify_of_gt {α : Type} (f : α → α) :
    ∀ (l : List α) (n m : Nat), m < n →
      ((l.modify f n).eraseIdx n).eraseIdx m = (l.eraseIdx n).eraseIdx m := by
  intro l n m _
  rw [eraseIdx_modify_same]

theorem modify_congr_at {α : Type} (f g : α → α) (d : α) :
    ∀ (l : List α) (n : Nat), f (l.getD n d) = g (l.getD n d) → l.modify f n = l.modify g n
  | [], _, _ => by simp
  | a :: l, 0, h => by
    simp only [List.getD_cons_zero] at h
    show f a :: l = g a :: l
    rw [h]
  | a :: l, n + 1, h => by
    simp only [List.getD_cons_succ] at h
    simp only [List.modify_succ_cons]
    rw [modify_congr_at f g d l n h]

theorem modify_id_at {α : Type} (f : α → α) (d : α) (l : List α) (n : Nat)
    (h : f (l.getD n d) = l.getD n d) : l.modify f n = l := by
  have := modify_congr_at f id d l n h
  rw [this]
  exact List.modify_id n l

theorem firstIdx_modify {α : Type} (p : α → Bool) (f : α → α) (hf : ∀ a, p (f a) = p a) :
    ∀ (l : List α) (n : Nat), firstIdx p (l.modify f n) = firstIdx p l
  | [], _ => by simp
  | a :: l, 0 => by
    show firstIdx p (f a :: l) = firstIdx p (a :: l)
    simp only [firstIdx, hf]
  | a :: l, n + 1 => by
    rw [List.modify_succ_cons]
    simp only [firstIdx]
    rw [firstIdx_modify p f hf l n]

theorem onBoard_setCell (b : Board) (x y x1 y1 : Int) (c : Char) (hc : c ≠ NUL)
    (h : cellAt b x1 y1 ≠ NUL) : cellAt (setCell b x y c) x1 y1 ≠ NUL := by
  by_cases hxy : x1 = x ∧ y1 = y
  · obtain ⟨rfl, rfl⟩ := hxy
    rw [cellAt_setCell_same b x1 y1 c h]
    exact hc
  · rw [cellAt_setCell_ne b x y x1 y1 c hxy]
    exact h

theorem clearPreviousShellPosition_shells (s : GM) (it : Nat) :
    (clearPreviousShellPosition s it).shells_ =
      s.shells_.modify (fun sh => { sh with aboveMine_ := false }) it := by
  unfold clearPreviousShellPosition
  simp only
  by_cases h1 : (shellAt s it).aboveMine_ = true
  · rw [if_pos h1]
    rfl
  · rw [if_neg h1]
    have h0 : (shellAt s it).aboveMine_ = false := by simpa using h1
    have hid : s.shells_.modify (fun sh => { sh with aboveMine_ := false }) it = s.shells_ := by
      apply modify_id_at _ default
      have : s.shells_.getD it default = shellAt s it := rfl
      rw [this]
      cases hsh : shellAt s it with
      | mk l d a =>
        rw [hsh] at h0
        simp only at h0
        simp only [h0]
    rw [hid]
    split_ifs <;> rfl

theorem clearPreviousShellPosition_onBoard (s : GM) (it : Nat) (x y : Int)
    (h : cellAt s.gameboard_ x y ≠ NUL) :
    cellAt (clearPreviousShellPosition s it).gameboard_ x y ≠ NUL := by
  unfold clearPreviousShellPosition
  simp only
  split_ifs
  · exact onBoard_setCell _ _ _ _ _ _ (by decide) h
  · exact onBoard_setCell _ _ _ _ _ _ (by decide) h
  · exact onBoard_setCell _ _ _ _ _ _ (by decide) h
  · exact onBoard_setCell _ _ _ _ _ _ (by decide) h
  · exact onBoard_setCell _ _ _ _ _ _ (by decide) h
  · exact h

theorem clearPreviousShellPosition_getShellAt (s : GM) (it : Nat) (x y : Int) :
    getShellAt (clearPreviousShellPosition s it) x y = getShellAt s x y := by
  unfold getShellAt
  rw [clearPreviousShellPosition_shells]
  exact firstIdx_modify (fun sh => decide (sh.location_ = (x, y)))
    (fun sh => { sh with aboveMine_ := false }) (by intro a; rfl) s.shells_ it

theorem clearPreviousShellPosition_getTankIndexAt (s : GM) (it : Nat) (x y : Int) :
    getTankIndexAt (clearPreviousShellPosition s it) x y = getTankIndexAt s x y := by
  unfold getTankIndexAt
  rw [clearPreviousShellPosition_tanks]

theorem moveShellsStep_of_not_spawn (s : GM) (it : Nat) (nx ny : Int)
    (hsp : (handleShellSpawnOnTank s it).2.2 = false)
    (hn : nextLocation s (shellAt s it).location_.1 (shellAt s it).location_.2
      (shellAt s it).direction_ false = (nx, ny)) :
    (moveShellsStep s it).1 =
      if cellAt s.gameboard_ nx ny = '*' then
        (handleShellCollision (clearPreviousShellPosition s it) it nx ny
          (shellAt s it).direction_).1
      else
        (handleShellMoveToNextCell (clearPreviousShellPosition s it) it nx ny
          (cellAt s.gameboard_ nx ny)).1 := by
  unfold moveShellsStep
  simp only [hsp, hn, Bool.false_eq_true, if_false]
  split_ifs <;> rfl

/-- C11.  One iteration of `moveShells` for the shell at iterator `it`, when the shell
was not fired onto a tank that is still on its cell (`handleShellSpawnOnTank` returns
false) and the cell ahead of it across the torus is `(nx, ny)`.  By the character that
`(nx, ny)` shows: a wall becomes a weakened wall and a weakened wall a blank, the shell
erased; on a tank digit the first tank listed on the cell is killed, the cell blanked and
the shell erased; on a mine the shell is placed on the cell with `aboveMine_` set and the
cell shows a shell mark; on a blank the shell is placed on the cell, which shows a shell
mark; on a shell mark, with `other` the first shell listed on the cell, both shells are
erased and the cell blanked when the directions differ by 4 modulo 8, and otherwise the
cell shows `^`, the shell is placed on it and no shell is erased. -/
theorem shell_time_table (s : GM) (it : Nat) (nx ny : Int) (hI : Inv s)
    (hsp : (handleShellSpawnOnTank s it).2.2 = false)
    (hn : nextLocation s (shellAt s it).location_.1 (shellAt s it).location_.2
      (shellAt s it).direction_ false = (nx, ny)) :
    (cellAt s.gameboard_ nx ny = '#' →
      cellAt (moveShellsStep s it).1.gameboard_ nx ny = '$' ∧
      (moveShellsStep s it).1.shells_ = s.shells_.eraseIdx it) ∧
    (cellAt s.gameboard_ nx ny = '$' →
      cellAt (moveShellsStep s it).1.gameboard_ nx ny = ' ' ∧
      (moveShellsStep s it).1.shells_ = s.shells_.eraseIdx it) ∧
    (cellAt s.gameboard_ nx ny = '1' ∨ cellAt s.gameboard_ nx ny = '2' →
      ∃ k, getTankIndexAt s nx ny = some k ∧ (tankAt s k).turnsDead_ = 0 ∧
        (tankAt (moveShellsStep s it).1 k).turnsDead_ = 1 ∧
        (tankAt (moveShellsStep s it).1 k).location_ = (-1, -1) ∧
        cellAt (moveShellsStep s it).1.gameboard_ nx ny = ' ' ∧
        (moveShellsStep s it).1.shells_ = s.shells_.eraseIdx it) ∧
    (cellAt s.gameboard_ nx ny = '@' →
      cellAt (moveShellsStep s it).1.gameboard_ nx ny = '*' ∧
      (moveShellsStep s it).1.shells_ = s.shells_.modify
        (fun sh => { location_ := (nx, ny), direction_ := sh.direction_, aboveMine_ := true })
        it) ∧
    (cellAt s.gameboard_ nx ny = ' ' →
      cellAt (moveShellsStep s it).1.gameboard_ nx ny = '*' ∧
      (moveShellsStep s it).1.shells_ = s.shells_.modify
        (fun sh => { location_ := (nx, ny), direction_ := sh.direction_, aboveMine_ := false })
        it) ∧
    (cellAt s.gameboard_ nx ny = '*' → ∀ other, getShellAt s nx ny = some other →
      ((shellAt s it).direction_.toNat = ((shellAt s other).direction_.toNat + 4) % 8 →
        cellAt (moveShellsStep s it).1.gameboard_ nx ny = ' ' ∧
        (moveShellsStep s it).1.shells_ =
          (s.shells_.eraseIdx (max it other)).eraseIdx (min it other)) ∧
      ((shellAt s it).direction_.toNat ≠ ((shellAt s other).direction_.toNat + 4) % 8 →
        cellAt (moveShellsStep s it).1.gameboard_ nx ny = '^' ∧
        (moveShellsStep s it).1.shells_ = s.shells_.modify
          (fun sh => { location_ := (nx, ny), direction_ := sh.direction_,
                       aboveMine_ := false }) it)) := by
  rw [moveShellsStep_of_not_spawn s it nx ny hsp hn]
  have hset : ∀ (g : GM) (c ch : Char),
      g.gameboard_ = (clearPreviousShellPosition s it).gameboard_ →
      cellAt s.gameboard_ nx ny = ch → ch ≠ NUL →
      cellAt (setBoard g nx ny c).gameboard_ nx ny = c := by
    intro g c ch hg hch hnul
    rw [setBoard_board, hg]
    apply cellAt_setCell_same
    apply clearPreviousShellPosition_onBoard
    rw [hch]
    exact hnul
  have hsh := clearPreviousShellPosition_shells s it
  refine ⟨?_, ?_, ?_, ?_, ?_, ?_⟩
  · intro hc
    rw [hc, if_neg (by decide)]
    unfold handleShellMoveToNextCell
    simp only [if_true]
    refine ⟨hset _ _ _ rfl hc (by decide), ?_⟩
    show (clearPreviousShellPosition s it).shells_.eraseIdx it = _
    rw [hsh, eraseIdx_modify_same]
  · intro hc
    rw [hc, if_neg (by decide)]
    unfold handleShellMoveToNextCell
    simp only [Char.reduceEq, if_false, if_true]
    refine ⟨hset _ _ _ rfl hc (by decide), ?_⟩
    show (clearPreviousShellPosition s it).shells_.eraseIdx it = _
    rw [hsh, eraseIdx_modify_same]
  · intro hc
    have hneed : NeedsTank s.gameboard_ s.shells_ nx ny := by
      rcases hc with h | h
      · exact Or.inl h
      · exact Or.inr (Or.inl h)
    obtain ⟨k, hk⟩ := getTankIndexAt_isSome s nx ny (hI.cover nx ny hneed)
    obtain ⟨hklt, hkloc⟩ := getTankIndexAt_some s nx ny k hk
    have hnn : cellAt s.gameboard_ nx ny ≠ NUL := by
      rcases hc with h | h <;> rw [h] <;> decide
    have hkalive : (tankAt s k).turnsDead_ = 0 := by
      by_contra hd
      have h1 := hI.dead_loc k hklt hd
      rw [hkloc] at h1
      have hnx := (onBoard_nonneg _ _ _ hnn).1
      have : nx = -1 := by simpa using congrArg Prod.fst h1
      omega
    have hk1 : getTankIndexAt (clearPreviousShellPosition s it) nx ny = some k := by
      rw [clearPreviousShellPosition_getTankIndexAt]; exact hk
    have hstar : cellAt s.gameboard_ nx ny ≠ '*' := by
      rcases hc with h | h <;> rw [h] <;> decide
    have hres : (handleShellMoveToNextCell (clearPreviousShellPosition s it) it nx ny
        (cellAt s.gameboard_ nx ny)).1 =
        deleteShell (setBoard (destroyTank (clearPreviousShellPosition s it) k) nx ny ' ')
          it := by
      unfold handleShellMoveToNextCell
      rcases hc with h | h <;> simp only [h, hk1, Char.reduceEq, if_false, if_true, or_true,
        true_or]
    rw [if_neg hstar, hres]
    have htk : tankAt (deleteShell (setBoard (destroyTank (clearPreviousShellPosition s it) k)
        nx ny ' ') it) k = (tankAt s k).increaseTurnsDead := by
      have h1 := tankAt_destroyTank (clearPreviousShellPosition s it) k k
        (by rw [clearPreviousShellPosition_tanks]; exact hklt)
      rw [if_pos rfl] at h1
      have h2 : tankAt (clearPreviousShellPosition s it) k = tankAt s k := by
        unfold tankAt
        rw [clearPreviousShellPosition_tanks]
      rw [h2] at h1
      exact h1
    refine ⟨k, hk, hkalive, ?_, ?_, ?_, ?_⟩
    · rw [htk]
      show (tankAt s k).turnsDead_ + 1 = 1
      rw [hkalive]; rfl
    · rw [htk]; rfl
    · rcases hc with h | h
      · exact hset _ _ _ rfl h (by decide)
      · exact hset _ _ _ rfl h (by decide)
    · show (clearPreviousShellPosition s it).shells_.eraseIdx it = _
      rw [hsh, eraseIdx_modify_same]
  · intro hc
    rw [hc, if_neg (by decide)]
    unfold handleShellMoveToNextCell
    simp only [Char.reduceEq, if_false, if_true, false_or]
    refine ⟨?_, ?_⟩
    · exact hset (modifyShell (clearPreviousShellPosition s it) it
        (fun sh => { sh with location_ := (nx, ny) })) _ _ rfl hc (by decide)
    · show (((clearPreviousShellPosition s it).shells_.modify
        (fun sh => { sh with location_ := (nx, ny) }) it).modify
        (fun sh => { sh with aboveMine_ := true }) it) = _
      rw [hsh, modify_twice, modify_twice]
  · intro hc
    rw [hc, if_neg (by decide)]
    unfold handleShellMoveToNextCell
    simp only [Char.reduceEq, if_false, if_true, false_or]
    refine ⟨?_, ?_⟩
    · exact hset (modifyShell (clearPreviousShellPosition s it) it
        (fun sh => { sh with location_ := (nx, ny) })) _ _ rfl hc (by decide)
    · show ((clearPreviousShellPosition s it).shells_.modify
        (fun sh => { sh with location_ := (nx, ny) }) it) = _
      rw [hsh, modify_twice]
  · intro hc other ho
    have ho1 : getShellAt (clearPreviousShellPosition s it) nx ny = some other := by
      rw [clearPreviousShellPosition_getShellAt]; exact ho
    have hdir : (shellAt (clearPreviousShellPosition s it) other).direction_ =
        (shellAt s other).direction_ := by
      unfold shellAt
      rw [hsh]
      simp only [List.getD_eq_getElem?_getD, List.getElem?_modify]
      cases s.shells_[other]? with
      | none => rfl
      | some a => by_cases h : it = other <;> simp [h]
    rw [if_pos hc]
    unfold handleShellCollision
    simp only [ho1, hdir]
    constructor
    · intro hd
      rw [if_pos hd]
      by_cases hlt : it < other
      · rw [if_pos hlt]
        refine ⟨hset _ _ _ rfl hc (by decide), ?_⟩
        show ((clearPreviousShellPosition s it).shells_.eraseIdx other).eraseIdx it = _
        rw [hsh, eraseIdx_modify_of_lt _ _ _ _ hlt, eraseIdx_modify_same,
          Nat.max_eq_right (Nat.le_of_lt hlt), Nat.min_eq_left (Nat.le_of_lt hlt)]
      · rw [if_neg hlt]
        have hle : other ≤ it := Nat.le_of_not_lt hlt
        refine ⟨hset _ _ _ rfl hc (by decide), ?_⟩
        show ((clearPreviousShellPosition s it).shells_.eraseIdx it).eraseIdx other = _
        rw [hsh, eraseIdx_modify_same, Nat.max_eq_left hle, Nat.min_eq_right hle]
    · intro hd
      rw [if_neg hd]
      refine ⟨?_, ?_⟩
      · exact hset (modifyShell (clearPreviousShellPosition s it) it
          (fun sh => { sh with location_ := (nx, ny) })) _ _ rfl hc (by decide)
      · show ((clearPreviousShellPosition s it).shells_.modify
          (fun sh => { sh with location_ := (nx, ny) }) it) = _
        rw [hsh, modify_twice]

/-- C11 at a concrete substep: on `crowdMap` tank 0 at `(1, 0)` has fired to the left, its
shell lies on `(0, 0)` and the cell ahead of the shell across the wrap, `(2, 0)`, is
blank. -/
theorem shell_time_table_witness :
    (Inv (shoot crowdStart 0) ∧
      (handleShellSpawnOnTank (shoot crowdStart 0) 0).2.2 = false ∧
      nextLocation (shoot crowdStart 0) (shellAt (shoot crowdStart 0) 0).location_.1
        (shellAt (shoot crowdStart 0) 0).location_.2
        (shellAt (shoot crowdStart 0) 0).direction_ false = (2, 0) ∧
      cellAt (shoot crowdStart 0).gameboard_ 2 0 = ' ') ∧
    cellAt (moveShellsStep (shoot crowdStart 0) 0).1.gameboard_ 2 0 = '*' ∧
    (moveShellsStep (shoot crowdStart 0) 0).1.shells_ = (shoot crowdStart 0).shells_.modify
      (fun sh => { location_ := (2, 0), direction_ := sh.direction_, aboveMine_ := false })
      0 :=
  have hI : Inv (shoot crowdStart 0) :=
    (Inv.startGame_ok 0 Reason.ALL_TANKS_DEAD 0 3 3 crowdMap 10 5).shoot_ok 0
  have h := shell_time_table (shoot crowdStart 0) 0 2 0 hI (by decide!) (by decide!)
  ⟨⟨hI, by decide!, by decide!, by decide!⟩, h.2.2.2.2.1 (by decide!)⟩

theorem nextLocation_reverse (s : GM) (x y : Int) (d : Direction) :
    nextLocation s x y (Direction.castNat ((d.toNat + 4) % 8)) false =
      nextLocation s x y d true := by
  cases d <;> simp [nextLocation, directionMap, Direction.castNat, Direction.toNat]

/-- A `MoveBackward` request of a tank that is not moving backwards, with the wait still to
run: the backwards flag is switched on, the cooldown and the wait are decreased. -/
theorem performAction_backward_request (s : GM) (i : Nat) (hi : i < s.tanks_.length)
    (hflag : (tankAt s i).backwardsFlag_ = false)
    (hjmb : (tankAt s i).justMovedBackwards_ = false)
    (htimer : (tankAt s i).turnsToBackwards_ ≠ 0) :
    (performAction s ActionRequest.MoveBackward i).1 =
      modifyTank (modifyTank (modifyTank s i TankInfo.switchBackwardsFlag) i
        TankInfo.decreaseTurnsToShoot) i TankInfo.decreaseTurnsToBackwards := by
  have e1 := (tankAt_modifyTank_lt s i TankInfo.switchBackwardsFlag hi)
  have e2 := (tankAt_modifyTank_lt _ i TankInfo.decreaseTurnsToShoot e1.2)
  unfold performAction
  rw [if_neg (by simp [hjmb])]
  have hreq : backwardsRequest s ActionRequest.MoveBackward i =
      modifyTank s i TankInfo.switchBackwardsFlag := by
    unfold backwardsRequest
    simp [hjmb, hflag]
  simp only [hreq]
  have hf : (tankAt (modifyTank s i TankInfo.switchBackwardsFlag) i).backwardsFlag_ = true := by
    rw [e1.1]
    show (!(tankAt s i).backwardsFlag_) = true
    rw [hflag]; rfl
  rw [if_pos hf]
  unfold performBackwards
  have ht : (tankAt (modifyTank (modifyTank s i TankInfo.switchBackwardsFlag) i
      TankInfo.decreaseTurnsToShoot) i).turnsToBackwards_ ≠ 0 := by
    rw [e2.1, e1.1]; exact htimer
  simp only [reduceCtorEq, if_false, ht]

/-- A `MoveBackward` request of a tank that is moving backwards, with the wait still to
run: the cooldown and the wait are decreased. -/
theorem performAction_backward_wait (s : GM) (i : Nat) (hi : i < s.tanks_.length)
    (hflag : (tankAt s i).backwardsFlag_ = true)
    (hjmb : (tankAt s i).justMovedBackwards_ = false)
    (htimer : (tankAt s i).turnsToBackwards_ ≠ 0) :
    (performAction s ActionRequest.MoveBackward i).1 =
      modifyTank (modifyTank s i TankInfo.decreaseTurnsToShoot) i
        TankInfo.decreaseTurnsToBackwards := by
  have e2 := (tankAt_modifyTank_lt s i TankInfo.decreaseTurnsToShoot hi)
  unfold performAction
  rw [if_neg (by simp [hjmb])]
  have hreq : backwardsRequest s ActionRequest.MoveBackward i = s := by
    unfold backwardsRequest
    simp [hjmb, hflag]
  simp only [hreq]
  rw [if_pos hflag]
  unfold performBackwards
  have ht : (tankAt (modifyTank s i TankInfo.decreaseTurnsToShoot) i).turnsToBackwards_ ≠ 0 := by
    rw [e2.1]; exact htimer
  simp only [reduceCtorEq, if_false, ht]

/-- The cell `(bx, by)` shows a blank once `(x, y)` has been blanked, when it shows a
blank before. -/
theorem blank_after_leaving (b : Board) (x y bx by1 : Int) (h : cellAt b bx by1 = ' ') :
    cellAt (setCell b x y ' ') bx by1 = ' ' := by
  by_cases hxy : bx = x ∧ by1 = y
  · obtain ⟨rfl, rfl⟩ := hxy
    exact cellAt_setCell_same _ _ _ _ (by rw [h]; decide)
  · rw [cellAt_setCell_ne _ _ _ _ _ _ hxy]
    exact h

/-- A backward move into a cell that shows a blank once the tank has left its own. -/
theorem moveTank_backward_blank (s : GM) (i : Nat) (x y bx by1 : Int)
    (hloc : (tankAt s i).location_ = (x, y))
    (hb : nextLocation s x y (tankAt s i).dir_ true = (bx, by1))
    (hc : cellAt (setCell s.gameboard_ x y ' ') bx by1 = ' ') :
    moveTank s i ActionRequest.MoveBackward =
      modifyTank (setBoard (setBoard s x y ' ') bx by1 (digitOf (tankAt s i).playerId_)) i
        (fun t => t.setLocation bx by1) := by
  have hn : nextLocation (setBoard s x y ' ') x y
      (Direction.castNat (((tankAt s i).dir_.toNat + 4) % 8)) false = (bx, by1) := by
    have := nextLocation_reverse s x y (tankAt s i).dir_
    rw [hb] at this
    exact this
  have hc1 : cellAt (setBoard s x y ' ').gameboard_ bx by1 = ' ' := hc
  unfold moveTank
  simp only [hloc, if_true, hn, hc1]
  unfold handleTankCollisionAt
  simp only [if_true]
  rfl

/-- The fast path of `performAction`: a valid `MoveBackward` right after a backward
move. -/
theorem performAction_backward_again (s : GM) (i : Nat)
    (hjmb : (tankAt s i).justMovedBackwards_ = true)
    (hv : isValidAction s (tankAt s i) ActionRequest.MoveBackward = true) :
    (performAction s ActionRequest.MoveBackward i).1 =
      moveTank s i ActionRequest.MoveBackward := by
  unfold performAction
  rw [if_pos ⟨hjmb, rfl⟩, if_pos hv]

/-- A `MoveBackward` request of a tank that is moving backwards and whose wait is over,
with a valid cell behind it: the backward move is executed. -/
theorem performAction_backward_due (s : GM) (i : Nat) (hi : i < s.tanks_.length)
    (hflag : (tankAt s i).backwardsFlag_ = true)
    (hjmb : (tankAt s i).justMovedBackwards_ = false)
    (htimer : (tankAt s i).turnsToBackwards_ = 0)
    (hv : isValidAction s (tankAt s i) ActionRequest.MoveBackward = true) :
    (performAction s ActionRequest.MoveBackward i).1 =
      modifyTank (modifyTank (modifyTank
        (moveTank (modifyTank s i TankInfo.decreaseTurnsToShoot) i ActionRequest.MoveBackward)
        i TankInfo.switchJustMovedBackwardsFlag) i TankInfo.restartTurnsToBackwards) i
        TankInfo.switchBackwardsFlag := by
  have e2 := (tankAt_modifyTank_lt s i TankInfo.decreaseTurnsToShoot hi)
  unfold performAction
  rw [if_neg (by simp [hjmb])]
  have hreq : backwardsRequest s ActionRequest.MoveBackward i = s := by
    unfold backwardsRequest
    simp [hjmb, hflag]
  simp only [hreq]
  rw [if_pos hflag]
  unfold performBackwards
  have ht : (tankAt (modifyTank s i TankInfo.decreaseTurnsToShoot) i).turnsToBackwards_ = 0 := by
    rw [e2.1]; exact htimer
  have hv3 : isValidAction (modifyTank s i TankInfo.decreaseTurnsToShoot)
      (tankAt (modifyTank s i TankInfo.decreaseTurnsToShoot) i)
      ActionRequest.MoveBackward = true := by
    rw [e2.1]
    exact hv
  simp only [reduceCtorEq, if_false, ht, if_true, hv3]

theorem nextLocation_congr (g s : GM) (hw : g.width_ = s.width_) (hh : g.height_ = s.height_)
    (x y : Int) (d : Direction) (b : Bool) :
    nextLocation g x y d b = nextLocation s x y d b := by
  unfold nextLocation
  rw [hw, hh]

theorem backward_request_fields (s : GM) (i : Nat) (hi : i < s.tanks_.length)
    (hflag : (tankAt s i).backwardsFlag_ = false)
    (hjmb : (tankAt s i).justMovedBackwards_ = false)
    (htimer : (tankAt s i).turnsToBackwards_ ≠ 0) :
    (performAction s ActionRequest.MoveBackward i).1.gameboard_ = s.gameboard_ ∧
    (performAction s ActionRequest.MoveBackward i).1.width_ = s.width_ ∧
    (performAction s ActionRequest.MoveBackward i).1.height_ = s.height_ ∧
    i < (performAction s ActionRequest.MoveBackward i).1.tanks_.length ∧
    tankAt (performAction s ActionRequest.MoveBackward i).1 i =
      (tankAt s i).switchBackwardsFlag.decreaseTurnsToShoot.decreaseTurnsToBackwards := by
  rw [performAction_backward_request s i hi hflag hjmb htimer]
  have a1 := tankAt_modifyTank_lt s i TankInfo.switchBackwardsFlag hi
  have a2 := tankAt_modifyTank_lt _ i TankInfo.decreaseTurnsToShoot a1.2
  have a3 := tankAt_modifyTank_lt _ i TankInfo.decreaseTurnsToBackwards a2.2
  rw [a2.1, a1.1] at a3
  exact ⟨rfl, rfl, rfl, a3.2, a3.1⟩

theorem backward_wait_fields (s : GM) (i : Nat) (hi : i < s.tanks_.length)
    (hflag : (tankAt s i).backwardsFlag_ = true)
    (hjmb : (tankAt s i).justMovedBackwards_ = false)
    (htimer : (tankAt s i).turnsToBackwards_ ≠ 0) :
    (performAction s ActionRequest.MoveBackward i).1.gameboard_ = s.gameboard_ ∧
    (performAction s ActionRequest.MoveBackward i).1.width_ = s.width_ ∧
    (performAction s ActionRequest.MoveBackward i).1.height_ = s.height_ ∧
    i < (performAction s ActionRequest.MoveBackward i).1.tanks_.length ∧
    tankAt (performAction s ActionRequest.MoveBackward i).1 i =
      (tankAt s i).decreaseTurnsToShoot.decreaseTurnsToBackwards := by
  rw [performAction_backward_wait s i hi hflag hjmb htimer]
  have a2 := tankAt_modifyTank_lt s i TankInfo.decreaseTurnsToShoot hi
  have a3 := tankAt_modifyTank_lt _ i TankInfo.decreaseTurnsToBackwards a2.2
  rw [a2.1] at a3
  exact ⟨rfl, rfl, rfl, a3.2, a3.1⟩

theorem isValidMove_of_blank (s : GM) (t : TankInfo) (x y bx by1 : Int)
    (hloc : t.location_ = (x, y))
    (hb : nextLocation s x y t.dir_ true = (bx, by1))
    (hc : cellAt s.gameboard_ bx by1 ≠ '#' ∧ cellAt s.gameboard_ bx by1 ≠ '$') :
    isValidAction s t ActionRequest.MoveBackward = true := by
  unfold isValidAction isValidMove
  simp only [hloc, decide_True, hb]
  exact decide_eq_true hc

theorem backward_due_fields (s : GM) (i : Nat) (x y bx by1 : Int) (hi : i < s.tanks_.length)
    (hflag : (tankAt s i).backwardsFlag_ = true)
    (hjmb : (tankAt s i).justMovedBackwards_ = false)
    (htimer : (tankAt s i).turnsToBackwards_ = 0)
    (hloc : (tankAt s i).location_ = (x, y))
    (hb : nextLocation s x y (tankAt s i).dir_ true = (bx, by1))
    (hc : cellAt s.gameboard_ bx by1 = ' ') :
    (performAction s ActionRequest.MoveBackward i).1.gameboard_ =
      setCell (setCell s.gameboard_ x y ' ') bx by1 (digitOf (tankAt s i).playerId_) ∧
    (performAction s ActionRequest.MoveBackward i).1.width_ = s.width_ ∧
    (performAction s ActionRequest.MoveBackward i).1.height_ = s.height_ ∧
    i < (performAction s ActionRequest.MoveBackward i).1.tanks_.length ∧
    tankAt (performAction s ActionRequest.MoveBackward i).1 i =
      (((tankAt s i).decreaseTurnsToShoot.setLocation bx
        by1).switchJustMovedBackwardsFlag.restartTurnsToBackwards).switchBackwardsFlag := by
  have hv := isValidMove_of_blank s (tankAt s i) x y bx by1 hloc hb
    (by rw [hc]; exact ⟨by decide, by decide⟩)
  rw [performAction_backward_due s i hi hflag hjmb htimer hv]
  have a2 := tankAt_modifyTank_lt s i TankInfo.decreaseTurnsToShoot hi
  have hm := moveTank_backward_blank (modifyTank s i TankInfo.decreaseTurnsToShoot) i x y bx by1
    (by rw [a2.1]; exact hloc) (by rw [a2.1]; exact hb)
    (blank_after_leaving s.gameboard_ x y bx by1 hc)
  rw [hm, a2.1]
  have b1 := tankAt_modifyTank_lt
    (setBoard (setBoard (modifyTank s i TankInfo.decreaseTurnsToShoot) x y ' ') bx by1
      (digitOf (tankAt s i).decreaseTurnsToShoot.playerId_)) i
    (fun t => t.setLocation bx by1) a2.2
  have b2 := tankAt_modifyTank_lt _ i TankInfo.switchJustMovedBackwardsFlag b1.2
  have b3 := tankAt_modifyTank_lt _ i TankInfo.restartTurnsToBackwards b2.2
  have b4 := tankAt_modifyTank_lt _ i TankInfo.switchBackwardsFlag b3.2
  rw [b3.1, b2.1, b1.1] at b4
  have e0 : tankAt (setBoard (setBoard (modifyTank s i TankInfo.decreaseTurnsToShoot) x y ' ')
      bx by1 (digitOf (tankAt s i).decreaseTurnsToShoot.playerId_)) i =
      (tankAt s i).decreaseTurnsToShoot := a2.1
  rw [e0] at b4
  exact ⟨rfl, rfl, rfl, b4.2, b4.1⟩

theorem backward_again_fields (s : GM) (i : Nat) (x y bx by1 : Int) (hi : i < s.tanks_.length)
    (hjmb : (tankAt s i).justMovedBackwards_ = true)
    (hloc : (tankAt s i).location_ = (x, y))
    (hb : nextLocation s x y (tankAt s i).dir_ true = (bx, by1))
    (hv : cellAt s.gameboard_ bx by1 ≠ '#' ∧ cellAt s.gameboard_ bx by1 ≠ '$')
    (hc : cellAt (setCell s.gameboard_ x y ' ') bx by1 = ' ') :
    i < (performAction s ActionRequest.MoveBackward i).1.tanks_.length ∧
    tankAt (performAction s ActionRequest.MoveBackward i).1 i =
      (tankAt s i).setLocation bx by1 := by
  rw [performAction_backward_again s i hjmb (isValidMove_of_blank s _ x y bx by1 hloc hb hv),
    moveTank_backward_blank s i x y bx by1 hloc hb hc]
  have b1 := tankAt_modifyTank_lt
    (setBoard (setBoard s x y ' ') bx by1 (digitOf (tankAt s i).playerId_)) i
    (fun t => t.setLocation bx by1) hi
  exact ⟨b1.2, b1.1⟩

/-- C12.  Tank `i` of player 1 or 2 at `(x, y)` has no backward move pending (its backwards
flag is off and its wait stands at 2) and has not just moved backwards; the cell behind
it, `(b1x, b1y)`, and the cell behind that one, `(b2x, b2y)`, show blanks.  It is asked
for `MoveBackward` in four consecutive calls of `performAction`.  After the first and the
second call its position is unchanged and its shoot cooldown has been decreased once and
twice; after the third call it stands on `(b1x, b1y)` with its facing unchanged and
`justMovedBackwards_` set; after the fourth call it stands on `(b2x, b2y)`. -/
theorem backward_protocol (s : GM) (i : Nat) (x y b1x b1y b2x b2y : Int)
    (hi : i < s.tanks_.length)
    (hp : (tankAt s i).playerId_ = 1 ∨ (tankAt s i).playerId_ = 2)
    (hflag : (tankAt s i).backwardsFlag_ = false)
    (htimer : (tankAt s i).turnsToBackwards_ = 2)
    (hjmb : (tankAt s i).justMovedBackwards_ = false)
    (hloc : (tankAt s i).location_ = (x, y))
    (hb1 : nextLocation s x y (tankAt s i).dir_ true = (b1x, b1y))
    (hb2 : nextLocation s b1x b1y (tankAt s i).dir_ true = (b2x, b2y))
    (hc1 : cellAt s.gameboard_ b1x b1y = ' ')
    (hc2 : cellAt s.gameboard_ b2x b2y = ' ') :
    ((tankAt (requestAll i s [ActionRequest.MoveBackward]) i).location_ = (x, y) ∧
      (tankAt (requestAll i s [ActionRequest.MoveBackward]) i).turnsToShoot_ =
        (tankAt s i).decreaseTurnsToShoot.turnsToShoot_) ∧
    ((tankAt (requestAll i s [ActionRequest.MoveBackward, ActionRequest.MoveBackward])
        i).location_ = (x, y) ∧
      (tankAt (requestAll i s [ActionRequest.MoveBackward, ActionRequest.MoveBackward])
        i).turnsToShoot_ =
        (tankAt s i).decreaseTurnsToShoot.decreaseTurnsToShoot.turnsToShoot_) ∧
    ((tankAt (requestAll i s [ActionRequest.MoveBackward, ActionRequest.MoveBackward,
        ActionRequest.MoveBackward]) i).location_ = (b1x, b1y) ∧
      (tankAt (requestAll i s [ActionRequest.MoveBackward, ActionRequest.MoveBackward,
        ActionRequest.MoveBackward]) i).dir_ = (tankAt s i).dir_ ∧
      (tankAt (requestAll i s [ActionRequest.MoveBackward, ActionRequest.MoveBackward,
        ActionRequest.MoveBackward]) i).justMovedBackwards_ = true) ∧
    ((tankAt (requestAll i s [ActionRequest.MoveBackward, ActionRequest.MoveBackward,
        ActionRequest.MoveBackward, ActionRequest.MoveBackward]) i).location_ = (b2x, b2y) ∧
      (tankAt (requestAll i s [ActionRequest.MoveBackward, ActionRequest.MoveBackward,
        ActionRequest.MoveBackward, ActionRequest.MoveBackward]) i).dir_ =
        (tankAt s i).dir_) := by
  have r1 : requestAll i s [ActionRequest.MoveBackward] =
      (performAction s ActionRequest.MoveBackward i).1 := rfl
  have r2 : requestAll i s [ActionRequest.MoveBackward, ActionRequest.MoveBackward] =
      (performAction (performAction s ActionRequest.MoveBackward i).1
        ActionRequest.MoveBackward i).1 := rfl
  have r3 : requestAll i s [ActionRequest.MoveBackward, ActionRequest.MoveBackward,
      ActionRequest.MoveBackward] =
      (performAction (performAction (performAction s ActionRequest.MoveBackward i).1
        ActionRequest.MoveBackward i).1 ActionRequest.MoveBackward i).1 := rfl
  have r4 : requestAll i s [ActionRequest.MoveBackward, ActionRequest.MoveBackward,
      ActionRequest.MoveBackward, ActionRequest.MoveBackward] =
      (performAction (performAction (performAction (performAction s
        ActionRequest.MoveBackward i).1 ActionRequest.MoveBackward i).1
        ActionRequest.MoveBackward i).1 ActionRequest.MoveBackward i).1 := rfl
  rw [r1, r2, r3, r4]
  clear r1 r2 r3 r4
  obtain ⟨A1, A2, A3, A4, A5⟩ := backward_request_fields s i hi hflag hjmb
    (by rw [htimer]; decide)
  generalize (performAction s ActionRequest.MoveBackward i).1 = s1 at *
  have fA : (tankAt s1 i).backwardsFlag_ = true ∧ (tankAt s1 i).justMovedBackwards_ = false ∧
      (tankAt s1 i).turnsToBackwards_ = 1 ∧ (tankAt s1 i).location_ = (x, y) ∧
      (tankAt s1 i).dir_ = (tankAt s i).dir_ ∧
      (tankAt s1 i).playerId_ = (tankAt s i).playerId_ ∧
      (tankAt s1 i).turnsToShoot_ = (tankAt s i).decreaseTurnsToShoot.turnsToShoot_ := by
    rw [A5]
    simp [TankInfo.switchBackwardsFlag, TankInfo.decreaseTurnsToShoot,
      TankInfo.decreaseTurnsToBackwards, hflag, hjmb, htimer, hloc]
  obtain ⟨B1, B2, B3, B4, B5⟩ := backward_wait_fields s1 i A4 fA.1 fA.2.1
    (by rw [fA.2.2.1]; decide)
  generalize (performAction s1 ActionRequest.MoveBackward i).1 = s2 at *
  have fB : (tankAt s2 i).backwardsFlag_ = true ∧ (tankAt s2 i).justMovedBackwards_ = false ∧
      (tankAt s2 i).turnsToBackwards_ = 0 ∧ (tankAt s2 i).location_ = (x, y) ∧
      (tankAt s2 i).dir_ = (tankAt s i).dir_ ∧
      (tankAt s2 i).playerId_ = (tankAt s i).playerId_ ∧
      (tankAt s2 i).turnsToShoot_ =
        (tankAt s i).decreaseTurnsToShoot.decreaseTurnsToShoot.turnsToShoot_ := by
    rw [B5]
    obtain ⟨g1, g2, g3, g4, g5, g6, g7⟩ := fA
    simp [TankInfo.decreaseTurnsToShoot, TankInfo.decreaseTurnsToBackwards, g1, g2, g3, g4,
      g5, g6]
    rw [g7]
    rfl
  have hn2 : ∀ a b d f, nextLocation s2 a b d f = nextLocation s a b d f :=
    nextLocation_congr s2 s (B2.trans A2) (B3.trans A3)
  obtain ⟨C1, C2, C3, C4, C5⟩ := backward_due_fields s2 i x y b1x b1y B4 fB.1 fB.2.1
    fB.2.2.1 fB.2.2.2.1 (by rw [hn2, fB.2.2.2.2.1]; exact hb1) (by rw [B1, A1]; exact hc1)
  generalize (performAction s2 ActionRequest.MoveBackward i).1 = s3 at *
  have hn3 : ∀ a b d f, nextLocation s3 a b d f = nextLocation s a b d f :=
    nextLocation_congr s3 s (C2.trans (B2.trans A2)) (C3.trans (B3.trans A3))
  have fC : (tankAt s3 i).justMovedBackwards_ = true ∧ (tankAt s3 i).location_ = (b1x, b1y) ∧
      (tankAt s3 i).dir_ = (tankAt s i).dir_ := by
    rw [C5]
    obtain ⟨g1, g2, g3, g4, g5, g6, g7⟩ := fB
    simp [TankInfo.decreaseTurnsToShoot, TankInfo.setLocation,
      TankInfo.switchJustMovedBackwardsFlag, TankInfo.restartTurnsToBackwards,
      TankInfo.switchBackwardsFlag, g2, g5]
  have hdigit : digitOf (tankAt s2 i).playerId_ ≠ '#' ∧ digitOf (tankAt s2 i).playerId_ ≠ '$' ∧
      digitOf (tankAt s2 i).playerId_ ≠ NUL := by
    rw [fB.2.2.2.2.2.1]
    rcases hp with h | h <;> rw [h] <;> decide
  have hblank1 : cellAt (setCell s.gameboard_ x y ' ') b1x b1y = ' ' :=
    blank_after_leaving _ _ _ _ _ hc1
  have hblank2 : cellAt (setCell s.gameboard_ x y ' ') b2x b2y = ' ' :=
    blank_after_leaving _ _ _ _ _ hc2
  have hcell3 : (b2x = b1x ∧ b2y = b1y ∧
        cellAt s3.gameboard_ b2x b2y = digitOf (tankAt s2 i).playerId_) ∨
      cellAt s3.gameboard_ b2x b2y = ' ' := by
    rw [C1, B1, A1]
    by_cases hxy : b2x = b1x ∧ b2y = b1y
    · obtain ⟨rfl, rfl⟩ := hxy
      exact Or.inl ⟨rfl, rfl, cellAt_setCell_same _ _ _ _ (by rw [hblank1]; decide)⟩
    · rw [cellAt_setCell_ne _ _ _ _ _ _ hxy]
      exact Or.inr hblank2
  obtain ⟨_, D2⟩ := backward_again_fields s3 i b1x b1y b2x b2y C4 fC.1 fC.2.1
    (by rw [hn3, fC.2.2]; exact hb2)
    (by rcases hcell3 with ⟨_, _, h⟩ | h <;> rw [h]
        · exact ⟨hdigit.1, hdigit.2.1⟩
        · exact ⟨by decide, by decide⟩)
    (by rcases hcell3 with ⟨rfl, rfl, h⟩ | h
        · exact cellAt_setCell_same _ _ _ _ (by rw [h]; exact hdigit.2.2)
        · exact blank_after_leaving _ _ _ _ _ h)
  refine ⟨⟨fA.2.2.2.1, fA.2.2.2.2.2.2⟩, ⟨fB.2.2.2.1, fB.2.2.2.2.2.2⟩,
    ⟨fC.2.1, fC.2.2, fC.1⟩, ⟨?_, ?_⟩⟩
  · rw [D2]; rfl
  · rw [D2]; exact fC.2.2

/-- C12 at a concrete tank: on `crowdMap` tank 0 at `(1, 0)` faces left; behind it lie
`(2, 0)` and, across the wrap, `(0, 0)`, both blank. -/
theorem backward_protocol_witness :
    (0 < crowdStart.tanks_.length ∧
      ((tankAt crowdStart 0).playerId_ = 1 ∨ (tankAt crowdStart 0).playerId_ = 2) ∧
      (tankAt crowdStart 0).backwardsFlag_ = false ∧
      (tankAt crowdStart 0).turnsToBackwards_ = 2 ∧
      (tankAt crowdStart 0).justMovedBackwards_ = false ∧
      (tankAt crowdStart 0).location_ = (1, 0) ∧
      nextLocation crowdStart 1 0 (tankAt crowdStart 0).dir_ true = (2, 0) ∧
      nextLocation crowdStart 2 0 (tankAt crowdStart 0).dir_ true = (0, 0) ∧
      cellAt crowdStart.gameboard_ 2 0 = ' ' ∧ cellAt crowdStart.gameboard_ 0 0 = ' ') ∧
    (tankAt (requestAll 0 crowdStart [ActionRequest.MoveBackward]) 0).location_ = (1, 0) ∧
    (tankAt (requestAll 0 crowdStart [ActionRequest.MoveBackward,
      ActionRequest.MoveBackward]) 0).location_ = (1, 0) ∧
    (tankAt (requestAll 0 crowdStart [ActionRequest.MoveBackward, ActionRequest.MoveBackward,
      ActionRequest.MoveBackward]) 0).location_ = (2, 0) ∧
    (tankAt (requestAll 0 crowdStart [ActionRequest.MoveBackward, ActionRequest.MoveBackward,
      ActionRequest.MoveBackward]) 0).justMovedBackwards_ = true ∧
    (tankAt (requestAll 0 crowdStart [ActionRequest.MoveBackward, ActionRequest.MoveBackward,
      ActionRequest.MoveBackward, ActionRequest.MoveBackward]) 0).location_ = (0, 0) :=
  have h := backward_protocol crowdStart 0 1 0 2 0 0 0 (by decide!) (by decide!) (by decide!)
    (by decide!) (by decide!) (by decide!) (by decide!) (by decide!) (by decide!) (by decide!)
  ⟨⟨by decide!, by decide!, by decide!, by decide!, by decide!, by decide!, by decide!,
      by decide!, by decide!, by decide!⟩,
    h.1.1, h.2.1.1, h.2.2.1.1, h.2.2.1.2.2, h.2.2.2.1⟩

/-- What `handleTankCollisionAt` needs of a relation: closure under kills, and under
`setLocation` for the moving tank. -/
theorem rel_collision_of_loc {R : Nat → TankInfo → TankInfo → Prop} {i : Nat}
    (hK : KillClosed R) (hloc : ∀ t x y, R i t (t.setLocation x y))
    {l : List TankInfo} {s : GM} (h : TanksRel R l s.tanks_)
    (old_x old_y new_x new_y : Int) (dir : Direction) (next_cell : Char) :
    TanksRel R l (handleTankCollisionAt s i old_x old_y new_x new_y dir next_cell).tanks_ := by
  unfold handleTankCollisionAt
  simp only
  by_cases h1 : next_cell = ' '
  · rw [if_pos h1]
    exact TanksRel.modifyTank hK (s := setBoard s _ _ _) h i _ (fun t => hloc t _ _)
  rw [if_neg h1]
  by_cases h2 : next_cell = '@'
  · rw [if_pos h2]
    cases getTankIndexAt s old_x old_y with
    | none => exact h
    | some k => exact TanksRel.destroyTank hK h k
  rw [if_neg h2]
  by_cases h3 : next_cell = '*'
  · rw [if_pos h3]
    cases getShellAt s new_x new_y with
    | none => exact h
    | some j =>
      simp only
      by_cases h4 : dir.toNat = ((shellAt s j).direction_.toNat + 4) % 8
      · rw [if_pos h4]
        cases getTankIndexAt s old_x old_y with
        | none => exact h
        | some k => exact TanksRel.destroyTank hK h k
      · rw [if_neg h4]
        exact TanksRel.modifyTank hK (s := setBoard s _ _ _) h i _ (fun t => hloc t _ _)
  rw [if_neg h3]
  cases getTankIndexAt s old_x old_y with
  | none => exact h
  | some k =>
    cases getTankIndexAt s new_x new_y with
    | none => exact TanksRel.destroyTank hK h k
    | some o => exact TanksRel.destroyTank hK (TanksRel.destroyTank hK h k) o

theorem fieldKept_kill {β : Type} (φ : TankInfo → β)
    (hkill : ∀ t, φ t.increaseTurnsDead = φ t) :
    KillClosed (fun _ t t' => φ t' = φ t) :=
  { refl := fun _ _ => rfl
    trans := fun _ _ _ _ h1 h2 => h2.trans h1
    incr := fun _ t => hkill t }

theorem moveTank_field {β : Type} (φ : TankInfo → β)
    (hloc : ∀ t x y, φ (t.setLocation x y) = φ t) (hkill : ∀ t, φ t.increaseTurnsDead = φ t)
    (g : GM) (i : Nat) (a : ActionRequest) (k : Nat) (hk : k < g.tanks_.length) :
    φ (tankAt (moveTank g i a) k) = φ (tankAt g k) ∧
      (moveTank g i a).tanks_.length = g.tanks_.length := by
  have h : TanksRel (fun _ t t' => φ t' = φ t) g.tanks_ (moveTank g i a).tanks_ := by
    unfold moveTank
    exact rel_collision_of_loc (fieldKept_kill φ hkill) hloc (s := setBoard g _ _ _)
      (TanksRel.rfl' (fieldKept_kill φ hkill) g.tanks_) _ _ _ _ _ _
  exact ⟨h.2 k hk, h.1⟩

theorem moveTank_shells (g : GM) (i : Nat) (a : ActionRequest) :
    (moveTank g i a).shells_.Sublist g.shells_ := by
  unfold moveTank handleTankCollisionAt
  simp only
  repeat (first
    | exact List.Sublist.refl _
    | exact List.eraseIdx_sublist _ _
    | split)

theorem Gear.start (s : GM) (i : Nat) (hi : i < s.tanks_.length) :
    Gear s s i (tankAt s i).turnsToShoot_ :=
  ⟨hi, rfl, rfl, List.Sublist.refl _⟩

theorem Gear.member {s g : GM} {i : Nat} {c : Int} (h : Gear s g i c) (f : TankInfo → TankInfo)
    (ha : ∀ t, (f t).ammo_ = t.ammo_) (hc : ∀ t, (f t).turnsToShoot_ = t.turnsToShoot_) :
    Gear s (modifyTank g i f) i c := by
  obtain ⟨e, hl⟩ := tankAt_modifyTank_lt g i f h.len
  exact ⟨hl, by rw [e, ha, h.ammo], by rw [e, hc, h.cool], h.shells⟩

theorem Gear.cooled_down {s g : GM} {i : Nat} {c : Int} (h : Gear s g i c) :
    Gear s (modifyTank g i TankInfo.decreaseTurnsToShoot) i (if c > 0 then c - 1 else 0) := by
  obtain ⟨e, hl⟩ := tankAt_modifyTank_lt g i TankInfo.decreaseTurnsToShoot h.len
  refine ⟨hl, by rw [e]; exact h.ammo, ?_, h.shells⟩
  rw [e]
  show (if (tankAt g i).turnsToShoot_ > 0 then (tankAt g i).turnsToShoot_ - 1 else 0) = _
  rw [h.cool]

theorem Gear.moved {s g : GM} {i : Nat} {c : Int} (h : Gear s g i c) (a : ActionRequest) :
    Gear s (moveTank g i a) i c := by
  have h1 := moveTank_field (fun t => (t.ammo_, t.turnsToShoot_)) (fun _ _ _ => rfl)
    (fun _ => rfl) g i a i h.len
  have h2 := congrArg Prod.fst h1.1
  have h3 := congrArg Prod.snd h1.1
  simp only at h2 h3
  exact ⟨by rw [h1.2]; exact h.len, h2.trans h.ammo, h3.trans h.cool,
    (moveTank_shells g i a).trans h.shells⟩

theorem Gear.board {s g : GM} {i : Nat} {c : Int} (h : Gear s g i c) (b : Board) :
    Gear s { g with lastRoundGameboard_ := b } i c :=
  ⟨h.len, h.ammo, h.cool, h.shells⟩

theorem Gear.requested {s g : GM} {i : Nat} {c : Int} (h : Gear s g i c)
    (a : ActionRequest) : Gear s (backwardsRequest g a i) i c := by
  unfold backwardsRequest
  simp only
  split_ifs
  all_goals
    repeat (first
      | exact h
      | refine Gear.member ?_ _ (by intro t; rfl) (by intro t; rfl))

theorem Gear.backwards {s g : GM} {i : Nat} {c : Int} (h : Gear s g i c)
    (a : ActionRequest) :
    Gear s (performBackwards g a i).1 i (if c > 0 then c - 1 else 0) := by
  have h3 := h.cooled_down
  generalize (if c > 0 then c - 1 else 0) = c1 at h3 ⊢
  unfold performBackwards
  simp only
  split_ifs
  all_goals
    repeat (first
      | exact h3
      | refine Gear.member ?_ _ (by intro t; rfl) (by intro t; rfl)
      | refine Gear.moved ?_ _)

theorem Gear.valid {s g : GM} {i : Nat} {c : Int} (h : Gear s g i c)
    (a : ActionRequest) (ha : a ≠ ActionRequest.Shoot) :
    Gear s (performValid g a i) i c ∨
      Gear s (performValid g a i) i (if c > 0 then c - 1 else 0) := by
  unfold performValid
  cases a
  case Shoot => exact absurd rfl ha
  case MoveBackward => exact Or.inl h
  case MoveForward => exact Or.inr (h.moved _).cooled_down
  case DoNothing => exact Or.inr h.cooled_down
  case GetBattleInfo =>
    right
    unfold getBattleInfo
    exact (h.board _).cooled_down
  all_goals
    right
    unfold rotate
    exact (Gear.member h _ (by intro t; rfl) (by intro t; rfl)).cooled_down

/-- Any call of `performAction` other than a valid shot of a tank that is not moving
backwards: no shell is added, the tank keeps its ammo, and its shoot cooldown is kept or
decreased by one step. -/
theorem performAction_gear (s : GM) (a : ActionRequest) (i : Nat) (hi : i < s.tanks_.length)
    (hns : ¬ (a = ActionRequest.Shoot ∧ (tankAt s i).backwardsFlag_ = false ∧
      isValidShoot (tankAt s i) = true)) :
    Gear s (performAction s a i).1 i (tankAt s i).turnsToShoot_ ∨
      Gear s (performAction s a i).1 i
        (if (tankAt s i).turnsToShoot_ > 0 then (tankAt s i).turnsToShoot_ - 1 else 0) := by
  have h0 := Gear.start s i hi
  have h2 := h0.requested a
  have h4 := h2.backwards a
  have h5 := h2.cooled_down
  have h6 : a ≠ ActionRequest.Shoot →
      Gear s (performValid (backwardsRequest s a i) a i) i (tankAt s i).turnsToShoot_ ∨
      Gear s (performValid (backwardsRequest s a i) a i) i
        (if (tankAt s i).turnsToShoot_ > 0 then (tankAt s i).turnsToShoot_ - 1 else 0) :=
    fun hS => h2.valid a hS
  generalize (if (tankAt s i).turnsToShoot_ > 0 then (tankAt s i).turnsToShoot_ - 1 else 0) =
    c1 at h4 h5 h6 ⊢
  unfold performAction
  simp only
  split_ifs with c0 c1 c2 c3
  · exact Or.inl (h0.moved _)
  · exact Or.inl h0
  · exact Or.inr h4
  · by_cases hS : a = ActionRequest.Shoot
    · exfalso
      subst hS
      apply hns
      have hflag : (tankAt (backwardsRequest s ActionRequest.Shoot i) i).backwardsFlag_ =
          (tankAt s i).backwardsFlag_ := by
        unfold backwardsRequest
        simp only [ne_eq, reduceCtorEq, not_false_eq_true, and_true, false_and, if_false]
        split_ifs
        · rw [(tankAt_modifyTank_lt s i _ hi).1]; rfl
        · rfl
      refine ⟨rfl, ?_, ?_⟩
      · rw [← hflag]; simpa using c2
      · have hv : isValidShoot (tankAt (backwardsRequest s ActionRequest.Shoot i) i) = true := by
          simpa [isValidAction] using c3
        unfold isValidShoot at hv ⊢
        rw [h2.ammo, h2.cool] at hv
        exact hv
    · exact h6 hS
  · exact Or.inr h5

theorem Gear.valid_cooled {s g : GM} {i : Nat} {c : Int} (h : Gear s g i c)
    (a : ActionRequest) (ha : a ≠ ActionRequest.Shoot) (hb : a ≠ ActionRequest.MoveBackward) :
    Gear s (performValid g a i) i (if c > 0 then c - 1 else 0) := by
  unfold performValid
  cases a
  case Shoot => exact absurd rfl ha
  case MoveBackward => exact absurd rfl hb
  case MoveForward => exact (h.moved _).cooled_down
  case DoNothing => exact h.cooled_down
  case GetBattleInfo =>
    unfold getBattleInfo
    exact (h.board _).cooled_down
  all_goals
    unfold rotate
    exact (Gear.member h _ (by intro t; rfl) (by intro t; rfl)).cooled_down

theorem flag_modifyTank (g : GM) (i : Nat) (f : TankInfo → TankInfo)
    (hf : ∀ t, (f t).backwardsFlag_ = t.backwardsFlag_) :
    (tankAt (modifyTank g i f) i).backwardsFlag_ = (tankAt g i).backwardsFlag_ := by
  by_cases h : i < g.tanks_.length
  · rw [(tankAt_modifyTank_lt g i f h).1, hf]
  · rw [tankAt_modifyTank_ge g i i f h]

theorem flag_moveTank (g : GM) (i : Nat) (a : ActionRequest) (hi : i < g.tanks_.length) :
    (tankAt (moveTank g i a) i).backwardsFlag_ = (tankAt g i).backwardsFlag_ :=
  (moveTank_field (fun t => t.backwardsFlag_) (fun _ _ _ => rfl) (fun _ => rfl) g i a i hi).1

theorem flag_backwardsRequest (s : GM) (a : ActionRequest) (i : Nat)
    (ha : a ≠ ActionRequest.MoveBackward) :
    (tankAt (backwardsRequest s a i) i).backwardsFlag_ = (tankAt s i).backwardsFlag_ := by
  unfold backwardsRequest
  simp only [ha, false_and, if_false]
  split_ifs
  · exact flag_modifyTank s i _ (fun _ => rfl)
  · rfl

theorem flag_performValid (g : GM) (a : ActionRequest) (i : Nat) (hi : i < g.tanks_.length)
    (ha : a ≠ ActionRequest.Shoot) :
    (tankAt (performValid g a i) i).backwardsFlag_ = (tankAt g i).backwardsFlag_ := by
  have hrot : ∀ d, (tankAt (modifyTank (modifyTank g i (fun t => t.setDirection d)) i
      TankInfo.decreaseTurnsToShoot) i).backwardsFlag_ = (tankAt g i).backwardsFlag_ := by
    intro d
    refine (flag_modifyTank _ i _ (by intro t; rfl)).trans ?_
    exact flag_modifyTank g i _ (by intro t; rfl)
  cases a
  case Shoot => exact absurd rfl ha
  case MoveBackward => rfl
  case MoveForward =>
    show (tankAt (modifyTank (moveTank g i ActionRequest.MoveForward) i
      TankInfo.decreaseTurnsToShoot) i).backwardsFlag_ = _
    refine (flag_modifyTank _ i _ (by intro t; rfl)).trans ?_
    exact flag_moveTank g i _ hi
  case DoNothing =>
    show (tankAt (modifyTank g i TankInfo.decreaseTurnsToShoot) i).backwardsFlag_ = _
    exact flag_modifyTank g i _ (by intro t; rfl)
  case GetBattleInfo =>
    show (tankAt (getBattleInfo g i) i).backwardsFlag_ = _
    unfold getBattleInfo
    exact flag_modifyTank _ i _ (by intro t; rfl)
  all_goals exact hrot _

/-- A call of `performAction` for a tank that is not moving backwards, with an action other
than `MoveBackward` and other than a valid shot: no shell is added, the tank keeps its
ammo, its shoot cooldown is decreased by one step, and it is still not moving
backwards. -/
theorem performAction_quiet (s : GM) (a : ActionRequest) (i : Nat) (hi : i < s.tanks_.length)
    (hb : a ≠ ActionRequest.MoveBackward) (hflag : (tankAt s i).backwardsFlag_ = false)
    (hns : ¬ (a = ActionRequest.Shoot ∧ isValidShoot (tankAt s i) = true)) :
    Gear s (performAction s a i).1 i
        (if (tankAt s i).turnsToShoot_ > 0 then (tankAt s i).turnsToShoot_ - 1 else 0) ∧
      (tankAt (performAction s a i).1 i).backwardsFlag_ = false := by
  have h2 := (Gear.start s i hi).requested a
  have hf2 := flag_backwardsRequest s a i hb
  have h5 := h2.cooled_down
  have hS : isValidAction (backwardsRequest s a i) (tankAt (backwardsRequest s a i) i) a = true →
      a ≠ ActionRequest.Shoot := by
    rintro hv rfl
    apply hns
    refine ⟨rfl, ?_⟩
    have hv' : isValidShoot (tankAt (backwardsRequest s ActionRequest.Shoot i) i) = true := by
      simpa [isValidAction] using hv
    unfold isValidShoot at hv' ⊢
    rw [h2.ammo, h2.cool] at hv'
    exact hv'
  have h6 := fun hS => h2.valid_cooled a hS hb
  generalize (if (tankAt s i).turnsToShoot_ > 0 then (tankAt s i).turnsToShoot_ - 1 else 0) =
    c1 at h5 h6 ⊢
  unfold performAction
  simp only
  rw [if_neg (fun h => hb h.2), hf2, hflag]
  simp only [Bool.false_eq_true, if_false]
  split_ifs with c3
  · exact ⟨h6 (hS c3), (flag_performValid _ a i h2.len (hS c3)).trans (hf2.trans hflag)⟩
  · exact ⟨h5, (flag_modifyTank _ i TankInfo.decreaseTurnsToShoot (by intro t; rfl)).trans
      (hf2.trans hflag)⟩

theorem requestAll_cons (i : Nat) (s : GM) (a : ActionRequest) (actions : List ActionRequest) :
    requestAll i s (a :: actions) = requestAll i (performAction s a i).1 actions := rfl

theorem not_validShoot_of_cool (t : TankInfo) (h : 0 < t.turnsToShoot_) :
    ¬ isValidShoot t = true := by
  unfold isValidShoot
  simp only [gt_iff_lt, decide_eq_true_eq, not_and]
  intro _
  omega

/-- While the shoot cooldown of tank `i` is above the number of calls of `performAction`
made for it, whatever the actions, it stays positive: each call takes one step at most. -/
theorem cooldown_lower_bound (i : Nat) :
    ∀ (actions : List ActionRequest) (g : GM) (c : Int), i < g.tanks_.length →
      c ≤ (tankAt g i).turnsToShoot_ → (actions.length : Int) < c →
      i < (requestAll i g actions).tanks_.length ∧
        c - actions.length ≤ (tankAt (requestAll i g actions) i).turnsToShoot_
  | [], g, c, hi, hc, _ => ⟨hi, by simpa using hc⟩
  | a :: actions, g, c, hi, hc, hlen => by
    rw [requestAll_cons]
    have hlen' : (actions.length : Int) + 1 < c := by simpa using hlen
    have hpos : 0 < (tankAt g i).turnsToShoot_ := by omega
    have hg := performAction_gear g a i hi
      (fun h => not_validShoot_of_cool _ hpos h.2.2)
    have hstep : i < (performAction g a i).1.tanks_.length ∧
        c - 1 ≤ (tankAt (performAction g a i).1 i).turnsToShoot_ := by
      rcases hg with h | h
      · exact ⟨h.len, by rw [h.cool]; omega⟩
      · refine ⟨h.len, ?_⟩
        rw [h.cool, if_pos hpos]
        omega
    have ih := cooldown_lower_bound i actions (performAction g a i).1 (c - 1) hstep.1 hstep.2
      (by omega)
    refine ⟨ih.1, ?_⟩
    have := ih.2
    simp only [List.length_cons, Nat.cast_add, Nat.cast_one]
    omega

/-- Calls of `performAction` for a tank that is not moving backwards, with actions other
than `MoveBackward`, while the shoot cooldown lasts: each call decreases the cooldown by
one, and the tank keeps its ammo and stays not moving backwards. -/
theorem cooldown_runs_down (i : Nat) :
    ∀ (actions : List ActionRequest) (g : GM), i < g.tanks_.length →
      (tankAt g i).backwardsFlag_ = false →
      (actions.length : Int) ≤ (tankAt g i).turnsToShoot_ →
      (∀ a ∈ actions, a ≠ ActionRequest.MoveBackward) →
      i < (requestAll i g actions).tanks_.length ∧
        (tankAt (requestAll i g actions) i).backwardsFlag_ = false ∧
        (tankAt (requestAll i g actions) i).ammo_ = (tankAt g i).ammo_ ∧
        (tankAt (requestAll i g actions) i).turnsToShoot_ =
          (tankAt g i).turnsToShoot_ - actions.length
  | [], g, hi, hf, _, _ => ⟨hi, hf, rfl, by simp [requestAll]⟩
  | a :: actions, g, hi, hf, hlen, hall => by
    rw [requestAll_cons]
    have hlen' : (actions.length : Int) + 1 ≤ (tankAt g i).turnsToShoot_ := by simpa using hlen
    have hpos : 0 < (tankAt g i).turnsToShoot_ := by omega
    obtain ⟨hq, hq2⟩ := performAction_quiet g a i hi (hall a (List.mem_cons_self _ _)) hf
      (fun h => not_validShoot_of_cool _ hpos h.2)
    have hc := hq.cool
    rw [if_pos hpos] at hc
    obtain ⟨i1, i2, i3, i4⟩ := cooldown_runs_down i actions (performAction g a i).1 hq.len hq2
      (by rw [hc]; omega) (fun b hb => hall b (List.mem_cons_of_mem _ hb))
    refine ⟨i1, i2, i3.trans hq.ammo, ?_⟩
    rw [i4, hc]
    simp only [List.length_cons, Nat.cast_add, Nat.cast_one]
    omega

theorem shoot_length (g : GM) (i : Nat) : (shoot g i).tanks_.length = g.tanks_.length := by
  unfold shoot
  split_ifs
  · simp only [shootAt_tanks]
    simp
  · simp

/-- C13.  Tank `i` is not moving backwards and makes a valid shot that leaves it with
ammo.  Then (1) after fewer than four further calls of `performAction` for it, whatever the
actions, a `Shoot` leaves its ammo unchanged and adds no shell; and (2) after four further
calls with actions other than `MoveBackward`, a `Shoot` is valid again: it is executed by
`shoot` and takes one unit of ammo. -/
theorem shoot_cooldown_window (s : GM) (i : Nat) (hi : i < s.tanks_.length)
    (hflag : (tankAt s i).backwardsFlag_ = false)
    (hv : isValidShoot (tankAt s i) = true) (hammo : 1 < (tankAt s i).ammo_) :
    (∀ actions : List ActionRequest, actions.length < 4 →
      (tankAt (performAction
          (requestAll i (performAction s ActionRequest.Shoot i).1 actions)
          ActionRequest.Shoot i).1 i).ammo_ =
        (tankAt (requestAll i (performAction s ActionRequest.Shoot i).1 actions) i).ammo_ ∧
      (performAction (requestAll i (performAction s ActionRequest.Shoot i).1 actions)
          ActionRequest.Shoot i).1.shells_.Sublist
        (requestAll i (performAction s ActionRequest.Shoot i).1 actions).shells_) ∧
    (∀ actions : List ActionRequest, actions.length = 4 →
      (∀ a ∈ actions, a ≠ ActionRequest.MoveBackward) →
      isValidShoot (tankAt (requestAll i (performAction s ActionRequest.Shoot i).1 actions)
        i) = true ∧
      performAction (requestAll i (performAction s ActionRequest.Shoot i).1 actions)
          ActionRequest.Shoot i =
        (shoot (backwardsRequest
          (requestAll i (performAction s ActionRequest.Shoot i).1 actions)
          ActionRequest.Shoot i) i, true) ∧
      (tankAt (performAction
          (requestAll i (performAction s ActionRequest.Shoot i).1 actions)
          ActionRequest.Shoot i).1 i).ammo_ =
        (tankAt (requestAll i (performAction s ActionRequest.Shoot i).1 actions) i).ammo_ -
          1) := by
  obtain ⟨e0, a0, c0⟩ := performAction_valid_shoot s i hi hflag hv
  have hi2 : i < (backwardsRequest s ActionRequest.Shoot i).tanks_.length := by
    rw [backwardsRequest_length]; exact hi
  have hv2 : isValidShoot (tankAt (backwardsRequest s ActionRequest.Shoot i) i) = true := by
    have h2 := (Gear.start s i hi).requested ActionRequest.Shoot
    unfold isValidShoot at hv ⊢
    rw [h2.ammo, h2.cool]
    exact hv
  have hlen0 : i < (performAction s ActionRequest.Shoot i).1.tanks_.length := by
    rw [e0]
    show i < (shoot (backwardsRequest s ActionRequest.Shoot i) i).tanks_.length
    rw [shoot_length]
    exact hi2
  have hflag0 : (tankAt (performAction s ActionRequest.Shoot i).1 i).backwardsFlag_ = false := by
    rw [e0]
    show (tankAt (shoot (backwardsRequest s ActionRequest.Shoot i) i) i).backwardsFlag_ = false
    rw [tankAt_shoot_valid _ i hi2 hv2]
    show (tankAt (backwardsRequest s ActionRequest.Shoot i) i).backwardsFlag_ = false
    rw [flag_backwardsRequest s _ i (by decide)]
    exact hflag
  generalize (performAction s ActionRequest.Shoot i).1 = s0 at *
  constructor
  · intro actions hlen
    obtain ⟨hl, hc⟩ := cooldown_lower_bound i actions s0 4 hlen0 (by rw [c0])
      (by exact_mod_cast hlen)
    have hpos : 0 < (tankAt (requestAll i s0 actions) i).turnsToShoot_ := by
      have : (actions.length : Int) < 4 := by exact_mod_cast hlen
      omega
    rcases performAction_gear (requestAll i s0 actions) ActionRequest.Shoot i hl
      (fun h => not_validShoot_of_cool _ hpos h.2.2) with h | h
    · exact ⟨h.ammo, h.shells⟩
    · exact ⟨h.ammo, h.shells⟩
  · intro actions hlen hall
    obtain ⟨i1, i2, i3, i4⟩ := cooldown_runs_down i actions s0 hlen0 hflag0
      (by rw [c0, hlen]; decide) hall
    have hvg : isValidShoot (tankAt (requestAll i s0 actions) i) = true := by
      unfold isValidShoot
      rw [i3, i4, a0, c0, hlen]
      simp only [gt_iff_lt, Nat.cast_ofNat, sub_self, and_true, decide_eq_true_eq]
      omega
    obtain ⟨e1, a1, _⟩ := performAction_valid_shoot (requestAll i s0 actions) i i1 i2 hvg
    exact ⟨hvg, e1, a1⟩

/-- C13 at a concrete tank: on `wallMap` tank 0 faces the wall `(0, 0)` and has 5 shells.
Its first shot weakens the wall; a `Shoot` in the next call is rejected; after four calls
with `DoNothing` its `Shoot` is valid and destroys the wall.  The same in whole games in
which tank 0 answers `Shoot` in every turn: after 5 turns the wall is weakened and one
shell is spent, after 6 turns the wall is gone and two shells are spent. -/
theorem shoot_cooldown_window_witness :
    (0 < wallStart.tanks_.length ∧ (tankAt wallStart 0).backwardsFlag_ = false ∧
      isValidShoot (tankAt wallStart 0) = true ∧ 1 < (tankAt wallStart 0).ammo_) ∧
    ((tankAt (performAction (requestAll 0 (performAction wallStart ActionRequest.Shoot 0).1 [])
        ActionRequest.Shoot 0).1 0).ammo_ =
      (tankAt (requestAll 0 (performAction wallStart ActionRequest.Shoot 0).1 []) 0).ammo_ ∧
      (performAction (requestAll 0 (performAction wallStart ActionRequest.Shoot 0).1 [])
        ActionRequest.Shoot 0).1.shells_.Sublist
        (requestAll 0 (performAction wallStart ActionRequest.Shoot 0).1 []).shells_) ∧
    isValidShoot (tankAt (requestAll 0 (performAction wallStart ActionRequest.Shoot 0).1
      [ActionRequest.DoNothing, ActionRequest.DoNothing, ActionRequest.DoNothing,
        ActionRequest.DoNothing]) 0) = true ∧
    cellAt (performAction wallStart ActionRequest.Shoot 0).1.gameboard_ 0 0 = '$' ∧
    cellAt (performAction (requestAll 0 (performAction wallStart ActionRequest.Shoot 0).1
      [ActionRequest.DoNothing, ActionRequest.DoNothing, ActionRequest.DoNothing,
        ActionRequest.DoNothing]) ActionRequest.Shoot 0).1.gameboard_ 0 0 = ' ' ∧
    (runGame 100 0 Reason.ALL_TANKS_DEAD 0 4 1 wallMap 5 5 alwaysShoots).map
      (fun r => (cellAt r.1.gameboard_ 0 0, (tankAt r.1 0).ammo_, r.2)) = some ('$', 4, 5) ∧
    (runGame 100 0 Reason.ALL_TANKS_DEAD 0 4 1 wallMap 6 5 alwaysShoots).map
      (fun r => (cellAt r.1.gameboard_ 0 0, (tankAt r.1 0).ammo_, r.2)) = some (' ', 3, 6) :=
  have h := shoot_cooldown_window wallStart 0 (by decide!) (by decide!) (by decide!)
    (by decide!)
  ⟨⟨by decide!, by decide!, by decide!, by decide!⟩, h.1 [] (by decide),
    (h.2 [ActionRequest.DoNothing, ActionRequest.DoNothing, ActionRequest.DoNothing,
      ActionRequest.DoNothing] rfl (by decide)).1,
    by decide!, by decide!, by decide!, by decide!⟩

/-- What `updateBattleInfo` does for every algorithm and every battle info: the object of
the caller is returned as it was passed, and the index and the ammo of the tank are
written to the local copy only. -/
theorem updateBattleInfo_keeps_caller_object (alg : TankAlgo) (info : ExtBattleInfo) :
    (updateBattleInfo alg info).2.1 = info ∧
    (updateBattleInfo alg info).2.2.tankIndex_ = (updateBattleInfo alg info).1.tankIndex_ ∧
    (updateBattleInfo alg info).2.2.currAmmo_ = (updateBattleInfo alg info).1.ammo_ :=
  ⟨rfl, rfl, rfl⟩

/-- C14 (the code departs from the claim).  A player with 5 shells per tank passes its
first battle info to the tank algorithm of index 1.  The algorithm takes its ammo 5 from
it; the claim asks the player to record `tankStatus[1].ammo = 5`.  The object of the
player still carries index 0 and ammo 0 after the call, so the player records ammo 0 for
tank 0 and nothing for tank 1. -/
theorem battle_info_update_lost :
    (updateTankWithBattleInfo freshPlayer (TankAlgo.mk0 1) selfView).2.tankIndex_ = 1 ∧
    (updateTankWithBattleInfo freshPlayer (TankAlgo.mk0 1) selfView).2.ammo_ = 5 ∧
    statusOf (updateTankWithBattleInfo freshPlayer (TankAlgo.mk0 1) selfView).1.tankStatus_ 1 =
      none ∧
    (statusOf (updateTankWithBattleInfo freshPlayer (TankAlgo.mk0 1) selfView).1.tankStatus_
      0).map (fun st => st.ammo) = some 0 := by
  decide

/-- For every player, algorithm and view, the player records the constructor values of the
battle info: ammo 0 under index 0. -/
theorem player_records_constructor_values (p : PlayerState) (tank : TankAlgo)
    (view : Nat → Nat → Char) :
    (updateTankWithBattleInfo p tank view).1.tankStatus_ = setStatusAmmo p.tankStatus_ 0 0 :=
  rfl

theorem sameRow_iff (ra rb : List Char) :
    sameRow ra rb = true ↔
      ra.length = rb.length ∧
        ∀ x, x < ra.length → norm (ra.getD x NUL) = norm (rb.getD x NUL) := by
  unfold sameRow
  simp only [Bool.and_eq_true, decide_eq_true_eq, List.all_eq_true, List.mem_range]

/-- Two lists have the same image under `f` exactly when they have the same length and
`f` agrees on the elements at equal positions. -/
theorem map_eq_map_iff_getD {α β : Type} (f : α → β) (d : α) :
    ∀ (l l' : List α), l.map f = l'.map f ↔
      l.length = l'.length ∧ ∀ x, x < l.length → f (l.getD x d) = f (l'.getD x d)
  | [], [] => by simp
  | [], _ :: _ => by simp
  | _ :: _, [] => by simp
  | a :: l, b :: l' => by
    simp only [List.map_cons, List.cons.injEq, List.length_cons, add_left_inj]
    rw [map_eq_map_iff_getD f d l l']
    constructor
    · rintro ⟨h0, hl, h⟩
      refine ⟨hl, fun x hx => ?_⟩
      cases x with
      | zero => simpa using h0
      | succ x => simpa using h x (by omega)
    · rintro ⟨hl, h⟩
      refine ⟨by simpa using h 0 (by omega), hl, fun x hx => ?_⟩
      simpa using h (x + 1) (by omega)

/-- The result of `sameResult` is the equality of the winners, the reasons, the rounds and
the boards read with `$` as `#`. -/
theorem sameResult_key (a b : SnapshotGameResult) :
    sameResult a b = true ↔
      a.winner = b.winner ∧ a.reason = b.reason ∧ a.rounds = b.rounds ∧
      a.board.map (List.map norm) = b.board.map (List.map norm) := by
  unfold sameResult
  by_cases hw : a.winner = b.winner
  swap
  · simp [hw]
  by_cases hr : a.reason = b.reason
  swap
  · simp [hr]
  by_cases hn : a.rounds = b.rounds
  swap
  · simp [hn]
  rw [if_neg (by simp [hw, hr, hn])]
  by_cases hb : a.board = b.board
  · rw [if_pos hb]
    simp only [true_iff]
    exact ⟨hw, hr, hn, by rw [hb]⟩
  rw [if_neg hb]
  rw [map_eq_map_iff_getD (List.map norm) [] a.board b.board]
  by_cases hl : a.board.length = b.board.length
  swap
  · simp [hl]
  rw [if_neg (by simp [hl])]
  simp only [List.all_eq_true, List.mem_range, sameRow_iff, hw, hr, hn, hl, true_and]
  constructor
  · intro h y hy
    rw [map_eq_map_iff_getD norm NUL]
    exact h y (hl ▸ hy)
  · intro h y hy
    rw [← map_eq_map_iff_getD norm NUL]
    exact h y (hl ▸ hy)

theorem sameResult_refl (a : SnapshotGameResult) : sameResult a a = true :=
  (sameResult_key a a).mpr ⟨rfl, rfl, rfl, rfl⟩

theorem sameResult_symm {a b : SnapshotGameResult} (h : sameResult a b = true) :
    sameResult b a = true := by
  obtain ⟨h1, h2, h3, h4⟩ := (sameResult_key a b).mp h
  exact (sameResult_key b a).mpr ⟨h1.symm, h2.symm, h3.symm, h4.symm⟩

theorem sameResult_trans {a b c : SnapshotGameResult} (h : sameResult a b = true)
    (h' : sameResult b c = true) : sameResult a c = true := by
  obtain ⟨h1, h2, h3, h4⟩ := (sameResult_key a b).mp h
  obtain ⟨k1, k2, k3, k4⟩ := (sameResult_key b c).mp h'
  exact (sameResult_key a c).mpr ⟨h1.trans k1, h2.trans k2, h3.trans k3, h4.trans k4⟩

/-- C15.  `sameResult a b` is true exactly when the winners, the reasons and the rounds
are equal, the boards have the same number of rows, and in every row the lengths are equal
and every two corresponding cells are equal once `$` is read as `#`. -/
theorem sameResult_iff (a b : SnapshotGameResult) :
    sameResult a b = true ↔
      a.winner = b.winner ∧ a.reason = b.reason ∧ a.rounds = b.rounds ∧
      a.board.length = b.board.length ∧
      ∀ y, y < a.board.length →
        (a.board.getD y []).length = (b.board.getD y []).length ∧
        ∀ x, x < (a.board.getD y []).length →
          norm ((a.board.getD y []).getD x NUL) = norm ((b.board.getD y []).getD x NUL) := by
  rw [sameResult_key, map_eq_map_iff_getD (List.map norm) [] a.board b.board]
  constructor
  · rintro ⟨h1, h2, h3, hl, h⟩
    refine ⟨h1, h2, h3, hl, fun y hy => ?_⟩
    exact (map_eq_map_iff_getD norm NUL _ _).mp (h y hy)
  · rintro ⟨h1, h2, h3, hl, h⟩
    refine ⟨h1, h2, h3, hl, fun y hy => ?_⟩
    exact (map_eq_map_iff_getD norm NUL _ _).mpr (h y hy)

/-- The group of `r` after `r.2` has been pushed and the count increased. -/
theorem placeResult_some (r : SnapshotGameResult × Str) :
    ∀ (G G' : List GameResultInfo), placeResult r G = some G' →
      ∃ pre g0 post, G = pre ++ g0 :: post ∧
        (∀ g ∈ pre, sameResult r.1 g.result = false) ∧ sameResult r.1 g0.result = true ∧
        G' = pre ++ { g0 with gm_names := g0.gm_names ++ [r.2], count := g0.count + 1 } :: post
  | [], _, h => by simp [placeResult] at h
  | g :: rest, G', h => by
    unfold placeResult at h
    by_cases hs : sameResult r.1 g.result = true
    · rw [if_pos hs] at h
      refine ⟨[], g, rest, rfl, by simp, hs, ?_⟩
      simpa using h.symm
    · rw [if_neg hs] at h
      cases hp : placeResult r rest with
      | none => rw [hp] at h; simp at h
      | some rest' =>
        rw [hp] at h
        simp only [Option.map_some', Option.some.injEq] at h
        obtain ⟨pre, g0, post, e, h1, h2, h3⟩ := placeResult_some r rest rest' hp
        refine ⟨g :: pre, g0, post, by rw [e]; rfl, ?_, h2, by rw [← h, h3]; rfl⟩
        intro x hx
        rcases List.mem_cons.mp hx with rfl | hx
        · simpa using hs
        · exact h1 x hx

theorem placeResult_none (r : SnapshotGameResult × Str) :
    ∀ (G : List GameResultInfo), placeResult r G = none →
      ∀ g ∈ G, sameResult r.1 g.result = false
  | [], _, g, hg => by simp at hg
  | g0 :: rest, h, g, hg => by
    unfold placeResult at h
    by_cases hs : sameResult r.1 g0.result = true
    · rw [if_pos hs] at h; simp at h
    · rw [if_neg hs] at h
      have hr : placeResult r rest = none := by
        cases hp : placeResult r rest with
        | none => rfl
        | some x => rw [hp] at h; simp at h
      rcases List.mem_cons.mp hg with rfl | hg
      · simpa using hs
      · exact placeResult_none r rest hr g hg


theorem sameResult_false_symm (a b : SnapshotGameResult) (h : sameResult a b = false) :
    sameResult b a = false := by
  cases hb : sameResult b a with
  | false => rfl
  | true => rw [sameResult_symm hb] at h; cases h

/-- One step of the grouping loop keeps the description of the groups: names are the names of
the equivalent results seen so far, in order; counts are the numbers of names; representatives
are pairwise not equivalent; every result seen has a group; the counts add up. -/
theorem groupStep_grouped (G : List GameResultInfo) (seen : List (SnapshotGameResult × Str))
    (r : SnapshotGameResult × Str)
    (h1 : ∀ g ∈ G, g.gm_names =
      (seen.filter (fun p => sameResult p.1 g.result)).map Prod.snd)
    (h2 : ∀ g ∈ G, g.count = (g.gm_names.length : Int))
    (h3 : G.Pairwise (fun g h => sameResult g.result h.result = false))
    (h4 : ∀ p ∈ seen, ∃ g ∈ G, sameResult p.1 g.result = true)
    (h5 : (G.map (fun g => g.count)).sum = (seen.length : Int)) :
    (∀ g ∈ groupStep G r, g.gm_names =
      ((seen ++ [r]).filter (fun p => sameResult p.1 g.result)).map Prod.snd) ∧
    (∀ g ∈ groupStep G r, g.count = (g.gm_names.length : Int)) ∧
    (groupStep G r).Pairwise (fun g h => sameResult g.result h.result = false) ∧
    (∀ p ∈ seen ++ [r], ∃ g ∈ groupStep G r, sameResult p.1 g.result = true) ∧
    ((groupStep G r).map (fun g => g.count)).sum = ((seen ++ [r]).length : Int) := by
  unfold groupStep
  cases hp : placeResult r G with
  | none =>
    have hn := placeResult_none r G hp
    simp only []
    have hseen : ∀ p ∈ seen, sameResult p.1 r.1 = false := by
      intro p hp
      obtain ⟨g, hg, hpg⟩ := h4 p hp
      cases hpr : sameResult p.1 r.1 with
      | false => rfl
      | true =>
        have := sameResult_trans (sameResult_symm hpr) hpg
        rw [hn g hg] at this; cases this
    refine ⟨?_, ?_, ?_, ?_, ?_⟩
    · intro g hg
      rcases List.mem_append.mp hg with hg | hg
      · rw [List.filter_append, List.map_append, ← h1 g hg]
        simp [List.filter, hn g hg]
      · simp only [List.mem_singleton] at hg
        subst hg
        rw [List.filter_append, List.map_append]
        have : seen.filter (fun p => sameResult p.1 r.1) = [] := by
          rw [List.filter_eq_nil_iff]
          intro p hp
          simp [hseen p hp]
        simp [this, List.filter, sameResult_refl]
    · intro g hg
      rcases List.mem_append.mp hg with hg | hg
      · exact h2 g hg
      · simp only [List.mem_singleton] at hg
        subst hg
        simp
    · rw [List.pairwise_append]
      refine ⟨h3, by simp, ?_⟩
      intro g hg x hx
      simp only [List.mem_singleton] at hx
      subst hx
      exact sameResult_false_symm _ _ (hn g hg)
    · intro p hp
      rcases List.mem_append.mp hp with hp | hp
      · obtain ⟨g, hg, hpg⟩ := h4 p hp
        exact ⟨g, List.mem_append_left _ hg, hpg⟩
      · simp only [List.mem_singleton] at hp
        subst hp
        exact ⟨_, List.mem_append_right _ (List.mem_singleton.mpr rfl), sameResult_refl _⟩
    · simp [h5]
  | some G' =>
    obtain ⟨pre, g0, post, e, hpre, hg0, e'⟩ := placeResult_some r G G' hp
    subst e e'
    simp only []
    rw [List.pairwise_append, List.pairwise_cons] at h3
    obtain ⟨h3a, ⟨h3b, h3c⟩, h3d⟩ := h3
    have hpost : ∀ g ∈ post, sameResult r.1 g.result = false := by
      intro g hg
      cases hrg : sameResult r.1 g.result with
      | false => rfl
      | true =>
        have := sameResult_trans (sameResult_symm hg0) hrg
        rw [h3b g hg] at this; cases this
    refine ⟨?_, ?_, ?_, ?_, ?_⟩
    · intro g hg
      rcases List.mem_append.mp hg with hg | hg
      · rw [List.filter_append, List.map_append,
          ← h1 g (List.mem_append_left _ hg)]
        simp [List.filter, hpre g hg]
      · rcases List.mem_cons.mp hg with rfl | hg
        · rw [List.filter_append, List.map_append]
          simp only []
          rw [← h1 g0 (List.mem_append_right _ (List.mem_cons_self _ _))]
          simp [List.filter, hg0]
        · rw [List.filter_append, List.map_append,
            ← h1 g (List.mem_append_right _ (List.mem_cons_of_mem _ hg))]
          simp [List.filter, hpost g hg]
    · intro g hg
      rcases List.mem_append.mp hg with hg | hg
      · exact h2 g (List.mem_append_left _ hg)
      · rcases List.mem_cons.mp hg with rfl | hg
        · simp only []
          rw [h2 g0 (List.mem_append_right _ (List.mem_cons_self _ _))]
          simp
        · exact h2 g (List.mem_append_right _ (List.mem_cons_of_mem _ hg))
    · rw [List.pairwise_append, List.pairwise_cons]
      refine ⟨h3a, ⟨h3b, h3c⟩, ?_⟩
      intro g hg x hx
      rcases List.mem_cons.mp hx with rfl | hx
      · exact h3d g hg g0 (List.mem_cons_self _ _)
      · exact h3d g hg x (List.mem_cons_of_mem _ hx)
    · intro p hp
      rcases List.mem_append.mp hp with hp | hp
      · obtain ⟨g, hg, hpg⟩ := h4 p hp
        rcases List.mem_append.mp hg with hg | hg
        · exact ⟨g, List.mem_append_left _ hg, hpg⟩
        · rcases List.mem_cons.mp hg with rfl | hg
          · exact ⟨_, List.mem_append_right _ (List.mem_cons_self _ _), hpg⟩
          · exact ⟨g, List.mem_append_right _ (List.mem_cons_of_mem _ hg), hpg⟩
      · simp only [List.mem_singleton] at hp
        subst hp
        exact ⟨_, List.mem_append_right _ (List.mem_cons_self _ _), hg0⟩
    · simp only [List.map_append, List.map_cons, List.sum_append, List.sum_cons,
        List.length_append, List.length_singleton, Nat.cast_add, Nat.cast_one] at h5 ⊢
      omega

theorem makeGroups_grouped : ∀ (results seen : List (SnapshotGameResult × Str))
    (G : List GameResultInfo),
    (∀ g ∈ G, g.gm_names =
      (seen.filter (fun p => sameResult p.1 g.result)).map Prod.snd) →
    (∀ g ∈ G, g.count = (g.gm_names.length : Int)) →
    G.Pairwise (fun g h => sameResult g.result h.result = false) →
    (∀ p ∈ seen, ∃ g ∈ G, sameResult p.1 g.result = true) →
    (G.map (fun g => g.count)).sum = (seen.length : Int) →
    (∀ g ∈ makeGroups G results, g.gm_names =
      ((seen ++ results).filter (fun p => sameResult p.1 g.result)).map Prod.snd) ∧
    (∀ g ∈ makeGroups G results, g.count = (g.gm_names.length : Int)) ∧
    (makeGroups G results).Pairwise (fun g h => sameResult g.result h.result = false) ∧
    (∀ p ∈ seen ++ results, ∃ g ∈ makeGroups G results, sameResult p.1 g.result = true) ∧
    ((makeGroups G results).map (fun g => g.count)).sum = ((seen ++ results).length : Int)
  | [], seen, G, h1, h2, h3, h4, h5 => by
    simp only [makeGroups, List.foldl_nil, List.append_nil]
    exact ⟨h1, h2, h3, h4, h5⟩
  | r :: rest, seen, G, h1, h2, h3, h4, h5 => by
    obtain ⟨k1, k2, k3, k4, k5⟩ := groupStep_grouped G seen r h1 h2 h3 h4 h5
    have := makeGroups_grouped rest (seen ++ [r]) (groupStep G r) k1 k2 k3 k4 k5
    simp only [makeGroups, List.foldl_cons, List.append_assoc, List.singleton_append] at this ⊢
    exact this


/-- C16: starting from an empty group list, `makeGroups` puts every (result, name) pair into
exactly one group (the only group whose representative is `sameResult`-equivalent to the
result; the names of a group are exactly the names of the results equivalent to its
representative, in input order), two pairs are in the same group iff `sameResult` holds
between their results, every group's count is the number of names it holds, and the counts
sum to the number of results. -/
theorem makeGroups_partition (results : List (SnapshotGameResult × Str)) :
    (∀ p ∈ results, ∃! g, g ∈ makeGroups [] results ∧ sameResult p.1 g.result = true) ∧
    (∀ g ∈ makeGroups [] results, g.gm_names =
      (results.filter (fun p => sameResult p.1 g.result)).map Prod.snd) ∧
    (∀ p ∈ results, ∀ q ∈ results,
      (sameResult p.1 q.1 = true ↔
        ∃ g ∈ makeGroups [] results,
          sameResult p.1 g.result = true ∧ sameResult q.1 g.result = true)) ∧
    (∀ g ∈ makeGroups [] results, g.count = (g.gm_names.length : Int)) ∧
    ((makeGroups [] results).map (fun g => g.count)).sum = (results.length : Int) := by
  obtain ⟨k1, k2, k3, k4, k5⟩ := makeGroups_grouped results [] []
    (by simp) (by simp) List.Pairwise.nil (by simp) (by simp)
  rw [List.nil_append] at k1 k4 k5
  refine ⟨?_, k1, ?_, k2, k5⟩
  · intro p hp
    obtain ⟨g, hg, hpg⟩ := k4 p hp
    refine ⟨g, ⟨hg, hpg⟩, ?_⟩
    rintro h ⟨hh, hph⟩
    by_contra hne
    have hgh : sameResult g.result h.result = true :=
      sameResult_trans (sameResult_symm hpg) hph
    have hsym : Symmetric (fun a b : GameResultInfo =>
        sameResult a.result b.result = false) :=
      fun a b hab => sameResult_false_symm _ _ hab
    have := List.Pairwise.forall hsym k3 hg hh (fun e => hne e.symm)
    rw [hgh] at this
    cases this
  · intro p hp q hq
    constructor
    · intro hpq
      obtain ⟨g, hg, hqg⟩ := k4 q hq
      exact ⟨g, hg, sameResult_trans hpq hqg, hqg⟩
    · rintro ⟨g, _, hpg, hqg⟩
      exact sameResult_trans hpg (sameResult_symm hqg)

theorem printNames_loop (sep : Str) : ∀ (names : List Str) (os : Str), names ≠ [] →
    (List.range (names.length - 1)).foldl (fun os i => os ++ names.getD i [] ++ sep) os ++
      names.getLastD [] = os ++ joinWith sep names
  | [], _, h => absurd rfl h
  | [a], os, _ => by simp [joinWith]
  | a :: b :: rest, os, _ => by
    have ih := printNames_loop sep (b :: rest) (os ++ a ++ sep) (by simp)
    have hlen : (a :: b :: rest).length - 1 = rest.length + 1 := by simp
    have hlen' : (b :: rest).length - 1 = rest.length := by simp
    rw [hlen, List.range_succ_eq_map, List.foldl_cons, List.foldl_map]
    rw [hlen'] at ih
    simp only [List.getD_cons_zero, List.getD_cons_succ, joinWith, Nat.succ_eq_add_one] at ih ⊢
    have hl : (a :: b :: rest).getLastD [] = (b :: rest).getLastD [] := by simp
    rw [hl, ih]
    simp [List.append_assoc]

theorem printNames_eq (os : Str) (names : List Str) :
    printNames os names = os ++ joinWith ", ".toList names ++ ['\n'] := by
  unfold printNames
  by_cases h : names = []
  · subst h
    simp [joinWith]
  · rw [if_pos h, printNames_loop _ names os h]

theorem printRow_eq : ∀ (row : List Char) (os : Str),
    row.foldl (fun os cell => os ++ [if cell = '$' then '#' else cell]) os =
      os ++ row.map norm
  | [], os => by simp
  | c :: row, os => by
    rw [List.foldl_cons, printRow_eq row]
    simp [norm]

theorem printBoard_eq : ∀ (board : List (List Char)) (os : Str),
    board.foldl
      (fun os row => row.foldl (fun os cell => os ++ [if cell = '$' then '#' else cell]) os ++
        ['\n']) os = os ++ board.flatMap (fun row => row.map norm ++ ['\n'])
  | [], os => by simp
  | row :: board, os => by
    rw [List.foldl_cons, printBoard_eq board, printRow_eq]
    simp [List.append_assoc]

theorem printSatellite_eq (os : Str) (result : SnapshotGameResult) :
    printSatellite os result =
      os ++ result.board.flatMap (fun row => row.map norm ++ ['\n']) :=
  printBoard_eq result.board os

/-- The text that the loop of `BuildOutputBuffer` prints for one group. -/
theorem emitGroups_single (os : Str) (g : GameResultInfo) :
    emitGroups os [g] =
      os ++ (joinWith ", ".toList g.gm_names ++ ['\n'] ++ resultLine g.result ++ ['\n'] ++
        natStr g.result.rounds ++ ['\n'] ++
        g.result.board.flatMap (fun row => row.map norm ++ ['\n'])) := by
  simp only [emitGroups, printNames_eq, printSatellite_eq, ne_eq, not_true_eq_false, if_false,
    List.append_assoc]

/-- The loop of `BuildOutputBuffer` prints the groups one after the other, with one newline
between two groups. -/
theorem emitGroups_eq : ∀ (groups : List GameResultInfo) (os : Str),
    emitGroups os groups = os ++ joinWith ['\n'] (groups.map (fun g => emitGroups [] [g]))
  | [], os => by simp [emitGroups, joinWith]
  | [g], os => by
    rw [emitGroups_single, List.map_singleton, joinWith, emitGroups_single, List.nil_append]
  | g :: h :: rest, os => by
    have ih := emitGroups_eq (h :: rest)
      (os ++ (emitGroups [] [g] ++ ['\n']))
    have hstep : emitGroups os (g :: h :: rest) =
        emitGroups (os ++ (emitGroups [] [g] ++ ['\n'])) (h :: rest) := by
      rw [emitGroups_single]
      conv_lhs => unfold emitGroups
      simp only [printNames_eq, printSatellite_eq, ne_eq, reduceCtorEq, not_false_eq_true,
        if_true, List.append_assoc, List.nil_append]
    rw [hstep, ih]
    simp only [List.map_cons, joinWith, List.append_assoc]

theorem toInt32_zero : toInt32 0 = 0 := by decide

theorem toInt32_of_lt (n : Nat) (h : n < 2 ^ 31) : toInt32 n = (n : Int) := by
  unfold toInt32
  have h1 : n % 2 ^ 32 = n := Nat.mod_eq_of_lt (by omega)
  rw [h1, if_pos h]

theorem tanksOrZero_eq (result : SnapshotGameResult) (idx : Nat) :
    tanksOrZero result idx = toInt32 (entryOrZero result (idx : Int)) := by
  unfold tanksOrZero entryOrZero
  by_cases h : idx < result.remaining_tanks.length
  · have h' : (0 : Int) ≤ (idx : Int) ∧ (idx : Int) < (result.remaining_tanks.length : Int) :=
      ⟨by omega, by omega⟩
    rw [if_pos h, if_pos h', Int.toNat_ofNat]
  · have h' : ¬ ((0 : Int) ≤ (idx : Int) ∧
        (idx : Int) < (result.remaining_tanks.length : Int)) := by omega
    rw [if_neg h, if_neg h', toInt32_zero]

theorem tanksOrZero_winner (result : SnapshotGameResult)
    (hw : -2 ^ 31 ≤ result.winner ∧ result.winner < 2 ^ 31)
    (hl : result.remaining_tanks.length < 2 ^ 63) :
    tanksOrZero result ((result.winner - 1) % 2 ^ 64).toNat =
      toInt32 (entryOrZero result (result.winner - 1)) := by
  by_cases h : 1 ≤ result.winner
  · have e : (result.winner - 1) % 2 ^ 64 = result.winner - 1 :=
      Int.emod_eq_of_lt (by omega) (by omega)
    rw [e, tanksOrZero_eq, Int.toNat_of_nonneg (by omega)]
  · have e : (result.winner - 1) % 2 ^ 64 = result.winner - 1 + 2 ^ 64 := by
      rw [← Int.add_emod_self]
      exact Int.emod_eq_of_lt (by omega) (by omega)
    have h1 : ¬ ((result.winner - 1 + 2 ^ 64).toNat < result.remaining_tanks.length) := by
      omega
    have h2 : ¬ ((0 : Int) ≤ result.winner - 1 ∧
        result.winner - 1 < (result.remaining_tanks.length : Int)) := by omega
    rw [e]
    unfold tanksOrZero entryOrZero
    rw [if_neg h1, if_neg h2, toInt32_zero]

theorem resultLine_eq (result : SnapshotGameResult)
    (hw : -2 ^ 31 ≤ result.winner ∧ result.winner < 2 ^ 31)
    (hl : result.remaining_tanks.length < 2 ^ 63) :
    resultLine result = formatResultLine renderAsInt result := by
  unfold resultLine formatResultLine renderAsInt
  by_cases h : result.winner = 0
  · rw [if_pos h, if_pos h]
    have e0 := tanksOrZero_eq result 0
    have e1 := tanksOrZero_eq result 1
    simp only [Nat.cast_zero, Nat.cast_one] at e0 e1
    rw [e0, e1]
    cases result.reason <;> simp
  · rw [if_neg h, if_neg h, tanksOrZero_winner result hw hl]

theorem emitGroups_format : ∀ (groups : List GameResultInfo),
    (∀ g ∈ groups, (-2 ^ 31 ≤ g.result.winner ∧ g.result.winner < 2 ^ 31) ∧
      g.result.remaining_tanks.length < 2 ^ 63) →
    groups.map (fun g => emitGroups [] [g]) = groups.map (formatGroup renderAsInt)
  | [], _ => rfl
  | g :: rest, h => by
    have hg := h g (List.mem_cons_self _ _)
    rw [List.map_cons, List.map_cons,
      emitGroups_format rest (fun x hx => h x (List.mem_cons_of_mem _ hx)),
      emitGroups_single, resultLine_eq g.result hg.1 hg.2, List.nil_append]
    rfl

/-- C18 (as stated, refuted): for the single group of game manager `G` whose result is won
by player 1 with `remaining_tanks = [2 ^ 31]`, `BuildOutputBuffer` does not print the entry
`remaining_tanks[winner - 1]` in the result line: the text differs from the output format
with the entries printed as they are. -/
theorem buildOutputBuffer_narrows_count :
    BuildOutputBuffer lastSegment
        [{ result := hugeCount, gm_names := ["G".toList], count := 1 }] [] [] [] ≠
      formatOutput natStr lastSegment
        [{ result := hugeCount, gm_names := ["G".toList], count := 1 }] [] [] [] ∧
    resultLine hugeCount = "Player 1 won with -2147483648 tanks still alive".toList := by
  decide!

/-- C18 (amended): for groups whose winner is an `int` and whose vector of tank counts has
fewer than `2 ^ 63` entries, `BuildOutputBuffer` returns the three header lines, a blank
line, and then, for the groups from the last to the first, the names joined by `", "`, the
result line selected by (winner, reason) with every tank count converted to `int` before it
is printed (for a win the entry `remaining_tanks[winner - 1]`, or 0 when it is missing), the
rounds and the board rows with `$` printed as `#`, each line ended by a newline, with one
blank line between consecutive groups and none after the last. A tank count below `2 ^ 31`
is printed as the number itself. -/
theorem buildOutputBuffer_format (getFilename : Str → Str) (groups : List GameResultInfo)
    (mapPath algorithmSoPath1 algorithmSoPath2 : Str)
    (hw : ∀ g ∈ groups, -2 ^ 31 ≤ g.result.winner ∧ g.result.winner < 2 ^ 31)
    (hl : ∀ g ∈ groups, g.result.remaining_tanks.length < 2 ^ 63) :
    BuildOutputBuffer getFilename groups mapPath algorithmSoPath1 algorithmSoPath2 =
      formatOutput renderAsInt getFilename groups.reverse mapPath algorithmSoPath1
        algorithmSoPath2 ∧
    ∀ n, n < 2 ^ 31 → renderAsInt n = natStr n := by
  constructor
  · unfold BuildOutputBuffer formatOutput
    simp only []
    rw [emitGroups_eq, emitGroups_format]
    intro g hg
    rw [List.mem_reverse] at hg
    exact ⟨hw g hg, hl g hg⟩
  · intro n hn
    unfold renderAsInt intStr
    rw [toInt32_of_lt n hn, if_neg (by omega), Int.toNat_ofNat]

/-- C18 witness: the two groups of results `resultC` and `resultA`; the buffer is the header
followed by the group of `resultA` and then the group of `resultC`. -/
theorem buildOutputBuffer_format_witness :
    (∀ g ∈ [({ result := resultC, gm_names := ["GM_C".toList], count := 1 } : GameResultInfo),
        { result := resultA, gm_names := ["GM_A".toList, "GM_B".toList], count := 2 }],
      -2 ^ 31 ≤ g.result.winner ∧ g.result.winner < 2 ^ 31) ∧
    (∀ g ∈ [({ result := resultC, gm_names := ["GM_C".toList], count := 1 } : GameResultInfo),
        { result := resultA, gm_names := ["GM_A".toList, "GM_B".toList], count := 2 }],
      g.result.remaining_tanks.length < 2 ^ 63) ∧
    (BuildOutputBuffer lastSegment
        [{ result := resultC, gm_names := ["GM_C".toList], count := 1 },
          { result := resultA, gm_names := ["GM_A".toList, "GM_B".toList], count := 2 }]
        "maps/m1.txt".toList "so/algo_1.so".toList "so/algo_2.so".toList =
      formatOutput renderAsInt lastSegment
        [{ result := resultA, gm_names := ["GM_A".toList, "GM_B".toList], count := 2 },
          { result := resultC, gm_names := ["GM_C".toList], count := 1 }]
        "maps/m1.txt".toList "so/algo_1.so".toList "so/algo_2.so".toList ∧
      ∀ n, n < 2 ^ 31 → renderAsInt n = natStr n) ∧
    BuildOutputBuffer lastSegment
        [{ result := resultC, gm_names := ["GM_C".toList], count := 1 },
          { result := resultA, gm_names := ["GM_A".toList, "GM_B".toList], count := 2 }]
        "maps/m1.txt".toList "so/algo_1.so".toList "so/algo_2.so".toList =
      ("game_map=m1.txt\nalgorithm1=algo_1.so\nalgorithm2=algo_2.so\n\n" ++
        "GM_A, GM_B\nPlayer 1 won with 2 tanks still alive\n100\n1 \n#1\n\n" ++
        "GM_C\nTie, reached max steps = 42, player 1 has 1 tanks, player 2 has 1 tanks\n" ++
        "42\n12\n").toList :=
  ⟨by decide, by decide,
    buildOutputBuffer_format lastSegment _ _ _ _ (by decide) (by decide), by decide!⟩

theorem makeGroups_count (results : List (SnapshotGameResult × Str)) :
    ∀ g ∈ makeGroups [] results, g.count = (g.gm_names.length : Int) :=
  (makeGroups_grouped results [] [] (by simp) (by simp) List.Pairwise.nil (by simp)
    (by simp)).2.1

/-- C17: with `std::sort` returning its input rearranged in non-descending order of `count`,
`writeOutput` on the groups made from the results prints, after the header, the texts of the
groups in the order `(sort groups).reverse`, one blank line between two groups: that order
is a rearrangement of the groups (every group is printed exactly once) and no group comes
before a group with more names. -/
theorem writeOutput_order (sort : List GameResultInfo → List GameResultInfo)
    (getFilename : Str → Str) (results : List (SnapshotGameResult × Str))
    (mapPath algorithmSoPath1 algorithmSoPath2 : Str)
    (hperm : ∀ l, (sort l).Perm l)
    (hsorted : ∀ l, (sort l).Pairwise (fun a b => ¬ b.count < a.count)) :
    writeOutput sort getFilename [] results mapPath algorithmSoPath1 algorithmSoPath2 =
      BuildOutputBuffer getFilename [] mapPath algorithmSoPath1 algorithmSoPath2 ++
        joinWith ['\n']
          ((sort (makeGroups [] results)).reverse.map (fun g => emitGroups [] [g])) ∧
    (sort (makeGroups [] results)).reverse.Perm (makeGroups [] results) ∧
    (sort (makeGroups [] results)).reverse.Pairwise
      (fun a b => b.gm_names.length ≤ a.gm_names.length) := by
  refine ⟨?_, (List.reverse_perm _).trans (hperm _), ?_⟩
  · have hb : ∀ gs, BuildOutputBuffer getFilename gs mapPath algorithmSoPath1
        algorithmSoPath2 =
        BuildOutputBuffer getFilename [] mapPath algorithmSoPath1 algorithmSoPath2 ++
          joinWith ['\n'] (gs.reverse.map (fun g => emitGroups [] [g])) := by
      intro gs
      unfold BuildOutputBuffer
      simp only []
      rw [emitGroups_eq]
      rfl
    unfold writeOutput
    exact hb _
  · rw [List.pairwise_reverse]
    have hc : ∀ g ∈ sort (makeGroups [] results), g.count = (g.gm_names.length : Int) :=
      fun g hg => makeGroups_count results g ((hperm _).mem_iff.mp hg)
    refine List.Pairwise.imp_of_mem ?_ (hsorted (makeGroups [] results))
    intro a b ha hb hab
    rw [hc a ha, hc b hb] at hab
    omega

/-- C17 witness: insertion sort by `count` on the groups of `threeResults`; the group of
`GM_A` and `GM_B` is printed before the group of `GM_C`. -/
theorem writeOutput_order_witness :
    (writeOutput (List.insertionSort (fun a b => a.count ≤ b.count)) lastSegment []
        threeResults "maps/m1.txt".toList "so/algo_1.so".toList "so/algo_2.so".toList =
      BuildOutputBuffer lastSegment [] "maps/m1.txt".toList "so/algo_1.so".toList
          "so/algo_2.so".toList ++
        joinWith ['\n']
          (((List.insertionSort (fun a b => a.count ≤ b.count)
            (makeGroups [] threeResults)).reverse).map (fun g => emitGroups [] [g])) ∧
      ((List.insertionSort (fun a b => a.count ≤ b.count)
          (makeGroups [] threeResults)).reverse).Perm (makeGroups [] threeResults) ∧
      ((List.insertionSort (fun a b => a.count ≤ b.count)
          (makeGroups [] threeResults)).reverse).Pairwise
        (fun a b => b.gm_names.length ≤ a.gm_names.length)) ∧
    (List.insertionSort (fun a b : GameResultInfo => a.count ≤ b.count)
        (makeGroups [] threeResults)).reverse =
      [{ result := resultA, gm_names := ["GM_A".toList, "GM_B".toList], count := 2 },
        { result := resultC, gm_names := ["GM_C".toList], count := 1 }] ∧
    writeOutput (List.insertionSort (fun a b => a.count ≤ b.count)) lastSegment []
        threeResults "maps/m1.txt".toList "so/algo_1.so".toList "so/algo_2.so".toList =
      ("game_map=m1.txt\nalgorithm1=algo_1.so\nalgorithm2=algo_2.so\n\n" ++
        "GM_A, GM_B\nPlayer 1 won with 2 tanks still alive\n100\n1 \n#1\n\n" ++
        "GM_C\nTie, reached max steps = 42, player 1 has 1 tanks, player 2 has 1 tanks\n" ++
        "42\n12\n").toList := by
  haveI : IsTotal GameResultInfo (fun a b => a.count ≤ b.count) :=
    ⟨fun a b => le_total a.count b.count⟩
  haveI : IsTrans GameResultInfo (fun a b => a.count ≤ b.count) :=
    ⟨fun a b c hab hbc => le_trans hab hbc⟩
  refine ⟨writeOutput_order _ lastSegment threeResults _ _ _
    (fun l => List.perm_insertionSort _ l) (fun l => ?_), by decide!, by decide!⟩
  exact (List.sorted_insertionSort (fun a b : GameResultInfo => a.count ≤ b.count) l).imp
    (fun h => not_lt.mpr h)

theorem keyOf_eq (a b : Nat) (ha : a < 2 ^ 32) (hb : b < 2 ^ 32) :
    keyOf a b = 2 ^ 32 * (if a > b then b else a) + (if a > b then a else b) := by
  unfold keyOf
  simp only []
  have hlo : (if a > b then b else a) < 2 ^ 32 := by split <;> assumption
  have hhi : (if a > b then a else b) < 2 ^ 32 := by split <;> assumption
  rw [Nat.shiftLeft_eq, Nat.mod_eq_of_lt (by omega), Nat.mul_comm,
    ← Nat.mul_add_lt_is_or hhi]

/-- Two keys of pairs of `uint32_t` values agree exactly for the same unordered pair. -/
theorem keyOf_inj (a b c d : Nat) (ha : a < 2 ^ 32) (hb : b < 2 ^ 32) (hc : c < 2 ^ 32)
    (hd : d < 2 ^ 32) :
    keyOf a b = keyOf c d ↔ (a = c ∧ b = d) ∨ (a = d ∧ b = c) := by
  rw [keyOf_eq a b ha hb, keyOf_eq c d hc hd]
  constructor
  · intro h
    split_ifs at h <;> omega
  · intro h
    split_ifs <;> omega

/-- The opponent of `i` when nothing wraps. -/
theorem opponent_eq (n r i : Nat) (hn : n ≤ 2 ^ 31) (hr : r + 1 < n) (hi : i < n) :
    ((i + 1 + r % 2 ^ 32) % 2 ^ 32) % (n % 2 ^ 32) = (i + 1 + r) % n := by
  rw [Nat.mod_eq_of_lt (show r < 2 ^ 32 by omega),
    Nat.mod_eq_of_lt (show i + 1 + r < 2 ^ 32 by omega),
    Nat.mod_eq_of_lt (show n < 2 ^ 32 by omega)]

theorem opponent_cases (n r i : Nat) (hr : r + 1 < n) (hi : i < n) :
    (i + 1 + r) % n = if i + 1 + r < n then i + 1 + r else i + 1 + r - n := by
  split_ifs with h
  · exact Nat.mod_eq_of_lt h
  · rw [Nat.mod_eq_sub_mod (by omega), Nat.mod_eq_of_lt (by omega)]

theorem rotation_lt (n k : Nat) (hn : 2 ≤ n) : k % (n - 1) + 1 < n := by
  have := Nat.mod_lt k (show 0 < n - 1 by omega)
  omega


theorem appearances_nil (a : Nat) : appearances [] a = 0 := rfl

theorem appearances_cons (g : Nat × Nat × Nat) (games : List (Nat × Nat × Nat)) (a : Nat) :
    appearances (g :: games) a =
      (if a = g.2.1 then 1 else 0) + (if a = g.2.2 then 1 else 0) + appearances games a := by
  unfold appearances
  simp only [List.map_cons, List.count_cons, beq_iff_eq]
  split_ifs <;> omega

theorem appearances_append (g h : List (Nat × Nat × Nat)) (a : Nat) :
    appearances (g ++ h) a = appearances g a + appearances h a := by
  unfold appearances
  simp only [List.map_append, List.count_append]
  omega

theorem bumpUsage_twice (usage : Nat → Int) (i j a : Nat) :
    bumpUsage (bumpUsage usage i) j a =
      usage a + (((if a = i then 1 else 0) + (if a = j then 1 else 0) : Nat) : Int) := by
  unfold bumpUsage
  split_ifs <;> push_cast <;> omega

/-- The inner loop over indices whose keys are new and pairwise different schedules a game
for every index. -/
theorem scheduleStep_fresh (n shift k : Nat) (opp : Nat → Nat) :
    ∀ (L : List Nat) (seen : List Nat) (sched : Schedule),
    (∀ i ∈ L, ((i + 1 + shift) % 2 ^ 32) % (n % 2 ^ 32) = opp i) →
    (L.map (fun i => keyOf i (opp i))).Nodup →
    (∀ i ∈ L, keyOf i (opp i) ∉ seen) →
    (L.foldl (scheduleStep n shift k) (seen, sched)).1 =
        (L.map (fun i => keyOf i (opp i))).reverse ++ seen ∧
      (L.foldl (scheduleStep n shift k) (seen, sched)).2.scheduledGames_ =
        sched.scheduledGames_ ++ L.map (fun i => (k, i, opp i)) ∧
      ∀ a, (L.foldl (scheduleStep n shift k) (seen, sched)).2.algoUsageCounts_ a =
        sched.algoUsageCounts_ a + (appearances (L.map (fun i => (k, i, opp i))) a : Nat)
  | [], seen, sched, _, _, _ => by simp [appearances_nil]
  | i :: L, seen, sched, hopp, hnd, hnew => by
    have hstep : scheduleStep n shift k (seen, sched) i =
        (keyOf i (opp i) :: seen,
          { scheduledGames_ := sched.scheduledGames_ ++ [(k, i, opp i)],
            algoUsageCounts_ := bumpUsage (bumpUsage sched.algoUsageCounts_ i) (opp i) }) := by
      unfold scheduleStep
      simp only []
      rw [hopp i (List.mem_cons_self _ _), if_neg (hnew i (List.mem_cons_self _ _))]
    rw [List.map_cons, List.nodup_cons] at hnd
    have ih := scheduleStep_fresh n shift k opp L (keyOf i (opp i) :: seen)
      { scheduledGames_ := sched.scheduledGames_ ++ [(k, i, opp i)],
        algoUsageCounts_ := bumpUsage (bumpUsage sched.algoUsageCounts_ i) (opp i) }
      (fun x hx => hopp x (List.mem_cons_of_mem _ hx)) hnd.2
      (by
        intro x hx hmem
        rcases List.mem_cons.mp hmem with e | hmem
        · exact hnd.1 (by rw [← e]; exact List.mem_map_of_mem _ hx)
        · exact hnew x (List.mem_cons_of_mem _ hx) hmem)
    rw [List.foldl_cons, hstep]
    obtain ⟨ih1, ih2, ih3⟩ := ih
    refine ⟨?_, ?_, ?_⟩
    · rw [ih1]; simp
    · rw [ih2]; simp
    · intro a
      rw [ih3 a, List.map_cons, appearances_cons]
      simp only []
      rw [bumpUsage_twice]
      push_cast
      omega

/-- The inner loop over indices whose keys are all in the set schedules nothing. -/
theorem scheduleStep_stale (n shift k : Nat) :
    ∀ (L : List Nat) (seen : List Nat) (sched : Schedule),
    (∀ i ∈ L, keyOf i (((i + 1 + shift) % 2 ^ 32) % (n % 2 ^ 32)) ∈ seen) →
    L.foldl (scheduleStep n shift k) (seen, sched) = (seen, sched)
  | [], _, _, _ => rfl
  | i :: L, seen, sched, h => by
    have hstep : scheduleStep n shift k (seen, sched) i = (seen, sched) := by
      unfold scheduleStep
      simp only []
      rw [if_pos (h i (List.mem_cons_self _ _))]
    rw [List.foldl_cons, hstep]
    exact scheduleStep_stale n shift k L seen sched
      (fun x hx => h x (List.mem_cons_of_mem _ hx))

/-- Two indices below `n` with the same unordered pair are the same index, unless `n` is even
and the rotation is `n / 2 - 1`. -/
theorem pair_inj (n r i i' : Nat) (hr : r + 1 < n) (hi : i < n) (hi' : i' < n)
    (hmid : ¬ (n % 2 = 0 ∧ r = n / 2 - 1))
    (h : (i = i' ∧ (i + 1 + r) % n = (i' + 1 + r) % n) ∨
      (i = (i' + 1 + r) % n ∧ (i + 1 + r) % n = i')) : i = i' := by
  rw [opponent_cases n r i hr hi, opponent_cases n r i' hr hi'] at h
  split_ifs at h <;> omega

theorem opponent_lt (n r i : Nat) (hr : r + 1 < n) : (i + 1 + r) % n < n :=
  Nat.mod_lt _ (by omega)

theorem opponent_ne (n r i : Nat) (hr : r + 1 < n) (hi : i < n) : (i + 1 + r) % n ≠ i := by
  rw [opponent_cases n r i hr hi]
  split_ifs <;> omega

/-- The games of one map when no unordered pair comes twice. -/
theorem scheduleMap_full (n k : Nat) (sched : Schedule) (hn : 2 ≤ n) (hn' : n ≤ 2 ^ 31)
    (hmid : ¬ (n % 2 = 0 ∧ k % (n - 1) = n / 2 - 1)) :
    (scheduleMap n sched k).scheduledGames_ =
        sched.scheduledGames_ ++
          (List.range n).map (fun i => (k, i, (i + 1 + k % (n - 1)) % n)) ∧
      ∀ a, (scheduleMap n sched k).algoUsageCounts_ a =
        sched.algoUsageCounts_ a +
          (appearances ((List.range n).map (fun i => (k, i, (i + 1 + k % (n - 1)) % n))) a :
            Nat) := by
  have hr := rotation_lt n k hn
  have hmod : n % 2 ^ 32 = n := Nat.mod_eq_of_lt (by omega)
  have h := scheduleStep_fresh n (k % (n - 1) % 2 ^ 32) k
    (fun i => (i + 1 + k % (n - 1)) % n) (List.range n) [] sched
    (fun i hi => opponent_eq n _ i hn' hr (List.mem_range.mp hi))
    (by
      refine List.Nodup.map_on ?_ (List.nodup_range n)
      intro x hx y hy hxy
      rw [List.mem_range] at hx hy
      beta_reduce at hxy
      rw [keyOf_inj _ _ _ _ (by omega) (by have := opponent_lt n (k % (n - 1)) x hr; omega)
        (by omega) (by have := opponent_lt n (k % (n - 1)) y hr; omega)] at hxy
      exact pair_inj n _ x y hr hx hy hmid hxy)
    (by simp)
  unfold scheduleMap
  simp only []
  rw [hmod]
  exact ⟨h.2.1, h.2.2⟩

/-- The games of one map when `n` is even and the rotation is `n / 2 - 1`: the second half
of the indices repeats the pairs of the first half. -/
theorem scheduleMap_half (n k : Nat) (sched : Schedule) (hn : 2 ≤ n) (hn' : n ≤ 2 ^ 31)
    (hmid : n % 2 = 0 ∧ k % (n - 1) = n / 2 - 1) :
    (scheduleMap n sched k).scheduledGames_ =
        sched.scheduledGames_ ++
          (List.range (n / 2)).map (fun i => (k, i, (i + 1 + k % (n - 1)) % n)) ∧
      ∀ a, (scheduleMap n sched k).algoUsageCounts_ a =
        sched.algoUsageCounts_ a +
          (appearances ((List.range (n / 2)).map
            (fun i => (k, i, (i + 1 + k % (n - 1)) % n))) a : Nat) := by
  have hr := rotation_lt n k hn
  have hmod : n % 2 ^ 32 = n := Nat.mod_eq_of_lt (by omega)
  have hsplit : List.range n =
      List.range (n / 2) ++ (List.range (n / 2)).map (fun i => n / 2 + i) := by
    have e : n = n / 2 + n / 2 := by omega
    conv_lhs => rw [e]
    exact List.range_add _ _
  have h := scheduleStep_fresh n (k % (n - 1) % 2 ^ 32) k
    (fun i => (i + 1 + k % (n - 1)) % n) (List.range (n / 2)) [] sched
    (fun i hi => opponent_eq n _ i hn' hr (by have := List.mem_range.mp hi; omega))
    (by
      refine List.Nodup.map_on ?_ (List.nodup_range _)
      intro x hx y hy hxy
      rw [List.mem_range] at hx hy
      beta_reduce at hxy
      rw [keyOf_inj _ _ _ _ (by omega) (by have := opponent_lt n (k % (n - 1)) x hr; omega)
        (by omega) (by have := opponent_lt n (k % (n - 1)) y hr; omega),
        opponent_cases n _ x hr (by omega), opponent_cases n _ y hr (by omega)] at hxy
      split_ifs at hxy <;> omega)
    (by simp)
  have hstale := scheduleStep_stale n (k % (n - 1) % 2 ^ 32) k
    ((List.range (n / 2)).map (fun i => n / 2 + i))
    ((List.range (n / 2)).foldl (scheduleStep n (k % (n - 1) % 2 ^ 32) k) ([], sched)).1
    ((List.range (n / 2)).foldl (scheduleStep n (k % (n - 1) % 2 ^ 32) k) ([], sched)).2
    (by
      intro x hx
      obtain ⟨i, hi, rfl⟩ := List.mem_map.mp hx
      rw [List.mem_range] at hi
      rw [h.1, opponent_eq n _ _ hn' hr (by omega), List.append_nil, List.mem_reverse,
        List.mem_map]
      refine ⟨i, List.mem_range.mpr hi, ?_⟩
      beta_reduce
      rw [keyOf_inj _ _ _ _ (by omega) (by have := opponent_lt n (k % (n - 1)) i hr; omega)
        (by omega) (by have := opponent_lt n (k % (n - 1)) (n / 2 + i) hr; omega),
        opponent_cases n _ i hr (by omega), opponent_cases n _ (n / 2 + i) hr (by omega)]
      split_ifs <;> omega)
  unfold scheduleMap
  simp only []
  rw [hmod, hsplit, List.foldl_append, hstale]
  exact ⟨h.2.1, h.2.2⟩

/-- The games that `scheduleGames` adds for one map are the games of the round-robin
scheme. -/
theorem scheduleMap_eq (n k : Nat) (sched : Schedule) (hn : 2 ≤ n) (hn' : n ≤ 2 ^ 31) :
    (scheduleMap n sched k).scheduledGames_ = sched.scheduledGames_ ++ gamesOnMap n k ∧
      ∀ a, (scheduleMap n sched k).algoUsageCounts_ a =
        sched.algoUsageCounts_ a + (appearances (gamesOnMap n k) a : Nat) := by
  unfold gamesOnMap
  by_cases hmid : n % 2 = 0 ∧ k % (n - 1) = n / 2 - 1
  · rw [if_pos hmid]
    exact scheduleMap_half n k sched hn hn' hmid
  · rw [if_neg hmid]
    exact scheduleMap_full n k sched hn hn' hmid

/-- The outer loop over a list of map indices. -/
theorem scheduleMaps_eq (n : Nat) (hn : 2 ≤ n) (hn' : n ≤ 2 ^ 31) :
    ∀ (ks : List Nat) (sched : Schedule),
    (ks.foldl (scheduleMap n) sched).scheduledGames_ =
        sched.scheduledGames_ ++ ks.flatMap (gamesOnMap n) ∧
      ∀ a, (ks.foldl (scheduleMap n) sched).algoUsageCounts_ a =
        sched.algoUsageCounts_ a + (appearances (ks.flatMap (gamesOnMap n)) a : Nat)
  | [], sched => by simp [appearances_nil]
  | k :: ks, sched => by
    obtain ⟨h1, h2⟩ := scheduleMap_eq n k sched hn hn'
    obtain ⟨ih1, ih2⟩ := scheduleMaps_eq n hn hn' ks (scheduleMap n sched k)
    rw [List.foldl_cons, List.flatMap_cons]
    refine ⟨by rw [ih1, h1, List.append_assoc], ?_⟩
    intro a
    rw [ih2 a, h2 a, appearances_append]
    push_cast
    omega

theorem scheduleGames_eq (n m : Nat) (sched : Schedule) (hn : 2 ≤ n) (hn' : n ≤ 2 ^ 31) :
    (scheduleGames n m sched).scheduledGames_ =
        sched.scheduledGames_ ++ (List.range m).flatMap (gamesOnMap n) ∧
      ∀ a, (scheduleGames n m sched).algoUsageCounts_ a =
        sched.algoUsageCounts_ a +
          (appearances ((List.range m).flatMap (gamesOnMap n)) a : Nat) := by
  unfold scheduleGames
  rw [if_neg (by omega)]
  exact scheduleMaps_eq n hn hn' _ sched

theorem mem_gamesOnMap (n k : Nat) (g : Nat × Nat × Nat) :
    g ∈ gamesOnMap n k ↔
      ∃ i, i < (if n % 2 = 0 ∧ k % (n - 1) = n / 2 - 1 then n / 2 else n) ∧
        (k, i, (i + 1 + k % (n - 1)) % n) = g := by
  unfold gamesOnMap
  rw [List.mem_map]
  constructor
  · rintro ⟨i, hi, e⟩
    exact ⟨i, List.mem_range.mp hi, e⟩
  · rintro ⟨i, hi, e⟩
    exact ⟨i, List.mem_range.mpr hi, e⟩

/-- On one map no unordered pair of the round-robin scheme comes twice. -/
theorem gamesOnMap_pairwise (n k : Nat) (hn : 2 ≤ n) :
    (gamesOnMap n k).Pairwise (fun g h => ¬ (h.2 = g.2 ∨ h.2 = (g.2.2, g.2.1))) := by
  have hr := rotation_lt n k hn
  unfold gamesOnMap
  rw [List.pairwise_map]
  refine List.Pairwise.imp_of_mem ?_ (List.pairwise_lt_range _)
  intro i i' hi hi' hlt
  rw [List.mem_range] at hi hi'
  simp only [Prod.mk.injEq]
  by_cases hmid : n % 2 = 0 ∧ k % (n - 1) = n / 2 - 1
  · rw [if_pos hmid] at hi hi'
    rw [opponent_cases n _ i hr (by omega), opponent_cases n _ i' hr (by omega)]
    split_ifs <;> omega
  · rw [if_neg hmid] at hi hi'
    intro h
    have := pair_inj n _ i' i hr hi' hi hmid h
    omega

/-- C19: for `2 ≤ n ≤ 2 ^ 31` algorithms, `scheduleGames` appends to the schedule, for the
map indices `k = 0 .. m - 1` in turn, the games `(i, (i + 1 + r) mod n)` with
`r = k mod (n - 1)` for `i = 0 .. n - 1`, or for `i = 0 .. n / 2 - 1` when `n` is even and
`r = n / 2 - 1` (`n` games, or `n / 2` games); no unordered pair comes twice on one map; and
the usage count of every algorithm grows by the number of scheduled games it takes part
in. -/
theorem scheduleGames_round_robin (n m : Nat) (sched : Schedule) (hn : 2 ≤ n)
    (hn' : n ≤ 2 ^ 31) :
    (scheduleGames n m sched).scheduledGames_ =
        sched.scheduledGames_ ++ (List.range m).flatMap (gamesOnMap n) ∧
    (∀ a, (scheduleGames n m sched).algoUsageCounts_ a =
      sched.algoUsageCounts_ a +
        (appearances ((List.range m).flatMap (gamesOnMap n)) a : Nat)) ∧
    (∀ k, gamesOnMap n k =
      (List.range (if n % 2 = 0 ∧ k % (n - 1) = n / 2 - 1 then n / 2 else n)).map
        (fun i => (k, i, (i + 1 + k % (n - 1)) % n))) ∧
    (∀ k, (gamesOnMap n k).length =
      if n % 2 = 0 ∧ k % (n - 1) = n / 2 - 1 then n / 2 else n) ∧
    (∀ k, (gamesOnMap n k).Pairwise (fun g h => ¬ (h.2 = g.2 ∨ h.2 = (g.2.2, g.2.1)))) := by
  obtain ⟨h1, h2⟩ := scheduleGames_eq n m sched hn hn'
  refine ⟨h1, h2, fun k => rfl, fun k => ?_, fun k => gamesOnMap_pairwise n k hn⟩
  unfold gamesOnMap
  rw [List.length_map, List.length_range]

/-- C19 witness: 4 algorithms on 3 maps give 4 + 2 + 4 = 10 games and usage 5 for every
algorithm; 3 algorithms on 1 map give 3 games and usage 2 for every algorithm. -/
theorem scheduleGames_round_robin_witness :
    ((scheduleGames 4 3 emptySchedule).scheduledGames_ =
        emptySchedule.scheduledGames_ ++ (List.range 3).flatMap (gamesOnMap 4) ∧
      (∀ a, (scheduleGames 4 3 emptySchedule).algoUsageCounts_ a =
        emptySchedule.algoUsageCounts_ a +
          (appearances ((List.range 3).flatMap (gamesOnMap 4)) a : Nat)) ∧
      (∀ k, gamesOnMap 4 k =
        (List.range (if 4 % 2 = 0 ∧ k % (4 - 1) = 4 / 2 - 1 then 4 / 2 else 4)).map
          (fun i => (k, i, (i + 1 + k % (4 - 1)) % 4))) ∧
      (∀ k, (gamesOnMap 4 k).length =
        if 4 % 2 = 0 ∧ k % (4 - 1) = 4 / 2 - 1 then 4 / 2 else 4) ∧
      (∀ k, (gamesOnMap 4 k).Pairwise
        (fun g h => ¬ (h.2 = g.2 ∨ h.2 = (g.2.2, g.2.1))))) ∧
    (scheduleGames 4 3 emptySchedule).scheduledGames_ =
      [(0, 0, 1), (0, 1, 2), (0, 2, 3), (0, 3, 0), (1, 0, 2), (1, 1, 3),
        (2, 0, 3), (2, 1, 0), (2, 2, 1), (2, 3, 2)] ∧
    (scheduleGames 4 3 emptySchedule).scheduledGames_.length = 10 ∧
    (List.range 4).map (scheduleGames 4 3 emptySchedule).algoUsageCounts_ = [5, 5, 5, 5] ∧
    (scheduleGames 3 1 emptySchedule).scheduledGames_ = [(0, 0, 1), (0, 1, 2), (0, 2, 0)] ∧
    (List.range 3).map (scheduleGames 3 1 emptySchedule).algoUsageCounts_ = [2, 2, 2] :=
  ⟨scheduleGames_round_robin 4 3 emptySchedule (by decide) (by norm_num), by decide!,
    by decide!, by decide!, by decide!, by decide!⟩

/-- C20: for `2 ≤ n ≤ 2 ^ 31` algorithms and `m ≥ n - 1` maps, every game that
`scheduleGames` schedules is between two different algorithms below `n`, and every unordered
pair of different algorithms below `n` is scheduled on at least one map. -/
theorem scheduleGames_covers (n m : Nat) (hn : 2 ≤ n) (hn' : n ≤ 2 ^ 31) (hm : n - 1 ≤ m) :
    (∀ g ∈ (scheduleGames n m emptySchedule).scheduledGames_,
      g.2.1 ≠ g.2.2 ∧ g.2.1 < n ∧ g.2.2 < n ∧ g.1 < m) ∧
    (∀ a b, a < n → b < n → a ≠ b →
      ∃ g ∈ (scheduleGames n m emptySchedule).scheduledGames_,
        g.2 = (a, b) ∨ g.2 = (b, a)) := by
  have hg : (scheduleGames n m emptySchedule).scheduledGames_ =
      (List.range m).flatMap (gamesOnMap n) := by
    rw [(scheduleGames_eq n m emptySchedule hn hn').1]
    rfl
  rw [hg]
  constructor
  · intro g hg
    rw [List.mem_flatMap] at hg
    obtain ⟨k, hk, hgk⟩ := hg
    rw [List.mem_range] at hk
    obtain ⟨i, hi, rfl⟩ := (mem_gamesOnMap n k g).mp hgk
    have hr := rotation_lt n k hn
    have hin : i < n := by split_ifs at hi <;> omega
    exact ⟨(opponent_ne n _ i hr hin).symm, hin, opponent_lt n _ i hr, hk⟩
  · intro a b ha hb hab
    obtain ⟨k, hk, hkb⟩ : ∃ k, k < n - 1 ∧ (a + 1 + k) % n = b := by
      by_cases h : a < b
      · exact ⟨b - a - 1, by omega, by
          rw [Nat.mod_eq_of_lt (by omega)]; omega⟩
      · exact ⟨b + n - a - 1, by omega, by
          rw [Nat.mod_eq_sub_mod (by omega), Nat.mod_eq_of_lt (by omega)]; omega⟩
    have hkm : k % (n - 1) = k := Nat.mod_eq_of_lt hk
    have hr : k + 1 < n := by omega
    by_cases hmid : n % 2 = 0 ∧ k % (n - 1) = n / 2 - 1
    · by_cases hlow : a < n / 2
      · refine ⟨(k, a, b), ?_, Or.inl rfl⟩
        rw [List.mem_flatMap]
        refine ⟨k, List.mem_range.mpr (by omega), ?_⟩
        rw [mem_gamesOnMap, if_pos hmid]
        exact ⟨a, hlow, by rw [hkm, hkb]⟩
      · refine ⟨(k, b, a), ?_, Or.inr rfl⟩
        rw [List.mem_flatMap]
        refine ⟨k, List.mem_range.mpr (by omega), ?_⟩
        rw [mem_gamesOnMap, if_pos hmid]
        rw [hkm] at hmid ⊢
        rw [opponent_cases n k a hr ha] at hkb
        refine ⟨b, by split_ifs at hkb <;> omega, ?_⟩
        rw [opponent_cases n k b hr hb]
        have : (if b + 1 + k < n then b + 1 + k else b + 1 + k - n) = a := by
          split_ifs at hkb ⊢ <;> omega
        rw [this]
    · refine ⟨(k, a, b), ?_, Or.inl rfl⟩
      rw [List.mem_flatMap]
      refine ⟨k, List.mem_range.mpr (by omega), ?_⟩
      rw [mem_gamesOnMap, if_neg hmid]
      exact ⟨a, ha, by rw [hkm, hkb]⟩

/-- C20 witness: 4 algorithms on 3 maps; the six unordered pairs are all scheduled, the pair
of algorithms 1 and 3 on map 1. -/
theorem scheduleGames_covers_witness :
    ((∀ g ∈ (scheduleGames 4 3 emptySchedule).scheduledGames_,
        g.2.1 ≠ g.2.2 ∧ g.2.1 < 4 ∧ g.2.2 < 4 ∧ g.1 < 3) ∧
      (∀ a b, a < 4 → b < 4 → a ≠ b →
        ∃ g ∈ (scheduleGames 4 3 emptySchedule).scheduledGames_,
          g.2 = (a, b) ∨ g.2 = (b, a))) ∧
    (1, 1, 3) ∈ (scheduleGames 4 3 emptySchedule).scheduledGames_ ∧
    (scheduleGames 2 1 emptySchedule).scheduledGames_ = [(0, 0, 1)] :=
  ⟨scheduleGames_covers 4 3 (by decide) (by norm_num) (by decide), by decide!, by decide!⟩

/-! ## Scores -/

theorem scoreOf_nil (name : Str) : scoreOf [] name = none := rfl

theorem scoreOf_cons (e : Str × Int) (rest : Scores) (name : Str) :
    scoreOf (e :: rest) name = if e.1 = name then some e.2 else scoreOf rest name := by
  unfold scoreOf
  rw [List.find?_cons]
  by_cases h : e.1 = name
  · simp [h]
  · simp [h]

/-- The entry of `name` after `scores_[name] += d`. -/
theorem scoreOf_addScore_self : ∀ (scores_ : Scores) (name : Str) (d : Int),
    scoreOf (addScore scores_ name d) name = some ((scoreOf scores_ name).getD 0 + d)
  | [], name, d => by simp [addScore, scoreOf_cons, scoreOf_nil]
  | e :: rest, name, d => by
    unfold addScore
    by_cases h : e.1 = name
    · rw [if_pos h, scoreOf_cons, scoreOf_cons, if_pos h, if_pos h]
      rfl
    · rw [if_neg h, scoreOf_cons, scoreOf_cons, if_neg h, if_neg h]
      exact scoreOf_addScore_self rest name d

/-- The entry of another name after `scores_[name] += d`. -/
theorem scoreOf_addScore_other : ∀ (scores_ : Scores) (name other : Str) (d : Int),
    other ≠ name → scoreOf (addScore scores_ name d) other = scoreOf scores_ other
  | [], name, other, d, h => by
    simp [addScore, scoreOf_cons, scoreOf_nil, Ne.symm h]
  | e :: rest, name, other, d, h => by
    unfold addScore
    by_cases h1 : e.1 = name
    · rw [if_pos h1, scoreOf_cons, scoreOf_cons]
      have : ¬ e.1 = other := by rw [h1]; exact Ne.symm h
      rw [if_neg this, if_neg this]
    · rw [if_neg h1, scoreOf_cons, scoreOf_cons,
        scoreOf_addScore_other rest name other d h]

/-- C21: `updateScore(w, l, false)` adds 3 to the score of `w` (a missing entry counts as
0) and leaves the score of every other name, `l` included, as it is;
`updateScore(x, y, true)` with `x ≠ y` adds 1 to the score of `x` and 1 to the score of `y`
and leaves the score of every other name as it is. -/
theorem updateScore_frame (scores_ : Scores) (w l x y : Str) (hxy : x ≠ y) :
    scoreOf (updateScore scores_ w l false) w = some ((scoreOf scores_ w).getD 0 + 3) ∧
    (∀ other, other ≠ w →
      scoreOf (updateScore scores_ w l false) other = scoreOf scores_ other) ∧
    scoreOf (updateScore scores_ x y true) x = some ((scoreOf scores_ x).getD 0 + 1) ∧
    scoreOf (updateScore scores_ x y true) y = some ((scoreOf scores_ y).getD 0 + 1) ∧
    (∀ other, other ≠ x → other ≠ y →
      scoreOf (updateScore scores_ x y true) other = scoreOf scores_ other) := by
  unfold updateScore
  simp only [Bool.false_eq_true, if_false, if_true]
  refine ⟨scoreOf_addScore_self _ _ _, fun other h => scoreOf_addScore_other _ _ _ _ h, ?_, ?_,
    ?_⟩
  · rw [scoreOf_addScore_other _ _ _ _ hxy, scoreOf_addScore_self]
  · rw [scoreOf_addScore_self, scoreOf_addScore_other _ _ _ _ (Ne.symm hxy)]
  · intro other h1 h2
    rw [scoreOf_addScore_other _ _ _ _ h2, scoreOf_addScore_other _ _ _ _ h1]

/-- C21 witness: the table with `A`, `B`, `C` at score 0; a tie of `A` and `B` followed by a
win of `A` over `C` gives `A` 4, `B` 1 and `C` 0. -/
theorem updateScore_frame_witness :
    (scoreOf (updateScore [("A".toList, 0), ("B".toList, 0), ("C".toList, 0)]
        "A".toList "C".toList false) "A".toList =
      some ((scoreOf [("A".toList, 0), ("B".toList, 0), ("C".toList, 0)] "A".toList).getD 0
        + 3) ∧
    (∀ other, other ≠ "A".toList →
      scoreOf (updateScore [("A".toList, 0), ("B".toList, 0), ("C".toList, 0)]
        "A".toList "C".toList false) other =
      scoreOf [("A".toList, 0), ("B".toList, 0), ("C".toList, 0)] other) ∧
    scoreOf (updateScore [("A".toList, 0), ("B".toList, 0), ("C".toList, 0)]
        "A".toList "B".toList true) "A".toList =
      some ((scoreOf [("A".toList, 0), ("B".toList, 0), ("C".toList, 0)] "A".toList).getD 0
        + 1) ∧
    scoreOf (updateScore [("A".toList, 0), ("B".toList, 0), ("C".toList, 0)]
        "A".toList "B".toList true) "B".toList =
      some ((scoreOf [("A".toList, 0), ("B".toList, 0), ("C".toList, 0)] "B".toList).getD 0
        + 1) ∧
    (∀ other, other ≠ "A".toList → other ≠ "B".toList →
      scoreOf (updateScore [("A".toList, 0), ("B".toList, 0), ("C".toList, 0)]
        "A".toList "B".toList true) other =
      scoreOf [("A".toList, 0), ("B".toList, 0), ("C".toList, 0)] other)) ∧
    updateScore (updateScore [("A".toList, 0), ("B".toList, 0), ("C".toList, 0)]
        "A".toList "B".toList true) "A".toList "C".toList false =
      [("A".toList, 4), ("B".toList, 1), ("C".toList, 0)] :=
  ⟨updateScore_frame _ "A".toList "C".toList "A".toList "B".toList (by decide), by decide⟩


/-! ## Output of the competition -/

theorem scoreLines_fold : ∀ (entries : Scores) (dest : Str),
    entries.foldl (fun dest e => dest ++ e.1 ++ [' '] ++ intStr e.2 ++ ['\n']) dest =
      dest ++ entries.flatMap scoreLine
  | [], dest => by simp
  | e :: rest, dest => by
    rw [List.foldl_cons, scoreLines_fold rest, List.flatMap_cons]
    simp [scoreLine, List.append_assoc]

/-- C22: with `std::sort` returning its input rearranged so that no entry comes before an
entry of higher score, the text that `writeOutput` writes is the two header lines, a blank
line and the lines `<name> <score>` of the entries in the order `sort scores_`: that order
is a permutation of the entries of the score table and the scores do not increase along
it. -/
theorem writeOutput_scores_sorted (sort : Scores → Scores) (filename : Str → Str)
    (scores_ : Scores) (mapFolder gmSoPath : Str)
    (hperm : ∀ l, (sort l).Perm l)
    (hsorted : ∀ l, (sort l).Pairwise (fun a b => ¬ a.2 < b.2)) :
    Competitive.writeOutput sort filename scores_ mapFolder gmSoPath =
      "game_maps_folder=".toList ++ mapFolder ++ ['\n'] ++
        "game_manager=".toList ++ filename gmSoPath ++ ['\n', '\n'] ++
        (sort scores_).flatMap scoreLine ∧
    (sort scores_).Perm scores_ ∧
    (sort scores_).Pairwise (fun a b => b.2 ≤ a.2) := by
  refine ⟨?_, hperm _, (hsorted scores_).imp (fun h => not_lt.mp h)⟩
  unfold Competitive.writeOutput
  simp only []
  rw [scoreLines_fold]

/-- C22 witness: insertion sort on the table `Gamma 5`, `Alpha 12`, `Beta 8`. -/
theorem writeOutput_scores_sorted_witness :
    (Competitive.writeOutput (List.insertionSort (fun a b => b.2 ≤ a.2)) lastSegment
        [("Gamma".toList, 5), ("Alpha".toList, 12), ("Beta".toList, 8)] "/maps".toList
        "/some/path/GameManager.so".toList =
      "game_maps_folder=".toList ++ "/maps".toList ++ ['\n'] ++
        "game_manager=".toList ++ lastSegment "/some/path/GameManager.so".toList ++
        ['\n', '\n'] ++
        (List.insertionSort (fun a b => b.2 ≤ a.2)
          [("Gamma".toList, 5), ("Alpha".toList, 12), ("Beta".toList, 8)]).flatMap
          scoreLine ∧
      (List.insertionSort (fun a b => b.2 ≤ a.2)
        [("Gamma".toList, (5 : Int)), ("Alpha".toList, 12), ("Beta".toList, 8)]).Perm
        [("Gamma".toList, 5), ("Alpha".toList, 12), ("Beta".toList, 8)] ∧
      (List.insertionSort (fun a b => b.2 ≤ a.2)
        [("Gamma".toList, (5 : Int)), ("Alpha".toList, 12), ("Beta".toList, 8)]).Pairwise
        (fun a b => b.2 ≤ a.2)) ∧
    Competitive.writeOutput (List.insertionSort (fun a b => b.2 ≤ a.2)) lastSegment
        [("Gamma".toList, 5), ("Alpha".toList, 12), ("Beta".toList, 8)] "/maps".toList
        "/some/path/GameManager.so".toList =
      ("game_maps_folder=/maps\ngame_manager=GameManager.so\n\n" ++
        "Alpha 12\nBeta 8\nGamma 5\n").toList := by
  haveI : IsTotal (Str × Int) (fun a b => b.2 ≤ a.2) := ⟨fun a b => le_total b.2 a.2⟩
  haveI : IsTrans (Str × Int) (fun a b => b.2 ≤ a.2) :=
    ⟨fun a b c hab hbc => le_trans hbc hab⟩
  refine ⟨writeOutput_scores_sorted _ lastSegment _ _ _
    (fun l => List.perm_insertionSort _ l) (fun l => ?_), by decide!⟩
  exact (List.sorted_insertionSort (fun a b : Str × Int => b.2 ≤ a.2) l).imp
    (fun h => not_lt.mpr h)


/-! ## The `num_threads` argument -/

/-- When `num_threads` is accepted, it is absent or its value is a non-empty string of
decimal digits that denotes a number between 1 and `2 ^ 63 - 1`; a value below `2 ^ 31` is
handed out as it is, and a missing key gives 1. -/
theorem parseNumThreadsStrict_accepts (kv : Str → Option Str) (out : Int)
    (h : (parseNumThreadsStrict kv out).1 = true) :
    (kv "num_threads".toList = none ∧ (parseNumThreadsStrict kv out).2 = 1) ∨
    ∃ s, kv "num_threads".toList = some s ∧ s ≠ [] ∧ s.all isdigit = true ∧
      1 ≤ digitsValue s ∧ digitsValue s ≤ 2 ^ 63 - 1 ∧
      (parseNumThreadsStrict kv out).2 = toInt32 (digitsValue s) ∧
      (digitsValue s < 2 ^ 31 → (parseNumThreadsStrict kv out).2 = (digitsValue s : Int)) := by
  unfold parseNumThreadsStrict at h ⊢
  cases hk : kv "num_threads".toList with
  | none => exact Or.inl ⟨rfl, rfl⟩
  | some s =>
    right
    rw [hk] at h
    simp only [] at h ⊢
    by_cases h1 : s = [] ∨ ¬ s.all isdigit = true
    · rw [if_pos h1] at h; cases h
    · rw [if_neg h1] at h ⊢
      by_cases h2 : digitsValue s > 2 ^ 63 - 1
      · rw [if_pos h2] at h; cases h
      · rw [if_neg h2] at h ⊢
        by_cases h3 : digitsValue s < 1
        · rw [if_pos h3] at h; cases h
        · rw [if_neg h3]
          push_neg at h1
          exact ⟨s, rfl, h1.1, h1.2, by omega, by omega, rfl,
            fun hlt => toInt32_of_lt _ hlt⟩

/-- The values `0`, `-3` and `3x` are rejected with the message of `parse`, a missing key
gives 1 thread, and `8` gives 8 threads. -/
theorem parseThreads_examples :
    parseThreads (threadsArg "0") =
      (1, ["Invalid value for num_threads (must be a positive integer).".toList]) ∧
    parseThreads (threadsArg "-3") =
      (1, ["Invalid value for num_threads (must be a positive integer).".toList]) ∧
    parseThreads (threadsArg "3x") =
      (1, ["Invalid value for num_threads (must be a positive integer).".toList]) ∧
    parseThreads noThreadsArg = (1, []) ∧
    parseThreads (threadsArg "8") = (8, []) := by
  decide!

/-- C23 (the code departs from the claim): the value `4294967296` of `num_threads` is a
string of decimal digits that denotes `2 ^ 32`; it is accepted without an error message and
the thread count stored is 0.  The value `2147483648` is accepted with the thread count
`-2147483648`, and `4294967297` with the thread count 1. -/
theorem num_threads_wraps_to_zero :
    digitsValue "4294967296".toList = 2 ^ 32 ∧
    parseNumThreadsStrict (threadsArg "4294967296") 1 = (true, 0) ∧
    parseThreads (threadsArg "4294967296") = (0, []) ∧
    parseThreads (threadsArg "2147483648") = (-2147483648, []) ∧
    parseThreads (threadsArg "4294967297") = (1, []) := by
  decide!

/-! ## The torus -/

theorem torus_step (x d w : Int) (hw : 1 ≤ w) (hx : 0 ≤ x) (hd : -1 ≤ d) :
    (x + d + w).tmod w = (x + d) % w := by
  rw [Int.tmod_eq_emod (by omega) (by omega), Int.add_emod_self]

theorem directionMap_bounds (dir : Direction) :
    (-1 ≤ (directionMap dir).1 ∧ (directionMap dir).1 ≤ 1) ∧
      (-1 ≤ (directionMap dir).2 ∧ (directionMap dir).2 ≤ 1) := by
  cases dir <;> decide

/-- C24: on a board of width `W >= 1` and height `H >= 1`, from a cell `(x, y)` of the
board and for a direction with offset `(dx, dy)`, `nextLocation` returns
`((x + dx) mod W, (y + dy) mod H)`, a cell of the board, and with `backwards` set
`((x - dx) mod W, (y - dy) mod H)`, a cell of the board; from `(0, y)` the direction `L`
leads to `(W - 1, y)`. -/
theorem nextLocation_torus (s : GM) (x y : Int) (dir : Direction)
    (hw : 1 ≤ s.width_) (hh : 1 ≤ s.height_)
    (hx : 0 ≤ x ∧ x < s.width_) (hy : 0 ≤ y ∧ y < s.height_) :
    nextLocation s x y dir false =
      ((x + (directionMap dir).1) % s.width_, (y + (directionMap dir).2) % s.height_) ∧
    (0 ≤ (nextLocation s x y dir false).1 ∧ (nextLocation s x y dir false).1 < s.width_ ∧
      0 ≤ (nextLocation s x y dir false).2 ∧ (nextLocation s x y dir false).2 < s.height_) ∧
    nextLocation s x y dir true =
      ((x - (directionMap dir).1) % s.width_, (y - (directionMap dir).2) % s.height_) ∧
    (0 ≤ (nextLocation s x y dir true).1 ∧ (nextLocation s x y dir true).1 < s.width_ ∧
      0 ≤ (nextLocation s x y dir true).2 ∧ (nextLocation s x y dir true).2 < s.height_) ∧
    nextLocation s 0 y Direction.L false = (s.width_ - 1, y) := by
  have hb := directionMap_bounds dir
  have hf : nextLocation s x y dir false =
      ((x + (directionMap dir).1) % s.width_, (y + (directionMap dir).2) % s.height_) := by
    unfold nextLocation
    simp only [Bool.false_eq_true, if_false]
    rw [torus_step _ _ _ hw hx.1 hb.1.1, torus_step _ _ _ hh hy.1 hb.2.1]
  have ht : nextLocation s x y dir true =
      ((x - (directionMap dir).1) % s.width_, (y - (directionMap dir).2) % s.height_) := by
    unfold nextLocation
    simp only [if_true]
    rw [torus_step x (-(directionMap dir).1) s.width_ hw hx.1 (by omega),
      torus_step y (-(directionMap dir).2) s.height_ hh hy.1 (by omega)]
    rfl
  have hpos : ∀ a w : Int, 1 ≤ w → 0 ≤ a % w ∧ a % w < w := fun a w h =>
    ⟨Int.emod_nonneg a (show w ≠ 0 by omega), Int.emod_lt_of_pos a (show 0 < w by omega)⟩
  refine ⟨hf, ?_, ht, ?_, ?_⟩
  · rw [hf]
    exact ⟨(hpos _ _ hw).1, (hpos _ _ hw).2, (hpos _ _ hh).1, (hpos _ _ hh).2⟩
  · rw [ht]
    exact ⟨(hpos _ _ hw).1, (hpos _ _ hw).2, (hpos _ _ hh).1, (hpos _ _ hh).2⟩
  · unfold nextLocation
    simp only [Bool.false_eq_true, if_false, directionMap]
    rw [torus_step 0 (-1) s.width_ hw (le_refl _) (by omega),
      torus_step y 0 s.height_ hh hy.1 (by omega)]
    have e1 : (0 + -1 : Int) % s.width_ = s.width_ - 1 := by
      have h1 : (0 + -1 + s.width_) % s.width_ = (0 + -1 : Int) % s.width_ :=
        Int.add_emod_self
      have h2 : (0 + -1 + s.width_) % s.width_ = 0 + -1 + s.width_ :=
        Int.emod_eq_of_lt (by omega) (by omega)
      omega
    have e2 : (y + 0) % s.height_ = y := by
      rw [Int.add_zero]
      exact Int.emod_eq_of_lt hy.1 hy.2
    rw [e1, e2]

/-- C24 witness: the 3 x 3 board of `crowdStart`, from `(0, 1)` in the direction `UL`. -/
theorem nextLocation_torus_witness :
    nextLocation crowdStart 0 1 Direction.UL false =
      ((0 + (directionMap Direction.UL).1) % crowdStart.width_,
        (1 + (directionMap Direction.UL).2) % crowdStart.height_) ∧
    (0 ≤ (nextLocation crowdStart 0 1 Direction.UL false).1 ∧
      (nextLocation crowdStart 0 1 Direction.UL false).1 < crowdStart.width_ ∧
      0 ≤ (nextLocation crowdStart 0 1 Direction.UL false).2 ∧
      (nextLocation crowdStart 0 1 Direction.UL false).2 < crowdStart.height_) ∧
    nextLocation crowdStart 0 1 Direction.UL true =
      ((0 - (directionMap Direction.UL).1) % crowdStart.width_,
        (1 - (directionMap Direction.UL).2) % crowdStart.height_) ∧
    (0 ≤ (nextLocation crowdStart 0 1 Direction.UL true).1 ∧
      (nextLocation crowdStart 0 1 Direction.UL true).1 < crowdStart.width_ ∧
      0 ≤ (nextLocation crowdStart 0 1 Direction.UL true).2 ∧
      (nextLocation crowdStart 0 1 Direction.UL true).2 < crowdStart.height_) ∧
    nextLocation crowdStart 0 1 Direction.L false = (crowdStart.width_ - 1, 1) :=
  nextLocation_torus crowdStart 0 1 Direction.UL (by decide!) (by decide!) (by decide!)
    (by decide!)


/-! ## Rotations -/

/-- The facing after a rotation, as a function of the facing before. -/
theorem rotate_dir (s : GM) (i : Nat) (action : ActionRequest) (hi : i < s.tanks_.length) :
    tankAt (rotate s i action) i =
      (tankAt s i).setDirection
        (match action with
          | .RotateLeft45 => Direction.castNat (((tankAt s i).dir_.toNat + 8 - 1) % 8)
          | .RotateRight45 => Direction.castNat (((tankAt s i).dir_.toNat + 1) % 8)
          | .RotateLeft90 => Direction.castNat (((tankAt s i).dir_.toNat + 8 - 2) % 8)
          | .RotateRight90 => Direction.castNat (((tankAt s i).dir_.toNat + 2) % 8)
          | _ => (tankAt s i).dir_) ∧
      i < (rotate s i action).tanks_.length := by
  unfold rotate
  exact tankAt_modifyTank_lt s i _ hi

theorem rotate_turn_table (d : Direction) :
    (Direction.castNat ((d.toNat + 8 - 1) % 8)).toNat = (d.toNat + 7) % 8 ∧
    (Direction.castNat ((d.toNat + 1) % 8)).toNat = (d.toNat + 1) % 8 ∧
    (Direction.castNat ((d.toNat + 8 - 2) % 8)).toNat = (d.toNat + 6) % 8 ∧
    (Direction.castNat ((d.toNat + 2) % 8)).toNat = (d.toNat + 2) % 8 ∧
    Direction.castNat (((Direction.castNat ((d.toNat + 8 - 1) % 8)).toNat + 1) % 8) = d ∧
    Direction.castNat (((Direction.castNat ((d.toNat + 8 - 2) % 8)).toNat + 2) % 8) = d ∧
    Direction.castNat (((Direction.castNat ((d.toNat + 1) % 8)).toNat + 8 - 1) % 8) = d ∧
    Direction.castNat (((Direction.castNat ((d.toNat + 2) % 8)).toNat + 8 - 2) % 8) = d := by
  cases d <;> decide

/-- C25: for a tank of the list, `RotateLeft45` followed by `RotateRight45` gives back the
facing, and so does `RotateLeft90` followed by `RotateRight90` (and the two in the other
order); the four rotations change the integer value of the facing by -1, +1, -2 and +2
modulo 8; and a call of `rotate` changes nothing of the tank but its facing and nothing of
the other tanks, the board and the shells. -/
theorem rotate_round_trip (s : GM) (i : Nat) (hi : i < s.tanks_.length) :
    (tankAt (rotate (rotate s i .RotateLeft45) i .RotateRight45) i).dir_ = (tankAt s i).dir_ ∧
    (tankAt (rotate (rotate s i .RotateLeft90) i .RotateRight90) i).dir_ = (tankAt s i).dir_ ∧
    (tankAt (rotate (rotate s i .RotateRight45) i .RotateLeft45) i).dir_ = (tankAt s i).dir_ ∧
    (tankAt (rotate (rotate s i .RotateRight90) i .RotateLeft90) i).dir_ = (tankAt s i).dir_ ∧
    (tankAt (rotate s i .RotateLeft45) i).dir_.toNat = ((tankAt s i).dir_.toNat + 7) % 8 ∧
    (tankAt (rotate s i .RotateRight45) i).dir_.toNat = ((tankAt s i).dir_.toNat + 1) % 8 ∧
    (tankAt (rotate s i .RotateLeft90) i).dir_.toNat = ((tankAt s i).dir_.toNat + 6) % 8 ∧
    (tankAt (rotate s i .RotateRight90) i).dir_.toNat = ((tankAt s i).dir_.toNat + 2) % 8 ∧
    ∀ action,
      tankAt (rotate s i action) i =
        (tankAt s i).setDirection (tankAt (rotate s i action) i).dir_ ∧
      (tankAt (rotate s i action) i).location_ = (tankAt s i).location_ ∧
      (tankAt (rotate s i action) i).ammo_ = (tankAt s i).ammo_ ∧
      (∀ k, k ≠ i → tankAt (rotate s i action) k = tankAt s k) ∧
      (rotate s i action).gameboard_ = s.gameboard_ ∧
      (rotate s i action).shells_ = s.shells_ := by
  have ht := rotate_turn_table (tankAt s i).dir_
  have h1 := rotate_dir s i .RotateLeft45 hi
  have h2 := rotate_dir s i .RotateRight45 hi
  have h3 := rotate_dir s i .RotateLeft90 hi
  have h4 := rotate_dir s i .RotateRight90 hi
  have h5 := rotate_dir _ i .RotateRight45 h1.2
  have h6 := rotate_dir _ i .RotateRight90 h3.2
  have h7 := rotate_dir _ i .RotateLeft45 h2.2
  have h8 := rotate_dir _ i .RotateLeft90 h4.2
  simp only [] at h1 h2 h3 h4 h5 h6 h7 h8
  refine ⟨?_, ?_, ?_, ?_, ?_, ?_, ?_, ?_, ?_⟩
  · rw [h5.1, h1.1]; exact ht.2.2.2.2.1
  · rw [h6.1, h3.1]; exact ht.2.2.2.2.2.1
  · rw [h7.1, h2.1]; exact ht.2.2.2.2.2.2.1
  · rw [h8.1, h4.1]; exact ht.2.2.2.2.2.2.2
  · rw [h1.1]; exact ht.1
  · rw [h2.1]; exact ht.2.1
  · rw [h3.1]; exact ht.2.2.1
  · rw [h4.1]; exact ht.2.2.2.1
  · intro action
    have h := rotate_dir s i action hi
    refine ⟨?_, ?_, ?_, ?_, rfl, rfl⟩
    · rw [h.1]; rfl
    · rw [h.1]; rfl
    · rw [h.1]; rfl
    · intro k hk
      unfold rotate
      by_cases hkl : k < s.tanks_.length
      · rw [tankAt_modifyTank s i k _ hkl, if_neg (Ne.symm hk)]
      · simp only [tankAt, modifyTank_tanks]
        rw [List.getD_eq_default _ _ (by simpa using hkl),
          List.getD_eq_default _ _ (by simpa using hkl)]

/-- C25 witness: tank 0 of `armedStart`. -/
theorem rotate_round_trip_witness :
    (tankAt (rotate (rotate armedStart 0 .RotateLeft45) 0 .RotateRight45) 0).dir_ =
      (tankAt armedStart 0).dir_ ∧
    (tankAt (rotate (rotate armedStart 0 .RotateLeft90) 0 .RotateRight90) 0).dir_ =
      (tankAt armedStart 0).dir_ ∧
    (tankAt (rotate (rotate armedStart 0 .RotateRight45) 0 .RotateLeft45) 0).dir_ =
      (tankAt armedStart 0).dir_ ∧
    (tankAt (rotate (rotate armedStart 0 .RotateRight90) 0 .RotateLeft90) 0).dir_ =
      (tankAt armedStart 0).dir_ ∧
    (tankAt (rotate armedStart 0 .RotateLeft45) 0).dir_.toNat =
      ((tankAt armedStart 0).dir_.toNat + 7) % 8 ∧
    (tankAt (rotate armedStart 0 .RotateRight45) 0).dir_.toNat =
      ((tankAt armedStart 0).dir_.toNat + 1) % 8 ∧
    (tankAt (rotate armedStart 0 .RotateLeft90) 0).dir_.toNat =
      ((tankAt armedStart 0).dir_.toNat + 6) % 8 ∧
    (tankAt (rotate armedStart 0 .RotateRight90) 0).dir_.toNat =
      ((tankAt armedStart 0).dir_.toNat + 2) % 8 ∧
    ∀ action,
      tankAt (rotate armedStart 0 action) 0 =
        (tankAt armedStart 0).setDirection (tankAt (rotate armedStart 0 action) 0).dir_ ∧
      (tankAt (rotate armedStart 0 action) 0).location_ = (tankAt armedStart 0).location_ ∧
      (tankAt (rotate armedStart 0 action) 0).ammo_ = (tankAt armedStart 0).ammo_ ∧
      (∀ k, k ≠ 0 → tankAt (rotate armedStart 0 action) k = tankAt armedStart k) ∧
      (rotate armedStart 0 action).gameboard_ = armedStart.gameboard_ ∧
      (rotate armedStart 0 action).shells_ = armedStart.shells_ :=
  rotate_round_trip armedStart 0 (by decide!)

/-! ## The map of `checkShellsCollide` -/

theorem pairLt_irrefl (a : Int × Int) : pairLt a a = false := by
  unfold pairLt
  simp

theorem pairLt_trans {a b c : Int × Int} (h1 : pairLt a b = true) (h2 : pairLt b c = true) :
    pairLt a c = true := by
  unfold pairLt at *
  simp only [decide_eq_true_eq] at *
  omega

theorem pairLt_total (a b : Int × Int) (h : a ≠ b) (h' : pairLt a b = false) :
    pairLt b a = true := by
  unfold pairLt at *
  simp only [decide_eq_true_eq, decide_eq_false_iff_not] at *
  have : ¬ (a.1 = b.1 ∧ a.2 = b.2) := fun e => h (Prod.ext e.1 e.2)
  omega

theorem pairLt_ne {a b : Int × Int} (h : pairLt a b = true) : a ≠ b := by
  rintro rfl
  rw [pairLt_irrefl] at h
  cases h

/-- What `shell_map[loc].emplace_back(shell)` does to a map with sorted keys whose entries
hold, in order, the shells seen so far at their key. -/
theorem shellMapInsert_spec (sh : Shell) (seen : List Shell) :
    ∀ (m : List ((Int × Int) × List Shell)),
    m.Pairwise (fun e f => pairLt e.1 f.1 = true) →
    (∀ e ∈ m, e.2 = seen.filter (fun b => decide (b.location_ = e.1)) ∧ e.2 ≠ []) →
    (∀ lo, (∀ e ∈ m, pairLt lo e.1 = true) → pairLt lo sh.location_ = true →
      ∀ e ∈ shellMapInsert sh m, pairLt lo e.1 = true) ∧
    (shellMapInsert sh m).Pairwise (fun e f => pairLt e.1 f.1 = true) ∧
    (∀ e ∈ shellMapInsert sh m,
      (e.1 = sh.location_ →
        e.2 = (if sh.location_ ∈ m.map Prod.fst
          then seen.filter (fun b => decide (b.location_ = e.1)) else []) ++ [sh]) ∧
      (e.1 ≠ sh.location_ →
        e.2 = seen.filter (fun b => decide (b.location_ = e.1)) ∧ e.2 ≠ []))
  | [], _, _ => by
    refine ⟨?_, ?_, ?_⟩
    · intro lo _ h e he
      simp only [shellMapInsert, List.mem_singleton] at he
      subst he
      exact h
    · simp [shellMapInsert]
    · intro e he
      simp only [shellMapInsert, List.mem_singleton] at he
      subst he
      simp
  | e0 :: rest, hs, hm => by
    rw [List.pairwise_cons] at hs
    have ih := shellMapInsert_spec sh seen rest hs.2
      (fun e he => hm e (List.mem_cons_of_mem _ he))
    unfold shellMapInsert
    by_cases h1 : sh.location_ = e0.1
    · rw [if_pos h1]
      refine ⟨?_, ?_, ?_⟩
      · intro lo hlo _ e he
        rcases List.mem_cons.mp he with rfl | he
        · exact hlo e0 (List.mem_cons_self _ _)
        · exact hlo e (List.mem_cons_of_mem _ he)
      · rw [List.pairwise_cons]
        exact ⟨hs.1, hs.2⟩
      · intro e he
        rcases List.mem_cons.mp he with rfl | he
        · refine ⟨fun _ => ?_, fun h => absurd h1.symm h⟩
          simp only [List.map_cons, List.mem_cons, h1, true_or, if_true]
          rw [(hm e0 (List.mem_cons_self _ _)).1]
        · have hne : e.1 ≠ sh.location_ := by
            rw [h1]; exact (pairLt_ne (hs.1 e he)).symm
          exact ⟨fun h => absurd h hne, fun _ => hm e (List.mem_cons_of_mem _ he)⟩
    · rw [if_neg h1]
      by_cases h2 : pairLt sh.location_ e0.1 = true
      · rw [if_pos h2]
        have hnot : sh.location_ ∉ (e0 :: rest).map Prod.fst := by
          intro hmem
          rcases List.mem_map.mp hmem with ⟨f, hf, hfe⟩
          rcases List.mem_cons.mp hf with rfl | hf
          · exact h1 hfe.symm
          · have := pairLt_trans h2 (hs.1 f hf)
            rw [hfe, pairLt_irrefl] at this
            cases this
        refine ⟨?_, ?_, ?_⟩
        · intro lo hlo hsh e he
          rcases List.mem_cons.mp he with rfl | he
          · exact hsh
          · exact hlo e he
        · rw [List.pairwise_cons, List.pairwise_cons]
          refine ⟨?_, hs.1, hs.2⟩
          intro f hf
          rcases List.mem_cons.mp hf with rfl | hf
          · exact h2
          · exact pairLt_trans h2 (hs.1 f hf)
        · intro e he
          rcases List.mem_cons.mp he with rfl | he
          · refine ⟨fun _ => ?_, fun h => absurd rfl h⟩
            rw [if_neg hnot]
            rfl
          · have hne : e.1 ≠ sh.location_ := by
              intro heq
              apply hnot
              rw [← heq]
              exact List.mem_map_of_mem _ he
            exact ⟨fun h => absurd h hne, fun _ => hm e he⟩
      · rw [if_neg h2]
        have h3 : pairLt e0.1 sh.location_ = true :=
          pairLt_total _ _ h1 (by simpa using h2)
        obtain ⟨ih1, ih2, ih3⟩ := ih
        refine ⟨?_, ?_, ?_⟩
        · intro lo hlo hsh e he
          rcases List.mem_cons.mp he with heq | he
          · rw [heq]; exact hlo e0 (List.mem_cons_self _ _)
          · exact ih1 lo (fun f hf => hlo f (List.mem_cons_of_mem _ hf)) hsh e he
        · rw [List.pairwise_cons]
          exact ⟨fun f hf => ih1 e0.1 hs.1 h3 f hf, ih2⟩
        · intro e he
          have hmemiff : (sh.location_ ∈ (e0 :: rest).map Prod.fst) ↔
              (sh.location_ ∈ rest.map Prod.fst) := by
            simp only [List.map_cons, List.mem_cons]
            constructor
            · rintro (h | h)
              · exact absurd h h1
              · exact h
            · exact Or.inr
          rcases List.mem_cons.mp he with heq | he
          · rw [heq]
            exact ⟨fun h => absurd h.symm h1, fun _ => hm e0 (List.mem_cons_self _ _)⟩
          · have := ih3 e he
            refine ⟨fun h => ?_, this.2⟩
            rw [this.1 h]
            by_cases hin : sh.location_ ∈ rest.map Prod.fst
            · rw [if_pos hin, if_pos (hmemiff.mpr hin)]
            · rw [if_neg hin, if_neg (fun h' => hin (hmemiff.mp h'))]


theorem shellMapInsert_keys (sh : Shell) : ∀ (m : List ((Int × Int) × List Shell))
    (k : Int × Int),
    k ∈ (shellMapInsert sh m).map Prod.fst ↔ k = sh.location_ ∨ k ∈ m.map Prod.fst
  | [], k => by simp [shellMapInsert]
  | e0 :: rest, k => by
    unfold shellMapInsert
    split_ifs with h1 h2
    · simp only [List.map_cons, List.mem_cons]
      constructor
      · rintro (h | h)
        · exact Or.inr (Or.inl h)
        · exact Or.inr (Or.inr h)
      · rintro (h | h | h)
        · exact Or.inl (h.trans h1)
        · exact Or.inl h
        · exact Or.inr h
    · simp only [List.map_cons, List.mem_cons]
    · simp only [List.map_cons, List.mem_cons, shellMapInsert_keys sh rest k]
      constructor
      · rintro (h | h | h)
        · exact Or.inr (Or.inl h)
        · exact Or.inl h
        · exact Or.inr (Or.inr h)
      · rintro (h | h | h)
        · exact Or.inr (Or.inl h)
        · exact Or.inl h
        · exact Or.inr (Or.inr h)

/-- The map built by the first loop of `checkShellsCollide`: sorted keys, one entry for
every cell that holds a shell, and under each key the shells of that cell in list order. -/
theorem shellMap_spec : ∀ (rest seen : List Shell) (m : List ((Int × Int) × List Shell)),
    m.Pairwise (fun e f => pairLt e.1 f.1 = true) →
    (∀ e ∈ m, e.2 = seen.filter (fun b => decide (b.location_ = e.1)) ∧ e.2 ≠ []) →
    (∀ b ∈ seen, b.location_ ∈ m.map Prod.fst) →
    (rest.foldl (fun m sh => shellMapInsert sh m) m).Pairwise
        (fun e f => pairLt e.1 f.1 = true) ∧
      (∀ e ∈ rest.foldl (fun m sh => shellMapInsert sh m) m,
        e.2 = (seen ++ rest).filter (fun b => decide (b.location_ = e.1)) ∧ e.2 ≠ []) ∧
      (∀ b ∈ seen ++ rest,
        b.location_ ∈ (rest.foldl (fun m sh => shellMapInsert sh m) m).map Prod.fst)
  | [], seen, m, hs, hm, hc => by
    simp only [List.foldl_nil, List.append_nil]
    exact ⟨hs, hm, hc⟩
  | sh :: rest, seen, m, hs, hm, hc => by
    obtain ⟨-, k2, k3⟩ := shellMapInsert_spec sh seen m hs hm
    have hstep := shellMap_spec rest (seen ++ [sh]) (shellMapInsert sh m) k2
      (by
        intro e he
        by_cases hk : e.1 = sh.location_
        · have h := (k3 e he).1 hk
          rw [h]
          refine ⟨?_, by simp⟩
          rw [List.filter_append]
          have hsh : List.filter (fun b => decide (b.location_ = e.1)) [sh] = [sh] := by
            simp [List.filter, hk]
          rw [hsh]
          by_cases hin : sh.location_ ∈ m.map Prod.fst
          · rw [if_pos hin]
          · rw [if_neg hin]
            have : seen.filter (fun b => decide (b.location_ = e.1)) = [] := by
              rw [List.filter_eq_nil_iff]
              intro b hb hbe
              simp only [decide_eq_true_eq] at hbe
              apply hin
              rw [← hk, ← hbe]
              exact hc b hb
            rw [this]
        · have h := (k3 e he).2 hk
          refine ⟨?_, h.2⟩
          rw [h.1, List.filter_append]
          have hsh : List.filter (fun b => decide (b.location_ = e.1)) [sh] = [] := by
            simp [List.filter, Ne.symm hk]
          rw [hsh, List.append_nil])
      (by
        intro b hb
        rw [shellMapInsert_keys]
        rcases List.mem_append.mp hb with hb | hb
        · exact Or.inr (hc b hb)
        · simp only [List.mem_singleton] at hb
          exact Or.inl (by rw [hb]))
    simp only [List.foldl_cons]
    simpa only [List.append_assoc, List.singleton_append] using hstep

/-- A shell that the second loop of `checkShellsCollide` puts back is the only shell of its
entry. -/
theorem collapseEntries_single : ∀ (es : List ((Int × Int) × List Shell)) (s : GM),
    ∀ a ∈ (collapseEntries s es).shells_, a ∈ s.shells_ ∨ ∃ e ∈ es, e.2 = [a]
  | [], _, a, ha => Or.inl ha
  | e :: rest, s, a, ha => by
    unfold collapseEntries at ha
    split at ha
    · rename_i sh heq
      rcases collapseEntries_single rest _ a ha with h | ⟨e', he', h'⟩
      · simp only [List.mem_append, List.mem_singleton] at h
        rcases h with h | h
        · exact Or.inl h
        · exact Or.inr ⟨e, List.mem_cons_self _ _, by rw [heq, h]⟩
      · exact Or.inr ⟨e', List.mem_cons_of_mem _ he', h'⟩
    · rcases collapseEntries_single rest _ a ha with h | ⟨e', he', h'⟩
      · exact Or.inl h
      · exact Or.inr ⟨e', List.mem_cons_of_mem _ he', h'⟩

/-- A cell of the board that is blank, or is the key of an entry with several shells, is
blank after the second loop of `checkShellsCollide`. -/
theorem collapseEntries_blank : ∀ (es : List ((Int × Int) × List Shell)) (s : GM)
    (x y : Int), cellAt s.gameboard_ x y ≠ NUL →
    (cellAt s.gameboard_ x y = ' ' ∨ ∃ e ∈ es, e.1 = (x, y) ∧ e.2.length ≠ 1) →
    cellAt (collapseEntries s es).gameboard_ x y = ' '
  | [], s, x, y, _, h => by
    rcases h with h | ⟨e, he, _⟩
    · exact h
    · cases he
  | e :: rest, s, x, y, hon, h => by
    unfold collapseEntries
    split
    · rename_i sh heq
      refine collapseEntries_blank rest _ x y ?_ ?_
      · exact hon
      rcases h with h | ⟨e', he', h1, h2⟩
      · exact Or.inl h
      · rcases List.mem_cons.mp he' with rfl | he'
        · rw [heq] at h2; simp at h2
        · exact Or.inr ⟨e', he', h1, h2⟩
    · apply collapseEntries_blank rest _ x y
      · simp only [setBoard_board]
        exact onBoard_setCell _ _ _ _ _ _ (by decide) hon
      · by_cases hxy : x = e.1.1 ∧ y = e.1.2
        · left
          simp only [setBoard_board]
          rw [← hxy.1, ← hxy.2]
          exact cellAt_setCell_same _ _ _ _ hon
        · rcases h with h | ⟨e', he', h1, h2⟩
          · left
            simp only [setBoard_board]
            rw [cellAt_setCell_ne _ _ _ _ _ _ hxy]
            exact h
          · rcases List.mem_cons.mp he' with rfl | he'
            · exfalso
              apply hxy
              rw [h1]
              exact ⟨rfl, rfl⟩
            · exact Or.inr ⟨e', he', h1, h2⟩

/-- The shells that `checkShellsCollide` keeps are the shells that are alone on their cell,
and a cell of the board with two or more shells is blank afterwards. -/
theorem checkShellsCollide_spec (s : GM) :
    (∀ a ∈ (checkShellsCollide s).shells_,
      s.shells_.filter (fun b => decide (b.location_ = a.location_)) = [a]) ∧
    (∀ x y, cellAt s.gameboard_ x y ≠ NUL →
      2 ≤ (s.shells_.filter (fun b => decide (b.location_ = (x, y)))).length →
      cellAt (checkShellsCollide s).gameboard_ x y = ' ') := by
  obtain ⟨-, h2, h3⟩ := shellMap_spec s.shells_ [] [] List.Pairwise.nil (by simp) (by simp)
  rw [List.nil_append] at h2 h3
  constructor
  · intro a ha
    unfold checkShellsCollide at ha
    rcases collapseEntries_single _ _ a ha with h | ⟨e, he, hea⟩
    · cases h
    · have hf := (h2 e he).1
      rw [hea] at hf
      have hmem : a ∈ s.shells_.filter (fun b => decide (b.location_ = e.1)) := by
        rw [← hf]; exact List.mem_singleton.mpr rfl
      have hloc : a.location_ = e.1 := by
        simpa using (List.mem_filter.mp hmem).2
      rw [hloc]
      exact hf.symm
  · intro x y hon hlen
    unfold checkShellsCollide
    refine collapseEntries_blank _ _ x y ?_ ?_
    · exact hon
    right
    have hne : s.shells_.filter (fun b => decide (b.location_ = (x, y))) ≠ [] := by
      intro h; rw [h] at hlen; simp at hlen
    obtain ⟨b, hb⟩ := List.exists_mem_of_ne_nil _ hne
    have hbl : b.location_ = (x, y) := by simpa using (List.mem_filter.mp hb).2
    have hk := h3 b (List.mem_filter.mp hb).1
    obtain ⟨e, he, hek⟩ := List.mem_map.mp hk
    refine ⟨e, he, hek.trans hbl, ?_⟩
    rw [(h2 e he).1, hek, hbl]
    omega

/-- C29 (as stated, refuted): in turn 1 of the game on `crossMap` the two shells share the
cell `(1, 1)` after the first substep.  The shell phase of the engine ends with no shell
in play; two substeps followed by a single collapse would leave both shells in play, at
`(0, 1)` and at `(1, 2)`. -/
theorem shell_phase_collapses_after_first_substep :
    (crossSubstep.bind (moveShells 20)).map (fun s => s.shells_) =
      some [{ location_ := (1, 1), direction_ := Direction.L, aboveMine_ := false },
        { location_ := (1, 1), direction_ := Direction.D, aboveMine_ := false }] ∧
    (crossSubstep.bind (shellPhase 20)).map (fun s => s.shells_) = some [] ∧
    (crossSubstep.bind (shellPhaseAsWorded 20)).map (fun s => s.shells_) =
      some [{ location_ := (0, 1), direction_ := Direction.L, aboveMine_ := false },
        { location_ := (1, 2), direction_ := Direction.D, aboveMine_ := false }] ∧
    crossSubstep.bind (shellPhase 20) ≠ crossSubstep.bind (shellPhaseAsWorded 20) := by
  decide!

/-- C29 (amended): the shell phase of a turn is one shell substep, a collapse of co-located
shells, a second substep and a second collapse.  From a state that satisfies the invariant
of the engine both substeps return, given enough fuel, and the shell phase returns the
collapse of the state `s2` of the second substep, which starts from the collapse of the
state `s1` of the first.  A shell that the second substep starts with was alone on its
cell after the first substep, and a cell of the board that two or more shells share after
the first substep is blank when the second substep starts. -/
theorem shell_phase_substep_collapse_twice (s : GM) (hI : Inv s) :
    (∀ fuel, shellPhase fuel s =
      (moveShells fuel s).bind (fun s1 =>
        (moveShells fuel (checkShellsCollide s1)).map checkShellsCollide)) ∧
    ∃ F s1 s2,
      (∀ fuel, F ≤ fuel →
        moveShells fuel s = some s1 ∧ moveShells fuel (checkShellsCollide s1) = some s2 ∧
        shellPhase fuel s = some (checkShellsCollide s2)) ∧
      (∀ a ∈ (checkShellsCollide s1).shells_,
        s1.shells_.filter (fun b => decide (b.location_ = a.location_)) = [a]) ∧
      (∀ x y, cellAt s1.gameboard_ x y ≠ NUL →
        2 ≤ (s1.shells_.filter (fun b => decide (b.location_ = (x, y)))).length →
        cellAt (checkShellsCollide s1).gameboard_ x y = ' ') := by
  have heq : ∀ fuel, shellPhase fuel s =
      (moveShells fuel s).bind (fun s1 =>
        (moveShells fuel (checkShellsCollide s1)).map checkShellsCollide) := by
    intro fuel
    unfold shellPhase
    cases h1 : moveShells fuel s with
    | none => rfl
    | some s1 =>
      cases h2 : moveShells fuel (checkShellsCollide s1) with
      | none => simp [h2]
      | some s2 => simp [h2]
  refine ⟨heq, ?_⟩
  obtain ⟨s1, h1, hI1⟩ := moveShells_total hI
  obtain ⟨s2, h2, -⟩ := moveShells_total hI1.checkShellsCollide_ok
  refine ⟨(s.shells_.length + 1) ^ 2 + (((checkShellsCollide s1).shells_.length + 1) ^ 2) + 1,
    s1, s2, fun fuel hf => ?_, (checkShellsCollide_spec s1).1, (checkShellsCollide_spec s1).2⟩
  have e1 := h1 fuel (by omega)
  have e2 := h2 fuel (by omega)
  refine ⟨e1, e2, ?_⟩
  rw [heq fuel, e1]
  simp [e2]

/-- C29 witness: the game on `mineMap` in turn 0, after both tanks have fired. -/
theorem shell_phase_substep_collapse_twice_witness :
    Inv mineSubstep ∧
    ((∀ fuel, shellPhase fuel mineSubstep =
      (moveShells fuel mineSubstep).bind (fun s1 =>
        (moveShells fuel (checkShellsCollide s1)).map checkShellsCollide)) ∧
    ∃ F s1 s2,
      (∀ fuel, F ≤ fuel →
        moveShells fuel mineSubstep = some s1 ∧
        moveShells fuel (checkShellsCollide s1) = some s2 ∧
        shellPhase fuel mineSubstep = some (checkShellsCollide s2)) ∧
      (∀ a ∈ (checkShellsCollide s1).shells_,
        s1.shells_.filter (fun b => decide (b.location_ = a.location_)) = [a]) ∧
      (∀ x y, cellAt s1.gameboard_ x y ≠ NUL →
        2 ≤ (s1.shells_.filter (fun b => decide (b.location_ = (x, y)))).length →
        cellAt (checkShellsCollide s1).gameboard_ x y = ' ')) :=
  have h0 : Inv mineStart := Inv.startGame_ok 0 Reason.ALL_TANKS_DEAD 0 4 1 mineMap 50 5
  have h1 : Inv { mineStart with lastRoundGameboard_ := mineStart.gameboard_ } :=
    h0.of_mono rfl rfl (fun _ _ h => h)
  have hI : Inv mineSubstep := (h1.getTankActions_ok bothShoot).performTankActions_ok
  ⟨hI, shell_phase_substep_collapse_twice mineSubstep hI⟩

/-! ## Opposite shells and the order of the shell list -/

theorem setCell_comm (b : Board) (x y x' y' : Int) (c c' : Char) (h : ¬ (x = x' ∧ y = y')) :
    setCell (setCell b x y c) x' y' c' = setCell (setCell b x' y' c') x y c := by
  unfold setCell
  by_cases h1 : 0 ≤ x ∧ 0 ≤ y
  · by_cases h2 : 0 ≤ x' ∧ 0 ≤ y'
    · rw [if_pos h1, if_pos h2, if_pos h2, if_pos h1]
      by_cases hy : y.toNat = y'.toNat
      · have hx : x.toNat ≠ x'.toNat := by omega
        rw [hy, List.modify_modify_eq, List.modify_modify_eq]
        congr 1
        funext row
        simp only [Function.comp_apply]
        exact List.set_comm c c' row hx
      · exact List.modify_modify_ne _ _ b hy
    · rw [if_pos h1, if_neg h2, if_neg h2, if_pos h1]
  · rw [if_neg h1, if_neg h1]

theorem opposite_symm (a b : Direction) (h : a.toNat = (b.toNat + 4) % 8) :
    b.toNat = (a.toNat + 4) % 8 := by
  cases a <;> cases b <;> simp [Direction.toNat] at h ⊢

/-- C30 (as stated, refuted).  On `mineMap` the two shells fired in turn 0 travel in opposite
directions on neighbouring cells, the first of the list above the mine: the substep leaves
the mine on the board, and with the two shells exchanged in the list it erases the mine.
In `jamState` the shells at `(1, 1)` and `(0, 1)` travel in opposite directions on
neighbouring cells and are both erased by the substep; with the two exchanged in the list
both stay in play. -/
theorem opposite_collision_depends_on_order :
    (mineSubstep.gameboard_ = [['2', '*', '*', '1']] ∧
      mineSubstep.shells_ =
        [{ location_ := (1, 0), direction_ := Direction.R, aboveMine_ := true },
          { location_ := (2, 0), direction_ := Direction.L, aboveMine_ := false }]) ∧
    (moveShells 20 mineSubstep).map (fun s => (s.gameboard_, s.shells_)) =
      some ([['2', '@', ' ', '1']], []) ∧
    (moveShells 20 (reverseShells mineSubstep)).map (fun s => (s.gameboard_, s.shells_)) =
      some ([['2', ' ', ' ', '1']], []) ∧
    (moveShells 20 jamState).map (fun s => (s.gameboard_, s.shells_)) =
      some ([[' ', ' ', ' '], [' ', '*', ' '], [' ', ' ', ' ']],
        [{ location_ := (1, 1), direction_ := Direction.D, aboveMine_ := false }]) ∧
    (moveShells 20 jamStateSwapped).map (fun s => (s.gameboard_, s.shells_)) =
      some ([[' ', ' ', ' '], ['*', '*', ' '], [' ', ' ', ' ']],
        [{ location_ := (1, 1), direction_ := Direction.D, aboveMine_ := false },
          { location_ := (0, 1), direction_ := Direction.R, aboveMine_ := false },
          { location_ := (0, 1), direction_ := Direction.L, aboveMine_ := false }]) := by
  decide!

/-! ## One iteration of the loop of `moveShells` and the position of the shell -/

/-- C28 (as stated, refuted): in turn 1 of the game on `siegeMap` the shell at `(2, 0)`
travels left and the cell ahead of it shows `c`, the mark of tank 1 with the shell just
fired at it.  After the first substep the shell is still in the list and still at
`(2, 0)`; after the whole shell phase it is at `(1, 0)`, one cell from where it was. -/
theorem blocked_shell_stays_in_place :
    siegeSubstep.map (fun s => (s.gameboard_, s.shells_)) =
      some ([['2', 'c', '*', ' ', ' ', '1']],
        [{ location_ := (2, 0), direction_ := Direction.L, aboveMine_ := false },
          { location_ := (1, 0), direction_ := Direction.R, aboveMine_ := false }]) ∧
    (siegeSubstep.bind (moveShells 20)).map (fun s => (s.gameboard_, s.shells_)) =
      some ([['2', ' ', ' ', ' ', ' ', '1']],
        [{ location_ := (2, 0), direction_ := Direction.L, aboveMine_ := false }]) ∧
    (siegeSubstep.bind (shellPhase 20)).map (fun s => (s.gameboard_, s.shells_)) =
      some ([['2', '*', ' ', ' ', ' ', '1']],
        [{ location_ := (1, 0), direction_ := Direction.L, aboveMine_ := false }]) := by
  decide!

/-- One iteration of the loop of `moveShells` for the shell at iterator `it`,
when `handleShellSpawnOnTank` returns false and the cell ahead of the shell across the
torus is `(nx, ny)`.  On a blank, on a mine, and on a shell mark whose first shell does not
travel in the opposite direction, the shell is placed on `(nx, ny)`, one cell ahead, with
its direction kept.  On a character other than blank, mine, shell mark, wall, weakened wall
and tank digit (that is `^`, `a`, `b`, `c`, `d`) the shell keeps its position and its
direction.  On a wall or a weakened wall the shell is erased, and on a shell mark whose
first shell travels in the opposite direction both shells are erased.  In all these cases
the other shells of the list are left as they are. -/
theorem moveShellsStep_advances_or_waits (s : GM) (it : Nat) (nx ny : Int)
    (hsp : (handleShellSpawnOnTank s it).2.2 = false)
    (hn : nextLocation s (shellAt s it).location_.1 (shellAt s it).location_.2
      (shellAt s it).direction_ false = (nx, ny)) :
    (cellAt s.gameboard_ nx ny = ' ' →
      (moveShellsStep s it).1.shells_ = s.shells_.modify
        (fun sh => { location_ := (nx, ny), direction_ := sh.direction_, aboveMine_ := false })
        it) ∧
    (cellAt s.gameboard_ nx ny = '@' →
      (moveShellsStep s it).1.shells_ = s.shells_.modify
        (fun sh => { location_ := (nx, ny), direction_ := sh.direction_, aboveMine_ := true })
        it) ∧
    (cellAt s.gameboard_ nx ny = '*' → ∀ other, getShellAt s nx ny = some other →
      ((shellAt s it).direction_.toNat ≠ ((shellAt s other).direction_.toNat + 4) % 8 →
        (moveShellsStep s it).1.shells_ = s.shells_.modify
          (fun sh => { location_ := (nx, ny), direction_ := sh.direction_,
                       aboveMine_ := false }) it) ∧
      ((shellAt s it).direction_.toNat = ((shellAt s other).direction_.toNat + 4) % 8 →
        (moveShellsStep s it).1.shells_ =
          (s.shells_.eraseIdx (max it other)).eraseIdx (min it other))) ∧
    (cellAt s.gameboard_ nx ny = '#' ∨ cellAt s.gameboard_ nx ny = '$' →
      (moveShellsStep s it).1.shells_ = s.shells_.eraseIdx it) ∧
    (cellAt s.gameboard_ nx ny ≠ ' ' ∧ cellAt s.gameboard_ nx ny ≠ '@' ∧
        cellAt s.gameboard_ nx ny ≠ '*' ∧ cellAt s.gameboard_ nx ny ≠ '#' ∧
        cellAt s.gameboard_ nx ny ≠ '$' ∧ cellAt s.gameboard_ nx ny ≠ '1' ∧
        cellAt s.gameboard_ nx ny ≠ '2' →
      (moveShellsStep s it).1.shells_ = s.shells_.modify
        (fun sh => { location_ := sh.location_, direction_ := sh.direction_,
                     aboveMine_ := false }) it) := by
  rw [moveShellsStep_of_not_spawn s it nx ny hsp hn]
  have hsh := clearPreviousShellPosition_shells s it
  refine ⟨?_, ?_, ?_, ?_, ?_⟩
  · intro hc
    rw [hc, if_neg (by decide)]
    unfold handleShellMoveToNextCell
    simp only [Char.reduceEq, if_false, if_true, false_or]
    show ((clearPreviousShellPosition s it).shells_.modify
      (fun sh => { sh with location_ := (nx, ny) }) it) = _
    rw [hsh, modify_twice]
  · intro hc
    rw [hc, if_neg (by decide)]
    unfold handleShellMoveToNextCell
    simp only [Char.reduceEq, if_false, if_true, false_or]
    show (((clearPreviousShellPosition s it).shells_.modify
      (fun sh => { sh with location_ := (nx, ny) }) it).modify
      (fun sh => { sh with aboveMine_ := true }) it) = _
    rw [hsh, modify_twice, modify_twice]
  · intro hc other ho
    have ho1 : getShellAt (clearPreviousShellPosition s it) nx ny = some other := by
      rw [clearPreviousShellPosition_getShellAt]; exact ho
    have hdir : (shellAt (clearPreviousShellPosition s it) other).direction_ =
        (shellAt s other).direction_ := by
      unfold shellAt
      rw [hsh]
      simp only [List.getD_eq_getElem?_getD, List.getElem?_modify]
      cases s.shells_[other]? with
      | none => rfl
      | some a => by_cases h : it = other <;> simp [h]
    rw [if_pos hc]
    unfold handleShellCollision
    simp only [ho1, hdir]
    constructor
    · intro hd
      rw [if_neg hd]
      show ((clearPreviousShellPosition s it).shells_.modify
        (fun sh => { sh with location_ := (nx, ny) }) it) = _
      rw [hsh, modify_twice]
    · intro hd
      rw [if_pos hd]
      by_cases hlt : it < other
      · rw [if_pos hlt]
        show ((clearPreviousShellPosition s it).shells_.eraseIdx other).eraseIdx it = _
        rw [hsh, eraseIdx_modify_of_lt _ _ _ _ hlt, eraseIdx_modify_same,
          Nat.max_eq_right (Nat.le_of_lt hlt), Nat.min_eq_left (Nat.le_of_lt hlt)]
      · rw [if_neg hlt]
        have hle : other ≤ it := Nat.le_of_not_lt hlt
        show ((clearPreviousShellPosition s it).shells_.eraseIdx it).eraseIdx other = _
        rw [hsh, eraseIdx_modify_same, Nat.max_eq_left hle, Nat.min_eq_right hle]
  · intro hc
    have hstar : cellAt s.gameboard_ nx ny ≠ '*' := by
      rcases hc with h | h <;> rw [h] <;> decide
    rw [if_neg hstar]
    unfold handleShellMoveToNextCell
    rcases hc with h | h
    · simp only [h, if_true]
      show (clearPreviousShellPosition s it).shells_.eraseIdx it = _
      rw [hsh, eraseIdx_modify_same]
    · simp only [h, Char.reduceEq, if_false, if_true]
      show (clearPreviousShellPosition s it).shells_.eraseIdx it = _
      rw [hsh, eraseIdx_modify_same]
  · rintro ⟨h1, h2, h3, h4, h5, h6, h7⟩
    rw [if_neg h3]
    unfold handleShellMoveToNextCell
    simp only [h1, h2, h4, h5, h6, h7, if_false, or_self]
    exact hsh

/-! ## The states of a run are points of the game -/

theorem foldSteps_point {oracle : Oracle} {s0 : GM} (ks : List Nat) :
    ∀ (s : GM), GamePoint oracle s0 s → (∀ k ∈ ks, k < s.tanks_.length) →
      GamePoint oracle s0 (ks.foldl performTankActionStep s) := by
  induction ks with
  | nil => intro s h _; exact h
  | cons k ks ih =>
    intro s h hk
    simp only [List.foldl_cons]
    apply ih _ (GamePoint.act k h (hk k (List.mem_cons_self _ _)))
    intro j hj
    rw [performTankActionStep_length]
    exact hk j (List.mem_cons_of_mem _ hj)

theorem performTankActions_point {oracle : Oracle} {s0 s : GM} (h : GamePoint oracle s0 s) :
    GamePoint oracle s0 (performTankActions s) := by
  unfold performTankActions
  exact foldSteps_point _ s h (fun k hk => List.mem_range.mp hk)

theorem moveShellsLoop_point {oracle : Oracle} {s0 : GM} :
    ∀ (fuel : Nat) (s : GM) (it : Nat) (s' : GM), GamePoint oracle s0 s →
      moveShellsLoop fuel s it = some s' → GamePoint oracle s0 s'
  | 0, _, _, _, _, h => by cases h
  | fuel + 1, s, it, s', hp, h => by
    rw [moveShellsLoop_succ] at h
    by_cases h1 : s.shells_.length ≤ it
    · rw [if_pos h1] at h
      cases h
      exact hp
    · rw [if_neg h1] at h
      have hstep := GamePoint.shell it hp (Nat.lt_of_not_le h1)
      by_cases h2 : (moveShellsStep s it).2.2 = true
      · rw [if_pos h2] at h
        cases h
        exact hstep
      · rw [if_neg h2] at h
        exact moveShellsLoop_point fuel _ _ s' hstep h

theorem shellPhase_point {oracle : Oracle} {s0 s s' : GM} (fuel : Nat)
    (hp : GamePoint oracle s0 s) (h : shellPhase fuel s = some s') :
    GamePoint oracle s0 s' := by
  unfold shellPhase at h
  cases h1 : moveShells fuel s with
  | none => rw [h1] at h; cases h
  | some s1 =>
    rw [h1] at h
    simp only at h
    have p1 := moveShellsLoop_point fuel s 0 s1 hp h1
    cases h2 : moveShells fuel (checkShellsCollide s1) with
    | none => rw [h2] at h; cases h
    | some s2 =>
      rw [h2] at h
      cases h
      exact GamePoint.collide (moveShellsLoop_point fuel _ 0 s2 (GamePoint.collide p1) h2)

theorem playTurn_point {oracle : Oracle} {s0 s s' : GM} (fuel : Nat)
    (hp : GamePoint oracle s0 s) (h : playTurn fuel oracle s = some s') :
    GamePoint oracle s0 s' := by
  unfold playTurn at h
  cases h1 : shellPhase fuel (performTankActions (getTankActions s oracle)) with
  | none => rw [h1] at h; cases h
  | some s1 =>
    rw [h1] at h
    cases h
    exact GamePoint.timer (GamePoint.status (GamePoint.log
      (shellPhase_point fuel (performTankActions_point (GamePoint.ask hp)) h1)))

/-- The final state of the main loop is a point of the game. -/
theorem runLoop_point {oracle : Oracle} {s0 : GM} :
    ∀ (fuel : Nat) (s : GM) (r : GM × Nat), GamePoint oracle s0 s →
      runLoop fuel oracle s = some r → GamePoint oracle s0 r.1
  | 0, _, _, _, h => by cases h
  | fuel + 1, s, r, hp, h => by
    rw [runLoop_succ] at h
    by_cases h1 : s.gameOver_ = true
    · rw [if_pos h1] at h
      cases h
      exact hp
    · rw [if_neg h1] at h
      by_cases h2 : s.turn_ ≥ s.maxSteps_
      · rw [if_pos h2] at h
        cases h
        exact GamePoint.stop (GamePoint.copy hp)
      · rw [if_neg h2] at h
        cases h3 : playTurn fuel oracle { s with lastRoundGameboard_ := s.gameboard_ } with
        | none => rw [h3] at h; cases h
        | some s1 =>
          rw [h3] at h
          simp only at h
          have p1 := playTurn_point fuel (GamePoint.copy hp) h3
          by_cases h4 : s1.gameOver_ = true
          · rw [if_pos h4] at h
            cases h
            exact GamePoint.finish p1
          · rw [if_neg h4] at h
            cases h5 : runLoop fuel oracle { s1 with turn_ := s1.turn_ + 1 } with
            | none => rw [h5] at h; cases h
            | some r1 =>
              rw [h5] at h
              cases h
              exact runLoop_point fuel _ r1 (GamePoint.next p1) h5

/-- The state after `n` turns is a point of the game. -/
theorem turnsFrom_point {oracle : Oracle} {s0 : GM} (fuel : Nat) :
    ∀ (n : Nat) (s s' : GM), GamePoint oracle s0 s →
      turnsFrom fuel oracle n s = some s' → GamePoint oracle s0 s'
  | 0, s, s', hp, h => by
    unfold turnsFrom at h
    cases h
    exact hp
  | n + 1, s, s', hp, h => by
    unfold turnsFrom at h
    cases h3 : playTurn fuel oracle { s with lastRoundGameboard_ := s.gameboard_ } with
    | none => rw [h3] at h; cases h
    | some s1 =>
      rw [h3] at h
      exact turnsFrom_point fuel n _ s'
        (GamePoint.next (playTurn_point fuel (GamePoint.copy hp) h3)) h

/-- With enough fuel the first `n` turns of a game return a state, from every state that
satisfies the invariant of the engine. -/
theorem turnsFrom_total (oracle : Oracle) : ∀ (n : Nat) (s : GM), Inv s →
    ∃ F s', (∀ fuel, F ≤ fuel → turnsFrom fuel oracle n s = some s') ∧ Inv s'
  | 0, s, hI => ⟨0, s, fun _ _ => rfl, hI⟩
  | n + 1, s, hI => by
    have hI0 : Inv { s with lastRoundGameboard_ := s.gameboard_ } :=
      hI.of_mono rfl rfl (fun _ _ h => h)
    obtain ⟨F1, s1, h1, hI1⟩ := playTurn_total hI0 oracle
    have hI2 : Inv { s1 with turn_ := s1.turn_ + 1 } := hI1.of_mono rfl rfl (fun _ _ h => h)
    obtain ⟨F2, s2, h2, hI3⟩ := turnsFrom_total oracle n _ hI2
    refine ⟨max F1 F2, s2, fun fuel hf => ?_, hI3⟩
    unfold turnsFrom
    rw [h1 fuel (le_trans (le_max_left _ _) hf)]
    exact h2 fuel (le_trans (le_max_right _ _) hf)

/-! ## Shells in play and ammo left -/

theorem Spent.same (s : GM) : Spent s s := ⟨rfl, rfl, le_refl _⟩

theorem Spent.then {s r t : GM} (h1 : Spent s r) (h2 : Spent r t) : Spent s t :=
  ⟨h2.1.trans h1.1, h2.2.1.trans h1.2.1, le_trans h2.2.2 h1.2.2⟩

theorem numShells_of_cfg {s r : GM} (h : r.cfg = s.cfg) : r.numShells_ = s.numShells_ := by
  have := congrArg (fun c => c.2.2.2.2.1) h
  exact this

theorem ammo_map_of_rel {l l' : List TankInfo} (h : TanksRel AmmoKept l l') :
    l'.map (fun t => t.ammo_) = l.map (fun t => t.ammo_) := by
  apply List.ext_getElem
  · simp [h.1]
  · intro n h1 h2
    simp only [List.length_map] at h1 h2
    simp only [List.getElem_map]
    have := h.2 n h2
    unfold AmmoKept at this
    rw [List.getD_eq_getElem _ _ h1, List.getD_eq_getElem _ _ h2] at this
    exact this

/-- An operation that keeps the ammo of every tank and `numShells_` and adds no shell. -/
theorem Spent.of_rel {s r : GM} (h : TanksRel AmmoKept s.tanks_ r.tanks_)
    (hs : r.shells_.length ≤ s.shells_.length) (hn : r.numShells_ = s.numShells_) :
    Spent s r := by
  refine ⟨h.1, hn, ?_⟩
  unfold ammoSum
  rw [ammo_map_of_rel h]
  omega

theorem ammoKept_kill : KillClosed AmmoKept := (ammoKept_closed 0).toKillClosed

/-- Two tank lists of the same length that agree on the ammo of every tank but tank `i`,
whose ammo is one less in the second. -/
theorem ammo_sum_one_less : ∀ (l l' : List TankInfo) (i : Nat), l'.length = l.length →
    i < l.length →
    (∀ j, j < l.length → j ≠ i → (l'.getD j default).ammo_ = (l.getD j default).ammo_) →
    (l'.getD i default).ammo_ = (l.getD i default).ammo_ - 1 →
    (l'.map (fun t => t.ammo_)).sum = (l.map (fun t => t.ammo_)).sum - 1
  | [], _, _, _, hi, _, _ => by simp at hi
  | a :: l, [], _, hl, _, _, _ => by simp at hl
  | a :: l, b :: l', 0, hl, _, ho, h0 => by
    simp only [List.getD_cons_zero] at h0
    have : TanksRel AmmoKept l l' := by
      refine ⟨by simpa using hl, fun j hj => ?_⟩
      have := ho (j + 1) (by simpa using hj) (by omega)
      simpa using this
    simp only [List.map_cons, List.sum_cons, ammo_map_of_rel this, h0]
    omega
  | a :: l, b :: l', i + 1, hl, hi, ho, h0 => by
    have hb : b.ammo_ = a.ammo_ := by
      have := ho 0 (by simp) (by omega)
      simpa using this
    have ih := ammo_sum_one_less l l' i (by simpa using hl) (by simpa using hi)
      (fun j hj hne => by
        have := ho (j + 1) (by simpa using hj) (by omega)
        simpa using this)
      (by simpa using h0)
    simp only [List.map_cons, List.sum_cons, ih, hb]
    omega

theorem shootAt_shells_le (s : GM) (x y : Int) (dir : Direction) :
    (shootAt s x y dir).shells_.length ≤ s.shells_.length + 1 := by
  unfold shootAt
  simp only
  split_ifs
  · simp
  · simp
  · simp
  · simp
  · cases getShellAt (setBoard s x y ' ') x y with
    | none => simp
    | some j =>
      simp only [deleteShell_shells, setBoard_shells]
      have := (List.eraseIdx_sublist s.shells_ j).length_le
      omega
  · simp
  · simp

theorem shoot_shells_le (g : GM) (i : Nat) :
    (shoot g i).shells_.length ≤ g.shells_.length + 1 := by
  unfold shoot
  split_ifs
  · exact (shootAt_shells_le _ _ _ _).trans (by simp only [modifyTank_shells]; omega)
  · simp only [modifyTank_shells]
    omega

/-- The relation "every tank but tank `i` keeps its ammo". -/
theorem othersAmmo_closed (i : Nat) :
    ActClosed (fun j t t' => j ≠ i → t'.ammo_ = t.ammo_) i ∧
      ShootClosed (fun j t t' => j ≠ i → t'.ammo_ = t.ammo_) i := by
  constructor
  · exact
      { refl := fun _ _ _ => rfl
        trans := fun _ _ _ _ h1 h2 hj => (h2 hj).trans (h1 hj)
        incr := fun _ _ _ => rfl
        loc := fun _ _ _ _ => rfl
        dir := fun _ _ _ => rfl
        cool := fun _ _ => rfl
        decBack := fun _ _ => rfl
        restart := fun _ _ => rfl
        zero := fun _ _ => rfl
        switchB := fun _ _ => rfl
        switchJ := fun _ _ => rfl }
  · exact { reset := fun _ h => absurd rfl h, decAmmo := fun _ h => absurd rfl h }

/-- A call of `performAction` for a tank of the list does not let the shells in play and the
ammo left grow together. -/
theorem performAction_spent (s : GM) (a : ActionRequest) (i : Nat) (hi : i < s.tanks_.length) :
    Spent s (performAction s a i).1 := by
  by_cases hv : a = ActionRequest.Shoot ∧ (tankAt s i).backwardsFlag_ = false ∧
      isValidShoot (tankAt s i) = true
  · obtain ⟨rfl, hf, hvs⟩ := hv
    obtain ⟨e, hammo, -⟩ := performAction_valid_shoot s i hi hf hvs
    have hrel := rel_performAction (othersAmmo_closed i).1
      (TanksRel.rfl' (othersAmmo_closed i).1.toKillClosed s.tanks_) ActionRequest.Shoot
      (s := s) (fun _ _ _ => (othersAmmo_closed i).2)
    refine ⟨hrel.1, numShells_of_cfg (cfg_performAction s _ i), ?_⟩
    have hsum := ammo_sum_one_less s.tanks_ (performAction s ActionRequest.Shoot i).1.tanks_ i
      hrel.1 hi (fun j hj hne => hrel.2 j hj hne) hammo
    have hsh : (performAction s ActionRequest.Shoot i).1.shells_.length ≤
        s.shells_.length + 1 := by
      rw [e]
      simp only
      have h1 := ((Gear.start s i hi).requested ActionRequest.Shoot).shells.length_le
      have h2 := shoot_shells_le (backwardsRequest s ActionRequest.Shoot i) i
      omega
    unfold ammoSum
    rw [hsum]
    omega
  · have hrel := rel_performAction (ammoKept_closed i)
      (TanksRel.rfl' ammoKept_kill s.tanks_) a (s := s)
      (fun h1 h2 h3 => absurd ⟨h1, h2, h3⟩ hv)
    refine Spent.of_rel hrel ?_ (numShells_of_cfg (cfg_performAction s a i))
    rcases performAction_gear s a i hi hv with h | h
    · exact h.shells.length_le
    · exact h.shells.length_le

theorem performTankActionStep_spent (s : GM) (i : Nat) (hi : i < s.tanks_.length) :
    Spent s (performTankActionStep s i) := by
  unfold performTankActionStep
  by_cases ha : (tankAt s i).turnsDead_ = 0
  · rw [if_pos ha]
    simp only
    split_ifs
    · exact performAction_spent s _ i hi
    · exact performAction_spent s _ i hi
  · rw [if_neg ha]
    exact Spent.same s

/-! ## The shell phase and the end of the turn add no shell -/

theorem eraseIdx_length_le {α : Type} (l : List α) (i : Nat) :
    (l.eraseIdx i).length ≤ l.length := (List.eraseIdx_sublist l i).length_le

theorem moveShellsStep_shells_le (s : GM) (it : Nat) :
    (moveShellsStep s it).1.shells_.length ≤ s.shells_.length := by
  have hc := clearPreviousShellPosition_shells s it
  have hcl : (clearPreviousShellPosition s it).shells_.length = s.shells_.length := by
    rw [hc]; simp
  unfold moveShellsStep
  simp only
  split_ifs
  · unfold handleShellSpawnOnTank
    simp only
    split_ifs
    · cases getTankIndexAt s (shellAt s it).location_.1 (shellAt s it).location_.2 with
      | none => exact le_refl _
      | some k => exact eraseIdx_length_le _ _
    · exact le_refl _
  · unfold handleShellCollision
    cases getShellAt (clearPreviousShellPosition s it) _ _ with
    | none => simp only; omega
    | some other =>
      simp only
      split_ifs
      · simp only [deleteShell_shells, setBoard_shells]
        have h1 := eraseIdx_length_le (clearPreviousShellPosition s it).shells_ other
        have h2 := eraseIdx_length_le
          ((clearPreviousShellPosition s it).shells_.eraseIdx other) it
        omega
      · simp only [deleteShell_shells, setBoard_shells]
        have h1 := eraseIdx_length_le (clearPreviousShellPosition s it).shells_ it
        have h2 := eraseIdx_length_le
          ((clearPreviousShellPosition s it).shells_.eraseIdx it) other
        omega
      · simp only [setBoard_shells, modifyShell_shells, List.length_modify]
        omega
  · unfold handleShellMoveToNextCell
    split_ifs
    · simp only [deleteShell_shells, setBoard_shells]
      have h1 := eraseIdx_length_le (clearPreviousShellPosition s it).shells_ it
      omega
    · simp only [deleteShell_shells, setBoard_shells]
      have h1 := eraseIdx_length_le (clearPreviousShellPosition s it).shells_ it
      omega
    · cases getTankIndexAt (clearPreviousShellPosition s it) _ _ with
      | none => simp only; omega
      | some k =>
        simp only [deleteShell_shells, setBoard_shells, destroyTank_shells]
        have h1 := eraseIdx_length_le (clearPreviousShellPosition s it).shells_ it
        omega
    · simp only [setBoard_shells, modifyShell_shells, List.length_modify]
      omega
    · simp only [setBoard_shells, modifyShell_shells, List.length_modify]
      omega
    · simp only
      omega

theorem moveShellsStep_spent (s : GM) (it : Nat) : Spent s (moveShellsStep s it).1 :=
  Spent.of_rel (rel_moveShellsStep ammoKept_kill (TanksRel.rfl' ammoKept_kill s.tanks_) it)
    (moveShellsStep_shells_le s it) (numShells_of_cfg (cfg_moveShellsStep s it))

theorem shellMapInsert_sizes (sh : Shell) : ∀ (m : List ((Int × Int) × List Shell)),
    ((shellMapInsert sh m).map (fun e => e.2.length)).sum =
      (m.map (fun e => e.2.length)).sum + 1
  | [] => by simp [shellMapInsert]
  | e :: rest => by
    unfold shellMapInsert
    split_ifs
    · simp only [List.map_cons, List.sum_cons, List.length_append, List.length_singleton]
      omega
    · simp only [List.map_cons, List.sum_cons, List.length_singleton]
      omega
    · simp only [List.map_cons, List.sum_cons, shellMapInsert_sizes sh rest]
      omega

theorem shellMap_sizes : ∀ (shells : List Shell) (m : List ((Int × Int) × List Shell)),
    ((shells.foldl (fun m sh => shellMapInsert sh m) m).map (fun e => e.2.length)).sum =
      (m.map (fun e => e.2.length)).sum + shells.length
  | [], m => by simp
  | sh :: rest, m => by
    simp only [List.foldl_cons, List.length_cons]
    rw [shellMap_sizes rest, shellMapInsert_sizes]
    omega

theorem collapseEntries_length : ∀ (es : List ((Int × Int) × List Shell)) (s : GM),
    (collapseEntries s es).shells_.length ≤
      s.shells_.length + (es.map (fun e => e.2.length)).sum
  | [], s => by simp [collapseEntries]
  | e :: rest, s => by
    unfold collapseEntries
    split
    · rename_i sh heq
      have := collapseEntries_length rest { s with shells_ := s.shells_ ++ [sh] }
      simp only [List.length_append, List.length_singleton] at this
      simp only [List.map_cons, List.sum_cons, heq, List.length_singleton]
      omega
    · have := collapseEntries_length rest (setBoard s e.1.1 e.1.2 ' ')
      simp only [setBoard_shells] at this
      simp only [List.map_cons, List.sum_cons]
      omega

theorem checkShellsCollide_shells_le (s : GM) :
    (checkShellsCollide s).shells_.length ≤ s.shells_.length := by
  unfold checkShellsCollide
  have h1 := collapseEntries_length (s.shells_.foldl (fun m sh => shellMapInsert sh m) [])
    { s with shells_ := [] }
  rw [shellMap_sizes] at h1
  simpa using h1

theorem checkShellsCollide_spent (s : GM) : Spent s (checkShellsCollide s) := by
  refine Spent.of_rel ?_ (checkShellsCollide_shells_le s)
    (numShells_of_cfg (cfg_checkShellsCollide s))
  rw [checkShellsCollide_tanks]
  exact TanksRel.rfl' ammoKept_kill _

theorem updateGameLog_spent (s : GM) : Spent s (updateGameLog s) :=
  Spent.of_rel (rel_updateGameLog ammoKept_kill (TanksRel.rfl' ammoKept_kill s.tanks_))
    (le_refl _) rfl

theorem Spent.of_fields {s r : GM} (ht : r.tanks_ = s.tanks_) (hs : r.shells_ = s.shells_)
    (hn : r.numShells_ = s.numShells_) : Spent s r := by
  unfold Spent ammoSum
  rw [ht, hs, hn]
  exact ⟨rfl, rfl, le_refl _⟩

theorem checkTanksStatus_spent (s : GM) : Spent s (checkTanksStatus s) := by
  refine Spent.of_fields (checkTanksStatus_tanks s) ?_ ?_
  · unfold checkTanksStatus
    simp only
    split_ifs <;> rfl
  · unfold checkTanksStatus
    simp only
    split_ifs <;> rfl

theorem noAmmoStep_spent (s : GM) : Spent s (noAmmoStep s) := by
  refine Spent.of_fields (noAmmoStep_tanks s) ?_ ?_
  · unfold noAmmoStep
    simp only
    split_ifs <;> rfl
  · unfold noAmmoStep
    simp only
    split_ifs <;> rfl

theorem finishStep_spent (s : GM) : Spent s (finishStep s) := by
  refine Spent.of_fields (finishStep_tanks s) ?_ ?_
  · unfold finishStep
    split_ifs <;> rfl
  · unfold finishStep
    split_ifs <;> rfl

/-- At every point of a game the number of tanks and `numShells_` are those of the start,
and the shells in play together with the ammo left have not grown. -/
theorem spent_of_point {oracle : Oracle} {s0 s : GM} (h : GamePoint oracle s0 s) :
    Spent s0 s := by
  induction h with
  | start => exact Spent.same s0
  | copy _ ih => exact ih.then (Spent.of_fields rfl rfl rfl)
  | stop _ ih => exact ih.then (Spent.of_fields rfl rfl rfl)
  | ask _ ih => exact ih.then (Spent.of_fields rfl rfl rfl)
  | act i _ hi ih => exact ih.then (performTankActionStep_spent _ i hi)
  | shell it _ _ ih => exact ih.then (moveShellsStep_spent _ it)
  | collide _ ih => exact ih.then (checkShellsCollide_spent _)
  | log _ ih => exact ih.then (updateGameLog_spent _)
  | status _ ih => exact ih.then (checkTanksStatus_spent _)
  | timer _ ih => exact ih.then (noAmmoStep_spent _)
  | finish _ ih => exact ih.then (finishStep_spent _)
  | next _ ih => exact ih.then (Spent.of_fields rfl rfl rfl)

/-- A relation that every member function of a tank respects relates the tanks at the start
with the tanks at every point of the game. -/
theorem rel_of_point {R : Nat → TankInfo → TankInfo → Prop}
    (hR : ∀ k, ActClosed R k ∧ ShootClosed R k) {oracle : Oracle} {s0 s : GM}
    (h : GamePoint oracle s0 s) : TanksRel R s0.tanks_ s.tanks_ := by
  have hK := (hR 0).1.toKillClosed
  induction h with
  | start => exact TanksRel.rfl' hK _
  | copy _ ih => exact ih
  | stop _ ih => exact ih
  | ask _ ih => exact ih
  | act i _ _ ih => exact rel_performTankActionStep (hR i).1 ih (fun _ _ _ _ => (hR i).2)
  | shell it _ _ ih => exact rel_moveShellsStep hK ih it
  | collide _ ih => rw [checkShellsCollide_tanks]; exact ih
  | log _ ih => exact rel_updateGameLog hK ih
  | status _ ih => rw [checkTanksStatus_tanks]; exact ih
  | timer _ ih => rw [noAmmoStep_tanks]; exact ih
  | finish _ ih => rw [finishStep_tanks]; exact ih
  | next _ ih => exact ih

/-! ## The ammo handed out at the start -/

theorem initCell_fold_ammo (map : Nat → Nat → Char) (numShells : Int) :
    ∀ (cells : List (Nat × Nat)) (acc : List TankInfo × Int × Int),
      (∀ t ∈ acc.1, t.ammo_ = numShells) →
      ∀ t ∈ (cells.foldl (initCell map numShells) acc).1, t.ammo_ = numShells
  | [], _, h => h
  | c :: rest, acc, h => by
    simp only [List.foldl_cons]
    apply initCell_fold_ammo map numShells rest
    unfold initCell
    simp only
    split_ifs
    · intro t ht
      rcases List.mem_append.mp ht with ht | ht
      · exact h t ht
      · simp only [List.mem_singleton] at ht
        rw [ht]; rfl
    · intro t ht
      rcases List.mem_append.mp ht with ht | ht
      · exact h t ht
      · simp only [List.mem_singleton] at ht
        rw [ht]; rfl
    · exact h

theorem sum_map_const (l : List TankInfo) (c : Int) (h : ∀ t ∈ l, t.ammo_ = c) :
    (l.map (fun t => t.ammo_)).sum = (l.length : Int) * c := by
  induction l with
  | nil => simp
  | cons a l ih =>
    simp only [List.map_cons, List.sum_cons, List.length_cons, Nat.cast_add, Nat.cast_one]
    rw [ih (fun t ht => h t (List.mem_cons_of_mem _ ht)), h a (List.mem_cons_self _ _)]
    ring

/-- The state on entry to the main loop: no shell, `numShells_` as passed to `run`
(narrowed to `int`), and every tank with that ammo. -/
theorem startGame_budget (winner0 : Int) (reason0 : Reason) (rounds0 : Nat)
    (map_width map_height : Nat) (map : Nat → Nat → Char) (max_steps num_shells : Nat) :
    (startGame (newGM winner0 reason0 rounds0) map_width map_height map max_steps
      num_shells).shells_ = [] ∧
    (startGame (newGM winner0 reason0 rounds0) map_width map_height map max_steps
      num_shells).numShells_ = toInt32 num_shells ∧
    ∀ t ∈ (startGame (newGM winner0 reason0 rounds0) map_width map_height map max_steps
      num_shells).tanks_, t.ammo_ = toInt32 num_shells := by
  have hfold := initCell_fold_ammo map (toInt32 num_shells)
    (gridCells (toInt32 map_width).toNat (toInt32 map_height).toNat) ([], 0, 0)
    (by intro t ht; cases ht)
  unfold startGame initiateGame
  simp only
  split_ifs
  · exact ⟨rfl, rfl, hfold⟩
  · exact ⟨rfl, rfl, hfold⟩

theorem toInt32_le_self (n : Nat) : toInt32 n ≤ (n : Int) := by
  have h := toInt32_toNat_le n
  have h2 := Int.self_le_toNat (toInt32 n)
  omega

/-- The relation "ammo that is not negative stays so". -/
theorem ammoNonneg_closed (k : Nat) :
    ActClosed (fun _ t t' => 0 ≤ t.ammo_ → 0 ≤ t'.ammo_) k ∧
      ShootClosed (fun _ t t' => 0 ≤ t.ammo_ → 0 ≤ t'.ammo_) k := by
  constructor
  · exact
      { refl := fun _ _ h => h
        trans := fun _ _ _ _ h1 h2 h => h2 (h1 h)
        incr := fun _ _ h => h
        loc := fun _ _ _ h => h
        dir := fun _ _ h => h
        cool := fun _ h => h
        decBack := fun _ h => h
        restart := fun _ h => h
        zero := fun _ h => h
        switchB := fun _ h => h
        switchJ := fun _ h => h }
  · exact { reset := fun _ h => h, decAmmo := fun _ _ => le_max_left _ _ }

/-- C27: at every point of a game (every state that the main loop of `run` passes through,
down to the single iterations of `performTankActions` and of `moveShells`), the number of
tanks is the number created at the start, and the number of shells in play plus the sum of
the current ammo of all tanks, alive or dead, is at most the number of tanks times
`num_shells` as the engine stores it (its narrowing to `int`), which is at most the number
of tanks times `num_shells`; for `num_shells` below `2 ^ 31` no ammo is negative
and the number of shells in play is at most the number of tanks times `num_shells`.  The
final state of `run` and the state after any number of turns are such points, and the
state after any number of turns exists, given enough fuel.  A call of
`performAction` that adds a shell is a `Shoot` of a tank that is not moving backwards and
may shoot, and neither an iteration of `moveShells` nor `checkShellsCollide` adds a
shell. -/
theorem shells_within_ammo_budget (winner0 : Int) (reason0 : Reason) (rounds0 : Nat)
    (map_width map_height : Nat) (map : Nat → Nat → Char) (max_steps num_shells : Nat)
    (oracle : Oracle) :
    (∀ s, GamePoint oracle (startGame (newGM winner0 reason0 rounds0) map_width map_height map
        max_steps num_shells) s →
      s.tanks_.length = (startGame (newGM winner0 reason0 rounds0) map_width map_height map
        max_steps num_shells).tanks_.length ∧
      (s.shells_.length : Int) + ammoSum s ≤
        ((startGame (newGM winner0 reason0 rounds0) map_width map_height map
          max_steps num_shells).tanks_.length : Int) * toInt32 num_shells ∧
      (s.shells_.length : Int) + ammoSum s ≤
        ((startGame (newGM winner0 reason0 rounds0) map_width map_height map
          max_steps num_shells).tanks_.length : Int) * (num_shells : Int) ∧
      (num_shells < 2 ^ 31 →
        (∀ t ∈ s.tanks_, 0 ≤ t.ammo_) ∧
        s.shells_.length ≤ (startGame (newGM winner0 reason0 rounds0) map_width map_height
          map max_steps num_shells).tanks_.length * num_shells)) ∧
    (∀ fuel r, runGame fuel winner0 reason0 rounds0 map_width map_height map max_steps
        num_shells oracle = some r →
      GamePoint oracle (startGame (newGM winner0 reason0 rounds0) map_width map_height map
        max_steps num_shells) r.1) ∧
    (∀ fuel n s, turnsFrom fuel oracle n (startGame (newGM winner0 reason0 rounds0) map_width
        map_height map max_steps num_shells) = some s →
      GamePoint oracle (startGame (newGM winner0 reason0 rounds0) map_width map_height map
        max_steps num_shells) s) ∧
    (∀ n, ∃ F s, ∀ fuel, F ≤ fuel → turnsFrom fuel oracle n (startGame
        (newGM winner0 reason0 rounds0) map_width map_height map max_steps num_shells) =
          some s) ∧
    (∀ (s : GM) (a : ActionRequest) (i : Nat), i < s.tanks_.length →
      s.shells_.length < (performAction s a i).1.shells_.length →
      a = ActionRequest.Shoot ∧ (tankAt s i).backwardsFlag_ = false ∧
        isValidShoot (tankAt s i) = true) ∧
    (∀ (s : GM) (it : Nat), (moveShellsStep s it).1.shells_.length ≤ s.shells_.length) ∧
    (∀ s : GM, (checkShellsCollide s).shells_.length ≤ s.shells_.length) := by
  obtain ⟨h1, h2, h3⟩ := startGame_budget winner0 reason0 rounds0 map_width map_height map
    max_steps num_shells
  refine ⟨?_, ?_, ?_, ?_, ?_, moveShellsStep_shells_le, checkShellsCollide_shells_le⟩
  · intro s hp
    have hsp := spent_of_point hp
    have hbound : (s.shells_.length : Int) + ammoSum s ≤
        ((startGame (newGM winner0 reason0 rounds0) map_width map_height map
          max_steps num_shells).tanks_.length : Int) * toInt32 num_shells := by
      refine le_trans hsp.2.2 ?_
      unfold ammoSum
      rw [h1, sum_map_const _ _ h3]
      simp
    refine ⟨hsp.1, hbound, le_trans hbound (mul_le_mul_of_nonneg_left
      (toInt32_le_self num_shells) (Int.ofNat_nonneg _)), fun hns => ?_⟩
    have hrel := rel_of_point ammoNonneg_closed hp
    have hnn : ∀ t ∈ s.tanks_, 0 ≤ t.ammo_ := by
      intro t ht
      obtain ⟨k, hk, rfl⟩ := exists_getD_of_mem s.tanks_ default t ht
      rw [hrel.1] at hk
      apply hrel.2 k hk
      rw [h3 _ (getD_mem_of_lt _ default k hk), toInt32_of_lt _ hns]
      omega
    refine ⟨hnn, ?_⟩
    have hsum : 0 ≤ ammoSum s := by
      unfold ammoSum
      apply List.sum_nonneg
      intro x hx
      obtain ⟨t, ht, rfl⟩ := List.mem_map.mp hx
      exact hnn t ht
    rw [toInt32_of_lt _ hns] at hbound
    have : (s.shells_.length : Int) ≤
        (((startGame (newGM winner0 reason0 rounds0) map_width map_height map
          max_steps num_shells).tanks_.length * num_shells : Nat) : Int) := by
      push_cast
      omega
    exact_mod_cast this
  · intro fuel r h
    exact runLoop_point fuel _ r GamePoint.start h
  · intro fuel n s h
    exact turnsFrom_point fuel n _ s GamePoint.start h
  · intro n
    obtain ⟨F, s, hF, -⟩ := turnsFrom_total oracle n _ (Inv.startGame_ok winner0 reason0
      rounds0 map_width map_height map max_steps num_shells)
    exact ⟨F, s, hF⟩
  · intro s a i hi hlt
    by_contra hv
    rcases performAction_gear s a i hi hv with h | h
    · have := h.shells.length_le
      omega
    · have := h.shells.length_le
      omega

/-! ## The alphabet of the board -/

theorem mem_modify_cases {α : Type} (f : α → α) :
    ∀ (l : List α) (n : Nat) (a : α), a ∈ l.modify f n → a ∈ l ∨ ∃ b ∈ l, a = f b
  | [], _, a, h => by simp at h
  | b :: l, 0, a, h => by
    simp only [List.modify_zero_cons, List.mem_cons] at h
    rcases h with h | h
    · exact Or.inr ⟨b, List.mem_cons_self _ _, h⟩
    · exact Or.inl (List.mem_cons_of_mem _ h)
  | b :: l, n + 1, a, h => by
    simp only [List.modify_succ_cons, List.mem_cons] at h
    rcases h with h | h
    · exact Or.inl (h ▸ List.mem_cons_self _ _)
    · rcases mem_modify_cases f l n a h with h | ⟨b', hb, h⟩
      · exact Or.inl (List.mem_cons_of_mem _ h)
      · exact Or.inr ⟨b', List.mem_cons_of_mem _ hb, h⟩

theorem closedBoard_setCell (b : Board) (x y : Int) (c : Char) (h : ClosedBoard b)
    (hc : c ∈ boardCells) : ClosedBoard (setCell b x y c) := by
  unfold setCell
  split_ifs
  · intro row hrow c' hc'
    rcases mem_modify_cases _ b _ row hrow with hr | ⟨r, hr, rfl⟩
    · exact h row hr c' hc'
    · rcases List.mem_or_eq_of_mem_set hc' with h1 | h1
      · exact h r hr c' h1
      · rw [h1]; exact hc
  · exact h

theorem digitOf_mem (p : Int) (h : p = 1 ∨ p = 2) : digitOf p ∈ boardCells := by
  rcases h with h | h <;> rw [h] <;> decide

theorem closed_setBoard (s : GM) (x y : Int) (c : Char) (h : ClosedBoard s.gameboard_)
    (hc : c ∈ boardCells) : ClosedBoard (setBoard s x y c).gameboard_ :=
  closedBoard_setCell _ _ _ _ h hc

theorem shootAt_closed (s : GM) (x y : Int) (dir : Direction) (h : ClosedBoard s.gameboard_) :
    ClosedBoard (shootAt s x y dir).gameboard_ := by
  unfold shootAt
  simp only
  split_ifs
  · exact closedBoard_setCell _ _ _ _ h (by decide)
  · exact closedBoard_setCell _ _ _ _ h (by decide)
  · exact closedBoard_setCell _ _ _ _ h (by decide)
  · exact closedBoard_setCell _ _ _ _ h (by decide)
  · cases getShellAt (setBoard s x y ' ') x y <;>
      exact closedBoard_setCell _ _ _ ' ' h (by decide)
  · exact closedBoard_setCell _ _ _ '*' h (by decide)
  · exact closedBoard_setCell _ _ _ _ h (by decide)

theorem shoot_closed (s : GM) (i : Nat) (h : ClosedBoard s.gameboard_) :
    ClosedBoard (shoot s i).gameboard_ := by
  unfold shoot
  split_ifs
  · exact shootAt_closed _ _ _ _ h
  · exact h

theorem handleTankCollisionAt_closed (s : GM) (i : Nat) (old_x old_y new_x new_y : Int)
    (dir : Direction) (next_cell : Char) (h : ClosedBoard s.gameboard_)
    (hp : (tankAt s i).playerId_ = 1 ∨ (tankAt s i).playerId_ = 2) :
    ClosedBoard (handleTankCollisionAt s i old_x old_y new_x new_y dir next_cell).gameboard_ := by
  unfold handleTankCollisionAt
  simp only
  repeat' split
  all_goals first
    | exact h
    | exact closedBoard_setCell _ _ _ _ h (digitOf_mem _ hp)
    | exact closedBoard_setCell _ _ _ _ h (by decide)

theorem moveTank_closed (s : GM) (i : Nat) (action : ActionRequest)
    (h : ClosedBoard s.gameboard_)
    (hp : (tankAt s i).playerId_ = 1 ∨ (tankAt s i).playerId_ = 2) :
    ClosedBoard (moveTank s i action).gameboard_ := by
  unfold moveTank
  simp only
  exact handleTankCollisionAt_closed _ _ _ _ _ _ _ _ (closed_setBoard _ _ _ _ h (by decide)) hp

theorem playerId_of_key {s r : GM} (h : r.tanks_.map tankKey = s.tanks_.map tankKey)
    (k : Nat) : (tankAt r k).playerId_ = (tankAt s k).playerId_ := by
  have := getD_of_map_eq tankKey _ _ default h k
  simp only [tankKey, Prod.mk.injEq] at this
  exact this.2.2

theorem playerId_modifyTank (s : GM) (i k : Nat) (f : TankInfo → TankInfo)
    (hf : ∀ t, tankKey (f t) = tankKey t) :
    (tankAt (modifyTank s i f) k).playerId_ = (tankAt s k).playerId_ :=
  playerId_of_key (map_modify_of_eq tankKey f hf _ i) k

theorem backwardsRequest_board (s : GM) (action : ActionRequest) (i : Nat) :
    (backwardsRequest s action i).gameboard_ = s.gameboard_ := by
  unfold backwardsRequest
  simp only
  split_ifs <;> rfl

theorem performValid_closed (s : GM) (action : ActionRequest) (i : Nat)
    (h : ClosedBoard s.gameboard_)
    (hp : (tankAt s i).playerId_ = 1 ∨ (tankAt s i).playerId_ = 2) :
    ClosedBoard (performValid s action i).gameboard_ := by
  unfold performValid
  cases action
  all_goals first
    | exact h
    | exact moveTank_closed _ _ _ h hp
    | exact shoot_closed _ _ h

theorem performBackwards_closed (s : GM) (action : ActionRequest) (i : Nat)
    (h : ClosedBoard s.gameboard_)
    (hp : (tankAt s i).playerId_ = 1 ∨ (tankAt s i).playerId_ = 2) :
    ClosedBoard (performBackwards s action i).1.gameboard_ := by
  have hp3 : (tankAt (modifyTank s i TankInfo.decreaseTurnsToShoot) i).playerId_ = 1 ∨
      (tankAt (modifyTank s i TankInfo.decreaseTurnsToShoot) i).playerId_ = 2 := by
    rw [playerId_modifyTank s i i _ (by intro t; rfl)]
    exact hp
  unfold performBackwards
  simp only
  split_ifs
  all_goals first
    | exact h
    | exact moveTank_closed _ _ _ h hp3

theorem performAction_closed (s : GM) (action : ActionRequest) (i : Nat)
    (h : ClosedBoard s.gameboard_)
    (hp : (tankAt s i).playerId_ = 1 ∨ (tankAt s i).playerId_ = 2) :
    ClosedBoard (performAction s action i).1.gameboard_ := by
  have h2 : ClosedBoard (backwardsRequest s action i).gameboard_ := by
    rw [backwardsRequest_board]; exact h
  have hp2 : (tankAt (backwardsRequest s action i) i).playerId_ = 1 ∨
      (tankAt (backwardsRequest s action i) i).playerId_ = 2 := by
    rw [playerId_of_key (backwardsRequest_key s action i) i]
    exact hp
  unfold performAction
  simp only
  split_ifs
  all_goals first
    | exact h
    | exact h2
    | exact moveTank_closed _ _ _ h hp
    | exact performBackwards_closed _ _ _ h2 hp2
    | exact performValid_closed _ _ _ h2 hp2

theorem performTankActionStep_closed (s : GM) (i : Nat) (h : ClosedBoard s.gameboard_)
    (hp : (tankAt s i).playerId_ = 1 ∨ (tankAt s i).playerId_ = 2) :
    ClosedBoard (performTankActionStep s i).gameboard_ := by
  unfold performTankActionStep
  simp only
  split_ifs
  all_goals first
    | exact h
    | exact performAction_closed _ _ _ h hp

/-! ## The shell phase keeps the alphabet -/

theorem clearPreviousShellPosition_closed (s : GM) (it : Nat) (h : ClosedBoard s.gameboard_) :
    ClosedBoard (clearPreviousShellPosition s it).gameboard_ := by
  unfold clearPreviousShellPosition
  simp only
  repeat' split
  all_goals first
    | exact h
    | exact closedBoard_setCell _ _ _ _ h (by decide)

theorem handleShellSpawnOnTank_closed (s : GM) (it : Nat) (h : ClosedBoard s.gameboard_) :
    ClosedBoard (handleShellSpawnOnTank s it).1.gameboard_ := by
  unfold handleShellSpawnOnTank
  simp only
  repeat' split
  all_goals first
    | exact h
    | exact closedBoard_setCell _ _ _ _ h (by decide)

theorem handleShellCollision_closed (s : GM) (it : Nat) (x y : Int) (dir : Direction)
    (h : ClosedBoard s.gameboard_) :
    ClosedBoard (handleShellCollision s it x y dir).1.gameboard_ := by
  unfold handleShellCollision
  simp only
  repeat' split
  all_goals first
    | exact h
    | exact closedBoard_setCell _ _ _ _ h (by decide)

theorem handleShellMoveToNextCell_closed (s : GM) (it : Nat) (x y : Int) (next_cell : Char)
    (h : ClosedBoard s.gameboard_) :
    ClosedBoard (handleShellMoveToNextCell s it x y next_cell).1.gameboard_ := by
  unfold handleShellMoveToNextCell
  repeat' split
  all_goals first
    | exact h
    | exact closedBoard_setCell _ _ _ _ h (by decide)

theorem moveShellsStep_closed (s : GM) (it : Nat) (h : ClosedBoard s.gameboard_) :
    ClosedBoard (moveShellsStep s it).1.gameboard_ := by
  unfold moveShellsStep
  simp only
  split_ifs
  · exact handleShellSpawnOnTank_closed _ _ h
  · exact handleShellCollision_closed _ _ _ _ _ (clearPreviousShellPosition_closed _ _ h)
  · exact handleShellMoveToNextCell_closed _ _ _ _ _ (clearPreviousShellPosition_closed _ _ h)

theorem collapseEntries_closed : ∀ (es : List ((Int × Int) × List Shell)) (s : GM),
    ClosedBoard s.gameboard_ → ClosedBoard (collapseEntries s es).gameboard_
  | [], _, h => h
  | e :: rest, s, h => by
    unfold collapseEntries
    split
    · exact collapseEntries_closed rest _ h
    · exact collapseEntries_closed rest _ (closed_setBoard _ _ _ _ h (by decide))

theorem checkShellsCollide_closed (s : GM) (h : ClosedBoard s.gameboard_) :
    ClosedBoard (checkShellsCollide s).gameboard_ := by
  unfold checkShellsCollide
  simp only
  exact collapseEntries_closed _ _ h

theorem checkTanksStatus_board (s : GM) : (checkTanksStatus s).gameboard_ = s.gameboard_ := by
  unfold checkTanksStatus
  simp only
  split_ifs <;> rfl

theorem noAmmoStep_board (s : GM) : (noAmmoStep s).gameboard_ = s.gameboard_ := by
  unfold noAmmoStep
  simp only
  split_ifs <;> rfl

theorem finishStep_board (s : GM) : (finishStep s).gameboard_ = s.gameboard_ := by
  unfold finishStep
  split_ifs <;> rfl

/-! ## The alphabet at every point of a game -/

theorem initialCells_sub (c : Char) (h : c ∈ initialCells) : c ∈ boardCells := by
  simp only [initialCells, List.mem_cons, List.mem_singleton, List.not_mem_nil, or_false] at h
  rcases h with h | h | h | h | h <;> rw [h] <;> decide

/-- The board on entry to the main loop is the map, cell by cell. -/
theorem startGame_closed (winner0 : Int) (reason0 : Reason) (rounds0 : Nat)
    (map_width map_height : Nat) (map : Nat → Nat → Char) (max_steps num_shells : Nat)
    (hmap : ∀ x y, x < map_width → y < map_height → map x y ∈ initialCells) :
    ClosedBoard (startGame (newGM winner0 reason0 rounds0) map_width map_height map max_steps
      num_shells).gameboard_ := by
  have hb : (startGame (newGM winner0 reason0 rounds0) map_width map_height map max_steps
      num_shells).gameboard_ = (List.range (toInt32 map_height).toNat).map
        (fun i => (List.range (toInt32 map_width).toNat).map (fun j => map j i)) := by
    unfold startGame initiateGame
    simp only
    split_ifs <;> rfl
  rw [hb]
  intro row hrow c hc
  obtain ⟨i, hi, rfl⟩ := List.mem_map.mp hrow
  obtain ⟨j, hj, rfl⟩ := List.mem_map.mp hc
  rw [List.mem_range] at hi hj
  exact initialCells_sub _ (hmap j i (lt_of_lt_of_le hj (toInt32_toNat_le map_width))
    (lt_of_lt_of_le hi (toInt32_toNat_le map_height)))

/-- At every point of a game each tank belongs to the player it belonged to at the start. -/
theorem player_of_point {oracle : Oracle} {s0 s : GM} (h : GamePoint oracle s0 s)
    (h0 : ∀ k, k < s0.tanks_.length →
      (tankAt s0 k).playerId_ = 1 ∨ (tankAt s0 k).playerId_ = 2) :
    ∀ k, k < s.tanks_.length → (tankAt s k).playerId_ = 1 ∨ (tankAt s k).playerId_ = 2 := by
  intro k hk
  have hrel := rel_of_point ownerDead_closed h
  rw [hrel.1] at hk
  have := (hrel.2 k hk).1
  unfold tankAt
  rw [this]
  exact h0 k hk

theorem closed_of_point {oracle : Oracle} {s0 s : GM} (h : GamePoint oracle s0 s)
    (hb : ClosedBoard s0.gameboard_)
    (h0 : ∀ k, k < s0.tanks_.length →
      (tankAt s0 k).playerId_ = 1 ∨ (tankAt s0 k).playerId_ = 2) :
    ClosedBoard s.gameboard_ := by
  induction h with
  | start => exact hb
  | copy _ ih => exact ih
  | stop _ ih => exact ih
  | ask _ ih => exact ih
  | act i hp hi ih => exact performTankActionStep_closed _ i ih (player_of_point hp h0 i hi)
  | shell it _ _ ih => exact moveShellsStep_closed _ it ih
  | collide _ ih => exact checkShellsCollide_closed _ ih
  | log _ ih => exact ih
  | status _ ih => rw [checkTanksStatus_board]; exact ih
  | timer _ ih => rw [noAmmoStep_board]; exact ih
  | finish _ ih => rw [finishStep_board]; exact ih
  | next _ ih => exact ih

/-- C26: on a map whose cells inside the grid are all among the blank, `#`, `@`, `1` and
`2`, every cell of the board of the engine (`gameboard_`) is one of the blank, `#`, `$`,
`@`, `1`, `2`, `*`, `^`, `a`, `b`, `c`, `d` at every point of the game: at every state the
main loop of `run` passes through, down to the single iterations of `performTankActions`
and of `moveShells`.  For every number `n` of turns the state after `n` turns exists, given
enough fuel, and its board is closed in this sense, and so is the board of the final state
of `run`. -/
theorem board_alphabet_closed (winner0 : Int) (reason0 : Reason) (rounds0 : Nat)
    (map_width map_height : Nat) (map : Nat → Nat → Char) (max_steps num_shells : Nat)
    (oracle : Oracle)
    (hmap : ∀ x y, x < map_width → y < map_height → map x y ∈ initialCells) :
    (∀ s, GamePoint oracle (startGame (newGM winner0 reason0 rounds0) map_width map_height map
        max_steps num_shells) s → ClosedBoard s.gameboard_) ∧
    (∀ n, ∃ F s, (∀ fuel, F ≤ fuel →
        turnsFrom fuel oracle n (startGame (newGM winner0 reason0 rounds0) map_width map_height
          map max_steps num_shells) = some s) ∧ ClosedBoard s.gameboard_) ∧
    (∃ F r, (∀ fuel, F ≤ fuel →
        runGame fuel winner0 reason0 rounds0 map_width map_height map max_steps num_shells
          oracle = some r) ∧ ClosedBoard r.1.gameboard_) := by
  have hI := Inv.startGame_ok winner0 reason0 rounds0 map_width map_height map max_steps
    num_shells
  have hb := startGame_closed winner0 reason0 rounds0 map_width map_height map max_steps
    num_shells hmap
  have hall : ∀ s, GamePoint oracle (startGame (newGM winner0 reason0 rounds0) map_width
      map_height map max_steps num_shells) s → ClosedBoard s.gameboard_ :=
    fun s hp => closed_of_point hp hb hI.player
  refine ⟨hall, ?_, ?_⟩
  · intro n
    obtain ⟨F, s, hF, -⟩ := turnsFrom_total oracle n _ hI
    exact ⟨F, s, hF, hall s (turnsFrom_point F n _ s GamePoint.start (hF F (le_refl _)))⟩
  · obtain ⟨F, r, hF, -, -⟩ := runGame_total winner0 reason0 rounds0 map_width map_height map
      max_steps num_shells oracle
    exact ⟨F, r, hF, hall r.1 (runLoop_point F _ r GamePoint.start (hF F (le_refl _)))⟩

/-- The game on `crossMap`, in which two shells are fired and meet: the map has only cells
of the initial alphabet, and the board after two turns is closed. -/
theorem board_alphabet_closed_witness :
    (∀ x y, x < 4 → y < 4 → crossMap x y ∈ initialCells) ∧
    (∃ F s, (∀ fuel, F ≤ fuel → turnsFrom fuel crossOracle 2 crossStart = some s) ∧
      ClosedBoard s.gameboard_) :=
  have hmap : ∀ x y, x < 4 → y < 4 → crossMap x y ∈ initialCells := by
    intro x y hx hy
    interval_cases x <;> interval_cases y <;> decide
  ⟨hmap, (board_alphabet_closed 0 Reason.ALL_TANKS_DEAD 0 4 4 crossMap 50 5 crossOracle
    hmap).2.1 2⟩

/-! ## Directions between neighbouring cells -/

/-- One step on a circle of `n` cells. -/
theorem wrap_cases (x d n : Int) (hn : 1 ≤ n) (hx : 0 ≤ x ∧ x < n) (hd : -1 ≤ d ∧ d ≤ 1) :
    ((x + d + n).tmod n = x + d ∧ 0 ≤ x + d ∧ x + d < n) ∨
    ((x + d + n).tmod n = 0 ∧ x = n - 1 ∧ d = 1) ∨
    ((x + d + n).tmod n = n - 1 ∧ x = 0 ∧ d = -1) := by
  rw [torus_step x d n hn hx.1 hd.1]
  by_cases h1 : x + d < 0
  · right; right
    have hx0 : x = 0 := by omega
    have hd1 : d = -1 := by omega
    refine ⟨?_, hx0, hd1⟩
    rw [hx0, hd1]
    have : (0 + -1 : Int) % n = n - 1 := by
      rw [show (0 + -1 : Int) = (n - 1) + (-1) * n by ring, Int.add_mul_emod_self]
      exact Int.emod_eq_of_lt (by omega) (by omega)
    exact this
  · by_cases h2 : n ≤ x + d
    · right; left
      have hxn : x = n - 1 := by omega
      have hd1 : d = 1 := by omega
      refine ⟨?_, hxn, hd1⟩
      rw [hxn, hd1]
      have : (n - 1 + 1 : Int) % n = 0 := by
        rw [show (n - 1 + 1 : Int) = n by ring]
        exact Int.emod_self
      exact this
    · left
      exact ⟨Int.emod_eq_of_lt (by omega) (by omega), by omega, by omega⟩

theorem stepCell_cases (x y : Int) (d : Direction) (rows cols : Int) (hr : 1 ≤ rows)
    (hc : 1 ≤ cols) (hx : 0 ≤ x ∧ x < cols) (hy : 0 ≤ y ∧ y < rows) :
    (((stepCell x y d rows cols).1 = x + (directionMap d).1 ∧ 0 ≤ x + (directionMap d).1 ∧
        x + (directionMap d).1 < cols) ∨
      ((stepCell x y d rows cols).1 = 0 ∧ x = cols - 1 ∧ (directionMap d).1 = 1) ∨
      ((stepCell x y d rows cols).1 = cols - 1 ∧ x = 0 ∧ (directionMap d).1 = -1)) ∧
    (((stepCell x y d rows cols).2 = y + (directionMap d).2 ∧ 0 ≤ y + (directionMap d).2 ∧
        y + (directionMap d).2 < rows) ∨
      ((stepCell x y d rows cols).2 = 0 ∧ y = rows - 1 ∧ (directionMap d).2 = 1) ∨
      ((stepCell x y d rows cols).2 = rows - 1 ∧ y = 0 ∧ (directionMap d).2 = -1)) :=
  ⟨wrap_cases x _ cols hc hx ⟨(directionMap_bounds d).1.1, (directionMap_bounds d).1.2⟩,
    wrap_cases y _ rows hr hy ⟨(directionMap_bounds d).2.1, (directionMap_bounds d).2.2⟩⟩

theorem stepCell_inside (x y : Int) (d : Direction) (rows cols : Int) (hr : 1 ≤ rows)
    (hc : 1 ≤ cols) (hx : 0 ≤ x ∧ x < cols) (hy : 0 ≤ y ∧ y < rows) :
    (0 ≤ (stepCell x y d rows cols).1 ∧ (stepCell x y d rows cols).1 < cols) ∧
    (0 ≤ (stepCell x y d rows cols).2 ∧ (stepCell x y d rows cols).2 < rows) := by
  obtain ⟨h1, h2⟩ := stepCell_cases x y d rows cols hr hc hx hy
  constructor
  · rcases h1 with h | h | h <;> omega
  · rcases h2 with h | h | h <;> omega

theorem iabs_cases (x : Int) : (0 ≤ x ∧ iabs x = x) ∨ (x < 0 ∧ iabs x = -x) := by
  unfold iabs
  split_ifs with h
  · right; exact ⟨h, rfl⟩
  · left; exact ⟨by omega, rfl⟩

theorem signDir_table (dx dy : Int) :
    (dx < 0 → 0 < dy → signDir dx dy = Direction.UR) ∧
    (dx < 0 → dy = 0 → signDir dx dy = Direction.R) ∧
    (dx < 0 → dy < 0 → signDir dx dy = Direction.DR) ∧
    (dx = 0 → dy < 0 → signDir dx dy = Direction.D) ∧
    (0 < dx → dy < 0 → signDir dx dy = Direction.DL) ∧
    (0 < dx → dy = 0 → signDir dx dy = Direction.L) ∧
    (0 < dx → 0 < dy → signDir dx dy = Direction.UL) ∧
    (dx = 0 → 0 ≤ dy → signDir dx dy = Direction.U) := by
  unfold signDir
  simp only [gt_iff_lt]
  refine ⟨?_, ?_, ?_, ?_, ?_, ?_, ?_, ?_⟩ <;> intro h1 h2
  · rw [if_neg (by omega), if_neg (by omega), if_neg (by omega), if_neg (by omega),
      if_neg (by omega), if_neg (by omega), if_pos (by omega)]
  · rw [if_neg (by omega), if_neg (by omega), if_neg (by omega), if_neg (by omega),
      if_neg (by omega), if_pos (by omega)]
  · rw [if_neg (by omega), if_neg (by omega), if_neg (by omega), if_neg (by omega),
      if_pos (by omega)]
  · rw [if_neg (by omega), if_neg (by omega), if_neg (by omega), if_pos (by omega)]
  · rw [if_neg (by omega), if_neg (by omega), if_pos (by omega)]
  · rw [if_neg (by omega), if_pos (by omega)]
  · rw [if_pos (by omega)]
  · rw [if_neg (by omega), if_neg (by omega), if_neg (by omega), if_neg (by omega),
      if_neg (by omega), if_neg (by omega), if_neg (by omega)]
    split_ifs <;> rfl

theorem crossPass_table (dx dy rows cols : Int) (hr : 3 ≤ rows) (hc : 3 ≤ cols) :
    ((-1 ≤ dx ∧ dx ≤ 1) → (-1 ≤ dy ∧ dy ≤ 1) → crossPass dx dy rows cols = 0) ∧
    ((dx = cols - 1 ∨ dx = 1 - cols) → dy = 0 → crossPass dx dy rows cols = 4) ∧
    (dx = 0 → (dy = rows - 1 ∨ dy = 1 - rows) → crossPass dx dy rows cols = 4) ∧
    ((dx = cols - 1 ∨ dx = 1 - cols) → (dy = rows - 1 ∨ dy = 1 - rows) →
      crossPass dx dy rows cols = 4) ∧
    ((dx = 1 - cols ∧ dy = -1) ∨ (dx = cols - 1 ∧ dy = 1) ∨ (dx = 1 ∧ dy = 1 - rows) ∨
      (dx = -1 ∧ dy = rows - 1) → crossPass dx dy rows cols = 2) ∧
    ((dx = 1 - cols ∧ dy = 1) ∨ (dx = cols - 1 ∧ dy = -1) ∨ (dx = -1 ∧ dy = 1 - rows) ∨
      (dx = 1 ∧ dy = rows - 1) → crossPass dx dy rows cols = 6) := by
  have ax := iabs_cases dx
  have ay := iabs_cases dy
  unfold crossPass
  refine ⟨?_, ?_, ?_, ?_, ?_, ?_⟩
  · intro h1 h2
    rw [if_neg (by omega), if_neg (by omega), if_neg (by omega)]
  · intro h1 h2
    rw [if_neg (by omega), if_pos (by omega)]
  · intro h1 h2
    rw [if_neg (by omega), if_pos (by omega)]
  · intro h1 h2
    rw [if_neg (by omega), if_pos (by omega)]
  · intro h1
    rw [if_pos h1]
  · intro h1
    rw [if_neg (by omega), if_neg (by omega), if_pos h1]

/-- The value of `diffToDir` on the difference between a cell and its neighbour in the
direction `d`, whatever borders the step crosses. -/
theorem diffToDir_of (dx dy rows cols : Int) (d : Direction) (hr : 3 ≤ rows) (hc : 3 ≤ cols)
    (h1 : (dx = -(directionMap d).1) ∨ (dx = cols - 1 ∧ (directionMap d).1 = 1) ∨
      (dx = 1 - cols ∧ (directionMap d).1 = -1))
    (h2 : (dy = -(directionMap d).2) ∨ (dy = rows - 1 ∧ (directionMap d).2 = 1) ∨
      (dy = 1 - rows ∧ (directionMap d).2 = -1)) :
    diffToDir dx dy rows cols = d := by
  obtain ⟨s1, s2, s3, s4, s5, s6, s7, s8⟩ := signDir_table dx dy
  obtain ⟨c0, c1, c2, c3, c4, c5⟩ := crossPass_table dx dy rows cols hr hc
  unfold diffToDir
  simp only []
  cases d <;> simp only [directionMap] at h1 h2 <;>
    rcases h1 with h1 | h1 | h1 <;> rcases h2 with h2 | h2 | h2 <;>
    first
    | (exfalso; omega)
    | ((first
        | rw [s1 (by omega) (by omega)] | rw [s2 (by omega) (by omega)]
        | rw [s3 (by omega) (by omega)] | rw [s4 (by omega) (by omega)]
        | rw [s5 (by omega) (by omega)] | rw [s6 (by omega) (by omega)]
        | rw [s7 (by omega) (by omega)] | rw [s8 (by omega) (by omega)]);
       (first
        | rw [c0 (by omega) (by omega)] | rw [c1 (by omega) (by omega)]
        | rw [c2 (by omega) (by omega)] | rw [c3 (by omega) (by omega)]
        | rw [c4 (by omega)] | rw [c5 (by omega)]); rfl)

/-- C35: on a board with at least 3 rows and 3 columns, for every cell `(x, y)` of the
board and every direction `d`, `diffToDir` applied to the difference between the cell and
the cell one step away in the direction `d` (with torus wrap, as the algorithm computes
it), together with the rows and columns of the board, returns `d`; this covers the steps
that cross one border of the board or two. -/
theorem diffToDir_recovers_direction (rows cols x y : Int) (d : Direction)
    (hr : 3 ≤ rows) (hc : 3 ≤ cols) (hx : 0 ≤ x ∧ x < cols) (hy : 0 ≤ y ∧ y < rows) :
    diffToDir (x - (stepCell x y d rows cols).1) (y - (stepCell x y d rows cols).2) rows cols
      = d := by
  obtain ⟨h1, h2⟩ := stepCell_cases x y d rows cols (by omega) (by omega) hx hy
  apply diffToDir_of _ _ rows cols d hr hc
  · rcases h1 with h | h | h
    · left; omega
    · right; left; exact ⟨by omega, h.2.2⟩
    · right; right; exact ⟨by omega, h.2.2⟩
  · rcases h2 with h | h | h
    · left; omega
    · right; left; exact ⟨by omega, h.2.2⟩
    · right; right; exact ⟨by omega, h.2.2⟩

/-- C35 witness: the 4-by-5 board, from the corner cell `(4, 3)` in the direction `DR`,
a step that crosses both borders and lands on `(0, 0)`. -/
theorem diffToDir_recovers_direction_witness :
    stepCell 4 3 Direction.DR 4 5 = (0, 0) ∧
    diffToDir (4 - (stepCell 4 3 Direction.DR 4 5).1) (3 - (stepCell 4 3 Direction.DR 4 5).2)
      4 5 = Direction.DR :=
  ⟨by decide, diffToDir_recovers_direction 4 5 4 3 Direction.DR (by decide) (by decide)
    (by decide) (by decide)⟩

/-! ## The rotation primitive -/

theorem updateLocation_direction (alg : TankNav) (a : ActionRequest) :
    (updateLocation alg a).direction_ =
      match a with
      | .RotateLeft90 => Direction.castNat ((alg.direction_.toNat + 8 - 2) % 8)
      | .RotateRight90 => Direction.castNat ((alg.direction_.toNat + 2) % 8)
      | .RotateLeft45 => Direction.castNat ((alg.direction_.toNat + 8 - 1) % 8)
      | .RotateRight45 => Direction.castNat ((alg.direction_.toNat + 1) % 8)
      | _ => alg.direction_ := by
  cases a <;> rfl

theorem foldl_updateLocation_direction (as : List ActionRequest) :
    ∀ alg1 alg2 : TankNav, alg1.direction_ = alg2.direction_ →
      (as.foldl updateLocation alg1).direction_ = (as.foldl updateLocation alg2).direction_ := by
  induction as with
  | nil => intro alg1 alg2 h; exact h
  | cons a as ih =>
    intro alg1 alg2 h
    simp only [List.foldl_cons]
    apply ih
    rw [updateLocation_direction, updateLocation_direction, h]

theorem facingAfter_nil (alg : TankNav) (f : Direction) : facingAfter alg f [] = f := rfl

theorem facingAfter_cons (alg : TankNav) (f : Direction) (a : ActionRequest)
    (as : List ActionRequest) :
    facingAfter alg f (a :: as) =
      facingAfter alg (updateLocation { alg with direction_ := f } a).direction_ as := by
  unfold facingAfter
  simp only [List.foldl_cons]
  exact foldl_updateLocation_direction as _ _ rfl

/-- The facing after the rotations of a row of the table. -/
theorem facingAfter_rotations (alg : TankNav) (f : Direction) :
    facingAfter alg f [ActionRequest.RotateLeft45] =
      Direction.castNat ((f.toNat + 8 - 1) % 8) ∧
    facingAfter alg f [ActionRequest.RotateLeft90] =
      Direction.castNat ((f.toNat + 8 - 2) % 8) ∧
    facingAfter alg f [ActionRequest.RotateRight45] = Direction.castNat ((f.toNat + 1) % 8) ∧
    facingAfter alg f [ActionRequest.RotateRight90] = Direction.castNat ((f.toNat + 2) % 8) ∧
    facingAfter alg f [ActionRequest.RotateLeft90, ActionRequest.RotateLeft45] =
      Direction.castNat ((f.toNat + 8 - 3) % 8) ∧
    facingAfter alg f [ActionRequest.RotateRight90, ActionRequest.RotateRight45] =
      Direction.castNat ((f.toNat + 3) % 8) := by
  refine ⟨rfl, rfl, rfl, rfl, ?_, ?_⟩
  · rw [facingAfter_cons, facingAfter_cons, facingAfter_nil, updateLocation_direction,
      updateLocation_direction]
    simp only []
    cases f <;> decide
  · rw [facingAfter_cons, facingAfter_cons, facingAfter_nil, updateLocation_direction,
      updateLocation_direction]
    simp only []
    cases f <;> decide

/-- C32: outside evasion, for every facing `f`, every pair of cells and every board size,
with `t` the direction that `diffToDir` computes from the current cell to the target and
`d = (f - t) mod 8`: `actionsToNextCell` appends to the action queue exactly the row of
the rotation table for `d` and changes nothing else of the algorithm.  For `d ≠ 4` the row
is a sequence of rotations followed by `MoveForward`, the rotations turn the facing `f`
into `t`, and the function returns `t`, or nothing when `d = 0`; the reference parameter
is left false.  For `d = 4` the row is the single action `MoveBackward`, the function
returns nothing and the reference parameter is left true. -/
theorem actionsToNextCell_follows_table (alg : TankNav) (curr next : Int × Int)
    (f : Direction) (rows cols : Int) (flag : Bool) :
    (actionsToNextCell alg curr next f rows cols flag false).1 =
      { alg with actionsQueue_ := alg.actionsQueue_ ++
          rotationTable ((f.toNat + 8 -
            (diffToDir (curr.1 - next.1) (curr.2 - next.2) rows cols).toNat) % 8) } ∧
    ((f.toNat + 8 - (diffToDir (curr.1 - next.1) (curr.2 - next.2) rows cols).toNat) % 8 ≠ 4 →
      (∃ rots, rotationTable ((f.toNat + 8 -
            (diffToDir (curr.1 - next.1) (curr.2 - next.2) rows cols).toNat) % 8) =
          rots ++ [ActionRequest.MoveForward] ∧
        (∀ a ∈ rots, isRotation a = true) ∧
        facingAfter alg f rots = diffToDir (curr.1 - next.1) (curr.2 - next.2) rows cols) ∧
      (actionsToNextCell alg curr next f rows cols flag false).2.1 = false ∧
      (actionsToNextCell alg curr next f rows cols flag false).2.2 =
        if (f.toNat + 8 -
            (diffToDir (curr.1 - next.1) (curr.2 - next.2) rows cols).toNat) % 8 = 0 then none
        else some (diffToDir (curr.1 - next.1) (curr.2 - next.2) rows cols)) ∧
    ((f.toNat + 8 - (diffToDir (curr.1 - next.1) (curr.2 - next.2) rows cols).toNat) % 8 = 4 →
      rotationTable ((f.toNat + 8 -
            (diffToDir (curr.1 - next.1) (curr.2 - next.2) rows cols).toNat) % 8) =
          [ActionRequest.MoveBackward] ∧
      (actionsToNextCell alg curr next f rows cols flag false).2.1 = true ∧
      (actionsToNextCell alg curr next f rows cols flag false).2.2 = none) := by
  unfold actionsToNextCell
  simp only []
  generalize diffToDir (curr.1 - next.1) (curr.2 - next.2) rows cols = t
  have hr := facingAfter_rotations alg f
  cases f <;> cases t <;>
    simp only [Direction.toNat, Direction.castNat] at hr ⊢ <;>
    norm_num [rotationTable, TankNav.push, TankNav.evadeFor] at hr ⊢ <;>
    first
    | rfl
    | exact ⟨[ActionRequest.RotateLeft45], rfl, by simp [isRotation], hr.1⟩
    | exact ⟨[ActionRequest.RotateLeft90], rfl, by simp [isRotation], hr.2.1⟩
    | exact ⟨[ActionRequest.RotateRight45], rfl, by simp [isRotation], hr.2.2.1⟩
    | exact ⟨[ActionRequest.RotateRight90], rfl, by simp [isRotation], hr.2.2.2.1⟩
    | exact ⟨[ActionRequest.RotateLeft90, ActionRequest.RotateLeft45], rfl,
        by simp [isRotation], hr.2.2.2.2.1⟩
    | exact ⟨[ActionRequest.RotateRight90, ActionRequest.RotateRight45], rfl,
        by simp [isRotation], hr.2.2.2.2.2⟩

/-! ## Dead reckoning of the algorithm against the engine -/

/-- The tank that moves forward onto an empty cell is placed on that cell. -/
theorem moveTank_onto_blank (s : GM) (i : Nat) (hi : i < s.tanks_.length)
    (hb : cellAt s.gameboard_
        (nextLocation s (tankAt s i).location_.1 (tankAt s i).location_.2 (tankAt s i).dir_
          false).1
        (nextLocation s (tankAt s i).location_.1 (tankAt s i).location_.2 (tankAt s i).dir_
          false).2 = ' ') :
    tankAt (moveTank s i ActionRequest.MoveForward) i =
      (tankAt s i).setLocation
        (nextLocation s (tankAt s i).location_.1 (tankAt s i).location_.2 (tankAt s i).dir_
          false).1
        (nextLocation s (tankAt s i).location_.1 (tankAt s i).location_.2 (tankAt s i).dir_
          false).2 := by
  have hn : nextLocation (setBoard s (tankAt s i).location_.1 (tankAt s i).location_.2 ' ')
      (tankAt s i).location_.1 (tankAt s i).location_.2 (tankAt s i).dir_ false =
      nextLocation s (tankAt s i).location_.1 (tankAt s i).location_.2 (tankAt s i).dir_
        false := rfl
  have hc : cellAt (setBoard s (tankAt s i).location_.1 (tankAt s i).location_.2 ' ').gameboard_
      (nextLocation s (tankAt s i).location_.1 (tankAt s i).location_.2 (tankAt s i).dir_
        false).1
      (nextLocation s (tankAt s i).location_.1 (tankAt s i).location_.2 (tankAt s i).dir_
        false).2 = ' ' := by
    rw [setBoard_board]
    rcases cellAt_setCell_cases s.gameboard_ (tankAt s i).location_.1 (tankAt s i).location_.2
      (nextLocation s (tankAt s i).location_.1 (tankAt s i).location_.2 (tankAt s i).dir_
        false).1
      (nextLocation s (tankAt s i).location_.1 (tankAt s i).location_.2 (tankAt s i).dir_
        false).2 ' ' with h | ⟨h1, h2, h3⟩
    · rw [h]; exact hb
    · rw [h1, h2] at hb ⊢
      exact cellAt_setCell_same _ _ _ _ (by rw [hb]; decide)
  unfold moveTank
  simp only [reduceCtorEq, if_false, hn, hc]
  unfold handleTankCollisionAt
  simp only [if_true]
  exact tankAt_modifyTank_self _ i _ hi

/-- C36: an engine tank `i` and an algorithm that agree on position and facing, on a board
of the width and height that the algorithm computes from its own board.  After each of the
four rotations, the position and the facing that `updateLocation` computes are those that
the engine gives the tank in `rotate`; and after `MoveForward`, when the cell ahead of the
tank (`nextLocation`) is empty, they are those that the engine gives the tank in
`moveTank`. -/
theorem updateLocation_matches_engine (s : GM) (i : Nat) (alg : TankNav)
    (hi : i < s.tanks_.length)
    (hloc : (tankAt s i).location_ = alg.location_)
    (hdir : (tankAt s i).dir_ = alg.direction_)
    (hw : s.width_ = boardCols alg.gameboard) (hh : s.height_ = boardRows alg.gameboard) :
    (∀ a, isRotation a = true →
      (tankAt (rotate s i a) i).location_ = (updateLocation alg a).location_ ∧
      (tankAt (rotate s i a) i).dir_ = (updateLocation alg a).direction_) ∧
    (cellAt s.gameboard_
        (nextLocation s (tankAt s i).location_.1 (tankAt s i).location_.2 (tankAt s i).dir_
          false).1
        (nextLocation s (tankAt s i).location_.1 (tankAt s i).location_.2 (tankAt s i).dir_
          false).2 = ' ' →
      (tankAt (moveTank s i ActionRequest.MoveForward) i).location_ =
        (updateLocation alg ActionRequest.MoveForward).location_ ∧
      (tankAt (moveTank s i ActionRequest.MoveForward) i).dir_ =
        (updateLocation alg ActionRequest.MoveForward).direction_) := by
  constructor
  · intro a ha
    rw [(rotate_dir s i a hi).1]
    cases a <;> simp [isRotation] at ha <;>
      simp only [TankInfo.setDirection, updateLocation, hloc, hdir, and_self]
  · intro hb
    rw [moveTank_onto_blank s i hi hb]
    simp only [TankInfo.setLocation, updateLocation, nextLocation, hloc, hdir, hw, hh,
      Bool.false_eq_true, if_false, and_self]

/-- C36 witness: tank 2 of `siegeStart`, which faces the empty cell `(4, 0)`, and an
algorithm on the same cell with the same facing and the board of the engine. -/
theorem updateLocation_matches_engine_witness :
    cellAt siegeStart.gameboard_
        (nextLocation siegeStart (tankAt siegeStart 2).location_.1
          (tankAt siegeStart 2).location_.2 (tankAt siegeStart 2).dir_ false).1
        (nextLocation siegeStart (tankAt siegeStart 2).location_.1
          (tankAt siegeStart 2).location_.2 (tankAt siegeStart 2).dir_ false).2 = ' ' ∧
    (tankAt (moveTank siegeStart 2 ActionRequest.MoveForward) 2).location_ = (4, 0) ∧
    ((tankAt (moveTank siegeStart 2 ActionRequest.MoveForward) 2).location_ =
        (updateLocation
          { location_ := (tankAt siegeStart 2).location_, direction_ := (tankAt siegeStart 2).dir_,
            actionsQueue_ := [], playerIndex_ := 1, ammo_ := 0, turnsToShoot_ := 0,
            turnsToEvade_ := 0, backwardsFlag_ := false, gameboard := siegeStart.gameboard_ }
          ActionRequest.MoveForward).location_ ∧
      (tankAt (moveTank siegeStart 2 ActionRequest.MoveForward) 2).dir_ =
        (updateLocation
          { location_ := (tankAt siegeStart 2).location_, direction_ := (tankAt siegeStart 2).dir_,
            actionsQueue_ := [], playerIndex_ := 1, ammo_ := 0, turnsToShoot_ := 0,
            turnsToEvade_ := 0, backwardsFlag_ := false, gameboard := siegeStart.gameboard_ }
          ActionRequest.MoveForward).direction_) :=
  ⟨by decide!, by decide!,
    (updateLocation_matches_engine siegeStart 2
      { location_ := (tankAt siegeStart 2).location_, direction_ := (tankAt siegeStart 2).dir_,
        actionsQueue_ := [], playerIndex_ := 1, ammo_ := 0, turnsToShoot_ := 0,
        turnsToEvade_ := 0, backwardsFlag_ := false, gameboard := siegeStart.gameboard_ }
      (by decide!) rfl rfl (by decide!) (by decide!)).2 (by decide!)⟩

/-! ## Evasion -/

theorem castNat_toNat (d : Direction) : Direction.castNat d.toNat = d := by
  cases d <;> rfl

theorem toNat_lt_eight (d : Direction) : d.toNat < 8 := by
  cases d <;> decide

/-- What the loop of `evadeShell` returns, over any list of directions. -/
theorem evadeScan_spec (alg : TankNav) (d o : Direction) (g : Board) (rows cols : Int) :
    ∀ is : List Nat,
      (∀ n, evadeScan alg d o g rows cols is = some n →
        ∃ i ∈ is, Direction.castNat i ≠ d ∧ Direction.castNat i ≠ o ∧
          n = stepCell alg.location_.1 alg.location_.2 (Direction.castNat i) rows cols ∧
          cellAt g n.1 n.2 = ' ') ∧
      (evadeScan alg d o g rows cols is = none →
        ∀ i ∈ is, Direction.castNat i ≠ d → Direction.castNat i ≠ o →
          cellAt g (stepCell alg.location_.1 alg.location_.2 (Direction.castNat i) rows cols).1
            (stepCell alg.location_.1 alg.location_.2 (Direction.castNat i) rows cols).2
            ≠ ' ')
  | [] => ⟨fun n h => by simp [evadeScan] at h, fun _ i hi => by simp at hi⟩
  | i :: rest => by
    obtain ⟨ih1, ih2⟩ := evadeScan_spec alg d o g rows cols rest
    unfold evadeScan
    simp only
    by_cases hsk : Direction.castNat i = d ∨ Direction.castNat i = o
    · rw [if_pos hsk]
      refine ⟨fun n h => ?_, fun h k hk h1 h2 => ?_⟩
      · obtain ⟨k, hk, hrest⟩ := ih1 n h
        exact ⟨k, List.mem_cons_of_mem _ hk, hrest⟩
      · rcases List.mem_cons.mp hk with rfl | hk
        · rcases hsk with h3 | h3
          · exact absurd h3 h1
          · exact absurd h3 h2
        · exact ih2 h k hk h1 h2
    · rw [if_neg hsk]
      push_neg at hsk
      by_cases hb : cellAt g
          (stepCell alg.location_.1 alg.location_.2 (Direction.castNat i) rows cols).1
          (stepCell alg.location_.1 alg.location_.2 (Direction.castNat i) rows cols).2 = ' '
      · rw [if_pos hb]
        refine ⟨fun n h => ?_, fun h => by cases h⟩
        cases h
        exact ⟨i, List.mem_cons_self _ _, hsk.1, hsk.2, rfl, hb⟩
      · rw [if_neg hb]
        refine ⟨fun n h => ?_, fun h k hk h1 h2 => ?_⟩
        · obtain ⟨k, hk, hrest⟩ := ih1 n h
          exact ⟨k, List.mem_cons_of_mem _ hk, hrest⟩
        · rcases List.mem_cons.mp hk with rfl | hk
          · exact hb
          · exact ih2 h k hk h1 h2

/-- C34: on a board with at least 3 rows and 3 columns and for a tank on the board, the
cell that the loop of `evadeShell` selects is the neighbour of the tank (torus wrap) in
some direction `dir` other than the danger direction `d` and its opposite, the cell is
empty, `diffToDir` finds it in the direction `dir`, and `evadeShell` hands that cell to
`actionsToNextCell` on the emptied queue.  The loop selects no cell exactly when no
neighbour in a direction other than `d` and its opposite is empty, and `evadeShell` then
leaves the action queue empty and nothing else changed. -/
theorem evadeShell_avoids_danger_axis (alg : TankNav) (d : Direction) (g : Board)
    (hr : 3 ≤ boardRows g) (hc : 3 ≤ boardCols g)
    (hx : 0 ≤ alg.location_.1 ∧ alg.location_.1 < boardCols g)
    (hy : 0 ≤ alg.location_.2 ∧ alg.location_.2 < boardRows g) :
    (∀ n, evadeScan { alg with actionsQueue_ := [] } d
        (Direction.castNat ((d.toNat + 4) % 8)) g (boardRows g) (boardCols g) (List.range 8)
          = some n →
      ∃ dir, dir ≠ d ∧ dir ≠ Direction.castNat ((d.toNat + 4) % 8) ∧
        n = stepCell alg.location_.1 alg.location_.2 dir (boardRows g) (boardCols g) ∧
        cellAt g n.1 n.2 = ' ' ∧
        diffToDir (alg.location_.1 - n.1) (alg.location_.2 - n.2) (boardRows g) (boardCols g)
          = dir ∧
        evadeShell alg d g =
          (actionsToNextCell { alg with actionsQueue_ := [] } alg.location_ n alg.direction_
            (boardRows g) (boardCols g) alg.backwardsFlag_ true).1) ∧
    (evadeScan { alg with actionsQueue_ := [] } d
        (Direction.castNat ((d.toNat + 4) % 8)) g (boardRows g) (boardCols g) (List.range 8)
          = none ↔
      ∀ dir, dir ≠ d → dir ≠ Direction.castNat ((d.toNat + 4) % 8) →
        cellAt g (stepCell alg.location_.1 alg.location_.2 dir (boardRows g) (boardCols g)).1
          (stepCell alg.location_.1 alg.location_.2 dir (boardRows g) (boardCols g)).2 ≠ ' ') ∧
    (evadeScan { alg with actionsQueue_ := [] } d
        (Direction.castNat ((d.toNat + 4) % 8)) g (boardRows g) (boardCols g) (List.range 8)
          = none →
      evadeShell alg d g = { alg with actionsQueue_ := [] }) := by
  obtain ⟨h1, h2⟩ := evadeScan_spec { alg with actionsQueue_ := [] } d
    (Direction.castNat ((d.toNat + 4) % 8)) g (boardRows g) (boardCols g) (List.range 8)
  refine ⟨fun n hn => ?_, ⟨fun hn dir hd ho => ?_, fun hall => ?_⟩, fun hn => ?_⟩
  · obtain ⟨i, -, hd, ho, hstep, hcell⟩ := h1 n hn
    refine ⟨Direction.castNat i, hd, ho, hstep, hcell, ?_, ?_⟩
    · obtain ⟨c1, c2⟩ := stepCell_cases alg.location_.1 alg.location_.2 (Direction.castNat i)
        (boardRows g) (boardCols g) (by omega) (by omega) hx hy
      have e1 : n.1 = (stepCell alg.location_.1 alg.location_.2 (Direction.castNat i)
          (boardRows g) (boardCols g)).1 := by rw [hstep]
      have e2 : n.2 = (stepCell alg.location_.1 alg.location_.2 (Direction.castNat i)
          (boardRows g) (boardCols g)).2 := by rw [hstep]
      apply diffToDir_of _ _ _ _ _ hr hc
      · rcases c1 with h | h | h
        · left; omega
        · right; left; exact ⟨by omega, h.2.2⟩
        · right; right; exact ⟨by omega, h.2.2⟩
      · rcases c2 with h | h | h
        · left; omega
        · right; left; exact ⟨by omega, h.2.2⟩
        · right; right; exact ⟨by omega, h.2.2⟩
    · unfold evadeShell
      simp only
      rw [hn]
  · have := h2 hn dir.toNat (List.mem_range.mpr (toNat_lt_eight dir))
    rw [castNat_toNat] at this
    exact this hd ho
  · cases hs : evadeScan { alg with actionsQueue_ := [] } d
        (Direction.castNat ((d.toNat + 4) % 8)) g (boardRows g) (boardCols g) (List.range 8) with
    | none => rfl
    | some n =>
      obtain ⟨i, -, hd, ho, hstep, hcell⟩ := h1 n hs
      rw [hstep] at hcell
      exact absurd hcell (hall _ hd ho)
  · unfold evadeShell
    simp only
    rw [hn]

/-- C34 witness: on `evadeBoard` with the danger from above, the loop passes over the wall
at `(2, 0)` and selects the empty cell `(2, 1)` to the right; the tank, which faces left and
has no ammo, is told to move backwards. -/
theorem evadeShell_avoids_danger_axis_witness :
    evadeScan { evadeAlg with actionsQueue_ := [] } Direction.U
        (Direction.castNat ((Direction.U.toNat + 4) % 8)) evadeBoard (boardRows evadeBoard)
        (boardCols evadeBoard) (List.range 8) = some (2, 1) ∧
    (evadeShell evadeAlg Direction.U evadeBoard).actionsQueue_ = [ActionRequest.MoveBackward] ∧
    ∃ dir, dir ≠ Direction.U ∧ dir ≠ Direction.castNat ((Direction.U.toNat + 4) % 8) ∧
      ((2, 1) : Int × Int) = stepCell evadeAlg.location_.1 evadeAlg.location_.2 dir
        (boardRows evadeBoard) (boardCols evadeBoard) ∧
      cellAt evadeBoard 2 1 = ' ' ∧
      diffToDir (evadeAlg.location_.1 - 2) (evadeAlg.location_.2 - 1) (boardRows evadeBoard)
        (boardCols evadeBoard) = dir ∧
      evadeShell evadeAlg Direction.U evadeBoard =
        (actionsToNextCell { evadeAlg with actionsQueue_ := [] } evadeAlg.location_ (2, 1)
          evadeAlg.direction_ (boardRows evadeBoard) (boardCols evadeBoard)
          evadeAlg.backwardsFlag_ true).1 :=
  ⟨by decide, by decide,
    (evadeShell_avoids_danger_axis evadeAlg Direction.U evadeBoard (by decide) (by decide)
      (by decide) (by decide)).1 (2, 1) (by decide)⟩

/-! ## The line of fire -/

theorem holdsFoe_iff (alg : TankNav) (p : Int × Int) :
    holdsFoe alg p ↔
      showsPlayer (cellAt alg.gameboard p.1 p.2) (if alg.playerIndex_ = 1 then 2 else 1) = true :=
  Iff.rfl

/-- The loop for a cardinal direction, run up to the first cell on which it stops. -/
theorem friendlyCardinal_run (alg : TankNav) (dir : Direction) :
    ∀ (K : Nat) (p : Int × Int) (fuel : Nat), 1 ≤ K → K ≤ fuel →
      wrapStop alg ((wrapStep alg dir)^[K] p) →
      (∀ j, 1 ≤ j → j < K → ¬ wrapStop alg ((wrapStep alg dir)^[j] p)) →
      ∃ b, friendlyCardinal alg (directionMap dir).1 (directionMap dir).2
          (boardRows alg.gameboard) (boardCols alg.gameboard)
          (if alg.playerIndex_ = 1 then 2 else 1) fuel p.1 p.2 = some b ∧
        (b = true ↔ ¬ holdsFoe alg ((wrapStep alg dir)^[K] p)) := by
  intro K
  induction K with
  | zero => intro p fuel h; omega
  | succ K ih =>
    intro p fuel _ hf hstop hmin
    obtain ⟨fuel, rfl⟩ : ∃ f, fuel = f + 1 := ⟨fuel - 1, by omega⟩
    have e1 : (p.1 + (directionMap dir).1 + boardCols alg.gameboard).tmod
        (boardCols alg.gameboard) = (wrapStep alg dir p).1 := rfl
    have e2 : (p.2 + (directionMap dir).2 + boardRows alg.gameboard).tmod
        (boardRows alg.gameboard) = (wrapStep alg dir p).2 := rfl
    unfold friendlyCardinal
    simp only
    rw [e1, e2]
    by_cases hK : K = 0
    · subst hK
      simp only [Function.iterate_succ, Function.iterate_zero, Function.comp_apply, id_eq]
        at hstop ⊢
      by_cases hfoe : holdsFoe alg (wrapStep alg dir p)
      · rw [if_pos ((holdsFoe_iff _ _).mp hfoe)]
        exact ⟨false, rfl, by simp [hfoe]⟩
      · rw [if_neg (fun h => hfoe ((holdsFoe_iff _ _).mpr h))]
        refine ⟨true, ?_, by simp [hfoe]⟩
        rcases hstop with h | h | h
        · exact absurd h hfoe
        · rw [if_pos h]
        · by_cases hs : showsPlayer (cellAt alg.gameboard (wrapStep alg dir p).1
              (wrapStep alg dir p).2) alg.playerIndex_ = true
          · rw [if_pos hs]
          · rw [if_neg hs, if_neg (by rw [h]; simp)]
    · have h1 := hmin 1 (le_refl _) (by omega)
      simp only [Function.iterate_succ, Function.iterate_zero, Function.comp_apply, id_eq]
        at h1
      have hnf : ¬ holdsFoe alg (wrapStep alg dir p) := fun h => h1 (Or.inl h)
      have hns : ¬ showsPlayer (cellAt alg.gameboard (wrapStep alg dir p).1
          (wrapStep alg dir p).2) alg.playerIndex_ = true := fun h => h1 (Or.inr (Or.inl h))
      have hnl : wrapStep alg dir p ≠ alg.location_ := fun h => h1 (Or.inr (Or.inr h))
      rw [if_neg (fun h => hnf ((holdsFoe_iff _ _).mpr h)), if_neg hns, if_pos (by
        by_contra hc
        push_neg at hc
        exact hnl (Prod.ext hc.1 hc.2))]
      have := ih (wrapStep alg dir p) fuel (by omega) (by omega)
        (by simpa [Function.iterate_succ] using hstop)
        (fun j hj1 hj2 => by
          have := hmin (j + 1) (by omega) (by omega)
          simpa [Function.iterate_succ] using this)
      simpa [Function.iterate_succ] using this

/-- The loop for a diagonal, run up to the first cell on which it stops. -/
theorem friendlyDiagonal_run (alg : TankNav) (dir : Direction) :
    ∀ (K : Nat) (p : Int × Int) (fuel : Nat), 1 ≤ K → K ≤ fuel →
      plainStop alg ((plainStep dir)^[K] p) →
      (∀ j, 1 ≤ j → j < K → ¬ plainStop alg ((plainStep dir)^[j] p)) →
      ∃ b, friendlyDiagonal alg (directionMap dir).1 (directionMap dir).2
          (boardRows alg.gameboard) (boardCols alg.gameboard)
          (if alg.playerIndex_ = 1 then 2 else 1) fuel p.1 p.2 = some b ∧
        (b = true ↔ onBoard alg ((plainStep dir)^[K] p) ∧
          ¬ holdsFoe alg ((plainStep dir)^[K] p)) := by
  intro K
  induction K with
  | zero => intro p fuel h; omega
  | succ K ih =>
    intro p fuel _ hf hstop hmin
    obtain ⟨fuel, rfl⟩ : ∃ f, fuel = f + 1 := ⟨fuel - 1, by omega⟩
    have e1 : p.1 + (directionMap dir).1 = (plainStep dir p).1 := rfl
    have e2 : p.2 + (directionMap dir).2 = (plainStep dir p).2 := rfl
    have hout : ((plainStep dir p).1 < 0 ∨ (plainStep dir p).1 ≥ boardCols alg.gameboard ∨
        (plainStep dir p).2 < 0 ∨ (plainStep dir p).2 ≥ boardRows alg.gameboard) ↔
        ¬ onBoard alg (plainStep dir p) := by
      unfold onBoard
      constructor
      · intro h; omega
      · intro h; omega
    unfold friendlyDiagonal
    simp only
    rw [e1, e2]
    by_cases hK : K = 0
    · subst hK
      simp only [Function.iterate_succ, Function.iterate_zero, Function.comp_apply, id_eq]
        at hstop ⊢
      by_cases hon : onBoard alg (plainStep dir p)
      · rw [if_neg (fun h => (hout.mp h) hon)]
        by_cases hfoe : holdsFoe alg (plainStep dir p)
        · rw [if_pos ((holdsFoe_iff _ _).mp hfoe)]
          exact ⟨false, rfl, by simp [hfoe]⟩
        · rw [if_neg (fun h => hfoe ((holdsFoe_iff _ _).mpr h))]
          refine ⟨true, ?_, by simp [hfoe, hon]⟩
          rcases hstop with h | h | h
          · exact absurd hon h
          · exact absurd h hfoe
          · rw [if_pos h]
      · rw [if_pos (hout.mpr hon)]
        exact ⟨false, rfl, by simp [hon]⟩
    · have h1 := hmin 1 (le_refl _) (by omega)
      simp only [Function.iterate_succ, Function.iterate_zero, Function.comp_apply, id_eq]
        at h1
      have hon : onBoard alg (plainStep dir p) := by
        by_contra h; exact h1 (Or.inl h)
      have hnf : ¬ holdsFoe alg (plainStep dir p) := fun h => h1 (Or.inr (Or.inl h))
      have hns : ¬ showsPlayer (cellAt alg.gameboard (plainStep dir p).1
          (plainStep dir p).2) alg.playerIndex_ = true := fun h => h1 (Or.inr (Or.inr h))
      rw [if_neg (fun h => (hout.mp h) hon),
        if_neg (fun h => hnf ((holdsFoe_iff _ _).mpr h)), if_neg hns]
      have := ih (plainStep dir p) fuel (by omega) (by omega)
        (by simpa [Function.iterate_succ] using hstop)
        (fun j hj1 hj2 => by
          have := hmin (j + 1) (by omega) (by omega)
          simpa [Function.iterate_succ] using this)
      simpa [Function.iterate_succ] using this

/-- The cell after `j` steps around the board. -/
theorem wrapStep_iterate (alg : TankNav) (dir : Direction)
    (hr : 1 ≤ boardRows alg.gameboard) (hc : 1 ≤ boardCols alg.gameboard)
    (hx : 0 ≤ alg.location_.1 ∧ alg.location_.1 < boardCols alg.gameboard)
    (hy : 0 ≤ alg.location_.2 ∧ alg.location_.2 < boardRows alg.gameboard) (j : Nat) :
    (wrapStep alg dir)^[j] alg.location_ =
      ((alg.location_.1 + j * (directionMap dir).1) % boardCols alg.gameboard,
        (alg.location_.2 + j * (directionMap dir).2) % boardRows alg.gameboard) := by
  have hb := directionMap_bounds dir
  induction j with
  | zero =>
    simp only [Function.iterate_zero, id_eq, Nat.cast_zero, zero_mul, add_zero]
    rw [Int.emod_eq_of_lt hx.1 hx.2, Int.emod_eq_of_lt hy.1 hy.2]
  | succ j ih =>
    rw [Function.iterate_succ_apply', ih]
    unfold wrapStep stepCell
    simp only
    rw [torus_step _ _ _ hc (Int.emod_nonneg _ (by omega)) hb.1.1,
      torus_step _ _ _ hr (Int.emod_nonneg _ (by omega)) hb.2.1,
      Int.emod_add_emod, Int.emod_add_emod]
    push_cast
    congr 2 <;> ring

theorem plainStep_iterate (dir : Direction) (p : Int × Int) (j : Nat) :
    (plainStep dir)^[j] p = (p.1 + j * (directionMap dir).1, p.2 + j * (directionMap dir).2) := by
  induction j with
  | zero => simp
  | succ j ih =>
    rw [Function.iterate_succ_apply', ih]
    unfold plainStep
    simp only
    push_cast
    congr 1 <;> ring

theorem lineWalk_cardinal (alg : TankNav) (dir : Direction) (hd : isCardinal dir = true)
    (k : Nat) : lineWalk alg dir k = some ((wrapStep alg dir)^[k] alg.location_) := by
  induction k with
  | zero => rfl
  | succ k ih =>
    rw [Function.iterate_succ_apply']
    unfold lineWalk
    rw [ih]
    simp only [hd, if_true]
    rfl

/-- The walk along a diagonal, as far as it is defined. -/
theorem lineWalk_diagonal (alg : TankNav) (dir : Direction) (hd : isCardinal dir = false) :
    ∀ k, (∀ p, lineWalk alg dir k = some p →
        p = (plainStep dir)^[k] alg.location_ ∧ (1 ≤ k → onBoard alg p) ∧
          ∀ j, j ≤ k → lineWalk alg dir j = some ((plainStep dir)^[j] alg.location_)) ∧
      ((∀ j, 1 ≤ j → j ≤ k → onBoard alg ((plainStep dir)^[j] alg.location_)) →
        lineWalk alg dir k = some ((plainStep dir)^[k] alg.location_)) := by
  intro k
  induction k with
  | zero =>
    refine ⟨fun p h => ?_, fun _ => rfl⟩
    have hp : p = alg.location_ := by
      simp only [lineWalk, Option.some.injEq] at h
      exact h.symm
    refine ⟨by rw [hp]; rfl, fun h0 => by omega, fun j hj => ?_⟩
    have : j = 0 := by omega
    subst this
    rfl
  | succ k ih =>
    obtain ⟨ih1, ih2⟩ := ih
    have hun : ∀ q, lineWalk alg dir k = some q →
        lineWalk alg dir (k + 1) =
          if 0 ≤ (plainStep dir q).1 ∧ (plainStep dir q).1 < boardCols alg.gameboard ∧
              0 ≤ (plainStep dir q).2 ∧ (plainStep dir q).2 < boardRows alg.gameboard
          then some (plainStep dir q) else none := by
      intro q hq
      show (match lineWalk alg dir k with
        | none => none
        | some p =>
          if isCardinal dir then
            some (stepCell p.1 p.2 dir (boardRows alg.gameboard) (boardCols alg.gameboard))
          else
            let q := (p.1 + (directionMap dir).1, p.2 + (directionMap dir).2)
            if 0 ≤ q.1 ∧ q.1 < boardCols alg.gameboard ∧ 0 ≤ q.2 ∧
                q.2 < boardRows alg.gameboard
            then some q else none) = _
      rw [hq]
      simp only [hd, Bool.false_eq_true, if_false]
      rfl
    have hstep1 : ∀ q, lineWalk alg dir k = some q → onBoard alg (plainStep dir q) →
        lineWalk alg dir (k + 1) = some (plainStep dir q) := by
      intro q hq hon
      rw [hun q hq]
      exact if_pos hon
    have hstep2 : ∀ q, lineWalk alg dir k = some q → ¬ onBoard alg (plainStep dir q) →
        lineWalk alg dir (k + 1) = none := by
      intro q hq hon
      rw [hun q hq]
      exact if_neg hon
    constructor
    · intro p hp
      cases hq : lineWalk alg dir k with
      | none =>
        have : lineWalk alg dir (k + 1) = none := by
          show (match lineWalk alg dir k with
            | none => none
            | some p => _) = _
          rw [hq]
        rw [this] at hp
        cases hp
      | some q =>
        obtain ⟨hq1, -, hq3⟩ := ih1 q hq
        by_cases hon : onBoard alg (plainStep dir q)
        · rw [hstep1 q hq hon] at hp
          cases hp
          refine ⟨by rw [Function.iterate_succ_apply', ← hq1], fun _ => hon, fun j hj => ?_⟩
          by_cases hjk : j ≤ k
          · exact hq3 j hjk
          · have : j = k + 1 := by omega
            subst this
            rw [hstep1 q hq hon, Function.iterate_succ_apply', ← hq1]
        · rw [hstep2 q hq hon] at hp
          cases hp
    · intro hall
      have hk := ih2 (fun j hj1 hj2 => hall j hj1 (by omega))
      rw [hstep1 _ hk (by
        have := hall (k + 1) (by omega) (le_refl _)
        rwa [Function.iterate_succ_apply'] at this), Function.iterate_succ_apply']

theorem bool_unique {a b : Bool} {P : Prop} (ha : a = true ↔ P) (hb : b = true ↔ P) : a = b := by
  cases a <;> cases b <;> simp_all

theorem friendlyInLine_cardinal (alg : TankNav) (dir : Direction)
    (hd : isCardinal dir = true) (fuel : Nat) :
    friendlyInLine fuel alg dir =
      friendlyCardinal alg (directionMap dir).1 (directionMap dir).2 (boardRows alg.gameboard)
        (boardCols alg.gameboard) (if alg.playerIndex_ = 1 then 2 else 1) fuel alg.location_.1
        alg.location_.2 := by
  unfold friendlyInLine
  simp only [hd, if_true]

theorem friendlyInLine_diagonal (alg : TankNav) (dir : Direction)
    (hd : isCardinal dir = false) (fuel : Nat) :
    friendlyInLine fuel alg dir =
      friendlyDiagonal alg (directionMap dir).1 (directionMap dir).2 (boardRows alg.gameboard)
        (boardCols alg.gameboard) (if alg.playerIndex_ = 1 then 2 else 1) fuel alg.location_.1
        alg.location_.2 := by
  unfold friendlyInLine
  simp only [hd, Bool.false_eq_true, if_false]

/-- C33: for a tank on its board, `friendlyInLine(dir)` returns, given enough fuel for its
loop, and it returns true if and only if, walking from the cell of the tank in the
direction `dir` (around the board for `U`, `D`, `L`, `R`, up to the edge of the board for
the four diagonals), a cell that holds a tank of the own side is met before any cell that
holds an enemy tank.  A cell holds a tank of the own side when it shows the digit of the
side or is the cell of the tank itself, to which the walk around the board returns; it
holds an enemy tank when it shows the digit of the other side. -/
theorem friendlyInLine_meets_friend_first (alg : TankNav) (dir : Direction)
    (hr : 1 ≤ boardRows alg.gameboard) (hc : 1 ≤ boardCols alg.gameboard)
    (hx : 0 ≤ alg.location_.1 ∧ alg.location_.1 < boardCols alg.gameboard)
    (hy : 0 ≤ alg.location_.2 ∧ alg.location_.2 < boardRows alg.gameboard) :
    ∃ F b, (∀ fuel, F ≤ fuel → friendlyInLine fuel alg dir = some b) ∧
      (b = true ↔ friendBeforeFoe alg dir) := by
  classical
  cases hd : isCardinal dir with
  | true =>
    have hback : (wrapStep alg dir)^[(boardCols alg.gameboard * boardRows alg.gameboard).toNat]
        alg.location_ = alg.location_ := by
      rw [wrapStep_iterate alg dir hr hc hx hy]
      have hpos : 0 ≤ boardCols alg.gameboard * boardRows alg.gameboard :=
        Int.mul_nonneg (by omega) (by omega)
      rw [Int.toNat_of_nonneg hpos]
      have e1 : (alg.location_.1 +
          boardCols alg.gameboard * boardRows alg.gameboard * (directionMap dir).1) %
          boardCols alg.gameboard = alg.location_.1 := by
        rw [mul_assoc, Int.add_mul_emod_self_left]
        exact Int.emod_eq_of_lt hx.1 hx.2
      have e2 : (alg.location_.2 +
          boardCols alg.gameboard * boardRows alg.gameboard * (directionMap dir).2) %
          boardRows alg.gameboard = alg.location_.2 := by
        rw [mul_comm (boardCols alg.gameboard), mul_assoc, Int.add_mul_emod_self_left]
        exact Int.emod_eq_of_lt hy.1 hy.2
      rw [e1, e2]
    have hex : ∃ j, 1 ≤ j ∧ wrapStop alg ((wrapStep alg dir)^[j] alg.location_) := by
      refine ⟨(boardCols alg.gameboard * boardRows alg.gameboard).toNat, ?_, ?_⟩
      · have : 1 ≤ boardCols alg.gameboard * boardRows alg.gameboard := by nlinarith
        omega
      · rw [hback]
        exact Or.inr (Or.inr rfl)
    obtain ⟨hK1, hKs⟩ := Nat.find_spec hex
    have hmin : ∀ j, 1 ≤ j → j < Nat.find hex →
        ¬ wrapStop alg ((wrapStep alg dir)^[j] alg.location_) :=
      fun j hj1 hj2 hs => Nat.find_min hex hj2 ⟨hj1, hs⟩
    obtain ⟨b, hb, hbi⟩ := friendlyCardinal_run alg dir (Nat.find hex) alg.location_
      (Nat.find hex) hK1 (le_refl _) hKs hmin
    refine ⟨Nat.find hex, b, fun fuel hf => ?_, ?_⟩
    · obtain ⟨b', hb', hbi'⟩ := friendlyCardinal_run alg dir (Nat.find hex) alg.location_
        fuel hK1 hf hKs hmin
      rw [friendlyInLine_cardinal alg dir hd, hb', bool_unique hbi' hbi]
    · rw [hbi]
      constructor
      · intro hnf
        refine ⟨Nat.find hex, _, hK1, lineWalk_cardinal alg dir hd _, ?_, ?_⟩
        · rcases hKs with h | h
          · exact absurd h hnf
          · exact h
        · intro j q hj1 hj2 hq
          rw [lineWalk_cardinal alg dir hd] at hq
          cases hq
          by_cases hjK : j = Nat.find hex
          · rw [hjK]; exact hnf
          · exact fun h => hmin j hj1 (by omega) (Or.inl h)
      · rintro ⟨k, p, hk1, hp, hfr, hno⟩
        rw [lineWalk_cardinal alg dir hd] at hp
        cases hp
        have hle : Nat.find hex ≤ k := Nat.find_min' hex ⟨hk1, Or.inr hfr⟩
        exact hno _ _ hK1 hle (lineWalk_cardinal alg dir hd _)
  | false =>
    have hdx : (directionMap dir).1 = 1 ∨ (directionMap dir).1 = -1 := by
      cases dir <;> simp [isCardinal] at hd <;> simp [directionMap]
    have hex : ∃ j, 1 ≤ j ∧ plainStop alg ((plainStep dir)^[j] alg.location_) := by
      refine ⟨(boardCols alg.gameboard).toNat, by omega, Or.inl ?_⟩
      rw [plainStep_iterate]
      unfold onBoard
      simp only
      rw [Int.toNat_of_nonneg (by omega)]
      rcases hdx with h | h <;> rw [h] <;> intro hc2 <;> omega
    obtain ⟨hK1, hKs⟩ := Nat.find_spec hex
    have hmin : ∀ j, 1 ≤ j → j < Nat.find hex →
        ¬ plainStop alg ((plainStep dir)^[j] alg.location_) :=
      fun j hj1 hj2 hs => Nat.find_min hex hj2 ⟨hj1, hs⟩
    obtain ⟨b, hb, hbi⟩ := friendlyDiagonal_run alg dir (Nat.find hex) alg.location_
      (Nat.find hex) hK1 (le_refl _) hKs hmin
    refine ⟨Nat.find hex, b, fun fuel hf => ?_, ?_⟩
    · obtain ⟨b', hb', hbi'⟩ := friendlyDiagonal_run alg dir (Nat.find hex) alg.location_
        fuel hK1 hf hKs hmin
      rw [friendlyInLine_diagonal alg dir hd, hb', bool_unique hbi' hbi]
    · rw [hbi]
      have hon : ∀ j, 1 ≤ j → j < Nat.find hex →
          onBoard alg ((plainStep dir)^[j] alg.location_) := by
        intro j hj1 hj2
        by_contra h
        exact hmin j hj1 hj2 (Or.inl h)
      constructor
      · rintro ⟨honK, hnf⟩
        have hwalk := (lineWalk_diagonal alg dir hd (Nat.find hex)).2 (fun j hj1 hj2 => by
          by_cases hjK : j = Nat.find hex
          · rw [hjK]; exact honK
          · exact hon j hj1 (by omega))
        refine ⟨Nat.find hex, _, hK1, hwalk, ?_, ?_⟩
        · rcases hKs with h | h | h
          · exact absurd honK h
          · exact absurd h hnf
          · exact Or.inl h
        · intro j q hj1 hj2 hq
          have := ((lineWalk_diagonal alg dir hd (Nat.find hex)).1 _ hwalk).2.2 j hj2
          rw [this] at hq
          cases hq
          by_cases hjK : j = Nat.find hex
          · rw [hjK]; exact hnf
          · exact fun h => hmin j hj1 (by omega) (Or.inr (Or.inl h))
      · rintro ⟨k, p, hk1, hp, hfr, hno⟩
        obtain ⟨hpk, hpon, hpj⟩ := (lineWalk_diagonal alg dir hd k).1 p hp
        have hshown : showsPlayer (cellAt alg.gameboard p.1 p.2) alg.playerIndex_ = true := by
          rcases hfr with h | h
          · exact h
          · exfalso
            rw [hpk, plainStep_iterate] at h
            have h1 := congrArg Prod.fst h
            simp only at h1
            have hk' : (1 : Int) ≤ (k : Int) := by exact_mod_cast hk1
            rcases hdx with h2 | h2 <;> rw [h2] at h1 <;> omega
        have hle : Nat.find hex ≤ k :=
          Nat.find_min' hex ⟨hk1, Or.inr (Or.inr (by rw [← hpk]; exact hshown))⟩
        have hwK := hpj _ hle
        exact ⟨((lineWalk_diagonal alg dir hd _).1 _ hwK).2.1 hK1, hno _ _ hK1 hle hwK⟩

/-- C33 witness: on `lineBoard` the tank at `(1, 1)` has a tank of its side to the right
and an enemy to the left. -/
theorem friendlyInLine_meets_friend_first_witness :
    friendlyInLine 10 lineAlg Direction.R = some true ∧
    friendlyInLine 10 lineAlg Direction.L = some false ∧
    friendlyInLine 10 lineAlg Direction.DR = some false ∧
    friendlyInLine 10 lineAlg Direction.U = some true ∧
    ∃ F b, (∀ fuel, F ≤ fuel → friendlyInLine fuel lineAlg Direction.R = some b) ∧
      (b = true ↔ friendBeforeFoe lineAlg Direction.R) :=
  ⟨by decide, by decide, by decide, by decide,
    friendlyInLine_meets_friend_first lineAlg Direction.R (by decide) (by decide) (by decide)
      (by decide)⟩

/-! ## The text of a group and the result stored for it -/

/-- C38 (as stated, refuted): `resultA` and `resultD` are the same result for `sameResult`,
which does not look at the tank counts, but the result lines differ; and the text that
`BuildOutputBuffer` emits for the two game managers depends on which of the two results
was collected first. -/
theorem same_result_prints_stored_counts :
    sameResult resultA resultD = true ∧
    resultLine resultA = "Player 1 won with 2 tanks still alive".toList ∧
    resultLine resultD = "Player 1 won with 3 tanks still alive".toList ∧
    (makeGroups [] [(resultA, "GM_A".toList), (resultD, "GM_D".toList)]).map
        (fun g => (g.gm_names, resultLine g.result)) =
      [(["GM_A".toList, "GM_D".toList], "Player 1 won with 2 tanks still alive".toList)] ∧
    (makeGroups [] [(resultD, "GM_D".toList), (resultA, "GM_A".toList)]).map
        (fun g => (g.gm_names, resultLine g.result)) =
      [(["GM_D".toList, "GM_A".toList], "Player 1 won with 3 tanks still alive".toList)] ∧
    emitGroups [] [{ result := resultA, gm_names := ["GM".toList], count := 2 }] ≠
      emitGroups [] [{ result := resultD, gm_names := ["GM".toList], count := 2 }] := by
  decide!

theorem resultLine_congr (a b : SnapshotGameResult) (hw : a.winner = b.winner)
    (hr : a.reason = b.reason) (hn : a.rounds = b.rounds)
    (ht : ∀ idx, tanksOrZero a idx = tanksOrZero b idx) : resultLine a = resultLine b := by
  unfold resultLine
  rw [hw, hr, hn, ht, ht, ht]

theorem resultLine_no_count (a b : SnapshotGameResult) (hw : a.winner = b.winner)
    (hr : a.reason = b.reason) (h0 : a.winner = 0) (hm : a.reason ≠ Reason.MAX_STEPS) :
    resultLine a = resultLine b := by
  unfold resultLine
  rw [← hw, ← hr, if_pos h0, if_pos h0, if_neg hm, if_neg hm]

/-- C38 (amended): for two results `a` and `b` with `sameResult(a, b)`, the rounds line and
the board that `BuildOutputBuffer` emits for a group are the same whether `a` or `b` is the
result stored for the group.  The result line is the same when it prints no tank count (a
tie that is not by `MAX_STEPS`), and when the tank counts that `tanksOrZero` reads agree in
`a` and `b`; the whole text of the group, with the groups that follow it, is then the
same. -/
theorem same_result_same_text (a b : SnapshotGameResult) (h : sameResult a b = true) :
    natStr a.rounds = natStr b.rounds ∧
    (∀ os, printSatellite os a = printSatellite os b) ∧
    (a.winner = 0 → a.reason ≠ Reason.MAX_STEPS → resultLine a = resultLine b) ∧
    ((∀ idx, tanksOrZero a idx = tanksOrZero b idx) → resultLine a = resultLine b) ∧
    (resultLine a = resultLine b → ∀ os names count rest,
      emitGroups os ({ result := a, gm_names := names, count := count } :: rest) =
        emitGroups os ({ result := b, gm_names := names, count := count } :: rest)) := by
  obtain ⟨hw, hr, hn, hb⟩ := (sameResult_key a b).mp h
  have hboard : ∀ os, printSatellite os a = printSatellite os b := by
    intro os
    rw [printSatellite_eq, printSatellite_eq]
    have e : ∀ board : List (List Char),
        board.flatMap (fun row => row.map norm ++ ['\n']) =
          (board.map (List.map norm)).flatMap (fun row => row ++ ['\n']) := by
      intro board
      induction board with
      | nil => rfl
      | cons r rest ih => simp [List.flatMap_cons, ih]
    rw [e a.board, e b.board, hb]
  refine ⟨by rw [hn], hboard, fun h0 hm => resultLine_no_count a b hw hr h0 hm,
    fun ht => resultLine_congr a b hw hr hn ht, fun hl os names count rest => ?_⟩
  unfold emitGroups
  simp only
  rw [hl, hn, hboard]

/-- C38 witness: `resultA` and `resultB`, which differ only in a wall drawn weakened or
whole. -/
theorem same_result_same_text_witness :
    sameResult resultA resultB = true ∧
    (natStr resultA.rounds = natStr resultB.rounds ∧
    (∀ os, printSatellite os resultA = printSatellite os resultB) ∧
    (resultA.winner = 0 → resultA.reason ≠ Reason.MAX_STEPS →
      resultLine resultA = resultLine resultB) ∧
    ((∀ idx, tanksOrZero resultA idx = tanksOrZero resultB idx) →
      resultLine resultA = resultLine resultB) ∧
    (resultLine resultA = resultLine resultB → ∀ os names count rest,
      emitGroups os ({ result := resultA, gm_names := names, count := count } :: rest) =
        emitGroups os ({ result := resultB, gm_names := names, count := count } :: rest))) :=
  ⟨by decide, same_result_same_text resultA resultB (by decide)⟩

/-! ## The players of a match -/

/-- C40 (the code departs from the claim): the competition orchestrator creates the two
players of a match with the player indices 1 and 2, the owner ids that the engine gives
the tanks of the cells `1` and `2`; the comparative orchestrator creates them with the
player indices 0 and 1. -/
theorem comparative_players_indexed_from_zero (cols rows maxSteps numShells : Nat) :
    (Competitive.createPlayers cols rows maxSteps numShells).1.playerIndex_ = 1 ∧
    (Competitive.createPlayers cols rows maxSteps numShells).2.playerIndex_ = 2 ∧
    (Comparative.createPlayers cols rows maxSteps numShells).1.playerIndex_ = 0 ∧
    (Comparative.createPlayers cols rows maxSteps numShells).2.playerIndex_ = 1 ∧
    Comparative.createPlayers cols rows maxSteps numShells ≠
      Competitive.createPlayers cols rows maxSteps numShells ∧
    ∀ (winner0 : Int) (reason0 : Reason) (rounds0 : Nat) (map : Nat → Nat → Char),
      ∀ t ∈ (startGame (newGM winner0 reason0 rounds0) cols rows map maxSteps numShells).tanks_,
        t.playerId_ = 1 ∨ t.playerId_ = 2 := by
  refine ⟨rfl, rfl, rfl, rfl, ?_, ?_⟩
  · intro h
    have := congrArg (fun p => p.1.playerIndex_) h
    simp [Comparative.createPlayers, Competitive.createPlayers, PlayerState.mk0] at this
  · intro winner0 reason0 rounds0 map t ht
    obtain ⟨k, hk, rfl⟩ := exists_getD_of_mem _ default t ht
    exact (Inv.startGame_ok winner0 reason0 rounds0 cols rows map maxSteps numShells).player
      k hk

/-! ## The rounds of a result -/

/-- After a turn played from a state that satisfies the invariant, a side without alive
tanks means that the game is over with a status of 1, 2 or 3. -/
theorem playTurn_side_lost {s s1 : GM} (hI : Inv s) (fuel : Nat) (oracle : Oracle)
    (h : playTurn fuel oracle s = some s1)
    (hside : aliveCount s1 1 = 0 ∨ aliveCount s1 2 = 0) :
    s1.gameOver_ = true ∧
      (s1.gameOverStatus_ = 1 ∨ s1.gameOverStatus_ = 2 ∨ s1.gameOverStatus_ = 3) := by
  unfold playTurn at h
  cases h1 : shellPhase fuel (performTankActions (getTankActions s oracle)) with
  | none => rw [h1] at h; cases h
  | some t =>
    rw [h1] at h
    cases h
    have hIt := shellPhase_inv (hI.getTankActions_ok oracle).performTankActions_ok fuel h1
    have hIl := hIt.updateGameLog_ok
    have htk : (noAmmoStep (checkTanksStatus (updateGameLog t))).tanks_ =
        (updateGameLog t).tanks_ := by
      rw [noAmmoStep_tanks, checkTanksStatus_tanks]
    have hc : ∀ p, aliveCount (noAmmoStep (checkTanksStatus (updateGameLog t))) p =
        aliveCount (updateGameLog t) p := fun p => aliveCount_of_tanks _ _ htk p
    rw [hc 1, hc 2] at hside
    obtain ⟨hs0, hs3, hs1, hs2⟩ := checkTanksStatus_spec hIl hside
    obtain ⟨hk0, hk1, -, -, -⟩ := noAmmoStep_keeps (checkTanksStatus (updateGameLog t))
    refine ⟨hk0 hs0, ?_⟩
    rw [hk1]
    by_cases a1 : aliveCount (updateGameLog t) 1 = 0
    · by_cases a2 : aliveCount (updateGameLog t) 2 = 0
      · exact Or.inr (Or.inr (hs3 a1 a2))
      · exact Or.inl (hs1 a1 a2).1
    · have a2 : aliveCount (updateGameLog t) 2 = 0 := by
        rcases hside with h | h
        · exact absurd h a1
        · exact h
      exact Or.inr (Or.inl (hs2 a1 a2).1)

theorem finishStep_rounds (s : GM)
    (h : s.gameOverStatus_ = 1 ∨ s.gameOverStatus_ = 2 ∨ s.gameOverStatus_ = 3) :
    (finishStep s).gameResult_.rounds = s.turn_.toNat := by
  unfold finishStep
  rcases h with h | h | h <;> rw [h] <;> rfl

/-- A main loop that returns without a turn played leaves the tanks as they are. -/
theorem runLoop_no_turn (fuel : Nat) (oracle : Oracle) (s : GM) (r : GM × Nat)
    (h : runLoop fuel oracle s = some r) (h0 : r.2 = 0) : r.1.tanks_ = s.tanks_ := by
  cases fuel with
  | zero => simp [runLoop] at h
  | succ fuel =>
    rw [runLoop_succ] at h
    split_ifs at h with h1 h2
    · cases h; rfl
    · cases h; rfl
    · cases hp : playTurn fuel oracle { s with lastRoundGameboard_ := s.gameboard_ } with
      | none => rw [hp] at h; cases h
      | some s1 =>
        rw [hp] at h
        simp only at h
        split_ifs at h with h3
        · cases h; cases h0
        · cases hq : runLoop fuel oracle { s1 with turn_ := s1.turn_ + 1 } with
          | none => rw [hq] at h; cases h
          | some q =>
            rw [hq] at h
            cases h
            simp at h0

/-- The rounds of the result of a main loop that ends in a turn in which a side is left
without alive tanks. -/
theorem runLoop_rounds (oracle : Oracle) : ∀ (fuel : Nat) (s : GM) (r : GM × Nat),
    Inv s → runLoop fuel oracle s = some r → 1 ≤ r.2 →
    (aliveCount r.1 1 = 0 ∨ aliveCount r.1 2 = 0) →
    r.1.gameResult_.rounds = (s.turn_ + ((r.2 - 1 : Nat) : Int)).toNat
  | 0, _, _, _, h, _, _ => by simp [runLoop] at h
  | fuel + 1, s, r, hI, h, hn, hside => by
    rw [runLoop_succ] at h
    split_ifs at h with h1 h2
    · cases h; simp at hn
    · cases h; simp at hn
    · have hI0 : Inv { s with lastRoundGameboard_ := s.gameboard_ } :=
        hI.of_mono rfl rfl (fun _ _ h => h)
      cases hp : playTurn fuel oracle { s with lastRoundGameboard_ := s.gameboard_ } with
      | none => rw [hp] at h; cases h
      | some s1 =>
        rw [hp] at h
        simp only at h
        have hturn : s1.turn_ = s.turn_ := (playTurn_steps fuel oracle hp).2
        have hI1 := playTurn_inv hI0 fuel oracle hp
        split_ifs at h with h3
        · cases h
          have hs1 : aliveCount s1 1 = 0 ∨ aliveCount s1 2 = 0 := by
            rw [aliveCount_of_tanks _ _ (finishStep_tanks s1) 1,
              aliveCount_of_tanks _ _ (finishStep_tanks s1) 2] at hside
            exact hside
          rw [finishStep_rounds s1 (playTurn_side_lost hI0 fuel oracle hp hs1).2, hturn]
          simp
        · cases hq : runLoop fuel oracle { s1 with turn_ := s1.turn_ + 1 } with
          | none => rw [hq] at h; cases h
          | some q =>
            rw [hq] at h
            cases h
            simp only at hside hn ⊢
            by_cases hq0 : q.2 = 0
            · exfalso
              have ht := runLoop_no_turn fuel oracle _ q hq hq0
              have hs1 : aliveCount s1 1 = 0 ∨ aliveCount s1 2 = 0 := by
                rw [aliveCount_of_tanks s1 q.1 ht 1, aliveCount_of_tanks s1 q.1 ht 2] at hside
                exact hside
              exact h3 (playTurn_side_lost hI0 fuel oracle hp hs1).1
            · have hI2 : Inv { s1 with turn_ := s1.turn_ + 1 } :=
                hI1.of_mono rfl rfl (fun _ _ h => h)
              rw [runLoop_rounds oracle fuel _ q hI2 hq (by omega) hside]
              simp only [hturn]
              congr 1
              have : ((q.2 - 1 : Nat) : Int) = (q.2 : Int) - 1 := by omega
              rw [this]
              push_cast
              omega

/-- C39: `run` returns on every input, given enough fuel; and when it returns after `n`
turns played, `n ≥ 1`, with a side left without alive tanks (the game ended because a side
lost its last tank in the `n`-th turn played: with such a side after an earlier turn the
loop would have stopped there), the `rounds` field of the result is `n - 1`, the index of
that turn counted from 0. -/
theorem rounds_is_index_of_last_turn (winner0 : Int) (reason0 : Reason) (rounds0 : Nat)
    (map_width map_height : Nat) (map : Nat → Nat → Char) (max_steps num_shells : Nat)
    (oracle : Oracle) :
    (∃ F r, ∀ fuel, F ≤ fuel →
      runGame fuel winner0 reason0 rounds0 map_width map_height map max_steps num_shells
        oracle = some r) ∧
    ∀ fuel r, runGame fuel winner0 reason0 rounds0 map_width map_height map max_steps
        num_shells oracle = some r →
      1 ≤ r.2 → (aliveCount r.1 1 = 0 ∨ aliveCount r.1 2 = 0) →
      r.1.gameResult_.rounds = r.2 - 1 ∧
      (run fuel winner0 reason0 rounds0 map_width map_height map max_steps num_shells
        oracle).map (fun res => res.rounds) = some (r.2 - 1) := by
  constructor
  · obtain ⟨F, r, h, -⟩ := runGame_total winner0 reason0 rounds0 map_width map_height map
      max_steps num_shells oracle
    exact ⟨F, r, h⟩
  · intro fuel r h hn hside
    have hI := Inv.startGame_ok winner0 reason0 rounds0 map_width map_height map max_steps
      num_shells
    have ht : (startGame (newGM winner0 reason0 rounds0) map_width map_height map max_steps
        num_shells).turn_ = 0 := by
      unfold startGame initiateGame
      simp only
      split_ifs <;> rfl
    have hr := runLoop_rounds oracle fuel _ r hI h hn hside
    rw [ht] at hr
    simp only [zero_add, Int.toNat_ofNat] at hr
    refine ⟨hr, ?_⟩
    unfold run
    rw [h]
    simp [hr]

/-- The duel in which tank 0 shoots in the first turn: one turn is played, player 2 is left
without tanks, and the rounds of the result are 0. -/
theorem rounds_of_short_duel :
    (runGame 30 0 Reason.ALL_TANKS_DEAD 0 3 1 duelMap 50 5 firstShoots).map
        (fun r => (r.2, aliveCount r.1 2, r.1.gameResult_.rounds)) = some (1, 0, 0) := by
  decide!

/-! ## A tank that the board does not show -/

/-- C37 (the code departs from the claim): in the game on `hideMap`, a shell lies on
`(3, 1)` at the start of turn 1; tank 0 moves onto that cell, which then shows the mark of
a tank over a shell, and tank 2 shoots at the cell: `shoot` treats the mark as an empty
cell and draws a shell.  At the end of the turn the game is not over, tank 0 is alive and
located at `(3, 1)`, and the cell `(3, 1)` of the board is blank. -/
theorem hidden_tank_shows_no_digit :
    (turnsFrom 30 hideOracle 1 hideStart).map
        (fun s => (s.gameboard_, s.shells_.map (fun sh => sh.location_))) =
      some ([[' ', ' ', ' ', '1', ' '], ['2', ' ', ' ', '*', '1'], [' ', ' ', ' ', ' ', ' ']],
        [(3, 1)]) ∧
    hideSubstep.map (fun s => (s.gameboard_, s.shells_.map (fun sh => sh.location_))) =
      some ([[' ', ' ', ' ', ' ', ' '], ['2', ' ', ' ', '*', '1'], [' ', ' ', ' ', ' ', ' ']],
        [(3, 1), (3, 1)]) ∧
    (turnsFrom 30 hideOracle 2 hideStart).map (fun s => s.gameboard_) =
      some [[' ', ' ', ' ', ' ', ' '], ['2', '*', ' ', ' ', ' '], [' ', ' ', ' ', ' ', ' ']] ∧
    (turnsFrom 30 hideOracle 2 hideStart).map
        (fun s => s.tanks_.map (fun t => (t.location_, t.turnsDead_, t.playerId_))) =
      some [((3, 1), 0, 1), ((0, 1), 0, 2), ((-1, -1), 2, 1)] ∧
    (turnsFrom 30 hideOracle 2 hideStart).map (fun s => s.gameOver_) = some false ∧
    (turnsFrom 30 hideOracle 2 hideStart).map (fun s => cellAt s.gameboard_ 3 1) =
      some ' ' := by
  decide!

theorem setAt_cell {α : Type} (m : Int → Int → α) (n : Int × Int) (v : α) (c : Int × Int) :
    setAt m n.1 n.2 v c.1 c.2 = if c = n then v else m c.1 c.2 := by
  unfold setAt
  by_cases h : c = n
  · subst h; simp
  · rw [if_neg h, if_neg]
    intro h2
    exact h (Prod.ext h2.1 h2.2)

theorem getLast_mem_of {α : Type} (l : List α) (u : α) (h : l.getLast? = some u) : u ∈ l := by
  have := List.dropLast_append_getLast? u (by simpa using h)
  rw [← this]
  simp

theorem le_last_of_sorted (done rest : List (Int × Int)) (depth : Int × Int → Nat)
    (u : Int × Int) (h : (done ++ rest).Pairwise (fun a b => depth a ≤ depth b))
    (hu : done.getLast? = some u) : ∀ c ∈ done, depth c ≤ depth u := by
  have e := List.dropLast_append_getLast? u (by simpa using hu)
  intro c hc
  rw [← e] at hc h
  rw [List.mem_append] at hc
  rcases hc with hc | hc
  · rw [List.pairwise_append] at h
    have h1 := h.1
    rw [List.pairwise_append] at h1
    exact h1.2.2 c hc u (by simp)
  · simp at hc
    rw [hc]

theorem last_le_of_sorted (done rest : List (Int × Int)) (depth : Int × Int → Nat)
    (u : Int × Int) (h : (done ++ rest).Pairwise (fun a b => depth a ≤ depth b))
    (hu : done.getLast? = some u) : ∀ c ∈ rest, depth u ≤ depth c := by
  intro c hc
  rw [List.pairwise_append] at h
  exact h.2.2 u (getLast_mem_of done u hu) c hc

/-- One direction of the `for` loop keeps the invariant, or finds an enemy tank. -/
theorem bfsVisit_step (alg : TankNav) (g : Board) (rows cols : Int) (start : Int × Int)
    (hr : 1 ≤ rows) (hc : 1 ≤ cols) (st : BfsState) (done : List (Int × Int))
    (depth : Int × Int → Nat) (u : Int × Int) (i : Nat) (todo : List Nat)
    (hinv : BfsInv alg g rows cols start st done depth (i :: todo))
    (hu : done.getLast? = some u) :
    ((bfsVisit alg g rows cols u.1 u.2 st i).found = true ∧
      BfsFound alg g rows cols start (bfsVisit alg g rows cols u.1 u.2 st i) done depth u
        (stepCell u.1 u.2 (Direction.castNat i) rows cols)) ∨
    ((bfsVisit alg g rows cols u.1 u.2 st i).found = false ∧
      ∃ depth1, BfsInv alg g rows cols start (bfsVisit alg g rows cols u.1 u.2 st i) done
        depth1 todo) := by
  have hum : u ∈ done := getLast_mem_of done u hu
  have hug : onGrid rows cols u := hinv.inside u (List.mem_append_left _ hum)
  have hng : onGrid rows cols (stepCell u.1 u.2 (Direction.castNat i) rows cols) := by
    have := stepCell_inside u.1 u.2 (Direction.castNat i) rows cols hr hc ⟨hug.1, hug.2.1⟩
      ⟨hug.2.2.1, hug.2.2.2⟩
    exact ⟨this.1.1, this.1.2, this.2.1, this.2.2⟩
  generalize hn : stepCell u.1 u.2 (Direction.castNat i) rows cols = n at hng ⊢
  -- the directions that are left after this one
  have hclosed : ∀ (q : List (Int × Int)) (depth1 : Int × Int → Nat),
      (∀ c ∈ done ++ st.bfs_queue, c ∈ done ++ q) →
      (∀ c ∈ done ++ st.bfs_queue, depth1 c = depth c) →
      (enemyCell alg g n = false ∧ (blockedCell alg g n = false →
        n ∈ done ++ q ∧ depth1 n ≤ depth1 u + 1)) →
      ∀ v ∈ done, ∀ d : Direction,
        (done.getLast? = some v ∧ d.toNat ∈ todo) ∨
          (enemyCell alg g (stepCell v.1 v.2 d rows cols) = false ∧
            (blockedCell alg g (stepCell v.1 v.2 d rows cols) = false →
              stepCell v.1 v.2 d rows cols ∈ done ++ q ∧
                depth1 (stepCell v.1 v.2 d rows cols) ≤ depth1 v + 1)) := by
    intro q depth1 hsub hdep hnew v hv d
    rcases hinv.closed v hv d with ⟨hl, hd⟩ | ⟨h1, h2⟩
    · rw [List.mem_cons] at hd
      rcases hd with hd | hd
      · right
        have hvu : v = u := by
          rw [hu] at hl
          exact (Option.some.inj hl).symm
        have hdc : d = Direction.castNat i := by rw [← hd, castNat_toNat]
        rw [hvu, hdc, hn]
        exact hnew
      · left
        exact ⟨hl, hd⟩
    · right
      refine ⟨h1, fun hb => ?_⟩
      obtain ⟨hm, hle⟩ := h2 hb
      refine ⟨hsub _ hm, ?_⟩
      rw [hdep _ hm, hdep v (List.mem_append_left _ hv)]
      exact hle
  by_cases hen : enemyCell alg g n = true
  · left
    have e : bfsVisit alg g rows cols u.1 u.2 st i =
        { st with visited := setAt st.visited n.1 n.2 true,
                  pi_graph := setAt st.pi_graph n.1 n.2 (u.1, u.2),
                  end_cell := n, found := true } := by
      unfold bfsVisit
      simp only [hn, hen, if_true]
    rw [e]
    refine ⟨rfl, ⟨rfl, rfl, hu, ⟨Direction.castNat i, hn.symm⟩, hen, st, i :: todo, hinv, rfl⟩⟩
  · right
    have hen0 : enemyCell alg g n = false := by
      cases h : enemyCell alg g n
      · rfl
      · exact absurd h hen
    by_cases hvis : st.visited n.1 n.2 = true
    · have e : bfsVisit alg g rows cols u.1 u.2 st i = st := by
        unfold bfsVisit
        simp only [hn, hen0, hvis, not_true_eq_false, if_false]
        simp
      rw [e]
      refine ⟨hinv.running, depth, ?_⟩
      refine ⟨hinv.running, hinv.start_mem, hinv.depth_start, hinv.inside, hinv.marked,
        hinv.nodup, hinv.parent, hinv.sorted, hinv.bound, ?_, hinv.seen⟩
      refine hclosed st.bfs_queue depth (fun c h => h) (fun c _ => rfl) ⟨hen0, fun hb => ?_⟩
      rcases hinv.seen n hvis with hm | hm
      · refine ⟨hm, ?_⟩
        rw [List.mem_append] at hm
        rcases hm with hm | hm
        · exact le_trans (le_last_of_sorted done _ depth u hinv.sorted hu n hm)
            (Nat.le_succ _)
        · exact hinv.bound u hu n hm
      · rw [hb] at hm
        exact absurd hm (by decide)
    · have hvis0 : st.visited n.1 n.2 = false := by
        cases h : st.visited n.1 n.2
        · rfl
        · exact absurd h hvis
      have hnew : n ∉ done ++ st.bfs_queue := fun hm => hvis (hinv.marked n hm)
      by_cases hbl : blockedCell alg g n = true
      · have e : bfsVisit alg g rows cols u.1 u.2 st i =
            { st with visited := setAt st.visited n.1 n.2 true } := by
          unfold bfsVisit
          simp only [hn, hen0, hvis0, hbl]
          simp
        rw [e]
        refine ⟨hinv.running, depth, ?_⟩
        refine ⟨hinv.running, hinv.start_mem, hinv.depth_start, hinv.inside, ?_,
          hinv.nodup, hinv.parent, hinv.sorted, hinv.bound, ?_, ?_⟩
        · intro c hm
          show setAt st.visited n.1 n.2 true c.1 c.2 = true
          rw [setAt_cell]
          split_ifs
          · rfl
          · exact hinv.marked c hm
        · refine hclosed st.bfs_queue depth (fun c h => h) (fun c _ => rfl)
            ⟨hen0, fun hb => ?_⟩
          rw [hb] at hbl
          exact absurd hbl (by decide)
        · intro c hv
          have hv1 : setAt st.visited n.1 n.2 true c.1 c.2 = true := hv
          rw [setAt_cell] at hv1
          by_cases hcn : c = n
          · right
            rw [hcn]
            exact hbl
          · rw [if_neg hcn] at hv1
            exact hinv.seen c hv1
      · have hbl0 : blockedCell alg g n = false := by
          cases h : blockedCell alg g n
          · rfl
          · exact absurd h hbl
        have e : bfsVisit alg g rows cols u.1 u.2 st i =
            { st with visited := setAt st.visited n.1 n.2 true,
                      pi_graph := setAt st.pi_graph n.1 n.2 (u.1, u.2),
                      bfs_queue := st.bfs_queue ++ [n] } := by
          unfold bfsVisit
          simp only [hn, hen0, hvis0, hbl0]
          simp
        rw [e]
        refine ⟨hinv.running, Function.update depth n (depth u + 1), ?_⟩
        have hmem : ∀ c, c ∈ done ++ (st.bfs_queue ++ [n]) ↔
            c ∈ done ++ st.bfs_queue ∨ c = n := by
          intro c
          simp only [List.mem_append, List.mem_singleton, or_assoc]
        have hne : ∀ c ∈ done ++ st.bfs_queue, c ≠ n := fun c hm hcn => hnew (hcn ▸ hm)
        have hdep : ∀ c ∈ done ++ st.bfs_queue,
            Function.update depth n (depth u + 1) c = depth c :=
          fun c hm => Function.update_noteq (hne c hm) _ _
        have hdn : Function.update depth n (depth u + 1) n = depth u + 1 :=
          Function.update_same _ _ _
        have hum2 : u ∈ done ++ st.bfs_queue := List.mem_append_left _ hum
        have hsn : start ≠ n := hne start hinv.start_mem
        refine ⟨hinv.running, ?_, ?_, ?_, ?_, ?_, ?_, ?_, ?_, ?_, ?_⟩
        · exact (hmem start).2 (Or.inl hinv.start_mem)
        · rw [hdep start hinv.start_mem]
          exact hinv.depth_start
        · intro c hm
          rcases (hmem c).1 hm with hm | hm
          · exact hinv.inside c hm
          · rw [hm]
            exact hng
        · intro c hm
          show setAt st.visited n.1 n.2 true c.1 c.2 = true
          rw [setAt_cell]
          split_ifs with hcn
          · rfl
          · rcases (hmem c).1 hm with hm | hm
            · exact hinv.marked c hm
            · exact absurd hm hcn
        · show (done ++ (st.bfs_queue ++ [n])).Nodup
          rw [← List.append_assoc]
          rw [List.nodup_append]
          refine ⟨hinv.nodup, List.nodup_singleton n, ?_⟩
          intro a ha hb
          rw [List.mem_singleton] at hb
          exact hnew (hb ▸ ha)
        · intro c hm hcs
          show _ ∧ _ ∧ setAt st.pi_graph n.1 n.2 (u.1, u.2) c.1 c.2 ∈ done ∧
            neighbour rows cols (setAt st.pi_graph n.1 n.2 (u.1, u.2) c.1 c.2) c ∧
            Function.update depth n (depth u + 1) c =
              Function.update depth n (depth u + 1)
                (setAt st.pi_graph n.1 n.2 (u.1, u.2) c.1 c.2) + 1
          rw [setAt_cell]
          rcases (hmem c).1 hm with hm | hm
          · rw [if_neg (hne c hm)]
            obtain ⟨p1, p2, p3, p4, p5⟩ := hinv.parent c hm hcs
            refine ⟨p1, p2, p3, p4, ?_⟩
            rw [hdep c hm, hdep _ (List.mem_append_left _ p3)]
            exact p5
          · rw [if_pos hm, hm]
            refine ⟨hbl0, hen0, hum, ⟨Direction.castNat i, hn.symm⟩, ?_⟩
            rw [hdn]
            show depth u + 1 = Function.update depth n (depth u + 1) u + 1
            rw [hdep u hum2]
        · show (done ++ (st.bfs_queue ++ [n])).Pairwise _
          rw [← List.append_assoc, List.pairwise_append]
          refine ⟨?_, List.pairwise_singleton _ _, ?_⟩
          · refine hinv.sorted.imp_of_mem ?_
            intro a b ha hb hab
            rw [hdep a ha, hdep b hb]
            exact hab
          · intro a ha b hb
            rw [List.mem_singleton] at hb
            rw [hb, hdn, hdep a ha]
            rw [List.mem_append] at ha
            rcases ha with ha | ha
            · exact le_trans (le_last_of_sorted done _ depth u hinv.sorted hu a ha)
                (Nat.le_succ _)
            · exact hinv.bound u hu a ha
        · intro v hv c hm
          have hvu : v = u := by
            rw [hu] at hv
            exact (Option.some.inj hv).symm
          have hm1 : c ∈ st.bfs_queue ++ [n] := hm
          rw [hvu, hdep u hum2]
          rw [List.mem_append, List.mem_singleton] at hm1
          rcases hm1 with hm1 | hm1
          · rw [hdep c (List.mem_append_right _ hm1)]
            exact hinv.bound u hu c hm1
          · rw [hm1, hdn]
        · refine hclosed (st.bfs_queue ++ [n]) _ (fun c h => (hmem c).2 (Or.inl h)) hdep
            ⟨hen0, fun _ => ⟨(hmem n).2 (Or.inr rfl), ?_⟩⟩
          rw [hdn, hdep u hum2]
        · intro c hv
          have hv1 : setAt st.visited n.1 n.2 true c.1 c.2 = true := hv
          rw [setAt_cell] at hv1
          by_cases hcn : c = n
          · left
            exact (hmem c).2 (Or.inr hcn)
          · rw [if_neg hcn] at hv1
            rcases hinv.seen c hv1 with h | h
            · left
              exact (hmem c).2 (Or.inl h)
            · right
              exact h

/-- The `for` loop over the directions that are left keeps the invariant, or finds an
enemy tank. -/
theorem bfsExpand_spec (alg : TankNav) (g : Board) (rows cols : Int) (start : Int × Int)
    (hr : 1 ≤ rows) (hc : 1 ≤ cols) (done : List (Int × Int)) (u : Int × Int)
    (hu : done.getLast? = some u) :
    ∀ (todo : List Nat) (st : BfsState) (depth : Int × Int → Nat),
      BfsInv alg g rows cols start st done depth todo →
      ((bfsExpand alg g rows cols u.1 u.2 todo st).found = true ∧
        ∃ depth1 n, BfsFound alg g rows cols start (bfsExpand alg g rows cols u.1 u.2 todo st)
          done depth1 u n) ∨
      ((bfsExpand alg g rows cols u.1 u.2 todo st).found = false ∧
        ∃ depth1, BfsInv alg g rows cols start (bfsExpand alg g rows cols u.1 u.2 todo st)
          done depth1 []) := by
  intro todo
  induction todo with
  | nil =>
    intro st depth hinv
    right
    exact ⟨hinv.running, depth, hinv⟩
  | cons i rest ih =>
    intro st depth hinv
    rcases bfsVisit_step alg g rows cols start hr hc st done depth u i rest hinv hu with
      ⟨hf, hfound⟩ | ⟨hf, depth1, hinv1⟩
    · left
      have e : bfsExpand alg g rows cols u.1 u.2 (i :: rest) st =
          bfsVisit alg g rows cols u.1 u.2 st i := by
        rw [bfsExpand]
        simp only [hf, if_true]
      rw [e]
      exact ⟨hf, depth, _, hfound⟩
    · have e : bfsExpand alg g rows cols u.1 u.2 (i :: rest) st =
          bfsExpand alg g rows cols u.1 u.2 rest (bfsVisit alg g rows cols u.1 u.2 st i) := by
        rw [bfsExpand]
        simp only [hf]
        simp
      rw [e]
      exact ih _ depth1 hinv1

/-- Taking a cell from the queue keeps the invariant, with all 8 directions to handle. -/
theorem bfsInv_pop (alg : TankNav) (g : Board) (rows cols : Int) (start : Int × Int)
    (st : BfsState) (done : List (Int × Int)) (depth : Int × Int → Nat) (c : Int × Int)
    (rest : List (Int × Int)) (hq : st.bfs_queue = c :: rest)
    (hinv : BfsInv alg g rows cols start st done depth []) :
    BfsInv alg g rows cols start { st with bfs_queue := rest } (done ++ [c]) depth
      (List.range 8) := by
  have eq : (done ++ [c]) ++ rest = done ++ st.bfs_queue := by
    rw [hq]
    simp
  have hlast : (done ++ [c]).getLast? = some c := by simp
  refine ⟨hinv.running, ?_, hinv.depth_start, ?_, ?_, ?_, ?_, ?_, ?_, ?_, ?_⟩
  · show start ∈ (done ++ [c]) ++ rest
    rw [eq]
    exact hinv.start_mem
  · show ∀ a ∈ (done ++ [c]) ++ rest, _
    rw [eq]
    exact hinv.inside
  · show ∀ a ∈ (done ++ [c]) ++ rest, _
    rw [eq]
    exact hinv.marked
  · show ((done ++ [c]) ++ rest).Nodup
    rw [eq]
    exact hinv.nodup
  · show ∀ a ∈ (done ++ [c]) ++ rest, _
    rw [eq]
    intro a ha has
    obtain ⟨p1, p2, p3, p4, p5⟩ := hinv.parent a ha has
    exact ⟨p1, p2, List.mem_append_left _ p3, p4, p5⟩
  · show ((done ++ [c]) ++ rest).Pairwise _
    rw [eq]
    exact hinv.sorted
  · intro v hv a ha
    rw [hlast] at hv
    have hvc : c = v := Option.some.inj hv
    rw [← hvc]
    have hcq : c ∈ st.bfs_queue := by rw [hq]; simp
    have haq : a ∈ st.bfs_queue := by rw [hq]; exact List.mem_cons_of_mem _ ha
    by_cases has : a = start
    · rw [has, hinv.depth_start]
      exact Nat.zero_le _
    · obtain ⟨_, _, p3, _, _⟩ := hinv.parent a (List.mem_append_right _ haq) has
      cases hd : done.getLast? with
      | none =>
        rw [List.getLast?_eq_none_iff] at hd
        rw [hd] at p3
        exact absurd p3 (List.not_mem_nil _)
      | some w =>
        have h1 := hinv.bound w hd a haq
        have h2 := last_le_of_sorted done _ depth w hinv.sorted hd c hcq
        omega
  · intro v hv d
    rw [List.mem_append, List.mem_singleton] at hv
    rcases hv with hv | hv
    · right
      rcases hinv.closed v hv d with ⟨_, hd⟩ | h
      · exact absurd hd (List.not_mem_nil _)
      · show _ ∧ (_ → _ ∈ (done ++ [c]) ++ rest ∧ _)
        rw [eq]
        exact h
    · left
      rw [hv]
      exact ⟨hlast, List.mem_range.2 (toNat_lt_eight d)⟩
  · intro a ha
    show a ∈ (done ++ [c]) ++ rest ∨ _
    rw [eq]
    exact hinv.seen a ha

/-- A list of different cells of the grid is not longer than the grid is large. -/
theorem nodup_on_grid_length (rows cols : Int) (l : List (Int × Int)) (hn : l.Nodup)
    (hl : ∀ c ∈ l, onGrid rows cols c) : l.length ≤ (cols.toNat) * (rows.toNat) := by
  have h1 : l.toFinset ⊆ Finset.Ico (0 : Int) cols ×ˢ Finset.Ico (0 : Int) rows := by
    intro c hcm
    rw [List.mem_toFinset] at hcm
    have := hl c hcm
    rw [Finset.mem_product, Finset.mem_Ico, Finset.mem_Ico]
    exact ⟨⟨this.1, this.2.1⟩, this.2.2.1, this.2.2.2⟩
  have h2 := Finset.card_le_card h1
  rw [List.toFinset_card_of_nodup hn, Finset.card_product, Int.card_Ico, Int.card_Ico] at h2
  simpa using h2

/-- More fuel does not change the result of the queue loop. -/
theorem bfsLoop_mono (alg : TankNav) (g : Board) (rows cols : Int) :
    ∀ (fuel : Nat) (st r : BfsState), bfsLoop alg g rows cols fuel st = some r →
      ∀ fuel1, fuel ≤ fuel1 → bfsLoop alg g rows cols fuel1 st = some r := by
  intro fuel
  induction fuel with
  | zero =>
    intro st r h
    rw [bfsLoop] at h
    exact absurd h (by simp)
  | succ k ih =>
    intro st r h fuel1 hle
    obtain ⟨m, rfl⟩ : ∃ m, fuel1 = m + 1 := ⟨fuel1 - 1, by omega⟩
    rw [bfsLoop] at h ⊢
    cases hq : st.bfs_queue with
    | nil =>
      rw [hq] at h
      exact h
    | cons c rest =>
      rw [hq] at h
      simp only [] at h ⊢
      split_ifs at h ⊢ with hf
      · exact h
      · exact ih _ _ h m (by omega)

/-- More fuel does not change the result of the loop that follows the parents. -/
theorem pathLoop_mono (pi_graph : Int → Int → Int × Int) (start : Int × Int) :
    ∀ (fuel : Nat) (curr : Int × Int) (path r : List (Int × Int)),
      pathLoop pi_graph start fuel curr path = some r →
      ∀ fuel1, fuel ≤ fuel1 → pathLoop pi_graph start fuel1 curr path = some r := by
  intro fuel
  induction fuel with
  | zero =>
    intro curr path r h
    rw [pathLoop] at h
    exact absurd h (by simp)
  | succ k ih =>
    intro curr path r h fuel1 hle
    obtain ⟨m, rfl⟩ : ∃ m, fuel1 = m + 1 := ⟨fuel1 - 1, by omega⟩
    rw [pathLoop] at h ⊢
    split_ifs at h ⊢ with hf
    · exact ih _ _ _ h m (by omega)
    · exact h

/-- The queue loop ends: either with the queue empty and no enemy tank found, or with an
enemy tank found. -/
theorem bfsLoop_total (alg : TankNav) (g : Board) (rows cols : Int) (start : Int × Int)
    (hr : 1 ≤ rows) (hc : 1 ≤ cols) :
    ∀ (fuel : Nat) (st : BfsState) (done : List (Int × Int)) (depth : Int × Int → Nat),
      BfsInv alg g rows cols start st done depth [] →
      cols.toNat * rows.toNat + 1 ≤ fuel + done.length →
      ∃ r, bfsLoop alg g rows cols fuel st = some r ∧
        ((r.found = false ∧ r.bfs_queue = [] ∧
            ∃ done1 depth1, BfsInv alg g rows cols start r done1 depth1 []) ∨
          (r.found = true ∧
            ∃ done1 depth1 u n, BfsFound alg g rows cols start r done1 depth1 u n)) := by
  intro fuel
  induction fuel with
  | zero =>
    intro st done depth hinv hf
    have h1 := nodup_on_grid_length rows cols (done ++ st.bfs_queue) hinv.nodup hinv.inside
    rw [List.length_append] at h1
    omega
  | succ k ih =>
    intro st done depth hinv hf
    rw [bfsLoop]
    cases hq : st.bfs_queue with
    | nil =>
      exact ⟨st, rfl, Or.inl ⟨hinv.running, hq, done, depth, hinv⟩⟩
    | cons c rest =>
      simp only []
      have hpop := bfsInv_pop alg g rows cols start st done depth c rest hq hinv
      have hlast : (done ++ [c]).getLast? = some c := by simp
      rcases bfsExpand_spec alg g rows cols start hr hc (done ++ [c]) c hlast (List.range 8)
        _ depth hpop with ⟨hfd, depth1, n, hfound⟩ | ⟨hfd, depth1, hinv1⟩
      · rw [if_pos hfd]
        exact ⟨_, rfl, Or.inr ⟨hfd, _, depth1, c, n, hfound⟩⟩
      · rw [if_neg (by rw [hfd]; decide)]
        exact ih _ (done ++ [c]) depth1 hinv1 (by rw [List.length_append]; simp; omega)

theorem chain_snoc {α : Type} (R : α → α → Prop) (c : α) :
    ∀ (l : List α) (a b : α), List.Chain R a l → (a :: l).getLast? = some b → R b c →
      List.Chain R a (l ++ [c]) := by
  intro l
  induction l with
  | nil =>
    intro a b _ hb hR
    simp at hb
    rw [hb]
    exact List.Chain.cons hR List.Chain.nil
  | cons x rest ih =>
    intro a b hch hb hR
    rw [List.chain_cons] at hch
    rw [List.cons_append, List.chain_cons]
    refine ⟨hch.1, ih x b hch.2 ?_ hR⟩
    rw [List.getLast?_cons_cons] at hb
    exact hb

/-- A route that starts with the cell `c`: either `c` holds the enemy tank, or `c` can be
entered and the route goes on from there. -/
theorem routeFrom_cons (alg : TankNav) (g : Board) (a c : Int × Int)
    (rest : List (Int × Int)) (h : RouteFrom alg g a (c :: rest)) :
    neighbour (boardRows g) (boardCols g) a c ∧
      ((rest = [] ∧ enemyCell alg g c = true) ∨
        (rest ≠ [] ∧ blockedCell alg g c = false ∧ RouteFrom alg g c rest)) := by
  obtain ⟨hch, ⟨last, hl, he⟩, hb⟩ := h
  rw [List.chain_cons] at hch
  refine ⟨hch.1, ?_⟩
  cases rest with
  | nil =>
    left
    simp at hl
    rw [hl]
    exact ⟨rfl, he⟩
  | cons x xs =>
    right
    refine ⟨by simp, hb c (by simp [List.dropLast]), hch.2, ⟨last, ?_, he⟩, ?_⟩
    · rw [List.getLast?_cons_cons] at hl
      exact hl
    · intro y hy
      exact hb y (by rw [List.dropLast_cons₂]; exact List.mem_cons_of_mem _ hy)

/-- With the queue empty and no enemy tank found, no route leads to an enemy tank from a
cell that the search has taken from the queue. -/
theorem no_route_when_exhausted (alg : TankNav) (g : Board) (start : Int × Int)
    (st : BfsState) (done : List (Int × Int)) (depth : Int × Int → Nat)
    (hinv : BfsInv alg g (boardRows g) (boardCols g) start st done depth [])
    (hq : st.bfs_queue = []) :
    ∀ (l : List (Int × Int)) (a : Int × Int), a ∈ done → RouteFrom alg g a l → False := by
  intro l
  induction l with
  | nil =>
    intro a _ h
    obtain ⟨_, ⟨last, hl, _⟩, _⟩ := h
    simp at hl
  | cons c rest ih =>
    intro a ha h
    obtain ⟨⟨d, hd⟩, hcases⟩ := routeFrom_cons alg g a c rest h
    rcases hinv.closed a ha d with ⟨_, hm⟩ | ⟨h1, h2⟩
    · exact absurd hm (List.not_mem_nil _)
    · rw [← hd] at h1 h2
      rcases hcases with ⟨_, he⟩ | ⟨_, hb, hroute⟩
      · rw [he] at h1
        exact absurd h1 (by decide)
      · have hm := (h2 hb).1
        rw [hq, List.append_nil] at hm
        exact ih c hm hroute

/-- While the search handles the cell `u`, every route to an enemy tank from a cell that
the search has reached is at least as long as the way over `u` is. -/
theorem route_not_shorter (alg : TankNav) (g : Board) (start : Int × Int)
    (st : BfsState) (done : List (Int × Int)) (depth : Int × Int → Nat) (todo : List Nat)
    (u : Int × Int)
    (hinv : BfsInv alg g (boardRows g) (boardCols g) start st done depth todo)
    (hu : done.getLast? = some u) :
    ∀ (l : List (Int × Int)) (a : Int × Int), a ∈ done ++ st.bfs_queue →
      RouteFrom alg g a l → depth u + 1 ≤ depth a + l.length := by
  intro l
  induction l with
  | nil =>
    intro a _ h
    obtain ⟨_, ⟨last, hl, _⟩, _⟩ := h
    simp at hl
  | cons c rest ih =>
    intro a ha h
    rw [List.length_cons]
    obtain ⟨⟨d, hd⟩, hcases⟩ := routeFrom_cons alg g a c rest h
    rw [List.mem_append] at ha
    rcases ha with ha | ha
    · rcases hinv.closed a ha d with ⟨hl, _⟩ | ⟨h1, h2⟩
      · rw [hu] at hl
        rw [Option.some.inj hl]
        omega
      · rw [← hd] at h1 h2
        rcases hcases with ⟨_, he⟩ | ⟨_, hb, hroute⟩
        · rw [he] at h1
          exact absurd h1 (by decide)
        · obtain ⟨hm, hle⟩ := h2 hb
          have := ih c hm hroute
          omega
    · have := last_le_of_sorted done _ depth u hinv.sorted hu a ha
      omega

/-- Following the parents from a cell that the search has reached gives the cells of a
way from the start to that cell, as many as the depth of the cell. -/
theorem pathLoop_chain (alg : TankNav) (g : Board) (rows cols : Int) (start : Int × Int)
    (st : BfsState) (done : List (Int × Int)) (depth : Int × Int → Nat) (todo : List Nat)
    (n u : Int × Int) (hinv : BfsInv alg g rows cols start st done depth todo)
    (hen : enemyCell alg g n = true) :
    ∀ (k : Nat) (c : Int × Int) (acc : List (Int × Int)) (fuel : Nat),
      c ∈ done ++ st.bfs_queue → depth c = k → k + 1 ≤ fuel →
      ∃ l, pathLoop (setAt st.pi_graph n.1 n.2 u) start fuel c acc = some (l ++ acc) ∧
        l.length = k ∧ List.Chain (neighbour rows cols) start l ∧
        (start :: l).getLast? = some c ∧ ∀ x ∈ l, blockedCell alg g x = false := by
  intro k
  induction k with
  | zero =>
    intro c acc fuel hc hd hf
    obtain ⟨m, rfl⟩ : ∃ m, fuel = m + 1 := ⟨fuel - 1, by omega⟩
    have hcs : c = start := by
      by_contra hne
      have := (hinv.parent c hc hne).2.2.2.2
      omega
    refine ⟨[], ?_, rfl, List.Chain.nil, by simp [hcs], by simp⟩
    rw [pathLoop, if_neg (by simp [hcs])]
    rfl
  | succ k ih =>
    intro c acc fuel hc hd hf
    obtain ⟨m, rfl⟩ : ∃ m, fuel = m + 1 := ⟨fuel - 1, by omega⟩
    have hcs : c ≠ start := by
      intro h
      rw [h, hinv.depth_start] at hd
      omega
    obtain ⟨p1, p2, p3, p4, p5⟩ := hinv.parent c hc hcs
    have hcn : c ≠ n := by
      intro h
      rw [h, hen] at p2
      exact absurd p2 (by decide)
    have hpi : setAt st.pi_graph n.1 n.2 u c.1 c.2 = st.pi_graph c.1 c.2 := by
      rw [setAt_cell, if_neg hcn]
    obtain ⟨l, h1, h2, h3, h4, h5⟩ := ih (st.pi_graph c.1 c.2) (c :: acc) m
      (List.mem_append_left _ p3) (by omega) (by omega)
    refine ⟨l ++ [c], ?_, by simp [h2], chain_snoc _ c l start _ h3 h4 p4, ?_, ?_⟩
    · rw [pathLoop, if_pos hcs, hpi, h1]
      simp
    · rw [← List.cons_append, List.getLast?_append]
      rfl
    · intro x hx
      rw [List.mem_append, List.mem_singleton] at hx
      rcases hx with hx | hx
      · exact h5 x hx
      · rw [hx]
        exact p1

/-- The state before the queue loop of `get_path_stack` satisfies the invariant. -/
theorem bfsInv_init (alg : TankNav) (g : Board) (rows cols : Int) (start : Int × Int)
    (hg : onGrid rows cols start) :
    BfsInv alg g rows cols start
      { visited := setAt (fun _ _ => false) start.1 start.2 true,
        pi_graph := setAt (fun _ _ => (-2, -2)) start.1 start.2 (-1, -1),
        bfs_queue := [(start.1, start.2)], found := false, end_cell := (0, 0) }
      [] (fun _ => 0) [] := by
  have hmem : ∀ c : Int × Int, c ∈ ([] : List (Int × Int)) ++ [(start.1, start.2)] →
      c = start := by
    intro c hc
    simpa using hc
  refine
    { running := rfl
      start_mem := by simp
      depth_start := rfl
      inside := ?_
      marked := ?_
      nodup := by simp
      parent := ?_
      sorted := by simp
      bound := ?_
      closed := ?_
      seen := ?_ }
  · intro c hc
    rw [hmem c hc]
    exact hg
  · intro c hc
    show setAt (fun _ _ => false) start.1 start.2 true c.1 c.2 = true
    rw [setAt_cell, if_pos (hmem c hc)]
  · intro c hc hne
    exact absurd (hmem c hc) hne
  · intro u hu
    exact absurd hu (by simp)
  · intro u hu
    exact absurd hu (List.not_mem_nil _)
  · intro c hv
    have hv1 : setAt (fun _ _ => false) start.1 start.2 true c.1 c.2 = true := hv
    rw [setAt_cell] at hv1
    left
    by_cases h : c = start
    · simp [h]
    · rw [if_neg h] at hv1
      exact absurd hv1 (by decide)

/-- More fuel does not change the result of `get_path_stack`. -/
theorem get_path_stack_mono (alg : TankNav) (g : Board) (fuel : Nat)
    (path : List (Int × Int)) (h : get_path_stack fuel alg g = some path) :
    ∀ fuel1, fuel ≤ fuel1 → get_path_stack fuel1 alg g = some path := by
  intro fuel1 hle
  unfold get_path_stack at h ⊢
  simp only [] at h ⊢
  cases hb : bfsLoop alg g (boardRows g) (boardCols g) fuel
      { visited := setAt (fun _ _ => false) alg.location_.1 alg.location_.2 true,
        pi_graph := setAt (fun _ _ => (-2, -2)) alg.location_.1 alg.location_.2 (-1, -1),
        bfs_queue := [(alg.location_.1, alg.location_.2)], found := false,
        end_cell := (0, 0) } with
  | none =>
    rw [hb] at h
    exact absurd h (by simp)
  | some st =>
    rw [hb] at h
    rw [bfsLoop_mono alg g _ _ fuel _ st hb fuel1 hle]
    simp only [] at h ⊢
    split_ifs at h ⊢ with hf
    · exact pathLoop_mono _ _ _ _ _ _ h fuel1 hle
    · exact h

/-- C31 (as stated, refuted): on `driftBoard` the algorithm of player 1 takes the cell
`(1, 1)` for its own, and that cell shows the digit of an enemy tank.  The cells `(2, 1)`,
`(3, 1)` lead from there to the enemy tank at `(3, 1)`, and yet `get_path_stack` returns
the empty stack: the search comes back to the own cell from the neighbour `(1, 0)` and
takes it for the nearest enemy tank. -/
theorem own_cell_enemy_gives_empty_path :
    (1 ≤ boardRows driftBoard ∧ 1 ≤ boardCols driftBoard ∧
      (0 ≤ driftAlg.location_.1 ∧ driftAlg.location_.1 < boardCols driftBoard) ∧
      (0 ≤ driftAlg.location_.2 ∧ driftAlg.location_.2 < boardRows driftBoard)) ∧
    (∀ fuel, 30 ≤ fuel → get_path_stack fuel driftAlg driftBoard = some []) ∧
    RouteFrom driftAlg driftBoard driftAlg.location_ [(2, 1), (3, 1)] ∧
    enemyCell driftAlg driftBoard driftAlg.location_ = true := by
  refine ⟨by decide, ?_, ⟨?_, ⟨(3, 1), rfl, by decide⟩, ?_⟩, by decide⟩
  · exact get_path_stack_mono driftAlg driftBoard 30 [] (by decide!)
  · exact List.Chain.cons ⟨Direction.R, by decide⟩
      (List.Chain.cons ⟨Direction.R, by decide⟩ List.Chain.nil)
  · intro c hc
    have hc1 : c = (2, 1) := by simpa [List.dropLast] using hc
    rw [hc1]
    decide

/-- C31 (amended).  On a board of at least one cell with the tank of the algorithm on the
board, `get_path_stack` returns with enough fuel, and always the same stack.  When the
stack is not empty, popping it gives cells `c1 .. cn` that lead to an enemy tank: `c1` is
one of the 8 neighbours (on the torus) of the cell of the tank, each further cell is one
of the 8 neighbours of the cell before it, `cn` holds an enemy tank and none of
`c1 .. c(n-1)` is a wall, a weakened wall, a mine or a tank of the own side; and no such
sequence of cells to any enemy tank is shorter.  When no such sequence exists the stack is
empty.  The stack is empty although such a sequence exists only when the own cell of the
tank shows the digit of an enemy tank and ends a shortest such sequence; so when the own
cell shows no enemy digit, the stack is empty exactly when no such sequence exists. -/
theorem get_path_stack_shortest_route (alg : TankNav) (g : Board)
    (hr : 1 ≤ boardRows g) (hc : 1 ≤ boardCols g)
    (hx : 0 ≤ alg.location_.1 ∧ alg.location_.1 < boardCols g)
    (hy : 0 ≤ alg.location_.2 ∧ alg.location_.2 < boardRows g) :
    ∃ F path, (∀ fuel, F ≤ fuel → get_path_stack fuel alg g = some path) ∧
      (path ≠ [] → RouteFrom alg g alg.location_ path ∧
        ∀ r, RouteFrom alg g alg.location_ r → path.length ≤ r.length) ∧
      ((¬ ∃ r, RouteFrom alg g alg.location_ r) → path = []) ∧
      (path = [] → (¬ ∃ r, RouteFrom alg g alg.location_ r) ∨
        (enemyCell alg g alg.location_ = true ∧
          ∃ r, RouteFrom alg g alg.location_ r ∧ r.getLast? = some alg.location_ ∧
            ∀ r1, RouteFrom alg g alg.location_ r1 → r.length ≤ r1.length)) ∧
      (enemyCell alg g alg.location_ = false →
        (path = [] ↔ ¬ ∃ r, RouteFrom alg g alg.location_ r)) := by
  have hg : onGrid (boardRows g) (boardCols g) alg.location_ := ⟨hx.1, hx.2, hy.1, hy.2⟩
  have hinit := bfsInv_init alg g (boardRows g) (boardCols g) alg.location_ hg
  obtain ⟨r, hrun, hfin⟩ := bfsLoop_total alg g (boardRows g) (boardCols g) alg.location_
    hr hc ((boardCols g).toNat * (boardRows g).toNat + 1) _ [] _ hinit (by simp)
  have hget : ∀ fuel, (boardCols g).toNat * (boardRows g).toNat + 1 ≤ fuel →
      get_path_stack fuel alg g = if ¬ r.found = true then some []
        else pathLoop r.pi_graph alg.location_ fuel r.end_cell [] := by
    intro fuel hf
    unfold get_path_stack
    simp only []
    rw [bfsLoop_mono alg g _ _ _ _ r hrun fuel hf]
  rcases hfin with ⟨hnf, hq, done, depth, hinv⟩ | ⟨hf, done, depth, u, n, hfound⟩
  · have hno : ¬ ∃ r, RouteFrom alg g alg.location_ r := by
      rintro ⟨l, hl⟩
      have hm := hinv.start_mem
      rw [hq, List.append_nil] at hm
      exact no_route_when_exhausted alg g alg.location_ r done depth hinv hq l _ hm hl
    refine ⟨(boardCols g).toNat * (boardRows g).toNat + 1, [], ?_, fun h => absurd rfl h,
      fun _ => rfl, fun _ => Or.inl hno, fun _ => ⟨fun _ => hno, fun _ => rfl⟩⟩
    intro fuel hfuel
    rw [hget fuel hfuel, if_pos (by rw [hnf]; decide)]
  · obtain ⟨hfd, htarget, hlast, hnext, hen, st0, todo, hinv, hpi⟩ := hfound
    have hum : u ∈ done ++ st0.bfs_queue :=
      List.mem_append_left _ (getLast_mem_of done u hlast)
    obtain ⟨l, h1, h2, h3, h4, h5⟩ := pathLoop_chain alg g (boardRows g) (boardCols g)
      alg.location_ st0 done depth todo n u hinv hen (depth u) u [n] (depth u + 1) hum rfl
      (le_refl _)
    have hroute : RouteFrom alg g alg.location_ (l ++ [n]) := by
      refine ⟨chain_snoc _ n l _ u h3 h4 hnext, ⟨n, by simp, hen⟩, ?_⟩
      intro x hx
      rw [List.dropLast_concat] at hx
      exact h5 x hx
    have hmin : ∀ r1, RouteFrom alg g alg.location_ r1 → (l ++ [n]).length ≤ r1.length := by
      intro route hr1
      have := route_not_shorter alg g alg.location_ st0 done depth todo u hinv hlast route
        alg.location_ hinv.start_mem hr1
      rw [hinv.depth_start] at this
      rw [List.length_append, h2]
      simpa using this
    by_cases hns : n = alg.location_
    · refine ⟨(boardCols g).toNat * (boardRows g).toNat + 1, [], ?_, fun h => absurd rfl h,
        fun _ => rfl, fun _ => Or.inr ⟨by rw [← hns]; exact hen, l ++ [n], hroute, ?_, hmin⟩,
        fun hs => ?_⟩
      · intro fuel hfuel
        obtain ⟨m, rfl⟩ : ∃ m, fuel = m + 1 := ⟨fuel - 1, by omega⟩
        rw [hget _ hfuel, if_neg (by rw [hfd]; decide), pathLoop, htarget,
          if_neg (by simp [hns])]
      · rw [List.getLast?_append, hns]
        rfl
      · rw [← hns, hen] at hs
        exact absurd hs (by decide)
    · have hpath : pathLoop r.pi_graph alg.location_ (depth u + 2) r.end_cell [] =
          some (l ++ [n]) := by
        rw [pathLoop, htarget, if_pos hns, hpi, setAt_cell, if_pos rfl]
        exact h1
      have hne : l ++ [n] ≠ [] := by simp
      refine ⟨max ((boardCols g).toNat * (boardRows g).toNat + 1) (depth u + 2), l ++ [n],
        ?_, fun _ => ⟨hroute, hmin⟩, fun h => absurd ⟨_, hroute⟩ h, fun h => absurd h hne,
        fun _ => ⟨fun h => absurd h hne, fun h => absurd ⟨_, hroute⟩ h⟩⟩
      intro fuel hfuel
      rw [hget fuel (le_trans (le_max_left _ _) hfuel), if_neg (by rw [hfd]; decide)]
      exact pathLoop_mono _ _ _ _ _ _ hpath fuel (le_trans (le_max_right _ _) hfuel)

/-- On `mazeBoard` the search of the tank at `(0, 0)` goes over the edge of the board: the
stack holds `(4, 1)` and then the enemy tank at `(3, 2)`. -/
theorem get_path_stack_shortest_route_witness :
    (1 ≤ boardRows mazeBoard ∧ 1 ≤ boardCols mazeBoard ∧
      (0 ≤ mazeAlg.location_.1 ∧ mazeAlg.location_.1 < boardCols mazeBoard) ∧
      (0 ≤ mazeAlg.location_.2 ∧ mazeAlg.location_.2 < boardRows mazeBoard)) ∧
    get_path_stack 30 mazeAlg mazeBoard = some [(4, 1), (3, 2)] ∧
    ∃ F path, (∀ fuel, F ≤ fuel → get_path_stack fuel mazeAlg mazeBoard = some path) ∧
      (path ≠ [] → RouteFrom mazeAlg mazeBoard mazeAlg.location_ path ∧
        ∀ r, RouteFrom mazeAlg mazeBoard mazeAlg.location_ r → path.length ≤ r.length) ∧
      ((¬ ∃ r, RouteFrom mazeAlg mazeBoard mazeAlg.location_ r) → path = []) ∧
      (path = [] → (¬ ∃ r, RouteFrom mazeAlg mazeBoard mazeAlg.location_ r) ∨
        (enemyCell mazeAlg mazeBoard mazeAlg.location_ = true ∧
          ∃ r, RouteFrom mazeAlg mazeBoard mazeAlg.location_ r ∧
            r.getLast? = some mazeAlg.location_ ∧
            ∀ r1, RouteFrom mazeAlg mazeBoard mazeAlg.location_ r1 → r.length ≤ r1.length)) ∧
      (enemyCell mazeAlg mazeBoard mazeAlg.location_ = false →
        (path = [] ↔ ¬ ∃ r, RouteFrom mazeAlg mazeBoard mazeAlg.location_ r)) :=
  ⟨by decide, by decide!,
    get_path_stack_shortest_route mazeAlg mazeBoard (by decide) (by decide)
      (by decide) (by decide)⟩

/-! ## What one substep does to the shells of the list -/

theorem handleShellSpawnOnTank_iterator (s : GM) (it : Nat) :
    (handleShellSpawnOnTank s it).2.1 = it := by
  unfold handleShellSpawnOnTank
  simp only []
  split_ifs
  · cases getTankIndexAt s (shellAt s it).location_.1 (shellAt s it).location_.2 <;> rfl
  · rfl

theorem eraseIdx_origin {α : Type} (l : List α) (k i : Nat) (a : α)
    (h : (l.eraseIdx k)[i]? = some a) :
    (i < k ∧ l[i]? = some a) ∨ (k ≤ i ∧ l[i + 1]? = some a) := by
  rw [List.getElem?_eraseIdx] at h
  split_ifs at h with h1
  · exact Or.inl ⟨h1, h⟩
  · exact Or.inr ⟨Nat.le_of_not_lt h1, h⟩

/-- Origin of the shells of a list from which the shell at the iterator was erased. -/
theorem origin_erase_one {α : Type} (l : List α) (it i : Nat) (a : α)
    (h : (l.eraseIdx it)[i]? = some a) :
    ∃ j : Nat, i ≤ j ∧ l[j]? = some a ∧ (it ≤ it + 1 → it ≤ i → it ≤ j) := by
  rcases eraseIdx_origin l it i a h with ⟨h1, h2⟩ | ⟨h1, h2⟩
  · exact ⟨i, le_refl _, h2, fun _ h3 => h3⟩
  · exact ⟨i + 1, Nat.le_succ _, h2, fun _ _ => by omega⟩

/-- Origin of the shells of a list from which the shell at the iterator and a later one
were erased. -/
theorem origin_erase_later {α : Type} (l : List α) (it other i : Nat) (a : α)
    (h : ((l.eraseIdx other).eraseIdx it)[i]? = some a) :
    ∃ j : Nat, i ≤ j ∧ l[j]? = some a ∧ (it ≤ it + 1 → it ≤ i → it ≤ j) := by
  rcases eraseIdx_origin _ it i a h with ⟨h1, h2⟩ | ⟨h1, h2⟩
  · rcases eraseIdx_origin l other i a h2 with ⟨_, h4⟩ | ⟨_, h4⟩
    · exact ⟨i, le_refl _, h4, fun _ h5 => h5⟩
    · exact ⟨i + 1, Nat.le_succ _, h4, fun _ _ => by omega⟩
  · rcases eraseIdx_origin l other (i + 1) a h2 with ⟨_, h4⟩ | ⟨_, h4⟩
    · exact ⟨i + 1, Nat.le_succ _, h4, fun _ _ => by omega⟩
    · exact ⟨i + 2, by omega, h4, fun _ _ => by omega⟩

/-- Origin of the shells of a list from which the shell at the iterator and an earlier one
were erased, the iterator being set to the position of the earlier one. -/
theorem origin_erase_earlier {α : Type} (l : List α) (it other i : Nat) (a : α)
    (h : ((l.eraseIdx it).eraseIdx other)[i]? = some a) :
    ∃ j : Nat, i ≤ j ∧ l[j]? = some a ∧ (it ≤ other + 1 → other ≤ i → it ≤ j) := by
  rcases eraseIdx_origin _ other i a h with ⟨h1, h2⟩ | ⟨h1, h2⟩
  · rcases eraseIdx_origin l it i a h2 with ⟨_, h4⟩ | ⟨_, h4⟩
    · exact ⟨i, le_refl _, h4, fun _ _ => by omega⟩
    · exact ⟨i + 1, Nat.le_succ _, h4, fun _ _ => by omega⟩
  · rcases eraseIdx_origin l it (i + 1) a h2 with ⟨h3, h4⟩ | ⟨h3, h4⟩
    · exact ⟨i + 1, Nat.le_succ _, h4, fun _ _ => by omega⟩
    · exact ⟨i + 2, by omega, h4, fun _ _ => by omega⟩

/-- The shell list after one iteration of the loop of `moveShells`: either every shell of
the new list is a shell of the old list, from the same position or a later one, and from
the old iterator on when it stands at the new iterator or after it (unless the iterator
has moved back by more than one position); or the new list is the old one with the shell
at the iterator changed: its direction is kept, and its location is kept or is the cell
ahead, and then the iterator has moved on by one. -/
theorem moveShellsStep_shape (s : GM) (it : Nat) :
    (∀ (i : Nat) (sh : Shell), (moveShellsStep s it).1.shells_[i]? = some sh →
      ∃ j : Nat, i ≤ j ∧ s.shells_[j]? = some sh ∧
        (it ≤ (moveShellsStep s it).2.1 + 1 → (moveShellsStep s it).2.1 ≤ i → it ≤ j)) ∨
    (∃ g : Shell → Shell, (moveShellsStep s it).1.shells_ = s.shells_.modify g it ∧
      (∀ sh, (g sh).direction_ = sh.direction_) ∧ it ≤ (moveShellsStep s it).2.1 ∧
      ((∀ sh, (g sh).location_ = sh.location_) ∨
        ((∀ sh, (g sh).location_ = nextLocation s (shellAt s it).location_.1
            (shellAt s it).location_.2 (shellAt s it).direction_ false) ∧
          (moveShellsStep s it).2.1 = it + 1))) := by
  have hsh := clearPreviousShellPosition_shells s it
  unfold moveShellsStep
  simp only []
  by_cases hsp : (handleShellSpawnOnTank s it).2.2 = true
  · rw [if_pos hsp]
    left
    have e : (handleShellSpawnOnTank s it).1.shells_ = s.shells_.eraseIdx it := by
      unfold handleShellSpawnOnTank at hsp ⊢
      simp only [] at hsp ⊢
      split_ifs at hsp ⊢ with h1
      cases h2 : getTankIndexAt s (shellAt s it).location_.1 (shellAt s it).location_.2 with
      | none => rw [h2] at hsp; exact absurd hsp (by simp)
      | some k => rfl
    intro i sh h
    have h' : (handleShellSpawnOnTank s it).1.shells_[i]? = some sh := h
    rw [e] at h'
    show ∃ j : Nat, i ≤ j ∧ s.shells_[j]? = some sh ∧
      (it ≤ (handleShellSpawnOnTank s it).2.1 + 1 → (handleShellSpawnOnTank s it).2.1 ≤ i →
        it ≤ j)
    rw [handleShellSpawnOnTank_iterator]
    exact origin_erase_one _ _ _ _ h'
  · rw [if_neg hsp]
    generalize hn : nextLocation s (shellAt s it).location_.1 (shellAt s it).location_.2
      (shellAt s it).direction_ false = n
    by_cases hc : cellAt s.gameboard_ n.1 n.2 = '*'
    · rw [if_pos hc]
      unfold handleShellCollision
      cases ho : getShellAt (clearPreviousShellPosition s it) n.1 n.2 with
      | none =>
        right
        exact ⟨_, hsh, fun _ => rfl, Nat.le_refl _, Or.inl (fun _ => rfl)⟩
      | some other =>
        simp only []
        by_cases hd : (shellAt s it).direction_.toNat =
            ((shellAt (clearPreviousShellPosition s it) other).direction_.toNat + 4) % 8
        · rw [if_pos hd]
          left
          by_cases hlt : it < other
          · rw [if_pos hlt]
            intro i sh h
            have h' : (((clearPreviousShellPosition s it).shells_.eraseIdx other).eraseIdx
                it)[i]? = some sh := h
            rw [hsh, eraseIdx_modify_of_lt _ _ _ _ hlt, eraseIdx_modify_same] at h'
            exact origin_erase_later _ _ _ _ _ h'
          · rw [if_neg hlt]
            intro i sh h
            have h' : (((clearPreviousShellPosition s it).shells_.eraseIdx it).eraseIdx
                other)[i]? = some sh := h
            rw [hsh, eraseIdx_modify_same] at h'
            exact origin_erase_earlier _ _ _ _ _ h'
        · rw [if_neg hd]
          right
          refine ⟨(fun sh => ⟨n, sh.direction_, false⟩), ?_, fun _ => rfl, Nat.le_succ _,
          Or.inr ⟨fun _ => rfl, rfl⟩⟩
          show ((clearPreviousShellPosition s it).shells_.modify
            (fun sh => { sh with location_ := (n.1, n.2) }) it) = _
          rw [hsh, modify_twice]
    · rw [if_neg hc]
      unfold handleShellMoveToNextCell
      by_cases h1 : cellAt s.gameboard_ n.1 n.2 = '#'
      · rw [if_pos h1]
        left
        intro i sh h
        have h' : ((clearPreviousShellPosition s it).shells_.eraseIdx it)[i]? = some sh := h
        rw [hsh, eraseIdx_modify_same] at h'
        exact origin_erase_one _ _ _ _ h'
      rw [if_neg h1]
      by_cases h2 : cellAt s.gameboard_ n.1 n.2 = '$'
      · rw [if_pos h2]
        left
        intro i sh h
        have h' : ((clearPreviousShellPosition s it).shells_.eraseIdx it)[i]? = some sh := h
        rw [hsh, eraseIdx_modify_same] at h'
        exact origin_erase_one _ _ _ _ h'
      rw [if_neg h2]
      by_cases h3 : cellAt s.gameboard_ n.1 n.2 = '1' ∨ cellAt s.gameboard_ n.1 n.2 = '2'
      · rw [if_pos h3]
        cases h4 : getTankIndexAt (clearPreviousShellPosition s it) n.1 n.2 with
        | none =>
          right
          exact ⟨_, hsh, fun _ => rfl, Nat.le_refl _, Or.inl (fun _ => rfl)⟩
        | some k =>
          left
          intro i sh h
          have h' : ((clearPreviousShellPosition s it).shells_.eraseIdx it)[i]? = some sh := h
          rw [hsh, eraseIdx_modify_same] at h'
          exact origin_erase_one _ _ _ _ h'
      rw [if_neg h3]
      right
      by_cases h5 : cellAt s.gameboard_ n.1 n.2 = '@'
      · rw [if_pos h5]
        refine ⟨(fun sh => ⟨n, sh.direction_, true⟩), ?_, fun _ => rfl, Nat.le_succ _,
          Or.inr ⟨fun _ => rfl, rfl⟩⟩
        show (((clearPreviousShellPosition s it).shells_.modify
          (fun sh => { sh with location_ := (n.1, n.2) }) it).modify
          (fun sh => { sh with aboveMine_ := true }) it) = _
        rw [hsh, modify_twice, modify_twice]
      rw [if_neg h5]
      by_cases h6 : cellAt s.gameboard_ n.1 n.2 = ' '
      · rw [if_pos h6]
        refine ⟨(fun sh => ⟨n, sh.direction_, false⟩), ?_, fun _ => rfl, Nat.le_succ _,
          Or.inr ⟨fun _ => rfl, rfl⟩⟩
        show ((clearPreviousShellPosition s it).shells_.modify
          (fun sh => { sh with location_ := (n.1, n.2) }) it) = _
        rw [hsh, modify_twice]
      · rw [if_neg h6]
        exact ⟨_, hsh, fun _ => rfl, Nat.le_succ _, Or.inl (fun _ => rfl)⟩

/-- The iterator of the loop of `moveShells` moves backwards in one case only: the shell at
the iterator has a shell mark ahead, the first shell found on that cell travels in the
opposite direction and lies before the iterator in the list; the iterator is then set to
the position of that shell. -/
theorem iterator_back_only_on_collision (s : GM) (it : Nat)
    (h : (moveShellsStep s it).2.1 < it) :
    (handleShellSpawnOnTank s it).2.2 = false ∧
    ∃ other, other < it ∧ (moveShellsStep s it).2.1 = other ∧
      cellAt s.gameboard_
        (nextLocation s (shellAt s it).location_.1 (shellAt s it).location_.2
          (shellAt s it).direction_ false).1
        (nextLocation s (shellAt s it).location_.1 (shellAt s it).location_.2
          (shellAt s it).direction_ false).2 = '*' ∧
      getShellAt (clearPreviousShellPosition s it)
        (nextLocation s (shellAt s it).location_.1 (shellAt s it).location_.2
          (shellAt s it).direction_ false).1
        (nextLocation s (shellAt s it).location_.1 (shellAt s it).location_.2
          (shellAt s it).direction_ false).2 = some other ∧
      (shellAt s it).direction_.toNat =
        ((shellAt (clearPreviousShellPosition s it) other).direction_.toNat + 4) % 8 := by
  unfold moveShellsStep at h ⊢
  simp only [] at h ⊢
  by_cases hsp : (handleShellSpawnOnTank s it).2.2 = true
  · rw [if_pos hsp] at h
    have := handleShellSpawnOnTank_iterator s it
    simp only [] at h
    omega
  · rw [if_neg hsp] at h ⊢
    refine ⟨by simpa using hsp, ?_⟩
    generalize hn : nextLocation s (shellAt s it).location_.1 (shellAt s it).location_.2
      (shellAt s it).direction_ false = n at h ⊢
    by_cases hc : cellAt s.gameboard_ n.1 n.2 = '*'
    · rw [if_pos hc] at h ⊢
      unfold handleShellCollision at h ⊢
      cases ho : getShellAt (clearPreviousShellPosition s it) n.1 n.2 with
      | none =>
        rw [ho] at h
        simp only [] at h
        omega
      | some other =>
        rw [ho] at h
        simp only [] at h ⊢
        by_cases hd : (shellAt s it).direction_.toNat =
            ((shellAt (clearPreviousShellPosition s it) other).direction_.toNat + 4) % 8
        · rw [if_pos hd] at h ⊢
          by_cases hlt : it < other
          · rw [if_pos hlt] at h
            simp only [] at h
            omega
          · rw [if_neg hlt] at h ⊢
            simp only [] at h ⊢
            exact ⟨other, h, rfl, hc, rfl, hd⟩
        · rw [if_neg hd] at h
          simp only [] at h
          omega
    · rw [if_neg hc] at h
      exfalso
      unfold handleShellMoveToNextCell at h
      simp only [] at h
      split_ifs at h
      all_goals first
        | (simp only [] at h; omega)
        | (cases hk : getTankIndexAt (clearPreviousShellPosition s it) n.1 n.2 <;>
            rw [hk] at h <;> simp only [] at h <;> omega)

theorem tracked_at_start (s : GM) : Tracked s s 0 :=
  ⟨rfl, rfl, fun _ sh h => ⟨sh, List.getElem?_mem h, rfl, Or.inl rfl⟩⟩

/-- One iteration of the loop of `moveShells` that does not move the iterator back by more
than one position keeps the invariant. -/
theorem tracked_step (s0 s : GM) (it : Nat) (hT : Tracked s0 s it)
    (hle : it ≤ (moveShellsStep s it).2.1 + 1) :
    Tracked s0 (moveShellsStep s it).1 (moveShellsStep s it).2.1 := by
  obtain ⟨hw, hh, hall⟩ := hT
  have hcfg := cfg_moveShellsStep s it
  have hw1 : (moveShellsStep s it).1.width_ = s.width_ := congrArg (fun c => c.2.2.1) hcfg
  have hh1 : (moveShellsStep s it).1.height_ = s.height_ :=
    congrArg (fun c => c.2.2.2.1) hcfg
  refine ⟨hw1.trans hw, hh1.trans hh, ?_⟩
  rcases moveShellsStep_shape s it with hE | ⟨g, hg, hdir, hle2, hloc⟩
  · intro i sh h
    obtain ⟨j, hij, hj, hfrom⟩ := hE i sh h
    obtain ⟨old, hold, hd, hl⟩ := hall j sh hj
    refine ⟨old, hold, hd, ?_⟩
    rcases hl with hl | ⟨hlt, hl⟩
    · exact Or.inl hl
    · right
      refine ⟨?_, hl⟩
      by_contra hge
      have := hfrom hle (Nat.le_of_not_lt hge)
      omega
  · intro i sh h
    rw [hg, List.getElem?_modify] at h
    cases ha : s.shells_[i]? with
    | none =>
      rw [ha] at h
      exact absurd h (by simp)
    | some a =>
      rw [ha] at h
      have hsh : sh = if it = i then g a else a := by
        simpa using h.symm
      obtain ⟨old, hold, hd, hl⟩ := hall i a ha
      by_cases hi : it = i
      · rw [if_pos hi] at hsh
        have hat : shellAt s it = a := by
          unfold shellAt
          rw [List.getD_eq_getElem?_getD, hi, ha]
          rfl
        have hun : a.location_ = old.location_ := by
          rcases hl with hl | ⟨hlt, _⟩
          · exact hl
          · omega
        refine ⟨old, hold, by rw [hsh, hdir, hd], ?_⟩
        rcases hloc with hk | ⟨hm, hnext⟩
        · left
          rw [hsh, hk, hun]
        · right
          refine ⟨by omega, ?_⟩
          rw [hsh, hm, hat, hun, hd]
          exact nextLocation_congr s s0 hw hh _ _ _ _
      · rw [if_neg hi] at hsh
        rw [hsh]
        refine ⟨old, hold, hd, ?_⟩
        rcases hl with hl | ⟨hlt, hl⟩
        · exact Or.inl hl
        · exact Or.inr ⟨by omega, hl⟩

/-- The loop of `moveShells`, while the iterator does not move backwards, keeps the
invariant up to its end. -/
theorem steadyLoop_tracked (s0 : GM) : ∀ (fuel : Nat) (s : GM) (it : Nat) (s1 : GM),
    Tracked s0 s it → steadyLoop fuel s it = true → moveShellsLoop fuel s it = some s1 →
    ∃ it1, Tracked s0 s1 it1
  | 0, _, _, _, _, _, h => by simp [moveShellsLoop] at h
  | fuel + 1, s, it, s1, hT, hst, h => by
    rw [moveShellsLoop_succ] at h
    rw [steadyLoop] at hst
    by_cases hlen : s.shells_.length ≤ it
    · rw [if_pos hlen] at h
      cases h
      exact ⟨it, hT⟩
    · rw [if_neg hlen] at h hst
      simp only [Bool.and_eq_true, decide_eq_true_eq, Bool.or_eq_true] at hst
      have hT1 := tracked_step s0 s it hT hst.1
      by_cases hfl : (moveShellsStep s it).2.2 = true
      · rw [if_pos hfl] at h
        cases h
        exact ⟨_, hT1⟩
      · rw [if_neg hfl] at h
        rcases hst.2 with h2 | h2
        · exact absurd h2 hfl
        · exact steadyLoop_tracked s0 fuel _ _ s1 hT1 h2 h

/-- A substep in which the iterator never moves backwards: every shell of the list after
the substep is a shell of the list before it, with its direction, on its cell or on the
cell ahead of it. -/
theorem steady_substep_one_cell (fuel : Nat) (s s1 : GM)
    (hst : steadyLoop fuel s 0 = true) (h : moveShells fuel s = some s1) :
    s1.width_ = s.width_ ∧ s1.height_ = s.height_ ∧
    ∀ new ∈ s1.shells_, ∃ old ∈ s.shells_, new.direction_ = old.direction_ ∧
      (new.location_ = old.location_ ∨
        new.location_ = nextLocation s old.location_.1 old.location_.2 old.direction_ false) := by
  obtain ⟨it1, hw, hh, hall⟩ := steadyLoop_tracked s fuel s 0 s1 (tracked_at_start s) hst h
  refine ⟨hw, hh, fun new hnew => ?_⟩
  obtain ⟨i, hi⟩ := List.getElem?_of_mem hnew
  obtain ⟨old, hold, hd, hl⟩ := hall i new hi
  refine ⟨old, hold, hd, ?_⟩
  rcases hl with hl | ⟨_, hl⟩
  · exact Or.inl hl
  · exact Or.inr hl

theorem checkShellsCollide_mem (s : GM) : ∀ a ∈ (checkShellsCollide s).shells_,
    a ∈ s.shells_ := by
  intro a ha
  have h := (checkShellsCollide_spec s).1 a ha
  have : a ∈ s.shells_.filter (fun b => decide (b.location_ = a.location_)) := by
    rw [h]
    exact List.mem_singleton_self a
  exact (List.mem_filter.1 this).1

/-- A shell phase in whose two substeps the iterator never moves backwards: every shell
of the list after the phase is a shell of the list before it, with its direction, at most
two cells ahead of where it was. -/
theorem steady_phase_two_cells (fuel : Nat) (s s2 : GM)
    (hst : steadyPhase fuel s = true) (h : shellPhase fuel s = some s2) :
    ∀ new ∈ s2.shells_, ∃ old ∈ s.shells_, new.direction_ = old.direction_ ∧
      (new.location_ = old.location_ ∨
        new.location_ = nextLocation s old.location_.1 old.location_.2 old.direction_ false ∨
        new.location_ = nextLocation s
          (nextLocation s old.location_.1 old.location_.2 old.direction_ false).1
          (nextLocation s old.location_.1 old.location_.2 old.direction_ false).2
          old.direction_ false) := by
  unfold shellPhase at h
  unfold steadyPhase at hst
  rw [Bool.and_eq_true] at hst
  cases h1 : moveShells fuel s with
  | none =>
    rw [h1] at h
    exact absurd h (by simp)
  | some s1 =>
    rw [h1] at h hst
    simp only [] at h hst
    cases h2 : moveShells fuel (checkShellsCollide s1) with
    | none =>
      rw [h2] at h
      exact absurd h (by simp)
    | some s3 =>
      rw [h2] at h
      simp only [Option.some.injEq] at h
      obtain ⟨hw1, hh1, hA⟩ := steady_substep_one_cell fuel s s1 hst.1 h1
      obtain ⟨-, -, hB⟩ := steady_substep_one_cell fuel _ s3 hst.2 h2
      have hcfg := cfg_checkShellsCollide s1
      have hw2 : (checkShellsCollide s1).width_ = s1.width_ :=
        congrArg (fun c => c.2.2.1) hcfg
      have hh2 : (checkShellsCollide s1).height_ = s1.height_ :=
        congrArg (fun c => c.2.2.2.1) hcfg
      intro new hnew
      rw [← h] at hnew
      obtain ⟨mid, hmid, hd2, hl2⟩ := hB new (checkShellsCollide_mem s3 new hnew)
      obtain ⟨old, hold, hd1, hl1⟩ := hA mid (checkShellsCollide_mem s1 mid hmid)
      refine ⟨old, hold, hd2.trans hd1, ?_⟩
      have hnx : ∀ x y d, nextLocation (checkShellsCollide s1) x y d false =
          nextLocation s x y d false := fun x y d =>
        nextLocation_congr _ _ (hw2.trans hw1) (hh2.trans hh1) x y d false
      rw [hnx, hd1] at hl2
      rcases hl2 with hl2 | hl2
      · rcases hl1 with hl1 | hl1
        · exact Or.inl (hl2.trans hl1)
        · exact Or.inr (Or.inl (hl2.trans hl1))
      · rcases hl1 with hl1 | hl1
        · right; left
          rw [hl2, hl1]
        · right; right
          rw [hl2, hl1]

theorem aheadBy_congr (s s0 : GM) (hw : s.width_ = s0.width_) (hh : s.height_ = s0.height_)
    (d : Direction) : ∀ (k : Nat) (p : Int × Int), aheadBy s d k p = aheadBy s0 d k p
  | 0, _ => rfl
  | k + 1, p => by
    rw [aheadBy, aheadBy, aheadBy_congr s s0 hw hh d k p]
    exact nextLocation_congr s s0 hw hh _ _ _ _

/-- One iteration of the loop of `moveShells`, whatever it does to the iterator: every
shell of the list afterwards is a shell of the list of `s0`, with its direction, a number
of cells ahead of where it was, if this holds before. -/
theorem moveShellsStep_ahead (s0 s : GM) (it : Nat)
    (hw : s.width_ = s0.width_) (hh : s.height_ = s0.height_)
    (hall : ∀ sh ∈ s.shells_, ∃ old ∈ s0.shells_, ∃ k : Nat,
      sh.direction_ = old.direction_ ∧
        sh.location_ = aheadBy s0 old.direction_ k old.location_) :
    ∀ sh ∈ (moveShellsStep s it).1.shells_, ∃ old ∈ s0.shells_, ∃ k : Nat,
      sh.direction_ = old.direction_ ∧
        sh.location_ = aheadBy s0 old.direction_ k old.location_ := by
  intro sh hsh
  obtain ⟨i, hi⟩ := List.getElem?_of_mem hsh
  rcases moveShellsStep_shape s it with hE | ⟨g, hg, hdir, _, hloc⟩
  · obtain ⟨j, _, hj, _⟩ := hE i sh hi
    exact hall sh (List.getElem?_mem hj)
  · rw [hg, List.getElem?_modify] at hi
    cases ha : s.shells_[i]? with
    | none =>
      rw [ha] at hi
      exact absurd hi (by simp)
    | some a =>
      rw [ha] at hi
      have hsh2 : sh = if it = i then g a else a := by
        simpa using hi.symm
      obtain ⟨old, hold, k, hd, hl⟩ := hall a (List.getElem?_mem ha)
      by_cases hit : it = i
      · rw [if_pos hit] at hsh2
        have hat : shellAt s it = a := by
          unfold shellAt
          rw [List.getD_eq_getElem?_getD, hit, ha]
          rfl
        rcases hloc with hk | ⟨hm, _⟩
        · exact ⟨old, hold, k, by rw [hsh2, hdir, hd], by rw [hsh2, hk, hl]⟩
        · refine ⟨old, hold, k + 1, by rw [hsh2, hdir, hd], ?_⟩
          rw [hsh2, hm, hat, hl, hd, aheadBy]
          exact nextLocation_congr s s0 hw hh _ _ _ _
      · rw [if_neg hit] at hsh2
        rw [hsh2]
        exact ⟨old, hold, k, hd, hl⟩

/-- The loop of `moveShells`, whatever it does to the iterator: every shell of the list
afterwards is a shell of the list of `s0`, with its direction, a number of cells ahead of
where it was, if this holds before. -/
theorem moveShellsLoop_ahead (s0 : GM) : ∀ (fuel : Nat) (s : GM) (it : Nat) (s1 : GM),
    s.width_ = s0.width_ → s.height_ = s0.height_ →
    (∀ sh ∈ s.shells_, ∃ old ∈ s0.shells_, ∃ k : Nat, sh.direction_ = old.direction_ ∧
      sh.location_ = aheadBy s0 old.direction_ k old.location_) →
    moveShellsLoop fuel s it = some s1 →
    s1.width_ = s0.width_ ∧ s1.height_ = s0.height_ ∧
    ∀ sh ∈ s1.shells_, ∃ old ∈ s0.shells_, ∃ k : Nat, sh.direction_ = old.direction_ ∧
      sh.location_ = aheadBy s0 old.direction_ k old.location_
  | 0, _, _, _, _, _, _, h => by simp [moveShellsLoop] at h
  | fuel + 1, s, it, s1, hw, hh, hall, h => by
    rw [moveShellsLoop_succ] at h
    have hcfg := cfg_moveShellsStep s it
    have hw1 : (moveShellsStep s it).1.width_ = s.width_ := congrArg (fun c => c.2.2.1) hcfg
    have hh1 : (moveShellsStep s it).1.height_ = s.height_ :=
      congrArg (fun c => c.2.2.2.1) hcfg
    have hstep := moveShellsStep_ahead s0 s it hw hh hall
    by_cases hlen : s.shells_.length ≤ it
    · rw [if_pos hlen] at h
      cases h
      exact ⟨hw, hh, hall⟩
    · rw [if_neg hlen] at h
      by_cases hfl : (moveShellsStep s it).2.2 = true
      · rw [if_pos hfl] at h
        cases h
        exact ⟨hw1.trans hw, hh1.trans hh, hstep⟩
      · rw [if_neg hfl] at h
        exact moveShellsLoop_ahead s0 fuel _ _ s1 (hw1.trans hw) (hh1.trans hh) hstep h

/-- Every substep: every shell of the list after it is a shell of the list before it, with
its direction, a number of cells ahead of where it was. -/
theorem substep_ahead (fuel : Nat) (s s1 : GM) (h : moveShells fuel s = some s1) :
    s1.width_ = s.width_ ∧ s1.height_ = s.height_ ∧
    ∀ new ∈ s1.shells_, ∃ old ∈ s.shells_, ∃ k : Nat, new.direction_ = old.direction_ ∧
      new.location_ = aheadBy s old.direction_ k old.location_ :=
  moveShellsLoop_ahead s fuel s 0 s1 rfl rfl (fun sh hsh => ⟨sh, hsh, 0, rfl, rfl⟩) h

/-- Every shell phase: every shell of the list after it is a shell of the list before it,
with its direction, a number of cells ahead of where it was. -/
theorem phase_ahead (fuel : Nat) (s s2 : GM) (h : shellPhase fuel s = some s2) :
    ∀ new ∈ s2.shells_, ∃ old ∈ s.shells_, ∃ k : Nat, new.direction_ = old.direction_ ∧
      new.location_ = aheadBy s old.direction_ k old.location_ := by
  unfold shellPhase at h
  cases h1 : moveShells fuel s with
  | none =>
    rw [h1] at h
    exact absurd h (by simp)
  | some s1 =>
    rw [h1] at h
    simp only [] at h
    cases h2 : moveShells fuel (checkShellsCollide s1) with
    | none =>
      rw [h2] at h
      exact absurd h (by simp)
    | some s3 =>
      rw [h2] at h
      simp only [Option.some.injEq] at h
      obtain ⟨hw1, hh1, hA⟩ := substep_ahead fuel s s1 h1
      have hcfg := cfg_checkShellsCollide s1
      have hw2 : (checkShellsCollide s1).width_ = s1.width_ :=
        congrArg (fun c => c.2.2.1) hcfg
      have hh2 : (checkShellsCollide s1).height_ = s1.height_ :=
        congrArg (fun c => c.2.2.2.1) hcfg
      obtain ⟨_, _, hB⟩ := moveShellsLoop_ahead s fuel (checkShellsCollide s1) 0 s3
        (hw2.trans hw1) (hh2.trans hh1)
        (fun sh hsh => hA sh (checkShellsCollide_mem s1 sh hsh)) h2
      intro new hnew
      rw [← h] at hnew
      exact hB new (checkShellsCollide_mem s3 new hnew)

/-! ## How far a shell travels in a substep and in a turn -/

/-- In turn 1 of the game on `resetMap` the three tanks shoot: the shells of tank 0 and of
tank 2 travel towards each other with one blank cell between them, and the shell of tank 1
stands between the two in the list.  In the first substep the third shell meets the first
one, both are erased and the iterator is set back from 2 to 0, so that the shell of tank 1
is moved a second time: it goes from `(2, 3)` to `(2, 0)` in the first substep and is at
`(2, 1)` after the shell phase, three cells from where it was. -/
theorem shell_advances_twice_after_iterator_reset :
    resetSubstep.map (fun s => s.shells_) =
      some [{ location_ := (6, 2), direction_ := Direction.L, aboveMine_ := false },
        { location_ := (2, 3), direction_ := Direction.D, aboveMine_ := false },
        { location_ := (4, 2), direction_ := Direction.R, aboveMine_ := false }] ∧
    resetSubstep.map
        (fun s => (moveShellsStep (moveShellsStep (moveShellsStep s 0).1 1).1 2).2.1) =
      some 0 ∧
    (resetSubstep.bind (moveShells 20)).map (fun s => s.shells_) =
      some [{ location_ := (2, 0), direction_ := Direction.D, aboveMine_ := false }] ∧
    (resetSubstep.bind (shellPhase 20)).map (fun s => s.shells_) =
      some [{ location_ := (2, 1), direction_ := Direction.D, aboveMine_ := false }] ∧
    resetSubstep.map (fun s => steadyLoop 20 s 0) = some false := by
  decide!

/-- C28 (amended).  One iteration of the loop of `moveShells` for the shell at iterator
`it`, when `handleShellSpawnOnTank` returns false and the cell ahead of the shell across
the torus is `(nx, ny)`: on a blank, on a mine, and on a shell mark whose first shell does
not travel in the opposite direction, the shell is placed on `(nx, ny)`, one cell ahead,
with its direction kept; on a character other than blank, mine, shell mark, wall, weakened
wall and tank digit (that is `^`, `a`, `b`, `c`, `d`) the shell keeps its position and its
direction; on a wall or a weakened wall the shell is erased, and on a shell mark whose
first shell travels in the opposite direction both shells are erased; the other shells of
the list are left as they are.  The iterator of the loop moves back only when the shell at
the iterator is erased together with an opposite shell that stands before it in the list,
and it is then set to the position of that shell: back by one position when the two stand
one after the other, back by more when other shells stand between them.  In a substep in
which the iterator never moves back by more than one position, every shell of the list
after the substep is a shell of the list before it, with its direction, on its cell or on
the cell ahead of it; and in a shell phase with two such substeps, every shell of the list
after the phase is a shell of the list before it, at most two cells ahead of where it
was.  In every substep and in every shell phase, every shell of the list afterwards is a
shell of the list before, with its direction, on its cell or some number of cells ahead of
it.  From a state that satisfies the invariant of the engine, the substep and the shell
phase return when the fuel is enough. -/
theorem shell_step_advances_or_waits (s : GM) :
    (∀ (it : Nat) (nx ny : Int), (handleShellSpawnOnTank s it).2.2 = false →
      nextLocation s (shellAt s it).location_.1 (shellAt s it).location_.2
        (shellAt s it).direction_ false = (nx, ny) →
      (cellAt s.gameboard_ nx ny = ' ' →
        (moveShellsStep s it).1.shells_ = s.shells_.modify
          (fun sh => { location_ := (nx, ny), direction_ := sh.direction_,
                       aboveMine_ := false }) it) ∧
      (cellAt s.gameboard_ nx ny = '@' →
        (moveShellsStep s it).1.shells_ = s.shells_.modify
          (fun sh => { location_ := (nx, ny), direction_ := sh.direction_,
                       aboveMine_ := true }) it) ∧
      (cellAt s.gameboard_ nx ny = '*' → ∀ other, getShellAt s nx ny = some other →
        ((shellAt s it).direction_.toNat ≠ ((shellAt s other).direction_.toNat + 4) % 8 →
          (moveShellsStep s it).1.shells_ = s.shells_.modify
            (fun sh => { location_ := (nx, ny), direction_ := sh.direction_,
                         aboveMine_ := false }) it) ∧
        ((shellAt s it).direction_.toNat = ((shellAt s other).direction_.toNat + 4) % 8 →
          (moveShellsStep s it).1.shells_ =
            (s.shells_.eraseIdx (max it other)).eraseIdx (min it other))) ∧
      (cellAt s.gameboard_ nx ny = '#' ∨ cellAt s.gameboard_ nx ny = '$' →
        (moveShellsStep s it).1.shells_ = s.shells_.eraseIdx it) ∧
      (cellAt s.gameboard_ nx ny ≠ ' ' ∧ cellAt s.gameboard_ nx ny ≠ '@' ∧
          cellAt s.gameboard_ nx ny ≠ '*' ∧ cellAt s.gameboard_ nx ny ≠ '#' ∧
          cellAt s.gameboard_ nx ny ≠ '$' ∧ cellAt s.gameboard_ nx ny ≠ '1' ∧
          cellAt s.gameboard_ nx ny ≠ '2' →
        (moveShellsStep s it).1.shells_ = s.shells_.modify
          (fun sh => { location_ := sh.location_, direction_ := sh.direction_,
                       aboveMine_ := false }) it)) ∧
    (∀ it : Nat, (moveShellsStep s it).2.1 < it →
      (handleShellSpawnOnTank s it).2.2 = false ∧
      ∃ other, other < it ∧ (moveShellsStep s it).2.1 = other ∧
        cellAt s.gameboard_
          (nextLocation s (shellAt s it).location_.1 (shellAt s it).location_.2
            (shellAt s it).direction_ false).1
          (nextLocation s (shellAt s it).location_.1 (shellAt s it).location_.2
            (shellAt s it).direction_ false).2 = '*' ∧
        getShellAt (clearPreviousShellPosition s it)
          (nextLocation s (shellAt s it).location_.1 (shellAt s it).location_.2
            (shellAt s it).direction_ false).1
          (nextLocation s (shellAt s it).location_.1 (shellAt s it).location_.2
            (shellAt s it).direction_ false).2 = some other ∧
        (shellAt s it).direction_.toNat =
          ((shellAt (clearPreviousShellPosition s it) other).direction_.toNat + 4) % 8) ∧
    (∀ (fuel : Nat) (s1 : GM), steadyLoop fuel s 0 = true → moveShells fuel s = some s1 →
      ∀ new ∈ s1.shells_, ∃ old ∈ s.shells_, new.direction_ = old.direction_ ∧
        (new.location_ = old.location_ ∨
          new.location_ =
            nextLocation s old.location_.1 old.location_.2 old.direction_ false)) ∧
    (∀ (fuel : Nat) (s2 : GM), steadyPhase fuel s = true → shellPhase fuel s = some s2 →
      ∀ new ∈ s2.shells_, ∃ old ∈ s.shells_, new.direction_ = old.direction_ ∧
        (new.location_ = old.location_ ∨
          new.location_ =
            nextLocation s old.location_.1 old.location_.2 old.direction_ false ∨
          new.location_ = nextLocation s
            (nextLocation s old.location_.1 old.location_.2 old.direction_ false).1
            (nextLocation s old.location_.1 old.location_.2 old.direction_ false).2
            old.direction_ false)) ∧
    (∀ (fuel : Nat) (s1 : GM), moveShells fuel s = some s1 →
      ∀ new ∈ s1.shells_, ∃ old ∈ s.shells_, ∃ k : Nat, new.direction_ = old.direction_ ∧
        new.location_ = aheadBy s old.direction_ k old.location_) ∧
    (∀ (fuel : Nat) (s2 : GM), shellPhase fuel s = some s2 →
      ∀ new ∈ s2.shells_, ∃ old ∈ s.shells_, ∃ k : Nat, new.direction_ = old.direction_ ∧
        new.location_ = aheadBy s old.direction_ k old.location_) ∧
    (Inv s → ∃ F s1 s2, ∀ fuel, F ≤ fuel →
      moveShells fuel s = some s1 ∧ shellPhase fuel s = some s2) :=
  ⟨fun it nx ny hsp hn => moveShellsStep_advances_or_waits s it nx ny hsp hn,
    fun it h => iterator_back_only_on_collision s it h,
    fun fuel s1 hst h => (steady_substep_one_cell fuel s s1 hst h).2.2,
    fun fuel s2 hst h => steady_phase_two_cells fuel s s2 hst h,
    fun fuel s1 h => (substep_ahead fuel s s1 h).2.2,
    fun fuel s2 h => phase_ahead fuel s s2 h,
    fun hI => by
      obtain ⟨s1, h1, _⟩ := moveShells_total hI
      obtain ⟨F, s2, h2, _⟩ := shellPhase_total hI
      exact ⟨(s.shells_.length + 1) ^ 2 + 1 + F, s1, s2, fun fuel hf =>
        ⟨h1 fuel (by omega), h2 fuel (by omega)⟩⟩⟩

/-- C28 witness.  In `jamStateSwapped`, after the iteration for the first shell, the cell
`(1, 1)` ahead of the second shell shows `^`: the iteration for the second shell leaves it
at `(0, 1)`.  The iterator never moves back by more than one position in the shell phase
played from `jamStateSwapped`, both substeps return, and the shells that are left are
shells of the list at most two cells ahead of where they were.  The same holds of the
shell phase of turn 0 of the game on `meetMap`, in which two shells that stand one after
the other in the list meet on the blank cell between them. -/
theorem shell_step_advances_or_waits_witness :
    ((handleShellSpawnOnTank (moveShellsStep jamStateSwapped 0).1 1).2.2 = false ∧
      nextLocation (moveShellsStep jamStateSwapped 0).1
        (shellAt (moveShellsStep jamStateSwapped 0).1 1).location_.1
        (shellAt (moveShellsStep jamStateSwapped 0).1 1).location_.2
        (shellAt (moveShellsStep jamStateSwapped 0).1 1).direction_ false = (1, 1) ∧
      cellAt (moveShellsStep jamStateSwapped 0).1.gameboard_ 1 1 = '^') ∧
    (moveShellsStep (moveShellsStep jamStateSwapped 0).1 1).1.shells_ =
      (moveShellsStep jamStateSwapped 0).1.shells_.modify
        (fun sh => { location_ := sh.location_, direction_ := sh.direction_,
                     aboveMine_ := false }) 1 ∧
    (steadyLoop 20 jamStateSwapped 0 = true ∧ steadyPhase 20 jamStateSwapped = true ∧
      steadyPhase 20 meetSubstep = true ∧
      (shellPhase 20 meetSubstep).map (fun s => s.shells_) =
        some [{ location_ := (3, 0), direction_ := Direction.R, aboveMine_ := false }] ∧
      (moveShells 20 jamStateSwapped).map (fun s => s.shells_) =
        some [{ location_ := (1, 1), direction_ := Direction.D, aboveMine_ := false },
          { location_ := (0, 1), direction_ := Direction.R, aboveMine_ := false },
          { location_ := (0, 1), direction_ := Direction.L, aboveMine_ := false }] ∧
      (shellPhase 20 jamStateSwapped).map (fun s => s.shells_) =
        some [{ location_ := (1, 2), direction_ := Direction.D, aboveMine_ := false }]) ∧
    (∀ s1, moveShells 20 jamStateSwapped = some s1 →
      ∀ new ∈ s1.shells_, ∃ old ∈ jamStateSwapped.shells_,
        new.direction_ = old.direction_ ∧
        (new.location_ = old.location_ ∨
          new.location_ = nextLocation jamStateSwapped old.location_.1 old.location_.2
            old.direction_ false)) ∧
    (∀ s2, shellPhase 20 jamStateSwapped = some s2 →
      ∀ new ∈ s2.shells_, ∃ old ∈ jamStateSwapped.shells_,
        new.direction_ = old.direction_ ∧
        (new.location_ = old.location_ ∨
          new.location_ = nextLocation jamStateSwapped old.location_.1 old.location_.2
            old.direction_ false ∨
          new.location_ = nextLocation jamStateSwapped
            (nextLocation jamStateSwapped old.location_.1 old.location_.2
              old.direction_ false).1
            (nextLocation jamStateSwapped old.location_.1 old.location_.2
              old.direction_ false).2 old.direction_ false)) :=
  ⟨⟨by decide!, by decide!, by decide!⟩,
    ((shell_step_advances_or_waits (moveShellsStep jamStateSwapped 0).1).1 1 1 1
      (by decide!) (by decide!)).2.2.2.2 (by decide!),
    ⟨by decide!, by decide!, by decide!, by decide!, by decide!, by decide!⟩,
    fun s1 h => (shell_step_advances_or_waits jamStateSwapped).2.2.1 20 s1 (by decide!) h,
    fun s2 h => (shell_step_advances_or_waits jamStateSwapped).2.2.2.1 20 s2 (by decide!) h⟩

/-! ## Iterations of `moveShells` that do not look at given cells -/

theorem firstIdx_map_of {α : Type} (p : α → Bool) (f : α → α) :
    ∀ l : List α, (∀ a ∈ l, p (f a) = p a) → firstIdx p (l.map f) = firstIdx p l
  | [], _ => rfl
  | a :: l, h => by
    simp only [List.map_cons, firstIdx]
    rw [h a (List.mem_cons_self _ _),
      firstIdx_map_of p f l (fun b hb => h b (List.mem_cons_of_mem _ hb))]

theorem map_eraseIdx_comm {α : Type} (f : α → α) :
    ∀ (l : List α) (k : Nat), (l.map f).eraseIdx k = (l.eraseIdx k).map f
  | [], _ => by simp
  | _ :: _, 0 => rfl
  | a :: l, k + 1 => by
    simp only [List.map_cons, List.eraseIdx_cons_succ]
    rw [map_eraseIdx_comm f l k]

theorem map_modify_comm {α : Type} (f g : α → α) (d : α) :
    ∀ (l : List α) (k : Nat), f (l.getD k d) = l.getD k d →
      f (g (l.getD k d)) = g (l.getD k d) → k < l.length →
      (l.map f).modify g k = (l.modify g k).map f
  | [], _, _, _, h => absurd h (Nat.not_lt_zero _)
  | a :: l, 0, h1, h2, _ => by
    simp only [List.getD_cons_zero] at h1 h2
    simp only [List.map_cons, List.modify_zero_cons, h1, h2]
  | a :: l, k + 1, h1, h2, h3 => by
    simp only [List.getD_cons_succ] at h1 h2
    simp only [List.map_cons, List.modify_succ_cons]
    rw [map_modify_comm f g d l k h1 h2 (Nat.lt_of_succ_lt_succ h3)]

theorem getD_map_of_lt {α : Type} (f : α → α) (d : α) (l : List α) (k : Nat)
    (h : k < l.length) : (l.map f).getD k d = f (l.getD k d) := by
  rw [List.getD_eq_getElem _ _ (by simpa using h), List.getD_eq_getElem _ _ h]
  simp

theorem replaceShell_fixes (X X2 Y Y2 : Shell) (cells : List (Int × Int))
    (hX : X.location_ ∈ cells) (hY : Y.location_ ∈ cells) :
    ∀ sh : Shell, sh.location_ ∉ cells → replaceShell X X2 Y Y2 sh = sh := by
  intro sh h
  unfold replaceShell
  rw [if_neg (fun e => h (by rw [e]; exact hX)), if_neg (fun e => h (by rw [e]; exact hY))]

theorem replaceShell_stays (X X2 Y Y2 : Shell) (cells : List (Int × Int))
    (hX2 : X2.location_ ∈ cells) (hY2 : Y2.location_ ∈ cells) :
    ∀ sh : Shell, sh.location_ ∈ cells → (replaceShell X X2 Y Y2 sh).location_ ∈ cells := by
  intro sh h
  unfold replaceShell
  split_ifs
  · exact hX2
  · exact hY2
  · exact h

theorem shellAt_related (f : Shell → Shell) (pb : Board → Board) (cells : List (Int × Int))
    (hf : ∀ sh : Shell, sh.location_ ∉ cells → f sh = sh)
    (s : GM) (it : Nat) (hit : it < s.shells_.length)
    (h : (shellAt s it).location_ ∉ cells) :
    shellAt (relatedBy f pb s) it = shellAt s it := by
  have : shellAt (relatedBy f pb s) it = f (shellAt s it) := getD_map_of_lt _ _ _ _ hit
  rw [this, hf _ h]

theorem getShellAt_related (f : Shell → Shell) (pb : Board → Board)
    (cells : List (Int × Int))
    (hf : ∀ sh : Shell, sh.location_ ∉ cells → f sh = sh)
    (hf2 : ∀ sh : Shell, sh.location_ ∈ cells → (f sh).location_ ∈ cells)
    (s : GM) (x y : Int) (h : (x, y) ∉ cells) :
    getShellAt (relatedBy f pb s) x y = getShellAt s x y := by
  refine firstIdx_map_of _ _ _ (fun a _ => ?_)
  by_cases ha : a.location_ ∈ cells
  · have h1 : (f a).location_ ≠ (x, y) := fun e => h (e ▸ hf2 a ha)
    have h2 : a.location_ ≠ (x, y) := fun e => h (e ▸ ha)
    rw [decide_eq_false h1, decide_eq_false h2]
  · rw [hf a ha]

theorem deleteShell_related (f : Shell → Shell) (pb : Board → Board) (s : GM) (k : Nat) :
    deleteShell (relatedBy f pb s) k = relatedBy f pb (deleteShell s k) := by
  unfold deleteShell relatedBy
  simp only [map_eraseIdx_comm]

theorem modifyShell_related (f : Shell → Shell) (pb : Board → Board)
    (cells : List (Int × Int))
    (hf : ∀ sh : Shell, sh.location_ ∉ cells → f sh = sh)
    (s : GM) (it : Nat) (g : Shell → Shell) (hit : it < s.shells_.length)
    (h1 : (shellAt s it).location_ ∉ cells) (h2 : (g (shellAt s it)).location_ ∉ cells) :
    modifyShell (relatedBy f pb s) it g = relatedBy f pb (modifyShell s it g) := by
  unfold modifyShell relatedBy
  simp only []
  rw [map_modify_comm f g default s.shells_ it (hf _ h1) (hf _ h2) hit]

theorem setBoard_related (f : Shell → Shell) (pb : Board → Board) (cells : List (Int × Int))
    (hb : ∀ (b : Board) (x y : Int) (c : Char), (x, y) ∉ cells →
      pb (setCell b x y c) = setCell (pb b) x y c)
    (s : GM) (x y : Int) (c : Char) (h : (x, y) ∉ cells) :
    setBoard (relatedBy f pb s) x y c = relatedBy f pb (setBoard s x y c) := by
  unfold setBoard relatedBy
  simp only []
  rw [hb _ _ _ _ h]

theorem shellAt_modifyShell_self (s : GM) (it : Nat) (g : Shell → Shell)
    (hit : it < s.shells_.length) : shellAt (modifyShell s it g) it = g (shellAt s it) := by
  unfold shellAt modifyShell
  simp only [List.getD_eq_getElem?_getD, List.getElem?_modify]
  rw [List.getElem?_eq_getElem hit]
  simp

theorem isEmpty_related (f : Shell → Shell) (pb : Board → Board) (s : GM) :
    (relatedBy f pb s).shells_.isEmpty = s.shells_.isEmpty := by
  unfold relatedBy
  cases s.shells_ <;> rfl

theorem handleShellSpawnOnTank_related (f : Shell → Shell) (pb : Board → Board)
    (cells : List (Int × Int))
    (hf : ∀ sh : Shell, sh.location_ ∉ cells → f sh = sh)
    (hb : ∀ (b : Board) (x y : Int) (c : Char), (x, y) ∉ cells →
      pb (setCell b x y c) = setCell (pb b) x y c)
    (hc : ∀ (b : Board) (x y : Int), (x, y) ∉ cells → cellAt (pb b) x y = cellAt b x y)
    (s : GM) (it : Nat) (hit : it < s.shells_.length)
    (h1 : (shellAt s it).location_ ∉ cells) :
    handleShellSpawnOnTank (relatedBy f pb s) it =
      (relatedBy f pb (handleShellSpawnOnTank s it).1, (handleShellSpawnOnTank s it).2.1,
        (handleShellSpawnOnTank s it).2.2) := by
  have hC := shellAt_related f pb cells hf s it hit h1
  unfold handleShellSpawnOnTank
  simp only [hC]
  have hcell : cellAt (relatedBy f pb s).gameboard_ (shellAt s it).location_.1
      (shellAt s it).location_.2 =
      cellAt s.gameboard_ (shellAt s it).location_.1 (shellAt s it).location_.2 :=
    hc _ _ _ h1
  have ht : getTankIndexAt (relatedBy f pb s) (shellAt s it).location_.1
      (shellAt s it).location_.2 =
      getTankIndexAt s (shellAt s it).location_.1 (shellAt s it).location_.2 := rfl
  rw [hcell, ht]
  split_ifs with hcd
  · cases getTankIndexAt s (shellAt s it).location_.1 (shellAt s it).location_.2 with
    | none => rfl
    | some k =>
      simp only []
      have e0 : destroyTank (relatedBy f pb s) k = relatedBy f pb (destroyTank s k) := rfl
      rw [e0, setBoard_related f pb cells hb _ _ _ _ h1, deleteShell_related]
  · rfl

theorem clearPreviousShellPosition_related (f : Shell → Shell) (pb : Board → Board)
    (cells : List (Int × Int))
    (hf : ∀ sh : Shell, sh.location_ ∉ cells → f sh = sh)
    (hb : ∀ (b : Board) (x y : Int) (c : Char), (x, y) ∉ cells →
      pb (setCell b x y c) = setCell (pb b) x y c)
    (hc : ∀ (b : Board) (x y : Int), (x, y) ∉ cells → cellAt (pb b) x y = cellAt b x y)
    (s : GM) (it : Nat) (hit : it < s.shells_.length)
    (h1 : (shellAt s it).location_ ∉ cells) :
    clearPreviousShellPosition (relatedBy f pb s) it =
      relatedBy f pb (clearPreviousShellPosition s it) := by
  have hC := shellAt_related f pb cells hf s it hit h1
  unfold clearPreviousShellPosition
  simp only [hC]
  have hcell : cellAt (relatedBy f pb s).gameboard_ (shellAt s it).location_.1
      (shellAt s it).location_.2 =
      cellAt s.gameboard_ (shellAt s it).location_.1 (shellAt s it).location_.2 :=
    hc _ _ _ h1
  rw [hcell]
  split_ifs
  · rw [setBoard_related f pb cells hb _ _ _ _ h1]
    exact modifyShell_related f pb cells hf
      (setBoard s (shellAt s it).location_.1 (shellAt s it).location_.2 '@') it _ hit h1 h1
  all_goals first
    | rfl
    | exact setBoard_related f pb cells hb _ _ _ _ h1

theorem clearPreviousShellPosition_at (s : GM) (it : Nat) (hit : it < s.shells_.length) :
    (clearPreviousShellPosition s it).shells_.length = s.shells_.length ∧
    (shellAt (clearPreviousShellPosition s it) it).location_ = (shellAt s it).location_ := by
  have h := clearPreviousShellPosition_shells s it
  constructor
  · rw [h, List.length_modify]
  · unfold shellAt
    rw [h]
    simp only [List.getD_eq_getElem?_getD, List.getElem?_modify]
    rw [List.getElem?_eq_getElem hit]
    simp

theorem handleShellCollision_related (f : Shell → Shell) (pb : Board → Board)
    (cells : List (Int × Int))
    (hf : ∀ sh : Shell, sh.location_ ∉ cells → f sh = sh)
    (hf2 : ∀ sh : Shell, sh.location_ ∈ cells → (f sh).location_ ∈ cells)
    (hb : ∀ (b : Board) (x y : Int) (c : Char), (x, y) ∉ cells →
      pb (setCell b x y c) = setCell (pb b) x y c)
    (s : GM) (it : Nat) (x y : Int) (dir : Direction) (hit : it < s.shells_.length)
    (h1 : (shellAt s it).location_ ∉ cells) (h3 : (x, y) ∉ cells) :
    handleShellCollision (relatedBy f pb s) it x y dir =
      (relatedBy f pb (handleShellCollision s it x y dir).1,
        (handleShellCollision s it x y dir).2.1, (handleShellCollision s it x y dir).2.2) := by
  unfold handleShellCollision
  rw [getShellAt_related f pb cells hf hf2 s x y h3]
  cases ho : getShellAt s x y with
  | none => rfl
  | some other =>
    obtain ⟨hlen, hloc⟩ := getShellAt_some s x y other ho
    have hO : shellAt (relatedBy f pb s) other = shellAt s other :=
      shellAt_related f pb cells hf s other hlen (by rw [hloc]; exact h3)
    simp only [hO]
    split_ifs with hd hlt
    · have e : deleteShell (deleteShell (setBoard (relatedBy f pb s) x y ' ') other) it =
          relatedBy f pb (deleteShell (deleteShell (setBoard s x y ' ') other) it) := by
        rw [setBoard_related f pb cells hb _ _ _ _ h3, deleteShell_related,
          deleteShell_related]
      simp only [e, isEmpty_related]
    · have e : deleteShell (deleteShell (setBoard (relatedBy f pb s) x y ' ') it) other =
          relatedBy f pb (deleteShell (deleteShell (setBoard s x y ' ') it) other) := by
        rw [setBoard_related f pb cells hb _ _ _ _ h3, deleteShell_related,
          deleteShell_related]
      simp only [e, isEmpty_related]
    · have e := modifyShell_related f pb cells hf s it
        (fun sh => { sh with location_ := (x, y) }) hit h1 h3
      simp only []
      rw [e, setBoard_related f pb cells hb _ _ _ _ h3]

theorem handleShellMoveToNextCell_related (f : Shell → Shell) (pb : Board → Board)
    (cells : List (Int × Int))
    (hf : ∀ sh : Shell, sh.location_ ∉ cells → f sh = sh)
    (hb : ∀ (b : Board) (x y : Int) (c : Char), (x, y) ∉ cells →
      pb (setCell b x y c) = setCell (pb b) x y c)
    (s : GM) (it : Nat) (x y : Int) (c : Char) (hit : it < s.shells_.length)
    (h1 : (shellAt s it).location_ ∉ cells) (h3 : (x, y) ∉ cells) :
    handleShellMoveToNextCell (relatedBy f pb s) it x y c =
      (relatedBy f pb (handleShellMoveToNextCell s it x y c).1,
        (handleShellMoveToNextCell s it x y c).2) := by
  have em := modifyShell_related f pb cells hf s it
    (fun sh => { sh with location_ := (x, y) }) hit h1 h3
  unfold handleShellMoveToNextCell
  split_ifs
  · rw [setBoard_related f pb cells hb _ _ _ _ h3, deleteShell_related]
  · rw [setBoard_related f pb cells hb _ _ _ _ h3, deleteShell_related]
  · have ht : getTankIndexAt (relatedBy f pb s) x y = getTankIndexAt s x y := rfl
    rw [ht]
    cases getTankIndexAt s x y with
    | none => rfl
    | some k =>
      simp only []
      have e0 : destroyTank (relatedBy f pb s) k = relatedBy f pb (destroyTank s k) := rfl
      rw [e0, setBoard_related f pb cells hb _ _ _ _ h3, deleteShell_related]
  · have hlen : it < (setBoard (modifyShell s it
        (fun sh => { sh with location_ := (x, y) })) x y '*').shells_.length := by
      show it < (s.shells_.modify _ it).length
      rw [List.length_modify]
      exact hit
    have hat : shellAt (setBoard (modifyShell s it
        (fun sh => { sh with location_ := (x, y) })) x y '*') it =
        { shellAt s it with location_ := (x, y) } :=
      shellAt_modifyShell_self s it _ hit
    have e2 := modifyShell_related f pb cells hf
      (setBoard (modifyShell s it (fun sh => { sh with location_ := (x, y) })) x y '*') it
      (fun sh => { sh with aboveMine_ := true }) hlen (by rw [hat]; exact h3)
      (by rw [hat]; exact h3)
    simp only []
    rw [em, setBoard_related f pb cells hb _ _ _ _ h3, e2]
  · simp only []
    rw [em, setBoard_related f pb cells hb _ _ _ _ h3]
  · rfl

/-- An iteration of the loop of `moveShells` for a shell that neither lies on one of the
cells `cells` nor has one of them ahead gives, on a state whose shells and board are
changed on these cells only, the same state changed in the same way, the same iterator and
the same return flag. -/
theorem moveShellsStep_related (f : Shell → Shell) (pb : Board → Board)
    (cells : List (Int × Int))
    (hf : ∀ sh : Shell, sh.location_ ∉ cells → f sh = sh)
    (hf2 : ∀ sh : Shell, sh.location_ ∈ cells → (f sh).location_ ∈ cells)
    (hb : ∀ (b : Board) (x y : Int) (c : Char), (x, y) ∉ cells →
      pb (setCell b x y c) = setCell (pb b) x y c)
    (hc : ∀ (b : Board) (x y : Int), (x, y) ∉ cells → cellAt (pb b) x y = cellAt b x y)
    (s : GM) (it : Nat) (hit : it < s.shells_.length)
    (h1 : (shellAt s it).location_ ∉ cells)
    (h3 : nextLocation s (shellAt s it).location_.1 (shellAt s it).location_.2
      (shellAt s it).direction_ false ∉ cells) :
    moveShellsStep (relatedBy f pb s) it =
      (relatedBy f pb (moveShellsStep s it).1, (moveShellsStep s it).2.1,
        (moveShellsStep s it).2.2) := by
  have hC := shellAt_related f pb cells hf s it hit h1
  have hn : ∀ x y d, nextLocation (relatedBy f pb s) x y d false =
      nextLocation s x y d false := fun _ _ _ => rfl
  obtain ⟨hlen1, hloc1⟩ := clearPreviousShellPosition_at s it hit
  unfold moveShellsStep
  simp only [hC, hn]
  rw [handleShellSpawnOnTank_related f pb cells hf hb hc s it hit h1,
    clearPreviousShellPosition_related f pb cells hf hb hc s it hit h1]
  simp only []
  generalize hnn : nextLocation s (shellAt s it).location_.1 (shellAt s it).location_.2
    (shellAt s it).direction_ false = n at h3 ⊢
  have h3p : (n.1, n.2) ∉ cells := h3
  have hcell : cellAt (relatedBy f pb s).gameboard_ n.1 n.2 = cellAt s.gameboard_ n.1 n.2 :=
    hc _ _ _ h3p
  rw [hcell]
  split_ifs with hsp hcs
  · rfl
  · exact handleShellCollision_related f pb cells hf hf2 hb _ it n.1 n.2 _
      (by rw [hlen1]; exact hit) (by rw [hloc1]; exact h1) h3p
  · rw [handleShellMoveToNextCell_related f pb cells hf hb _ it n.1 n.2 _
      (by rw [hlen1]; exact hit) (by rw [hloc1]; exact h1) h3p]

/-! ## The iterations of `moveShells` for two opposite shells -/

theorem getD_append_cons {α : Type} (d : α) (l1 : List α) (a : α) (l2 : List α) :
    (l1 ++ a :: l2).getD l1.length d = a := by
  rw [List.getD_eq_getElem?_getD, List.getElem?_append_right (le_refl _), Nat.sub_self]
  simp

theorem firstIdx_append_hit {α : Type} (p : α → Bool) :
    ∀ (l1 : List α) (b : α) (l2 : List α), (∀ a ∈ l1, p a = false) → p b = true →
      firstIdx p (l1 ++ b :: l2) = some l1.length
  | [], b, l2, _, hb => by simp [firstIdx, hb]
  | a :: l1, b, l2, h, hb => by
    have ha := h a (List.mem_cons_self _ _)
    show firstIdx p (a :: (l1 ++ b :: l2)) = some (l1.length + 1)
    rw [firstIdx, ha, if_neg (by decide),
      firstIdx_append_hit p l1 b l2 (fun c hc => h c (List.mem_cons_of_mem _ hc)) hb]
    rfl

theorem eraseIdx_append_cons {α : Type} :
    ∀ (l1 : List α) (a : α) (l2 : List α), (l1 ++ a :: l2).eraseIdx l1.length = l1 ++ l2
  | [], _, _ => rfl
  | b :: l1, a, l2 => by
    simp only [List.cons_append, List.length_cons, List.eraseIdx_cons_succ]
    rw [eraseIdx_append_cons l1 a l2]

theorem setCell_setCell_same (b : Board) (x y : Int) (c c1 : Char) :
    setCell (setCell b x y c) x y c1 = setCell b x y c1 := by
  unfold setCell
  by_cases h : 0 ≤ x ∧ 0 ≤ y
  · rw [if_pos h, if_pos h, if_pos h, List.modify_modify_eq]
    congr 1
    funext row
    simp only [Function.comp_apply, List.set_set]
  · rw [if_neg h, if_neg h, if_neg h]

theorem setCell_self (b : Board) (x y : Int) (c : Char) (h : cellAt b x y = c)
    (hc : c ≠ NUL) : setCell b x y c = b := by
  unfold setCell
  unfold cellAt at h
  by_cases h0 : 0 ≤ x ∧ 0 ≤ y
  · rw [if_pos h0] at h ⊢
    apply List.ext_getElem?
    intro i
    rw [List.getElem?_modify]
    by_cases hi : y.toNat = i
    · subst hi
      simp only [if_true]
      cases hb : b[y.toNat]? with
      | none => rfl
      | some row =>
        have hrow : row.getD x.toNat NUL = c := by
          simpa [List.getD_eq_getElem?_getD, hb] using h
        show some (row.set x.toNat c) = some row
        congr 1
        apply List.ext_getElem?
        intro k
        rw [List.getElem?_set]
        by_cases hk : x.toNat = k
        · subst hk
          rw [if_pos rfl]
          rw [List.getD_eq_getElem?_getD] at hrow
          cases hr : row[x.toNat]? with
          | none =>
            rw [hr] at hrow
            exact absurd hrow.symm hc
          | some c1 =>
            rw [hr] at hrow
            have hlt : x.toNat < row.length := by
              rcases Nat.lt_or_ge x.toNat row.length with h1 | h1
              · exact h1
              · rw [List.getElem?_eq_none h1] at hr
                exact absurd hr (by simp)
            rw [if_pos hlt]
            exact congrArg some hrow.symm
        · rw [if_neg hk]
    · simp only [hi, if_false]
      cases b[i]? <;> rfl
  · rw [if_neg h0]

theorem map_replaceShell_fixed (X X2 Y Y2 : Shell) :
    ∀ l : List Shell, (∀ sh ∈ l, sh ≠ X ∧ sh ≠ Y) → l.map (replaceShell X X2 Y Y2) = l
  | [], _ => rfl
  | a :: l, h => by
    have ha := h a (List.mem_cons_self _ _)
    rw [List.map_cons, map_replaceShell_fixed X X2 Y Y2 l
      (fun sh hsh => h sh (List.mem_cons_of_mem _ hsh))]
    unfold replaceShell
    rw [if_neg ha.1, if_neg ha.2]

/-- The replacement of `X` and `Y` in a list in which no other shell equals them. -/
theorem replace_list (X X2 Y Y2 : Shell) (pre mid post : List Shell) (hXY : X ≠ Y)
    (hfree : ∀ sh ∈ pre ++ mid ++ post, sh ≠ X ∧ sh ≠ Y) :
    (pre ++ X :: mid ++ Y :: post).map (replaceShell X X2 Y Y2) =
      pre ++ X2 :: mid ++ Y2 :: post := by
  have hX : replaceShell X X2 Y Y2 X = X2 := by
    unfold replaceShell
    rw [if_pos rfl]
  have hY : replaceShell X X2 Y Y2 Y = Y2 := by
    unfold replaceShell
    rw [if_neg (Ne.symm hXY), if_pos rfl]
  simp only [List.map_append, List.map_cons, hX, hY]
  rw [map_replaceShell_fixed X X2 Y Y2 pre (fun sh h => hfree sh (by simp [h])),
    map_replaceShell_fixed X X2 Y Y2 mid (fun sh h => hfree sh (by simp [h])),
    map_replaceShell_fixed X X2 Y Y2 post (fun sh h => hfree sh (by simp [h]))]

/-- The exchange of `A` and `B` in a list in which no other shell lies on their cells. -/
theorem exchange_list (A B : Shell) (pre mid post : List Shell)
    (hAB : A.location_ ≠ B.location_)
    (hfree : ∀ sh ∈ pre ++ mid ++ post,
      sh.location_ ≠ A.location_ ∧ sh.location_ ≠ B.location_) :
    (pre ++ A :: mid ++ B :: post).map (exchangeShell A B) = pre ++ B :: mid ++ A :: post :=
  replace_list A B B A pre mid post (fun h => hAB (by rw [h]))
    (fun sh h => ⟨fun e => (hfree sh h).1 (by rw [e]), fun e => (hfree sh h).2 (by rw [e])⟩)

/-- The iteration of the loop of `moveShells` for a shell `X` that has the shell `Y`, which
stands later in the list, on the cell ahead, when the two travel in opposite directions,
both cells show a shell mark, `X` is not above a mine and no shell before `Y` in the list
lies on the cell of `Y`: both shells are erased, both cells are blanked and the iterator
stays. -/
theorem pair_adjacent_step (s : GM) (X Y : Shell) (pre mid post : List Shell)
    (hs : s.shells_ = pre ++ X :: mid ++ Y :: post)
    (hXY : X.location_ ≠ Y.location_)
    (hfree : ∀ sh ∈ pre ++ mid, sh.location_ ≠ Y.location_)
    (hn : nextLocation s X.location_.1 X.location_.2 X.direction_ false = Y.location_)
    (hopp : X.direction_.toNat = (Y.direction_.toNat + 4) % 8)
    (hcX : cellAt s.gameboard_ X.location_.1 X.location_.2 = '*')
    (hcY : cellAt s.gameboard_ Y.location_.1 Y.location_.2 = '*')
    (hmX : X.aboveMine_ = false) :
    moveShellsStep s pre.length =
      ({ s with
          gameboard_ := setCell (setCell s.gameboard_ X.location_.1 X.location_.2 ' ')
            Y.location_.1 Y.location_.2 ' ',
          shells_ := pre ++ mid ++ post }, pre.length, (pre ++ mid ++ post).isEmpty) := by
  have hs1 : s.shells_ = pre ++ X :: (mid ++ Y :: post) := by
    rw [hs, List.append_assoc, List.cons_append]
  have hX : shellAt s pre.length = X := by
    unfold shellAt
    rw [hs1]
    exact getD_append_cons _ _ _ _
  have hsp : handleShellSpawnOnTank s pre.length = (s, pre.length, false) := by
    unfold handleShellSpawnOnTank
    simp only [hX, hcX]
    rw [if_neg (by decide)]
  have hclear : clearPreviousShellPosition s pre.length =
      setBoard s X.location_.1 X.location_.2 ' ' := by
    unfold clearPreviousShellPosition
    simp only [hX, hcX, hmX]
    rw [if_neg (by decide), if_neg (by decide), if_neg (by decide), if_pos (by decide)]
  have hget : getShellAt (setBoard s X.location_.1 X.location_.2 ' ') Y.location_.1
      Y.location_.2 = some (pre ++ X :: mid).length := by
    unfold getShellAt setBoard
    simp only []
    rw [hs]
    refine firstIdx_append_hit _ _ _ _ (fun a ha => ?_) (by simp)
    rw [List.mem_append, List.mem_cons] at ha
    have hne : a.location_ ≠ Y.location_ := by
      rcases ha with ha | ha | ha
      · exact hfree a (List.mem_append_left _ ha)
      · rw [ha]; exact hXY
      · exact hfree a (List.mem_append_right _ ha)
    simpa using hne
  have hY : shellAt (setBoard s X.location_.1 X.location_.2 ' ') (pre ++ X :: mid).length =
      Y := by
    unfold shellAt setBoard
    simp only []
    rw [hs]
    exact getD_append_cons _ _ _ _
  have hlt : pre.length < (pre ++ X :: mid).length := by
    rw [List.length_append, List.length_cons]
    omega
  have herase : ((pre ++ X :: mid ++ Y :: post).eraseIdx (pre ++ X :: mid).length).eraseIdx
      pre.length = pre ++ mid ++ post := by
    rw [eraseIdx_append_cons, List.append_assoc, List.cons_append, eraseIdx_append_cons,
      List.append_assoc]
  unfold moveShellsStep
  simp only [hsp, hX, hn, hcY, hclear, Bool.false_eq_true, if_false, if_true]
  unfold handleShellCollision
  simp only [hget, hY, hopp, if_true]
  rw [if_pos hlt]
  simp only [deleteShell, setBoard, hs, herase]

theorem moveShellsLoop_of_step_eq (s t : GM) (it : Nat)
    (hlen : t.shells_.length = s.shells_.length)
    (h : moveShellsStep t it = moveShellsStep s it) (hit : it < s.shells_.length) :
    ∀ fuel, moveShellsLoop fuel t it = moveShellsLoop fuel s it := by
  intro fuel
  cases fuel with
  | zero => rfl
  | succ f =>
    have hn : ¬ s.shells_.length ≤ it := by omega
    rw [moveShellsLoop_succ, moveShellsLoop_succ, h, hlen, if_neg hn, if_neg hn]

theorem modify_append_cons {α : Type} (f : α → α) :
    ∀ (l1 : List α) (a : α) (l2 : List α),
      (l1 ++ a :: l2).modify f l1.length = l1 ++ f a :: l2
  | [], _, _ => rfl
  | b :: l1, a, l2 => by
    simp only [List.cons_append, List.length_cons, List.modify_succ_cons]
    rw [modify_append_cons f l1 a l2]

theorem cell_ne_of_marks (b : Board) (p q : Int × Int) (c d : Char) (hcd : c ≠ d)
    (hp : cellAt b p.1 p.2 = c) (hq : cellAt b q.1 q.2 = d) : ¬ (p.1 = q.1 ∧ p.2 = q.2) := by
  rintro ⟨h1, h2⟩
  rw [h1, h2, hq] at hp
  exact hcd hp.symm

/-- The iteration of the loop of `moveShells` for a shell `X` that lies on a cell showing a
shell mark, is not above a mine and has the blank cell `g` ahead: the shell moves onto `g`,
its cell is blanked, `g` gets a shell mark and the iterator goes to the next shell. -/
theorem gap_first_step (s : GM) (X : Shell) (pre rest : List Shell) (g : Int × Int)
    (hs : s.shells_ = pre ++ X :: rest)
    (hnX : nextLocation s X.location_.1 X.location_.2 X.direction_ false = g)
    (hcX : cellAt s.gameboard_ X.location_.1 X.location_.2 = '*')
    (hg : cellAt s.gameboard_ g.1 g.2 = ' ')
    (hmX : X.aboveMine_ = false) :
    moveShellsStep s pre.length =
      ({ s with
          gameboard_ := setCell (setCell s.gameboard_ X.location_.1 X.location_.2 ' ')
            g.1 g.2 '*',
          shells_ := pre ++ { X with location_ := g } :: rest }, pre.length + 1, false) := by
  have hX : shellAt s pre.length = X := by
    unfold shellAt
    rw [hs]
    exact getD_append_cons _ _ _ _
  have hsp : handleShellSpawnOnTank s pre.length = (s, pre.length, false) := by
    unfold handleShellSpawnOnTank
    simp only [hX, hcX]
    rw [if_neg (by decide)]
  have hclear : clearPreviousShellPosition s pre.length =
      setBoard s X.location_.1 X.location_.2 ' ' := by
    unfold clearPreviousShellPosition
    simp only [hX, hcX, hmX]
    rw [if_neg (by decide), if_neg (by decide), if_neg (by decide), if_pos (by decide)]
  unfold moveShellsStep
  simp only [hsp, hX, hnX, hg, hclear, Bool.false_eq_true, if_false]
  rw [if_neg (by decide)]
  unfold handleShellMoveToNextCell
  simp only [Char.reduceEq, if_false, if_true, or_self]
  simp only [setBoard, modifyShell, hs, modify_append_cons]

/-- The iteration of the loop of `moveShells` for a shell `Y` that lies on a cell showing a
shell mark, is not above a mine and has ahead the cell `g`, which shows a shell mark and
on which the first shell of the list is the opposite shell `X`, standing before `Y` in the
list: both shells are erased, the cell of `Y` and the cell `g` are blanked, and the
iterator is set back to the position that `X` had. -/
theorem gap_last_step (t : GM) (X Y : Shell) (l1 l2 l3 : List Shell) (g : Int × Int)
    (ht : t.shells_ = l1 ++ X :: l2 ++ Y :: l3)
    (hX : X.location_ = g)
    (hfree : ∀ sh ∈ l1, sh.location_ ≠ g)
    (hnY : nextLocation t Y.location_.1 Y.location_.2 Y.direction_ false = g)
    (hopp : Y.direction_.toNat = (X.direction_.toNat + 4) % 8)
    (hcY : cellAt t.gameboard_ Y.location_.1 Y.location_.2 = '*')
    (hcg : cellAt t.gameboard_ g.1 g.2 = '*')
    (hmY : Y.aboveMine_ = false) :
    moveShellsStep t (l1 ++ X :: l2).length =
      ({ t with
          gameboard_ := setCell (setCell t.gameboard_ Y.location_.1 Y.location_.2 ' ')
            g.1 g.2 ' ',
          shells_ := l1 ++ l2 ++ l3 }, l1.length, (l1 ++ l2 ++ l3).isEmpty) := by
  have ht1 : t.shells_ = l1 ++ X :: (l2 ++ Y :: l3) := by
    rw [ht, List.append_assoc, List.cons_append]
  have hY : shellAt t (l1 ++ X :: l2).length = Y := by
    unfold shellAt
    rw [ht]
    exact getD_append_cons _ _ _ _
  have hsp : handleShellSpawnOnTank t (l1 ++ X :: l2).length =
      (t, (l1 ++ X :: l2).length, false) := by
    unfold handleShellSpawnOnTank
    simp only [hY, hcY]
    rw [if_neg (by decide)]
  have hclear : clearPreviousShellPosition t (l1 ++ X :: l2).length =
      setBoard t Y.location_.1 Y.location_.2 ' ' := by
    unfold clearPreviousShellPosition
    simp only [hY, hcY, hmY]
    rw [if_neg (by decide), if_neg (by decide), if_neg (by decide), if_pos (by decide)]
  have hget : getShellAt (setBoard t Y.location_.1 Y.location_.2 ' ') g.1 g.2 =
      some l1.length := by
    unfold getShellAt setBoard
    simp only []
    rw [ht1]
    refine firstIdx_append_hit _ _ _ _ (fun a ha => ?_) (by simp [hX])
    simpa using hfree a ha
  have hX1 : shellAt (setBoard t Y.location_.1 Y.location_.2 ' ') l1.length = X := by
    unfold shellAt setBoard
    simp only []
    rw [ht1]
    exact getD_append_cons _ _ _ _
  have hlt : ¬ (l1 ++ X :: l2).length < l1.length := by
    rw [List.length_append, List.length_cons]
    omega
  have herase : ((l1 ++ X :: l2 ++ Y :: l3).eraseIdx (l1 ++ X :: l2).length).eraseIdx
      l1.length = l1 ++ l2 ++ l3 := by
    rw [eraseIdx_append_cons, List.append_assoc, List.cons_append, eraseIdx_append_cons,
      List.append_assoc]
  unfold moveShellsStep
  simp only [hsp, hY, hnY, hcg, hclear, Bool.false_eq_true, if_false, if_true]
  unfold handleShellCollision
  simp only [hget, hX1, hopp, if_true]
  rw [if_neg hlt]
  simp only [deleteShell, setBoard, ht, herase]

theorem moveShellsLoop_step_false (s s1 : GM) (it it1 : Nat)
    (h1 : moveShellsStep s it = (s1, it1, false)) (hit : it < s.shells_.length) (fuel : Nat) :
    moveShellsLoop (fuel + 1) s it = moveShellsLoop fuel s1 it1 := by
  have hn : ¬ s.shells_.length ≤ it := by omega
  rw [moveShellsLoop_succ, if_neg hn, h1]
  simp only [Bool.false_eq_true, if_false]

/-! ## The shells and marks on given cells during iterations that do not look at them -/

theorem filter_eraseIdx_of_false {α : Type} (p : α → Bool) :
    ∀ (l : List α) (k : Nat), (∀ a, l[k]? = some a → p a = false) →
      (l.eraseIdx k).filter p = l.filter p
  | [], _, _ => by simp
  | a :: l, 0, h => by
    have ha : p a = false := h a (by simp)
    simp [List.filter_cons, ha]
  | a :: l, k + 1, h => by
    simp only [List.eraseIdx_cons_succ, List.filter_cons]
    rw [filter_eraseIdx_of_false p l k (fun b hb => h b (by simpa using hb))]

theorem filter_modify_of_false {α : Type} (p : α → Bool) (g : α → α) :
    ∀ (l : List α) (k : Nat), (∀ a, l[k]? = some a → p a = false ∧ p (g a) = false) →
      (l.modify g k).filter p = l.filter p
  | [], _, _ => by simp
  | a :: l, 0, h => by
    have ha := h a (by simp)
    simp [List.filter_cons, ha.1, ha.2]
  | a :: l, k + 1, h => by
    simp only [List.modify_succ_cons, List.filter_cons]
    rw [filter_modify_of_false p g l k (fun b hb => h b (by simpa using hb))]

theorem filter_single_split {α : Type} (p : α → Bool) (B : α) :
    ∀ l : List α, l.filter p = [B] →
      ∃ l2 l3, l = l2 ++ B :: l3 ∧ ∀ a ∈ l2 ++ l3, p a = false
  | [], h => by simp at h
  | a :: l, h => by
    rw [List.filter_cons] at h
    by_cases hp : p a = true
    · rw [if_pos hp] at h
      have h1 : a = B := (List.cons.inj h).1
      have h2 : l.filter p = [] := (List.cons.inj h).2
      refine ⟨[], l, by rw [h1]; rfl, fun b hb => ?_⟩
      rw [List.filter_eq_nil_iff] at h2
      have := h2 b (by simpa using hb)
      simpa using this
    · rw [if_neg hp] at h
      obtain ⟨l2, l3, e, hn⟩ := filter_single_split p B l h
      refine ⟨a :: l2, l3, by rw [e]; rfl, fun b hb => ?_⟩
      rw [List.cons_append, List.mem_cons] at hb
      rcases hb with hb | hb
      · rw [hb]; simpa using hp
      · exact hn b hb

theorem filter_pair_split {α : Type} (p : α → Bool) (A B : α) :
    ∀ l : List α, l.filter p = [A, B] →
      ∃ l1 l2 l3, l = l1 ++ A :: l2 ++ B :: l3 ∧ ∀ a ∈ l1 ++ l2 ++ l3, p a = false
  | [], h => by simp at h
  | a :: l, h => by
    rw [List.filter_cons] at h
    by_cases hp : p a = true
    · rw [if_pos hp] at h
      have h1 : a = A := (List.cons.inj h).1
      have h2 : l.filter p = [B] := (List.cons.inj h).2
      obtain ⟨l2, l3, e, hn⟩ := filter_single_split p B l h2
      refine ⟨[], l2, l3, by rw [h1, e]; rfl, fun b hb => ?_⟩
      exact hn b (by simpa using hb)
    · rw [if_neg hp] at h
      obtain ⟨l1, l2, l3, e, hn⟩ := filter_pair_split p A B l h
      refine ⟨a :: l1, l2, l3, by rw [e]; rfl, fun b hb => ?_⟩
      simp only [List.cons_append, List.mem_cons] at hb
      rcases hb with hb | hb
      · rw [hb]; simpa using hp
      · exact hn b hb

theorem filter_of_pair {α : Type} (p : α → Bool) (A B : α) (pre mid post : List α)
    (hA : p A = true) (hB : p B = true) (h : ∀ a ∈ pre ++ mid ++ post, p a = false) :
    (pre ++ A :: mid ++ B :: post).filter p = [A, B] := by
  have hnil : ∀ l : List α, (∀ a ∈ l, a ∈ pre ++ mid ++ post) → l.filter p = [] := by
    intro l hl
    rw [List.filter_eq_nil_iff]
    intro a ha
    rw [h a (hl a ha)]
    decide
  simp only [List.filter_append, List.filter_cons, hA, hB, if_true]
  rw [hnil pre (fun a ha => by simp [ha]), hnil mid (fun a ha => by simp [ha]),
    hnil post (fun a ha => by simp [ha])]
  rfl

/-- An iteration of the loop of `moveShells` for a shell that neither lies on a cell of the
set `p` nor has such a cell ahead leaves the shells on the cells of `p` as they are, in
their order. -/
theorem moveShellsStep_filter (s : GM) (it : Nat) (p : Shell → Bool)
    (hit : it < s.shells_.length)
    (hC : ∀ sh : Shell, sh.location_ = (shellAt s it).location_ → p sh = false)
    (hN : ∀ sh : Shell, sh.location_ = nextLocation s (shellAt s it).location_.1
      (shellAt s it).location_.2 (shellAt s it).direction_ false → p sh = false) :
    (moveShellsStep s it).1.shells_.filter p = s.shells_.filter p := by
  have hsh := clearPreviousShellPosition_shells s it
  have hat : ∀ a, s.shells_[it]? = some a → a = shellAt s it := by
    intro a ha
    unfold shellAt
    rw [List.getD_eq_getElem?_getD, ha]
    rfl
  have herase : (s.shells_.eraseIdx it).filter p = s.shells_.filter p :=
    filter_eraseIdx_of_false p _ _ (fun a ha => hC a (by rw [hat a ha]))
  have hkeep : ∀ g : Shell → Shell, (∀ sh, (g sh).location_ = sh.location_) →
      (s.shells_.modify g it).filter p = s.shells_.filter p := by
    intro g hg
    refine filter_modify_of_false p g _ _ (fun a ha => ⟨hC a (by rw [hat a ha]), hC _ ?_⟩)
    rw [hg, hat a ha]
  have hmove : ∀ g : Shell → Shell, (∀ sh, (g sh).location_ = nextLocation s
      (shellAt s it).location_.1 (shellAt s it).location_.2 (shellAt s it).direction_ false) →
      (s.shells_.modify g it).filter p = s.shells_.filter p := by
    intro g hg
    exact filter_modify_of_false p g _ _ (fun a ha => ⟨hC a (by rw [hat a ha]), hN _ (hg a)⟩)
  unfold moveShellsStep
  simp only []
  by_cases hsp : (handleShellSpawnOnTank s it).2.2 = true
  · rw [if_pos hsp]
    have e : (handleShellSpawnOnTank s it).1.shells_ = s.shells_.eraseIdx it := by
      unfold handleShellSpawnOnTank at hsp ⊢
      simp only [] at hsp ⊢
      split_ifs at hsp ⊢ with h1
      cases h2 : getTankIndexAt s (shellAt s it).location_.1 (shellAt s it).location_.2 with
      | none => rw [h2] at hsp; exact absurd hsp (by simp)
      | some k => rfl
    show (handleShellSpawnOnTank s it).1.shells_.filter p = _
    rw [e, herase]
  · rw [if_neg hsp]
    generalize hn : nextLocation s (shellAt s it).location_.1 (shellAt s it).location_.2
      (shellAt s it).direction_ false = n at hN hmove
    by_cases hc : cellAt s.gameboard_ n.1 n.2 = '*'
    · rw [if_pos hc]
      unfold handleShellCollision
      cases ho : getShellAt (clearPreviousShellPosition s it) n.1 n.2 with
      | none =>
        show (clearPreviousShellPosition s it).shells_.filter p = _
        rw [hsh]
        exact hkeep _ (fun _ => rfl)
      | some other =>
        simp only []
        obtain ⟨hol, holoc⟩ := getShellAt_some _ _ _ _ ho
        have hodir : other = it → (shellAt (clearPreviousShellPosition s it) other).direction_ =
            (shellAt s it).direction_ := by
          intro h
          rw [h]
          unfold shellAt
          rw [hsh]
          simp only [List.getD_eq_getElem?_getD, List.getElem?_modify]
          rw [List.getElem?_eq_getElem hit]
          simp
        have hother : other ≠ it → ∀ a, s.shells_[other]? = some a → p a = false := by
          intro hne a ha
          apply hN
          have : shellAt (clearPreviousShellPosition s it) other = a := by
            unfold shellAt
            rw [hsh]
            simp only [List.getD_eq_getElem?_getD, List.getElem?_modify, ha]
            simp [Ne.symm hne]
          rw [← this, holoc]
        by_cases hd : (shellAt s it).direction_.toNat =
            ((shellAt (clearPreviousShellPosition s it) other).direction_.toNat + 4) % 8
        · rw [if_pos hd]
          have hne : other ≠ it := by
            intro h
            rw [hodir h] at hd
            omega
          by_cases hlt : it < other
          · rw [if_pos hlt]
            show (((clearPreviousShellPosition s it).shells_.eraseIdx other).eraseIdx it).filter
              p = _
            rw [hsh, eraseIdx_modify_of_lt _ _ _ _ hlt, eraseIdx_modify_same]
            rw [filter_eraseIdx_of_false p _ _ (fun a ha => ?_),
              filter_eraseIdx_of_false p _ _ (hother hne)]
            rw [List.getElem?_eraseIdx, if_pos hlt] at ha
            exact hC a (by rw [hat a ha])
          · rw [if_neg hlt]
            show (((clearPreviousShellPosition s it).shells_.eraseIdx it).eraseIdx other).filter
              p = _
            rw [hsh, eraseIdx_modify_same]
            rw [filter_eraseIdx_of_false p _ _ (fun a ha => ?_), herase]
            rw [List.getElem?_eraseIdx, if_pos (by omega)] at ha
            exact hother hne a ha
        · rw [if_neg hd]
          show ((clearPreviousShellPosition s it).shells_.modify
            (fun sh => { sh with location_ := (n.1, n.2) }) it).filter p = _
          rw [hsh, modify_twice]
          exact hmove _ (fun _ => rfl)
    · rw [if_neg hc]
      unfold handleShellMoveToNextCell
      by_cases h1 : cellAt s.gameboard_ n.1 n.2 = '#'
      · rw [if_pos h1]
        show ((clearPreviousShellPosition s it).shells_.eraseIdx it).filter p = _
        rw [hsh, eraseIdx_modify_same, herase]
      rw [if_neg h1]
      by_cases h2 : cellAt s.gameboard_ n.1 n.2 = '$'
      · rw [if_pos h2]
        show ((clearPreviousShellPosition s it).shells_.eraseIdx it).filter p = _
        rw [hsh, eraseIdx_modify_same, herase]
      rw [if_neg h2]
      by_cases h3 : cellAt s.gameboard_ n.1 n.2 = '1' ∨ cellAt s.gameboard_ n.1 n.2 = '2'
      · rw [if_pos h3]
        cases h4 : getTankIndexAt (clearPreviousShellPosition s it) n.1 n.2 with
        | none =>
          show (clearPreviousShellPosition s it).shells_.filter p = _
          rw [hsh]
          exact hkeep _ (fun _ => rfl)
        | some k =>
          show ((clearPreviousShellPosition s it).shells_.eraseIdx it).filter p = _
          rw [hsh, eraseIdx_modify_same, herase]
      rw [if_neg h3]
      by_cases h5 : cellAt s.gameboard_ n.1 n.2 = '@'
      · rw [if_pos h5]
        show (((clearPreviousShellPosition s it).shells_.modify
          (fun sh => { sh with location_ := (n.1, n.2) }) it).modify
          (fun sh => { sh with aboveMine_ := true }) it).filter p = _
        rw [hsh, modify_twice, modify_twice]
        exact hmove _ (fun _ => rfl)
      rw [if_neg h5]
      by_cases h6 : cellAt s.gameboard_ n.1 n.2 = ' '
      · rw [if_pos h6]
        show ((clearPreviousShellPosition s it).shells_.modify
          (fun sh => { sh with location_ := (n.1, n.2) }) it).filter p = _
        rw [hsh, modify_twice]
        exact hmove _ (fun _ => rfl)
      · rw [if_neg h6]
        show (clearPreviousShellPosition s it).shells_.filter p = _
        rw [hsh]
        exact hkeep _ (fun _ => rfl)

theorem handleShellSpawnOnTank_board (s : GM) (it : Nat) :
    (handleShellSpawnOnTank s it).1.gameboard_ = s.gameboard_ ∨
      ∃ c, (handleShellSpawnOnTank s it).1.gameboard_ =
        setCell s.gameboard_ (shellAt s it).location_.1 (shellAt s it).location_.2 c := by
  unfold handleShellSpawnOnTank
  simp only []
  split_ifs
  · cases getTankIndexAt s (shellAt s it).location_.1 (shellAt s it).location_.2 with
    | none => exact Or.inl rfl
    | some k => exact Or.inr ⟨' ', rfl⟩
  · exact Or.inl rfl

theorem clearPreviousShellPosition_board (s : GM) (it : Nat) :
    (clearPreviousShellPosition s it).gameboard_ = s.gameboard_ ∨
      ∃ c, (clearPreviousShellPosition s it).gameboard_ =
        setCell s.gameboard_ (shellAt s it).location_.1 (shellAt s it).location_.2 c := by
  unfold clearPreviousShellPosition
  simp only []
  split_ifs
  all_goals first
    | exact Or.inl rfl
    | exact Or.inr ⟨_, rfl⟩

theorem handleShellCollision_board (s : GM) (it : Nat) (x y : Int) (dir : Direction) :
    (handleShellCollision s it x y dir).1.gameboard_ = s.gameboard_ ∨
      ∃ c, (handleShellCollision s it x y dir).1.gameboard_ = setCell s.gameboard_ x y c := by
  unfold handleShellCollision
  cases getShellAt s x y with
  | none => exact Or.inl rfl
  | some other =>
    simp only []
    split_ifs
    all_goals exact Or.inr ⟨_, rfl⟩

theorem handleShellMoveToNextCell_board (s : GM) (it : Nat) (x y : Int) (c0 : Char) :
    (handleShellMoveToNextCell s it x y c0).1.gameboard_ = s.gameboard_ ∨
      ∃ c, (handleShellMoveToNextCell s it x y c0).1.gameboard_ =
        setCell s.gameboard_ x y c := by
  unfold handleShellMoveToNextCell
  split_ifs
  · exact Or.inr ⟨_, rfl⟩
  · exact Or.inr ⟨_, rfl⟩
  · cases getTankIndexAt s x y with
    | none => exact Or.inl rfl
    | some k => exact Or.inr ⟨_, rfl⟩
  · exact Or.inr ⟨_, rfl⟩
  · exact Or.inr ⟨_, rfl⟩
  · exact Or.inl rfl

/-- An iteration of the loop of `moveShells` writes the board on the cell of the shell at
the iterator and on the cell ahead of it only. -/
theorem moveShellsStep_cell_frame (s : GM) (it : Nat) (x y : Int)
    (h1 : (x, y) ≠ (shellAt s it).location_)
    (h2 : (x, y) ≠ nextLocation s (shellAt s it).location_.1 (shellAt s it).location_.2
      (shellAt s it).direction_ false) :
    cellAt (moveShellsStep s it).1.gameboard_ x y = cellAt s.gameboard_ x y := by
  have hl : ¬ (x = (shellAt s it).location_.1 ∧ y = (shellAt s it).location_.2) :=
    fun h => h1 (Prod.ext h.1 h.2)
  have keep : ∀ (b b1 : Board) (x0 y0 : Int), ¬ (x = x0 ∧ y = y0) →
      (b1 = b ∨ ∃ c, b1 = setCell b x0 y0 c) → cellAt b1 x y = cellAt b x y := by
    intro b b1 x0 y0 hne h
    rcases h with h | ⟨c, h⟩
    · rw [h]
    · rw [h, cellAt_setCell_ne _ _ _ _ _ _ hne]
  have hclear : cellAt (clearPreviousShellPosition s it).gameboard_ x y =
      cellAt s.gameboard_ x y :=
    keep _ _ _ _ hl (clearPreviousShellPosition_board s it)
  generalize hn : nextLocation s (shellAt s it).location_.1 (shellAt s it).location_.2
    (shellAt s it).direction_ false = n at h2
  have hnn : ¬ (x = n.1 ∧ y = n.2) := fun h => h2 (Prod.ext h.1 h.2)
  unfold moveShellsStep
  simp only [hn]
  split_ifs
  · exact keep _ _ _ _ hl (handleShellSpawnOnTank_board s it)
  · rw [keep _ _ _ _ hnn (handleShellCollision_board _ it n.1 n.2 _), hclear]
  · rw [keep _ _ _ _ hnn (handleShellMoveToNextCell_board _ it n.1 n.2 _), hclear]

/-- Through iterations that do not look at the cells `cells`, the shells on these cells
stay as they are, in their order. -/
theorem quietRun_filter (cells : List (Int × Int)) (s : GM) (it : Nat) (s2 : GM) (it2 : Nat)
    (hq : QuietRun cells s it s2 it2) :
    s2.shells_.filter (fun sh => decide (sh.location_ ∈ cells)) =
      s.shells_.filter (fun sh => decide (sh.location_ ∈ cells)) := by
  induction hq with
  | here s it => rfl
  | next s it s2 it2 hit h1 h2 _ _ ih =>
    rw [ih]
    refine moveShellsStep_filter s it _ hit (fun sh h => ?_) (fun sh h => ?_)
    · rw [decide_eq_false_iff_not, h]
      exact h1
    · rw [decide_eq_false_iff_not, h]
      exact h2

/-- Through iterations that do not look at the cells `cells`, these cells of the board
stay as they are, and so does the size of the board. -/
theorem quietRun_cells (cells : List (Int × Int)) (s : GM) (it : Nat) (s2 : GM) (it2 : Nat)
    (hq : QuietRun cells s it s2 it2) :
    (∀ p ∈ cells, cellAt s2.gameboard_ p.1 p.2 = cellAt s.gameboard_ p.1 p.2) ∧
      s2.width_ = s.width_ ∧ s2.height_ = s.height_ := by
  induction hq with
  | here s it => exact ⟨fun _ _ => rfl, rfl, rfl⟩
  | next s it s2 it2 hit h1 h2 _ _ ih =>
    have hcfg := cfg_moveShellsStep s it
    have hw1 : (moveShellsStep s it).1.width_ = s.width_ := congrArg (fun c => c.2.2.1) hcfg
    have hh1 : (moveShellsStep s it).1.height_ = s.height_ :=
      congrArg (fun c => c.2.2.2.1) hcfg
    refine ⟨fun p hp => ?_, ih.2.1.trans hw1, ih.2.2.trans hh1⟩
    rw [ih.1 p hp]
    exact moveShellsStep_cell_frame s it p.1 p.2 (fun e => h1 (e ▸ hp)) (fun e => h2 (e ▸ hp))

/-- Through iterations that do not look at the cells `cells`, the loop of `moveShells` on
a state whose shells and board are changed on these cells only goes as it does on the
state itself. -/
theorem quietRun_loop (f : Shell → Shell) (pb : Board → Board) (cells : List (Int × Int))
    (hf : ∀ sh : Shell, sh.location_ ∉ cells → f sh = sh)
    (hf2 : ∀ sh : Shell, sh.location_ ∈ cells → (f sh).location_ ∈ cells)
    (hb : ∀ (b : Board) (x y : Int) (c : Char), (x, y) ∉ cells →
      pb (setCell b x y c) = setCell (pb b) x y c)
    (hc : ∀ (b : Board) (x y : Int), (x, y) ∉ cells → cellAt (pb b) x y = cellAt b x y)
    (s : GM) (it : Nat) (s2 : GM) (it2 : Nat)
    (hq : QuietRun cells s it s2 it2)
    (hfin : ∀ fuel, moveShellsLoop fuel (relatedBy f pb s2) it2 =
      moveShellsLoop fuel s2 it2) :
    ∀ fuel, moveShellsLoop fuel (relatedBy f pb s) it = moveShellsLoop fuel s it := by
  induction hq with
  | here s it => exact hfin
  | next s it s2 it2 hit h1 h2 hfl _ ih =>
    intro fuel
    cases fuel with
    | zero => rfl
    | succ n =>
      have hlen : (relatedBy f pb s).shells_.length = s.shells_.length := by
        show (s.shells_.map f).length = _
        rw [List.length_map]
      have hn : ¬ s.shells_.length ≤ it := by omega
      rw [moveShellsLoop_succ, moveShellsLoop_succ, hlen, if_neg hn, if_neg hn,
        moveShellsStep_related f pb cells hf hf2 hb hc s it hit h1 h2]
      simp only [hfl, Bool.false_eq_true, if_false]
      exact ih hfin n

/-! ## Two opposite shells exchanged in the list -/

/-- The loop of `moveShells` from the iterator at the first of two opposite shells that
lie face to face gives the same result for the two orders of the pair. -/
theorem pair_adjacent_exchange (s : GM) (A B : Shell) (pre mid post : List Shell)
    (hs : s.shells_ = pre ++ A :: mid ++ B :: post)
    (hfree : ∀ sh ∈ pre ++ mid ++ post,
      sh.location_ ≠ A.location_ ∧ sh.location_ ≠ B.location_)
    (hAB : A.location_ ≠ B.location_)
    (hopp : A.direction_.toNat = (B.direction_.toNat + 4) % 8)
    (hcA : cellAt s.gameboard_ A.location_.1 A.location_.2 = '*')
    (hcB : cellAt s.gameboard_ B.location_.1 B.location_.2 = '*')
    (hmA : A.aboveMine_ = false) (hmB : B.aboveMine_ = false)
    (hnA : nextLocation s A.location_.1 A.location_.2 A.direction_ false = B.location_)
    (hnB : nextLocation s B.location_.1 B.location_.2 B.direction_ false = A.location_) :
    moveShellsStep (exchangeShells A B s) pre.length = moveShellsStep s pre.length ∧
    moveShellsStep s pre.length =
      ({ s with
          gameboard_ := setCell (setCell s.gameboard_ A.location_.1 A.location_.2 ' ')
            B.location_.1 B.location_.2 ' ',
          shells_ := pre ++ mid ++ post }, pre.length, (pre ++ mid ++ post).isEmpty) := by
  have hE : (exchangeShells A B s).shells_ = pre ++ B :: mid ++ A :: post := by
    show s.shells_.map (exchangeShell A B) = _
    rw [hs]
    exact exchange_list A B pre mid post hAB hfree
  have h1 := pair_adjacent_step s A B pre mid post hs hAB
    (fun sh h => (hfree sh (List.mem_append_left _ h)).2) hnA hopp hcA hcB hmA
  have h2 := pair_adjacent_step (exchangeShells A B s) B A pre mid post hE (Ne.symm hAB)
    (fun sh h => (hfree sh (List.mem_append_left _ h)).1) hnB (opposite_symm _ _ hopp) hcB hcA hmB
  have hne : ¬ (A.location_.1 = B.location_.1 ∧ A.location_.2 = B.location_.2) :=
    fun h => hAB (Prod.ext h.1 h.2)
  have hcomm := setCell_comm s.gameboard_ A.location_.1 A.location_.2 B.location_.1
    B.location_.2 ' ' ' ' hne
  refine ⟨?_, h1⟩
  rw [h1, h2]
  show ({ s with
    gameboard_ := setCell (setCell s.gameboard_ B.location_.1 B.location_.2 ' ')
      A.location_.1 A.location_.2 ' ',
    shells_ := pre ++ mid ++ post }, pre.length, (pre ++ mid ++ post).isEmpty) = _
  rw [hcomm]

theorem getElem?_unique {α : Type} (u : List α) (Y : α) (v : List α) (j : Nat)
    (hu : ∀ a ∈ u, a ≠ Y) (hv : ∀ a ∈ v, a ≠ Y) (h : (u ++ Y :: v)[j]? = some Y) :
    j = u.length := by
  rcases Nat.lt_trichotomy j u.length with hlt | heq | hgt
  · rw [List.getElem?_append_left hlt] at h
    exact absurd rfl (hu Y (List.getElem?_mem h))
  · exact heq
  · rw [List.getElem?_append_right (Nat.le_of_lt hgt)] at h
    obtain ⟨k, hk⟩ : ∃ k, j - u.length = k + 1 := ⟨j - u.length - 1, by omega⟩
    rw [hk, List.getElem?_cons_succ] at h
    exact absurd rfl (hv Y (List.getElem?_mem h))

/-- Setting the shell mark of the cell `p` and blanking the cell `q` commutes with the writes
on the cells outside `cells` and leaves these cells as they are. -/
theorem swapMarks_frame (p q : Int × Int) (cells : List (Int × Int)) (hp : p ∈ cells)
    (hq : q ∈ cells) :
    (∀ (b : Board) (x y : Int) (c : Char), (x, y) ∉ cells →
      setCell (setCell (setCell b x y c) p.1 p.2 '*') q.1 q.2 ' ' =
        setCell (setCell (setCell b p.1 p.2 '*') q.1 q.2 ' ') x y c) ∧
    (∀ (b : Board) (x y : Int), (x, y) ∉ cells →
      cellAt (setCell (setCell b p.1 p.2 '*') q.1 q.2 ' ') x y = cellAt b x y) := by
  constructor
  · intro b x y c h
    have h1 : ¬ (x = p.1 ∧ y = p.2) := fun e => h (by rw [e.1, e.2]; exact hp)
    have h2 : ¬ (x = q.1 ∧ y = q.2) := fun e => h (by rw [e.1, e.2]; exact hq)
    rw [setCell_comm b x y p.1 p.2 c '*' h1, setCell_comm _ x y q.1 q.2 c ' ' h2]
  · intro b x y h
    have h1 : ¬ (x = p.1 ∧ y = p.2) := fun e => h (by rw [e.1, e.2]; exact hp)
    have h2 : ¬ (x = q.1 ∧ y = q.2) := fun e => h (by rw [e.1, e.2]; exact hq)
    rw [cellAt_setCell_ne _ _ _ _ _ _ h2, cellAt_setCell_ne _ _ _ _ _ _ h1]

/-- The iterations of the loop of `moveShells` for two opposite shells `A` and `B` that
meet on the blank cell `g` ahead of both, with any shells between them in the list: the
iteration for `A` moves it onto `g`; the loop then comes to `B`, in the state `sm` at the
iterator `j`, through iterations that do not look at the cells of `A`, of `B` and `g`; the
iteration for `B` erases both shells, blanks `g` and the cell of `B`, and sets the iterator
back to the position of `A`.  The loop gives the same result for the two orders of the
pair. -/
theorem pair_gap_exchange (s sm : GM) (j : Nat) (A B : Shell) (pre mid post : List Shell)
    (g : Int × Int)
    (hs : s.shells_ = pre ++ A :: mid ++ B :: post)
    (hfree : ∀ sh ∈ pre ++ mid ++ post,
      sh.location_ ≠ A.location_ ∧ sh.location_ ≠ B.location_)
    (hfreeg : ∀ sh ∈ pre ++ mid ++ post, sh.location_ ≠ g)
    (hAB : A.location_ ≠ B.location_)
    (hopp : A.direction_.toNat = (B.direction_.toNat + 4) % 8)
    (hcA : cellAt s.gameboard_ A.location_.1 A.location_.2 = '*')
    (hcB : cellAt s.gameboard_ B.location_.1 B.location_.2 = '*')
    (hmA : A.aboveMine_ = false) (hmB : B.aboveMine_ = false)
    (hnA : nextLocation s A.location_.1 A.location_.2 A.direction_ false = g)
    (hnB : nextLocation s B.location_.1 B.location_.2 B.direction_ false = g)
    (hg : cellAt s.gameboard_ g.1 g.2 = ' ')
    (hq : QuietRun [A.location_, B.location_, g] (moveShellsStep s pre.length).1
      (pre.length + 1) sm j)
    (hj : sm.shells_[j]? = some B) :
    (moveShellsStep s pre.length).2 = (pre.length + 1, false) ∧
    (moveShellsStep s pre.length).1.shells_ =
      pre ++ { A with location_ := g } :: mid ++ B :: post ∧
    (∃ l1 l2 l3, sm.shells_ = l1 ++ { A with location_ := g } :: l2 ++ B :: l3 ∧
      (∀ sh ∈ l1 ++ l2 ++ l3, sh.location_ ∉ [A.location_, B.location_, g]) ∧
      j = (l1 ++ { A with location_ := g } :: l2).length ∧
      moveShellsStep sm j =
        ({ sm with
            gameboard_ := setCell (setCell sm.gameboard_ B.location_.1 B.location_.2 ' ')
              g.1 g.2 ' ',
            shells_ := l1 ++ l2 ++ l3 }, l1.length, (l1 ++ l2 ++ l3).isEmpty)) ∧
    cellAt sm.gameboard_ A.location_.1 A.location_.2 = ' ' ∧
    cellAt sm.gameboard_ B.location_.1 B.location_.2 = '*' ∧
    cellAt sm.gameboard_ g.1 g.2 = '*' ∧
    (∀ fuel, moveShellsLoop fuel (exchangeShells A B s) pre.length =
      moveShellsLoop fuel s pre.length) := by
  -- the cells
  have hAg : ¬ (A.location_.1 = g.1 ∧ A.location_.2 = g.2) :=
    cell_ne_of_marks s.gameboard_ A.location_ g '*' ' ' (by decide) hcA hg
  have hBg : ¬ (B.location_.1 = g.1 ∧ B.location_.2 = g.2) :=
    cell_ne_of_marks s.gameboard_ B.location_ g '*' ' ' (by decide) hcB hg
  have hgA : ¬ (g.1 = A.location_.1 ∧ g.2 = A.location_.2) := fun h => hAg ⟨h.1.symm, h.2.symm⟩
  have hgB : ¬ (g.1 = B.location_.1 ∧ g.2 = B.location_.2) := fun h => hBg ⟨h.1.symm, h.2.symm⟩
  have hne : ¬ (A.location_.1 = B.location_.1 ∧ A.location_.2 = B.location_.2) :=
    fun h => hAB (Prod.ext h.1 h.2)
  have hne2 : ¬ (B.location_.1 = A.location_.1 ∧ B.location_.2 = A.location_.2) :=
    fun h => hne ⟨h.1.symm, h.2.symm⟩
  have hnulA : cellAt s.gameboard_ A.location_.1 A.location_.2 ≠ NUL := by
    rw [hcA]; decide
  have hnulg : cellAt s.gameboard_ g.1 g.2 ≠ NUL := by
    rw [hg]; decide
  have hBgl : B.location_ ≠ g := fun h => hBg ⟨by rw [h], by rw [h]⟩
  have hmemA : A.location_ ∈ [A.location_, B.location_, g] := by simp
  have hmemB : B.location_ ∈ [A.location_, B.location_, g] := by simp
  have hmemg : g ∈ [A.location_, B.location_, g] := by simp
  -- the first iteration, in the two orders
  have hs1 : s.shells_ = pre ++ A :: (mid ++ B :: post) := by
    rw [hs, List.append_assoc, List.cons_append]
  have hE : (exchangeShells A B s).shells_ = pre ++ B :: (mid ++ A :: post) := by
    show s.shells_.map (exchangeShell A B) = _
    rw [hs, exchange_list A B pre mid post hAB hfree, List.append_assoc, List.cons_append]
  have a1 := gap_first_step s A pre (mid ++ B :: post) g hs1 hnA hcA hg hmA
  have b1 := gap_first_step (exchangeShells A B s) B pre (mid ++ A :: post) g hE hnB hcB hg
    hmB
  have hl : pre.length < s.shells_.length := by
    rw [hs1, List.length_append, List.length_cons]
    omega
  have hlE : pre.length < (exchangeShells A B s).shells_.length := by
    rw [hE, List.length_append, List.length_cons]
    omega
  -- the relation between the two runs after the first iteration
  have hf := replaceShell_fixes { A with location_ := g } { B with location_ := g } B A
    [A.location_, B.location_, g] hmemg hmemB
  have hf2 := replaceShell_stays { A with location_ := g } { B with location_ := g } B A
    [A.location_, B.location_, g] hmemg hmemA
  obtain ⟨hb, hc⟩ := swapMarks_frame A.location_ B.location_ [A.location_, B.location_, g]
    hmemA hmemB
  have hAgB : ({ A with location_ := g } : Shell) ≠ B := fun e =>
    hBgl (by rw [← e])
  have hothers : ∀ l : List Shell, (∀ sh ∈ l, sh.location_ ∉ [A.location_, B.location_, g]) →
      ∀ sh ∈ l, sh ≠ ({ A with location_ := g } : Shell) ∧ sh ≠ B := by
    intro l h sh hsh
    exact ⟨fun e => h sh hsh (by rw [e]; exact hmemg), fun e => h sh hsh (by rw [e]; exact hmemB)⟩
  have hout : ∀ sh ∈ pre ++ mid ++ post, sh.location_ ∉ [A.location_, B.location_, g] := by
    intro sh hsh hin
    simp only [List.mem_cons, List.mem_singleton, List.not_mem_nil, or_false] at hin
    rcases hin with h | h | h
    · exact (hfree sh hsh).1 h
    · exact (hfree sh hsh).2 h
    · exact hfreeg sh hsh h
  have hboard1 : setCell (setCell (setCell (setCell s.gameboard_ A.location_.1 A.location_.2
      ' ') g.1 g.2 '*') A.location_.1 A.location_.2 '*') B.location_.1 B.location_.2 ' ' =
      setCell (setCell s.gameboard_ B.location_.1 B.location_.2 ' ') g.1 g.2 '*' := by
    rw [setCell_comm _ g.1 g.2 A.location_.1 A.location_.2 '*' '*' hgA, setCell_setCell_same,
      setCell_self s.gameboard_ _ _ '*' hcA (by decide),
      setCell_comm _ g.1 g.2 B.location_.1 B.location_.2 '*' ' ' hgB]
  have hrel : (moveShellsStep (exchangeShells A B s) pre.length).1 =
      relatedBy (replaceShell { A with location_ := g } { B with location_ := g } B A)
        (fun b => setCell (setCell b A.location_.1 A.location_.2 '*')
          B.location_.1 B.location_.2 ' ') (moveShellsStep s pre.length).1 := by
    rw [a1, b1]
    show ({ s with
      gameboard_ := setCell (setCell s.gameboard_ B.location_.1 B.location_.2 ' ') g.1 g.2 '*',
      shells_ := pre ++ { B with location_ := g } :: (mid ++ A :: post) } : GM) =
      { s with
        gameboard_ := setCell (setCell (setCell (setCell s.gameboard_ A.location_.1
          A.location_.2 ' ') g.1 g.2 '*') A.location_.1 A.location_.2 '*')
          B.location_.1 B.location_.2 ' ',
        shells_ := (pre ++ { A with location_ := g } :: (mid ++ B :: post)).map
          (replaceShell { A with location_ := g } { B with location_ := g } B A) }
    have := replace_list { A with location_ := g } { B with location_ := g } B A pre mid post
      hAgB (hothers _ hout)
    rw [List.append_assoc, List.cons_append] at this
    rw [this, hboard1, List.append_assoc, List.cons_append]
  -- the state in which the loop comes to the second shell
  rw [a1] at hq
  obtain ⟨hcells, hw, hh⟩ := quietRun_cells _ _ _ _ _ hq
  have hfilter := quietRun_filter _ _ _ _ _ hq
  have hfp : (pre ++ { A with location_ := g } :: (mid ++ B :: post)).filter
      (fun sh => decide (sh.location_ ∈ [A.location_, B.location_, g])) =
      [{ A with location_ := g }, B] := by
    rw [← List.cons_append, ← List.append_assoc]
    exact filter_of_pair _ _ B pre mid post (decide_eq_true hmemg) (decide_eq_true hmemB)
      (fun a ha => decide_eq_false (hout a ha))
  rw [show ({ s with
      gameboard_ := setCell (setCell s.gameboard_ A.location_.1 A.location_.2 ' ') g.1 g.2 '*',
      shells_ := pre ++ { A with location_ := g } :: (mid ++ B :: post) } : GM).shells_ =
      pre ++ { A with location_ := g } :: (mid ++ B :: post) from rfl, hfp] at hfilter
  obtain ⟨l1, l2, l3, hsm, hoth⟩ := filter_pair_split _ _ B sm.shells_ hfilter
  have hout2 : ∀ sh ∈ l1 ++ l2 ++ l3, sh.location_ ∉ [A.location_, B.location_, g] :=
    fun sh hsh => of_decide_eq_false (hoth sh hsh)
  have hjeq : j = (l1 ++ { A with location_ := g } :: l2).length := by
    rw [hsm] at hj
    refine getElem?_unique _ B l3 j (fun a ha => ?_) (fun a ha => ?_) hj
    · rw [List.mem_append, List.mem_cons] at ha
      rcases ha with ha | ha | ha
      · exact (hothers _ hout2 a (by simp [ha])).2
      · rw [ha]; exact hAgB
      · exact (hothers _ hout2 a (by simp [ha])).2
    · exact (hothers _ hout2 a (by simp [ha])).2
  have hcA1 : cellAt sm.gameboard_ A.location_.1 A.location_.2 = ' ' := by
    rw [hcells _ hmemA]
    show cellAt (setCell (setCell s.gameboard_ A.location_.1 A.location_.2 ' ') g.1 g.2 '*')
      A.location_.1 A.location_.2 = ' '
    rw [cellAt_setCell_ne _ _ _ _ _ _ hAg]
    exact cellAt_setCell_same _ _ _ _ hnulA
  have hcB1 : cellAt sm.gameboard_ B.location_.1 B.location_.2 = '*' := by
    rw [hcells _ hmemB]
    show cellAt (setCell (setCell s.gameboard_ A.location_.1 A.location_.2 ' ') g.1 g.2 '*')
      B.location_.1 B.location_.2 = '*'
    rw [cellAt_setCell_ne _ _ _ _ _ _ hBg, cellAt_setCell_ne _ _ _ _ _ _ hne2, hcB]
  have hcg1 : cellAt sm.gameboard_ g.1 g.2 = '*' := by
    rw [hcells _ hmemg]
    show cellAt (setCell (setCell s.gameboard_ A.location_.1 A.location_.2 ' ') g.1 g.2 '*')
      g.1 g.2 = '*'
    exact cellAt_setCell_same _ _ _ _ (onBoard_setCell _ _ _ _ _ _ (by decide) hnulg)
  have hnext : ∀ (t : GM), t.width_ = sm.width_ → t.height_ = sm.height_ →
      ∀ x y d, nextLocation t x y d false = nextLocation s x y d false :=
    fun t h1 h2 x y d => nextLocation_congr t s (h1.trans hw) (h2.trans hh) x y d false
  have hl1g : ∀ sh ∈ l1, sh.location_ ≠ g :=
    fun sh hsh e => hout2 sh (by simp [hsh]) (by rw [e]; exact hmemg)
  have a2 := gap_last_step sm { A with location_ := g } B l1 l2 l3 g hsm rfl hl1g
    ((hnext sm rfl rfl _ _ _).trans hnB) (opposite_symm _ _ hopp) hcB1 hcg1 hmB
  -- the same state for the other order
  have hsmE : (relatedBy (replaceShell { A with location_ := g } { B with location_ := g } B A)
      (fun b => setCell (setCell b A.location_.1 A.location_.2 '*')
        B.location_.1 B.location_.2 ' ') sm).shells_ =
      l1 ++ { B with location_ := g } :: l2 ++ A :: l3 := by
    show sm.shells_.map _ = _
    rw [hsm]
    exact replace_list _ _ B A l1 l2 l3 hAgB (hothers _ hout2)
  have hcAE : cellAt (setCell (setCell sm.gameboard_ A.location_.1 A.location_.2 '*')
      B.location_.1 B.location_.2 ' ') A.location_.1 A.location_.2 = '*' := by
    rw [cellAt_setCell_ne _ _ _ _ _ _ hne]
    exact cellAt_setCell_same _ _ _ _ (by rw [hcA1]; decide)
  have hcgE : cellAt (setCell (setCell sm.gameboard_ A.location_.1 A.location_.2 '*')
      B.location_.1 B.location_.2 ' ') g.1 g.2 = '*' := by
    rw [cellAt_setCell_ne _ _ _ _ _ _ hgB, cellAt_setCell_ne _ _ _ _ _ _ hgA, hcg1]
  have b2 := gap_last_step
    (relatedBy (replaceShell { A with location_ := g } { B with location_ := g } B A)
      (fun b => setCell (setCell b A.location_.1 A.location_.2 '*')
        B.location_.1 B.location_.2 ' ') sm)
    { B with location_ := g } A l1 l2 l3 g hsmE rfl hl1g
    ((hnext _ rfl rfl _ _ _).trans hnA) hopp hcAE hcgE hmA
  have hlenEq : (l1 ++ { B with location_ := g } :: l2).length =
      (l1 ++ { A with location_ := g } :: l2).length := by
    simp only [List.length_append, List.length_cons]
  have hboard2 : setCell (setCell (setCell (setCell sm.gameboard_ A.location_.1 A.location_.2
      '*') B.location_.1 B.location_.2 ' ') A.location_.1 A.location_.2 ' ') g.1 g.2 ' ' =
      setCell (setCell sm.gameboard_ B.location_.1 B.location_.2 ' ') g.1 g.2 ' ' := by
    rw [setCell_comm _ B.location_.1 B.location_.2 A.location_.1 A.location_.2 ' ' ' ' hne2,
      setCell_setCell_same, setCell_self sm.gameboard_ _ _ ' ' hcA1 (by decide)]
  have hstep : moveShellsStep
      (relatedBy (replaceShell { A with location_ := g } { B with location_ := g } B A)
        (fun b => setCell (setCell b A.location_.1 A.location_.2 '*')
          B.location_.1 B.location_.2 ' ') sm) j = moveShellsStep sm j := by
    rw [hjeq, a2, ← hlenEq, b2]
    show (({ sm with
      gameboard_ := setCell (setCell (setCell (setCell sm.gameboard_ A.location_.1
        A.location_.2 '*') B.location_.1 B.location_.2 ' ') A.location_.1 A.location_.2 ' ')
        g.1 g.2 ' ',
      shells_ := l1 ++ l2 ++ l3 } : GM), l1.length, (l1 ++ l2 ++ l3).isEmpty) = _
    rw [hboard2]
  have hjlt : j < sm.shells_.length := by
    rw [hjeq, hsm]
    simp only [List.length_append, List.length_cons]
    omega
  have hfin := moveShellsLoop_of_step_eq sm _ j (by
    show (sm.shells_.map _).length = _
    rw [List.length_map]) hstep hjlt
  have hloop := quietRun_loop _ _ _ hf hf2 hb hc _ _ _ _ hq hfin
  refine ⟨by rw [a1], ?_, ⟨l1, l2, l3, hsm, hout2, hjeq, by rw [hjeq, a2]⟩, hcA1, hcB1, hcg1, ?_⟩
  · rw [a1, List.append_assoc, List.cons_append]
  · intro fuel
    cases fuel with
    | zero => rfl
    | succ n =>
      have hb1 : moveShellsStep (exchangeShells A B s) pre.length =
          ((moveShellsStep (exchangeShells A B s) pre.length).1, pre.length + 1, false) := by
        rw [b1]
      rw [moveShellsLoop_step_false _ _ _ _ hb1 hlE n, moveShellsLoop_step_false _ _ _ _ a1 hl n,
        hrel, a1]
      exact hloop n

/-- C30 (amended).  The substep is played from the state `s0`, and its loop comes to the
state `s` with the iterator `it` at the shell `A`, through iterations, after none of which
the function returns, for shells that neither lie on the cell of `A` or of `B` nor have one
of these cells ahead.  In `s` the
shell `B` stands later in the list than `A`; `A` and `B` lie on different cells that show
a shell mark, neither of them is above a mine, no other shell of the list lies on their
cells and they travel in opposite directions.  They meet in one of two ways, in both with
any shells before, between and after them in the list: face to face, each on the cell
ahead of the other; or on the blank cell `g` ahead of both, on which no shell of the list
lies, the loop coming from `A` to `B` (in the state `sm` at the iterator `j`) through
iterations, after none of which the function returns, for shells that neither lie on the
cell of `A`, the cell of `B` or `g` nor have one of these cells ahead.  Then the exchange of `A` and `B` swaps two positions of the
list, and the substep played on the list with `A` and `B` exchanged gives the same state
as the substep played on the list itself, for every fuel; from a state that satisfies the
invariant of the engine both return, with the same state.  Face to face, the iteration at
`it` erases both shells and blanks both cells, in either order of the pair; on the blank
cell ahead of both, the iteration at `it` moves `A` onto `g`, and the iteration for `B`
erases both shells and leaves `g` and the two cells they came from blank. -/
theorem opposite_collision_symmetric (s0 s sm : GM) (it j : Nat) (A B : Shell)
    (pre mid post : List Shell) (g : Int × Int)
    (hq : QuietRun [A.location_, B.location_] s0 0 s it)
    (hs : s.shells_ = pre ++ A :: mid ++ B :: post) (hit : it = pre.length)
    (hfree : ∀ sh ∈ pre ++ mid ++ post,
      sh.location_ ≠ A.location_ ∧ sh.location_ ≠ B.location_)
    (hAB : A.location_ ≠ B.location_)
    (hopp : A.direction_.toNat = (B.direction_.toNat + 4) % 8)
    (hcA : cellAt s.gameboard_ A.location_.1 A.location_.2 = '*')
    (hcB : cellAt s.gameboard_ B.location_.1 B.location_.2 = '*')
    (hmA : A.aboveMine_ = false) (hmB : B.aboveMine_ = false)
    (hmeet :
      (nextLocation s A.location_.1 A.location_.2 A.direction_ false = B.location_ ∧
        nextLocation s B.location_.1 B.location_.2 B.direction_ false = A.location_) ∨
      (nextLocation s A.location_.1 A.location_.2 A.direction_ false = g ∧
        nextLocation s B.location_.1 B.location_.2 B.direction_ false = g ∧
        cellAt s.gameboard_ g.1 g.2 = ' ' ∧
        (∀ sh ∈ pre ++ mid ++ post, sh.location_ ≠ g) ∧
        QuietRun [A.location_, B.location_, g] (moveShellsStep s it).1 (it + 1) sm j ∧
        sm.shells_[j]? = some B)) :
    (∃ l1 l2 l3, s0.shells_ = l1 ++ A :: l2 ++ B :: l3 ∧
      (exchangeShells A B s0).shells_ = l1 ++ B :: l2 ++ A :: l3) ∧
    (exchangeShells A B s).shells_ = pre ++ B :: mid ++ A :: post ∧
    (∀ fuel, moveShells fuel (exchangeShells A B s0) = moveShells fuel s0) ∧
    (Inv s0 → ∃ r, ∀ fuel, (s0.shells_.length + 1) ^ 2 < fuel →
      moveShells fuel s0 = some r ∧ moveShells fuel (exchangeShells A B s0) = some r) ∧
    (nextLocation s A.location_.1 A.location_.2 A.direction_ false = B.location_ →
      moveShellsStep (exchangeShells A B s) it = moveShellsStep s it ∧
      (moveShellsStep s it).1.shells_ = pre ++ mid ++ post ∧
      (moveShellsStep s it).2.1 = it ∧
      cellAt (moveShellsStep s it).1.gameboard_ A.location_.1 A.location_.2 = ' ' ∧
      cellAt (moveShellsStep s it).1.gameboard_ B.location_.1 B.location_.2 = ' ') ∧
    (nextLocation s A.location_.1 A.location_.2 A.direction_ false = g →
      cellAt s.gameboard_ g.1 g.2 = ' ' →
      (moveShellsStep s it).2 = (it + 1, false) ∧
      (moveShellsStep s it).1.shells_ = pre ++ { A with location_ := g } :: mid ++ B :: post ∧
      ∃ l1 l2 l3,
        sm.shells_ = l1 ++ { A with location_ := g } :: l2 ++ B :: l3 ∧
        j = l1.length + 1 + l2.length ∧
        (moveShellsStep sm j).1.shells_ = l1 ++ l2 ++ l3 ∧
        (moveShellsStep sm j).2.1 = l1.length ∧
        cellAt (moveShellsStep sm j).1.gameboard_ g.1 g.2 = ' ' ∧
        cellAt (moveShellsStep sm j).1.gameboard_ A.location_.1 A.location_.2 = ' ' ∧
        cellAt (moveShellsStep sm j).1.gameboard_ B.location_.1 B.location_.2 = ' ') := by
  subst hit
  have hnulA : cellAt s.gameboard_ A.location_.1 A.location_.2 ≠ NUL := by
    rw [hcA]; decide
  have hnulB : cellAt s.gameboard_ B.location_.1 B.location_.2 ≠ NUL := by
    rw [hcB]; decide
  have hne : ¬ (A.location_.1 = B.location_.1 ∧ A.location_.2 = B.location_.2) :=
    fun h => hAB (Prod.ext h.1 h.2)
  have hne2 : ¬ (B.location_.1 = A.location_.1 ∧ B.location_.2 = A.location_.2) :=
    fun h => hne ⟨h.1.symm, h.2.symm⟩
  have hE : (exchangeShells A B s).shells_ = pre ++ B :: mid ++ A :: post := by
    show s.shells_.map (exchangeShell A B) = _
    rw [hs]
    exact exchange_list A B pre mid post hAB hfree
  -- the pair handled from the iterator on
  have hfin : ∀ fuel, moveShellsLoop fuel (exchangeShells A B s) pre.length =
      moveShellsLoop fuel s pre.length := by
    rcases hmeet with ⟨hnA, hnB⟩ | ⟨hnA, hnB, hg, hfreeg, hq2, hj⟩
    · obtain ⟨e1, _⟩ := pair_adjacent_exchange s A B pre mid post hs hfree hAB hopp hcA hcB
        hmA hmB hnA hnB
      have hlen : (exchangeShells A B s).shells_.length = s.shells_.length := by
        show (s.shells_.map (exchangeShell A B)).length = _
        rw [List.length_map]
      refine moveShellsLoop_of_step_eq s _ _ hlen e1 ?_
      rw [hs]
      simp only [List.length_append, List.length_cons]
      omega
    · exact (pair_gap_exchange s sm j A B pre mid post g hs hfree hfreeg hAB hopp hcA hcB
        hmA hmB hnA hnB hg hq2 hj).2.2.2.2.2.2
  -- the shells on the two cells at the start of the substep
  have hmemA : A.location_ ∈ [A.location_, B.location_] := by simp
  have hmemB : B.location_ ∈ [A.location_, B.location_] := by simp
  have hout : ∀ sh : Shell, sh.location_ ≠ A.location_ ∧ sh.location_ ≠ B.location_ →
      sh.location_ ∉ [A.location_, B.location_] := by
    intro sh h hin
    simp only [List.mem_cons, List.mem_singleton, List.not_mem_nil, or_false] at hin
    exact hin.elim h.1 h.2
  have hfilter := quietRun_filter _ s0 0 s pre.length hq
  rw [hs, filter_of_pair _ A B pre mid post (decide_eq_true hmemA) (decide_eq_true hmemB)
    (fun a ha => decide_eq_false (hout a (hfree a ha)))] at hfilter
  obtain ⟨l1, l2, l3, hl, hothers⟩ := filter_pair_split _ A B s0.shells_ hfilter.symm
  have hE0 : (exchangeShells A B s0).shells_ = l1 ++ B :: l2 ++ A :: l3 := by
    show s0.shells_.map (exchangeShell A B) = _
    rw [hl]
    refine exchange_list A B l1 l2 l3 hAB (fun sh hsh => ?_)
    have h := of_decide_eq_false (hothers sh hsh)
    exact ⟨fun e => h (by rw [e]; exact hmemA), fun e => h (by rw [e]; exact hmemB)⟩
  -- the whole substep
  have hf := replaceShell_fixes A B B A [A.location_, B.location_] hmemA hmemB
  have hf2 := replaceShell_stays A B B A [A.location_, B.location_] hmemB hmemA
  have hall : ∀ fuel, moveShells fuel (exchangeShells A B s0) = moveShells fuel s0 :=
    quietRun_loop (exchangeShell A B) id [A.location_, B.location_] hf hf2
      (fun _ _ _ _ _ => rfl) (fun _ _ _ _ => rfl) s0 0 s pre.length hq hfin
  refine ⟨⟨l1, l2, l3, hl, hE0⟩, hE, hall, ?_, ?_, ?_⟩
  · intro hI
    obtain ⟨r, hr, _⟩ := moveShells_total hI
    exact ⟨r, fun fuel hfuel => ⟨hr fuel hfuel, by rw [hall fuel, hr fuel hfuel]⟩⟩
  · intro hnA
    have hnB : nextLocation s B.location_.1 B.location_.2 B.direction_ false =
        A.location_ := by
      rcases hmeet with ⟨_, hnB⟩ | ⟨hnA2, _, hg, _⟩
      · exact hnB
      · rw [← hnA2, hnA, hcB] at hg
        exact absurd hg (by decide)
    obtain ⟨e1, e2⟩ := pair_adjacent_exchange s A B pre mid post hs hfree hAB hopp hcA hcB
      hmA hmB hnA hnB
    refine ⟨e1, by rw [e2], by rw [e2], ?_, ?_⟩
    · rw [e2]
      simp only []
      rw [cellAt_setCell_ne _ _ _ _ _ _ hne]
      exact cellAt_setCell_same _ _ _ _ hnulA
    · rw [e2]
      simp only []
      exact cellAt_setCell_same _ _ _ _ (onBoard_setCell _ _ _ _ _ _ (by decide) hnulB)
  · intro hnA hg
    rcases hmeet with ⟨hnA2, _⟩ | ⟨_, hnB, _, hfreeg, hq2, hj⟩
    · rw [← hnA, hnA2, hcB] at hg
      exact absurd hg (by decide)
    · obtain ⟨e1, e2, ⟨k1, k2, k3, hsm, _, hjeq, e3⟩, hcA1, hcB1, hcg1, _⟩ :=
        pair_gap_exchange s sm j A B pre mid post g hs hfree hfreeg hAB hopp hcA hcB
          hmA hmB hnA hnB hg hq2 hj
      have hAg := cell_ne_of_marks s.gameboard_ A.location_ g '*' ' ' (by decide) hcA hg
      have hBg := cell_ne_of_marks s.gameboard_ B.location_ g '*' ' ' (by decide) hcB hg
      refine ⟨e1, e2, k1, k2, k3, hsm, ?_, by rw [e3], by rw [e3], ?_, ?_, ?_⟩
      · rw [hjeq]
        simp only [List.length_append, List.length_cons]
        omega
      · rw [e3]
        simp only []
        exact cellAt_setCell_same _ _ _ _ (onBoard_setCell _ _ _ _ _ _ (by decide)
          (by rw [hcg1]; decide))
      · rw [e3]
        simp only []
        rw [cellAt_setCell_ne _ _ _ _ _ _ hAg, cellAt_setCell_ne _ _ _ _ _ _ hne, hcA1]
      · rw [e3]
        simp only []
        rw [cellAt_setCell_ne _ _ _ _ _ _ hBg]
        exact cellAt_setCell_same _ _ _ _ (by rw [hcB1]; decide)

/-- C30 witness.  In the game on `meetMap` every tank shoots in turn 0.  The shell of
tank 0 is first in the list and is moved without looking at the other two; the loop then
stands at the shell of tank 1 at `(1, 1)`, which meets the shell of tank 2 from `(3, 1)` on
the blank cell `(2, 1)`.  In `pairState` the second and the fourth shell of the list lie
face to face, with a shell before, between and after them in the list.  In turn 1 of the
game on `resetMap` the shells of tank 0 and of tank 2 meet on the blank cell `(5, 2)`, and
the shell of tank 1 stands between them in the list. -/
theorem opposite_collision_symmetric_witness :
    (QuietRun [(1, 1), (3, 1)] meetSubstep 0 (moveShellsStep meetSubstep 0).1 1 ∧
      (moveShellsStep meetSubstep 0).1.shells_ =
        [Shell.mk0 2 0 Direction.R] ++ Shell.mk0 1 1 Direction.R :: [] ++
          Shell.mk0 3 1 Direction.L :: [] ∧
      (moveShellsStep meetSubstep 0).1.gameboard_ =
        [['2', ' ', '*', ' ', ' '], ['2', '*', ' ', '*', '1']]) ∧
    (∀ fuel, moveShells fuel
        (exchangeShells (Shell.mk0 1 1 Direction.R) (Shell.mk0 3 1 Direction.L) meetSubstep) =
      moveShells fuel meetSubstep) ∧
    (moveShells 20 meetSubstep).map (fun s => (s.gameboard_, s.shells_)) =
      some ([['2', ' ', '*', ' ', ' '], ['2', ' ', ' ', ' ', '1']],
        [Shell.mk0 2 0 Direction.R]) ∧
    (QuietRun [(1, 2), (2, 2)] pairState 0 (moveShellsStep pairState 0).1 1 ∧
      (moveShellsStep pairState 0).1.shells_ =
        [Shell.mk0 1 0 Direction.R] ++ Shell.mk0 1 2 Direction.R ::
          [Shell.mk0 2 4 Direction.U] ++ Shell.mk0 2 2 Direction.L ::
          [Shell.mk0 4 0 Direction.D]) ∧
    (∀ fuel, moveShells fuel
        (exchangeShells (Shell.mk0 1 2 Direction.R) (Shell.mk0 2 2 Direction.L) pairState) =
      moveShells fuel pairState) ∧
    (moveShells 20 pairState).map (fun s => (s.gameboard_, s.shells_)) =
      some ([[' ', '*', ' ', ' ', ' '], [' ', ' ', ' ', ' ', '*'], [' ', ' ', ' ', ' ', ' '],
          [' ', ' ', '*', ' ', ' '], [' ', ' ', ' ', ' ', ' ']],
        [Shell.mk0 1 0 Direction.R, Shell.mk0 2 3 Direction.U, Shell.mk0 4 1 Direction.D]) ∧
    (resetShots.shells_ =
        [] ++ Shell.mk0 6 2 Direction.L :: [Shell.mk0 2 3 Direction.D] ++
          Shell.mk0 4 2 Direction.R :: [] ∧
      QuietRun [(6, 2), (4, 2), (5, 2)] (moveShellsStep resetShots 0).1 1
        (moveShellsStep (moveShellsStep resetShots 0).1 1).1 2) ∧
    (∀ fuel, moveShells fuel
        (exchangeShells (Shell.mk0 6 2 Direction.L) (Shell.mk0 4 2 Direction.R) resetShots) =
      moveShells fuel resetShots) ∧
    (moveShells 20 resetShots).map (fun s => s.shells_) =
      some [Shell.mk0 2 0 Direction.D] := by
  have e1 : (moveShellsStep meetSubstep 0).2.1 = 1 := by decide!
  have q1 : QuietRun [(1, 1), (3, 1)] meetSubstep 0 (moveShellsStep meetSubstep 0).1 1 :=
    QuietRun.next meetSubstep 0 _ 1 (by decide!) (by decide!) (by decide!) (by decide!)
      (e1 ▸ QuietRun.here _ _)
  have e2 : (moveShellsStep pairState 0).2.1 = 1 := by decide!
  have q2 : QuietRun [(1, 2), (2, 2)] pairState 0 (moveShellsStep pairState 0).1 1 :=
    QuietRun.next pairState 0 _ 1 (by decide!) (by decide!) (by decide!) (by decide!)
      (e2 ▸ QuietRun.here _ _)
  have e3 : (moveShellsStep (moveShellsStep resetShots 0).1 1).2.1 = 2 := by decide!
  have q3 : QuietRun [(6, 2), (4, 2), (5, 2)] (moveShellsStep resetShots 0).1 1
      (moveShellsStep (moveShellsStep resetShots 0).1 1).1 2 :=
    QuietRun.next (moveShellsStep resetShots 0).1 1 _ 2 (by decide!) (by decide!) (by decide!)
      (by decide!) (e3 ▸ QuietRun.here _ _)
  have hs1 : (moveShellsStep meetSubstep 0).1.shells_ =
      [Shell.mk0 2 0 Direction.R] ++ Shell.mk0 1 1 Direction.R :: [] ++
        Shell.mk0 3 1 Direction.L :: [] := by decide!
  have hs2 : (moveShellsStep pairState 0).1.shells_ =
      [Shell.mk0 1 0 Direction.R] ++ Shell.mk0 1 2 Direction.R ::
        [Shell.mk0 2 4 Direction.U] ++ Shell.mk0 2 2 Direction.L ::
        [Shell.mk0 4 0 Direction.D] := by decide!
  have hs3 : resetShots.shells_ =
      [] ++ Shell.mk0 6 2 Direction.L :: [Shell.mk0 2 3 Direction.D] ++
        Shell.mk0 4 2 Direction.R :: [] := by decide!
  exact ⟨⟨q1, hs1, by decide!⟩,
    (opposite_collision_symmetric meetSubstep (moveShellsStep meetSubstep 0).1
      (moveShellsStep (moveShellsStep meetSubstep 0).1 1).1 1 2
      (Shell.mk0 1 1 Direction.R) (Shell.mk0 3 1 Direction.L) [Shell.mk0 2 0 Direction.R] []
      [] (2, 1) q1 hs1 rfl (by decide) (by decide) (by decide) (by decide!) (by decide!) rfl
      rfl (Or.inr ⟨by decide!, by decide!, by decide!, by decide, QuietRun.here _ _,
        by decide!⟩)).2.2.1,
    by decide!,
    ⟨q2, hs2⟩,
    (opposite_collision_symmetric pairState (moveShellsStep pairState 0).1 pairState 1 0
      (Shell.mk0 1 2 Direction.R) (Shell.mk0 2 2 Direction.L) [Shell.mk0 1 0 Direction.R]
      [Shell.mk0 2 4 Direction.U] [Shell.mk0 4 0 Direction.D] (0, 0) q2 hs2 rfl (by decide)
      (by decide) (by decide) (by decide!) (by decide!) rfl rfl
      (Or.inl ⟨by decide!, by decide!⟩)).2.2.1,
    by decide!,
    ⟨hs3, q3⟩,
    (opposite_collision_symmetric resetShots resetShots
      (moveShellsStep (moveShellsStep resetShots 0).1 1).1 0 2
      (Shell.mk0 6 2 Direction.L) (Shell.mk0 4 2 Direction.R) []
      [Shell.mk0 2 3 Direction.D] [] (5, 2) (QuietRun.here _ _) hs3 rfl (by decide)
      (by decide) (by decide) (by decide!) (by decide!) rfl rfl
      (Or.inr ⟨by decide!, by decide!, by decide!, by decide, q3, by decide!⟩)).2.2.1,
    by decide!⟩

end TankGame
